import Mathlib

/-! The shady IR core: arena, interner and the `lower_tailcalls` pass.

A shallow embedding of `src/arena.c` and `src/passes/lower_tailcalls.c`,
followed by the theorems about them.  The first part models the arena down to
its memory; the second part models the IR as values and the pass as a
computation over an explicit context.

Conventions of the embedding.

* A C function that can abort (a failed `assert`, `error(...)`) or run into
  undefined behaviour (an access outside the object it indexes) returns
  `Except Fault _`; the state it works on is passed explicitly.
* `size_t` is a `Nat` reduced modulo `2^64` where the C arithmetic can wrap,
  `uint32_t` a `Nat` reduced modulo `2^32`.
* The two platform constants the arena uses, `sizeof(max_align_t)` and the
  size of a pointer, are the fields of `Abi`.
* A pointer into the arena is a `Ptr`: the block it points into and the byte
  offset inside that block.
* Code that the sources call but do not contain (the hash table, the node
  constructors, the rewriter, the block builder) is modelled from the
  specification; each such definition says so.
-/

namespace Shady

/-! ## Faults -/

/-- The ways in which the C code stops without returning a value. -/
inductive Fault where
  /-- A failed `assert`; the number is the line of the assertion in its file. -/
  | assertion (line : Nat)
  /-- A read or write outside the object that is indexed, or through `NULL`. -/
  | out_of_bounds
  /-- The macro `error(...)`: prints and terminates the process. -/
  | error
  /-- The recursion budget of the model is used up (not a behaviour of the C code). -/
  | out_of_fuel
  deriving DecidableEq, Repr

/-! ## Platform constants -/

/-- The platform constants of `arena.c`: `sizeof(max_align_t)` and `sizeof(void*)`. -/
structure Abi where
  max_align : Nat
  ptr_size : Nat
  deriving DecidableEq, Repr

/-- A 64-bit target for the examples: `sizeof(max_align_t) = 16`, pointers of
8 bytes.  The constants differ between platforms (with gcc and glibc on x86-64
the size of `max_align_t` is 32); the theorems about the arena hold for every
`Abi`, only the examples are evaluated with this one. -/
def abi64 : Abi := { max_align := 16, ptr_size := 8 }

/-- Embeds `size_t` arithmetic wraps modulo `2^64`. -/
def size_mod : Nat := 2 ^ 64

/-- Embeds `#define alloc_size 1024 * 1024`. -/
def alloc_size : Nat := 1024 * 1024

/-! ## Arena state -/

/-- A pointer into arena memory: the block (numbered in the order in which the
blocks were obtained from `malloc`) and the byte offset inside it. -/
structure Ptr where
  block : Nat
  off : Nat
  deriving DecidableEq, Repr

/-- What a C pointer refers to: `NULL`, a place in arena memory, or an object
of the caller (a local array, a string literal, a token inside the source
text), given by the cells that follow the pointer. -/
inductive Ref where
  | null
  | arena (p : Ptr)
  | ext (cells : List Nat)
  deriving DecidableEq, Repr

/-- Embeds `Nodes`: a count and a pointer to `count` node pointers. -/
structure Nodes where
  count : Nat
  nodes : Ref
  deriving DecidableEq, Repr

/-- Embeds `Strings`: a count and a pointer to `count` string pointers. -/
structure Strings where
  count : Nat
  strings : Ref
  deriving DecidableEq, Repr

/-- Arena memory.  `mem b o` is the content of the cell that starts at byte
`o` of block `b`: a byte for character data, a pointer value for the cells of a
pointer array (which start `ptr_size` bytes apart).  `none` is memory that was
never written since `malloc` returned it. -/
abbrev Mem := Nat → Nat → Option Nat

/-- Embeds `IrArena`.  `blocks` is the block-pointer array, one entry per pointer slot
that fits into its allocation; an entry is the number of the block the slot
points to, or `none` for a slot that holds no block pointer.  The three intern
sets hold their keys in insertion order (see `find_key_dict`). -/
structure IrArena where
  nblocks : Nat
  maxblocks : Nat
  blocks : List (Option Nat)
  available : Nat
  next_free_id : Nat
  string_set : List Ref
  nodes_set : List Nodes
  strings_set : List Strings
  mem : Mem

/-- Embeds `new_arena`: no block yet, 256 block-pointer slots (allocated as
`256 * sizeof(size_t)` bytes and then all set to `NULL`), empty intern sets,
`next_free_id = 0`. -/
def new_arena : IrArena :=
  { nblocks := 0
    maxblocks := 256
    blocks := List.replicate 256 none
    available := 0
    next_free_id := 0
    string_set := []
    nodes_set := []
    strings_set := []
    mem := fun _ _ => none }

/-! ## `fresh_id` -/

/-- Embeds `fresh_id`: `return arena->next_free_id++;` on a 32-bit unsigned counter. -/
def fresh_id (arena : IrArena) : Nat × IrArena :=
  (arena.next_free_id, { arena with next_free_id := (arena.next_free_id + 1) % 2 ^ 32 })

/-- The ids returned by `k` successive calls of `fresh_id`, oldest first, and
the arena after them. -/
def fresh_ids : Nat → IrArena → List Nat × IrArena
  | 0, arena => ([], arena)
  | k + 1, arena =>
    let r := fresh_id arena
    let rest := fresh_ids k r.2
    (r.1 :: rest.1, rest.2)

/-! ## `arena_alloc` -/

/-- Embeds `round_up(a, b)`: `(a + b - 1) / b * b` in `size_t` arithmetic. -/
def round_up (a b : Nat) : Nat :=
  ((a + b - 1) % size_mod / b * b) % size_mod

/-- Embeds `realloc(blocks, bytes)` on the block-pointer array: the new array has
room for `bytes / ptr_size` pointers; the slots that exist in both keep their
content, further slots are not initialised. -/
def realloc_blocks (abi : Abi) (blocks : List (Option Nat)) (bytes : Nat) : List (Option Nat) :=
  let slots := bytes / abi.ptr_size
  blocks.take slots ++ List.replicate (slots - blocks.length) none

/-- Embeds `memset(allocated, 0, size)` inside block `b`. -/
def memset_zero (mem : Mem) (b off size : Nat) : Mem :=
  fun b1 o => if b1 = b ∧ off ≤ o ∧ o < off + size then some 0 else mem b1 o

/-- The first half of `arena_alloc`, taken when `size > arena->available`:
the assertion on the block count, the growth of the block-pointer array and
the new block.  The new block is `malloc(alloc_size)`: its number is the number
of blocks obtained before it and its content is not initialised. -/
def arena_new_block (abi : Abi) (arena : IrArena) : Except Fault IrArena :=
  if ¬ arena.nblocks ≤ arena.maxblocks then .error (.assertion 78)
  else
    let arena :=
      if arena.nblocks = arena.maxblocks then
        { arena with
          maxblocks := arena.maxblocks * 2
          blocks := realloc_blocks abi arena.blocks (arena.maxblocks * 2) }
      else arena
    if arena.nblocks < arena.blocks.length then
      .ok { arena with
            blocks := arena.blocks.set arena.nblocks (some arena.nblocks)
            nblocks := arena.nblocks + 1
            available := alloc_size
            mem := fun b o => if b = arena.nblocks then none else arena.mem b o }
    else .error .out_of_bounds

/-- Embeds `arena_alloc`.  Returns `NULL` (`none`) for a request that rounds to 0. -/
def arena_alloc (abi : Abi) (arena : IrArena) (size : Nat) : Except Fault (Option Ptr × IrArena) :=
  let size := round_up size abi.max_align
  if size = 0 then .ok (none, arena)
  else
    let grown := if size > arena.available then arena_new_block abi arena else .ok arena
    match grown with
    | .error e => .error e
    | .ok arena =>
      if ¬ size ≤ arena.available then .error (.assertion 89)
      else
        let in_block := (alloc_size + size_mod - arena.available) % size_mod
        if arena.nblocks = 0 then .error .out_of_bounds
        else
          match arena.blocks.get? (arena.nblocks - 1) with
          | some (some b) =>
            if in_block + size ≤ alloc_size then
              .ok (some ⟨b, in_block⟩,
                   { arena with
                     mem := memset_zero arena.mem b in_block size
                     available := arena.available - size })
            else .error .out_of_bounds
          | _ => .error .out_of_bounds

/-! ## Memory access -/

/-- Reads `n` cells, `stride` bytes apart, starting at byte `off` of block `b`. -/
def load_cells (mem : Mem) (b off stride : Nat) : Nat → Option (List Nat)
  | 0 => some []
  | n + 1 =>
    match mem b off, load_cells mem b (off + stride) stride n with
    | some v, some vs => some (v :: vs)
    | _, _ => none

/-- Reads `n` cells through a pointer; `none` when a cell cannot be read. -/
def load (mem : Mem) (stride : Nat) (r : Ref) (n : Nat) : Option (List Nat) :=
  if n = 0 then some []
  else
    match r with
    | .null => none
    | .ext cells => if n ≤ cells.length then some (cells.take n) else none
    | .arena p => load_cells mem p.block p.off stride n

/-- Writes the cells `vals`, `stride` bytes apart, starting at byte `off` of block `b`. -/
def store_cells (mem : Mem) (b off stride : Nat) (vals : List Nat) : Mem :=
  fun b1 o =>
    if b1 = b ∧ off ≤ o ∧ (o - off) % stride = 0 then
      match vals.get? ((o - off) / stride) with
      | some v => some v
      | none => mem b1 o
    else mem b1 o

/-- The content of a C string held in a caller's buffer: the bytes before the first NUL
(the end of the list counts as a NUL). -/
def cstr (buf : List Nat) : List Nat := buf.takeWhile (fun c => c ≠ 0)

/-- Embeds `strlen` of a caller's buffer. -/
def strlen (buf : List Nat) : Nat := (cstr buf).length

/-- Reads the C string that starts at byte `off` of block `b`, looking at no
more than `fuel` bytes. -/
def load_cstr (mem : Mem) (b off : Nat) : Nat → Option (List Nat)
  | 0 => none
  | fuel + 1 =>
    match mem b off with
    | none => none
    | some c =>
      if c = 0 then some []
      else
        match load_cstr mem b (off + 1) fuel with
        | some cs => some (c :: cs)
        | none => none

/-- The content of the C string a pointer refers to; `none` when it cannot be
read (a null pointer, uninitialised bytes, no NUL before the end of the block). -/
def load_str (mem : Mem) (r : Ref) : Option (List Nat) :=
  match r with
  | .null => none
  | .ext cells => some (cstr cells)
  | .arena p => load_cstr mem p.block p.off (alloc_size - p.off)

/-- Embeds `strncpy(dst, src, n)`: the `n` bytes written to `dst`. -/
def strncpy (src : List Nat) (n : Nat) : List Nat :=
  (cstr src).take n ++ List.replicate (n - strlen src) 0

/-! ## Intern sets -/

/-- Modelled from the spec: `find_key_dict` of the hash table (`dict.h` is not
part of the sources).  The spec's intern set "canonicalizes structurally equal
values to a single address": the lookup yields a stored key that the set's
comparison function `cmp` finds equal to the probe, if there is one.  The hash
functions of `arena.c` hash exactly the bytes the comparison functions compare,
so equal keys have equal hashes and the hash does not change the outcome; the
stored keys are searched in insertion order. -/
def find_key_dict {κ : Type} (cmp : κ → Except Fault Bool) : List κ → Except Fault (Option κ)
  | [] => .ok none
  | k :: ks =>
    match cmp k with
    | .error e => .error e
    | .ok true => .ok (some k)
    | .ok false => find_key_dict cmp ks

/-- Modelled from the spec: `insert_set_get_result` of the hash table
(`dict.h` is not part of the sources): adds the key unless a stored key is
equal to it, and tells whether it added it. -/
def insert_set_get_result {κ : Type} (cmp : κ → Except Fault Bool) (set : List κ) (key : κ) :
    Except Fault (Bool × List κ) :=
  match find_key_dict cmp set with
  | .error e => .error e
  | .ok (some _) => .ok (false, set)
  | .ok none => .ok (true, set ++ [key])

/-- Embeds `compare_string`: equal lengths and `strcmp(...) == 0`. -/
def compare_string (mem : Mem) (a b : Ref) : Except Fault Bool :=
  match load_str mem a, load_str mem b with
  | some x, some y => .ok (x.length == y.length && x == y)
  | _, _ => .error .out_of_bounds

/-- Embeds `compare_nodes`: equal counts and, unless both are empty, equal pointer
sequences (`memcmp` over `count` pointers). -/
def compare_nodes (abi : Abi) (mem : Mem) (a b : Nodes) : Except Fault Bool :=
  if a.count ≠ b.count then .ok false
  else if a.count = 0 ∧ b.count = 0 then .ok true
  else if a.nodes = .null ∨ b.nodes = .null then .error (.assertion 200)
  else
    match load mem abi.ptr_size a.nodes a.count, load mem abi.ptr_size b.nodes a.count with
    | some x, some y => .ok (x == y)
    | _, _ => .error .out_of_bounds

/-! ## Interning of node lists and strings -/

/-- Embeds `nodes(arena, count, in_nodes)`.  The probe `tmp` points to the caller's
array; the lookup hashes it (`hash_nodes` reads its `count` pointers) and
compares it with the stored lists; a list that is not found is copied into
arena memory and inserted. -/
def nodes (abi : Abi) (arena : IrArena) (count : Nat) (in_nodes : Ref) :
    Except Fault (Nodes × IrArena) :=
  let tmp : Nodes := { count := count, nodes := in_nodes }
  match load arena.mem abi.ptr_size in_nodes count with
  | none => .error .out_of_bounds
  | some xs =>
    match find_key_dict (fun stored => compare_nodes abi arena.mem stored tmp) arena.nodes_set with
    | .error e => .error e
    | .ok (some found) => .ok (found, arena)
    | .ok none =>
      match arena_alloc abi arena (abi.ptr_size * count % size_mod) with
      | .error e => .error e
      | .ok (none, arena) =>
        if count = 0 then
          let new_nodes : Nodes := { count := count, nodes := .null }
          match insert_set_get_result (fun stored => compare_nodes abi arena.mem stored new_nodes)
              arena.nodes_set new_nodes with
          | .error e => .error e
          | .ok r => .ok (new_nodes, { arena with nodes_set := r.2 })
        else .error .out_of_bounds
      | .ok (some p, arena) =>
        if p.off + abi.ptr_size * count ≤ alloc_size then
          let arena := { arena with mem := store_cells arena.mem p.block p.off abi.ptr_size xs }
          let new_nodes : Nodes := { count := count, nodes := .arena p }
          match insert_set_get_result (fun stored => compare_nodes abi arena.mem stored new_nodes)
              arena.nodes_set new_nodes with
          | .error e => .error e
          | .ok r => .ok (new_nodes, { arena with nodes_set := r.2 })
        else .error .out_of_bounds

/-- Embeds `string_impl(arena, size, zero_terminated)`: looks the whole C string
`zero_terminated` up; when it is not found, allocates `strlen + 1` bytes,
copies `size` bytes with `strncpy`, writes the NUL at index `size` and inserts
the copy. -/
def string_impl (abi : Abi) (arena : IrArena) (size : Nat) (zero_terminated : Ref) :
    Except Fault (Ref × IrArena) :=
  match load_str arena.mem zero_terminated with
  | none => .error .out_of_bounds
  | some src =>
    match find_key_dict (fun stored => compare_string arena.mem stored zero_terminated)
        arena.string_set with
    | .error e => .error e
    | .ok (some found) => .ok (found, arena)
    | .ok none =>
      match arena_alloc abi arena (src.length + 1) with
      | .error e => .error e
      | .ok (none, _) => .error .out_of_bounds
      | .ok (some p, arena) =>
        if p.off + size + 1 ≤ alloc_size then
          let arena := { arena with mem := store_cells arena.mem p.block p.off 1 (strncpy src size ++ [0]) }
          match insert_set_get_result (fun stored => compare_string arena.mem stored (.arena p))
              arena.string_set (.arena p) with
          | .error e => .error e
          | .ok r => .ok (.arena p, { arena with string_set := r.2 })
        else .error .out_of_bounds

/-- Embeds `string_sized(arena, size, str)`: builds the NUL-terminated copy `new_str`
of the first `size` bytes on the stack, asserts its length, and then calls
`string_impl(arena, size, str)` with the caller's buffer `str`. -/
def string_sized (abi : Abi) (arena : IrArena) (size : Nat) (str : Ref) :
    Except Fault (Ref × IrArena) :=
  match load_str arena.mem str with
  | none => .error .out_of_bounds
  | some src =>
    let new_str := strncpy src size ++ [0]
    if strlen new_str = size then string_impl abi arena size str
    else .error (.assertion 164)

/-- Embeds `string(arena, str)`: `string_impl(arena, strlen(str), str)`. -/
def string (abi : Abi) (arena : IrArena) (str : Ref) : Except Fault (Ref × IrArena) :=
  match load_str arena.mem str with
  | none => .error .out_of_bounds
  | some src => string_impl abi arena src.length str

/-- Embeds `format_string(arena, fmt, ...)`, given the text `rendered` that the
format and its arguments render to: `vsnprintf(tmp, 64, ...)` leaves the first
63 bytes of the text in `tmp` and returns the length of the whole text, and
`string_impl(arena, len, tmp)` interns. -/
def format_string (abi : Abi) (arena : IrArena) (rendered : List Nat) :
    Except Fault (Ref × IrArena) :=
  let tmp := rendered.take 63
  let len := rendered.length
  string_impl abi arena len (.ext tmp)

/-- The bytes of a text. -/
def bytes (s : String) : List Nat := s.toList.map Char.toNat

/-- What `%d` prints for a `VarId` passed to a variadic function: the 32 bits
read as a signed `int`. -/
def render_d (id : Nat) : List Nat :=
  if id < 2 ^ 31 then bytes (Nat.repr id) else bytes "-" ++ bytes (Nat.repr (2 ^ 32 - id))

/-- Embeds `unique_name(arena, str)`: `format_string(arena, "%s_%d", str, fresh_id(arena))`. -/
def unique_name (abi : Abi) (arena : IrArena) (str : Ref) : Except Fault (Ref × IrArena) :=
  let r := fresh_id arena
  match load_str r.2.mem str with
  | none => .error .out_of_bounds
  | some src => format_string abi r.2 (src ++ bytes "_" ++ render_d r.1)


/-! ## Well-formed arena states -/

/-- The arena states that `new_arena` and successful calls of `arena_alloc`
produce: no more blocks than slots, one slot per `maxblocks`, the i-th slot
points to the i-th block, and `available` is the free tail of the last block. -/
def IrArena.wf (a : IrArena) : Prop :=
  a.nblocks ≤ a.maxblocks ∧ a.blocks.length = a.maxblocks ∧ a.available ≤ alloc_size ∧
  (a.nblocks = 0 → a.available = 0) ∧ ∀ i, i < a.nblocks → a.blocks.get? i = some (some i)

/-- The arena after the successive requests `sizes`, or the first fault. -/
def arena_allocs (abi : Abi) : IrArena → List Nat → Except Fault IrArena
  | arena, [] => .ok arena
  | arena, size :: sizes =>
    match arena_alloc abi arena size with
    | .error e => .error e
    | .ok r => arena_allocs abi r.2 sizes

/-! ## The invariant of the node-list intern set -/

/-- The pointer sequence of a list, read through its storage pointer. -/
def Nodes.cells (abi : Abi) (mem : Mem) (s : Nodes) : Option (List Nat) :=
  load mem abi.ptr_size s.nodes s.count

/-- The cell at byte `o` of block `b` lies in memory the arena has handed out. -/
def IrArena.used (a : IrArena) (b o : Nat) : Prop :=
  b < a.nblocks ∧ o < alloc_size ∧ (b + 1 = a.nblocks → o + a.available < alloc_size)

/-- A stored list as `nodes` creates it: the empty list with a null storage
pointer, or a list whose pointer cells lie in handed-out arena memory and can
be read. -/
def IrArena.holds (abi : Abi) (a : IrArena) (s : Nodes) : Prop :=
  (s.count = 0 ∧ s.nodes = .null) ∨
  ∃ p xs, 0 < s.count ∧ s.nodes = .arena p ∧
    load_cells a.mem p.block p.off abi.ptr_size s.count = some xs ∧
    ∀ i, i < s.count → a.used p.block (p.off + abi.ptr_size * i)

/-- The invariant of the node-list intern set: the arena is well-formed, every
stored list is one that `nodes` created, and no two stored lists have the same
pointer sequence. -/
def IrArena.nodes_wf (abi : Abi) (a : IrArena) : Prop :=
  a.wf ∧ (∀ s, s ∈ a.nodes_set → a.holds abi s) ∧
  a.nodes_set.Pairwise (fun s t => Nodes.cells abi a.mem s ≠ Nodes.cells abi a.mem t)

/-- The arena `a2` is a later state of the arena `a`: the lists stored in `a`
are still stored and still have their pointer sequences. -/
def IrArena.nodes_ext (abi : Abi) (a a2 : IrArena) : Prop :=
  ∀ s, s ∈ a.nodes_set → s ∈ a2.nodes_set ∧ Nodes.cells abi a2.mem s = Nodes.cells abi a.mem s

/-! ## The IR

Nodes are immutable values; a list of nodes (`Nodes`) is the list of its
elements, which is what interning makes of it.  `Function` nodes are the
exception: they are created first and get their body later, so a function
is referred to by a pointer, `Node.fn`, into the table of functions of its
arena. -/

/-- Embeds `AddressSpace`. -/
inductive AddressSpace where
  | AsGeneric | AsFunctionLogical | AsPrivateLogical | AsSharedLogical | AsGlobalLogical
  | AsPrivatePhysical | AsSubgroupPhysical | AsSharedPhysical | AsGlobalPhysical
  | AsInput | AsOutput | AsExternal | AsProgramCode
  deriving DecidableEq, Repr

/-- Embeds `IntSizes`: the widths of integer types and literals. -/
inductive IntSizes where
  | IntTy8 | IntTy16 | IntTy32 | IntTy64
  deriving DecidableEq, Repr

/-- The primops that the sources name. -/
inductive Op where
  | add_op | sub_op | mul_op | div_op | mod_op | neg_op
  | eq_op | neq_op | lt_op | lte_op | gt_op | gte_op
  | not_op | and_op | or_op | xor_op
  | convert_op | reinterpret_op
  | load_op | store_op | alloca_op | lea_op | select_op | subscript_op
  | push_stack_op | pop_stack_op | subgroup_active_mask_op
  deriving DecidableEq, Repr

/-- Embeds `BranchMode`. -/
inductive BranchMode where
  | BrJump | BrIfElse | BrSwitch | BrTailcall
  deriving DecidableEq, Repr

/-- The construct a `MergeConstruct` terminator leaves. -/
inductive MergeWhat where
  | Selection | Continue | Break
  deriving DecidableEq, Repr

/-- Embeds `EntryPointType`. -/
inductive EntryPointType where
  | NotAnEntryPoint | Compute | Fragment | Vertex
  deriving DecidableEq, Repr

/-- Embeds `FnAttributes`. -/
structure FnAttributes where
  is_continuation : Bool
  entry_point_type : EntryPointType
  deriving DecidableEq, Repr

/-- The arena a function pointer points into: the arena the pass reads or the
arena it builds. -/
inductive ArenaId where
  | src | dst
  deriving DecidableEq, Repr

/-- A node pointer: `null`, or the node it points to, given by its tag and
payload; `fn` is a pointer to a `Function` node. -/
inductive Node where
  | null
  | noret_type
  | int_type (width : IntSizes)
  | bool_type
  | float_type
  | mask_type
  | record_type (members : List Node)
  | fn_type (is_continuation : Bool) (param_types : List Node) (return_types : List Node)
  | ptr_type (address_space : AddressSpace) (pointed_type : Node)
  | arr_type (element_type : Node) (size : Node)
  | qualified_type (is_uniform : Bool) (type : Node)
  | var (type : Node) (id : Nat) (name : String)
  | unbound (name : String)
  | untyped_number (plaintext : String)
  | int_literal (width : IntSizes) (value : Int)
  | true_lit
  | false_lit
  | fn_addr (fn : Node)
  | fn (arena : ArenaId) (index : Nat)
  | constant (name : String) (value : Node) (type_hint : Node)
  | global_variable (name : String) (type : Node) (address_space : AddressSpace) (init : Node)
  | let_ (variables_ : List Node) (instruction : Node) (is_mutable : Bool)
  | prim_op (op : Op) (operands : List Node)
  | call_instr (callee : Node) (args : List Node)
  | if_instr (yield_types : List Node) (condition : Node) (if_true : Node) (if_false : Node)
  | match_instr (yield_types : List Node) (inspect : Node) (literals : List Node)
      (cases : List Node) (default_case : Node)
  | loop_instr (params : List Node) (yield_types : List Node) (initial_args : List Node)
      (body : Node)
  | block (instructions : List Node) (terminator : Node)
  | parsed_block (instructions : List Node) (terminator : Node) (continuations_vars : List Node)
      (continuations : List Node)
  | fn_ret (fn : Node) (values : List Node)
  | branch (branch_mode : BranchMode) (yield : Bool) (target : Node) (branch_condition : Node)
      (true_target : Node) (false_target : Node) (switch_value : Node) (default_target : Node)
      (case_values : List Node) (case_targets : List Node) (args : List Node)
  | join (is_indirect : Bool) (join_at : Node) (desired_mask : Node) (args : List Node)
  | callc (is_return_indirect : Bool) (ret_cont : Node) (callee : Node) (args : List Node)
  | merge_construct (construct : MergeWhat) (args : List Node)
  | unreachable
  | root (declarations : List Node)
  deriving Repr

/-- The payload of a `Function` node. -/
structure Function where
  atttributes : FnAttributes
  name : String
  params : List Node
  return_types : List Node
  block : Node
  deriving Repr

/-- The pieces of the content of a node: its tag and the scalar fields of its
payload. -/
inductive Piece where
  | tag (n : Nat)
  | len (n : Nat)
  | nat (n : Nat)
  | int (i : Int)
  | str (s : String)
  | flag (b : Bool)
  | width (w : IntSizes)
  | space (a : AddressSpace)
  | op (o : Op)
  | mode (m : BranchMode)
  | merge (c : MergeWhat)
  | arena (a : ArenaId)
  deriving DecidableEq, Repr

mutual
/-- The content of a node, tag and payload, subnodes included, written out as
a sequence; the tags are numbered in the order of the constructors of `Node`;
a function pointer contributes the identity of the function. -/
def Node.content : Node → List Piece
  | .null => [.tag 0]
  | .noret_type => [.tag 1]
  | .int_type w => [.tag 2, .width w]
  | .bool_type => [.tag 3]
  | .float_type => [.tag 4]
  | .mask_type => [.tag 5]
  | .record_type m => .tag 6 :: .len m.length :: Node.contents m
  | .fn_type c p r =>
    .tag 7 :: .flag c :: .len p.length :: (Node.contents p ++
      .len r.length :: Node.contents r)
  | .ptr_type a p => .tag 8 :: .space a :: Node.content p
  | .arr_type e s => .tag 9 :: (Node.content e ++ Node.content s)
  | .qualified_type u t => .tag 10 :: .flag u :: Node.content t
  | .var t i n => .tag 11 :: .nat i :: .str n :: Node.content t
  | .unbound n => [.tag 12, .str n]
  | .untyped_number n => [.tag 13, .str n]
  | .int_literal w v => [.tag 14, .width w, .int v]
  | .true_lit => [.tag 15]
  | .false_lit => [.tag 16]
  | .fn_addr f => .tag 17 :: Node.content f
  | .fn a i => [.tag 18, .arena a, .nat i]
  | .constant n v t => .tag 19 :: .str n :: (Node.content v ++ Node.content t)
  | .global_variable n t a i =>
    .tag 20 :: .str n :: .space a :: (Node.content t ++ Node.content i)
  | .let_ v i m =>
    .tag 21 :: .flag m :: .len v.length :: (Node.contents v ++ Node.content i)
  | .prim_op o xs => .tag 22 :: .op o :: .len xs.length :: Node.contents xs
  | .call_instr c xs => .tag 23 :: .len xs.length :: (Node.contents xs ++ Node.content c)
  | .if_instr y c t f =>
    .tag 24 :: .len y.length :: (Node.contents y ++ Node.content c ++ Node.content t ++
      Node.content f)
  | .match_instr y i l c d =>
    .tag 25 :: .len y.length :: (Node.contents y ++ Node.content i ++
      .len l.length :: (Node.contents l ++ .len c.length :: (Node.contents c ++ Node.content d)))
  | .loop_instr p y a b =>
    .tag 26 :: .len p.length :: (Node.contents p ++ .len y.length :: (Node.contents y ++
      .len a.length :: (Node.contents a ++ Node.content b)))
  | .block i t => .tag 27 :: .len i.length :: (Node.contents i ++ Node.content t)
  | .parsed_block i t v c =>
    .tag 28 :: .len i.length :: (Node.contents i ++ Node.content t ++
      .len v.length :: (Node.contents v ++ .len c.length :: Node.contents c))
  | .fn_ret f v => .tag 29 :: .len v.length :: (Node.contents v ++ Node.content f)
  | .branch m y t c tt ft s d cv ct a =>
    .tag 30 :: .mode m :: .flag y :: (Node.content t ++ Node.content c ++ Node.content tt ++
      Node.content ft ++ Node.content s ++ Node.content d ++
      .len cv.length :: (Node.contents cv ++ .len ct.length :: (Node.contents ct ++
      .len a.length :: Node.contents a)))
  | .join i j d a =>
    .tag 31 :: .flag i :: .len a.length :: (Node.contents a ++ Node.content j ++
      Node.content d)
  | .callc i r c a =>
    .tag 32 :: .flag i :: .len a.length :: (Node.contents a ++ Node.content r ++
      Node.content c)
  | .merge_construct c a => .tag 33 :: .merge c :: .len a.length :: Node.contents a
  | .unreachable => [.tag 34]
  | .root d => .tag 35 :: .len d.length :: Node.contents d
/-- The contents of the nodes of a list, one after the other. -/
def Node.contents : List Node → List Piece
  | [] => []
  | x :: xs => Node.content x ++ Node.contents xs
end

/-! ## The state of `lower_tailcalls` -/

/-- The part of an `IrArena` the pass works with: the `Function` nodes
allocated in it, in the order of their creation, and the id counter. -/
structure NodeArena where
  fns : List Function
  next_free_id : Nat
  deriving Repr

/-- Embeds `Rewriter`: the two arenas and the dictionary of processed nodes (old node,
new node), in insertion order.  The callback `rewrite_fn` is not a field here:
the functions of the pass take the rewriting of subnodes as an argument. -/
structure Rewriter where
  src_arena : NodeArena
  dst_arena : NodeArena
  processed : List (Node × Node)
  deriving Repr

/-- Embeds `Context` of lower_tailcalls.c. -/
structure Context where
  rewriter : Rewriter
  assigned_fn_ptrs : List (Node × Nat)
  next_fn_ptr : Nat
  god_fn : Node
  next_fn_var : Node
  next_mask_var : Node
  branch_fn : Node
  join_fn : Node
  new_decls : List Node
  deriving Repr

/-- A computation of the pass: it reads and updates the context and returns a
value, or stops with a fault. -/
def Pass (α : Type) : Type := Context → Except Fault (α × Context)

instance : Monad Pass where
  pure a := fun ctx => .ok (a, ctx)
  bind m f := fun ctx =>
    match m ctx with
    | .error e => .error e
    | .ok r => f r.1 r.2

/-- Stops with a fault. -/
def Pass.fault {α : Type} (e : Fault) : Pass α := fun _ => .error e

/-- Reads the context. -/
def Pass.get : Pass Context := fun ctx => .ok (ctx, ctx)

/-- Replaces the context. -/
def Pass.set (ctx : Context) : Pass Unit := fun _ => .ok ((), ctx)

/-- Modelled from the spec: the type check and the type inference of the
constructor of a primop ("type-checks inputs, infers the output type"): the
names and inferred types of the values the primop produces, `none` when the
check of the operands fails.  The node constructors are not part of the
sources; the pass is parametric in them. -/
abbrev Typing := Op → List Node → Option (List (String × Node))

/-! ### Helpers that are not part of the sources -/

/-- Modelled from the spec: `compare_node`, the key comparison of the `Node`
intern set and of the dictionaries of the pass ("keyed by the node's tag and
payload contents"; a declaration is identified by its address). -/
def compare_node (a b : Node) : Bool := decide (a.content = b.content)

/-- Modelled from the spec: `find_processed(rewriter, old)`, the new node
registered for `old`, `NULL` (`none`) when there is none. -/
def find_processed (ctx : Context) (old : Node) : Option Node :=
  match ctx.rewriter.processed.find? (fun e => compare_node e.1 old) with
  | some e => some e.2
  | none => none

/-- Modelled from the spec: `register_processed(rewriter, old, new)`. -/
def register_processed (old new : Node) : Pass Unit := fun ctx =>
  .ok ((), { ctx with rewriter := { ctx.rewriter with
    processed := ctx.rewriter.processed ++ [(old, new)] } })

/-- Modelled from the spec: the constructor `fn(arena, attributes, name,
params, return_types)`: allocates a `Function` node without a body in the
arena and returns the pointer to it. -/
def NodeArena.fn (arena : NodeArena) (atttributes : FnAttributes) (name : String)
    (params return_types : List Node) : Node × NodeArena :=
  let f : Function :=
    { atttributes := atttributes, name := name, params := params,
      return_types := return_types, block := .null }
  (.fn .dst arena.fns.length, { arena with fns := arena.fns ++ [f] })

/-- The constructor `fn` on the destination arena of the pass. -/
def fn (atttributes : FnAttributes) (name : String) (params return_types : List Node) :
    Pass Node := fun ctx =>
  let r := ctx.rewriter.dst_arena.fn atttributes name params return_types
  .ok (r.1, { ctx with rewriter := { ctx.rewriter with dst_arena := r.2 } })

/-- The payload `node->payload.fn` of a pointer to a function. -/
def get_fn (node : Node) : Pass Function := fun ctx =>
  match node with
  | .fn .src i =>
    match ctx.rewriter.src_arena.fns.get? i with
    | some f => .ok (f, ctx)
    | none => .error .out_of_bounds
  | .fn .dst i =>
    match ctx.rewriter.dst_arena.fns.get? i with
    | some f => .ok (f, ctx)
    | none => .error .out_of_bounds
  | _ => .error .out_of_bounds

/-- The assignment `node->payload.fn.block = block` on a function of the
destination arena. -/
def set_fn_block (node : Node) (block : Node) : Pass Unit := fun ctx =>
  match node with
  | .fn .dst i =>
    match ctx.rewriter.dst_arena.fns.get? i with
    | some f =>
      .ok ((), { ctx with rewriter := { ctx.rewriter with
        dst_arena := { ctx.rewriter.dst_arena with
          fns := ctx.rewriter.dst_arena.fns.set i { f with block := block } } } })
    | none => .error .out_of_bounds
  | _ => .error .out_of_bounds

/-- Embeds `nodes(arena, count, array)` on the level of nodes: the list of the first
`count` elements of the caller's array; reading past the array is a fault. -/
def nodes_of (count : Nat) (array : List Node) : Pass (List Node) :=
  if count ≤ array.length then pure (array.take count) else Pass.fault .out_of_bounds

/-- Modelled from the spec: a fresh `Variable` node of the destination arena
(its id comes from `fresh_id`). -/
def fresh_var (name : String) (type : Node) : Pass Node := fun ctx =>
  let id := ctx.rewriter.dst_arena.next_free_id
  .ok (.var type id name,
    { ctx with rewriter := { ctx.rewriter with
      dst_arena := { ctx.rewriter.dst_arena with next_free_id := (id + 1) % 2 ^ 32 } } })

/-- One fresh variable per produced value. -/
def fresh_vars : List (String × Node) → Pass (List Node)
  | [] => pure []
  | out :: outs => do
    let v ← fresh_var out.1 out.2
    let vs ← fresh_vars outs
    pure (v :: vs)

/-- Modelled from the spec: `BlockBuilder`, the instructions appended so far.
`begin_block` is the empty list. -/
abbrev BlockBuilder := List Node

/-- Modelled from the spec: `begin_block(arena)`. -/
def begin_block : BlockBuilder := []

/-- Modelled from the spec: `append_block(builder, instruction)`. -/
def append_block (builder : BlockBuilder) (instruction : Node) : BlockBuilder :=
  builder ++ [instruction]

/-- Modelled from the spec: `finish_block(builder, terminator)`. -/
def finish_block (builder : BlockBuilder) (terminator : Node) : Node :=
  .block builder terminator

/-- Modelled from the spec: `gen_primop(builder, primop)`: constructs the
primop, which ends the process with an error when the type check of the
operands fails, appends it, bound by a `Let` to fresh variables for the values
it produces, and returns these variables. -/
def gen_primop (infer : Typing) (builder : BlockBuilder) (op : Op) (operands : List Node) :
    Pass (BlockBuilder × List Node) :=
  match infer op operands with
  | none => Pass.fault .error
  | some outs => do
    let vars ← fresh_vars outs
    pure (append_block builder (.let_ vars (.prim_op op operands) false), vars)

/-- Modelled from the spec: `gen_load(builder, ptr)`, the variable bound to the
loaded value. -/
def gen_load (infer : Typing) (builder : BlockBuilder) (ptr : Node) :
    Pass (BlockBuilder × Node) := do
  let r ← gen_primop infer builder .load_op [ptr]
  match r.2 with
  | v :: _ => pure (r.1, v)
  | [] => Pass.fault .out_of_bounds

/-- Modelled from the spec: `gen_store(builder, ptr, value)`. -/
def gen_store (infer : Typing) (builder : BlockBuilder) (ptr value : Node) :
    Pass BlockBuilder := do
  let r ← gen_primop infer builder .store_op [ptr, value]
  pure r.1

/-- Modelled from the spec: `gen_push_value_stack(builder, value)`. -/
def gen_push_value_stack (infer : Typing) (builder : BlockBuilder) (value : Node) :
    Pass BlockBuilder := do
  let r ← gen_primop infer builder .push_stack_op [value]
  pure r.1

/-- Modelled from the spec: `gen_pop_value_stack(builder, name, type)`: appends a
pop of a value of the given type, bound to a fresh variable of the given name,
and returns the variable. -/
def gen_pop_value_stack (builder : BlockBuilder) (name : String) (type : Node) :
    Pass (BlockBuilder × Node) := do
  let v ← fresh_var name type
  pure (append_block builder (.let_ [v] (.prim_op .pop_stack_op [type]) false), v)

/-- Modelled from the spec: the inferred type `node->type` of a node, known
for variables. -/
def Node.type : Node → Node
  | .var t _ _ => t
  | _ => .null

/-- Modelled from the spec: `without_qualifier(type)`. -/
def without_qualifier (type : Node) : Pass Node :=
  match type with
  | .null => Pass.fault .out_of_bounds
  | .qualified_type _ t => pure t
  | t => pure t

/-- Embeds `format_string` on the level of nodes: the rendered text, cut to the 63
bytes that fit `tmp[64]`. -/
def format_name (rendered : String) : String := String.mk (rendered.toList.take 63)

/-- Modelled from the spec: `rewrite_nodes(rewriter, nodes)`, given the
rewriting `rw` of one node. -/
def rewrite_nodes (rw : Node → Pass Node) : List Node → Pass (List Node)
  | [] => pure []
  | x :: xs => do
    let y ← rw x
    let ys ← rewrite_nodes rw xs
    pure (y :: ys)

/-- Modelled from the spec: `recreate_node_identity(rewriter, node)`, "walks
every field, recursively rewriting subnodes, and calls the destination-arena
constructor"; `rw` is `rewrite_node`.  Global variables and constants are
recreated like other nodes (header and body at once); for a `Function` the
pass never gets here. -/
def recreate_node_identity (rw : Node → Pass Node) (node : Node) : Pass Node :=
  match node with
  | .null => pure .null
  | .noret_type => pure .noret_type
  | .int_type w => pure (.int_type w)
  | .bool_type => pure .bool_type
  | .float_type => pure .float_type
  | .mask_type => pure .mask_type
  | .record_type m => do
    let m1 ← rewrite_nodes rw m
    pure (.record_type m1)
  | .fn_type c p r => do
    let p1 ← rewrite_nodes rw p
    let r1 ← rewrite_nodes rw r
    pure (.fn_type c p1 r1)
  | .ptr_type a p => do
    let p1 ← rw p
    pure (.ptr_type a p1)
  | .arr_type e s => do
    let e1 ← rw e
    let s1 ← rw s
    pure (.arr_type e1 s1)
  | .qualified_type u t => do
    let t1 ← rw t
    pure (.qualified_type u t1)
  | .var t i n => do
    let t1 ← rw t
    pure (.var t1 i n)
  | .unbound n => pure (.unbound n)
  | .untyped_number n => pure (.untyped_number n)
  | .int_literal w v => pure (.int_literal w v)
  | .true_lit => pure .true_lit
  | .false_lit => pure .false_lit
  | .fn_addr f => do
    let f1 ← rw f
    pure (.fn_addr f1)
  | .fn _ _ => Pass.fault .error
  | .constant n v t => do
    let t1 ← rw t
    let v1 ← rw v
    pure (.constant n v1 t1)
  | .global_variable n t a i => do
    let t1 ← rw t
    let i1 ← rw i
    pure (.global_variable n t1 a i1)
  | .let_ v i m => do
    let i1 ← rw i
    let v1 ← rewrite_nodes rw v
    pure (.let_ v1 i1 m)
  | .prim_op o xs => do
    let xs1 ← rewrite_nodes rw xs
    pure (.prim_op o xs1)
  | .call_instr c xs => do
    let c1 ← rw c
    let xs1 ← rewrite_nodes rw xs
    pure (.call_instr c1 xs1)
  | .if_instr y c t f => do
    let y1 ← rewrite_nodes rw y
    let c1 ← rw c
    let t1 ← rw t
    let f1 ← rw f
    pure (.if_instr y1 c1 t1 f1)
  | .match_instr y i l c d => do
    let y1 ← rewrite_nodes rw y
    let i1 ← rw i
    let l1 ← rewrite_nodes rw l
    let c1 ← rewrite_nodes rw c
    let d1 ← rw d
    pure (.match_instr y1 i1 l1 c1 d1)
  | .loop_instr p y a b => do
    let p1 ← rewrite_nodes rw p
    let y1 ← rewrite_nodes rw y
    let a1 ← rewrite_nodes rw a
    let b1 ← rw b
    pure (.loop_instr p1 y1 a1 b1)
  | .block i t => do
    let i1 ← rewrite_nodes rw i
    let t1 ← rw t
    pure (.block i1 t1)
  | .parsed_block i t v c => do
    let i1 ← rewrite_nodes rw i
    let t1 ← rw t
    let v1 ← rewrite_nodes rw v
    let c1 ← rewrite_nodes rw c
    pure (.parsed_block i1 t1 v1 c1)
  | .fn_ret f v => do
    let f1 ← rw f
    let v1 ← rewrite_nodes rw v
    pure (.fn_ret f1 v1)
  | .branch m y t c tt ft s d cv ct a => do
    let t1 ← rw t
    let c1 ← rw c
    let tt1 ← rw tt
    let ft1 ← rw ft
    let s1 ← rw s
    let d1 ← rw d
    let cv1 ← rewrite_nodes rw cv
    let ct1 ← rewrite_nodes rw ct
    let a1 ← rewrite_nodes rw a
    pure (.branch m y t1 c1 tt1 ft1 s1 d1 cv1 ct1 a1)
  | .join i j d a => do
    let j1 ← rw j
    let d1 ← rw d
    let a1 ← rewrite_nodes rw a
    pure (.join i j1 d1 a1)
  | .callc i r c a => do
    let r1 ← rw r
    let c1 ← rw c
    let a1 ← rewrite_nodes rw a
    pure (.callc i r1 c1 a1)
  | .merge_construct c a => do
    let a1 ← rewrite_nodes rw a
    pure (.merge_construct c a1)
  | .unreachable => pure .unreachable
  | .root d => do
    let d1 ← rewrite_nodes rw d
    pure (.root d1)

/-! ## `lower_tailcalls.c` -/

/-- The conversion of a `uint32_t` to the `int32_t` field `value_i32`. -/
def to_i32 (n : Nat) : Int :=
  if n % 2 ^ 32 < 2 ^ 31 then (n % 2 ^ 32 : Nat) else ((n % 2 ^ 32 : Nat) : Int) - 2 ^ 32

/-- Embeds `fn_ptr_as_value`: the 32-bit integer literal with value `ptr`. -/
def fn_ptr_as_value (ptr : Nat) : Node := .int_literal .IntTy32 (to_i32 ptr)

/-- Modelled from the spec: `find_value_dict` on `assigned_fn_ptrs`. -/
def find_fn_ptr (ctx : Context) (the_function : Node) : Option Nat :=
  match ctx.assigned_fn_ptrs.find? (fun e => compare_node e.1 the_function) with
  | some e => some e.2
  | none => none

/-- Embeds `lower_fn_addr`: the token already assigned to the function, or the next
free token, which is then recorded for it. -/
def lower_fn_addr (the_function : Node) : Pass Node := fun ctx =>
  match the_function with
  | .null => .error .out_of_bounds
  | .fn _ _ =>
    match find_fn_ptr ctx the_function with
    | some found => .ok (fn_ptr_as_value found, ctx)
    | none =>
      let ptr := ctx.next_fn_ptr
      .ok (fn_ptr_as_value ptr,
        { ctx with
          next_fn_ptr := (ctx.next_fn_ptr + 1) % 2 ^ 32
          assigned_fn_ptrs := ctx.assigned_fn_ptrs ++ [(the_function, ptr)] })
  | _ => .error (.assertion 42)

/-- The test `node == NULL`. -/
def Node.is_null : Node → Bool
  | .null => true
  | _ => false

/-- Embeds `push_args_stack`: its loop body is `assert("TODO")`, which always holds;
nothing is appended to the block. -/
def push_args_stack (_args : List Node) (builder : BlockBuilder) : Pass BlockBuilder :=
  pure builder

/-- The first loop of `rewrite_block`: rewrites the instructions in order and
appends them to the builder. -/
def rewrite_instructions (rw : Node → Pass Node) (builder : BlockBuilder) :
    List Node → Pass BlockBuilder
  | [] => pure builder
  | old :: olds => do
    let rewritten ← rw old
    rewrite_instructions rw (append_block builder rewritten) olds

/-- Embeds `rewrite_block`; `rw` is `rewrite_node(&ctx->rewriter, ·)`. -/
def rewrite_block (rw : Node → Pass Node) (old_block : Node) (block_builder : BlockBuilder) :
    Pass Node :=
  match old_block with
  | .block old_instructions old_terminator => do
    let block_builder ← rewrite_instructions rw block_builder old_instructions
    match old_terminator with
    | .null => Pass.fault .out_of_bounds
    | .branch branch_mode _ target _ _ _ _ _ _ _ args =>
      if branch_mode ≠ .BrTailcall then Pass.fault (.assertion 72)
      else do
        let new_args ← rewrite_nodes rw args
        let block_builder ← push_args_stack new_args block_builder
        let target ← rw target
        let ctx ← Pass.get
        let call_args ← nodes_of 2 [target]
        let call := Node.call_instr ctx.join_fn call_args
        let block_builder := append_block block_builder call
        let new_terminator := Node.fn_ret .null []
        pure (finish_block block_builder new_terminator)
    | .join is_indirect join_at desired_mask args =>
      if ¬ is_indirect then Pass.fault (.assertion 88)
      else do
        let new_args ← rewrite_nodes rw args
        let block_builder ← push_args_stack new_args block_builder
        let target ← rw join_at
        let mask ← rw desired_mask
        let ctx ← Pass.get
        let call_args ← nodes_of 2 [target, mask]
        let call := Node.call_instr ctx.join_fn call_args
        let block_builder := append_block block_builder call
        let new_terminator := Node.fn_ret .null []
        pure (finish_block block_builder new_terminator)
    | .callc _ _ _ _ => Pass.fault .error
    | .fn_ret _ _ => Pass.fault .error
    | .unreachable => do
      let new_terminator ← rw old_terminator
      if new_terminator.is_null then Pass.fault (.assertion 113)
      else pure (finish_block block_builder new_terminator)
    | .merge_construct _ _ => do
      let new_terminator ← rw old_terminator
      if new_terminator.is_null then Pass.fault (.assertion 113)
      else pure (finish_block block_builder new_terminator)
    | _ => Pass.fault .error
  | _ => Pass.fault .out_of_bounds

/-- The loop of the entry-point wrapper (line 139): pushes the parameters of
`fun`, last first. -/
def push_params (infer : Typing) (builder : BlockBuilder) : List Node → Pass BlockBuilder
  | [] => pure builder
  | p :: ps => do
    let builder ← push_params infer builder ps
    gen_push_value_stack infer builder p

/-- The loop "Params become stack pops" (line 165) from index `i` on: it runs
over the parameters of `fun`, pops a value of the type of the old parameter of
the same index and registers the old parameter as rewritten to it. -/
def pop_params (rw : Node → Pass Node) (old_params : List Node) (builder : BlockBuilder)
    (i : Nat) : List Node → Pass BlockBuilder
  | [] => pure builder
  | _ :: fun_params =>
    match old_params.get? i with
    | none => Pass.fault .out_of_bounds
    | some old_param => do
      let type ← without_qualifier old_param.type
      let new_type ← rw type
      let r ← gen_pop_value_stack builder (format_name ("arg" ++ toString i)) new_type
      register_processed old_param r.2
      pop_params rw old_params r.1 (i + 1) fun_params

/-- The body of the `if` of `lower_callf_process` for a function that is an
entry point (lines 135 to 158): creates the wrapper with the attributes, the
name and the parameters of the old function, records it as a new declaration
and gives it its block.  `fun_` is the leaf and `fun_fn` its payload. -/
def entry_point_wrapper (infer : Typing) (old_fn : Function) (fun_ : Node) (fun_fn : Function) :
    Pass Unit := do
  let new_entry_pt ← fn old_fn.atttributes old_fn.name old_fn.params []
  let ctx ← Pass.get
  Pass.set { ctx with new_decls := ctx.new_decls ++ [new_entry_pt] }
  let builder ← push_params infer begin_block fun_fn.params
  let fn_ptr ← lower_fn_addr fun_
  let ctx ← Pass.get
  let builder ← gen_store infer builder ctx.next_fn_var fn_ptr
  let r ← gen_primop infer builder .subgroup_active_mask_op []
  match r.2 with
  | [] => Pass.fault .out_of_bounds
  | entry_mask :: _ => do
    let ctx ← Pass.get
    let builder ← gen_store infer r.1 ctx.next_mask_var entry_mask
    let builder := append_block builder (.call_instr ctx.god_fn [])
    set_fn_block new_entry_pt (finish_block builder (.fn_ret .null []))

/-- The case `Function_TAG` of `lower_callf_process`. -/
def lower_function (infer : Typing) (rw : Node → Pass Node) (old : Node) : Pass Node := do
  let old_fn ← get_fn old
  let nattrs : FnAttributes := { old_fn.atttributes with entry_point_type := .NotAnEntryPoint }
  let new_name :=
    if nattrs.is_continuation then old_fn.name else format_name (old_fn.name ++ "_leaf")
  let fun_ ← fn nattrs new_name [] []
  let fun_fn ← get_fn fun_
  let _ ← (if old_fn.atttributes.entry_point_type ≠ .NotAnEntryPoint then
      entry_point_wrapper infer old_fn fun_ fun_fn
    else pure ())
  register_processed old fun_
  let block_builder ← pop_params rw old_fn.params begin_block 0 fun_fn.params
  let new_block ← rewrite_block rw old_fn.block block_builder
  set_fn_block fun_ new_block
  pure fun_

/-- Embeds `lower_callf_process`, the callback of the rewriter; `rw` is
`rewrite_node(&ctx->rewriter, ·)`. -/
def lower_callf_process (infer : Typing) (rw : Node → Pass Node) (old : Node) : Pass Node :=
  match old with
  | .global_variable _ _ _ _ => recreate_node_identity rw old
  | .constant _ _ _ => recreate_node_identity rw old
  | .fn _ _ => lower_function infer rw old
  | .fn_addr f => lower_fn_addr f
  | .block _ _ => rewrite_block rw old begin_block
  | .ptr_type _ pointee =>
    match pointee with
    | .null => Pass.fault .out_of_bounds
    | .fn_type _ _ _ => pure (.int_type .IntTy32)
    | _ => recreate_node_identity rw old
  | _ => recreate_node_identity rw old

/-- Modelled from the spec: `rewrite_node(rewriter, node)`: `NULL` stays
`NULL`; a node registered as processed is replaced by its registered
rewriting; any other node is passed to the callback of the pass, whose calls
of `rewrite_node` are served with one unit of fuel less. -/
def rewrite_node (infer : Typing) : Nat → Node → Pass Node
  | 0, _ => Pass.fault .out_of_fuel
  | fuel + 1, node => fun ctx =>
    if node.is_null then .ok (.null, ctx)
    else
      match find_processed ctx node with
      | some new => .ok (new, ctx)
      | none => lower_callf_process infer (rewrite_node infer fuel) node ctx

/-- The test `node->tag == Function_TAG` on a non-null node. -/
def Node.is_fn : Node → Bool
  | .fn _ _ => true
  | _ => false

/-- The value of `find_processed(&ctx->rewriter, decl)`, `NULL` when nothing is registered. -/
def leaf_of (ctx : Context) (decl : Node) : Node :=
  match find_processed ctx decl with
  | some new => new
  | none => .null

/-- The case of the dispatcher for a leaf: one call of the leaf without
arguments, then `continue`. -/
def leaf_case (leaf : Node) : Node :=
  finish_block (append_block begin_block (.call_instr leaf [])) (.merge_construct .Continue [])

/-- The loop of `generate_top_level_dispatch_fn` over the declarations of the
old root: for each function, in order, the literal of its token and the case
that calls its rewriting and continues. -/
def dispatch_cases (literals cases : List Node) : List Node → Pass (List Node × List Node)
  | [] => pure (literals, cases)
  | decl :: decls =>
    if decl.is_null then Pass.fault .out_of_bounds
    else if decl.is_fn then do
      let ctx ← Pass.get
      let fn_lit ← lower_fn_addr (leaf_of ctx decl)
      let fn_case := leaf_case (leaf_of ctx decl)
      dispatch_cases (literals ++ [fn_lit]) (cases ++ [fn_case]) decls
    else dispatch_cases literals cases decls

/-- Embeds `generate_top_level_dispatch_fn`.  The local `fn_type` of the loop body is
only used by code that is commented out and is left out. -/
def generate_top_level_dispatch_fn (infer : Typing) (old_root : Node) (dispatcher_fn : Node) :
    Pass Unit := do
  let ctx ← Pass.get
  let loaded ← gen_load infer begin_block ctx.next_fn_var
  let loop_body_builder := loaded.1
  let next_function := loaded.2
  let zero_lit := Node.int_literal .IntTy32 0
  let zero_case := Node.block [] (.merge_construct .Break [])
  match old_root with
  | .root declarations =>
    let r ← dispatch_cases [zero_lit] [zero_case] declarations
    let loop_body_builder := append_block loop_body_builder
      (.match_instr [] next_function r.1 r.2 (.block [] .unreachable))
    let loop_body := finish_block loop_body_builder .unreachable
    let dispatcher_body_instructions := [Node.loop_instr [] [] [] loop_body]
    set_fn_block dispatcher_fn (.block dispatcher_body_instructions (.fn_ret .null []))
  | _ => Pass.fault .out_of_bounds

/-- The context `lower_callf` starts from: empty dictionaries, `next_fn_ptr = 1`,
the dispatcher as `god_fn` and first new declaration; the fields that the
initializer does not name are `NULL`. -/
def initial_context (src_arena dst_arena : NodeArena) (dispatcher_fn : Node) : Context :=
  { rewriter := { src_arena := src_arena, dst_arena := dst_arena, processed := [] }
    assigned_fn_ptrs := []
    next_fn_ptr := 1
    god_fn := dispatcher_fn
    next_fn_var := .null
    next_mask_var := .null
    branch_fn := .null
    join_fn := .null
    new_decls := [dispatcher_fn] }

/-- What `lower_callf` does after it has set up its context. -/
def lower_callf_run (infer : Typing) (fuel : Nat) (src_program : Node) (dispatcher_fn : Node) :
    Pass Node := do
  let rewritten ← recreate_node_identity (rewrite_node infer fuel) src_program
  generate_top_level_dispatch_fn infer src_program dispatcher_fn
  match rewritten with
  | .root declarations =>
    let ctx ← Pass.get
    pure (.root (declarations ++ ctx.new_decls))
  | _ => Pass.fault .out_of_bounds

/-- Embeds `lower_callf` (the pass `lower_tailcalls`): returns the new root and the
final context, whose destination arena holds the functions of the new
program.  `fuel` bounds the depth of the rewriting. -/
def lower_callf (infer : Typing) (fuel : Nat) (src_arena dst_arena : NodeArena)
    (src_program : Node) : Except Fault (Node × Context) :=
  let d := dst_arena.fn { entry_point_type := .NotAnEntryPoint, is_continuation := false }
    "top_dispatcher" [] []
  lower_callf_run infer fuel src_program d.1 (initial_context src_arena d.2 d.1)

/-- The literals that successive calls of `lower_fn_addr` return for the
functions `fs`. -/
def lower_fn_addrs : List Node → Pass (List Node)
  | [] => pure []
  | f :: fs => do
    let lit ← lower_fn_addr f
    let lits ← lower_fn_addrs fs
    pure (lit :: lits)

/-- The functions of a sequence of requests in the order in which they are
first met, after those of `seen`. -/
def first_met (seen : List (ArenaId × Nat)) : List (ArenaId × Nat) → List (ArenaId × Nat)
  | [] => seen
  | f :: fs => if f ∈ seen then first_met seen fs else first_met (seen ++ [f]) fs

/-- The pointer to the function `f.2` of the arena `f.1`. -/
def fn_node (f : ArenaId × Nat) : Node := .fn f.1 f.2


/-- The position of the first occurrence of `f` in a list, counted from 0. -/
def position (f : ArenaId × Nat) : List (ArenaId × Nat) → Nat
  | [] => 0
  | g :: gs => if g = f then 0 else position f gs + 1

/-- The dictionary of tokens after the functions `seen` have been met, in this
order, starting from `next_fn_ptr = 1`. -/
def tokens_assigned (ctx : Context) (seen : List (ArenaId × Nat)) : Prop :=
  ctx.next_fn_ptr = (seen.length + 1) % 2 ^ 32 ∧
  ∀ f, find_fn_ptr ctx (fn_node f) = if f ∈ seen then some (position f seen + 1) else none

/-- The `Function` declarations among the declarations of a root, in order. -/
def fn_decls (declarations : List Node) : List Node := declarations.filter Node.is_fn

/-- The body of a function of the destination arena, `none` when the pointer
does not point to one. -/
def dst_block (ctx : Context) (f : Node) : Option Node :=
  match f with
  | .fn .dst i =>
    match ctx.rewriter.dst_arena.fns.get? i with
    | some fn_ => some fn_.block
    | none => none
  | _ => none

/-- A typing without checks, for following the code past the constructors: it
accepts every primop, also a `load` or a `store` through a null pointer, which
the constructors of the spec reject (see `checked_typing`); `store` and
`push_stack` produce no value, every other primop one value, of a type that is
left open. -/
def example_typing : Typing := fun op _ =>
  match op with
  | .store_op => some []
  | .push_stack_op => some []
  | .load_op => some [("loaded", .null)]
  | _ => some [("out", .null)]

/-- Modelled from the spec: the type a pointer operand points to: a variable
whose type is `Ptr{_, T}`, qualified or not, points to `T`, a global variable
to its type; `none` for an operand that is no pointer, as `NULL`. -/
def Node.pointee : Node → Option Node
  | .var (.ptr_type _ t) _ _ => some t
  | .var (.qualified_type _ (.ptr_type _ t)) _ _ => some t
  | .global_variable _ t _ _ => some t
  | _ => none

/-- Modelled from the spec: the rule of `load` ("`load(ptr)`: requires
`Ptr{_, T}`"): the constructor rejects a `load` whose operand is no pointer. -/
def Typing.checks_load (infer : Typing) : Prop :=
  ∀ ptr, ptr.pointee = none → infer .load_op [ptr] = none

/-- Modelled from the spec: a typing with the check of `load`: `load(ptr)`
requires a pointer and produces a value of the type pointed to; `store` and
`push_stack` produce no value, `subgroup_active_mask` a mask, every other
primop one value, of a type that is left open. -/
def checked_typing : Typing := fun op operands =>
  match op with
  | .load_op =>
    match operands with
    | [ptr] =>
      match ptr.pointee with
      | some t => some [("loaded", t)]
      | none => none
    | _ => none
  | .store_op => some []
  | .push_stack_op => some []
  | .subgroup_active_mask_op => some [("out", .mask_type)]
  | _ => some [("out", .null)]

/-- An example program: the compute entry point `main` with one parameter,
whose body holds an `if` and ends in an indirect join at the continuation `k`,
and the continuation `k`, whose body is `unreachable`. -/
def example_src : NodeArena :=
  { fns :=
      [{ atttributes := { is_continuation := false, entry_point_type := .Compute }
         name := "main"
         params := [.var (.qualified_type true (.int_type .IntTy32)) 0 "x"]
         return_types := []
         block := .block
           [.let_ [] (.if_instr [] .true_lit (.block [] (.merge_construct .Selection [])) .null)
             false]
           (.join true (.fn_addr (.fn .src 1)) (.var (.qualified_type true .mask_type) 7 "m") []) },
       { atttributes := { is_continuation := true, entry_point_type := .NotAnEntryPoint }
         name := "k"
         params := []
         return_types := []
         block := .block [] .unreachable }]
    next_free_id := 10 }

/-- The root of the example program. -/
def example_root : Node := .root [.fn .src 0, .fn .src 1]

/-- An empty destination arena. -/
def empty_arena : NodeArena := { fns := [], next_free_id := 0 }

/-- An example context for the dispatcher: the destination arena holds the
dispatcher (function 0) and the leaves of the two functions of the example
program, which are registered as processed. -/
def example_context : Context :=
  { rewriter :=
      { src_arena := example_src
        dst_arena :=
          { fns :=
              [{ atttributes := { is_continuation := false, entry_point_type := .NotAnEntryPoint }
                 name := "top_dispatcher", params := [], return_types := [], block := .null },
               { atttributes := { is_continuation := false, entry_point_type := .NotAnEntryPoint }
                 name := "main_leaf", params := [], return_types := [], block := .null },
               { atttributes := { is_continuation := true, entry_point_type := .NotAnEntryPoint }
                 name := "k", params := [], return_types := [], block := .null }]
            next_free_id := 0 }
        processed := [(.fn .src 0, .fn .dst 1), (.fn .src 1, .fn .dst 2)] }
    assigned_fn_ptrs := []
    next_fn_ptr := 1
    god_fn := .fn .dst 0
    next_fn_var := .null
    next_mask_var := .null
    branch_fn := .null
    join_fn := .null
    new_decls := [.fn .dst 0] }

/-- The node is a global variable of the given name. -/
def Node.is_global_named (name : String) : Node → Bool
  | .global_variable n _ _ _ => n == name
  | _ => false

/-- The declarations of a root. -/
def Node.declarations : Node → List Node
  | .root d => d
  | _ => []

/-! ## The pass up to the generation of the dispatcher -/

/-- The first part of `lower_callf`, lines 276 to 298: the dispatcher is
created, the context is set up and the program is rewritten; the result is the
rewritten root and the context in which `generate_top_level_dispatch_fn` is
called next. -/
def lower_callf_rewritten (infer : Typing) (fuel : Nat) (src_arena dst_arena : NodeArena)
    (src_program : Node) : Except Fault (Node × Context) :=
  let d := dst_arena.fn { entry_point_type := .NotAnEntryPoint, is_continuation := false }
    "top_dispatcher" [] []
  recreate_node_identity (rewrite_node infer fuel) src_program (initial_context src_arena d.2 d.1)

/-- Whenever the computation succeeds, it leaves the field `next_fn_var` of
the context as it is. -/
def Pass.keeps_next_fn_var {α : Type} (m : Pass α) : Prop :=
  ∀ ctx r ctx1, m ctx = .ok (r, ctx1) → ctx1.next_fn_var = ctx.next_fn_var

/-- An example program without entry point and without indirect transfer: the
function `shade` with one parameter, whose body holds an `if` and ends in
`unreachable`, and the continuation `k`, whose body is `unreachable`. -/
def example_plain_src : NodeArena :=
  { fns :=
      [{ atttributes := { is_continuation := false, entry_point_type := .NotAnEntryPoint }
         name := "shade"
         params := [.var (.qualified_type true (.int_type .IntTy32)) 0 "x"]
         return_types := [.int_type .IntTy32]
         block := .block
           [.let_ [] (.if_instr [] .true_lit (.block [] (.merge_construct .Selection [])) .null)
             false]
           .unreachable },
       { atttributes := { is_continuation := true, entry_point_type := .NotAnEntryPoint }
         name := "k"
         params := []
         return_types := []
         block := .block [] .unreachable }]
    next_free_id := 10 }

/-- The fault a computation ended with, `none` when it ended without one. -/
def fault_of {α : Type} (r : Except Fault α) : Option Fault :=
  match r with
  | .ok _ => none
  | .error e => some e

/-- The computation ended without a fault. -/
def is_ok {α : Type} (r : Except Fault α) : Bool :=
  match r with
  | .ok _ => true
  | .error _ => false


/-! ## The leaves and the wrappers that the pass creates -/

/-- The header of a function: its payload without the body. -/
def Function.header (f : Function) : Function := { f with block := .null }

/-- The payload of the function that a node points to, `none` when the node
is no pointer to a function of one of the two arenas. -/
def fn_payload (ctx : Context) (node : Node) : Option Function :=
  match node with
  | .fn .src i => ctx.rewriter.src_arena.fns.get? i
  | .fn .dst i => ctx.rewriter.dst_arena.fns.get? i
  | _ => none

/-- The function `leaf` has the signature of a leaf for the function `old`: no
parameters, no return types, no entry point, and the `is_continuation`
attribute of `old`. -/
def Function.is_leaf_of (leaf old : Function) : Prop :=
  leaf.params = [] ∧ leaf.return_types = [] ∧
  leaf.atttributes.entry_point_type = .NotAnEntryPoint ∧
  leaf.atttributes.is_continuation = old.atttributes.is_continuation

/-- The function `wrapper` has the name and the attributes of the function `old`. -/
def Function.wraps (wrapper old : Function) : Prop :=
  wrapper.name = old.name ∧ wrapper.atttributes = old.atttributes

/-- The context `c1` has the source arena of `c`, and every function of `c` is
a function of `c1` with the same header. -/
def Context.headers_kept (c c1 : Context) : Prop :=
  c1.rewriter.src_arena = c.rewriter.src_arena ∧
  ∀ node f, fn_payload c node = some f →
    ∃ f1, fn_payload c1 node = some f1 ∧ f1.header = f.header

/-- The context `c1` differs from `c` at most in the dictionary of tokens and
in the counters. -/
def Context.untouched (c c1 : Context) : Prop :=
  c1.rewriter.src_arena = c.rewriter.src_arena ∧
  c1.rewriter.dst_arena.fns = c.rewriter.dst_arena.fns ∧
  c1.rewriter.processed = c.rewriter.processed ∧
  c1.new_decls = c.new_decls ∧ c1.god_fn = c.god_fn

/-- Whenever the computation succeeds, it changes at most the dictionary of
tokens and the counters. -/
def Pass.untouching {α : Type} (m : Pass α) : Prop :=
  ∀ ctx r ctx1, m ctx = .ok (r, ctx1) → ctx.untouched ctx1

/-- The invariant of the pass about the functions it creates, for the
dispatcher at the index `d` of the destination arena and a list `registered`
of nodes: `god_fn` is the dispatcher, which is named `top_dispatcher`; the new
declarations are the dispatcher followed by functions created after it; no
node is registered as rewritten to the dispatcher; every function that is
registered as processed is registered with a function of the destination
arena that has the signature of a leaf for it, and if it is an entry point a
function with its name and attributes is among the new declarations; and
every node of `registered` is registered as processed. -/
def Context.leaves (d : Nat) (registered : List Node) (ctx : Context) : Prop :=
  ctx.god_fn = .fn .dst d ∧
  (∃ g, ctx.rewriter.dst_arena.fns.get? d = some g ∧ g.name = "top_dispatcher") ∧
  (∃ rest, ctx.new_decls = .fn .dst d :: rest ∧
    ∀ w, w ∈ rest → ∃ k, w = .fn .dst k ∧ d < k) ∧
  (∀ e, e ∈ ctx.rewriter.processed → ∀ j, e.2 = .fn .dst j → d < j) ∧
  (∀ e, e ∈ ctx.rewriter.processed → e.1.is_fn = true →
    ∃ old leaf j, fn_payload ctx e.1 = some old ∧ e.2 = .fn .dst j ∧
      ctx.rewriter.dst_arena.fns.get? j = some leaf ∧ leaf.is_leaf_of old ∧
      (old.atttributes.entry_point_type ≠ .NotAnEntryPoint →
        ∃ k wrapper, .fn .dst k ∈ ctx.new_decls ∧
          ctx.rewriter.dst_arena.fns.get? k = some wrapper ∧ wrapper.wraps old)) ∧
  (∀ n, n ∈ registered → ∃ r, (n, r) ∈ ctx.rewriter.processed)

/-- Whenever the computation `m` succeeds from a context that satisfies the
invariant, the context it ends in satisfies the invariant, the headers of the
functions are kept, and the value it returns satisfies `post`. -/
def Pass.steps {α : Type} (d : Nat) (m : Pass α) (post : α → Prop) : Prop :=
  ∀ registered ctx r ctx1, ctx.leaves d registered → m ctx = .ok (r, ctx1) →
    ctx1.leaves d registered ∧ ctx.headers_kept ctx1 ∧ post r

/-- The node is no pointer to the dispatcher or to a function of the
destination arena created before it. -/
def Node.above (d : Nat) (node : Node) : Prop := ∀ j, node = .fn .dst j → d < j

/-- What the proof about the leaves needs to know about the rewriting of a
subnode: it keeps the invariant and the headers, it registers the node if it
is a function, and its result is no pointer to the dispatcher. -/
def Rewrites_leaves (d : Nat) (rw : Node → Pass Node) : Prop :=
  ∀ node registered ctx r ctx1, ctx.leaves d registered → rw node ctx = .ok (r, ctx1) →
    ctx1.leaves d (if node.is_fn then node :: registered else registered) ∧
    ctx.headers_kept ctx1 ∧ r.above d

/-- A second example program: the fragment entry point `shade` with the two
parameters `x` and `y`, whose body binds their sum to `s` and ends in
`unreachable`. -/
def example_params_src : NodeArena :=
  { fns :=
      [{ atttributes := { is_continuation := false, entry_point_type := .Fragment }
         name := "shade"
         params :=
           [.var (.qualified_type false (.int_type .IntTy32)) 0 "x",
            .var (.qualified_type false (.int_type .IntTy32)) 1 "y"]
         return_types := []
         block := .block
           [.let_ [.var (.qualified_type false (.int_type .IntTy32)) 2 "s"]
             (.prim_op .add_op
               [.var (.qualified_type false (.int_type .IntTy32)) 0 "x",
                .var (.qualified_type false (.int_type .IntTy32)) 1 "y"])
             false]
           .unreachable }]
    next_free_id := 3 }

/-- The node is the primop `op`, bound by a `Let` or not. -/
def Node.is_primop (op : Op) : Node → Bool
  | .let_ _ (.prim_op o _) _ => decide (o = op)
  | .prim_op o _ => decide (o = op)
  | _ => false

/-- The instructions of a block. -/
def Node.block_instructions : Node → List Node
  | .block instructions _ => instructions
  | _ => []

/-! ## The SPIR-V emitter (`emit/emit.c`)

The emitter appends to a SPIR-V builder (`spirv_builder.h`, not part of the
sources).  The builder is modelled as the record of what has been appended:
the declarations of the file builder, the local variables of the function
builders and the instructions of the basic-block builders, in the order of
the calls.  A function builder and a basic-block builder are named by the id
of their function and of their label. -/

/-- The storage classes that `emit_addr_space` names. -/
inductive SpvStorageClass where
  | SpvStorageClassStorageBuffer | SpvStorageClassCrossWorkgroup | SpvStorageClassPrivate
  | SpvStorageClassFunction | SpvStorageClassPhysicalStorageBuffer | SpvStorageClassInput
  | SpvStorageClassOutput
  deriving DecidableEq, Repr

/-- Embeds `emit_addr_space`; `error(...)` and `SHADY_NOT_IMPLEM` end the process. -/
def emit_addr_space (address_space : AddressSpace) : Except Fault SpvStorageClass :=
  match address_space with
  | .AsGlobalLogical => .ok .SpvStorageClassStorageBuffer
  | .AsSharedLogical => .ok .SpvStorageClassCrossWorkgroup
  | .AsPrivateLogical => .ok .SpvStorageClassPrivate
  | .AsFunctionLogical => .ok .SpvStorageClassFunction
  | .AsGeneric => .error .error
  | .AsGlobalPhysical => .ok .SpvStorageClassPhysicalStorageBuffer
  | .AsSharedPhysical => .error .error
  | .AsSubgroupPhysical => .error .error
  | .AsPrivatePhysical => .error .error
  | .AsInput => .ok .SpvStorageClassInput
  | .AsOutput => .ok .SpvStorageClassOutput
  | .AsExternal => .ok .SpvStorageClassStorageBuffer
  | _ => .error .error

/-- The address spaces for which the claim says that `emit_addr_space` fails. -/
def unlowered_address_spaces : List AddressSpace :=
  [.AsGeneric, .AsSharedPhysical, .AsSubgroupPhysical, .AsPrivatePhysical, .AsProgramCode]

/-- The SPIR-V opcodes that the instruction-selection table names; `SpvOpNop`
is the opcode with the value 0. -/
inductive SpvOp where
  | SpvOpNop
  | SpvOpIAdd | SpvOpFAdd | SpvOpISub | SpvOpFSub | SpvOpIMul | SpvOpFMul
  | SpvOpSDiv | SpvOpUDiv | SpvOpFDiv | SpvOpSMod | SpvOpUMod | SpvOpFMod
  | SpvOpSNegate
  | SpvOpIEqual | SpvOpINotEqual | SpvOpFOrdNotEqual | SpvOpLogicalEqual | SpvOpLogicalNotEqual
  | SpvOpSLessThan | SpvOpULessThan | SpvOpFOrdLessThan
  | SpvOpSLessThanEqual | SpvOpULessThanEqual | SpvOpFOrdLessThanEqual
  | SpvOpSGreaterThan | SpvOpUGreaterThan | SpvOpFOrdGreaterThan
  | SpvOpSGreaterThanEqual | SpvOpUGreaterThanEqual | SpvOpFOrdGreaterThanEqual
  | SpvOpNot | SpvOpLogicalNot | SpvOpBitwiseAnd | SpvOpLogicalAnd | SpvOpBitwiseOr
  | SpvOpLogicalOr | SpvOpBitwiseXor
  | SpvOpSConvert | SpvOpUConvert | SpvOpConvertSToF | SpvOpConvertUToF | SpvOpConvertFToS
  | SpvOpConvertFToU | SpvOpFConvert
  | SpvOpBitcast | SpvOpConvertUToPtr | SpvOpConvertPtrToU
  deriving DecidableEq, Repr

/-- A SPIR-V result id (`SpvId`). -/
abbrev SpvId := Nat

/-- A function builder, named by the id of its function. -/
abbrev FnBuilder := SpvId

/-- A basic-block builder, named by the id of its label. -/
abbrev BBBuilder := SpvId

/-- The capabilities that `emit_spirv` declares. -/
inductive SpvCapability where
  | SpvCapabilityShader | SpvCapabilityLinkage | SpvCapabilityPhysicalStorageBufferAddresses
  | SpvCapabilitySubgroupBallotKHR
  deriving DecidableEq, Repr

/-- Modelled from the spec: what the calls `spvb_*` on the file builder append:
debug names, types and constants, capabilities and global variables; the
functions that are begun (`fn_begin`), their parameters and the functions that
are defined (`fn_define`) are recorded here as well, in the order of the
calls. -/
inductive SpvDecl where
  | name (id : SpvId) (name : String)
  | int_type (id : SpvId) (width : Nat) (signed : Bool)
  | bool_type (id : SpvId)
  | ptr_type (id : SpvId) (storage_class : SpvStorageClass) (pointee : SpvId)
  | struct_type (id : SpvId) (members : List SpvId)
  | fn_type (id : SpvId) (params : List SpvId) (codom : SpvId)
  | array_type (id : SpvId) (element_type : SpvId) (size : SpvId)
  | runtime_array_type (id : SpvId) (element_type : SpvId)
  | constant (id : SpvId) (type : SpvId) (words : List Nat)
  | bool_constant (id : SpvId) (type : SpvId) (value : Bool)
  | void_type (id : SpvId)
  | capability (cap : SpvCapability)
  | global_variable (id : SpvId) (type : SpvId) (storage_class : SpvStorageClass)
      (init : SpvId)
  | fn_begin (id : SpvId) (fn_type : SpvId) (ret_type : SpvId)
  | fn_parameter (fn_builder : FnBuilder) (id : SpvId) (type : SpvId)
  | fn_define (fn_builder : FnBuilder)
  deriving DecidableEq, Repr

/-- Modelled from the spec: what the calls `spvb_*` on a basic-block builder
append: an instruction with its result type, its result id and its operands. -/
inductive SpvInstr where
  | unop (op : SpvOp) (result_type : SpvId) (result : SpvId) (operand : SpvId)
  | binop (op : SpvOp) (result_type : SpvId) (result : SpvId) (lhs : SpvId) (rhs : SpvId)
  | load (result_type : SpvId) (result : SpvId) (pointer : SpvId)
  | store (value : SpvId) (pointer : SpvId)
  | access_chain (result_type : SpvId) (result : SpvId) (base : SpvId) (indices : List SpvId)
  | select (result_type : SpvId) (result : SpvId) (condition : SpvId) (if_true : SpvId)
      (if_false : SpvId)
  | call (result_type : SpvId) (result : SpvId) (callee : SpvId) (args : List SpvId)
  | extract (result_type : SpvId) (result : SpvId) (composite : SpvId) (indices : List Nat)
  | composite (result_type : SpvId) (result : SpvId) (elements : List SpvId)
  | selection_merge (merge_bb : SpvId)
  | loop_merge (merge_bb : SpvId) (continue_bb : SpvId)
  | branch (target : SpvId)
  | branch_conditional (condition : SpvId) (true_target : SpvId) (false_target : SpvId)
  | switch (selector : SpvId) (default_target : SpvId) (targets : List SpvId)
  | return_void
  | return_value (value : SpvId)
  | unreachable
  deriving DecidableEq, Repr

/-- Embeds `Emitter` together with the builders that the emitter writes to: `bound`
is the next free id of the file builder and `declarations` what has been
appended to it; `variables_` are the local variables appended to function
builders and `instructions` the instructions appended to basic-block builders,
each with the builder it went to; `node_ids` is the dictionary from nodes to
ids, in insertion order. -/
structure Emitter where
  bound : SpvId
  declarations : List SpvDecl
  variables_ : List (FnBuilder × SpvId × SpvId × SpvStorageClass)
  instructions : List (BBBuilder × SpvInstr)
  void_t : SpvId
  node_ids : List (Node × SpvId)
  deriving Repr

/-- A computation of the emitter: it reads and updates the emitter and the
builders and returns a value, or stops with a fault. -/
def Emit (α : Type) : Type := Emitter → Except Fault (α × Emitter)

instance : Monad Emit where
  pure a := fun e => .ok (a, e)
  bind m f := fun e =>
    match m e with
    | .error err => .error err
    | .ok r => f r.1 r.2

/-- Stops with a fault. -/
def Emit.fault {α : Type} (err : Fault) : Emit α := fun _ => .error err

/-- Reads the emitter. -/
def Emit.get : Emit Emitter := fun e => .ok (e, e)

/-- The result of a function that does not touch the emitter. -/
def Emit.of_except {α : Type} (r : Except Fault α) : Emit α := fun e =>
  match r with
  | .ok a => .ok (a, e)
  | .error err => .error err

/-- Modelled from the spec: the field `type` of a node, the type that the
constructor of the node has inferred for it.  The constructors are not part of
the sources; the emitter is parametric in what they have stored. -/
abbrev TypeOf := Node → Node

/-! ### The builder -/

/-- Modelled from the spec: `spvb_fresh_id`, the next free id. -/
def spvb_fresh_id : Emit SpvId := fun e => .ok (e.bound, { e with bound := e.bound + 1 })

/-- Appends a declaration to the file builder. -/
def spvb_declare (d : SpvDecl) : Emit Unit := fun e =>
  .ok ((), { e with declarations := e.declarations ++ [d] })

/-- Appends an instruction to a basic-block builder. -/
def spvb_instruction (bb_builder : BBBuilder) (i : SpvInstr) : Emit Unit := fun e =>
  .ok ((), { e with instructions := e.instructions ++ [(bb_builder, i)] })

/-- Modelled from the spec: `spvb_name(file_builder, id, name)`. -/
def spvb_name (id : SpvId) (name : String) : Emit Unit := spvb_declare (.name id name)

/-- Modelled from the spec: `spvb_int_type(file_builder, width, signed)`. -/
def spvb_int_type (width : Nat) (signed : Bool) : Emit SpvId := do
  let id ← spvb_fresh_id
  spvb_declare (.int_type id width signed)
  pure id

/-- Modelled from the spec: `spvb_bool_type(file_builder)`. -/
def spvb_bool_type : Emit SpvId := do
  let id ← spvb_fresh_id
  spvb_declare (.bool_type id)
  pure id

/-- Modelled from the spec: `spvb_ptr_type(file_builder, storage_class, pointee)`. -/
def spvb_ptr_type (storage_class : SpvStorageClass) (pointee : SpvId) : Emit SpvId := do
  let id ← spvb_fresh_id
  spvb_declare (.ptr_type id storage_class pointee)
  pure id

/-- Modelled from the spec: `spvb_struct_type(file_builder, count, members)`. -/
def spvb_struct_type (members : List SpvId) : Emit SpvId := do
  let id ← spvb_fresh_id
  spvb_declare (.struct_type id members)
  pure id

/-- Modelled from the spec: `spvb_fn_type(file_builder, count, params, codom)`. -/
def spvb_fn_type (params : List SpvId) (codom : SpvId) : Emit SpvId := do
  let id ← spvb_fresh_id
  spvb_declare (.fn_type id params codom)
  pure id

/-- Modelled from the spec: `spvb_array_type(file_builder, element_type, size)`. -/
def spvb_array_type (element_type : SpvId) (size : SpvId) : Emit SpvId := do
  let id ← spvb_fresh_id
  spvb_declare (.array_type id element_type size)
  pure id

/-- Modelled from the spec: `spvb_runtime_array_type(file_builder, element_type)`. -/
def spvb_runtime_array_type (element_type : SpvId) : Emit SpvId := do
  let id ← spvb_fresh_id
  spvb_declare (.runtime_array_type id element_type)
  pure id

/-- Modelled from the spec: `spvb_constant(file_builder, id, type, count, words)`. -/
def spvb_constant (id : SpvId) (type : SpvId) (words : List Nat) : Emit Unit :=
  spvb_declare (.constant id type words)

/-- Modelled from the spec: `spvb_bool_constant(file_builder, id, type, value)`. -/
def spvb_bool_constant (id : SpvId) (type : SpvId) (value : Bool) : Emit Unit :=
  spvb_declare (.bool_constant id type value)

/-- Modelled from the spec: `spvb_unop(bb_builder, op, result_type, operand)`,
the id of the result. -/
def spvb_unop (bb_builder : BBBuilder) (op : SpvOp) (result_type : SpvId) (operand : SpvId) :
    Emit SpvId := do
  let id ← spvb_fresh_id
  spvb_instruction bb_builder (.unop op result_type id operand)
  pure id

/-- Modelled from the spec: `spvb_binop(bb_builder, op, result_type, lhs, rhs)`,
the id of the result. -/
def spvb_binop (bb_builder : BBBuilder) (op : SpvOp) (result_type : SpvId) (lhs rhs : SpvId) :
    Emit SpvId := do
  let id ← spvb_fresh_id
  spvb_instruction bb_builder (.binop op result_type id lhs rhs)
  pure id

/-- Modelled from the spec: `spvb_load(bb_builder, type, pointer, 0, NULL)`. -/
def spvb_load (bb_builder : BBBuilder) (result_type : SpvId) (pointer : SpvId) : Emit SpvId := do
  let id ← spvb_fresh_id
  spvb_instruction bb_builder (.load result_type id pointer)
  pure id

/-- Modelled from the spec: `spvb_store(bb_builder, value, pointer, 0, NULL)`. -/
def spvb_store (bb_builder : BBBuilder) (value : SpvId) (pointer : SpvId) : Emit Unit :=
  spvb_instruction bb_builder (.store value pointer)

/-- Modelled from the spec: `spvb_access_chain(bb_builder, type, base, count, indices)`. -/
def spvb_access_chain (bb_builder : BBBuilder) (result_type : SpvId) (base : SpvId)
    (indices : List SpvId) : Emit SpvId := do
  let id ← spvb_fresh_id
  spvb_instruction bb_builder (.access_chain result_type id base indices)
  pure id

/-- Modelled from the spec: `spvb_select(bb_builder, type, condition, if_true, if_false)`. -/
def spvb_select (bb_builder : BBBuilder) (result_type : SpvId) (condition if_true if_false : SpvId) :
    Emit SpvId := do
  let id ← spvb_fresh_id
  spvb_instruction bb_builder (.select result_type id condition if_true if_false)
  pure id

/-- Modelled from the spec: `spvb_local_variable(fn_builder, type, storage_class)`. -/
def spvb_local_variable (fn_builder : FnBuilder) (type : SpvId) (storage_class : SpvStorageClass) :
    Emit SpvId := fun e =>
  .ok (e.bound, { e with
    bound := e.bound + 1
    variables_ := e.variables_ ++ [(fn_builder, e.bound, type, storage_class)] })

/-! ### The dictionary from nodes to ids -/

/-- Modelled from the spec: `find_value_dict` on `node_ids`: the id stored for a
key that `compare_node` finds equal to the node. -/
def find_node_id (e : Emitter) (node : Node) : Option SpvId :=
  match e.node_ids.find? (fun entry => compare_node entry.1 node) with
  | some entry => some entry.2
  | none => none

/-- Modelled from the spec: `insert_dict_and_get_result` on `node_ids`: stores
the id for the node unless the dictionary has an entry for the node. -/
def insert_node_id (node : Node) (id : SpvId) : Emit Unit := fun e =>
  match find_node_id e node with
  | some _ => .ok ((), e)
  | none => .ok ((), { e with node_ids := e.node_ids ++ [(node, id)] })

/-- Embeds `register_result`: names the id after the variable and stores it for the
variable. -/
def register_result (variable_ : Node) (id : SpvId) : Emit Unit :=
  match variable_ with
  | .var _ _ name => do
    spvb_name id name
    insert_node_id variable_ id
  | _ => Emit.fault .out_of_bounds

/-! ### Operand kinds and the instruction-selection table -/

/-- Embeds `OperandKind`. -/
inductive OperandKind where
  | Signed | Unsigned | Float | Logical | Ptr | Other
  deriving DecidableEq, Repr

/-- The value of an `OperandKind` as an array index. -/
def OperandKind.index : OperandKind → Nat
  | .Signed => 0
  | .Unsigned => 1
  | .Float => 2
  | .Logical => 3
  | .Ptr => 4
  | .Other => 5

/-- Embeds `ResultKind`. -/
inductive ResultKind where
  | Same | Bool | TyOperand
  deriving DecidableEq, Repr

/-- Embeds `ISelMechanism`. -/
inductive ISelMechanism where
  | Custom | FirstOp | FirstAndResult
  deriving DecidableEq, Repr

/-- Modelled from the spec: `is_type(node)`, the node has the tag of a type. -/
def is_type : Node → Bool
  | .noret_type => true
  | .int_type _ => true
  | .bool_type => true
  | .float_type => true
  | .mask_type => true
  | .record_type _ => true
  | .fn_type _ _ _ => true
  | .ptr_type _ _ => true
  | .arr_type _ _ => true
  | .qualified_type _ _ => true
  | _ => false

/-- Modelled from the spec: `without_qualifier(type)`, as a function that
does not touch the emitter. -/
def Emit.without_qualifier (type : Node) : Except Fault Node :=
  match type with
  | .null => .error .out_of_bounds
  | .qualified_type _ t => .ok t
  | t => .ok t

/-- Embeds `classify_operand`. -/
def classify_operand (type_of : TypeOf) (operand : Node) : Except Fault OperandKind :=
  if operand.is_null then .error .out_of_bounds
  else
    let operand := if ¬ is_type operand then type_of operand else operand
    match Emit.without_qualifier operand with
    | .error err => .error err
    | .ok t =>
      match t with
      | .null => .error .out_of_bounds
      | .int_type _ => .ok .Signed
      | .bool_type => .ok .Logical
      | .ptr_type _ _ => .ok .Ptr
      | _ => .error .error

/-- The sentinel `ISEL_IDENT`: 0. -/
def ISEL_IDENT : SpvOp := .SpvOpNop

/-- The sentinel `ISEL_BOOLC`: 0. -/
def ISEL_BOOLC : SpvOp := .SpvOpNop

/-- The sentinel `ISEL_ILLEG`: 0. -/
def ISEL_ILLEG : SpvOp := .SpvOpNop

/-- Embeds `struct IselTableEntry`.  The two members of the union are two fields;
an entry is read through the member its initializer has written.  A field
holds the opcodes that the initializer lists; the elements that an initializer
leaves out are 0. -/
structure IselTableEntry where
  i_sel_mechanism : ISelMechanism
  result_kind : ResultKind
  fo : List SpvOp
  foar : List (List SpvOp)
  deriving Repr

/-- The element `entry.fo[op_class]` of an array of `OperandKindsCount` opcodes. -/
def IselTableEntry.fo_at (entry : IselTableEntry) (op_class : OperandKind) : SpvOp :=
  entry.fo.getD op_class.index .SpvOpNop

/-- The element `entry.foar[op_class][return_t_class]`. -/
def IselTableEntry.foar_at (entry : IselTableEntry) (op_class return_t_class : OperandKind) :
    SpvOp :=
  (entry.foar.getD op_class.index []).getD return_t_class.index .SpvOpNop

/-- Embeds `isel_table`; the entries that the initializer does not name are zero:
`Custom`. -/
def isel_table (op : Op) : IselTableEntry :=
  match op with
  | .add_op => ⟨.FirstOp, .Same, [.SpvOpIAdd, .SpvOpIAdd, .SpvOpFAdd], []⟩
  | .sub_op => ⟨.FirstOp, .Same, [.SpvOpISub, .SpvOpISub, .SpvOpFSub], []⟩
  | .mul_op => ⟨.FirstOp, .Same, [.SpvOpIMul, .SpvOpIMul, .SpvOpFMul], []⟩
  | .div_op => ⟨.FirstOp, .Same, [.SpvOpSDiv, .SpvOpUDiv, .SpvOpFDiv], []⟩
  | .mod_op => ⟨.FirstOp, .Same, [.SpvOpSMod, .SpvOpUMod, .SpvOpFMod], []⟩
  | .neg_op => ⟨.FirstOp, .Same, [.SpvOpSNegate, .SpvOpSNegate], []⟩
  | .eq_op =>
    ⟨.FirstOp, .Bool, [.SpvOpIEqual, .SpvOpIEqual, .SpvOpFOrdNotEqual, .SpvOpLogicalEqual], []⟩
  | .neq_op =>
    ⟨.FirstOp, .Bool,
      [.SpvOpINotEqual, .SpvOpINotEqual, .SpvOpFOrdNotEqual, .SpvOpLogicalNotEqual], []⟩
  | .lt_op =>
    ⟨.FirstOp, .Bool, [.SpvOpSLessThan, .SpvOpULessThan, .SpvOpFOrdLessThan, ISEL_ILLEG], []⟩
  | .lte_op =>
    ⟨.FirstOp, .Bool,
      [.SpvOpSLessThanEqual, .SpvOpULessThanEqual, .SpvOpFOrdLessThanEqual, ISEL_ILLEG], []⟩
  | .gt_op =>
    ⟨.FirstOp, .Bool,
      [.SpvOpSGreaterThan, .SpvOpUGreaterThan, .SpvOpFOrdGreaterThan, ISEL_ILLEG], []⟩
  | .gte_op =>
    ⟨.FirstOp, .Bool,
      [.SpvOpSGreaterThanEqual, .SpvOpUGreaterThanEqual, .SpvOpFOrdGreaterThanEqual,
        ISEL_ILLEG], []⟩
  | .not_op => ⟨.FirstOp, .Same, [.SpvOpNot, .SpvOpNot, .SpvOpLogicalNot], []⟩
  | .and_op => ⟨.FirstOp, .Same, [.SpvOpBitwiseAnd, .SpvOpBitwiseAnd, .SpvOpLogicalAnd], []⟩
  | .or_op => ⟨.FirstOp, .Same, [.SpvOpBitwiseOr, .SpvOpBitwiseOr, .SpvOpLogicalOr], []⟩
  | .xor_op =>
    ⟨.FirstOp, .Same, [.SpvOpBitwiseXor, .SpvOpBitwiseXor, .SpvOpLogicalNotEqual], []⟩
  | .convert_op =>
    ⟨.FirstAndResult, .TyOperand, [],
      [[.SpvOpSConvert, .SpvOpUConvert, .SpvOpConvertSToF, ISEL_BOOLC],
       [.SpvOpSConvert, .SpvOpUConvert, .SpvOpConvertUToF, ISEL_BOOLC],
       [.SpvOpConvertFToS, .SpvOpConvertFToU, .SpvOpFConvert, ISEL_ILLEG],
       [ISEL_BOOLC, ISEL_BOOLC, ISEL_ILLEG, ISEL_IDENT]]⟩
  | .reinterpret_op =>
    ⟨.FirstAndResult, .TyOperand, [],
      [[ISEL_IDENT, .SpvOpBitcast, .SpvOpBitcast, ISEL_ILLEG, .SpvOpConvertUToPtr],
       [.SpvOpBitcast, ISEL_IDENT, .SpvOpBitcast, ISEL_ILLEG, .SpvOpConvertUToPtr],
       [.SpvOpBitcast, .SpvOpBitcast, ISEL_IDENT, ISEL_ILLEG, ISEL_ILLEG],
       [ISEL_ILLEG, ISEL_ILLEG, ISEL_ILLEG, ISEL_IDENT, ISEL_ILLEG],
       [.SpvOpConvertPtrToU, .SpvOpConvertPtrToU, ISEL_ILLEG, ISEL_ILLEG, ISEL_IDENT]]⟩
  | _ => ⟨.Custom, .Same, [], []⟩

/-! ### Types and values -/

/-- The width in bits of an integer type (the inner `switch` of `emit_type`). -/
def IntSizes.bits : IntSizes → Nat
  | .IntTy8 => 8
  | .IntTy16 => 16
  | .IntTy32 => 32
  | .IntTy64 => 64

/-- A loop that emits the types of a list in order (the loops over record
members and parameter types in `emit_type`). -/
def emit_types (emit_type : Node → Emit SpvId) : List Node → Emit (List SpvId)
  | [] => pure []
  | t :: ts => do
    let id ← emit_type t
    let ids ← emit_types emit_type ts
    pure (id :: ids)

/-- Embeds `nodes_to_codom`; `emit_type` is the emission of one type. -/
def nodes_to_codom (emit_type : Node → Emit SpvId) (return_types : List Node) : Emit SpvId :=
  match return_types with
  | [] => do
    let e ← Emit.get
    pure e.void_t
  | [t] => emit_type t
  | _ => emit_type (.record_type return_types)

/-- The `switch` of `emit_type`: declares the type and returns its id; the
recursive calls of `emit_type` and its call of `emit_value` are the arguments
`emit_type` and `emit_value`. -/
def emit_new_type (emit_type : Node → Emit SpvId) (emit_value : Node → Option SpvId → Emit SpvId)
    (type : Node) : Emit SpvId :=
  match type with
  | .int_type width => spvb_int_type width.bits true
  | .bool_type => spvb_bool_type
  | .ptr_type address_space pointed_type => do
    let pointee ← emit_type pointed_type
    let sc ← Emit.of_except (emit_addr_space address_space)
    spvb_ptr_type sc pointee
  | .record_type members => do
    let members ← emit_types emit_type members
    spvb_struct_type members
  | .fn_type is_continuation param_types return_types =>
    if is_continuation then Emit.fault (.assertion 585)
    else do
      let params ← emit_types emit_type param_types
      let codom ← nodes_to_codom emit_type return_types
      spvb_fn_type params codom
  | .qualified_type _ t => emit_type t
  | .arr_type element_type size => do
    let element_type ← emit_type element_type
    if size.is_null then spvb_runtime_array_type element_type
    else do
      let size ← emit_value size none
      spvb_array_type element_type size
  | _ => Emit.fault .error

/-- The body of `emit_type`: the id stored for the type if there is one;
otherwise the type is declared and its id stored. -/
def emit_type_body (emit_type : Node → Emit SpvId) (emit_value : Node → Option SpvId → Emit SpvId)
    (type : Node) : Emit SpvId := fun e =>
  if type.is_null then .error .out_of_bounds
  else
    match find_node_id e type with
    | some existing => .ok (existing, e)
    | none =>
      (do
        let new ← emit_new_type emit_type emit_value type
        insert_node_id type new
        pure new) e

/-- The 32-bit word that holds the low 32 bits of an integer. -/
def word32 (v : Int) : Nat := (v % 2 ^ 32).toNat

/-- The `switch` of `emit_value`: emits the constant for the node under the id
`new`; its call of `emit_type` is the argument `emit_type`.  A literal node
carries one integer, and reading `value_i32` gives its low 32 bits, as for a
literal whose value was stored through `value_i32` or `value_i64`; what
`value_i32` holds for a literal stored through a narrower member of the union
is not modelled. -/
def emit_constant (type_of : TypeOf) (emit_type : Node → Emit SpvId) (node : Node) (new : SpvId) :
    Emit Unit :=
  match node with
  | .var _ _ _ => Emit.fault .error
  | .int_literal width value => do
    let ty ← emit_type (type_of node)
    if width = IntSizes.IntTy64 then
      spvb_constant new ty [word32 (Int.fdiv value (2 ^ 32)), word32 value]
    else
      spvb_constant new ty [word32 value]
  | .true_lit => do
    let ty ← emit_type .bool_type
    spvb_bool_constant new ty true
  | .false_lit => do
    let ty ← emit_type .bool_type
    spvb_bool_constant new ty false
  | _ => Emit.fault .error

/-- The body of `emit_value`; `use_id` is `none` for a null pointer.  Without
`use_id` the id stored for the node is returned if there is one; otherwise the
id (`use_id` or a fresh one) is stored for the node, the constant is emitted
under it and it is returned. -/
def emit_value_body (type_of : TypeOf) (emit_type : Node → Emit SpvId) (node : Node)
    (use_id : Option SpvId) : Emit SpvId := fun e =>
  if node.is_null then .error .out_of_bounds
  else
    match (if use_id.isNone then find_node_id e node else none) with
    | some existing => .ok (existing, e)
    | none =>
      (do
        let new ← (match use_id with
          | some id => pure id
          | none => spvb_fresh_id)
        insert_node_id node new
        emit_constant type_of emit_type node new
        pure new) e

/-- The functions `emit_type` and `emit_value`, which call each other, with a
bound `fuel` on the depth of the calls. -/
def emit_type_value (type_of : TypeOf) :
    Nat → (Node → Emit SpvId) × (Node → Option SpvId → Emit SpvId)
  | 0 => (fun _ => Emit.fault .out_of_fuel, fun _ _ => Emit.fault .out_of_fuel)
  | fuel + 1 =>
    (emit_type_body (emit_type_value type_of fuel).1 (emit_type_value type_of fuel).2,
     emit_value_body type_of (emit_type_value type_of fuel).1)

/-- Embeds `emit_type`. -/
def emit_type (type_of : TypeOf) (fuel : Nat) (type : Node) : Emit SpvId :=
  (emit_type_value type_of fuel).1 type

/-- Embeds `emit_value`. -/
def emit_value (type_of : TypeOf) (fuel : Nat) (node : Node) (use_id : Option SpvId) :
    Emit SpvId :=
  (emit_type_value type_of fuel).2 node use_id

/-! ### `emit_primop` -/

/-- The first loop of `emit_primop`: the ids of the operands; the element of a
null operand stays uninitialised (`none`). -/
def emit_operands (type_of : TypeOf) (fuel : Nat) : List Node → Emit (List (Option SpvId))
  | [] => pure []
  | arg :: args => do
    let id ← (if arg.is_null then pure none
      else if is_type arg then do
        let id ← emit_type type_of fuel arg
        pure (some id)
      else do
        let id ← emit_value type_of fuel arg none
        pure (some id))
    let ids ← emit_operands type_of fuel args
    pure (id :: ids)

/-- The loop of the `lea` case: the ids of the indices, 0 for a null index. -/
def emit_indices (type_of : TypeOf) (fuel : Nat) : List Node → Emit (List SpvId)
  | [] => pure []
  | arg :: args => do
    let id ← (if arg.is_null then pure 0 else emit_value type_of fuel arg none)
    let ids ← emit_indices type_of fuel args
    pure (id :: ids)

/-- The element `nodes[i]` of a node list; reading past the list is a fault. -/
def node_at (nodes : List Node) (i : Nat) : Emit Node :=
  match nodes.get? i with
  | some n => pure n
  | none => Emit.fault .out_of_bounds

/-- The element `arr[i]` of the array of operand ids; reading an element that
was not written is a fault. -/
def id_at (arr : List (Option SpvId)) (i : Nat) : Emit SpvId :=
  match arr.get? i with
  | some (some id) => pure id
  | _ => Emit.fault .out_of_bounds

/-- The pointer type `without_qualifier(node->type)` that the assertions of the
`load` and `store` cases ask for: its pointee. -/
def pointee_of (type_of : TypeOf) (line : Nat) (node : Node) : Emit Node :=
  if node.is_null then Emit.fault .out_of_bounds
  else
    match Emit.without_qualifier (type_of node) with
    | .error err => Emit.fault err
    | .ok (.ptr_type _ pointed_type) => pure pointed_type
    | .ok .null => Emit.fault .out_of_bounds
    | .ok _ => Emit.fault (.assertion line)

/-- The `switch` after the label `custom_path` of `emit_primop`. -/
def emit_primop_custom (type_of : TypeOf) (fuel : Nat) (fn_builder : FnBuilder)
    (bb_builder : BBBuilder) (instr : Node) (op : Op) (args : List Node) (variables_ : List Node) :
    Emit Unit :=
  match op with
  | .load_op => do
    let ptr ← node_at args 0
    let elem_type ← pointee_of type_of 194 ptr
    let eptr ← emit_value type_of fuel ptr none
    let ty ← emit_type type_of fuel elem_type
    let result ← spvb_load bb_builder ty eptr
    let variable_ ← node_at variables_ 0
    register_result variable_ result
  | .store_op => do
    let ptr ← node_at args 0
    let _ ← pointee_of type_of 202 ptr
    let eptr ← emit_value type_of fuel ptr none
    let value ← node_at args 1
    let eval ← emit_value type_of fuel value none
    spvb_store bb_builder eval eptr
  | .alloca_op => do
    let elem_type ← node_at args 0
    let ty ← emit_type type_of fuel (.ptr_type .AsFunctionLogical elem_type)
    let result ← spvb_local_variable fn_builder ty .SpvStorageClassFunction
    let variable_ ← node_at variables_ 0
    register_result variable_ result
  | .lea_op => do
    let base_node ← node_at args 0
    let base ← emit_value type_of fuel base_node none
    if args.length < 2 then Emit.fault .out_of_bounds
    else do
      let indices ← emit_indices type_of fuel (args.drop 2)
      let offset ← node_at args 1
      if ¬ offset.is_null then Emit.fault .error
      else do
        let target_type := type_of instr
        let ty ← emit_type type_of fuel target_type
        let result ← spvb_access_chain bb_builder ty base indices
        let variable_ ← node_at variables_ 0
        register_result variable_ result
  | .select_op => do
    let c ← node_at args 0
    let cond ← emit_value type_of fuel c none
    let t ← node_at args 1
    let truv ← emit_value type_of fuel t none
    let f ← node_at args 2
    let flsv ← emit_value type_of fuel f none
    let variable_ ← node_at variables_ 0
    let ty ← emit_type type_of fuel (type_of variable_)
    let result ← spvb_select bb_builder ty cond truv flsv
    register_result variable_ result
  | _ => Emit.fault .error

/-- The opcode that `emit_primop` looks up in an entry of the table. -/
def select_opcode (type_of : TypeOf) (entry : IselTableEntry) (args : List Node) : Emit SpvOp :=
  match entry.i_sel_mechanism with
  | .FirstOp => do
    let a0 ← node_at args 0
    let op_class ← Emit.of_except (classify_operand type_of a0)
    pure (entry.fo_at op_class)
  | .FirstAndResult => do
    let a0 ← node_at args 0
    let return_t_class ← Emit.of_except (classify_operand type_of a0)
    let a1 ← node_at args 1
    let op_class ← Emit.of_except (classify_operand type_of a1)
    pure (entry.foar_at op_class return_t_class)
  | .Custom => Emit.fault .out_of_bounds

/-- The type `result_t` of the result of a primop that the table selects. -/
def result_type (type_of : TypeOf) (entry : IselTableEntry) (args : List Node) : Emit Node :=
  match entry.result_kind with
  | .Same => do
    let a0 ← node_at args 0
    Emit.of_except (Emit.without_qualifier (type_of a0))
  | .Bool => pure .bool_type
  | .TyOperand => node_at args 0

/-- Embeds `emit_primop`. -/
def emit_primop (type_of : TypeOf) (fuel : Nat) (fn_builder : FnBuilder) (bb_builder : BBBuilder)
    (instr : Node) (variables_ : List Node) : Emit Unit :=
  match instr with
  | .prim_op op args =>
    let entry := isel_table op
    if entry.i_sel_mechanism ≠ .Custom then do
      let arr ← emit_operands type_of fuel args
      let opcode ← select_opcode type_of entry args
      if opcode = .SpvOpNop then
        emit_primop_custom type_of fuel fn_builder bb_builder instr op args variables_
      else do
        let result_t ← result_type type_of entry args
        if args.length = 1 then do
          let ty ← emit_type type_of fuel result_t
          let a0 ← id_at arr 0
          let result ← spvb_unop bb_builder opcode ty a0
          let variable_ ← node_at variables_ 0
          register_result variable_ result
        else if args.length = 2 then do
          let ty ← emit_type type_of fuel result_t
          let a0 ← id_at arr 0
          let a1 ← id_at arr 1
          let result ← spvb_binop bb_builder opcode ty a0 a1
          let variable_ ← node_at variables_ 0
          register_result variable_ result
        else Emit.fault .error
    else emit_primop_custom type_of fuel fn_builder bb_builder instr op args variables_
  | _ => Emit.fault .out_of_bounds

/-- The opcode and the kind of result that the claims give for a primop on
integers. -/
def claimed_int_opcode : Op → Option (SpvOp × ResultKind)
  | .add_op => some (.SpvOpIAdd, .Same)
  | .sub_op => some (.SpvOpISub, .Same)
  | .mul_op => some (.SpvOpIMul, .Same)
  | .div_op => some (.SpvOpSDiv, .Same)
  | .mod_op => some (.SpvOpSMod, .Same)
  | .eq_op => some (.SpvOpIEqual, .Bool)
  | .neq_op => some (.SpvOpINotEqual, .Bool)
  | .lt_op => some (.SpvOpSLessThan, .Bool)
  | .lte_op => some (.SpvOpSLessThanEqual, .Bool)
  | .gt_op => some (.SpvOpSGreaterThan, .Bool)
  | .gte_op => some (.SpvOpSGreaterThanEqual, .Bool)
  | _ => none

/-- The opcode that the claims give for a primop on booleans. -/
def claimed_logical_opcode : Op → Option SpvOp
  | .not_op => some .SpvOpLogicalNot
  | .and_op => some .SpvOpLogicalAnd
  | .or_op => some .SpvOpLogicalOr
  | .xor_op => some .SpvOpLogicalNotEqual
  | _ => none

/-- The emitter after `register_result` has named the id `id` after the
variable `variable` of name `name` and stored it for the variable. -/
def Emitter.registered (e : Emitter) (variable_ : Node) (name : String) (id : SpvId) : Emitter :=
  { e with
    declarations := e.declarations ++ [.name id name]
    node_ids :=
      match find_node_id e variable_ with
      | some _ => e.node_ids
      | none => e.node_ids ++ [(variable_, id)] }

/-- A typing for examples: variables have the type of their payload, integer
literals the uniform integer type of their width, boolean literals the uniform
boolean type, and a `lea` yields a pointer to a 32-bit integer in the function
address space. -/
def example_type_of : TypeOf
  | .var t _ _ => t
  | .int_literal w _ => .qualified_type true (.int_type w)
  | .true_lit => .qualified_type true .bool_type
  | .false_lit => .qualified_type true .bool_type
  | .prim_op .lea_op _ => .ptr_type .AsFunctionLogical (.int_type .IntTy32)
  | _ => .null

/-- The variable `x` of the examples, a varying 32-bit integer. -/
def example_x : Node := .var (.qualified_type false (.int_type .IntTy32)) 0 "x"

/-- The variable `b` of the examples, a varying boolean. -/
def example_b : Node := .var (.qualified_type false .bool_type) 1 "b"

/-- The variable `p` of the examples, a pointer to 32-bit integers in the
function address space. -/
def example_p : Node :=
  .var (.qualified_type false (.ptr_type .AsFunctionLogical (.int_type .IntTy32))) 2 "p"

/-- An emitter for the examples: the variables `x`, `b` and `p` have the ids 1, 2
and 3, as parameters of a function have, and nothing else has been emitted. -/
def example_emitter : Emitter :=
  { bound := 4
    declarations := []
    variables_ := []
    instructions := []
    void_t := 0
    node_ids := [(example_x, 1), (example_b, 2), (example_p, 3)] }

/-- The computation appends no instruction to a basic block and no local
variable to a function, and every node that has an id in the dictionary keeps
it. -/
def Emit.frames {α : Type} (m : Emit α) : Prop :=
  ∀ e r e1, m e = .ok (r, e1) →
    e1.instructions = e.instructions ∧ e1.variables_ = e.variables_ ∧
    ∀ node id, find_node_id e node = some id → find_node_id e1 node = some id

/-- The example emitter after the literal `1` has been emitted: the 32-bit
integer type has the id 5 and the constant 1 the id 4. -/
def example_emitter_one : Emitter :=
  { bound := 6
    declarations := [.int_type 5 32 true, .constant 4 5 [1]]
    variables_ := []
    instructions := []
    void_t := 0
    node_ids :=
      [(example_x, 1), (example_b, 2), (example_p, 3), (.int_literal .IntTy32 1, 4),
        (.int_type .IntTy32, 5), (.qualified_type true (.int_type .IntTy32), 5)] }

/-- The example emitter after the literal `1` and the type of pointers to 32-bit
integers in the function address space have been emitted: the pointer type has
the id 6. -/
def example_emitter_ptr : Emitter :=
  { bound := 7
    declarations :=
      [.int_type 5 32 true, .constant 4 5 [1], .ptr_type 6 .SpvStorageClassFunction 5]
    variables_ := []
    instructions := []
    void_t := 0
    node_ids :=
      [(example_x, 1), (example_b, 2), (example_p, 3), (.int_literal .IntTy32 1, 4),
        (.int_type .IntTy32, 5), (.qualified_type true (.int_type .IntTy32), 5),
        (.ptr_type .AsFunctionLogical (.int_type .IntTy32), 6)] }

/-! ### Calls, structured control flow, terminators and blocks -/

/-- Embeds `MergeTargets`. -/
structure MergeTargets where
  continue_target : SpvId
  break_target : SpvId
  join_target : SpvId
  deriving DecidableEq, Repr

/-- Modelled from the spec: `spvb_begin_bb(fn_builder, id)`, the builder of the
basic block with the label `id`; the instructions of a block are kept with the
id of its label. -/
def spvb_begin_bb (_fn_builder : FnBuilder) (id : SpvId) : BBBuilder := id

/-- Modelled from the spec: `spvb_call(bb_builder, type, callee, count, args)`. -/
def spvb_call (bb_builder : BBBuilder) (result_type : SpvId) (callee : SpvId)
    (args : List SpvId) : Emit SpvId := do
  let id ← spvb_fresh_id
  spvb_instruction bb_builder (.call result_type id callee args)
  pure id

/-- Modelled from the spec: `spvb_extract(bb_builder, type, composite, count, indices)`. -/
def spvb_extract (bb_builder : BBBuilder) (result_type : SpvId) (composite : SpvId)
    (indices : List Nat) : Emit SpvId := do
  let id ← spvb_fresh_id
  spvb_instruction bb_builder (.extract result_type id composite indices)
  pure id

/-- Modelled from the spec: `spvb_composite(bb_builder, type, count, elements)`. -/
def spvb_composite (bb_builder : BBBuilder) (result_type : SpvId) (elements : List SpvId) :
    Emit SpvId := do
  let id ← spvb_fresh_id
  spvb_instruction bb_builder (.composite result_type id elements)
  pure id

/-- Modelled from the spec: `spvb_selection_merge(bb_builder, merge_bb, 0)`. -/
def spvb_selection_merge (bb_builder : BBBuilder) (merge_bb : SpvId) : Emit Unit :=
  spvb_instruction bb_builder (.selection_merge merge_bb)

/-- Modelled from the spec: `spvb_loop_merge(bb_builder, merge_bb, continue_bb, 0, 0, NULL)`. -/
def spvb_loop_merge (bb_builder : BBBuilder) (merge_bb continue_bb : SpvId) : Emit Unit :=
  spvb_instruction bb_builder (.loop_merge merge_bb continue_bb)

/-- Modelled from the spec: `spvb_branch(bb_builder, target)`. -/
def spvb_branch (bb_builder : BBBuilder) (target : SpvId) : Emit Unit :=
  spvb_instruction bb_builder (.branch target)

/-- Modelled from the spec: `spvb_branch_conditional(bb_builder, condition, t, f)`. -/
def spvb_branch_conditional (bb_builder : BBBuilder) (condition true_target false_target : SpvId) :
    Emit Unit :=
  spvb_instruction bb_builder (.branch_conditional condition true_target false_target)

/-- Modelled from the spec: `spvb_switch(bb_builder, selector, default, count, targets)`;
`targets` holds `count` pairs of words. -/
def spvb_switch (bb_builder : BBBuilder) (selector default_target : SpvId)
    (targets : List SpvId) : Emit Unit :=
  spvb_instruction bb_builder (.switch selector default_target targets)

/-- Modelled from the spec: `spvb_return_void(bb_builder)`. -/
def spvb_return_void (bb_builder : BBBuilder) : Emit Unit :=
  spvb_instruction bb_builder .return_void

/-- Modelled from the spec: `spvb_return_value(bb_builder, value)`. -/
def spvb_return_value (bb_builder : BBBuilder) (value : SpvId) : Emit Unit :=
  spvb_instruction bb_builder (.return_value value)

/-- Modelled from the spec: `spvb_unreachable(bb_builder)`. -/
def spvb_unreachable (bb_builder : BBBuilder) : Emit Unit :=
  spvb_instruction bb_builder .unreachable

/-- Modelled from the spec: `spvb_begin_fn(file_builder, fn_id, fn_type, fn_ret_type)`,
the builder of the function. -/
def spvb_begin_fn (fn_id fn_type fn_ret_type : SpvId) : Emit FnBuilder := do
  spvb_declare (.fn_begin fn_id fn_type fn_ret_type)
  pure fn_id

/-- The record of the call of `spvb_begin_fn` for a function builder. -/
def SpvDecl.begins (fn_builder : FnBuilder) : SpvDecl → Bool
  | .fn_begin id _ _ => id == fn_builder
  | _ => false

/-- Modelled from the spec: `fn_ret_type_id(fn_builder)`, the return type that
the function builder was begun with. -/
def fn_ret_type_id (fn_builder : FnBuilder) : Emit SpvId := fun e =>
  match e.declarations.find? (SpvDecl.begins fn_builder) with
  | some (.fn_begin _ _ ret_type) => .ok (ret_type, e)
  | _ => .error .out_of_bounds

/-- Modelled from the spec: `spvb_parameter(fn_builder, type)`, the id of the
parameter. -/
def spvb_parameter (fn_builder : FnBuilder) (type : SpvId) : Emit SpvId := do
  let id ← spvb_fresh_id
  spvb_declare (.fn_parameter fn_builder id type)
  pure id

/-- Modelled from the spec: `spvb_define_function(file_builder, fn_builder)`. -/
def spvb_define_function (fn_builder : FnBuilder) : Emit Unit :=
  spvb_declare (.fn_define fn_builder)

/-- Modelled from the spec: `spvb_void_type(file_builder)`. -/
def spvb_void_type : Emit SpvId := do
  let id ← spvb_fresh_id
  spvb_declare (.void_type id)
  pure id

/-- Modelled from the spec: `spvb_capability(file_builder, cap)`. -/
def spvb_capability (cap : SpvCapability) : Emit Unit := spvb_declare (.capability cap)

/-- Modelled from the spec:
`spvb_global_variable(file_builder, id, type, storage_class, false, init)`. -/
def spvb_global_variable (id type : SpvId) (storage_class : SpvStorageClass) (init : SpvId) :
    Emit Unit :=
  spvb_declare (.global_variable id type storage_class init)

/-- A loop that emits the values of a list in order (the loops over the
arguments of a call and over the values of a `Return`). -/
def emit_values (type_of : TypeOf) (fuel : Nat) : List Node → Emit (List SpvId)
  | [] => pure []
  | node :: nodes => do
    let id ← emit_value type_of fuel node none
    let ids ← emit_values type_of fuel nodes
    pure (id :: ids)

/-- The loop of the `default` case of `emit_call`: the component `i` of the result
is extracted for the variable `i`. -/
def emit_extracts (type_of : TypeOf) (fuel : Nat) (bb_builder : BBBuilder) (result : SpvId) :
    List Node → Nat → Emit Unit
  | [], _ => pure ()
  | variable_ :: variables_, i => do
    if variable_.is_null then Emit.fault .out_of_bounds
    else do
      let result_type ← emit_type type_of fuel (type_of variable_)
      let extracted_component ← spvb_extract bb_builder result_type result [i]
      register_result variable_ extracted_component
      emit_extracts type_of fuel bb_builder result variables_ (i + 1)

/-- Embeds `emit_call`. -/
def emit_call (type_of : TypeOf) (fuel : Nat) (bb_builder : BBBuilder) (callee : Node)
    (args : List Node) (variables_ : List Node) : Emit Unit :=
  if callee.is_null then Emit.fault .out_of_bounds
  else do
    let callee_type ← Emit.of_except (Emit.without_qualifier (type_of callee))
    match callee_type with
    | .fn_type _ _ return_types => do
      let return_type ← nodes_to_codom (emit_type type_of fuel) return_types
      let callee ← emit_value type_of fuel callee none
      let args ← emit_values type_of fuel args
      let result ← spvb_call bb_builder return_type callee args
      match variables_ with
      | [] => pure ()
      | [variable_] => register_result variable_ result
      | _ => emit_extracts type_of fuel bb_builder result variables_ 0
    | _ => Emit.fault (.assertion 260)

/-- Embeds `emit_if`; `emit_block` is the emission of a block, and the result
is the basic-block builder that `*bb_builder` is set to. -/
def emit_if (type_of : TypeOf) (fuel : Nat)
    (emit_block : FnBuilder → BBBuilder → MergeTargets → Node → Emit Unit)
    (fn_builder : FnBuilder) (bb_builder : BBBuilder) (merge_targets : MergeTargets)
    (yield_types : List Node) (condition if_true if_false : Node) : Emit BBBuilder :=
  if yield_types.length ≠ 0 then Emit.fault (.assertion 285)
  else do
    let next_id ← spvb_fresh_id
    let true_id ← spvb_fresh_id
    let false_id ← (if if_false.is_null then pure next_id else spvb_fresh_id)
    spvb_selection_merge bb_builder next_id
    let condition ← emit_value type_of fuel condition none
    spvb_branch_conditional bb_builder condition true_id false_id
    let merge_targets_branches := { merge_targets with join_target := next_id }
    emit_block fn_builder (spvb_begin_bb fn_builder true_id) merge_targets_branches if_true
    (if if_false.is_null then pure ()
      else emit_block fn_builder (spvb_begin_bb fn_builder false_id) merge_targets_branches
        if_false)
    pure (spvb_begin_bb fn_builder next_id)

/-- The first loop of `emit_match`: for each case an id for the literal and an
id for the label are allocated, and the literal `literals.nodes[i]` is emitted
under the id allocated for it; element `i` of the result is the pair
`literals_and_cases[2 i]`, `literals_and_cases[2 i + 1]`. -/
def emit_match_literals (type_of : TypeOf) (fuel : Nat) :
    List Node → List Node → Emit (List (SpvId × SpvId))
  | [], _ => pure []
  | _ :: cases, literals => do
    let literal_id ← spvb_fresh_id
    let case_id ← spvb_fresh_id
    match literals with
    | [] => Emit.fault .out_of_bounds
    | literal :: literals => do
      let _ ← emit_value type_of fuel literal (some literal_id)
      let rest ← emit_match_literals type_of fuel cases literals
      pure ((literal_id, case_id) :: rest)

/-- The array `literals_and_cases` of `emit_match`. -/
def flatten_pairs : List (SpvId × SpvId) → List SpvId
  | [] => []
  | p :: ps => p.1 :: p.2 :: flatten_pairs ps

/-- The second loop of `emit_match`: case `i` is emitted in the block with the
label `literals_and_cases[2 i + 1]`. -/
def emit_match_cases (emit_block : FnBuilder → BBBuilder → MergeTargets → Node → Emit Unit)
    (fn_builder : FnBuilder) (merge_targets_branches : MergeTargets) :
    List Node → List (SpvId × SpvId) → Emit Unit
  | [], _ => pure ()
  | _ :: _, [] => Emit.fault .out_of_bounds
  | case :: cases, p :: ps => do
    emit_block fn_builder (spvb_begin_bb fn_builder p.2) merge_targets_branches case
    emit_match_cases emit_block fn_builder merge_targets_branches cases ps

/-- Embeds `emit_match`. -/
def emit_match (type_of : TypeOf) (fuel : Nat)
    (emit_block : FnBuilder → BBBuilder → MergeTargets → Node → Emit Unit)
    (fn_builder : FnBuilder) (bb_builder : BBBuilder) (merge_targets : MergeTargets)
    (yield_types : List Node) (inspect : Node) (literals cases : List Node)
    (default_case : Node) : Emit BBBuilder :=
  if yield_types.length ≠ 0 then Emit.fault (.assertion 308)
  else do
    let next_id ← spvb_fresh_id
    let default_id ← spvb_fresh_id
    let literals_and_cases ← emit_match_literals type_of fuel cases literals
    spvb_selection_merge bb_builder next_id
    let inspectee ← emit_value type_of fuel inspect none
    spvb_switch bb_builder inspectee default_id (flatten_pairs literals_and_cases)
    let merge_targets_branches := { merge_targets with join_target := next_id }
    emit_match_cases emit_block fn_builder merge_targets_branches cases literals_and_cases
    emit_block fn_builder (spvb_begin_bb fn_builder default_id) merge_targets_branches
      default_case
    pure (spvb_begin_bb fn_builder next_id)

/-- Embeds `emit_loop`. -/
def emit_loop (emit_block : FnBuilder → BBBuilder → MergeTargets → Node → Emit Unit)
    (fn_builder : FnBuilder) (bb_builder : BBBuilder) (merge_targets : MergeTargets)
    (params yield_types : List Node) (body : Node) : Emit BBBuilder :=
  if yield_types.length ≠ 0 then Emit.fault (.assertion 337)
  else if params.length ≠ 0 then Emit.fault (.assertion 338)
  else do
    let header_id ← spvb_fresh_id
    let body_id ← spvb_fresh_id
    let continue_id ← spvb_fresh_id
    let next_id ← spvb_fresh_id
    spvb_branch bb_builder header_id
    let header_builder := spvb_begin_bb fn_builder header_id
    spvb_loop_merge header_builder next_id continue_id
    spvb_branch header_builder body_id
    spvb_name header_id "loop_header"
    let merge_targets_branches :=
      { merge_targets with continue_target := continue_id, break_target := next_id }
    let body_builder := spvb_begin_bb fn_builder body_id
    emit_block fn_builder body_builder merge_targets_branches body
    spvb_name body_id "loop_body"
    let continue_builder := spvb_begin_bb fn_builder continue_id
    spvb_branch continue_builder header_id
    spvb_name continue_id "loop_continue"
    let next := spvb_begin_bb fn_builder next_id
    spvb_name next_id "loop_next"
    pure next

/-- Modelled from the spec: `is_instruction`, the tags of the instructions. -/
def is_instruction : Node → Bool
  | .let_ _ _ _ => true
  | .prim_op _ _ => true
  | .call_instr _ _ => true
  | .if_instr _ _ _ _ => true
  | .match_instr _ _ _ _ _ => true
  | .loop_instr _ _ _ _ => true
  | _ => false

/-- The `switch` of `emit_instruction`, on the instruction without its `Let`. -/
def emit_instruction_switch (type_of : TypeOf) (fuel : Nat)
    (emit_block : FnBuilder → BBBuilder → MergeTargets → Node → Emit Unit)
    (fn_builder : FnBuilder) (bb_builder : BBBuilder) (merge_targets : MergeTargets)
    (instruction : Node) (variables_ : List Node) : Emit BBBuilder :=
  match instruction with
  | .prim_op _ _ => do
    emit_primop type_of fuel fn_builder bb_builder instruction variables_
    pure bb_builder
  | .call_instr callee args => do
    emit_call type_of fuel bb_builder callee args variables_
    pure bb_builder
  | .if_instr yield_types condition if_true if_false =>
    emit_if type_of fuel emit_block fn_builder bb_builder merge_targets yield_types condition
      if_true if_false
  | .match_instr yield_types inspect literals cases default_case =>
    emit_match type_of fuel emit_block fn_builder bb_builder merge_targets yield_types inspect
      literals cases default_case
  | .loop_instr params yield_types _ body =>
    emit_loop emit_block fn_builder bb_builder merge_targets params yield_types body
  | _ => Emit.fault .error

/-- Embeds `emit_instruction`; the result is the basic-block builder that
`*bb_builder` holds afterwards. -/
def emit_instruction (type_of : TypeOf) (fuel : Nat)
    (emit_block : FnBuilder → BBBuilder → MergeTargets → Node → Emit Unit)
    (fn_builder : FnBuilder) (bb_builder : BBBuilder) (merge_targets : MergeTargets)
    (instruction : Node) : Emit BBBuilder :=
  if instruction.is_null then Emit.fault .out_of_bounds
  else if ¬ is_instruction instruction then Emit.fault (.assertion 374)
  else
    match instruction with
    | .let_ variables_ instruction _ =>
      if instruction.is_null then Emit.fault .out_of_bounds
      else if ¬ is_instruction instruction then Emit.fault (.assertion 380)
      else
        match instruction with
        | .let_ _ _ _ => Emit.fault (.assertion 380)
        | _ =>
          emit_instruction_switch type_of fuel emit_block fn_builder bb_builder merge_targets
            instruction variables_
    | _ =>
      emit_instruction_switch type_of fuel emit_block fn_builder bb_builder merge_targets
        instruction []

/-- Embeds `find_reserved_id`. -/
def find_reserved_id (node : Node) : Emit SpvId := fun e =>
  match find_node_id e node with
  | some id => .ok (id, e)
  | none => .error (.assertion 395)

/-- Embeds `emit_terminator`. -/
def emit_terminator (type_of : TypeOf) (fuel : Nat) (fn_builder : FnBuilder)
    (basic_block_builder : BBBuilder) (merge_targets : MergeTargets) (terminator : Node) :
    Emit Unit :=
  match terminator with
  | .null => Emit.fault .out_of_bounds
  | .fn_ret _ values =>
    match values with
    | [] => spvb_return_void basic_block_builder
    | [value] => do
      let id ← emit_value type_of fuel value none
      spvb_return_value basic_block_builder id
    | _ => do
      let arr ← emit_values type_of fuel values
      let ret_type ← fn_ret_type_id fn_builder
      let return_that ← spvb_composite basic_block_builder ret_type arr
      spvb_return_value basic_block_builder return_that
  | .branch branch_mode yield target branch_condition true_target false_target _ _ _ _ args =>
    if args.length ≠ 0 then Emit.fault (.assertion 417)
    else if yield ≠ false then Emit.fault (.assertion 418)
    else
      match branch_mode with
      | .BrJump => do
        let id ← find_reserved_id target
        spvb_branch basic_block_builder id
      | .BrIfElse => do
        let condition ← emit_value type_of fuel branch_condition none
        let true_id ← find_reserved_id true_target
        let false_id ← find_reserved_id false_target
        spvb_branch_conditional basic_block_builder condition true_id false_id
      | .BrSwitch => Emit.fault .error
      | .BrTailcall => Emit.fault .error
  | .join _ _ _ _ => Emit.fault .error
  | .merge_construct construct args =>
    match construct with
    | .Selection =>
      if args.length ≠ 0 then Emit.fault (.assertion 437)
      else spvb_branch basic_block_builder merge_targets.join_target
    | .Continue =>
      if args.length ≠ 0 then Emit.fault (.assertion 442)
      else spvb_branch basic_block_builder merge_targets.continue_target
    | .Break =>
      if args.length ≠ 0 then Emit.fault (.assertion 447)
      else spvb_branch basic_block_builder merge_targets.break_target
  | .unreachable => spvb_unreachable basic_block_builder
  | _ => Emit.fault .error

/-- The loop of `emit_block` over the instructions; the result is the
basic-block builder after the last instruction. -/
def emit_instructions (type_of : TypeOf) (fuel : Nat)
    (emit_block : FnBuilder → BBBuilder → MergeTargets → Node → Emit Unit)
    (fn_builder : FnBuilder) (merge_targets : MergeTargets) :
    BBBuilder → List Node → Emit BBBuilder
  | basic_block_builder, [] => pure basic_block_builder
  | basic_block_builder, instruction :: instructions => do
    let next ← emit_instruction type_of fuel emit_block fn_builder basic_block_builder
      merge_targets instruction
    emit_instructions type_of fuel emit_block fn_builder merge_targets next instructions

/-- The body of `emit_block`; its calls of `emit_block` (through
`emit_instruction`) are the argument `emit_block`. -/
def emit_block_body (type_of : TypeOf) (fuel : Nat)
    (emit_block : FnBuilder → BBBuilder → MergeTargets → Node → Emit Unit)
    (fn_builder : FnBuilder) (basic_block_builder : BBBuilder) (merge_targets : MergeTargets)
    (node : Node) : Emit Unit :=
  match node with
  | .null => Emit.fault .out_of_bounds
  | .block instructions terminator => do
    let last ← emit_instructions type_of fuel emit_block fn_builder merge_targets
      basic_block_builder instructions
    emit_terminator type_of fuel fn_builder last merge_targets terminator
  | _ => Emit.fault (.assertion 464)

/-- Embeds `emit_block`; `fuel` bounds the nesting of blocks, and the depth of
the calls of `emit_type` and `emit_value`. -/
def emit_block (type_of : TypeOf) :
    Nat → FnBuilder → BBBuilder → MergeTargets → Node → Emit Unit
  | 0 => fun _ _ _ _ => Emit.fault .out_of_fuel
  | fuel + 1 => emit_block_body type_of (fuel + 1) (emit_block type_of fuel)

/-! ### Functions and the module -/

/-- Modelled from the spec: a node of the dominator tree that `build_scope`
computes: a function or continuation and the nodes it dominates. -/
inductive CFNode where
  | mk (node : Node) (dominates : List CFNode)
  deriving Repr

/-- Modelled from the spec: the `Scope` that `build_scope` returns. -/
structure Scope where
  entry : CFNode
  deriving Repr

/-- Modelled from the spec: the payload that a pointer to a `Function` node
points to, `none` for a node of another tag. -/
abbrev Deref := Node → Option Function

/-- A loop over the nodes that a `CFNode` dominates. -/
def emit_dominated (emit_basic_block : CFNode → Emit Unit) : List CFNode → Emit Unit
  | [] => pure ()
  | child_node :: rest => do
    emit_basic_block child_node
    emit_dominated emit_basic_block rest

/-- Embeds `emit_basic_block`; `fuel` bounds the depth of the dominator tree as
well. -/
def emit_basic_block (type_of : TypeOf) (deref : Deref) :
    Nat → FnBuilder → CFNode → Bool → Emit Unit
  | 0, _, _, _ => Emit.fault .out_of_fuel
  | fuel + 1, fn_builder, .mk node dominates, is_entry =>
    match deref node with
    | none => Emit.fault (.assertion 472)
    | some f => do
      let bb_id ← (if is_entry then spvb_fresh_id else find_reserved_id node)
      let basic_block_builder := spvb_begin_bb fn_builder bb_id
      spvb_name bb_id f.name
      let merge_targets : MergeTargets :=
        { continue_target := 0, break_target := 0, join_target := 0 }
      emit_block type_of (fuel + 1) fn_builder basic_block_builder merge_targets f.block
      emit_dominated (fun child_node => emit_basic_block type_of deref fuel fn_builder
        child_node false) dominates

/-- The loop of `emit_function` over the parameters. -/
def emit_parameters (type_of : TypeOf) (fuel : Nat) (fn_builder : FnBuilder) :
    List Node → Emit Unit
  | [] => pure ()
  | param :: params =>
    match param with
    | .var type _ _ => do
      let type_id ← emit_type type_of fuel type
      let param_id ← spvb_parameter fn_builder type_id
      insert_node_id param param_id
      emit_parameters type_of fuel fn_builder params
    | _ => Emit.fault .out_of_bounds

/-- Embeds `emit_function`; `build_scope` is not part of the sources and is an
argument.  C leaves open in which order the arguments of `spvb_begin_fn` are
evaluated; here the function type is emitted before the return types, which
decides which of two types that are both new gets the lower id and nothing
else. -/
def emit_function (type_of : TypeOf) (deref : Deref) (build_scope : Node → Scope) (fuel : Nat)
    (node : Node) : Emit Unit :=
  match deref node with
  | none => Emit.fault (.assertion 494)
  | some f => do
    let fn_type := type_of node
    let fn_id ← find_reserved_id node
    let fn_type_id ← emit_type type_of fuel fn_type
    let codom ← nodes_to_codom (emit_type type_of fuel) f.return_types
    let fn_builder ← spvb_begin_fn fn_id fn_type_id codom
    emit_parameters type_of fuel fn_builder f.params
    let scope := build_scope node
    emit_basic_block type_of deref fuel fn_builder scope.entry true
    spvb_define_function fn_builder

/-- The first loop of `emit_spirv`: an id is reserved for each declaration and
stored for it; the result is the array `ids`. -/
def reserve_ids : List Node → Emit (List SpvId)
  | [] => pure []
  | decl :: decls => do
    let id ← spvb_fresh_id
    insert_node_id decl id
    let ids ← reserve_ids decls
    pure (id :: ids)

/-- The body of the second loop of `emit_spirv` for the declaration `decl` with
the reserved id `id` (`ids[i]`). -/
def emit_declaration (type_of : TypeOf) (deref : Deref) (build_scope : Node → Scope)
    (fuel : Nat) (decl : Node) (id : SpvId) : Emit Unit :=
  match decl with
  | .null => Emit.fault .out_of_bounds
  | .global_variable name _ address_space init => do
    let init ← (if init.is_null then pure 0 else emit_value type_of fuel init none)
    let type_id ← emit_type type_of fuel (type_of decl)
    let storage_class ← Emit.of_except (emit_addr_space address_space)
    spvb_global_variable id type_id storage_class init
    spvb_name id name
  | .fn _ _ =>
    match deref decl with
    | none => Emit.fault (.assertion 494)
    | some f => do
      emit_function type_of deref build_scope fuel decl
      spvb_name id f.name
  | .constant name value _ => do
    let _ ← emit_value type_of fuel value (some id)
    spvb_name id name
  | _ => Emit.fault .error

/-- The second loop of `emit_spirv`. -/
def emit_declarations (type_of : TypeOf) (deref : Deref) (build_scope : Node → Scope)
    (fuel : Nat) : List Node → List SpvId → Emit Unit
  | [], _ => pure ()
  | _ :: _, [] => Emit.fault .out_of_bounds
  | decl :: decls, id :: ids => do
    emit_declaration type_of deref build_scope fuel decl id
    emit_declarations type_of deref build_scope fuel decls ids

/-- Modelled from the spec: the emitter over the builder that `spvb_begin`
returns: nothing has been appended, the first free id is 1, and the dictionary
is empty. -/
def new_emitter : Emitter :=
  { bound := 1, declarations := [], variables_ := [], instructions := [], void_t := 0,
    node_ids := [] }

/-- Stores the id of the `void` type in the emitter. -/
def set_void_t (id : SpvId) : Emit Unit := fun e => .ok ((), { e with void_t := id })

/-- The part of `emit_spirv` before the declarations are emitted: the `void`
type, the capabilities and the reservation of the ids. -/
def emit_spirv_reserve (declarations : List Node) : Emit (List SpvId) := do
  let void_t ← spvb_void_type
  set_void_t void_t
  spvb_capability .SpvCapabilityShader
  spvb_capability .SpvCapabilityLinkage
  spvb_capability .SpvCapabilityPhysicalStorageBufferAddresses
  spvb_capability .SpvCapabilitySubgroupBallotKHR
  reserve_ids declarations

/-- Embeds `emit_spirv`; the result is what has been appended to the builders
when `spvb_finish` writes the words of the module. -/
def emit_spirv (type_of : TypeOf) (deref : Deref) (build_scope : Node → Scope) (fuel : Nat)
    (root_node : Node) : Except Fault Emitter :=
  match root_node with
  | .root declarations =>
    let run : Emit Unit := do
      let ids ← emit_spirv_reserve declarations
      emit_declarations type_of deref build_scope fuel declarations ids
    match run new_emitter with
    | .ok r => .ok r.2
    | .error err => .error err
  | _ => .error .out_of_bounds

/-! ### Notions for the statements about the emitter -/

/-- An integer type or the boolean type, possibly qualified. -/
def Node.is_scalar_type : Node → Bool
  | .int_type _ => true
  | .bool_type => true
  | .qualified_type _ (.int_type _) => true
  | .qualified_type _ .bool_type => true
  | _ => false

/-- The type whose id `emit_value` asks for when it emits a literal:
`node->type` for an integer literal, `bool` for `true` and `false`. -/
def literal_type (type_of : TypeOf) (node : Node) : Node :=
  match node with
  | .int_literal _ _ => type_of node
  | _ => .bool_type

/-- The constant of a literal under the id `id`, with the type id `type`: what
`spvb_constant` or `spvb_bool_constant` is called with; `none` for a node that
is not a literal. -/
def constant_of (node : Node) (id type : SpvId) : Option SpvDecl :=
  match node with
  | .int_literal width value =>
    some (.constant id type
      (if width = IntSizes.IntTy64 then [word32 (Int.fdiv value (2 ^ 32)), word32 value]
        else [word32 value]))
  | .true_lit => some (.bool_constant id type true)
  | .false_lit => some (.bool_constant id type false)
  | _ => none

/-- The emitter `e1` extends the emitter `e`: no id has been given back, and
what had been appended to the builders and stored in the dictionary is the
beginning of what `e1` holds. -/
def Emitter.le (e e1 : Emitter) : Prop :=
  e.bound ≤ e1.bound ∧ e.declarations <+: e1.declarations ∧
  e.instructions <+: e1.instructions ∧ e.variables_ <+: e1.variables_ ∧
  e.node_ids <+: e1.node_ids

/-- Whenever the computation returns, the emitter it leaves extends the
emitter it started from. -/
def Emit.grows {α : Type} (m : Emit α) : Prop :=
  ∀ e r e1, m e = .ok (r, e1) → e.le e1

/-- The instruction that a `Let` binds; an instruction without `Let` is its own
body. -/
def Node.let_body : Node → Node
  | .let_ _ instruction _ => instruction
  | node => node

/-- The block `inner` is a branch of the `If` instruction, or a case or the
default case of the `Match` instruction. -/
inductive Node.branch_of : Node → Node → Prop where
  | if_true (yield_types : List Node) (condition if_true if_false : Node) :
    Node.branch_of if_true (.if_instr yield_types condition if_true if_false)
  | if_false (yield_types : List Node) (condition if_true if_false : Node) :
    if_false.is_null = false →
    Node.branch_of if_false (.if_instr yield_types condition if_true if_false)
  | case (yield_types : List Node) (inspect : Node) (literals cases : List Node)
      (default_case case : Node) :
    case ∈ cases →
    Node.branch_of case (.match_instr yield_types inspect literals cases default_case)
  | default (yield_types : List Node) (inspect : Node) (literals cases : List Node)
      (default_case : Node) :
    Node.branch_of default_case (.match_instr yield_types inspect literals cases default_case)

/-- The block `inner` is the block `outer`, or is nested in it through `If` and
`Match` instructions only: through any number of them, and through no
`Loop`. -/
inductive Node.selection_nested : Node → Node → Prop where
  | refl (block : Node) : Node.selection_nested block block
  | step (instructions : List Node) (terminator instruction mid inner : Node) :
    instruction ∈ instructions → Node.branch_of mid instruction.let_body →
    Node.selection_nested mid inner →
    Node.selection_nested (.block instructions terminator) inner

/-- The merge target that a `MergeConstruct` of a construct branches to. -/
def MergeTargets.of (merge_targets : MergeTargets) : MergeWhat → SpvId
  | .Selection => merge_targets.join_target
  | .Continue => merge_targets.continue_target
  | .Break => merge_targets.break_target

/-- The body of the loop `loop { if (b) { break } }` of the examples. -/
def example_loop_body : Node :=
  .block [.if_instr [] example_b (.block [] (.merge_construct .Break [])) .null]
    (.merge_construct .Continue [])

/-- The record `d` of the file builder defines the declaration `decl` under the
id `id`: the global variable with this id, the function begun with this id,
or the constant of the value of the `Constant` under this id. -/
def defines (decl : Node) (id : SpvId) (d : SpvDecl) : Prop :=
  match decl with
  | .global_variable _ _ _ _ => ∃ type storage_class init, d = .global_variable id type
      storage_class init
  | .fn _ _ => ∃ fn_type ret_type, d = .fn_begin id fn_type ret_type
  | .constant _ value _ => ∃ type, constant_of value id type = some d
  | _ => False

/-- The emitter of `emit_spirv` when the reservation of the ids begins: the
`void` type has the id 1 and the four capabilities are declared. -/
def emitter_before_reserve : Emitter :=
  { bound := 2
    declarations :=
      [.void_type 1, .capability .SpvCapabilityShader, .capability .SpvCapabilityLinkage,
        .capability .SpvCapabilityPhysicalStorageBufferAddresses,
        .capability .SpvCapabilitySubgroupBallotKHR]
    variables_ := []
    instructions := []
    void_t := 1
    node_ids := [] }

/-- The functions of the example module: `main`, which returns the value of the
constant `answer`, and nothing else. -/
def example_deref : Deref
  | .fn .dst 0 =>
    some
      { atttributes := { is_continuation := false, entry_point_type := .NotAnEntryPoint }
        name := "main"
        params := []
        return_types := [.int_type .IntTy32]
        block := .block [] (.fn_ret .null [.constant "answer" (.int_literal .IntTy32 42) .null]) }
  | _ => none

/-- The types of the nodes of the example module. -/
def example_module_type_of : TypeOf
  | .fn .dst 0 => .fn_type false [] [.int_type .IntTy32]
  | .int_literal w _ => .int_type w
  | _ => .null

/-- The dominator tree of a function without continuations: the function
alone. -/
def example_build_scope (node : Node) : Scope := { entry := .mk node [] }

/-- The example module: the function `main` and, after it, the constant
`answer = 42` that `main` returns. -/
def example_module : Node :=
  .root [.fn .dst 0, .constant "answer" (.int_literal .IntTy32 42) .null]

/-- The size of a node: the length of its content. -/
def Node.size (node : Node) : Nat := node.content.length

/-- The typing gives every integer literal a scalar type. -/
def TypeOf.scalar_literals (type_of : TypeOf) : Prop :=
  ∀ w v, (type_of (.int_literal w v)).is_scalar_type = true

/-- The node has an id in the dictionary. -/
def Emitter.has (e : Emitter) (node : Node) : Prop := ∃ id, find_node_id e node = some id

/-- Every node that has an id in `e1` has an id in `e` already, or has a size of
at most `n`. -/
def Emitter.new_keys_below (e e1 : Emitter) (n : Nat) : Prop :=
  ∀ k, e1.has k → e.has k ∨ k.size ≤ n

/-- The id that a record of the file builder defines: the id of a type, of a
constant or of a global variable. -/
def SpvDecl.result : SpvDecl → Option SpvId
  | .int_type id _ _ => some id
  | .bool_type id => some id
  | .ptr_type id _ _ => some id
  | .struct_type id _ => some id
  | .fn_type id _ _ => some id
  | .array_type id _ _ => some id
  | .runtime_array_type id _ => some id
  | .constant id _ _ => some id
  | .bool_constant id _ _ => some id
  | .void_type id => some id
  | .global_variable id _ _ _ => some id
  | _ => none

/-- Every id that a record of the file builder defines has been allocated. -/
def Emitter.wf (e : Emitter) : Prop :=
  ∀ d, d ∈ e.declarations → ∀ id, d.result = some id → id < e.bound

/-- In the dictionary, a qualified form of the type `type` has no other id than
the type itself. -/
def Emitter.agrees (e : Emitter) (type : Node) : Prop :=
  ∀ u id, find_node_id e (.qualified_type u type) = some id → find_node_id e type = some id

/-- The forms of a type that the claim about qualifiers names: the type itself,
the uniform and the varying type. -/
def Node.forms (type : Node) : List Node :=
  [type, .qualified_type true type, .qualified_type false type]

/-- Whenever the computation returns, the new keys of the dictionary have a
size of at most `n`, and every id that a record defines is still allocated. -/
def Emit.inserts_below {α : Type} (m : Emit α) (n : Nat) : Prop :=
  ∀ e r e1, m e = .ok (r, e1) → e.new_keys_below e1 n ∧ (e.wf → e1.wf)

/-- The type is not a qualified type. -/
def Node.is_qualified : Node → Bool
  | .qualified_type _ _ => true
  | _ => false

/-- Exactly one record of the file builder defines the id. -/
def Emitter.declares_once (e : Emitter) (id : SpvId) : Prop :=
  (e.declarations.filter (fun d => decide (d.result = some id))).length = 1

/-- Whenever the computation returns from an emitter whose defined ids are
allocated, the id it returns is the last id that has been allocated, and the
last record of the file builder defines it. -/
def Emit.declares_last (m : Emit SpvId) : Prop :=
  ∀ e r e1, m e = .ok (r, e1) → e.wf →
    ∃ (e0 : Emitter) (d : SpvDecl), e0.wf ∧ r = e0.bound ∧ d.result = some r ∧
      e1.declarations = e0.declarations ++ [d] ∧ e1.bound = e0.bound + 1

mutual
/-- A type that `emit_type` has a case for all the way down: an integer or
boolean type, a pointer into an address space that `emit_addr_space` maps, a
record, a function type that is not a continuation, a qualified type, or an
array whose size is null or a literal, made of such types. -/
def Node.emittable : Node → Bool
  | .int_type _ => true
  | .bool_type => true
  | .ptr_type address_space pointed_type =>
    is_ok (emit_addr_space address_space) && pointed_type.emittable
  | .record_type members => Node.all_emittable members
  | .fn_type is_continuation param_types return_types =>
    !is_continuation && (Node.all_emittable param_types && Node.all_emittable return_types)
  | .qualified_type _ type => type.emittable
  | .arr_type element_type size =>
    element_type.emittable && (size.is_null || (constant_of size 0 0).isSome)
  | _ => false
/-- Every type of the list is one that `emit_type` can emit. -/
def Node.all_emittable : List Node → Bool
  | [] => true
  | x :: xs => x.emittable && Node.all_emittable xs
end

/-- The dictionary agrees on the qualified forms of every type. -/
def Emitter.consistent (e : Emitter) : Prop := ∀ type, e.agrees type

/-- Whenever the computation returns, it has kept the agreement of the
dictionary on qualified types. -/
def Emit.keeps_consistent {α : Type} (m : Emit α) : Prop :=
  ∀ e r e1, m e = .ok (r, e1) → e.consistent → e1.consistent

/-! ## The binder (`passes/bind.c`)

`bind.c` is written against the IR of `implem.h`, which is not part of the
sources: an occurrence of a name is a `Variable` node without a type, a `Let`
has the fields `variables` and `target`, a `Function` the fields
`return_type`, `instructions` and `params`.  The nodes of this IR are the
values of `Bind.Node`; every tag that `bind_node` leaves to
`recreate_node_identity` is the constructor `other`. -/

/-- The ways in which `bind.c` stops without returning a value. -/
inductive BindFault where
  /-- The macro `error(...)` with the message that it prints. -/
  | error (message : String)
  /-- A failed `assert`; the number is the line of the assertion. -/
  | assertion (line : Nat)
  /-- A read through `NULL`, or of the payload of another tag. -/
  | out_of_bounds
  /-- The recursion budget of the model is used up (not a behaviour of the C code). -/
  | out_of_fuel
  deriving DecidableEq, Repr

/-- A node pointer of the IR that `bind.c` reads and builds: `null`, a
`Variable` (the `id` is what makes two variables of the same name and type
different nodes), a `Let`, a `Function`, or a node of any other tag with its
subnodes. -/
inductive Bind.Node where
  | null
  | var (name : String) (id : Nat) (type : Bind.Node)
  | let_ (variables_ : List Bind.Node) (target : Bind.Node)
  | fn (return_type : Bind.Node) (instructions : List Bind.Node) (params : List Bind.Node)
  | other (tag : Nat) (operands : List Bind.Node)
  deriving Repr

/-- Embeds `struct BindEntry`. -/
structure BindEntry where
  id : String
  new_node : Bind.Node
  deriving Repr

/-- Embeds `struct BindRewriter`: the list `bound_variables`, in the order of
`append_list`; of the rewriter, the id counter of `dst_arena`. -/
structure BindRewriter where
  bound_variables : List BindEntry
  next_free_id : Nat
  deriving Repr

/-- A computation of the binder: it reads and updates the `BindRewriter` and
returns a value, or stops with a fault. -/
def BindM (α : Type) : Type := BindRewriter → Except BindFault (α × BindRewriter)

instance : Monad BindM where
  pure a := fun ctx => .ok (a, ctx)
  bind m f := fun ctx =>
    match m ctx with
    | .error err => .error err
    | .ok r => f r.1 r.2

/-- Stops with a fault. -/
def BindM.fault {α : Type} (err : BindFault) : BindM α := fun _ => .error err

/-- Reads the `BindRewriter`. -/
def BindM.get : BindM BindRewriter := fun ctx => .ok (ctx, ctx)

/-- The loop of `resolve` over the entries from index 0 upwards: the node of
the first entry whose name equals `id` (`strcmp`), `error(...)` after the last
entry. -/
def resolve_from (id : String) : List BindEntry → Except BindFault Bind.Node
  | [] => .error (.error ("could not resolve variable " ++ id))
  | entry :: entries =>
    if entry.id = id then .ok entry.new_node else resolve_from id entries

/-- Embeds `resolve`. -/
def resolve (ctx : BindRewriter) (id : String) : Except BindFault Bind.Node :=
  resolve_from id ctx.bound_variables

/-- Modelled from the spec: the constructor `var`, which gives the new
variable a fresh id of the destination arena. -/
def Bind.var (name : String) (type : Bind.Node) : BindM Bind.Node := fun ctx =>
  .ok (.var name ctx.next_free_id type, { ctx with next_free_id := ctx.next_free_id + 1 })

/-- Modelled from the spec: `append_list` on `bound_variables`. -/
def append_entry (entry : BindEntry) : BindM Unit := fun ctx =>
  .ok ((), { ctx with bound_variables := ctx.bound_variables ++ [entry] })

/-- Modelled from the spec: `recreate_type_identity`, the same type in the
destination arena. -/
def recreate_type_identity (type : Bind.Node) : BindM Bind.Node := pure type

/-- The loop over the variables of a `Let` and over the parameters of a
`Function`: for each old variable a new variable of the same name and type is
created and an entry for it is appended to `bound_variables`; the new
variables are returned in order. -/
def bind_variables : List Bind.Node → BindM (List Bind.Node)
  | [] => pure []
  | old :: olds =>
    match old with
    | .var name _ type => do
      let type ← recreate_type_identity type
      let new_binding ← Bind.var name type
      append_entry { id := name, new_node := new_binding }
      let rest ← bind_variables olds
      pure (new_binding :: rest)
    | _ => BindM.fault .out_of_bounds

/-- Modelled from the spec: `rewrite_nodes`, which rewrites the nodes of a list
in order. -/
def Bind.rewrite_nodes (rw : Bind.Node → BindM Bind.Node) :
    List Bind.Node → BindM (List Bind.Node)
  | [] => pure []
  | node :: nodes => do
    let new ← rw node
    let news ← Bind.rewrite_nodes rw nodes
    pure (new :: news)

/-- Modelled from the spec: `recreate_node_identity`, which rewrites the
subnodes of a node with `rewrite_node` and builds the node of the same tag
from them. -/
def Bind.recreate_node_identity (rw : Bind.Node → BindM Bind.Node) (node : Bind.Node) :
    BindM Bind.Node :=
  match node with
  | .null => BindM.fault .out_of_bounds
  | .var name id type => do
    let type ← recreate_type_identity type
    pure (.var name id type)
  | .let_ variables_ target => do
    let variables_ ← Bind.rewrite_nodes rw variables_
    let target ← rw target
    pure (.let_ variables_ target)
  | .fn return_type instructions params => do
    let return_type ← recreate_type_identity return_type
    let params ← Bind.rewrite_nodes rw params
    let instructions ← Bind.rewrite_nodes rw instructions
    pure (.fn return_type instructions params)
  | .other tag operands => do
    let operands ← Bind.rewrite_nodes rw operands
    pure (.other tag operands)

/-- The loop at the end of the `Function` case: `pop_list` until the list has
its old size again. -/
def pop_entries (old_bound_variables_size : Nat) : BindM Unit := fun ctx =>
  .ok ((), { ctx with bound_variables := ctx.bound_variables.take old_bound_variables_size })

/-- Embeds `bind_node`; `fuel` bounds the depth of the recursion through
`rewriter->rewrite_node`, which is `bind_node` itself.  The `printf` calls are
left out. -/
def bind_node : Nat → Bind.Node → BindM Bind.Node
  | 0, _ => BindM.fault .out_of_fuel
  | fuel + 1, node =>
    match node with
    | .null => pure .null
    | .var name _ type =>
      match type with
      | .null => fun ctx =>
        match resolve ctx name with
        | .ok found => .ok (found, ctx)
        | .error err => .error err
      | _ => BindM.fault (.assertion 38)
    | .let_ variables_ target => do
      let noutputs ← bind_variables variables_
      let target ← bind_node fuel target
      pure (.let_ noutputs target)
    | .fn return_type instructions params => do
      let ctx ← BindM.get
      let old_bound_variables_size := ctx.bound_variables.length
      let nparams ← bind_variables params
      let return_type ← recreate_type_identity return_type
      let instructions ← Bind.rewrite_nodes (bind_node fuel) instructions
      pop_entries old_bound_variables_size
      pure (.fn return_type instructions nparams)
    | .other _ _ => Bind.recreate_node_identity (bind_node fuel) node

/-- Embeds `struct Program`. -/
structure Program where
  variables_ : List Bind.Node
  definitions : List Bind.Node
  deriving Repr

/-- The second loop of `bind_program`: `definitions.nodes[i]` is bound for every
`i` below the number of variables. -/
def bind_definitions (fuel : Nat) (definitions : List Bind.Node) :
    Nat → Nat → BindM (List Bind.Node)
  | 0, _ => pure []
  | count + 1, i =>
    match definitions.get? i with
    | none => BindM.fault .out_of_bounds
    | some definition => do
      let new ← bind_node fuel definition
      let news ← bind_definitions fuel definitions count (i + 1)
      pure (new :: news)

/-- Embeds `bind_program`, run on an empty list of bound variables; `next_free_id`
is the id counter of the destination arena. -/
def bind_program (fuel : Nat) (next_free_id : Nat) (src_program : Program) :
    Except BindFault Program :=
  let run : BindM Program := do
    let new_variables ← bind_variables src_program.variables_
    let new_definitions ←
      bind_definitions fuel src_program.definitions src_program.variables_.length 0
    pure { variables_ := new_variables, definitions := new_definitions }
  match run { bound_variables := [], next_free_id := next_free_id } with
  | .ok r => .ok r.1
  | .error err => .error err

/-- The occurrence of a name: a `Variable` node without type, as the parser
builds it. -/
def Bind.occurrence (name : String) : Bind.Node := .var name 0 .null

/-- The function `f(x) { let x = c; use(x) }` of the examples, as the parser
builds it: `c` and `use` are nodes of other tags (1 and 2). -/
def example_shadowing_fn : Bind.Node :=
  .fn .null
    [.let_ [.var "x" 0 .null] (.other 1 []), .other 2 [Bind.occurrence "x"]]
    [.var "x" 0 .null]

/-- The entries that the loop over the variables of a `Let` or the parameters
of a `Function` appends for the new variables it has created. -/
def entries_of (news : List Bind.Node) : List BindEntry :=
  news.filterMap fun new =>
    match new with
    | .var name _ _ => some { id := name, new_node := new }
    | _ => none

/-- Whenever the computation returns, the list of bound variables it leaves
begins with the list it started from. -/
def BindM.extends_stack {α : Type} (m : BindM α) : Prop :=
  ∀ ctx r ctx1, m ctx = .ok (r, ctx1) → ctx.bound_variables <+: ctx1.bound_variables

/-- The function `f(x) { let y = c; use(x) }` of the examples. -/
def example_scoped_fn : Bind.Node :=
  .fn .null
    [.let_ [.var "y" 0 .null] (.other 1 []), .other 2 [Bind.occurrence "x"]]
    [.var "x" 0 .null]

/-! ## The regions that a sequence of `arena_alloc` calls returns -/

/-- A region returned by `arena_alloc`: its block, the offset of its first byte
in the block, its length (the rounded size), and the size that was
requested. -/
structure Region where
  block : Nat
  off : Nat
  len : Nat
  size : Nat
  deriving DecidableEq, Repr

/-- Two regions have no byte in common. -/
def Region.disjoint (r s : Region) : Prop :=
  r.block ≠ s.block ∨ r.off + r.len ≤ s.off ∨ s.off + s.len ≤ r.off

/-- Successive calls of `arena_alloc` with the sizes of the list: the regions
returned, oldest first (a call that returns `NULL` returns no region), and the
arena after the calls; or the first fault. -/
def arena_alloc_regions (abi : Abi) : IrArena → List Nat → Except Fault (List Region × IrArena)
  | arena, [] => .ok ([], arena)
  | arena, size :: sizes =>
    match arena_alloc abi arena size with
    | .error e => .error e
    | .ok r =>
      match arena_alloc_regions abi r.2 sizes with
      | .error e => .error e
      | .ok rest =>
        match r.1 with
        | none => .ok rest
        | some p =>
          .ok ({ block := p.block, off := p.off, len := round_up size abi.max_align,
                 size := size } :: rest.1, rest.2)

/-- The invariant of bump allocation: the arena is well-formed and the free
tail of the last block is a multiple of the maximum alignment. -/
def IrArena.bump_inv (abi : Abi) (a : IrArena) : Prop :=
  a.wf ∧ abi.max_align ∣ a.available

/-! ## The parser (`slim/parser.c`)

The parser reads the tokens of a source text and builds nodes in an arena.
Its functions call each other recursively; in the model every call of a
function of the parser and every round of one of its loops is served by the
functions of the next lower recursion budget (`parsers`). -/

/-- Embeds `enum TokenTag`: the tags that `parser.c` names; `other` stands for
the remaining tags of `token.h`, by number. -/
inductive TokenTag where
  | EOF_tok | identifier_tok | hex_lit_tok | dec_lit_tok | true_tok | false_tok
  | global_tok | private_tok | shared_tok | subgroup_tok | extern_tok | input_tok | output_tok
  | i8_tok | i16_tok | i32_tok | i64_tok | float_tok | bool_tok | mask_tok | ptr_tok
  | lsbracket_tok | rsbracket_tok | lbracket_tok | rbracket_tok | lpar_tok | rpar_tok
  | semi_tok | colon_tok | comma_tok | equal_tok | minus_tok
  | uniform_tok | varying_tok
  | if_tok | else_tok | loop_tok
  | load_tok | store_tok | alloca_tok | call_tok
  | let_tok | var_tok
  | jump_tok | branch_tok | return_tok | merge_tok | continue_tok | break_tok | unreachable_tok
  | const_tok | compute_tok | fn_tok
  | other (n : Nat)
  deriving Repr

/-- The number of a tag: the named tags in the order of their declaration, the
remaining ones after them. -/
def TokenTag.code : TokenTag → Nat
  | .EOF_tok => 0
  | .identifier_tok => 1
  | .hex_lit_tok => 2
  | .dec_lit_tok => 3
  | .true_tok => 4
  | .false_tok => 5
  | .global_tok => 6
  | .private_tok => 7
  | .shared_tok => 8
  | .subgroup_tok => 9
  | .extern_tok => 10
  | .input_tok => 11
  | .output_tok => 12
  | .i8_tok => 13
  | .i16_tok => 14
  | .i32_tok => 15
  | .i64_tok => 16
  | .float_tok => 17
  | .bool_tok => 18
  | .mask_tok => 19
  | .ptr_tok => 20
  | .lsbracket_tok => 21
  | .rsbracket_tok => 22
  | .lbracket_tok => 23
  | .rbracket_tok => 24
  | .lpar_tok => 25
  | .rpar_tok => 26
  | .semi_tok => 27
  | .colon_tok => 28
  | .comma_tok => 29
  | .equal_tok => 30
  | .minus_tok => 31
  | .uniform_tok => 32
  | .varying_tok => 33
  | .if_tok => 34
  | .else_tok => 35
  | .loop_tok => 36
  | .load_tok => 37
  | .store_tok => 38
  | .alloca_tok => 39
  | .call_tok => 40
  | .let_tok => 41
  | .var_tok => 42
  | .jump_tok => 43
  | .branch_tok => 44
  | .return_tok => 45
  | .merge_tok => 46
  | .continue_tok => 47
  | .break_tok => 48
  | .unreachable_tok => 49
  | .const_tok => 50
  | .compute_tok => 51
  | .fn_tok => 52
  | .other n => n + 53

/-- The tag of a number, the inverse of `TokenTag.code`. -/
def TokenTag.of_code : Nat → TokenTag
  | 0 => .EOF_tok
  | 1 => .identifier_tok
  | 2 => .hex_lit_tok
  | 3 => .dec_lit_tok
  | 4 => .true_tok
  | 5 => .false_tok
  | 6 => .global_tok
  | 7 => .private_tok
  | 8 => .shared_tok
  | 9 => .subgroup_tok
  | 10 => .extern_tok
  | 11 => .input_tok
  | 12 => .output_tok
  | 13 => .i8_tok
  | 14 => .i16_tok
  | 15 => .i32_tok
  | 16 => .i64_tok
  | 17 => .float_tok
  | 18 => .bool_tok
  | 19 => .mask_tok
  | 20 => .ptr_tok
  | 21 => .lsbracket_tok
  | 22 => .rsbracket_tok
  | 23 => .lbracket_tok
  | 24 => .rbracket_tok
  | 25 => .lpar_tok
  | 26 => .rpar_tok
  | 27 => .semi_tok
  | 28 => .colon_tok
  | 29 => .comma_tok
  | 30 => .equal_tok
  | 31 => .minus_tok
  | 32 => .uniform_tok
  | 33 => .varying_tok
  | 34 => .if_tok
  | 35 => .else_tok
  | 36 => .loop_tok
  | 37 => .load_tok
  | 38 => .store_tok
  | 39 => .alloca_tok
  | 40 => .call_tok
  | 41 => .let_tok
  | 42 => .var_tok
  | 43 => .jump_tok
  | 44 => .branch_tok
  | 45 => .return_tok
  | 46 => .merge_tok
  | 47 => .continue_tok
  | 48 => .break_tok
  | 49 => .unreachable_tok
  | 50 => .const_tok
  | 51 => .compute_tok
  | 52 => .fn_tok
  | n + 53 => .other n

/-- Two tags are compared by their numbers, as the values of the C `enum` are. -/
instance : DecidableEq TokenTag := fun a b =>
  if h : a.code = b.code then
    isTrue (by
      have key : ∀ t : TokenTag, TokenTag.of_code t.code = t := fun t => by cases t <;> rfl
      rw [← key a, ← key b, h])
  else isFalse (fun hab => h (by rw [hab]))

/-- Embeds `struct Token`: the tag and the bytes `[start, end)` of the source
text that the token covers. -/
structure Token where
  tag : TokenTag
  start : Nat
  end_ : Nat
  deriving DecidableEq, Repr

/-- The ways in which the parser stops without returning a node. -/
inductive ParseFault where
  /-- A failed `expect(...)` of the given line: prints `expected to parse` and
  calls `exit(-4)`. -/
  | expected (line : Nat)
  /-- The macro `error(...)` of the given line. -/
  | error (line : Nat)
  /-- A failed `assert` of the given line. -/
  | assertion (line : Nat)
  /-- The end of the loop of `parse`: `No idea what to parse here...` and
  `exit(-3)`. -/
  | no_idea
  /-- A fault of the arena while a string is interned. -/
  | arena (fault : Fault)
  /-- The recursion budget of the model is used up (not a behaviour of the C code). -/
  | out_of_fuel
  deriving DecidableEq, Repr

/-- Embeds `ParserConfig`. -/
structure ParserConfig where
  front_end : Bool
  deriving DecidableEq, Repr

/-- Embeds `DivergenceQualifier`. -/
inductive DivergenceQualifier where
  | Unknown | Uniform | Varying
  deriving DecidableEq, Repr

/-- Modelled from the spec: what `parser.c` takes from headers and constructors
that are not part of the sources; the parser is parametric in them.  The
macro `INFIX_OPERATORS()` of `token.h` lists the infix operators with their
token, primop and precedence, and `is_infix_operator`, `get_precedence` and
`is_primop_op` are its three readings (an infix operator is given by its
number in `InfixOperators`); `PRIMOPS()` of `ir.h` gives
`translate_token_to_primop`; `tuple` and `extract_int_literal_value` are
functions of the node library. -/
structure ParserTables where
  is_infix_operator : TokenTag → Option Nat
  get_precedence : Nat → Int
  is_primop_op : Nat → Option Op
  translate_token_to_primop : TokenTag → Option Op
  tuple : List Node → Node
  extract_int_literal_value : Node → Int

/-- The arguments `ctxparams` that every function of the parser passes on
unchanged: the configuration and the source text, with the platform constants
of the arena and the tables. -/
structure ParserEnv where
  config : ParserConfig
  contents : List Nat
  abi : Abi
  tables : ParserTables

/-- The state the parser works on: the tokens that the tokenizer has still to
deliver, the arena, and the functions built so far (`Node.fn .src i` points to
the `i`-th of them). -/
structure ParserState where
  tokens : List Token
  arena : IrArena
  fns : List Function

/-- A computation of the parser: it reads and updates the state and returns a
value, or stops with a fault. -/
def Parse (α : Type) : Type := ParserState → Except ParseFault (α × ParserState)

instance : Monad Parse where
  pure a := fun s => .ok (a, s)
  bind m f := fun s =>
    match m s with
    | .error err => .error err
    | .ok r => f r.1 r.2

/-- Stops with a fault. -/
def Parse.fault {α : Type} (err : ParseFault) : Parse α := fun _ => .error err

/-- Embeds `max_precedence`. -/
def max_precedence : Int := 10

/-- Modelled from the spec: `curr_token(tokenizer)`, the token the tokenizer is
at; behind the last token of the text it delivers `EOF_tok`. -/
def ParserState.curr (s : ParserState) : Token :=
  match s.tokens with
  | [] => { tag := .EOF_tok, start := 0, end_ := 0 }
  | tok :: _ => tok

/-- The call `curr_token(tokenizer)`. -/
def curr_token : Parse Token := fun s => .ok (s.curr, s)

/-- Modelled from the spec: `next_token(tokenizer)`, which moves the tokenizer
to the following token. -/
def next_token : Parse Unit := fun s => .ok ((), { s with tokens := s.tokens.tail })

/-- Embeds `expect_impl`, with the line of the `expect(...)` that calls it. -/
def expect (condition : Bool) (line : Nat) : Parse Unit :=
  if condition then pure () else Parse.fault (.expected line)

/-- An `assert` of the given line. -/
def Parse.assert (condition : Bool) (line : Nat) : Parse Unit :=
  if condition then pure () else Parse.fault (.assertion line)

/-- Embeds `accept_token`. -/
def accept_token (tag : TokenTag) : Parse Bool := do
  let tok ← curr_token
  if tok.tag = tag then do
    next_token
    pure true
  else pure false

/-- The text of an interned string. -/
def text_of (arena : IrArena) (r : Ref) : String :=
  match load_str arena.mem r with
  | some cs => String.mk (cs.map Char.ofNat)
  | none => ""

/-- The call `string_sized(arena, (int) size, &contents[tok.start])` with
`size = tok.end - tok.start`: the pointer given to `string_sized` points to
the byte `tok.start` of the source text, which goes on to the end of the
text.  The result is the text of the interned string. -/
def intern_token (env : ParserEnv) (tok : Token) : Parse String := fun s =>
  match string_sized env.abi s.arena (tok.end_ - tok.start)
      (.ext (env.contents.drop tok.start)) with
  | .error e => .error (.arena e)
  | .ok r => .ok (text_of r.2 r.1, { s with arena := r.2 })

/-- Embeds `accept_identifier`: `none` is the result `NULL`. -/
def accept_identifier (env : ParserEnv) : Parse (Option String) := do
  let tok ← curr_token
  if tok.tag = .identifier_tok then do
    next_token
    let id ← intern_token env tok
    pure (some id)
  else pure none

/-- Embeds `accept_literal`. -/
def accept_literal (env : ParserEnv) : Parse Node := do
  let tok ← curr_token
  match tok.tag with
  | .hex_lit_tok => do
    next_token
    let plaintext ← intern_token env tok
    pure (.untyped_number plaintext)
  | .dec_lit_tok => do
    next_token
    let plaintext ← intern_token env tok
    pure (.untyped_number plaintext)
  | .true_tok => do
    next_token
    pure .true_lit
  | .false_tok => do
    next_token
    pure .false_lit
  | _ => pure .null

/-- Embeds `accept_value`. -/
def accept_value (env : ParserEnv) : Parse Node := do
  let id ← accept_identifier env
  match id with
  | some id => pure (.unbound id)
  | none => accept_literal env

/-- Embeds `expect_ptr_address_space`. -/
def expect_ptr_address_space : Parse AddressSpace := do
  let tok ← curr_token
  match tok.tag with
  | .global_tok => do
    next_token
    pure .AsGlobalPhysical
  | .private_tok => do
    next_token
    pure .AsPrivatePhysical
  | .shared_tok => do
    next_token
    pure .AsSharedPhysical
  | _ => Parse.fault (.error 118)

/-- Embeds `accept_uniformity_qualifier`. -/
def accept_uniformity_qualifier : Parse DivergenceQualifier := do
  if (← accept_token .uniform_tok) then pure .Uniform
  else if (← accept_token .varying_tok) then pure .Varying
  else pure .Unknown

/-- Modelled from the spec: the constructor `var(arena, type, name)`, which
gives the variable a fresh id of the arena. -/
def Parse.var (type : Node) (name : String) : Parse Node := fun s =>
  let r := fresh_id s.arena
  .ok (.var type r.1 name, { s with arena := r.2 })

/-- Modelled from the spec: the constructor `fn(arena, attributes, name, params,
return_types)`: a new function without block; the result points to it. -/
def Parse.fn (atttributes : FnAttributes) (name : String) (params return_types : List Node) :
    Parse Node := fun s =>
  .ok (.fn .src s.fns.length,
    { s with fns := s.fns ++ [{ atttributes := atttributes, name := name, params := params,
                                return_types := return_types, block := .null }] })

/-- The assignment `function->payload.fn.block = block`. -/
def Parse.set_fn_block (node : Node) (block : Node) : Parse Unit := fun s =>
  match node with
  | .fn .src i =>
    match s.fns.get? i with
    | some f => .ok ((), { s with fns := s.fns.set i { f with block := block } })
    | none => .error (.arena .out_of_bounds)
  | _ => .error (.arena .out_of_bounds)

/-- Modelled from the spec: the variables that the constructors `let` and
`let_mut` make for the names of the outputs, each with a fresh id and with
the type given for it. -/
def Parse.vars : List (Node × String) → Parse (List Node)
  | [] => pure []
  | out :: outs => do
    let v ← Parse.var out.1 out.2
    let vs ← Parse.vars outs
    pure (v :: vs)

/-- Modelled from the spec: the constructor `let(arena, instruction, count,
names)`. -/
def Parse.let_ (instruction : Node) (names : List String) : Parse Node := do
  let vars ← Parse.vars (names.map (fun name => (Node.null, name)))
  pure (.let_ vars instruction false)

/-- Modelled from the spec: the constructor `let_mut(arena, instruction, types,
count, names)`. -/
def Parse.let_mut (instruction : Node) (types : List Node) (names : List String) :
    Parse Node := do
  let vars ← Parse.vars (types.zip names)
  pure (.let_ vars instruction true)

/-- Modelled from the spec: `unit_type(arena)`, the record type without members. -/
def unit_type : Node := .record_type []

/-- Modelled from the spec: `derive_fn_type(arena, fn)`, the function type
made of the types of the parameters and of the return types. -/
def derive_fn_type (atttributes : FnAttributes) (params return_types : List Node) : Node :=
  .fn_type atttributes.is_continuation (params.map Node.type) return_types

/-- The functions of the parser that call each other, for one recursion
budget.  A loop is a function of its own that is given the local variables
the loop works on; `accept_types`, `expect_identifiers`,
`expect_types_and_identifiers`, `accept_fn_annotations` and `parse` consist of
their loop and are given the lists (the annotations) built so far. -/
structure Parsers where
  accept_unqualified_type : Parse Node
  accept_maybe_qualified_type : Parse Node
  accept_qualified_type : Parse Node
  accept_operand : Parse Node
  expect_parameters : Bool → Parse (List Node × List Node)
  expect_parameters_loop : Bool → List Node → List Node → Parse (List Node × List Node)
  expect_parameters_next : Bool → List Node → List Node → Parse (List Node × List Node)
  accept_types : Option TokenTag → Bool → List Node → Parse (List Node)
  expect_parenthised_expr : Parse Node
  expect_parenthised_expr_loop : List Node → Parse (List Node)
  accept_primary_expr : Parse Node
  accept_primary_expr_loop : Node → Parse Node
  accept_expr : Int → Parse Node
  accept_expr_loop : Int → Node → Parse Node
  expect_operands : Parse (List Node)
  expect_operands_loop : Bool → List Node → Parse (List Node)
  accept_control_flow_instruction : Parse Node
  accept_primop : Parse Node
  accept_instruction : Parse Node
  expect_identifiers : List String → Parse (List String)
  expect_types_and_identifiers : List String → List Node → Parse (List String × List Node)
  accept_instruction_maybe_with_let_too : Parse Node
  terminator_args : Parse (List Node)
  accept_terminator : Parse Node
  expect_block : Node → Parse Node
  expect_block_instructions : List Node → Parse (List Node)
  expect_block_continuations : List Node → List Node → Parse (List Node × List Node)
  accept_const : Parse Node
  accept_fn_annotations : FnAttributes → Parse FnAttributes
  accept_fn_decl : Parse Node
  accept_global_var_decl : Parse Node
  parse : List Node → Parse Node

/-- Embeds `accept_unqualified_type`. -/
def accept_unqualified_type_body (env : ParserEnv) (p : Parsers) : Parse Node := do
  if (← accept_token .i8_tok) then pure (.int_type .IntTy8)
  else if (← accept_token .i16_tok) then pure (.int_type .IntTy16)
  else if (← accept_token .i32_tok) then pure (.int_type .IntTy32)
  else if (← accept_token .i64_tok) then pure (.int_type .IntTy64)
  else if (← accept_token .float_tok) then pure .float_type
  else if (← accept_token .bool_tok) then pure .bool_type
  else if (← accept_token .mask_tok) then pure .mask_type
  else if (← accept_token .ptr_tok) then do
    let as ← expect_ptr_address_space
    let elem_type ← p.accept_unqualified_type
    expect (!elem_type.is_null) 141
    pure (.ptr_type as elem_type)
  else if env.config.front_end then do
    if (← accept_token .lsbracket_tok) then do
      let elem_type ← p.accept_unqualified_type
      Parse.assert (!elem_type.is_null) 148
      let semi ← accept_token .semi_tok
      expect semi 150
      let expr ← accept_value env
      expect (!expr.is_null) 152
      let closing ← accept_token .rsbracket_tok
      expect closing 153
      pure (.arr_type elem_type expr)
    else pure .null
  else pure .null

/-- Embeds `accept_maybe_qualified_type`. -/
def accept_maybe_qualified_type_body (p : Parsers) : Parse Node := do
  let qualifier ← accept_uniformity_qualifier
  let unqualified ← p.accept_unqualified_type
  (if qualifier ≠ .Unknown then expect (!unqualified.is_null) 177 else pure ())
  if qualifier = .Unknown then pure unqualified
  else pure (.qualified_type (decide (qualifier = .Uniform)) unqualified)

/-- Embeds `accept_qualified_type`. -/
def accept_qualified_type_body (p : Parsers) : Parse Node := do
  let qualifier ← accept_uniformity_qualifier
  if qualifier = .Unknown then pure .null
  else do
    let unqualified ← p.accept_unqualified_type
    expect (!unqualified.is_null) 189
    pure (.qualified_type (decide (qualifier = .Uniform)) unqualified)

/-- Embeds `accept_operand`. -/
def accept_operand_body (env : ParserEnv) (p : Parsers) : Parse Node :=
  if env.config.front_end then p.accept_expr max_precedence else accept_value env

/-- Embeds `expect_parameters` up to its loop; `has_default_values` tells
whether the caller passes a place for the default values.  The result is the
pair of `*parameters` and `*default_values`. -/
def expect_parameters_body (p : Parsers) (has_default_values : Bool) :
    Parse (List Node × List Node) := do
  let opening ← accept_token .lpar_tok
  expect opening 198
  p.expect_parameters_loop has_default_values [] []

/-- The head of the loop `while (true)` of `expect_parameters`, with the lists
`params` and `default_vals` built so far. -/
def expect_parameters_loop_body (p : Parsers) (has_default_values : Bool)
    (params default_vals : List Node) : Parse (List Node × List Node) := do
  if (← accept_token .rpar_tok) then pure (params, default_vals)
  else p.expect_parameters_next has_default_values params default_vals

/-- The block at the label `next` of `expect_parameters`: one parameter; after
a comma the block is entered again, otherwise the loop goes on at its head. -/
def expect_parameters_next_body (env : ParserEnv) (p : Parsers) (has_default_values : Bool)
    (params default_vals : List Node) : Parse (List Node × List Node) := do
  let qtype ← p.accept_qualified_type
  expect (!qtype.is_null) 208
  let id ← accept_identifier env
  match id with
  | none => Parse.fault (.expected 210)
  | some id => do
    let node ← Parse.var qtype id
    let default_vals ← (if has_default_values then do
        let equal ← accept_token .equal_tok
        expect equal 216
        let default_val ← p.accept_operand
        pure (default_vals ++ [default_val])
      else pure default_vals)
    if (← accept_token .comma_tok) then
      p.expect_parameters_next has_default_values (params ++ [node]) default_vals
    else p.expect_parameters_loop has_default_values (params ++ [node]) default_vals

/-- Embeds `accept_types`, with the list `types` built so far; the separator
`0` is `none`. -/
def accept_types_body (p : Parsers) (separator : Option TokenTag) (expect_qualified : Bool)
    (types : List Node) : Parse (List Node) := do
  let type ← (if expect_qualified then p.accept_qualified_type
    else p.accept_maybe_qualified_type)
  if type.is_null then pure types
  else
    match separator with
    | some tag => do
      let _ ← accept_token tag
      p.accept_types separator expect_qualified (types ++ [type])
    | none => p.accept_types separator expect_qualified (types ++ [type])

/-- Embeds `expect_parenthised_expr`. -/
def expect_parenthised_expr_body (env : ParserEnv) (p : Parsers) : Parse Node := do
  let opening ← accept_token .lpar_tok
  expect opening 254
  let expr ← p.accept_expr max_precedence
  if expr.is_null then do
    let closing ← accept_token .rpar_tok
    expect closing 257
    pure unit_type
  else do
    let tok ← curr_token
    if tok.tag ≠ .rpar_tok then do
      let elements ← p.expect_parenthised_expr_loop [expr]
      pure (env.tables.tuple elements)
    else do
      next_token
      pure expr

/-- The loop `while (!accept_token(ctx, rpar_tok))` of `expect_parenthised_expr`,
with the list `elements` built so far. -/
def expect_parenthised_expr_loop_body (p : Parsers) (elements : List Node) :
    Parse (List Node) := do
  if (← accept_token .rpar_tok) then pure elements
  else do
    let comma ← accept_token .comma_tok
    expect comma 265
    let element ← p.accept_expr max_precedence
    p.expect_parenthised_expr_loop (elements ++ [element])

/-- Embeds `accept_primary_expr` up to its loop. -/
def accept_primary_expr_body (env : ParserEnv) (p : Parsers) : Parse Node := do
  let tok ← curr_token
  match tok.tag with
  | .minus_tok => do
    next_token
    let expr ← p.accept_primary_expr
    Parse.assert (!expr.is_null) 285
    match expr with
    | .int_literal _ _ =>
      pure (.int_literal .IntTy8 (-(env.tables.extract_int_literal_value expr)))
    | _ => pure (.prim_op .neg_op [expr])
  | .lpar_tok => p.expect_parenthised_expr
  | _ => do
    let expr ← accept_value env
    let expr ← (if expr.is_null then p.accept_primop else pure expr)
    p.accept_primary_expr_loop expr

/-- The loop `while (expr)` of `accept_primary_expr`: the calls that follow
the expression. -/
def accept_primary_expr_loop_body (p : Parsers) (expr : Node) : Parse Node :=
  if expr.is_null then pure expr
  else do
    let tok ← curr_token
    match tok.tag with
    | .lpar_tok => do
      let args ← p.expect_operands
      p.accept_primary_expr_loop (.call_instr expr args)
    | _ => pure expr

/-- Embeds `accept_expr` up to its loop. -/
def accept_expr_body (p : Parsers) (outer_precedence : Int) : Parse Node := do
  let expr ← p.accept_primary_expr
  p.accept_expr_loop outer_precedence expr

/-- The loop `while (expr)` of `accept_expr`. -/
def accept_expr_loop_body (env : ParserEnv) (p : Parsers) (outer_precedence : Int)
    (expr : Node) : Parse Node :=
  if expr.is_null then pure expr
  else do
    let tok ← curr_token
    match env.tables.is_infix_operator tok.tag with
    | some infix_op =>
      if env.tables.get_precedence infix_op > outer_precedence then pure expr
      else do
        next_token
        let rhs ← p.accept_expr (env.tables.get_precedence infix_op - 1)
        Parse.assert (!rhs.is_null) 331
        match env.tables.is_primop_op infix_op with
        | some primop_op => p.accept_expr_loop outer_precedence (.prim_op primop_op [expr, rhs])
        | none => Parse.fault (.error 339)
    | none => do
      if (← accept_token .lsbracket_tok) then do
        let index ← p.accept_expr max_precedence
        Parse.assert (!index.is_null) 344
        let closing ← accept_token .rsbracket_tok
        expect closing 345
        p.accept_expr_loop outer_precedence (.prim_op .subscript_op [expr, index])
      else pure expr

/-- Embeds `expect_operands` up to its loop. -/
def expect_operands_body (p : Parsers) : Parse (List Node) := do
  if (← accept_token .lpar_tok) then p.expect_operands_loop false []
  else Parse.fault (.error 359)

/-- The loop of `expect_operands`, with the flag `expect` and the list built
so far. -/
def expect_operands_loop_body (p : Parsers) (expect_value : Bool) (list : List Node) :
    Parse (List Node) := do
  let val ← p.accept_operand
  if val.is_null then
    if expect_value then Parse.fault (.error 368)
    else do
      if (← accept_token .rpar_tok) then pure list
      else Parse.fault (.error 372)
  else do
    if (← accept_token .comma_tok) then p.expect_operands_loop true (list ++ [val])
    else if (← accept_token .rpar_tok) then pure (list ++ [val])
    else Parse.fault (.error 382)

/-- Embeds `accept_control_flow_instruction`. -/
def accept_control_flow_instruction_body (env : ParserEnv) (p : Parsers) : Parse Node := do
  let current_token ← curr_token
  match current_token.tag with
  | .if_tok => do
    next_token
    let yield_types ← p.accept_types none false []
    let opening ← accept_token .lpar_tok
    expect opening 396
    let condition ← p.accept_operand
    expect (!condition.is_null) 398
    let closing ← accept_token .rpar_tok
    expect closing 399
    let merge := if env.config.front_end then Node.merge_construct .Selection [] else Node.null
    let if_true ← p.expect_block merge
    let has_else ← accept_token .else_tok
    let if_false ← (if has_else then p.expect_block merge else pure Node.null)
    pure (.if_instr yield_types condition if_true if_false)
  | .loop_tok => do
    next_token
    let yield_types ← p.accept_types none false []
    let parameters ← p.expect_parameters true
    let body ← p.expect_block
      (if env.config.front_end then Node.merge_construct .Continue [] else Node.null)
    pure (.loop_instr parameters.1 yield_types parameters.2 body)
  | _ => pure .null

/-- Embeds `accept_primop`. -/
def accept_primop_body (env : ParserEnv) (p : Parsers) : Parse Node := do
  let tok ← curr_token
  match tok.tag with
  | .load_tok => do
    next_token
    let opening ← accept_token .lpar_tok
    expect opening 447
    let element_type ← p.accept_unqualified_type
    Parse.assert element_type.is_null 449
    (if element_type.is_null then pure () else do
      let comma ← accept_token .comma_tok
      expect comma 451)
    let ptr ← p.accept_operand
    expect (!ptr.is_null) 453
    let closing ← accept_token .rpar_tok
    expect closing 455
    pure (.prim_op .load_op [ptr])
  | .store_tok => do
    next_token
    let opening ← accept_token .lpar_tok
    expect opening 463
    let ptr ← p.accept_operand
    expect (!ptr.is_null) 465
    let comma ← accept_token .comma_tok
    expect comma 466
    let data ← p.accept_operand
    expect (!data.is_null) 468
    let closing ← accept_token .rpar_tok
    expect closing 470
    pure (.prim_op .store_op [ptr, data])
  | .alloca_tok => do
    next_token
    let opening ← accept_token .lpar_tok
    expect opening 478
    let element_type ← p.accept_unqualified_type
    expect (!element_type.is_null) 480
    let closing ← accept_token .rpar_tok
    expect closing 482
    pure (.prim_op .alloca_op [element_type])
  | .call_tok => do
    next_token
    let opening ← accept_token .lpar_tok
    expect opening 492
    let callee ← p.accept_operand
    Parse.assert (!callee.is_null) 494
    let closing ← accept_token .rpar_tok
    expect closing 495
    let args ← p.expect_operands
    pure (.call_instr callee args)
  | tag =>
    match env.tables.translate_token_to_primop tag with
    | some op => do
      next_token
      let operands ← p.expect_operands
      pure (.prim_op op operands)
    | none => pure .null

/-- Embeds `accept_instruction`. -/
def accept_instruction_body (env : ParserEnv) (p : Parsers) : Parse Node := do
  let instr ← (if env.config.front_end then p.accept_expr max_precedence else p.accept_primop)
  if instr.is_null then p.accept_control_flow_instruction
  else do
    let semi ← accept_token .semi_tok
    expect semi 515
    pure instr

/-- Embeds `expect_identifiers`, with the list built so far. -/
def expect_identifiers_body (env : ParserEnv) (p : Parsers) (list : List String) :
    Parse (List String) := do
  let id ← accept_identifier env
  match id with
  | none => Parse.fault (.expected 525)
  | some id => do
    if (← accept_token .comma_tok) then p.expect_identifiers (list ++ [id])
    else pure (list ++ [id])

/-- Embeds `expect_types_and_identifiers`, with the lists built so far. -/
def expect_types_and_identifiers_body (env : ParserEnv) (p : Parsers) (slist : List String)
    (tlist : List Node) : Parse (List String × List Node) := do
  let type ← p.accept_unqualified_type
  expect (!type.is_null) 545
  let id ← accept_identifier env
  match id with
  | none => Parse.fault (.expected 547)
  | some id => do
    if (← accept_token .comma_tok) then
      p.expect_types_and_identifiers (slist ++ [id]) (tlist ++ [type])
    else pure (slist ++ [id], tlist ++ [type])

/-- Embeds `accept_instruction_maybe_with_let_too`. -/
def accept_instruction_maybe_with_let_too_body (p : Parsers) : Parse Node := do
  if (← accept_token .let_tok) then do
    let ids ← p.expect_identifiers []
    let equal ← accept_token .equal_tok
    expect equal 569
    let instruction ← p.accept_instruction
    Parse.let_ instruction ids
  else if (← accept_token .var_tok) then do
    let ids ← p.expect_types_and_identifiers [] []
    let equal ← accept_token .equal_tok
    expect equal 574
    let instruction ← p.accept_instruction
    Parse.let_mut instruction ids.2 ids.1
  else p.accept_instruction

/-- The expression `curr_token(tokenizer).tag == lpar_tok ? expect_operands(ctx) :
nodes(arena, 0, NULL)` of `accept_terminator`. -/
def terminator_args_body (p : Parsers) : Parse (List Node) := do
  let tok ← curr_token
  if tok.tag = .lpar_tok then p.expect_operands else pure []

/-- Embeds `accept_terminator`. -/
def accept_terminator_body (env : ParserEnv) (p : Parsers) : Parse Node := do
  let tok ← curr_token
  match tok.tag with
  | .jump_tok => do
    next_token
    let opening ← accept_token .lpar_tok
    expect opening 586
    let target ← p.accept_operand
    let closing ← accept_token .rpar_tok
    expect closing 588
    expect (!target.is_null) 589
    let args ← p.terminator_args
    pure (.branch .BrJump false target .null .null .null .null .null [] [] args)
  | .branch_tok => do
    next_token
    let opening ← accept_token .lpar_tok
    expect opening 601
    let condition ← accept_value env
    expect (!condition.is_null) 603
    let comma ← accept_token .comma_tok
    expect comma 604
    let true_target ← accept_value env
    expect (!true_target.is_null) 606
    let comma ← accept_token .comma_tok
    expect comma 607
    let false_target ← accept_value env
    expect (!false_target.is_null) 609
    let closing ← accept_token .rpar_tok
    expect closing 610
    let args ← p.terminator_args
    pure (.branch .BrIfElse false .null condition true_target false_target .null .null [] []
      args)
  | .return_tok => do
    next_token
    let args ← p.terminator_args
    pure (.fn_ret .null args)
  | .merge_tok => do
    next_token
    let args ← p.terminator_args
    pure (.merge_construct .Selection args)
  | .continue_tok => do
    next_token
    let args ← p.terminator_args
    pure (.merge_construct .Continue args)
  | .break_tok => do
    next_token
    let args ← p.terminator_args
    pure (.merge_construct .Break args)
  | .unreachable_tok => do
    next_token
    pure .unreachable
  | _ => pure .null

/-- Embeds `expect_block`, with its two loops as functions of their own. -/
def expect_block_body (p : Parsers) (implicit_join : Node) : Parse Node := do
  let opening ← accept_token .lbracket_tok
  expect opening 664
  let instrs ← p.expect_block_instructions []
  let terminator ← p.accept_terminator
  let terminator ← (if terminator.is_null then
      (if implicit_join.is_null then Parse.fault (.error 688) else pure implicit_join)
    else do
      let semi ← accept_token .semi_tok
      expect semi 682
      pure terminator)
  let tok ← curr_token
  let conts ← (if tok.tag = .identifier_tok then p.expect_block_continuations [] []
    else pure ([], []))
  let closing ← accept_token .rbracket_tok
  expect closing 724
  pure (.parsed_block instrs terminator conts.2 conts.1)

/-- The first loop of `expect_block`: the instructions, with the list built so
far. -/
def expect_block_instructions_body (p : Parsers) (instructions : List Node) :
    Parse (List Node) := do
  let instruction ← p.accept_instruction_maybe_with_let_too
  if instruction.is_null then pure instructions
  else p.expect_block_instructions (instructions ++ [instruction])

/-- The second loop of `expect_block`: the continuations, with the lists `conts`
and `names` built so far. -/
def expect_block_continuations_body (env : ParserEnv) (p : Parsers) (conts names : List Node) :
    Parse (List Node × List Node) := do
  let identifier ← accept_identifier env
  match identifier with
  | none => pure (conts, names)
  | some identifier => do
    let colon ← accept_token .colon_tok
    expect colon 698
    let parameters ← p.expect_parameters false
    let block ← p.expect_block .null
    let atttributes : FnAttributes :=
      { is_continuation := true, entry_point_type := .NotAnEntryPoint }
    let continuation ← Parse.fn atttributes identifier parameters.1 []
    Parse.set_fn_block continuation block
    let contvar ← Parse.var
      (.qualified_type true (derive_fn_type atttributes parameters.1 [])) identifier
    p.expect_block_continuations (conts ++ [continuation]) (names ++ [contvar])

/-- Embeds `accept_const`. -/
def accept_const_body (env : ParserEnv) (p : Parsers) : Parse Node := do
  if (← accept_token .const_tok) then do
    let type ← p.accept_unqualified_type
    let id ← accept_identifier env
    match id with
    | none => Parse.fault (.expected 740)
    | some id => do
      let equal ← accept_token .equal_tok
      expect equal 741
      let definition ← accept_value env
      Parse.assert (!definition.is_null) 743
      let semi ← accept_token .semi_tok
      expect semi 745
      pure (.constant id definition type)
  else pure .null

/-- Embeds `accept_fn_annotations`, with the annotations read so far;
`annotations.entry_point_type = true` stores the value 1 of the enumeration. -/
def accept_fn_annotations_body (p : Parsers) (annotations : FnAttributes) :
    Parse FnAttributes := do
  if (← accept_token .compute_tok) then
    p.accept_fn_annotations { annotations with entry_point_type := .Compute }
  else pure annotations

/-- Embeds `accept_fn_decl`. -/
def accept_fn_decl_body (env : ParserEnv) (p : Parsers) : Parse Node := do
  if (← accept_token .fn_tok) then do
    let atttributes ← p.accept_fn_annotations
      { is_continuation := false, entry_point_type := .NotAnEntryPoint }
    let id ← accept_identifier env
    match id with
    | none => Parse.fault (.expected 777)
    | some id => do
      let types ← p.accept_types (some .comma_tok) false []
      let tok ← curr_token
      expect (decide (tok.tag = .lpar_tok)) 779
      let parameters ← p.expect_parameters false
      let block ← p.expect_block (if types.length = 0 then Node.fn_ret .null types else .null)
      let function ← Parse.fn atttributes id parameters.1 types
      Parse.set_fn_block function block
      Parse.assert (!function.is_null) 789
      pure function
  else pure .null

/-- Embeds `accept_global_var_decl`. -/
def accept_global_var_decl_body (env : ParserEnv) (p : Parsers) : Parse Node := do
  let as ← (do
    if (← accept_token .private_tok) then pure (some AddressSpace.AsPrivateLogical)
    else if (← accept_token .shared_tok) then pure (some AddressSpace.AsSharedLogical)
    else if (← accept_token .subgroup_tok) then pure (some AddressSpace.AsSubgroupPhysical)
    else if (← accept_token .extern_tok) then pure (some AddressSpace.AsExternal)
    else if (← accept_token .input_tok) then pure (some AddressSpace.AsInput)
    else if (← accept_token .output_tok) then pure (some AddressSpace.AsOutput)
    else pure none : Parse (Option AddressSpace))
  match as with
  | none => pure .null
  | some as => do
    let type ← p.accept_unqualified_type
    expect (!type.is_null) 812
    let id ← accept_identifier env
    match id with
    | none => Parse.fault (.expected 814)
    | some id => do
      let initial_value ← (do
        if (← accept_token .equal_tok) then do
          let initial_value ← accept_value env
          Parse.assert (!initial_value.is_null) 819
          pure initial_value
        else pure Node.null : Parse Node)
      let semi ← accept_token .semi_tok
      expect semi 822
      pure (.global_variable id type as initial_value)

/-- Embeds the loop of `parse`, with the list of declarations built so far, and
the `root` made of them behind the loop. -/
def parse_body (p : Parsers) (declarations : List Node) : Parse Node := do
  let token ← curr_token
  if token.tag = .EOF_tok then pure (.root declarations)
  else do
    let decl ← p.accept_const
    let decl ← (if decl.is_null then p.accept_fn_decl else pure decl)
    let decl ← (if decl.is_null then p.accept_global_var_decl else pure decl)
    if decl.is_null then Parse.fault .no_idea
    else p.parse (declarations ++ [decl])

/-- The functions of the parser without recursion budget: each stops at once. -/
def Parsers.out_of_fuel : Parsers :=
  { accept_unqualified_type := Parse.fault .out_of_fuel
    accept_maybe_qualified_type := Parse.fault .out_of_fuel
    accept_qualified_type := Parse.fault .out_of_fuel
    accept_operand := Parse.fault .out_of_fuel
    expect_parameters := fun _ => Parse.fault .out_of_fuel
    expect_parameters_loop := fun _ _ _ => Parse.fault .out_of_fuel
    expect_parameters_next := fun _ _ _ => Parse.fault .out_of_fuel
    accept_types := fun _ _ _ => Parse.fault .out_of_fuel
    expect_parenthised_expr := Parse.fault .out_of_fuel
    expect_parenthised_expr_loop := fun _ => Parse.fault .out_of_fuel
    accept_primary_expr := Parse.fault .out_of_fuel
    accept_primary_expr_loop := fun _ => Parse.fault .out_of_fuel
    accept_expr := fun _ => Parse.fault .out_of_fuel
    accept_expr_loop := fun _ _ => Parse.fault .out_of_fuel
    expect_operands := Parse.fault .out_of_fuel
    expect_operands_loop := fun _ _ => Parse.fault .out_of_fuel
    accept_control_flow_instruction := Parse.fault .out_of_fuel
    accept_primop := Parse.fault .out_of_fuel
    accept_instruction := Parse.fault .out_of_fuel
    expect_identifiers := fun _ => Parse.fault .out_of_fuel
    expect_types_and_identifiers := fun _ _ => Parse.fault .out_of_fuel
    accept_instruction_maybe_with_let_too := Parse.fault .out_of_fuel
    terminator_args := Parse.fault .out_of_fuel
    accept_terminator := Parse.fault .out_of_fuel
    expect_block := fun _ => Parse.fault .out_of_fuel
    expect_block_instructions := fun _ => Parse.fault .out_of_fuel
    expect_block_continuations := fun _ _ => Parse.fault .out_of_fuel
    accept_const := Parse.fault .out_of_fuel
    accept_fn_annotations := fun _ => Parse.fault .out_of_fuel
    accept_fn_decl := Parse.fault .out_of_fuel
    accept_global_var_decl := Parse.fault .out_of_fuel
    parse := fun _ => Parse.fault .out_of_fuel }

/-- The functions of the parser, served by the functions `p` for the calls
they make. -/
def Parsers.step (env : ParserEnv) (p : Parsers) : Parsers :=
  { accept_unqualified_type := accept_unqualified_type_body env p
    accept_maybe_qualified_type := accept_maybe_qualified_type_body p
    accept_qualified_type := accept_qualified_type_body p
    accept_operand := accept_operand_body env p
    expect_parameters := expect_parameters_body p
    expect_parameters_loop := expect_parameters_loop_body p
    expect_parameters_next := expect_parameters_next_body env p
    accept_types := accept_types_body p
    expect_parenthised_expr := expect_parenthised_expr_body env p
    expect_parenthised_expr_loop := expect_parenthised_expr_loop_body p
    accept_primary_expr := accept_primary_expr_body env p
    accept_primary_expr_loop := accept_primary_expr_loop_body p
    accept_expr := accept_expr_body p
    accept_expr_loop := accept_expr_loop_body env p
    expect_operands := expect_operands_body p
    expect_operands_loop := expect_operands_loop_body p
    accept_control_flow_instruction := accept_control_flow_instruction_body env p
    accept_primop := accept_primop_body env p
    accept_instruction := accept_instruction_body env p
    expect_identifiers := expect_identifiers_body env p
    expect_types_and_identifiers := expect_types_and_identifiers_body env p
    accept_instruction_maybe_with_let_too := accept_instruction_maybe_with_let_too_body p
    terminator_args := terminator_args_body p
    accept_terminator := accept_terminator_body env p
    expect_block := expect_block_body p
    expect_block_instructions := expect_block_instructions_body p
    expect_block_continuations := expect_block_continuations_body env p
    accept_const := accept_const_body env p
    accept_fn_annotations := accept_fn_annotations_body p
    accept_fn_decl := accept_fn_decl_body env p
    accept_global_var_decl := accept_global_var_decl_body env p
    parse := parse_body p }

/-- The functions of the parser with a recursion budget: `fuel` bounds the
depth of the calls and the rounds of the loops on top of each other. -/
def parsers (env : ParserEnv) : Nat → Parsers
  | 0 => Parsers.out_of_fuel
  | fuel + 1 => Parsers.step env (parsers env fuel)

/-- Embeds `accept_expr`. -/
def accept_expr (env : ParserEnv) (fuel : Nat) (outer_precedence : Int) : Parse Node :=
  (parsers env fuel).accept_expr outer_precedence

/-- Embeds `accept_primary_expr`. -/
def accept_primary_expr (env : ParserEnv) (fuel : Nat) : Parse Node :=
  (parsers env fuel).accept_primary_expr

/-- Embeds `expect_block`. -/
def expect_block (env : ParserEnv) (fuel : Nat) (implicit_join : Node) : Parse Node :=
  (parsers env fuel).expect_block implicit_join

/-- Embeds `parse`, given the tokens that `new_tokenizer(contents)` delivers:
the root, with the state the parser ends in. -/
def parse (env : ParserEnv) (fuel : Nat) (tokens : List Token) (arena : IrArena) :
    Except ParseFault (Node × ParserState) :=
  (parsers env fuel).parse [] { tokens := tokens, arena := arena, fns := [] }

/-! ### Predicates on the parser -/

/-- The tables do not take the end of the text for an operator or a primop. -/
def ParserTables.wf (tables : ParserTables) : Prop :=
  tables.is_infix_operator .EOF_tok = none ∧ tables.translate_token_to_primop .EOF_tok = none

/-- The test `node != NULL`. -/
def Node.nonnull (node : Node) : Prop := node.is_null = false

/-- The computation `m`, whose calls are served with the recursion budget `k`, run
from the state `s`: it does not run out of budget when `8 * n + b ≤ k` for the
number `n` of tokens left; when it returns, no token has come back, and at
least one token is consumed when the result satisfies `strict`. -/
def Parse.advances_at {α : Type} (k b : Nat) (strict : α → Prop) (m : Parse α)
    (s : ParserState) : Prop :=
  (8 * s.tokens.length + b ≤ k → m s ≠ .error .out_of_fuel) ∧
  ∀ r s1, m s = .ok (r, s1) →
    s1.tokens.length ≤ s.tokens.length ∧ (strict r → s1.tokens.length < s.tokens.length)

/-- The same from every state. -/
def Parse.advances {α : Type} (k b : Nat) (strict : α → Prop) (m : Parse α) : Prop :=
  ∀ s, Parse.advances_at k b strict m s

/-- The functions `p`, serving calls with the recursion budget `k`, all advance:
each with the part of the budget it needs before it has consumed a token, and
with the results for which it is known to have consumed one. -/
structure Parsers.advancing (k : Nat) (p : Parsers) : Prop where
  accept_unqualified_type : Parse.advances k 1 Node.nonnull p.accept_unqualified_type
  accept_maybe_qualified_type : Parse.advances k 2 Node.nonnull p.accept_maybe_qualified_type
  accept_qualified_type : Parse.advances k 2 Node.nonnull p.accept_qualified_type
  accept_operand : Parse.advances k 5 Node.nonnull p.accept_operand
  expect_parameters : ∀ d, Parse.advances k 1 (fun _ => False) (p.expect_parameters d)
  expect_parameters_loop : ∀ d ps ds,
    Parse.advances k 4 (fun _ => False) (p.expect_parameters_loop d ps ds)
  expect_parameters_next : ∀ d ps ds,
    Parse.advances k 3 (fun _ => False) (p.expect_parameters_next d ps ds)
  accept_types : ∀ sep q ts, Parse.advances k 3 (fun _ => False) (p.accept_types sep q ts)
  expect_parenthised_expr : Parse.advances k 1 (fun _ => True) p.expect_parenthised_expr
  expect_parenthised_expr_loop : ∀ es,
    Parse.advances k 1 (fun _ => False) (p.expect_parenthised_expr_loop es)
  accept_primary_expr : Parse.advances k 3 Node.nonnull p.accept_primary_expr
  accept_primary_expr_loop : ∀ e,
    Parse.advances k 2 (fun r => e.is_null = true ∧ r.nonnull) (p.accept_primary_expr_loop e)
  accept_expr : ∀ o, Parse.advances k 4 Node.nonnull (p.accept_expr o)
  accept_expr_loop : ∀ o e,
    Parse.advances k 1 (fun r => e.is_null = true ∧ r.nonnull) (p.accept_expr_loop o e)
  expect_operands : Parse.advances k 1 (fun _ => True) p.expect_operands
  expect_operands_loop : ∀ e l,
    Parse.advances k 6 (fun _ => False) (p.expect_operands_loop e l)
  accept_control_flow_instruction :
    Parse.advances k 1 Node.nonnull p.accept_control_flow_instruction
  accept_primop : Parse.advances k 1 Node.nonnull p.accept_primop
  accept_instruction : Parse.advances k 5 Node.nonnull p.accept_instruction
  expect_identifiers : ∀ l, Parse.advances k 1 (fun _ => False) (p.expect_identifiers l)
  expect_types_and_identifiers : ∀ sl tl,
    Parse.advances k 2 (fun _ => False) (p.expect_types_and_identifiers sl tl)
  accept_instruction_maybe_with_let_too :
    Parse.advances k 6 Node.nonnull p.accept_instruction_maybe_with_let_too
  terminator_args : Parse.advances k 2 (fun _ => False) p.terminator_args
  accept_terminator : Parse.advances k 1 (fun _ => False) p.accept_terminator
  expect_block : ∀ j, Parse.advances k 1 (fun _ => False) (p.expect_block j)
  expect_block_instructions : ∀ l,
    Parse.advances k 7 (fun _ => False) (p.expect_block_instructions l)
  expect_block_continuations : ∀ c n,
    Parse.advances k 1 (fun _ => False) (p.expect_block_continuations c n)
  accept_const : Parse.advances k 1 Node.nonnull p.accept_const
  accept_fn_annotations : ∀ a, Parse.advances k 1 (fun _ => False) (p.accept_fn_annotations a)
  accept_fn_decl : Parse.advances k 1 Node.nonnull p.accept_fn_decl
  accept_global_var_decl : Parse.advances k 1 Node.nonnull p.accept_global_var_decl
  parse : ∀ d, Parse.advances k 2 (fun _ => False) (p.parse d)

/-- The terminator nodes that the parser builds: `Return`, `Branch` (jumps
included), `MergeConstruct` and `Unreachable`. -/
def Node.is_parsed_terminator : Node → Bool
  | .fn_ret _ _ => true
  | .branch _ _ _ _ _ _ _ _ _ _ _ => true
  | .merge_construct _ _ => true
  | .unreachable => true
  | _ => false

/-- The node is a terminator: one of the tags `Return`, `Branch`, `Join`, `Callc`,
`MergeConstruct`, `Unreachable`. -/
def Node.is_terminator : Node → Bool
  | .fn_ret _ _ => true
  | .branch _ _ _ _ _ _ _ _ _ _ _ => true
  | .join _ _ _ _ => true
  | .callc _ _ _ _ => true
  | .merge_construct _ _ => true
  | .unreachable => true
  | _ => false

/-- The node is `NULL`, a type, a value, a primop or a call: it is no
terminator and holds no block. -/
def Node.is_expression : Node → Bool
  | .parsed_block _ _ _ _ => false
  | .block _ _ => false
  | .if_instr _ _ _ _ => false
  | .match_instr _ _ _ _ _ => false
  | .loop_instr _ _ _ _ => false
  | .let_ _ _ _ => false
  | .root _ => false
  | .fn_ret _ _ => false
  | .branch _ _ _ _ _ _ _ _ _ _ _ => false
  | .join _ _ _ _ => false
  | .callc _ _ _ _ => false
  | .merge_construct _ _ => false
  | .unreachable => false
  | _ => true

mutual
/-- Every parsed block in the node, the blocks of the instructions inside a
block included, ends in a terminator node of the parser and has no terminator
node among its instructions.  (The continuations of a block are functions of
the arena.) -/
def Node.blocks_terminated : Node → Bool
  | .parsed_block instructions terminator _ _ =>
    terminator.is_parsed_terminator && Node.no_terminator instructions
      && Node.all_blocks_terminated instructions
  | .if_instr _ _ if_true if_false => if_true.blocks_terminated && if_false.blocks_terminated
  | .loop_instr _ _ _ body => body.blocks_terminated
  | .let_ _ instruction _ => instruction.blocks_terminated
  | .root declarations => Node.all_blocks_terminated declarations
  | _ => true
/-- The same for the nodes of a list. -/
def Node.all_blocks_terminated : List Node → Bool
  | [] => true
  | node :: rest => node.blocks_terminated && Node.all_blocks_terminated rest
/-- No node of the list is a terminator. -/
def Node.no_terminator : List Node → Bool
  | [] => true
  | node :: rest => !node.is_terminator && Node.no_terminator rest
end

/-- The node is a parsed block, and its blocks are terminated. -/
def Node.is_terminated_block : Node → Bool
  | .parsed_block instructions terminator vars conts =>
    (Node.parsed_block instructions terminator vars conts).blocks_terminated
  | _ => false

/-- The node can stand in the instruction list of a block. -/
def Node.is_instruction : Node → Bool :=
  fun node => !node.is_terminator && node.blocks_terminated

/-- The block of every function built so far is a parsed block whose blocks
are terminated. -/
def ParserState.blocks_terminated (s : ParserState) : Prop :=
  ∀ f, f ∈ s.fns → f.block.is_terminated_block = true

/-- Whenever `m` returns from a state in which the blocks of all functions are
terminated, they are so in the state it ends in, and the result satisfies
`post`. -/
def Parse.builds {α : Type} (post : α → Prop) (m : Parse α) : Prop :=
  ∀ s r s1, m s = .ok (r, s1) → s.blocks_terminated → post r ∧ s1.blocks_terminated

/-- Modelled from the spec: `tuple` builds a value, which is no terminator and
holds no block. -/
def ParserTables.tuple_is_value (tables : ParserTables) : Prop :=
  ∀ contents, (tables.tuple contents).is_expression = true

/-- What the functions `p` build. -/
structure Parsers.building (p : Parsers) : Prop where
  accept_unqualified_type : Parse.builds (fun _ => True) p.accept_unqualified_type
  accept_maybe_qualified_type : Parse.builds (fun _ => True) p.accept_maybe_qualified_type
  accept_qualified_type : Parse.builds (fun _ => True) p.accept_qualified_type
  accept_operand : Parse.builds (fun _ => True) p.accept_operand
  expect_parameters : ∀ d, Parse.builds (fun _ => True) (p.expect_parameters d)
  expect_parameters_loop : ∀ d ps ds,
    Parse.builds (fun _ => True) (p.expect_parameters_loop d ps ds)
  expect_parameters_next : ∀ d ps ds,
    Parse.builds (fun _ => True) (p.expect_parameters_next d ps ds)
  accept_types : ∀ sep q ts, Parse.builds (fun _ => True) (p.accept_types sep q ts)
  expect_parenthised_expr :
    Parse.builds (fun r => r.is_expression = true) p.expect_parenthised_expr
  expect_parenthised_expr_loop : ∀ es,
    Parse.builds (fun _ => True) (p.expect_parenthised_expr_loop es)
  accept_primary_expr : Parse.builds (fun r => r.is_expression = true) p.accept_primary_expr
  accept_primary_expr_loop : ∀ e, e.is_expression = true →
    Parse.builds (fun r => r.is_expression = true) (p.accept_primary_expr_loop e)
  accept_expr : ∀ o, Parse.builds (fun r => r.is_expression = true) (p.accept_expr o)
  accept_expr_loop : ∀ o e, e.is_expression = true →
    Parse.builds (fun r => r.is_expression = true) (p.accept_expr_loop o e)
  expect_operands : Parse.builds (fun _ => True) p.expect_operands
  expect_operands_loop : ∀ e l, Parse.builds (fun _ => True) (p.expect_operands_loop e l)
  accept_control_flow_instruction :
    Parse.builds (fun r => r.is_instruction = true) p.accept_control_flow_instruction
  accept_primop : Parse.builds (fun r => r.is_expression = true) p.accept_primop
  accept_instruction : Parse.builds (fun r => r.is_instruction = true) p.accept_instruction
  expect_identifiers : ∀ l, Parse.builds (fun _ => True) (p.expect_identifiers l)
  expect_types_and_identifiers : ∀ sl tl,
    Parse.builds (fun _ => True) (p.expect_types_and_identifiers sl tl)
  accept_instruction_maybe_with_let_too :
    Parse.builds (fun r => r.is_instruction = true) p.accept_instruction_maybe_with_let_too
  terminator_args : Parse.builds (fun _ => True) p.terminator_args
  accept_terminator :
    Parse.builds (fun r => r.is_null = true ∨ r.is_parsed_terminator = true)
      p.accept_terminator
  expect_block : ∀ j, j.is_null = true ∨ j.is_parsed_terminator = true →
    Parse.builds (fun r => r.is_terminated_block = true) (p.expect_block j)
  expect_block_instructions : ∀ l, (∀ x, x ∈ l → x.is_instruction = true) →
    Parse.builds (fun r => ∀ x, x ∈ r → x.is_instruction = true)
      (p.expect_block_instructions l)
  expect_block_continuations : ∀ c n,
    Parse.builds (fun _ => True) (p.expect_block_continuations c n)
  accept_const : Parse.builds (fun _ => True) p.accept_const
  accept_fn_annotations : ∀ a, Parse.builds (fun _ => True) (p.accept_fn_annotations a)
  accept_fn_decl : Parse.builds (fun _ => True) p.accept_fn_decl
  accept_global_var_decl : Parse.builds (fun _ => True) p.accept_global_var_decl
  parse : ∀ d, Parse.builds (fun _ => True) (p.parse d)

/-! ### Examples for the parser -/

/-- An example of the tables: the infix operators `+` (token `other 0`), `-`, `*`
(token `other 1`) and `==` (token `other 2`) with the primops `add_op`,
`sub_op`, `mul_op` and `eq_op` and the precedences 4, 4, 3 and 7; the primop
token `add` (`other 10`); a tuple stands as the record of its contents. -/
def example_tables : ParserTables :=
  { is_infix_operator := fun tag =>
      match tag with
      | .other 0 => some 0
      | .minus_tok => some 1
      | .other 1 => some 2
      | .other 2 => some 3
      | _ => none
    get_precedence := fun op =>
      match op with
      | 0 => 4
      | 1 => 4
      | 2 => 3
      | 3 => 7
      | _ => 0
    is_primop_op := fun op =>
      match op with
      | 0 => some .add_op
      | 1 => some .sub_op
      | 2 => some .mul_op
      | 3 => some .eq_op
      | _ => none
    translate_token_to_primop := fun tag =>
      match tag with
      | .other 10 => some .add_op
      | _ => none
    tuple := fun contents => .record_type contents
    extract_int_literal_value := fun node =>
      match node with
      | .int_literal _ value => value
      | _ => 0 }

/-- The parser on the text `contents` with the example tables, as front end or
as parser of the IR. -/
def example_env (front_end : Bool) (contents : String) : ParserEnv :=
  { config := { front_end := front_end }
    contents := bytes contents
    abi := abi64
    tables := example_tables }

/-- The state in which `parse` starts on the given tokens with a new arena. -/
def example_state (tokens : List Token) : ParserState :=
  { tokens := tokens, arena := new_arena, fns := [] }

/-- The tokens of the text `true + true * true`. -/
def example_sum_tokens : List Token :=
  [⟨.true_tok, 0, 4⟩, ⟨.other 0, 5, 6⟩, ⟨.true_tok, 7, 11⟩, ⟨.other 1, 12, 13⟩,
   ⟨.true_tok, 14, 18⟩, ⟨.EOF_tok, 18, 18⟩]

/-- The tokens of the text `true - true + true`. -/
def example_difference_tokens : List Token :=
  [⟨.true_tok, 0, 4⟩, ⟨.minus_tok, 5, 6⟩, ⟨.true_tok, 7, 11⟩, ⟨.other 0, 12, 13⟩,
   ⟨.true_tok, 14, 18⟩, ⟨.EOF_tok, 18, 18⟩]

/-- The text of a function that returns 42, in the syntax of the parser: the
name comes before the return types, and the returned values stand in
parentheses. -/
def example_source : String := "fn main i32() \x7b return (42); \x7d"

/-- The tokens of `example_source`. -/
def example_source_tokens : List Token :=
  [⟨.fn_tok, 0, 2⟩, ⟨.identifier_tok, 3, 7⟩, ⟨.i32_tok, 8, 11⟩, ⟨.lpar_tok, 11, 12⟩,
   ⟨.rpar_tok, 12, 13⟩, ⟨.lbracket_tok, 14, 15⟩, ⟨.return_tok, 16, 22⟩, ⟨.lpar_tok, 23, 24⟩,
   ⟨.dec_lit_tok, 24, 26⟩, ⟨.rpar_tok, 26, 27⟩, ⟨.semi_tok, 27, 28⟩, ⟨.rbracket_tok, 29, 30⟩,
   ⟨.EOF_tok, 30, 30⟩]

/-- The text `fn i32 main() { return 42; };`, in which the return type comes
before the name. -/
def claimed_source : String := "fn i32 main() \x7b return 42; \x7d;"

/-- The tokens of `claimed_source`. -/
def claimed_source_tokens : List Token :=
  [⟨.fn_tok, 0, 2⟩, ⟨.i32_tok, 3, 6⟩, ⟨.identifier_tok, 7, 11⟩, ⟨.lpar_tok, 11, 12⟩,
   ⟨.rpar_tok, 12, 13⟩, ⟨.lbracket_tok, 14, 15⟩, ⟨.return_tok, 16, 22⟩, ⟨.dec_lit_tok, 23, 25⟩,
   ⟨.semi_tok, 25, 26⟩, ⟨.rbracket_tok, 27, 28⟩, ⟨.semi_tok, 28, 29⟩, ⟨.EOF_tok, 29, 29⟩]

/-- The arena in which the text `x;` has been interned with `string`. -/
def example_arena_with_text : IrArena :=
  match string abi64 new_arena (.ext (bytes "x;")) with
  | .ok r => r.2
  | .error _ => new_arena

/-- The tokens of the text `x;`: the identifier `x` and the semicolon. -/
def example_identifier_tokens : List Token :=
  [⟨.identifier_tok, 0, 1⟩, ⟨.semi_tok, 1, 2⟩, ⟨.EOF_tok, 2, 2⟩]

/-- The function `main` that the parser builds from `example_source`. -/
def example_main : Function :=
  { atttributes := { is_continuation := false, entry_point_type := .NotAnEntryPoint }
    name := "main"
    params := []
    return_types := [.int_type .IntTy32]
    block := .parsed_block [] (.fn_ret .null [.untyped_number "42"]) [] [] }

/-- The two functions have the same attributes, name, parameters, return types
and block. -/
def Function.same (f g : Function) : Bool :=
  decide (f.atttributes = g.atttributes) && decide (f.name = g.name)
    && compare_node (.root f.params) (.root g.params)
    && compare_node (.root f.return_types) (.root g.return_types)
    && compare_node f.block g.block

/-! ## Theorems: `fresh_id` -/

theorem fresh_ids_from (k : Nat) (a : IrArena) (h : a.next_free_id + k ≤ 2 ^ 32) :
    (fresh_ids k a).1 = List.range' a.next_free_id k := by
  induction k generalizing a with
  | zero => rfl
  | succ k ih =>
    have h1 : (a.next_free_id + 1) % 2 ^ 32 = a.next_free_id + 1 ∨ k = 0 := by
      by_cases hk : k = 0
      · exact Or.inr hk
      · left; apply Nat.mod_eq_of_lt; omega
    rcases h1 with h1 | h1
    · have e : (fresh_id a).2.next_free_id = a.next_free_id + 1 := h1
      have := ih (fresh_id a).2 (by rw [e]; omega)
      show a.next_free_id :: (fresh_ids k (fresh_id a).2).1 = _
      rw [this, e]
      rfl
    · subst h1
      rfl

/-- C3: on a new arena the ids returned by the first `k` calls of `fresh_id`
are `0, 1, ..., k-1` in this order (the j-th call returns j-1), as long as no
more than `2^32` ids are issued; hence each id is strictly greater than every
earlier one and no two calls return the same id. -/
theorem fresh_id_monotone_unique (k : Nat) (hk : k ≤ 2 ^ 32) :
    (fresh_ids k new_arena).1 = List.range k ∧
    (∀ j, j < k → (fresh_ids k new_arena).1.get? j = some j) ∧
    (fresh_ids k new_arena).1.Pairwise (fun earlier later => earlier < later) ∧
    (fresh_ids k new_arena).1.Nodup := by
  have h := fresh_ids_from k new_arena (by show 0 + k ≤ 2 ^ 32; omega)
  have h0 : new_arena.next_free_id = 0 := rfl
  rw [h0, ← List.range_eq_range'] at h
  rw [h]
  refine ⟨rfl, ?_, List.pairwise_lt_range k, List.nodup_range k⟩
  intro j hj
  simp [hj]

/-- Witness of C3 on a new arena. -/
theorem fresh_id_monotone_unique_witness :
    (3 : Nat) ≤ 2 ^ 32 ∧ (fresh_ids 3 new_arena).1 = [0, 1, 2] :=
  ⟨by decide, (fresh_id_monotone_unique 3 (by decide)).1⟩

/-! ## Theorems: `arena_alloc` -/

theorem round_up_spec (n A : Nat) (hA : 0 < A) (hdvd : A ∣ alloc_size) (hn : n ≤ alloc_size) :
    round_up n A = (n + A - 1) / A * A ∧ n ≤ round_up n A ∧ round_up n A ≤ alloc_size ∧
    round_up n A < n + A := by
  obtain ⟨m, hm⟩ := hdvd
  have hAle : A ≤ alloc_size := Nat.le_of_dvd (by decide) ⟨m, hm⟩
  have hsz : alloc_size = 1048576 := rfl
  have h1 : (n + A - 1) % size_mod = n + A - 1 := by
    apply Nat.mod_eq_of_lt
    have : size_mod = 18446744073709551616 := rfl
    omega
  have hdm := Nat.div_add_mod (n + A - 1) A
  have hlt := Nat.mod_lt (n + A - 1) hA
  have hq : (n + A - 1) / A ≤ m := by
    apply Nat.le_of_lt_succ
    rw [Nat.div_lt_iff_lt_mul hA]
    have : (m + 1) * A = A * m + A := by ring
    rw [this, ← hm]
    omega
  have hqA : (n + A - 1) / A * A ≤ alloc_size := by
    calc (n + A - 1) / A * A ≤ m * A := Nat.mul_le_mul_right A hq
      _ = alloc_size := by rw [hm]; ring
  have hmul : A * ((n + A - 1) / A) = (n + A - 1) / A * A := Nat.mul_comm _ _
  have h2 : ((n + A - 1) / A * A) % size_mod = (n + A - 1) / A * A := by
    apply Nat.mod_eq_of_lt
    have : size_mod = 18446744073709551616 := rfl
    omega
  have e : round_up n A = (n + A - 1) / A * A := by
    unfold round_up
    rw [h1, h2]
  refine ⟨e, ?_, ?_, ?_⟩ <;> rw [e] <;> omega

theorem in_block_eq (avail : Nat) (h : avail ≤ alloc_size) :
    (alloc_size + size_mod - avail) % size_mod = alloc_size - avail := by
  have h1 : size_mod = 18446744073709551616 := rfl
  have h2 : alloc_size = 1048576 := rfl
  have : alloc_size + size_mod - avail = (alloc_size - avail) + size_mod := by omega
  rw [this, Nat.add_mod_right]
  apply Nat.mod_eq_of_lt
  omega

/-- A request that fits into the current block is served from it. -/
theorem arena_alloc_same_block (abi : Abi) (a : IrArena) (n : Nat)
    (hwf : a.wf) (hpos : 0 < round_up n abi.max_align)
    (hroom : round_up n abi.max_align ≤ a.available) :
    arena_alloc abi a n =
      .ok (some ⟨a.nblocks - 1, alloc_size - a.available⟩,
        { a with
          mem := memset_zero a.mem (a.nblocks - 1) (alloc_size - a.available) (round_up n abi.max_align)
          available := a.available - round_up n abi.max_align }) := by
  obtain ⟨_, _, h3, h4, h5⟩ := hwf
  have hnb : a.nblocks ≠ 0 := by
    intro h0
    have := h4 h0
    omega
  have hget := h5 (a.nblocks - 1) (by omega)
  unfold arena_alloc
  simp only []
  rw [if_neg (by omega), if_neg (by omega)]
  simp only []
  rw [if_neg (by omega), if_neg hnb, hget, in_block_eq _ h3]
  simp only []
  rw [if_pos (by omega)]

/-- A request that does not fit into the current block is served from the
start of a new block, when the block-pointer array has a free slot. -/
theorem arena_alloc_new_block (abi : Abi) (a : IrArena) (n : Nat)
    (hwf : a.wf) (hle : round_up n abi.max_align ≤ alloc_size)
    (hfull : a.available < round_up n abi.max_align) (hslot : a.nblocks < a.maxblocks) :
    arena_alloc abi a n =
      .ok (some ⟨a.nblocks, 0⟩,
        { a with
          blocks := a.blocks.set a.nblocks (some a.nblocks)
          nblocks := a.nblocks + 1
          mem := memset_zero (fun b o => if b = a.nblocks then none else a.mem b o) a.nblocks 0
            (round_up n abi.max_align)
          available := alloc_size - round_up n abi.max_align }) := by
  obtain ⟨h1, h2, h3, h4, h5⟩ := hwf
  have hnew : arena_new_block abi a =
      .ok { a with
            blocks := a.blocks.set a.nblocks (some a.nblocks)
            nblocks := a.nblocks + 1
            available := alloc_size
            mem := fun b o => if b = a.nblocks then none else a.mem b o } := by
    unfold arena_new_block
    rw [if_neg (show ¬ ¬ a.nblocks ≤ a.maxblocks by omega)]
    simp only []
    rw [if_neg (show ¬ a.nblocks = a.maxblocks by omega),
      if_pos (show a.nblocks < a.blocks.length by omega)]
  unfold arena_alloc
  simp only []
  rw [if_neg (by omega), if_pos (by omega), hnew]
  simp only []
  rw [if_neg (by omega), if_neg (by omega)]
  simp only [Nat.add_sub_cancel, List.get?_eq_getElem?]
  rw [List.getElem?_set_self (by omega), in_block_eq _ (le_refl _)]
  simp only [Nat.sub_self, Nat.zero_add]
  rw [if_pos hle]

theorem new_arena_wf : new_arena.wf := by
  refine ⟨by decide, List.length_replicate _ _, by decide, fun _ => rfl, ?_⟩
  intro i hi
  exact absurd hi (Nat.not_lt_zero i)

/-- A successful `arena_alloc` of a fitting request keeps the arena well-formed. -/
theorem arena_alloc_wf (abi : Abi) (a : IrArena) (n : Nat) (p : Option Ptr) (a1 : IrArena)
    (hwf : a.wf) (hle : round_up n abi.max_align ≤ alloc_size)
    (hroom : round_up n abi.max_align ≤ a.available ∨ a.nblocks < a.maxblocks)
    (h : arena_alloc abi a n = .ok (p, a1)) : a1.wf := by
  by_cases h0 : round_up n abi.max_align = 0
  · unfold arena_alloc at h
    simp only [] at h
    rw [if_pos h0] at h
    cases h
    exact hwf
  by_cases hav : round_up n abi.max_align ≤ a.available
  · rw [arena_alloc_same_block abi a n hwf (by omega) hav] at h
    cases h
    obtain ⟨h1, h2, h3, h4, h5⟩ := hwf
    refine ⟨h1, h2, ?_, ?_, h5⟩
    · show a.available - round_up n abi.max_align ≤ alloc_size
      omega
    · intro hz
      have := h4 hz
      show a.available - round_up n abi.max_align = 0
      omega
  · have hslot : a.nblocks < a.maxblocks := by
      rcases hroom with h | h
      · exact absurd h hav
      · exact h
    rw [arena_alloc_new_block abi a n hwf hle (by omega) hslot] at h
    cases h
    obtain ⟨h1, h2, h3, h4, h5⟩ := hwf
    refine ⟨?_, ?_, ?_, ?_, ?_⟩
    · show a.nblocks + 1 ≤ a.maxblocks
      omega
    · show (a.blocks.set a.nblocks (some a.nblocks)).length = a.maxblocks
      rw [List.length_set]
      exact h2
    · show alloc_size - round_up n abi.max_align ≤ alloc_size
      omega
    · intro hz
      exact absurd hz (Nat.succ_ne_zero _)
    · intro i hi
      show (a.blocks.set a.nblocks (some a.nblocks)).get? i = some (some i)
      have hi1 : i < a.nblocks + 1 := hi
      rw [List.get?_eq_getElem?]
      by_cases hi2 : i = a.nblocks
      · subst hi2
        rw [List.getElem?_set_self (by omega)]
      · rw [List.getElem?_set_ne (fun e => hi2 e.symm), ← List.get?_eq_getElem?]
        exact h5 i (by omega)

/-- A fitting request is served with a zero-filled region inside one block. -/
theorem arena_alloc_fitting (abi : Abi) (a : IrArena) (n : Nat)
    (hA : 0 < abi.max_align) (hdvd : abi.max_align ∣ alloc_size) (hwf : a.wf)
    (hn : 0 < n) (hfit : n ≤ alloc_size)
    (hroom : round_up n abi.max_align ≤ a.available ∨ a.nblocks < a.maxblocks) :
    ∃ p a1, arena_alloc abi a n = .ok (some p, a1) ∧
      n ≤ round_up n abi.max_align ∧
      p.block < a1.nblocks ∧ p.off + round_up n abi.max_align ≤ alloc_size ∧
      (∀ o, p.off ≤ o → o < p.off + round_up n abi.max_align → a1.mem p.block o = some 0) ∧
      a1.wf := by
  obtain ⟨_, hge, hle, _⟩ := round_up_spec n abi.max_align hA hdvd hfit
  by_cases hav : round_up n abi.max_align ≤ a.available
  · have e := arena_alloc_same_block abi a n hwf (by omega) hav
    refine ⟨_, _, e, hge, ?_, ?_, ?_, arena_alloc_wf abi a n _ _ hwf hle hroom e⟩
    · obtain ⟨_, _, _, h4, _⟩ := hwf
      have hnb : a.nblocks ≠ 0 := by
        intro h0
        have := h4 h0
        omega
      show a.nblocks - 1 < a.nblocks
      omega
    · show alloc_size - a.available + round_up n abi.max_align ≤ alloc_size
      obtain ⟨_, _, h3, _, _⟩ := hwf
      omega
    · intro o ho1 ho2
      show memset_zero a.mem (a.nblocks - 1) (alloc_size - a.available)
        (round_up n abi.max_align) (a.nblocks - 1) o = some 0
      unfold memset_zero
      rw [if_pos ⟨rfl, ho1, ho2⟩]
  · have hslot : a.nblocks < a.maxblocks := by
      rcases hroom with h | h
      · exact absurd h hav
      · exact h
    have e := arena_alloc_new_block abi a n hwf hle (by omega) hslot
    refine ⟨_, _, e, hge, ?_, ?_, ?_, arena_alloc_wf abi a n _ _ hwf hle hroom e⟩
    · show a.nblocks < a.nblocks + 1
      omega
    · show 0 + round_up n abi.max_align ≤ alloc_size
      omega
    · intro o ho1 ho2
      show memset_zero (fun b o => if b = a.nblocks then none else a.mem b o) a.nblocks 0
        (round_up n abi.max_align) a.nblocks o = some 0
      unfold memset_zero
      rw [if_pos ⟨rfl, ho1, ho2⟩]

/-- C5 (amended): on a well-formed arena, a request of `n` bytes with
`0 < n ≤ 1 MiB` that fits into the current block, or for which the
block-pointer array still has a free slot, is served: `arena_alloc` returns a
pointer to a region of `round_up n ≥ n` bytes that lies inside one block and is
zero-filled, and the arena stays well-formed. -/
theorem arena_alloc_serves_fitting_requests (abi : Abi) (a : IrArena) (n : Nat)
    (hA : 0 < abi.max_align) (hdvd : abi.max_align ∣ alloc_size) (hwf : a.wf)
    (hn : 0 < n) (hfit : n ≤ alloc_size)
    (hroom : round_up n abi.max_align ≤ a.available ∨ a.nblocks < a.maxblocks) :
    ∃ p a1, arena_alloc abi a n = .ok (some p, a1) ∧
      n ≤ round_up n abi.max_align ∧
      p.block < a1.nblocks ∧ p.off + round_up n abi.max_align ≤ alloc_size ∧
      (∀ o, p.off ≤ o → o < p.off + round_up n abi.max_align → a1.mem p.block o = some 0) ∧
      a1.wf :=
  arena_alloc_fitting abi a n hA hdvd hwf hn hfit hroom

/-- Witness of C5: five bytes requested from a new arena. -/
theorem arena_alloc_serves_fitting_requests_witness :
    ∃ p a1, arena_alloc abi64 new_arena 5 = .ok (some p, a1) ∧
      5 ≤ round_up 5 abi64.max_align ∧
      p.block < a1.nblocks ∧ p.off + round_up 5 abi64.max_align ≤ alloc_size ∧
      (∀ o, p.off ≤ o → o < p.off + round_up 5 abi64.max_align → a1.mem p.block o = some 0) ∧
      a1.wf :=
  arena_alloc_serves_fitting_requests abi64 new_arena 5 (by decide) (by decide) new_arena_wf
    (by decide) (by decide) (Or.inr (by decide))

set_option maxRecDepth 10000 in
/-- C5 (counterexample): a request of 1 MiB + 1 bytes on a new arena rounds up
to more than a block and fails the assertion `size <= arena->available`. -/
theorem arena_alloc_rejects_oversize :
    arena_alloc abi64 new_arena (alloc_size + 1) = .error (.assertion 89) := by
  rfl

/-- After `k` further whole-block requests a full arena with `k` free slots
has `k` more blocks and is full again. -/
theorem arena_allocs_whole_blocks (k : Nat) (a : IrArena) (hwf : a.wf) (hav : a.available = 0)
    (hk : a.nblocks + k ≤ a.maxblocks) :
    ∃ a1, arena_allocs abi64 a (List.replicate k alloc_size) = .ok a1 ∧ a1.wf ∧
      a1.available = 0 ∧ a1.nblocks = a.nblocks + k ∧ a1.maxblocks = a.maxblocks := by
  induction k generalizing a with
  | zero => exact ⟨a, rfl, hwf, hav, rfl, rfl⟩
  | succ k ih =>
    have hr : round_up alloc_size abi64.max_align = alloc_size := by decide
    have e := arena_alloc_new_block abi64 a alloc_size hwf (by rw [hr]) (by rw [hr, hav]; decide)
      (by omega)
    have hwf1 := arena_alloc_wf abi64 a alloc_size _ _ hwf (by rw [hr]) (Or.inr (by omega)) e
    obtain ⟨a1, h1, h2, h3, h4, h5⟩ := ih _ hwf1 (by show alloc_size - _ = 0; rw [hr]; simp)
      (by show a.nblocks + 1 + k ≤ a.maxblocks; omega)
    refine ⟨a1, ?_, h2, h3, ?_, h5⟩
    · simp only [List.replicate_succ, arena_allocs, e]
      exact h1
    · rw [h4]
      show a.nblocks + 1 + k = a.nblocks + (k + 1)
      omega

/-- C6 (the code at the failing input): after 256 requests of 1 MiB each a new
arena has `nblocks = maxblocks = 256`.  The next request needs a new block:
`maxblocks` becomes 512 and the array is resized to 512 bytes, which is room
for 64 pointers: the block pointers from slot 64 on are lost (slot 255 held
block 255) and the slot `blocks[256]` written next lies outside the array. -/
theorem arena_alloc_growth_out_of_bounds :
    ∃ a, arena_allocs abi64 new_arena (List.replicate 256 alloc_size) = .ok a ∧
      a.nblocks = 256 ∧ a.maxblocks = 256 ∧
      (realloc_blocks abi64 a.blocks (a.maxblocks * 2)).length = 64 ∧
      a.blocks.get? 255 = some (some 255) ∧
      (realloc_blocks abi64 a.blocks (a.maxblocks * 2)).get? 255 = none ∧
      arena_alloc abi64 a 1 = .error .out_of_bounds := by
  obtain ⟨a, h1, h2, h3, h4, h5⟩ :=
    arena_allocs_whole_blocks 256 new_arena new_arena_wf rfl (by decide)
  have hnb : a.nblocks = 256 := h4
  have hmb : a.maxblocks = 256 := h5
  obtain ⟨w1, w2, w3, w4, w5⟩ := h2
  have hlen : (realloc_blocks abi64 a.blocks (a.maxblocks * 2)).length = 64 := by
    unfold realloc_blocks
    simp only [List.length_append, List.length_take, List.length_replicate, w2, hmb]
    decide
  refine ⟨a, h1, hnb, hmb, hlen, w5 255 (by omega),
    List.get?_eq_none.mpr (by rw [hlen]; decide), ?_⟩
  have hnew : arena_new_block abi64 a = .error .out_of_bounds := by
    unfold arena_new_block
    rw [if_neg (show ¬ ¬ a.nblocks ≤ a.maxblocks by omega)]
    simp only []
    rw [if_pos (show a.nblocks = a.maxblocks by omega)]
    simp only []
    rw [if_neg (by rw [hlen, hnb]; decide)]
  unfold arena_alloc
  simp only []
  have hr : round_up 1 abi64.max_align = 16 := by decide
  rw [hr, if_neg (by decide), if_pos (by rw [h3]; decide), hnew]

/-! ## Theorems: string interning -/

set_option maxRecDepth 100000 in
/-- C1 (the code at the failing input): `string_sized` looks up the whole
buffer instead of its first `size` bytes.  Interning the identifier `main`
twice from the source text `main();` yields two different pointers, both with
content `main`; and after `string(arena, "ab")`, the request
`string_sized(arena, 1, "ab")` for the content `a` returns the string `ab`.
Through `string` alone the same content is interned to the same pointer. -/
theorem string_sized_misses_interned_content :
    (∃ p1 a1 p2 a2,
      string_sized abi64 new_arena 4 (.ext (bytes "main();")) = .ok (p1, a1) ∧
      string_sized abi64 a1 4 (.ext (bytes "main();")) = .ok (p2, a2) ∧
      load_str a2.mem p1 = some (bytes "main") ∧ load_str a2.mem p2 = some (bytes "main") ∧
      p1 ≠ p2) ∧
    (∃ q a3 r a4,
      string abi64 new_arena (.ext (bytes "ab")) = .ok (q, a3) ∧
      string_sized abi64 a3 1 (.ext (bytes "ab")) = .ok (r, a4) ∧
      load_str a4.mem r = some (bytes "ab") ∧ bytes "ab" ≠ (bytes "ab").take 1) ∧
    (∃ s1 a5 s2 a6,
      string abi64 new_arena (.ext (bytes "main")) = .ok (s1, a5) ∧
      string abi64 a5 (.ext (bytes "main")) = .ok (s2, a6) ∧ s1 = s2) :=
  ⟨⟨_, _, _, _, rfl, rfl, by decide, by decide, by decide⟩,
   ⟨_, _, _, _, rfl, rfl, by decide, by decide⟩,
   ⟨_, _, _, _, rfl, rfl, rfl⟩⟩

set_option maxRecDepth 100000 in
/-- C4 (the code at the failing input): for a prefix of 70 bytes `a` the text
`prefix_0` has 72 bytes; `unique_name` returns a string that holds only the
first 63 bytes of it, because `format_string` renders into a buffer of 64
bytes and interns that buffer; the copy is given the length of the whole text
and writes up to offset 72 of the 64 bytes allocated for it.  For the prefix
`x` the result is `x_0`. -/
theorem format_string_truncates_long_text :
    (∃ p a, unique_name abi64 new_arena (.ext (List.replicate 70 97)) = .ok (p, a) ∧
      load_str a.mem p = some (List.replicate 63 97) ∧
      List.replicate 63 97 ≠ List.replicate 70 97 ++ bytes "_0" ∧
      p = .arena ⟨0, 0⟩ ∧ a.available = alloc_size - 64 ∧ a.mem 0 72 = some 0) ∧
    (∃ q a1, unique_name abi64 new_arena (.ext (bytes "x")) = .ok (q, a1) ∧
      load_str a1.mem q = some (bytes "x_0")) :=
  ⟨⟨_, _, rfl, by decide, by decide, rfl, rfl, rfl⟩, ⟨_, _, rfl, by decide⟩⟩

/-! ## Theorems: node-list interning -/

theorem load_cells_length (mem : Mem) (b stride : Nat) (n off : Nat) (xs : List Nat)
    (h : load_cells mem b off stride n = some xs) : xs.length = n := by
  induction n generalizing off xs with
  | zero =>
    simp only [load_cells] at h
    cases h
    rfl
  | succ n ih =>
    simp only [load_cells] at h
    cases h1 : mem b off with
    | none => simp [h1] at h
    | some v =>
      cases h2 : load_cells mem b (off + stride) stride n with
      | none => simp [h1, h2] at h
      | some vs =>
        simp only [h1, h2, Option.some.injEq] at h
        subst h
        simp [ih _ _ h2]

theorem load_cells_congr (mem mem1 : Mem) (b stride : Nat) (n off : Nat)
    (h : ∀ i, i < n → mem1 b (off + stride * i) = mem b (off + stride * i)) :
    load_cells mem1 b off stride n = load_cells mem b off stride n := by
  induction n generalizing off with
  | zero => rfl
  | succ n ih =>
    have h0 := h 0 (Nat.succ_pos n)
    simp only [Nat.mul_zero, Nat.add_zero] at h0
    have hrest : ∀ i, i < n → mem1 b (off + stride + stride * i) = mem b (off + stride + stride * i) := by
      intro i hi
      have := h (i + 1) (by omega)
      have e : off + stride * (i + 1) = off + stride + stride * i := by ring
      rw [e] at this
      exact this
    simp only [load_cells, h0, ih _ hrest]

theorem load_cells_of_forall (mem : Mem) (b stride : Nat) (ys : List Nat) (off : Nat)
    (h : ∀ i, i < ys.length → mem b (off + stride * i) = ys.get? i) :
    load_cells mem b off stride ys.length = some ys := by
  induction ys generalizing off with
  | nil => rfl
  | cons y ys ih =>
    have h0 := h 0 (by simp)
    simp only [Nat.mul_zero, Nat.add_zero, List.get?_cons_zero] at h0
    have hrest : ∀ i, i < ys.length → mem b (off + stride + stride * i) = ys.get? i := by
      intro i hi
      have := h (i + 1) (by simp; omega)
      have e : off + stride * (i + 1) = off + stride + stride * i := by ring
      rw [e] at this
      simpa using this
    simp only [List.length_cons, load_cells, h0, ih _ hrest]

theorem store_cells_at (mem : Mem) (b off stride : Nat) (hs : 0 < stride) (xs : List Nat) (i : Nat)
    (hi : i < xs.length) : store_cells mem b off stride xs b (off + stride * i) = xs.get? i := by
  unfold store_cells
  have e1 : off + stride * i - off = stride * i := by omega
  rw [if_pos ⟨rfl, by omega, by rw [e1]; exact Nat.mul_mod_right _ _⟩, e1,
    Nat.mul_div_cancel_left _ hs]
  cases h : xs.get? i with
  | none =>
    rw [List.get?_eq_none] at h
    omega
  | some v => rfl

theorem load_store_cells (mem : Mem) (b off stride : Nat) (hs : 0 < stride) (xs : List Nat) :
    load_cells (store_cells mem b off stride xs) b off stride xs.length = some xs :=
  load_cells_of_forall _ b stride xs off (fun i hi => store_cells_at mem b off stride hs xs i hi)

theorem find_key_dict_eq {κ : Type} (cmp : κ → Except Fault Bool) (f : κ → Bool) (l : List κ)
    (h : ∀ k, k ∈ l → cmp k = .ok (f k)) : find_key_dict cmp l = .ok (l.find? f) := by
  induction l with
  | nil => rfl
  | cons k ks ih =>
    have hk := h k (List.mem_cons_self k ks)
    have hks := ih (fun x hx => h x (List.mem_cons_of_mem k hx))
    cases hf : f k with
    | true => simp only [find_key_dict, hk, hf, List.find?_cons_of_pos]
    | false =>
      simp only [find_key_dict, hk, hf, hks]
      rw [List.find?_cons_of_neg]
      simp [hf]

theorem cells_length (abi : Abi) (mem : Mem) (s : Nodes) (xs : List Nat)
    (h : Nodes.cells abi mem s = some xs) : xs.length = s.count := by
  unfold Nodes.cells load at h
  by_cases h0 : s.count = 0
  · rw [if_pos h0] at h
    cases h
    exact h0.symm
  · rw [if_neg h0] at h
    cases hn : s.nodes with
    | null => simp [hn] at h
    | arena p =>
      simp only [hn] at h
      exact load_cells_length _ _ _ _ _ _ h
    | ext cells =>
      simp only [hn] at h
      by_cases hc : s.count ≤ cells.length
      · rw [if_pos hc] at h
        cases h
        simp [hc]
      · rw [if_neg hc] at h
        cases h

theorem cells_ne_null (abi : Abi) (mem : Mem) (s : Nodes) (xs : List Nat)
    (h : Nodes.cells abi mem s = some xs) (h0 : s.count ≠ 0) : s.nodes ≠ .null := by
  intro hn
  unfold Nodes.cells load at h
  rw [if_neg h0, hn] at h
  cases h

/-- On lists that can be read `compare_nodes` decides equality of the pointer sequences. -/
theorem compare_nodes_eq (abi : Abi) (mem : Mem) (s t : Nodes) (x y : List Nat)
    (hs : Nodes.cells abi mem s = some x) (ht : Nodes.cells abi mem t = some y) :
    compare_nodes abi mem s t = .ok (decide (x = y)) := by
  have hx := cells_length abi mem s x hs
  have hy := cells_length abi mem t y ht
  unfold compare_nodes
  by_cases hc : s.count = t.count
  · rw [if_neg (not_not.mpr hc)]
    by_cases h0 : s.count = 0
    · have hx0 : x = [] := List.length_eq_zero.mp (by omega)
      have hy0 : y = [] := List.length_eq_zero.mp (by omega)
      rw [if_pos ⟨h0, by omega⟩, hx0, hy0]
      rfl
    · rw [if_neg (fun h => h0 h.1)]
      have n1 := cells_ne_null abi mem s x hs h0
      have n2 := cells_ne_null abi mem t y ht (by omega)
      rw [if_neg (by intro h; rcases h with h | h; exact n1 h; exact n2 h)]
      have hs1 : load mem abi.ptr_size s.nodes s.count = some x := hs
      have ht1 : load mem abi.ptr_size t.nodes s.count = some y := by rw [hc]; exact ht
      rw [hs1, ht1]
      simp only [Except.ok.injEq]
      by_cases hxy : x = y
      · simp [hxy]
      · simp [hxy]
  · rw [if_pos hc]
    have : x ≠ y := by
      intro e
      rw [e] at hx
      omega
    simp [this]

theorem store_cells_other (mem : Mem) (b off stride : Nat) (hs : 0 < stride) (xs : List Nat)
    (b1 o : Nat) (h : ¬ (b1 = b ∧ off ≤ o ∧ o < off + stride * xs.length)) :
    store_cells mem b off stride xs b1 o = mem b1 o := by
  unfold store_cells
  by_cases hc : b1 = b ∧ off ≤ o ∧ (o - off) % stride = 0
  · rw [if_pos hc]
    have hge : xs.length ≤ (o - off) / stride := by
      rw [Nat.le_div_iff_mul_le hs]
      have : ¬ o < off + stride * xs.length := fun h1 => h ⟨hc.1, hc.2.1, h1⟩
      have e : xs.length * stride = stride * xs.length := Nat.mul_comm _ _
      omega
    rw [List.get?_eq_none.mpr hge]
  · rw [if_neg hc]

/-- What a successful `arena_alloc` of a fitting request changes: the region it
returns was not in use, is in use afterwards and is zero-filled; every cell that
was in use stays in use and keeps its content; the intern sets are untouched. -/
theorem arena_alloc_frame (abi : Abi) (a : IrArena) (n : Nat) (p : Option Ptr) (a1 : IrArena)
    (hwf : a.wf) (hle : round_up n abi.max_align ≤ alloc_size)
    (hroom : round_up n abi.max_align ≤ a.available ∨ a.nblocks < a.maxblocks)
    (h : arena_alloc abi a n = .ok (p, a1)) :
    a1.nodes_set = a.nodes_set ∧ a1.string_set = a.string_set ∧
    (∀ b o, a.used b o → a1.used b o ∧ a1.mem b o = a.mem b o) ∧
    (∀ q, p = some q → ∀ o, q.off ≤ o → o < q.off + round_up n abi.max_align →
      a1.used q.block o ∧ ¬ a.used q.block o ∧ a1.mem q.block o = some 0) ∧
    (round_up n abi.max_align ≠ 0 → ∃ q, p = some q) := by
  by_cases h0 : round_up n abi.max_align = 0
  · unfold arena_alloc at h
    simp only [] at h
    rw [if_pos h0] at h
    cases h
    exact ⟨rfl, rfl, fun b o hu => ⟨hu, rfl⟩, fun q hq => Option.noConfusion hq,
      fun hne => absurd h0 hne⟩
  obtain ⟨w1, w2, w3, w4, w5⟩ := hwf
  by_cases hav : round_up n abi.max_align ≤ a.available
  · rw [arena_alloc_same_block abi a n ⟨w1, w2, w3, w4, w5⟩ (by omega) hav] at h
    cases h
    have hnb : a.nblocks ≠ 0 := by
      intro hz
      have := w4 hz
      omega
    refine ⟨rfl, rfl, ?_, ?_, fun _ => ⟨_, rfl⟩⟩
    · intro b o hu
      obtain ⟨u1, u2, u3⟩ := hu
      refine ⟨⟨u1, u2, ?_⟩, ?_⟩
      · intro hb
        have := u3 hb
        show o + (a.available - round_up n abi.max_align) < alloc_size
        omega
      · show memset_zero a.mem (a.nblocks - 1) (alloc_size - a.available)
          (round_up n abi.max_align) b o = a.mem b o
        unfold memset_zero
        rw [if_neg]
        intro hc
        have := u3 (by omega)
        omega
    · intro q hq o ho1 ho2
      cases hq
      have ho1 : alloc_size - a.available ≤ o := ho1
      have ho2 : o < alloc_size - a.available + round_up n abi.max_align := ho2
      refine ⟨⟨?_, ?_, ?_⟩, ?_, ?_⟩
      · show a.nblocks - 1 < a.nblocks
        omega
      · omega
      · intro _
        show o + (a.available - round_up n abi.max_align) < alloc_size
        omega
      · intro hu
        have := hu.2.2 (show a.nblocks - 1 + 1 = a.nblocks by omega)
        omega
      · show memset_zero a.mem (a.nblocks - 1) (alloc_size - a.available)
          (round_up n abi.max_align) (a.nblocks - 1) o = some 0
        unfold memset_zero
        rw [if_pos ⟨rfl, ho1, ho2⟩]
  · have hslot : a.nblocks < a.maxblocks := by
      rcases hroom with h | h
      · exact absurd h hav
      · exact h
    rw [arena_alloc_new_block abi a n ⟨w1, w2, w3, w4, w5⟩ hle (by omega) hslot] at h
    cases h
    refine ⟨rfl, rfl, ?_, ?_, fun _ => ⟨_, rfl⟩⟩
    · intro b o hu
      obtain ⟨u1, u2, u3⟩ := hu
      refine ⟨⟨?_, u2, ?_⟩, ?_⟩
      · show b < a.nblocks + 1
        omega
      · intro hb
        have hb : b + 1 = a.nblocks + 1 := hb
        omega
      · show memset_zero (fun b o => if b = a.nblocks then none else a.mem b o) a.nblocks 0
          (round_up n abi.max_align) b o = a.mem b o
        unfold memset_zero
        rw [if_neg (by intro hc; omega)]
        simp only []
        rw [if_neg (by omega)]
    · intro q hq o ho1 ho2
      cases hq
      have ho2 : o < 0 + round_up n abi.max_align := ho2
      refine ⟨⟨?_, ?_, ?_⟩, ?_, ?_⟩
      · show a.nblocks < a.nblocks + 1
        omega
      · omega
      · intro _
        show o + (alloc_size - round_up n abi.max_align) < alloc_size
        omega
      · intro hu
        have := hu.1
        have : a.nblocks < a.nblocks := this
        omega
      · show memset_zero (fun b o => if b = a.nblocks then none else a.mem b o) a.nblocks 0
          (round_up n abi.max_align) a.nblocks o = some 0
        unfold memset_zero
        rw [if_pos ⟨rfl, Nat.zero_le _, ho2⟩]

theorem holds_cells (abi : Abi) (a : IrArena) (s : Nodes) (h : a.holds abi s) :
    ∃ xs, Nodes.cells abi a.mem s = some xs := by
  rcases h with ⟨h0, _⟩ | ⟨p, xs, hpos, hp, hl, _⟩
  · exact ⟨[], by unfold Nodes.cells load; rw [if_pos h0]⟩
  · refine ⟨xs, ?_⟩
    unfold Nodes.cells load
    rw [if_neg (by omega), hp]
    exact hl

/-- A stored list is not affected by a change of the arena that keeps the cells in use. -/
theorem holds_frame (abi : Abi) (a a1 : IrArena) (s : Nodes) (h : a.holds abi s)
    (hf : ∀ b o, a.used b o → a1.used b o ∧ a1.mem b o = a.mem b o) :
    a1.holds abi s ∧ Nodes.cells abi a1.mem s = Nodes.cells abi a.mem s := by
  rcases h with ⟨h0, hn⟩ | ⟨p, xs, hpos, hp, hl, hu⟩
  · refine ⟨Or.inl ⟨h0, hn⟩, ?_⟩
    unfold Nodes.cells load
    rw [if_pos h0, if_pos h0]
  · have hc : load_cells a1.mem p.block p.off abi.ptr_size s.count =
        load_cells a.mem p.block p.off abi.ptr_size s.count :=
      load_cells_congr _ _ _ _ _ _ (fun i hi => (hf _ _ (hu i hi)).2)
    refine ⟨Or.inr ⟨p, xs, hpos, hp, by rw [hc]; exact hl, fun i hi => (hf _ _ (hu i hi)).1⟩, ?_⟩
    unfold Nodes.cells load
    rw [if_neg (by omega), if_neg (by omega), hp]
    exact hc

/-- On an arena that satisfies the invariant the lookup of a readable probe finds
the stored list with the probe's pointer sequence, if there is one. -/
theorem find_nodes_eq (abi : Abi) (a : IrArena) (t : Nodes) (xs : List Nat)
    (hinv : a.nodes_wf abi) (ht : Nodes.cells abi a.mem t = some xs) :
    find_key_dict (fun stored => compare_nodes abi a.mem stored t) a.nodes_set =
      .ok (a.nodes_set.find? (fun s => decide (Nodes.cells abi a.mem s = some xs))) := by
  apply find_key_dict_eq
  intro s hs
  obtain ⟨x, hx⟩ := holds_cells abi a s (hinv.2.1 s hs)
  show compare_nodes abi a.mem s t = .ok (decide (Nodes.cells abi a.mem s = some xs))
  rw [compare_nodes_eq abi a.mem s t x xs hx ht, hx]
  simp

theorem find_unique {κ : Type} (g : κ → Option (List Nat)) (v : Option (List Nat)) (l : List κ)
    (r : κ) (hp : l.Pairwise (fun s t => g s ≠ g t)) (hr : r ∈ l) (hv : g r = v) :
    l.find? (fun s => decide (g s = v)) = some r := by
  induction l with
  | nil => cases hr
  | cons k ks ih =>
    rw [List.pairwise_cons] at hp
    rcases List.mem_cons.mp hr with e | hm
    · subst e
      rw [List.find?_cons_of_pos]
      simp [hv]
    · have hne : g k ≠ v := by
        rw [← hv]
        exact hp.1 r hm
      rw [List.find?_cons_of_neg]
      · exact ih hp.2 hm
      · simp [hne]

theorem load_ext (mem : Mem) (stride : Nat) (cells : List Nat) (n : Nat) (h : n ≤ cells.length) :
    load mem stride (.ext cells) n = some (cells.take n) := by
  unfold load
  by_cases h0 : n = 0
  · rw [if_pos h0, h0]
    rfl
  · rw [if_neg h0]
    simp only []
    rw [if_pos h]

theorem round_up_zero (A : Nat) (hA : 0 < A) : round_up 0 A = 0 := by
  unfold round_up
  have h1 : (0 + A - 1) % size_mod / A = 0 := by
    apply Nat.div_eq_of_lt
    have := Nat.mod_le (0 + A - 1) size_mod
    omega
  rw [h1, Nat.zero_mul]
  rfl

theorem nodes_found (abi : Abi) (a : IrArena) (n : Nat) (in_nodes : Ref) (xs : List Nat)
    (found : Nodes) (h1 : load a.mem abi.ptr_size in_nodes n = some xs)
    (h2 : find_key_dict (fun stored => compare_nodes abi a.mem stored ⟨n, in_nodes⟩) a.nodes_set =
      .ok (some found)) :
    nodes abi a n in_nodes = .ok (found, a) := by
  unfold nodes
  simp only [h1, h2]

theorem nodes_inserted (abi : Abi) (a : IrArena) (n : Nat) (in_nodes : Ref) (xs : List Nat)
    (p : Ptr) (a1 : IrArena)
    (h1 : load a.mem abi.ptr_size in_nodes n = some xs)
    (h2 : find_key_dict (fun stored => compare_nodes abi a.mem stored ⟨n, in_nodes⟩) a.nodes_set =
      .ok none)
    (h3 : arena_alloc abi a (abi.ptr_size * n % size_mod) = .ok (some p, a1))
    (h4 : p.off + abi.ptr_size * n ≤ alloc_size)
    (h5 : find_key_dict (fun stored => compare_nodes abi
        (store_cells a1.mem p.block p.off abi.ptr_size xs) stored ⟨n, .arena p⟩) a1.nodes_set =
      .ok none) :
    nodes abi a n in_nodes =
      .ok (⟨n, .arena p⟩,
        { a1 with
          mem := store_cells a1.mem p.block p.off abi.ptr_size xs
          nodes_set := a1.nodes_set ++ [⟨n, .arena p⟩] }) := by
  unfold nodes insert_set_get_result
  simp only [h1, h2, h3, h4, h5, if_true]

theorem nodes_inserted_empty (abi : Abi) (a : IrArena) (in_nodes : Ref) (xs : List Nat)
    (hA : 0 < abi.max_align)
    (h1 : load a.mem abi.ptr_size in_nodes 0 = some xs)
    (h2 : find_key_dict (fun stored => compare_nodes abi a.mem stored ⟨0, in_nodes⟩) a.nodes_set =
      .ok none)
    (h5 : find_key_dict (fun stored => compare_nodes abi a.mem stored ⟨0, .null⟩) a.nodes_set =
      .ok none) :
    nodes abi a 0 in_nodes =
      .ok (⟨0, .null⟩, { a with nodes_set := a.nodes_set ++ [⟨0, .null⟩] }) := by
  have h3 : arena_alloc abi a (abi.ptr_size * 0 % size_mod) = .ok (none, a) := by
    unfold arena_alloc
    simp only [Nat.mul_zero, Nat.zero_mod, round_up_zero _ hA, if_true]
  unfold nodes insert_set_get_result
  simp only [h1, h2, h3, h5, if_true]

/-- A list with the requested pointer sequence that is stored in an arena
satisfying the invariant is what `nodes` returns, and the arena is unchanged. -/
theorem nodes_again (abi : Abi) (a : IrArena) (n : Nat) (cells : List Nat) (r : Nodes)
    (hinv : a.nodes_wf abi) (hn : n ≤ cells.length) (hr : r ∈ a.nodes_set)
    (hc : Nodes.cells abi a.mem r = some (cells.take n)) :
    nodes abi a n (.ext cells) = .ok (r, a) := by
  have hload := load_ext a.mem abi.ptr_size cells n hn
  have hfind := find_nodes_eq abi a ⟨n, .ext cells⟩ (cells.take n) hinv hload
  rw [find_unique (fun s => Nodes.cells abi a.mem s) (some (cells.take n)) a.nodes_set r
    hinv.2.2 hr hc] at hfind
  exact nodes_found abi a n (.ext cells) (cells.take n) r hload hfind

/-- The first request for a pointer sequence on an arena satisfying the
invariant: `nodes` returns a stored list with that sequence and keeps the
invariant and all lists stored before. -/
theorem nodes_first (abi : Abi) (a : IrArena) (n : Nat) (cells : List Nat)
    (hP : 0 < abi.ptr_size) (hA : 0 < abi.max_align) (hdvd : abi.max_align ∣ alloc_size)
    (hinv : a.nodes_wf abi) (hn : n ≤ cells.length) (hfit : abi.ptr_size * n ≤ alloc_size)
    (hroom : round_up (abi.ptr_size * n) abi.max_align ≤ a.available ∨ a.nblocks < a.maxblocks) :
    ∃ r a1, nodes abi a n (.ext cells) = .ok (r, a1) ∧ r ∈ a1.nodes_set ∧
      Nodes.cells abi a1.mem r = some (cells.take n) ∧ a1.nodes_wf abi ∧ a.nodes_ext abi a1 := by
  have hload := load_ext a.mem abi.ptr_size cells n hn
  have hfind := find_nodes_eq abi a ⟨n, .ext cells⟩ (cells.take n) hinv hload
  have hxs : (cells.take n).length = n := by simp [hn]
  cases hf : a.nodes_set.find? (fun s => decide (Nodes.cells abi a.mem s = some (cells.take n))) with
  | some found =>
    rw [hf] at hfind
    refine ⟨found, a, nodes_found abi a n (.ext cells) _ found hload hfind,
      List.mem_of_find?_eq_some hf, ?_, hinv, fun s hs => ⟨hs, rfl⟩⟩
    have := List.find?_some hf
    simpa using this
  | none =>
    rw [hf] at hfind
    have hnone : ∀ s, s ∈ a.nodes_set → Nodes.cells abi a.mem s ≠ some (cells.take n) := by
      intro s hs
      have := List.find?_eq_none.mp hf s hs
      simpa using this
    obtain ⟨hwf, hholds, hpair⟩ := hinv
    by_cases h0 : n = 0
    · subst h0
      have hnew : Nodes.cells abi a.mem ⟨0, .null⟩ = some (cells.take 0) := rfl
      have hfind2 := find_nodes_eq abi a ⟨0, .null⟩ (cells.take 0) ⟨hwf, hholds, hpair⟩ hnew
      rw [hf] at hfind2
      refine ⟨_, _, nodes_inserted_empty abi a (.ext cells) _ hA hload hfind hfind2, ?_, hnew,
        ⟨hwf, ?_, ?_⟩, ?_⟩
      · exact List.mem_append_right _ (List.mem_singleton_self _)
      · intro s hs
        rcases List.mem_append.mp hs with h | h
        · exact (holds_frame abi a _ s (hholds s h) (fun b o hu => ⟨hu, rfl⟩)).1
        · rw [List.mem_singleton.mp h]
          exact Or.inl ⟨rfl, rfl⟩
      · show List.Pairwise (fun s t => Nodes.cells abi a.mem s ≠ Nodes.cells abi a.mem t)
          (a.nodes_set ++ [⟨0, .null⟩])
        rw [List.pairwise_append]
        refine ⟨hpair, List.pairwise_singleton _ _, ?_⟩
        intro s hs t ht
        rw [List.mem_singleton.mp ht, hnew]
        exact hnone s hs
      · intro s hs
        exact ⟨List.mem_append_left _ hs, rfl⟩
    · have hmod : abi.ptr_size * n % size_mod = abi.ptr_size * n := by
        apply Nat.mod_eq_of_lt
        have h1 : size_mod = 18446744073709551616 := rfl
        have h2 : alloc_size = 1048576 := rfl
        omega
      have hposn : 0 < abi.ptr_size * n := Nat.mul_pos hP (by omega)
      obtain ⟨_, hge, hle, _⟩ := round_up_spec (abi.ptr_size * n) abi.max_align hA hdvd hfit
      obtain ⟨p, a1, halloc, _, _, hin, _, hwf1⟩ :=
        arena_alloc_fitting abi a (abi.ptr_size * n) hA hdvd hwf hposn hfit hroom
      obtain ⟨hset, _, hframe, hregion, _⟩ :=
        arena_alloc_frame abi a (abi.ptr_size * n) (some p) a1 hwf hle hroom halloc
      have hstore : ∀ b o, a.used b o →
          store_cells a1.mem p.block p.off abi.ptr_size (cells.take n) b o = a.mem b o := by
        intro b o hu
        rw [store_cells_other _ _ _ _ hP]
        · exact (hframe b o hu).2
        · intro hc
          obtain ⟨hb, ho1, ho2⟩ := hc
          rw [hxs] at ho2
          subst hb
          exact (hregion p rfl o ho1 (by omega)).2.1 hu
      have hnewcells : Nodes.cells abi
          (store_cells a1.mem p.block p.off abi.ptr_size (cells.take n)) ⟨n, .arena p⟩ =
          some (cells.take n) := by
        unfold Nodes.cells load
        rw [if_neg h0]
        have := load_store_cells a1.mem p.block p.off abi.ptr_size hP (cells.take n)
        rw [hxs] at this
        exact this
      have hold : ∀ s, s ∈ a.nodes_set →
          ({ a1 with mem := store_cells a1.mem p.block p.off abi.ptr_size (cells.take n) } :
            IrArena).holds abi s ∧
          Nodes.cells abi (store_cells a1.mem p.block p.off abi.ptr_size (cells.take n)) s =
            Nodes.cells abi a.mem s := by
        intro s hs
        exact holds_frame abi a _ s (hholds s hs) (fun b o hu => ⟨(hframe b o hu).1, hstore b o hu⟩)
      have hpair1 : List.Pairwise (fun s t =>
          Nodes.cells abi (store_cells a1.mem p.block p.off abi.ptr_size (cells.take n)) s ≠
          Nodes.cells abi (store_cells a1.mem p.block p.off abi.ptr_size (cells.take n)) t)
          a.nodes_set := by
        refine List.Pairwise.imp_of_mem ?_ hpair
        intro s t hs ht hne
        rw [(hold s hs).2, (hold t ht).2]
        exact hne
      have hinvm : ({ a1 with mem := store_cells a1.mem p.block p.off abi.ptr_size (cells.take n) } :
          IrArena).nodes_wf abi := by
        refine ⟨hwf1, ?_, ?_⟩
        · intro s hs
          exact (hold s (by rw [← hset]; exact hs)).1
        · show List.Pairwise _ a1.nodes_set
          rw [hset]
          exact hpair1
      have hfind2 := find_nodes_eq abi _ ⟨n, .arena p⟩ (cells.take n) hinvm hnewcells
      have hf2 : a1.nodes_set.find? (fun s => decide (Nodes.cells abi
          (store_cells a1.mem p.block p.off abi.ptr_size (cells.take n)) s = some (cells.take n))) =
          none := by
        rw [List.find?_eq_none]
        intro s hs
        rw [hset] at hs
        rw [(hold s hs).2]
        simpa using hnone s hs
      have hfind2 : find_key_dict (fun stored => compare_nodes abi
          (store_cells a1.mem p.block p.off abi.ptr_size (cells.take n)) stored ⟨n, .arena p⟩)
          a1.nodes_set = .ok none := by
        rw [← hf2]
        exact hfind2
      rw [← hmod] at halloc
      refine ⟨_, _, nodes_inserted abi a n (.ext cells) _ p a1 hload hfind halloc (by omega) hfind2,
        ?_, hnewcells, ⟨hwf1, ?_, ?_⟩, ?_⟩
      · exact List.mem_append_right _ (List.mem_singleton_self _)
      · intro s hs
        rcases List.mem_append.mp hs with h | h
        · rw [hset] at h
          exact (holds_frame abi _ _ s (hold s h).1 (fun b o hu => ⟨hu, rfl⟩)).1
        · rw [List.mem_singleton.mp h]
          refine Or.inr ⟨p, cells.take n, Nat.pos_of_ne_zero h0, rfl, ?_, ?_⟩
          · have := load_store_cells a1.mem p.block p.off abi.ptr_size hP (cells.take n)
            rw [hxs] at this
            exact this
          · intro i hi
            have hi2 : abi.ptr_size * i < abi.ptr_size * n := Nat.mul_lt_mul_of_pos_left hi hP
            exact (hregion p rfl (p.off + abi.ptr_size * i) (by omega) (by omega)).1
      · show List.Pairwise _ (a1.nodes_set ++ [⟨n, .arena p⟩])
        rw [List.pairwise_append, hset]
        refine ⟨hpair1, List.pairwise_singleton _ _, ?_⟩
        intro s hs t ht
        rw [List.mem_singleton.mp ht, hnewcells, (hold s hs).2]
        exact hnone s hs
      · intro s hs
        refine ⟨List.mem_append_left _ (by rw [hset]; exact hs), (hold s hs).2⟩

theorem new_arena_nodes_wf (abi : Abi) : new_arena.nodes_wf abi :=
  ⟨new_arena_wf, fun _ hs => absurd hs (List.not_mem_nil _), List.Pairwise.nil⟩

theorem nodes_ext_trans (abi : Abi) (a a1 a2 : IrArena) (h1 : a.nodes_ext abi a1)
    (h2 : a1.nodes_ext abi a2) : a.nodes_ext abi a2 := by
  intro s hs
  obtain ⟨m1, c1⟩ := h1 s hs
  obtain ⟨m2, c2⟩ := h2 s m1
  exact ⟨m2, c2.trans c1⟩

/-- A successful `arena_alloc` of a fitting request keeps the invariant of the
node-list intern set and all stored lists. -/
theorem arena_alloc_nodes_wf (abi : Abi) (a : IrArena) (n : Nat) (p : Option Ptr) (a1 : IrArena)
    (hinv : a.nodes_wf abi) (hle : round_up n abi.max_align ≤ alloc_size)
    (hroom : round_up n abi.max_align ≤ a.available ∨ a.nblocks < a.maxblocks)
    (h : arena_alloc abi a n = .ok (p, a1)) : a1.nodes_wf abi ∧ a.nodes_ext abi a1 := by
  obtain ⟨hwf, hholds, hpair⟩ := hinv
  obtain ⟨hset, _, hframe, _, _⟩ := arena_alloc_frame abi a n p a1 hwf hle hroom h
  have hold : ∀ s, s ∈ a.nodes_set →
      a1.holds abi s ∧ Nodes.cells abi a1.mem s = Nodes.cells abi a.mem s :=
    fun s hs => holds_frame abi a a1 s (hholds s hs) hframe
  refine ⟨⟨arena_alloc_wf abi a n p a1 hwf hle hroom h, ?_, ?_⟩, ?_⟩
  · intro s hs
    rw [hset] at hs
    exact (hold s hs).1
  · rw [hset]
    refine List.Pairwise.imp_of_mem ?_ hpair
    intro s t hs ht hne
    rw [(hold s hs).2, (hold t ht).2]
    exact hne
  · intro s hs
    exact ⟨by rw [hset]; exact hs, (hold s hs).2⟩

/-- C2 (amended): on an arena that satisfies the invariant of the node-list
intern set (a new arena does), for a sequence of `n` node pointers (`n = 0`
included) whose storage of `n` pointers is at most 1 MiB and fits into the
current block or into a new block for which the block-pointer array has a free
slot, `nodes` returns a list of count `n` whose stored pointers are the given
ones; the invariant (no two stored lists are equal) is kept and so are the
lists stored before; and in every later state of the arena a call with the same
pointer sequence returns the identical list (same count, same storage pointer)
and leaves the arena as it is. -/
theorem nodes_interns_fitting_lists (abi : Abi) (a : IrArena) (n : Nat) (cells : List Nat)
    (hP : 0 < abi.ptr_size) (hA : 0 < abi.max_align) (hdvd : abi.max_align ∣ alloc_size)
    (hinv : a.nodes_wf abi) (hn : n ≤ cells.length) (hfit : abi.ptr_size * n ≤ alloc_size)
    (hroom : round_up (abi.ptr_size * n) abi.max_align ≤ a.available ∨ a.nblocks < a.maxblocks) :
    ∃ r a1, nodes abi a n (.ext cells) = .ok (r, a1) ∧ r.count = n ∧
      load a1.mem abi.ptr_size r.nodes n = some (cells.take n) ∧
      a1.nodes_wf abi ∧ a.nodes_ext abi a1 ∧
      ∀ a2 cells2, a1.nodes_ext abi a2 → a2.nodes_wf abi → n ≤ cells2.length →
        cells2.take n = cells.take n → nodes abi a2 n (.ext cells2) = .ok (r, a2) := by
  obtain ⟨r, a1, h1, h2, h3, h4, h5⟩ := nodes_first abi a n cells hP hA hdvd hinv hn hfit hroom
  have hcount : r.count = n := by
    have := cells_length abi a1.mem r _ h3
    rw [← this]
    simp [hn]
  refine ⟨r, a1, h1, hcount, ?_, h4, h5, ?_⟩
  · have h3a : load a1.mem abi.ptr_size r.nodes r.count = some (cells.take n) := h3
    rw [hcount] at h3a
    exact h3a
  · intro a2 cells2 hext hinv2 hn2 htake
    obtain ⟨hm, hc⟩ := hext r h2
    refine nodes_again abi a2 n cells2 r hinv2 hn2 hm ?_
    rw [hc, h3, htake]

/-- Witness of C2: two pointers interned on a new arena. -/
theorem nodes_interns_fitting_lists_witness :
    ∃ r a1, nodes abi64 new_arena 2 (.ext [1000, 2000]) = .ok (r, a1) ∧ r.count = 2 ∧
      load a1.mem abi64.ptr_size r.nodes 2 = some ([1000, 2000].take 2) ∧
      a1.nodes_wf abi64 ∧ new_arena.nodes_ext abi64 a1 ∧
      ∀ a2 cells2, a1.nodes_ext abi64 a2 → a2.nodes_wf abi64 → 2 ≤ cells2.length →
        cells2.take 2 = [1000, 2000].take 2 → nodes abi64 a2 2 (.ext cells2) = .ok (r, a2) :=
  nodes_interns_fitting_lists abi64 new_arena 2 [1000, 2000] (by decide) (by decide) (by decide)
    (new_arena_nodes_wf abi64) (by decide) (by decide) (Or.inr (by decide))

theorem nodes_alloc_fails (abi : Abi) (a : IrArena) (n : Nat) (in_nodes : Ref) (xs : List Nat)
    (e : Fault) (h1 : load a.mem abi.ptr_size in_nodes n = some xs)
    (h2 : find_key_dict (fun stored => compare_nodes abi a.mem stored ⟨n, in_nodes⟩) a.nodes_set =
      .ok none)
    (h3 : arena_alloc abi a (abi.ptr_size * n % size_mod) = .error e) :
    nodes abi a n in_nodes = .error e := by
  unfold nodes
  simp only [h1, h2, h3]

set_option maxRecDepth 10000 in
/-- C2 (counterexample): a list of 131073 pointers needs more than 1 MiB of
storage; `nodes` does not return, the request fails the assertion
`size <= arena->available` of `arena_alloc`. -/
theorem nodes_rejects_oversize_list :
    nodes abi64 new_arena 131073 (.ext (List.replicate 131073 0)) = .error (.assertion 89) := by
  have h1 : load new_arena.mem abi64.ptr_size (.ext (List.replicate 131073 0)) 131073 =
      some ((List.replicate 131073 0).take 131073) :=
    load_ext _ _ _ _ (by rw [List.length_replicate])
  have h2 : arena_alloc abi64 new_arena (abi64.ptr_size * 131073 % size_mod) =
      .error (.assertion 89) := by
    rfl
  exact nodes_alloc_fails abi64 new_arena 131073 _ _ _ h1 rfl h2

/-! ## Theorems: function-pointer tokens -/

theorem compare_fn_node (f g : ArenaId × Nat) :
    compare_node (fn_node f) (fn_node g) = decide (f = g) := by
  obtain ⟨a, i⟩ := f
  obtain ⟨b, j⟩ := g
  simp only [compare_node, fn_node, Node.content, Prod.mk.injEq]
  cases a <;> cases b <;> simp

theorem to_i32_inj (m n : Nat) (hm : m < 2 ^ 32) (hn : n < 2 ^ 32) (h : to_i32 m = to_i32 n) :
    m = n := by
  unfold to_i32 at h
  rw [Nat.mod_eq_of_lt hm, Nat.mod_eq_of_lt hn] at h
  split at h <;> split at h <;> omega

theorem fn_ptr_as_value_inj (m n : Nat) (hm : m < 2 ^ 32) (hn : n < 2 ^ 32)
    (h : fn_ptr_as_value m = fn_ptr_as_value n) : m = n := by
  unfold fn_ptr_as_value at h
  injection h with _ h
  exact to_i32_inj m n hm hn h

theorem Pass.bind_ok {α β : Type} (m : Pass α) (f : α → Pass β) (ctx : Context) (a : α)
    (ctx1 : Context) (h : m ctx = .ok (a, ctx1)) : (m >>= f) ctx = f a ctx1 := by
  show (match m ctx with
    | .error e => .error e
    | .ok r => f r.1 r.2) = f a ctx1
  rw [h]

theorem Pass.bind_error {α β : Type} (m : Pass α) (f : α → Pass β) (ctx : Context) (e : Fault)
    (h : m ctx = .error e) : (m >>= f) ctx = .error e := by
  show (match m ctx with
    | .error e => .error e
    | .ok r => f r.1 r.2) = Except.error e
  rw [h]

/-- A sequence of two steps succeeds only if both do. -/
theorem Pass.bind_inv {α β : Type} (m : Pass α) (f : α → Pass β) (ctx : Context) (b : β)
    (ctx2 : Context) (h : (m >>= f) ctx = .ok (b, ctx2)) :
    ∃ a ctx1, m ctx = .ok (a, ctx1) ∧ f a ctx1 = .ok (b, ctx2) := by
  cases hm : m ctx with
  | error e =>
    rw [Pass.bind_error m f ctx e hm] at h
    cases h
  | ok r =>
    obtain ⟨a, ctx1⟩ := r
    rw [Pass.bind_ok m f ctx a ctx1 hm] at h
    exact ⟨a, ctx1, rfl, h⟩

theorem find_fn_ptr_append (ctx : Context) (key : Node) (ptr : Nat) (n : Node) (nf : Nat) :
    find_fn_ptr { ctx with next_fn_ptr := nf,
                           assigned_fn_ptrs := ctx.assigned_fn_ptrs ++ [(key, ptr)] } n =
      match find_fn_ptr ctx n with
      | some p => some p
      | none => if compare_node key n then some ptr else none := by
  unfold find_fn_ptr
  simp only [List.find?_append]
  cases h : List.find? (fun e => compare_node e.1 n) ctx.assigned_fn_ptrs with
  | some e => rfl
  | none =>
    simp only [Option.none_or, List.find?_cons, List.find?_nil]
    cases compare_node key n <;> rfl

theorem first_met_extends (seen fs : List (ArenaId × Nat)) :
    ∃ t, first_met seen fs = seen ++ t := by
  induction fs generalizing seen with
  | nil => exact ⟨[], by simp [first_met]⟩
  | cons f fs ih =>
    unfold first_met
    by_cases hf : f ∈ seen
    · rw [if_pos hf]
      exact ih seen
    · rw [if_neg hf]
      obtain ⟨t, ht⟩ := ih (seen ++ [f])
      exact ⟨f :: t, by rw [ht]; simp⟩

theorem position_append_of_mem (f : ArenaId × Nat) (l t : List (ArenaId × Nat)) (h : f ∈ l) :
    position f (l ++ t) = position f l := by
  induction l with
  | nil => cases h
  | cons g gs ih =>
    simp only [List.cons_append, position]
    by_cases hg : g = f
    · rw [if_pos hg, if_pos hg]
    · rw [if_neg hg, if_neg hg]
      rcases List.mem_cons.mp h with e | hm
      · exact absurd e.symm hg
      · have := ih hm
        show position f (gs ++ t) + 1 = position f gs + 1
        rw [this]

theorem position_append_of_not_mem (f : ArenaId × Nat) (l t : List (ArenaId × Nat)) (h : f ∉ l) :
    position f (l ++ t) = l.length + position f t := by
  induction l with
  | nil => simp
  | cons g gs ih =>
    simp only [List.cons_append, position, List.length_cons]
    have hg : g ≠ f := fun e => h (by rw [e]; exact List.mem_cons_self _ _)
    rw [if_neg hg]
    have := ih (fun hm => h (List.mem_cons_of_mem _ hm))
    show position f (gs ++ t) + 1 = gs.length + 1 + position f t
    rw [this]
    omega

theorem position_lt (f : ArenaId × Nat) (l : List (ArenaId × Nat)) (h : f ∈ l) :
    position f l < l.length := by
  induction l with
  | nil => cases h
  | cons g gs ih =>
    simp only [position, List.length_cons]
    by_cases hg : g = f
    · rw [if_pos hg]
      omega
    · rw [if_neg hg]
      rcases List.mem_cons.mp h with e | hm
      · exact absurd e.symm hg
      · have := ih hm
        omega

theorem position_inj (f g : ArenaId × Nat) (l : List (ArenaId × Nat)) (hf : f ∈ l) (hg : g ∈ l)
    (h : position f l = position g l) : f = g := by
  induction l with
  | nil => cases hf
  | cons x xs ih =>
    simp only [position] at h
    by_cases hxf : x = f
    · by_cases hxg : x = g
      · rw [← hxf, ← hxg]
      · rw [if_pos hxf, if_neg hxg] at h
        omega
    · by_cases hxg : x = g
      · rw [if_neg hxf, if_pos hxg] at h
        omega
      · rw [if_neg hxf, if_neg hxg] at h
        rcases List.mem_cons.mp hf with e | hf1
        · exact absurd e.symm hxf
        · rcases List.mem_cons.mp hg with e | hg1
          · exact absurd e.symm hxg
          · exact ih hf1 hg1 (by omega)

/-- One call of `lower_fn_addr` for a function that was met before. -/
theorem lower_fn_addr_known (ctx : Context) (seen : List (ArenaId × Nat)) (f : ArenaId × Nat)
    (hinv : tokens_assigned ctx seen) (hf : f ∈ seen) :
    lower_fn_addr (fn_node f) ctx = .ok (fn_ptr_as_value (position f seen + 1), ctx) := by
  have h := hinv.2 f
  rw [if_pos hf] at h
  show (match find_fn_ptr ctx (fn_node f) with
    | some found => Except.ok (fn_ptr_as_value found, ctx)
    | none => _) = _
  rw [h]

/-- One call of `lower_fn_addr` for a function that is met for the first time. -/
theorem lower_fn_addr_fresh (ctx : Context) (seen : List (ArenaId × Nat)) (f : ArenaId × Nat)
    (hinv : tokens_assigned ctx seen) (hf : f ∉ seen) (hlen : seen.length + 1 < 2 ^ 32) :
    ∃ ctx1, lower_fn_addr (fn_node f) ctx = .ok (fn_ptr_as_value (seen.length + 1), ctx1) ∧
      tokens_assigned ctx1 (seen ++ [f]) := by
  have h := hinv.2 f
  rw [if_neg hf] at h
  have hnext : ctx.next_fn_ptr = seen.length + 1 := by
    rw [hinv.1]
    exact Nat.mod_eq_of_lt hlen
  refine ⟨{ ctx with next_fn_ptr := (ctx.next_fn_ptr + 1) % 2 ^ 32,
                     assigned_fn_ptrs := ctx.assigned_fn_ptrs ++ [(fn_node f, ctx.next_fn_ptr)] },
    ?_, ?_, ?_⟩
  · show (match find_fn_ptr ctx (fn_node f) with
      | some found => Except.ok (fn_ptr_as_value found, ctx)
      | none => _) = _
    rw [h, hnext]
  · show (ctx.next_fn_ptr + 1) % 2 ^ 32 = ((seen ++ [f]).length + 1) % 2 ^ 32
    rw [hnext, List.length_append]
    rfl
  · intro g
    rw [find_fn_ptr_append, hinv.2 g, compare_fn_node]
    by_cases hg : g ∈ seen
    · rw [if_pos hg, if_pos (List.mem_append_left _ hg), position_append_of_mem g seen [f] hg]
    · rw [if_neg hg]
      by_cases hfg : f = g
      · subst hfg
        simp only [decide_True, if_true]
        rw [if_pos (List.mem_append_right _ (List.mem_singleton_self _)),
          position_append_of_not_mem f seen [f] hg, hnext]
        simp [position]
      · have : g ∉ seen ++ [f] := by
          intro hm
          rcases List.mem_append.mp hm with h1 | h1
          · exact hg h1
          · exact hfg (List.mem_singleton.mp h1).symm
        simp [hfg, this]

theorem mem_first_met_of_seen (seen fs : List (ArenaId × Nat)) (f : ArenaId × Nat)
    (h : f ∈ seen) : f ∈ first_met seen fs := by
  obtain ⟨t, ht⟩ := first_met_extends seen fs
  rw [ht]
  exact List.mem_append_left _ h

theorem mem_first_met (seen fs : List (ArenaId × Nat)) (f : ArenaId × Nat) (h : f ∈ fs) :
    f ∈ first_met seen fs := by
  induction fs generalizing seen with
  | nil => cases h
  | cons g gs ih =>
    unfold first_met
    rcases List.mem_cons.mp h with e | hm
    · subst e
      by_cases hf : f ∈ seen
      · rw [if_pos hf]
        exact mem_first_met_of_seen seen gs f hf
      · rw [if_neg hf]
        exact mem_first_met_of_seen _ gs f (List.mem_append_right _ (List.mem_singleton_self _))
    · by_cases hg : g ∈ seen
      · rw [if_pos hg]
        exact ih seen hm
      · rw [if_neg hg]
        exact ih _ hm

theorem position_first_met (seen fs : List (ArenaId × Nat)) (f : ArenaId × Nat) (h : f ∈ seen) :
    position f (first_met seen fs) = position f seen := by
  obtain ⟨t, ht⟩ := first_met_extends seen fs
  rw [ht]
  exact position_append_of_mem f seen t h

theorem length_le_first_met (seen fs : List (ArenaId × Nat)) :
    seen.length ≤ (first_met seen fs).length := by
  obtain ⟨t, ht⟩ := first_met_extends seen fs
  rw [ht, List.length_append]
  omega

/-- Successive calls of `lower_fn_addr`: each request is answered with the
literal of the position, counted from 1, of the function among the functions
met so far, in the order in which they were first met. -/
theorem lower_fn_addrs_spec (fs seen : List (ArenaId × Nat)) (ctx : Context)
    (hinv : tokens_assigned ctx seen) (hlen : (first_met seen fs).length < 2 ^ 32) :
    ∃ ctx1, lower_fn_addrs (fs.map fn_node) ctx =
        .ok (fs.map (fun f => fn_ptr_as_value (position f (first_met seen fs) + 1)), ctx1) ∧
      tokens_assigned ctx1 (first_met seen fs) := by
  induction fs generalizing seen ctx with
  | nil => exact ⟨ctx, rfl, hinv⟩
  | cons f fs ih =>
    by_cases hf : f ∈ seen
    · have e : first_met seen (f :: fs) = first_met seen fs := by
        show (if f ∈ seen then first_met seen fs else first_met (seen ++ [f]) fs) = _
        rw [if_pos hf]
      rw [e] at hlen ⊢
      obtain ⟨ctx1, h1, h2⟩ := ih seen ctx hinv hlen
      refine ⟨ctx1, ?_, h2⟩
      show (lower_fn_addr (fn_node f) >>= fun lit =>
        lower_fn_addrs (fs.map fn_node) >>= fun lits => pure (lit :: lits)) ctx = _
      rw [Pass.bind_ok _ _ ctx _ ctx (lower_fn_addr_known ctx seen f hinv hf),
        Pass.bind_ok _ _ ctx _ ctx1 h1, List.map_cons, position_first_met seen fs f hf]
      rfl
    · have e : first_met seen (f :: fs) = first_met (seen ++ [f]) fs := by
        show (if f ∈ seen then first_met seen fs else first_met (seen ++ [f]) fs) = _
        rw [if_neg hf]
      rw [e] at hlen ⊢
      have hl := length_le_first_met (seen ++ [f]) fs
      rw [List.length_append] at hl
      have hl1 : seen.length + 1 < 2 ^ 32 := by
        have : [f].length = 1 := rfl
        omega
      obtain ⟨ctx0, h0, hinv0⟩ := lower_fn_addr_fresh ctx seen f hinv hf hl1
      obtain ⟨ctx1, h1, h2⟩ := ih (seen ++ [f]) ctx0 hinv0 hlen
      refine ⟨ctx1, ?_, h2⟩
      have hpos : position f (first_met (seen ++ [f]) fs) = seen.length := by
        rw [position_first_met _ fs f (List.mem_append_right _ (List.mem_singleton_self _)),
          position_append_of_not_mem f seen [f] hf]
        simp [position]
      show (lower_fn_addr (fn_node f) >>= fun lit =>
        lower_fn_addrs (fs.map fn_node) >>= fun lits => pure (lit :: lits)) ctx = _
      rw [Pass.bind_ok _ _ ctx _ ctx0 h0, Pass.bind_ok _ _ ctx0 _ ctx1 h1, List.map_cons, hpos]
      rfl

/-- C10: starting from an empty dictionary and `next_fn_ptr = 1`, for every
sequence of requests that meets fewer than `2^32` different functions,
`lower_fn_addr` answers each request for a function with the 32-bit integer
literal of the token k, where the function is the k-th different function met
(so the same function always gets the same literal); different functions get
different literals; and no literal is the literal of the halt token 0. -/
theorem lower_fn_addr_assigns_tokens (fs : List (ArenaId × Nat)) (ctx : Context)
    (h0 : ctx.assigned_fn_ptrs = []) (h1 : ctx.next_fn_ptr = 1)
    (hlt : (first_met [] fs).length < 2 ^ 32) :
    (∃ ctx1, lower_fn_addrs (fs.map fn_node) ctx =
      .ok (fs.map (fun f => fn_ptr_as_value (position f (first_met [] fs) + 1)), ctx1)) ∧
    (∀ f g, f ∈ fs → g ∈ fs → f ≠ g →
      fn_ptr_as_value (position f (first_met [] fs) + 1) ≠
        fn_ptr_as_value (position g (first_met [] fs) + 1)) ∧
    (∀ f, f ∈ fs →
      fn_ptr_as_value (position f (first_met [] fs) + 1) ≠ Node.int_literal .IntTy32 0) := by
  have hinv : tokens_assigned ctx [] := by
    refine ⟨by rw [h1]; rfl, ?_⟩
    intro f
    unfold find_fn_ptr
    rw [h0]
    rfl
  obtain ⟨ctx1, hrun, _⟩ := lower_fn_addrs_spec fs [] ctx hinv hlt
  refine ⟨⟨ctx1, hrun⟩, ?_, ?_⟩
  · intro f g hf hg hne heq
    have pf := position_lt f _ (mem_first_met [] fs f hf)
    have pg := position_lt g _ (mem_first_met [] fs g hg)
    have := fn_ptr_as_value_inj _ _ (by omega) (by omega) heq
    exact hne (position_inj f g _ (mem_first_met [] fs f hf) (mem_first_met [] fs g hg) (by omega))
  · intro f hf heq
    have pf := position_lt f _ (mem_first_met [] fs f hf)
    have hz : Node.int_literal .IntTy32 0 = fn_ptr_as_value 0 := by
      unfold fn_ptr_as_value to_i32
      simp
    rw [hz] at heq
    have := fn_ptr_as_value_inj _ _ (by omega) (by decide) heq
    omega

/-- Witness of C10. -/
theorem lower_fn_addr_assigns_tokens_witness :
    ∃ ctx1, lower_fn_addrs ([(ArenaId.src, 5), (ArenaId.dst, 5), (ArenaId.src, 5)].map fn_node)
        (initial_context ⟨[], 0⟩ ⟨[], 0⟩ .null) =
      .ok ([(ArenaId.src, 5), (ArenaId.dst, 5), (ArenaId.src, 5)].map
        (fun f => fn_ptr_as_value
          (position f (first_met [] [(ArenaId.src, 5), (ArenaId.dst, 5), (ArenaId.src, 5)]) + 1)),
        ctx1) :=
  (lower_fn_addr_assigns_tokens [(ArenaId.src, 5), (ArenaId.dst, 5), (ArenaId.src, 5)]
    (initial_context ⟨[], 0⟩ ⟨[], 0⟩ .null) rfl rfl (by decide)).1

/-! ## Theorems: the dispatcher -/

theorem lower_fn_addr_rewriter (n : Node) (ctx : Context) (r : Node) (ctx1 : Context)
    (h : lower_fn_addr n ctx = .ok (r, ctx1)) : ctx1.rewriter = ctx.rewriter := by
  unfold lower_fn_addr at h
  cases n <;> try (simp only [] at h; cases h)
  rename_i a i
  simp only [] at h
  cases hf : find_fn_ptr ctx (.fn a i) with
  | some found =>
    rw [hf] at h
    cases h
    rfl
  | none =>
    rw [hf] at h
    cases h
    rfl

theorem leaf_of_congr (ctx ctx1 : Context) (decl : Node)
    (h : ctx1.rewriter.processed = ctx.rewriter.processed) :
    leaf_of ctx1 decl = leaf_of ctx decl := by
  unfold leaf_of find_processed
  rw [h]

theorem lower_fn_addrs_rewriter (ns : List Node) (ctx : Context) (r : List Node) (ctx1 : Context)
    (h : lower_fn_addrs ns ctx = .ok (r, ctx1)) : ctx1.rewriter = ctx.rewriter := by
  induction ns generalizing ctx r with
  | nil =>
    cases h
    rfl
  | cons n ns ih =>
    obtain ⟨lit, ctx0, h0, hrest⟩ := Pass.bind_inv _ _ ctx r ctx1 h
    obtain ⟨lits, ctx2, h2, hlast⟩ := Pass.bind_inv _ _ ctx0 r ctx1 hrest
    cases hlast
    rw [ih ctx0 lits h2, lower_fn_addr_rewriter _ _ _ _ h0]

theorem fresh_vars_frame (outs : List (String × Node)) (ctx : Context) (vs : List Node)
    (ctx1 : Context) (h : fresh_vars outs ctx = .ok (vs, ctx1)) :
    ctx1.rewriter.processed = ctx.rewriter.processed ∧ ctx1.next_fn_var = ctx.next_fn_var := by
  induction outs generalizing ctx vs with
  | nil =>
    cases h
    exact ⟨rfl, rfl⟩
  | cons o os ih =>
    unfold fresh_vars at h
    obtain ⟨v, c0, h0, hrest⟩ := Pass.bind_inv _ _ _ _ _ h
    obtain ⟨vs1, c2, h2, hlast⟩ := Pass.bind_inv _ _ _ _ _ hrest
    cases hlast
    cases h0
    have hi := ih _ _ h2
    exact ⟨hi.1, hi.2⟩

theorem gen_load_inv (infer : Typing) (b : BlockBuilder) (ptr : Node) (ctx : Context)
    (b1 : BlockBuilder) (v : Node) (ctx1 : Context)
    (h : gen_load infer b ptr ctx = .ok ((b1, v), ctx1)) :
    (∃ vars, b1 = b ++ [.let_ (v :: vars) (.prim_op .load_op [ptr]) false]) ∧
    ctx1.rewriter.processed = ctx.rewriter.processed ∧ ctx1.next_fn_var = ctx.next_fn_var := by
  unfold gen_load at h
  obtain ⟨r, c0, h0, hrest⟩ := Pass.bind_inv _ _ _ _ _ h
  unfold gen_primop at h0
  cases hi : infer .load_op [ptr] with
  | none =>
    rw [hi] at h0
    cases h0
  | some outs =>
  rw [hi] at h0
  obtain ⟨vs, c2, h2, hlast⟩ := Pass.bind_inv _ _ _ _ _ h0
  cases hlast
  have hf := fresh_vars_frame _ _ _ _ h2
  cases vs with
  | nil =>
    simp only [] at hrest
    cases hrest
  | cons x xs =>
    simp only [] at hrest
    cases hrest
    exact ⟨⟨xs, rfl⟩, hf⟩

theorem lower_fn_addr_next_fn_var (n : Node) (ctx : Context) (r : Node) (ctx1 : Context)
    (h : lower_fn_addr n ctx = .ok (r, ctx1)) : ctx1.next_fn_var = ctx.next_fn_var := by
  unfold lower_fn_addr at h
  cases n <;> try (simp only [] at h; cases h)
  simp only [] at h
  split at h
  · cases h
    rfl
  · cases h
    rfl

theorem lower_fn_addrs_next_fn_var (ns : List Node) (ctx : Context) (r : List Node)
    (ctx1 : Context) (h : lower_fn_addrs ns ctx = .ok (r, ctx1)) :
    ctx1.next_fn_var = ctx.next_fn_var := by
  induction ns generalizing ctx r with
  | nil =>
    cases h
    rfl
  | cons n ns ih =>
    unfold lower_fn_addrs at h
    obtain ⟨lit, c2, h2, hrest⟩ := Pass.bind_inv _ _ _ _ _ h
    obtain ⟨lits, c3, h3, hlast⟩ := Pass.bind_inv _ _ _ _ _ hrest
    cases hlast
    rw [ih _ _ h3, lower_fn_addr_next_fn_var _ _ _ _ h2]

theorem lower_fn_addr_is_fn (n : Node) (ctx : Context) (r : Node) (ctx1 : Context)
    (h : lower_fn_addr n ctx = .ok (r, ctx1)) : n.is_fn = true := by
  unfold lower_fn_addr at h
  cases n <;> first
    | rfl
    | (simp only [] at h; cases h)

theorem dispatch_cases_inv (decls : List Node) (lits cases : List Node) (ctx : Context)
    (r : List Node × List Node) (ctx1 : Context)
    (h : dispatch_cases lits cases decls ctx = .ok (r, ctx1)) :
    ∃ toks, lower_fn_addrs ((fn_decls decls).map (leaf_of ctx)) ctx = .ok (toks, ctx1) ∧
      r = (lits ++ toks, cases ++ ((fn_decls decls).map (leaf_of ctx)).map leaf_case) ∧
      (∀ l, l ∈ (fn_decls decls).map (leaf_of ctx) → l.is_fn = true) := by
  induction decls generalizing lits cases ctx with
  | nil =>
    cases h
    exact ⟨[], rfl, by simp [fn_decls], by simp [fn_decls]⟩
  | cons d ds ih =>
    unfold dispatch_cases at h
    by_cases hn : d.is_null = true
    · rw [if_pos hn] at h
      cases h
    · rw [if_neg hn] at h
      by_cases hf : d.is_fn = true
      · rw [if_pos hf] at h
        obtain ⟨c, c0, hget, hrest⟩ := Pass.bind_inv _ _ _ _ _ h
        cases hget
        obtain ⟨lit, c2, h2, hlast⟩ := Pass.bind_inv _ _ _ _ _ hrest
        obtain ⟨toks, ht, hr, hfn⟩ := ih _ _ _ hlast
        have hrw := lower_fn_addr_rewriter _ _ _ _ h2
        have hmap : (fn_decls ds).map (leaf_of c2) = (fn_decls ds).map (leaf_of ctx) :=
          List.map_congr_left (fun x _ => leaf_of_congr ctx c2 x (by rw [hrw]))
        rw [hmap] at ht hr hfn
        have e : fn_decls (d :: ds) = d :: fn_decls ds := by
          unfold fn_decls
          rw [List.filter_cons_of_pos hf]
        refine ⟨lit :: toks, ?_, ?_, ?_⟩
        · rw [e, List.map_cons]
          show (lower_fn_addr (leaf_of ctx d) >>= fun lit =>
            lower_fn_addrs ((fn_decls ds).map (leaf_of ctx)) >>= fun lits =>
              pure (lit :: lits)) ctx = _
          rw [Pass.bind_ok _ _ ctx _ c2 h2, Pass.bind_ok _ _ c2 _ ctx1 ht]
          rfl
        · rw [hr, e]
          simp
        · rw [e, List.map_cons]
          intro l hl
          rcases List.mem_cons.mp hl with h1 | h1
          · rw [h1]
            exact lower_fn_addr_is_fn _ _ _ _ h2
          · exact hfn l h1
      · rw [if_neg hf] at h
        have e : fn_decls (d :: ds) = fn_decls ds := by
          unfold fn_decls
          rw [List.filter_cons_of_neg hf]
        rw [e]
        exact ih _ _ _ h

theorem set_fn_block_inv (node blk : Node) (ctx ctx1 : Context)
    (h : set_fn_block node blk ctx = .ok ((), ctx1)) :
    dst_block ctx1 node = some blk ∧ ctx1.rewriter.processed = ctx.rewriter.processed ∧
      ctx1.next_fn_var = ctx.next_fn_var := by
  unfold set_fn_block at h
  cases node <;> try (simp only [] at h; cases h)
  rename_i a i
  cases a
  · simp only [] at h
    cases h
  · simp only [] at h
    cases hg : ctx.rewriter.dst_arena.fns.get? i with
    | none =>
      rw [hg] at h
      cases h
    | some f =>
      rw [hg] at h
      cases h
      refine ⟨?_, rfl, rfl⟩
      have hi : i < ctx.rewriter.dst_arena.fns.length := by
        by_contra hc
        rw [List.get?_eq_none.mpr (by omega)] at hg
        cases hg
      unfold dst_block
      simp only [List.get?_eq_getElem?]
      rw [List.getElem?_set_self hi]

/-- What a successful `generate_top_level_dispatch_fn` has built. -/
theorem generate_inv (infer : Typing) (declarations : List Node) (dispatcher_fn : Node)
    (ctx ctx1 : Context)
    (h : generate_top_level_dispatch_fn infer (.root declarations) dispatcher_fn ctx =
      .ok ((), ctx1)) :
    ∃ v vars toks ctxl ctx2,
      lower_fn_addrs ((fn_decls declarations).map (leaf_of ctx)) ctxl = .ok (toks, ctx2) ∧
      (∀ l, l ∈ (fn_decls declarations).map (leaf_of ctx) → l.is_fn = true) ∧
      dst_block ctx1 dispatcher_fn = some
        (.block
          [.loop_instr [] [] []
            (.block
              [.let_ (v :: vars) (.prim_op .load_op [ctx.next_fn_var]) false,
               .match_instr [] v (.int_literal .IntTy32 0 :: toks)
                 (.block [] (.merge_construct .Break []) ::
                   ((fn_decls declarations).map (leaf_of ctx)).map leaf_case)
                 (.block [] .unreachable)]
              .unreachable)]
          (.fn_ret .null [])) ∧
      ctx1.rewriter.processed = ctx.rewriter.processed ∧ ctx1.next_fn_var = ctx.next_fn_var := by
  unfold generate_top_level_dispatch_fn at h
  obtain ⟨c, c0, hget, h1⟩ := Pass.bind_inv _ _ _ _ _ h
  cases hget
  obtain ⟨loaded, ctxl, hl, h2⟩ := Pass.bind_inv _ _ _ _ _ h1
  obtain ⟨⟨vars, hb⟩, hp1, hn1⟩ := gen_load_inv infer _ _ _ loaded.1 loaded.2 ctxl hl
  simp only [] at h2
  obtain ⟨r, ctx2, hd, h3⟩ := Pass.bind_inv _ _ _ _ _ h2
  obtain ⟨toks, ht, hr, hfn⟩ := dispatch_cases_inv _ _ _ _ _ _ hd
  have hleq : leaf_of ctxl = leaf_of ctx := funext (fun d => leaf_of_congr ctx ctxl d hp1)
  rw [hleq] at ht hr hfn
  obtain ⟨hblk, hp3, hn3⟩ := set_fn_block_inv _ _ _ _ h3
  have hrw2 := lower_fn_addrs_rewriter _ _ _ _ ht
  refine ⟨loaded.2, vars, toks, ctxl, ctx2, ht, hfn, ?_, ?_, ?_⟩
  · rw [hblk, hr, hb]
    rfl
  · rw [hp3, hrw2, hp1]
  · rw [hn3, lower_fn_addrs_next_fn_var _ _ _ _ ht, hn1]
/-- The dispatcher in the program that a successful run of `lower_callf`
returns: the function that the pass creates first has the block described by
`generate_inv`, built over the leaves that the pass has registered for the
`Function` declarations of the input. -/
theorem lower_callf_dispatcher (infer : Typing) (fuel : Nat) (src dst : NodeArena)
    (declarations : List Node) (out : Node) (ctx : Context)
    (hrun : lower_callf infer fuel src dst (.root declarations) = .ok (out, ctx)) :
    ∃ v vars toks ctxl ctx2,
      lower_fn_addrs ((fn_decls declarations).map (leaf_of ctx)) ctxl = .ok (toks, ctx2) ∧
      (∀ l, l ∈ (fn_decls declarations).map (leaf_of ctx) → l.is_fn = true) ∧
      dst_block ctx (.fn .dst dst.fns.length) = some
        (.block
          [.loop_instr [] [] []
            (.block
              [.let_ (v :: vars) (.prim_op .load_op [ctx.next_fn_var]) false,
               .match_instr [] v (.int_literal .IntTy32 0 :: toks)
                 (.block [] (.merge_construct .Break []) ::
                   ((fn_decls declarations).map (leaf_of ctx)).map leaf_case)
                 (.block [] .unreachable)]
              .unreachable)]
          (.fn_ret .null [])) := by
  unfold lower_callf lower_callf_run at hrun
  simp only [] at hrun
  obtain ⟨rewritten, c1, hrw, h1⟩ := Pass.bind_inv _ _ _ _ _ hrun
  obtain ⟨u, c2, hgen, h2⟩ := Pass.bind_inv _ _ _ _ _ h1
  have hc : c2 = ctx := by
    cases rewritten with
    | root d =>
      simp only [] at h2
      obtain ⟨c, c3, hget, h3⟩ := Pass.bind_inv _ _ _ _ _ h2
      cases hget
      cases h3
      rfl
    | _ =>
      simp only [] at h2
      cases h2
  subst hc
  obtain ⟨v, vars, toks, ctxl, ctx2, ht, hfn, hblk, hp, hn⟩ := generate_inv _ _ _ _ _ hgen
  have hleq : leaf_of c1 = leaf_of c2 := funext (fun d => leaf_of_congr c2 c1 d hp.symm)
  rw [hleq, ← hn] at hblk
  rw [hleq] at ht hfn
  exact ⟨v, vars, toks, ctxl, ctx2, ht, hfn, hblk⟩

/-! ## Theorems: the pass on the example program -/

/-- C9 (the code at the failing input): on the example program (the entry
point `main` and the continuation `k`) the pass succeeds; the declarations of
the new root are the four functions `main_leaf`, `k`, `top_dispatcher` and the
wrapper `main`, none of them a global variable named `next_fn` or `next_mask`;
`ctx.next_fn_var` and `ctx.next_mask_var` are null, so the wrapper stores the
token and the mask through a null pointer and the dispatcher loads through a
null pointer. -/
theorem dispatch_globals_are_missing :
    (match lower_callf example_typing 5 example_src empty_arena example_root with
      | .ok (out, ctx) =>
        compare_node out (.root [.fn .dst 1, .fn .dst 3, .fn .dst 0, .fn .dst 2]) &&
        (ctx.rewriter.dst_arena.fns.map (fun f => f.name) ==
          ["top_dispatcher", "main_leaf", "main", "k"]) &&
        !(out.declarations.any (Node.is_global_named "next_fn")) &&
        !(out.declarations.any (Node.is_global_named "next_mask")) &&
        ctx.next_fn_var.is_null && ctx.next_mask_var.is_null &&
        (match dst_block ctx (.fn .dst 2) with
          | some b => compare_node b
            (.block
              [.let_ [] (.prim_op .store_op [.null, .int_literal .IntTy32 1]) false,
               .let_ [.var .null 0 "out"] (.prim_op .subgroup_active_mask_op []) false,
               .let_ [] (.prim_op .store_op [.null, .var .null 0 "out"]) false,
               .call_instr (.fn .dst 0) []]
              (.fn_ret .null []))
          | none => false) &&
        (match dst_block ctx (.fn .dst 0) with
          | some b => compare_node b
            (.block
              [.loop_instr [] [] []
                (.block
                  [.let_ [.var .null 1 "loaded"] (.prim_op .load_op [.null]) false,
                   .match_instr [] (.var .null 1 "loaded")
                     [.int_literal .IntTy32 0, .int_literal .IntTy32 1, .int_literal .IntTy32 3]
                     [.block [] (.merge_construct .Break []),
                      .block [.call_instr (.fn .dst 1) []] (.merge_construct .Continue []),
                      .block [.call_instr (.fn .dst 3) []] (.merge_construct .Continue [])]
                     (.block [] .unreachable)]
                  .unreachable)]
              (.fn_ret .null []))
          | none => false)
      | .error _ => false) = true := by
  decide!

theorem ok_of_is_ok {α β : Type} (r : Except Fault (α × β)) (h : is_ok r = true) :
    ∃ a b, r = .ok (a, b) := by
  cases r with
  | error e => cases h
  | ok x => exact ⟨x.1, x.2, rfl⟩

/-! ## Theorems: the leaves and the wrappers of the pass -/

theorem compare_node_self (n : Node) : compare_node n n = true := by
  unfold compare_node
  exact decide_eq_true rfl

theorem headers_kept_refl (c : Context) : c.headers_kept c :=
  ⟨rfl, fun _ f h => ⟨f, h, rfl⟩⟩

theorem headers_kept_trans (c c1 c2 : Context) (h1 : c.headers_kept c1)
    (h2 : c1.headers_kept c2) : c.headers_kept c2 := by
  refine ⟨by rw [h2.1, h1.1], ?_⟩
  intro node f hf
  obtain ⟨f1, hf1, e1⟩ := h1.2 node f hf
  obtain ⟨f2, hf2, e2⟩ := h2.2 node f1 hf1
  exact ⟨f2, hf2, by rw [e2, e1]⟩

theorem fn_payload_congr (c c1 : Context) (h1 : c1.rewriter.src_arena = c.rewriter.src_arena)
    (h2 : c1.rewriter.dst_arena.fns = c.rewriter.dst_arena.fns) (node : Node) :
    fn_payload c1 node = fn_payload c node := by
  unfold fn_payload
  cases node <;> try rfl
  rename_i a i
  cases a
  · simp only [h1]
  · simp only [h2]

theorem headers_kept_of_untouched (c c1 : Context) (h : c.untouched c1) : c.headers_kept c1 := by
  refine ⟨h.1, ?_⟩
  intro node f hf
  exact ⟨f, by rw [fn_payload_congr c c1 h.1 h.2.1, hf], rfl⟩

theorem header_fields (f g : Function) (h : f.header = g.header) :
    f.atttributes = g.atttributes ∧ f.name = g.name ∧ f.params = g.params ∧
      f.return_types = g.return_types := by
  cases f
  cases g
  simp only [Function.header, Function.mk.injEq] at h
  exact ⟨h.1, h.2.1, h.2.2.1, h.2.2.2.1⟩

theorem is_leaf_of_congr (leaf leaf1 old old1 : Function) (h1 : leaf1.header = leaf.header)
    (h2 : old1.header = old.header) (h : leaf.is_leaf_of old) : leaf1.is_leaf_of old1 := by
  obtain ⟨a1, _, p1, r1⟩ := header_fields _ _ h1
  obtain ⟨a2, _, _, _⟩ := header_fields _ _ h2
  unfold Function.is_leaf_of at h ⊢
  rw [a1, p1, r1, a2]
  exact h

theorem wraps_congr (w w1 old old1 : Function) (h1 : w1.header = w.header)
    (h2 : old1.header = old.header) (h : w.wraps old) : w1.wraps old1 := by
  obtain ⟨a1, n1, _, _⟩ := header_fields _ _ h1
  obtain ⟨a2, n2, _, _⟩ := header_fields _ _ h2
  unfold Function.wraps at h ⊢
  rw [a1, n1, a2, n2]
  exact h

theorem dst_of_headers_kept (c c1 : Context) (h : c.headers_kept c1) (j : Nat) (f : Function)
    (hf : c.rewriter.dst_arena.fns.get? j = some f) :
    ∃ f1, c1.rewriter.dst_arena.fns.get? j = some f1 ∧ f1.header = f.header :=
  h.2 (.fn .dst j) f hf

/-- The invariant holds in a context whose functions keep the headers and whose
dictionary of processed nodes, new declarations and dispatcher are the same. -/
theorem leaves_of_kept (d : Nat) (registered : List Node) (c c1 : Context)
    (hl : c.leaves d registered) (hk : c.headers_kept c1)
    (hp : c1.rewriter.processed = c.rewriter.processed) (hn : c1.new_decls = c.new_decls)
    (hg : c1.god_fn = c.god_fn) : c1.leaves d registered := by
  obtain ⟨h1, ⟨g, hg1, hg2⟩, h3, h4, h5, h6⟩ := hl
  refine ⟨by rw [hg, h1], ?_, by rw [hn]; exact h3, by rw [hp]; exact h4, ?_, by rw [hp]; exact h6⟩
  · obtain ⟨g1, hg3, hg4⟩ := dst_of_headers_kept c c1 hk d g hg1
    exact ⟨g1, hg3, by rw [(header_fields _ _ hg4).2.1, hg2]⟩
  · intro e he hfn
    rw [hp] at he
    obtain ⟨old, leaf, j, ho, hj, hleaf, hsig, hwrap⟩ := h5 e he hfn
    obtain ⟨old1, ho1, eo⟩ := hk.2 _ _ ho
    obtain ⟨leaf1, hl1, el⟩ := dst_of_headers_kept c c1 hk j leaf hleaf
    refine ⟨old1, leaf1, j, ho1, hj, hl1, is_leaf_of_congr _ _ _ _ el eo hsig, ?_⟩
    intro hep
    rw [(header_fields _ _ eo).1] at hep
    obtain ⟨k, w, hk1, hk2, hk3⟩ := hwrap hep
    obtain ⟨w1, hw1, ew⟩ := dst_of_headers_kept c c1 hk k w hk2
    exact ⟨k, w1, by rw [hn]; exact hk1, hw1, wraps_congr _ _ _ _ ew eo hk3⟩

theorem leaves_of_untouched (d : Nat) (registered : List Node) (c c1 : Context)
    (hl : c.leaves d registered) (h : c.untouched c1) : c1.leaves d registered :=
  leaves_of_kept d registered c c1 hl (headers_kept_of_untouched c c1 h) h.2.2.1 h.2.2.2.1
    h.2.2.2.2

theorem leaves_congr (d : Nat) (registered registered1 : List Node) (c : Context)
    (hl : c.leaves d registered) (h : ∀ n, n ∈ registered1 → n ∈ registered) :
    c.leaves d registered1 :=
  ⟨hl.1, hl.2.1, hl.2.2.1, hl.2.2.2.1, hl.2.2.2.2.1, fun n hn => hl.2.2.2.2.2 n (h n hn)⟩

/-! ### Computations that do not touch the functions -/

theorem untouched_refl (c : Context) : c.untouched c := ⟨rfl, rfl, rfl, rfl, rfl⟩

theorem untouched_trans (c c1 c2 : Context) (h1 : c.untouched c1) (h2 : c1.untouched c2) :
    c.untouched c2 :=
  ⟨by rw [h2.1, h1.1], by rw [h2.2.1, h1.2.1], by rw [h2.2.2.1, h1.2.2.1],
    by rw [h2.2.2.2.1, h1.2.2.2.1], by rw [h2.2.2.2.2, h1.2.2.2.2]⟩

theorem untouching_pure {α : Type} (a : α) : Pass.untouching (pure a : Pass α) := by
  intro ctx r ctx1 h
  cases h
  exact untouched_refl _

theorem untouching_fault {α : Type} (e : Fault) : Pass.untouching (Pass.fault e : Pass α) := by
  intro ctx r ctx1 h
  cases h

theorem untouching_bind {α β : Type} (m : Pass α) (f : α → Pass β) (hm : Pass.untouching m)
    (hf : ∀ a, Pass.untouching (f a)) : Pass.untouching (m >>= f) := by
  intro ctx r ctx2 h
  obtain ⟨a, ctx1, h1, h2⟩ := Pass.bind_inv _ _ _ _ _ h
  exact untouched_trans _ _ _ (hm ctx a ctx1 h1) (hf a ctx1 r ctx2 h2)

theorem untouching_get : Pass.untouching Pass.get := by
  intro ctx r ctx1 h
  cases h
  exact untouched_refl _

theorem untouching_get_fn (node : Node) : Pass.untouching (get_fn node) := by
  intro ctx r ctx1 h
  unfold get_fn at h
  split at h
  · split at h
    · cases h
      exact untouched_refl _
    · cases h
  · split at h
    · cases h
      exact untouched_refl _
    · cases h
  · cases h

theorem untouching_fresh_var (name : String) (type : Node) :
    Pass.untouching (fresh_var name type) := by
  intro ctx r ctx1 h
  cases h
  exact ⟨rfl, rfl, rfl, rfl, rfl⟩

theorem untouching_fresh_vars (outs : List (String × Node)) :
    Pass.untouching (fresh_vars outs) := by
  induction outs with
  | nil => exact untouching_pure _
  | cons o os ih =>
    exact untouching_bind _ _ (untouching_fresh_var _ _)
      (fun _ => untouching_bind _ _ ih (fun _ => untouching_pure _))

theorem untouching_gen_primop (infer : Typing) (b : BlockBuilder) (op : Op)
    (operands : List Node) : Pass.untouching (gen_primop infer b op operands) := by
  unfold gen_primop
  cases infer op operands with
  | none => exact untouching_fault _
  | some outs => exact untouching_bind _ _ (untouching_fresh_vars _) (fun _ => untouching_pure _)

theorem untouching_gen_store (infer : Typing) (b : BlockBuilder) (ptr value : Node) :
    Pass.untouching (gen_store infer b ptr value) :=
  untouching_bind _ _ (untouching_gen_primop _ _ _ _) (fun _ => untouching_pure _)

theorem untouching_gen_push_value_stack (infer : Typing) (b : BlockBuilder) (value : Node) :
    Pass.untouching (gen_push_value_stack infer b value) :=
  untouching_bind _ _ (untouching_gen_primop _ _ _ _) (fun _ => untouching_pure _)

theorem untouching_push_params (infer : Typing) (b : BlockBuilder) (ps : List Node) :
    Pass.untouching (push_params infer b ps) := by
  induction ps with
  | nil => exact untouching_pure _
  | cons p ps ih =>
    exact untouching_bind _ _ ih (fun _ => untouching_gen_push_value_stack _ _ _)

theorem untouching_lower_fn_addr (node : Node) : Pass.untouching (lower_fn_addr node) := by
  intro ctx r ctx1 h
  unfold lower_fn_addr at h
  cases node <;> try (simp only [] at h; cases h)
  simp only [] at h
  split at h
  · cases h
    exact untouched_refl _
  · cases h
    exact ⟨rfl, rfl, rfl, rfl, rfl⟩

theorem untouching_nodes_of (count : Nat) (array : List Node) :
    Pass.untouching (nodes_of count array) := by
  unfold nodes_of
  split
  · exact untouching_pure _
  · exact untouching_fault _

/-! ### The invariant along the computations of the pass -/

theorem steps_pure {α : Type} (d : Nat) (a : α) (post : α → Prop) (h : post a) :
    Pass.steps d (pure a) post := by
  intro registered ctx r ctx1 hl hr
  cases hr
  exact ⟨hl, headers_kept_refl _, h⟩

theorem steps_fault {α : Type} (d : Nat) (e : Fault) (post : α → Prop) :
    Pass.steps d (Pass.fault e) post := by
  intro registered ctx r ctx1 _ hr
  cases hr

theorem steps_bind {α β : Type} (d : Nat) (m : Pass α) (f : α → Pass β) (mid : α → Prop)
    (post : β → Prop) (h1 : Pass.steps d m mid) (h2 : ∀ a, mid a → Pass.steps d (f a) post) :
    Pass.steps d (m >>= f) post := by
  intro registered ctx r ctx2 hl hr
  obtain ⟨a, ctx1, hm, hf⟩ := Pass.bind_inv m f ctx r ctx2 hr
  obtain ⟨hl1, hk1, ha⟩ := h1 registered ctx a ctx1 hl hm
  obtain ⟨hl2, hk2, hb⟩ := h2 a ha registered ctx1 r ctx2 hl1 hf
  exact ⟨hl2, headers_kept_trans _ _ _ hk1 hk2, hb⟩

theorem steps_of_untouching {α : Type} (d : Nat) (m : Pass α) (h : Pass.untouching m) :
    Pass.steps d m (fun _ => True) := by
  intro registered ctx r ctx1 hl hr
  have hu := h ctx r ctx1 hr
  exact ⟨leaves_of_untouched d registered ctx ctx1 hl hu, headers_kept_of_untouched _ _ hu,
    trivial⟩

theorem steps_weaken {α : Type} (d : Nat) (m : Pass α) (p q : α → Prop) (h : Pass.steps d m p)
    (hpq : ∀ a, p a → q a) : Pass.steps d m q := by
  intro registered ctx r ctx1 hl hr
  obtain ⟨h1, h2, h3⟩ := h registered ctx r ctx1 hl hr
  exact ⟨h1, h2, hpq r h3⟩

theorem get_fn_inv (node : Node) (ctx ctx1 : Context) (f : Function)
    (h : get_fn node ctx = .ok (f, ctx1)) : ctx1 = ctx ∧ fn_payload ctx node = some f := by
  unfold get_fn at h
  unfold fn_payload
  split at h
  · split at h
    · rename_i hg
      cases h
      exact ⟨rfl, hg⟩
    · cases h
  · split at h
    · rename_i hg
      cases h
      exact ⟨rfl, hg⟩
    · cases h
  · cases h

theorem headers_kept_dst (c c1 : Context)
    (hs : c1.rewriter.src_arena = c.rewriter.src_arena)
    (hd : ∀ j f, c.rewriter.dst_arena.fns.get? j = some f →
      ∃ f1, c1.rewriter.dst_arena.fns.get? j = some f1 ∧ f1.header = f.header) :
    c.headers_kept c1 := by
  refine ⟨hs, ?_⟩
  intro node f hf
  unfold fn_payload at hf ⊢
  cases node <;> try (cases hf)
  rename_i a i
  cases a
  · simp only [] at hf ⊢
    rw [hs]
    exact ⟨f, hf, rfl⟩
  · exact hd i f hf

/-- The context after the constructor `fn` has added the function `g`. -/
theorem leaves_fn (d : Nat) (registered : List Node) (c : Context) (g : Function)
    (hl : c.leaves d registered) :
    Context.leaves d registered
      { c with rewriter := { c.rewriter with
        dst_arena := { c.rewriter.dst_arena with fns := c.rewriter.dst_arena.fns ++ [g] } } } ∧
    c.headers_kept
      { c with rewriter := { c.rewriter with
        dst_arena := { c.rewriter.dst_arena with fns := c.rewriter.dst_arena.fns ++ [g] } } } := by
  have hk : c.headers_kept
      { c with rewriter := { c.rewriter with
        dst_arena := { c.rewriter.dst_arena with fns := c.rewriter.dst_arena.fns ++ [g] } } } := by
    refine headers_kept_dst _ _ rfl ?_
    intro j f hf
    refine ⟨f, ?_, rfl⟩
    show (c.rewriter.dst_arena.fns ++ [g]).get? j = some f
    rw [List.get?_eq_getElem?] at hf ⊢
    rw [List.getElem?_append_left (by
      by_contra hc
      rw [List.getElem?_eq_none (by omega)] at hf
      cases hf)]
    exact hf
  exact ⟨leaves_of_kept d registered c _ hl hk rfl rfl rfl, hk⟩

theorem set_fn_block_effect (node blk : Node) (c c1 : Context)
    (h : set_fn_block node blk c = .ok ((), c1)) :
    ∃ i f, node = .fn .dst i ∧ c.rewriter.dst_arena.fns.get? i = some f ∧
      c1 = { c with rewriter := { c.rewriter with
        dst_arena := { c.rewriter.dst_arena with
          fns := c.rewriter.dst_arena.fns.set i { f with block := blk } } } } := by
  unfold set_fn_block at h
  cases node <;> try (simp only [] at h; cases h)
  rename_i a i
  cases a
  · simp only [] at h
    cases h
  · simp only [] at h
    cases hg : c.rewriter.dst_arena.fns.get? i with
    | none =>
      rw [hg] at h
      cases h
    | some f =>
      rw [hg] at h
      cases h
      exact ⟨i, f, rfl, hg, rfl⟩

theorem steps_set_fn_block (d : Nat) (node blk : Node) :
    Pass.steps d (set_fn_block node blk) (fun _ => True) := by
  intro registered c r c1 hl h
  obtain ⟨i, f, rfl, hg, rfl⟩ := set_fn_block_effect _ _ _ _ h
  have hk : c.headers_kept
      { c with rewriter := { c.rewriter with
        dst_arena := { c.rewriter.dst_arena with
          fns := c.rewriter.dst_arena.fns.set i { f with block := blk } } } } := by
    refine headers_kept_dst _ _ rfl ?_
    intro j g hj
    show ∃ f1, (c.rewriter.dst_arena.fns.set i { f with block := blk }).get? j = some f1 ∧ _
    rw [List.get?_eq_getElem?] at hj hg ⊢
    by_cases hij : i = j
    · subst hij
      rw [hg] at hj
      cases hj
      have hi : i < c.rewriter.dst_arena.fns.length := by
        by_contra hc
        rw [List.getElem?_eq_none (by omega)] at hg
        cases hg
      rw [List.getElem?_set_self hi]
      exact ⟨_, rfl, rfl⟩
    · rw [List.getElem?_set_ne hij]
      exact ⟨g, hj, rfl⟩
  exact ⟨leaves_of_kept d registered c _ hl hk rfl rfl rfl, hk, trivial⟩

/-- The context after a function created after the dispatcher has been appended
to the new declarations. -/
theorem leaves_new_decl (d : Nat) (registered : List Node) (c : Context) (k : Nat)
    (hl : c.leaves d registered) (hk : d < k) :
    Context.leaves d registered { c with new_decls := c.new_decls ++ [.fn .dst k] } := by
  obtain ⟨h1, h2, ⟨rest, h3, h3b⟩, h4, h5, h6⟩ := hl
  refine ⟨h1, h2, ⟨rest ++ [.fn .dst k], ?_, ?_⟩, h4, ?_, h6⟩
  · show c.new_decls ++ [Node.fn .dst k] = _
    rw [h3]
    rfl
  · intro w hw
    rcases List.mem_append.mp hw with hw | hw
    · exact h3b w hw
    · rw [List.mem_singleton] at hw
      exact ⟨k, hw, hk⟩
  · intro e he hfn
    obtain ⟨old, leaf, j, ho, hj, hleaf, hsig, hwrap⟩ := h5 e he hfn
    refine ⟨old, leaf, j, ho, hj, hleaf, hsig, ?_⟩
    intro hep
    obtain ⟨k1, w, hk1, hk2, hk3⟩ := hwrap hep
    exact ⟨k1, w, List.mem_append_left _ hk1, hk2, hk3⟩

/-- The context after `register_processed(old, new)`, when `new` is a leaf for
`old`. -/
theorem leaves_register (d : Nat) (registered : List Node) (c : Context) (old new : Node)
    (hl : c.leaves d registered) (habove : new.above d)
    (hleaf : old.is_fn = true →
      ∃ oldf leaf j, fn_payload c old = some oldf ∧ new = .fn .dst j ∧
        c.rewriter.dst_arena.fns.get? j = some leaf ∧ leaf.is_leaf_of oldf ∧
        (oldf.atttributes.entry_point_type ≠ .NotAnEntryPoint →
          ∃ k wrapper, .fn .dst k ∈ c.new_decls ∧
            c.rewriter.dst_arena.fns.get? k = some wrapper ∧ wrapper.wraps oldf)) :
    Context.leaves d (old :: registered)
      { c with rewriter := { c.rewriter with
        processed := c.rewriter.processed ++ [(old, new)] } } := by
  obtain ⟨h1, h2, h3, h4, h5, h6⟩ := hl
  refine ⟨h1, h2, h3, ?_, ?_, ?_⟩
  · intro e he
    rcases List.mem_append.mp he with he | he
    · exact h4 e he
    · rw [List.mem_singleton] at he
      rw [he]
      exact habove
  · intro e he hfn
    rcases List.mem_append.mp he with he | he
    · exact h5 e he hfn
    · rw [List.mem_singleton] at he
      rw [he] at hfn ⊢
      exact hleaf hfn
  · intro n hn
    rcases List.mem_cons.mp hn with hn | hn
    · exact ⟨new, by rw [hn]; exact List.mem_append_right _ (List.mem_singleton.mpr rfl)⟩
    · obtain ⟨r, hr⟩ := h6 n hn
      exact ⟨r, List.mem_append_left _ hr⟩

theorem dispatcher_lt (d : Nat) (registered : List Node) (c : Context)
    (hl : c.leaves d registered) : d < c.rewriter.dst_arena.fns.length := by
  obtain ⟨g, hg, _⟩ := hl.2.1
  by_contra hc
  rw [List.get?_eq_none.mpr (by omega)] at hg
  cases hg

theorem above_of_not_fn (d : Nat) (node : Node) (h : node.is_fn = false) : node.above d := by
  intro j hj
  rw [hj] at h
  cases h

/-! ### The rewriting functions -/

theorem steps_rw (d : Nat) (rw : Node → Pass Node) (hrw : Rewrites_leaves d rw) (node : Node) :
    Pass.steps d (rw node) (Node.above d) := by
  intro registered ctx r ctx1 hl h
  obtain ⟨h1, h2, h3⟩ := hrw node registered ctx r ctx1 hl h
  refine ⟨leaves_congr d _ registered ctx1 h1 ?_, h2, h3⟩
  intro n hn
  split
  · exact List.mem_cons_of_mem _ hn
  · exact hn

theorem steps_rewrite_nodes (d : Nat) (rw : Node → Pass Node) (hrw : Rewrites_leaves d rw)
    (xs : List Node) :
    Pass.steps d (rewrite_nodes rw xs) (fun rs => ∀ r, r ∈ rs → r.above d) := by
  induction xs with
  | nil => exact steps_pure d _ _ (fun r hr => absurd hr (List.not_mem_nil r))
  | cons x xs ih =>
    unfold rewrite_nodes
    refine steps_bind d _ _ _ _ (steps_rw d rw hrw x) (fun y hy => ?_)
    refine steps_bind d _ _ _ _ ih (fun ys hys => ?_)
    refine steps_pure d _ _ ?_
    intro r hr
    rcases List.mem_cons.mp hr with h | h
    · rw [h]
      exact hy
    · exact hys r h

theorem steps_recreate_node_identity (d : Nat) (rw : Node → Pass Node)
    (hrw : Rewrites_leaves d rw) (node : Node) :
    Pass.steps d (recreate_node_identity rw node) (Node.above d) := by
  cases node <;> unfold recreate_node_identity <;>
    first
    | exact steps_fault d _ _
    | exact steps_pure d _ _ (above_of_not_fn d _ rfl)
    | (repeat (first
        | refine steps_bind d _ _ _ _ (steps_rw d rw hrw _) (fun _ _ => ?_)
        | refine steps_bind d _ _ _ _ (steps_rewrite_nodes d rw hrw _) (fun _ _ => ?_))
       exact steps_pure d _ _ (above_of_not_fn d _ rfl))

theorem steps_rewrite_instructions (d : Nat) (rw : Node → Pass Node)
    (hrw : Rewrites_leaves d rw) (olds : List Node) (b : BlockBuilder) :
    Pass.steps d (rewrite_instructions rw b olds) (fun _ => True) := by
  induction olds generalizing b with
  | nil => exact steps_pure d _ _ trivial
  | cons x xs ih =>
    unfold rewrite_instructions
    exact steps_bind d _ _ _ _ (steps_rw d rw hrw x) (fun _ _ => ih _)

theorem steps_rewrite_block (d : Nat) (rw : Node → Pass Node) (hrw : Rewrites_leaves d rw)
    (old_block : Node) (b : BlockBuilder) :
    Pass.steps d (rewrite_block rw old_block b) (Node.above d) := by
  unfold rewrite_block
  cases old_block <;> try exact steps_fault d _ _
  rename_i old_instructions old_terminator
  simp only []
  refine steps_bind d _ _ _ _ (steps_rewrite_instructions d rw hrw old_instructions b)
    (fun bb _ => ?_)
  cases old_terminator <;> try exact steps_fault d _ _
  · rename_i mode y target c tt ft s dd cv ct args
    simp only []
    split
    · exact steps_fault d _ _
    · refine steps_bind d _ _ _ _ (steps_rewrite_nodes d rw hrw args) (fun new_args _ => ?_)
      refine steps_bind d _ _ _ _ (steps_pure d _ (fun _ => True) trivial) (fun bb1 _ => ?_)
      refine steps_bind d _ _ _ _ (steps_rw d rw hrw target) (fun t1 _ => ?_)
      refine steps_bind d _ _ _ _ (steps_of_untouching d _ untouching_get) (fun c1 _ => ?_)
      refine steps_bind d _ _ _ _ (steps_of_untouching d _ (untouching_nodes_of _ _))
        (fun ca _ => ?_)
      exact steps_pure d _ _ (above_of_not_fn d _ rfl)
  · rename_i is_indirect join_at desired_mask args
    simp only []
    split
    · exact steps_fault d _ _
    · refine steps_bind d _ _ _ _ (steps_rewrite_nodes d rw hrw args) (fun new_args _ => ?_)
      refine steps_bind d _ _ _ _ (steps_pure d _ (fun _ => True) trivial) (fun bb1 _ => ?_)
      refine steps_bind d _ _ _ _ (steps_rw d rw hrw join_at) (fun t1 _ => ?_)
      refine steps_bind d _ _ _ _ (steps_rw d rw hrw desired_mask) (fun m1 _ => ?_)
      refine steps_bind d _ _ _ _ (steps_of_untouching d _ untouching_get) (fun c1 _ => ?_)
      refine steps_bind d _ _ _ _ (steps_of_untouching d _ (untouching_nodes_of _ _))
        (fun ca _ => ?_)
      exact steps_pure d _ _ (above_of_not_fn d _ rfl)
  · rename_i c a
    simp only []
    refine steps_bind d _ _ _ _ (steps_rw d rw hrw (.merge_construct c a)) (fun t1 _ => ?_)
    split
    · exact steps_fault d _ _
    · exact steps_pure d _ _ (above_of_not_fn d _ rfl)
  · simp only []
    refine steps_bind d _ _ _ _ (steps_rw d rw hrw .unreachable) (fun t1 _ => ?_)
    split
    · exact steps_fault d _ _
    · exact steps_pure d _ _ (above_of_not_fn d _ rfl)

theorem fn_inv (a : FnAttributes) (nm : String) (p r : List Node) (ctx ctx1 : Context)
    (node : Node) (h : fn a nm p r ctx = .ok (node, ctx1)) :
    node = .fn .dst ctx.rewriter.dst_arena.fns.length ∧
      ctx1.rewriter.dst_arena.fns = ctx.rewriter.dst_arena.fns ++
        [{ atttributes := a, name := nm, params := p, return_types := r, block := .null }] ∧
      ctx1.rewriter.src_arena = ctx.rewriter.src_arena ∧
      ctx1.rewriter.processed = ctx.rewriter.processed ∧
      ctx1.new_decls = ctx.new_decls ∧ ctx1.god_fn = ctx.god_fn := by
  cases h
  exact ⟨rfl, rfl, rfl, rfl, rfl, rfl⟩

/-- The invariant in a context that has one function more. -/
theorem leaves_append (d : Nat) (registered : List Node) (c c1 : Context) (g : Function)
    (hl : c.leaves d registered)
    (hf : c1.rewriter.dst_arena.fns = c.rewriter.dst_arena.fns ++ [g])
    (hs : c1.rewriter.src_arena = c.rewriter.src_arena)
    (hp : c1.rewriter.processed = c.rewriter.processed) (hn : c1.new_decls = c.new_decls)
    (hg : c1.god_fn = c.god_fn) : c1.leaves d registered ∧ c.headers_kept c1 := by
  have hk : c.headers_kept c1 := by
    refine headers_kept_dst _ _ hs ?_
    intro j f hj
    refine ⟨f, ?_, rfl⟩
    rw [hf]
    rw [List.get?_eq_getElem?] at hj ⊢
    rw [List.getElem?_append_left (by
      by_contra hc
      rw [List.getElem?_eq_none (by omega)] at hj
      cases hj)]
    exact hj
  exact ⟨leaves_of_kept d registered c c1 hl hk hp hn hg, hk⟩

theorem get_last (l : List Function) (g f : Function) (h : (l ++ [g]).get? l.length = some f) :
    f = g := by
  rw [List.get?_eq_getElem?, List.getElem?_append_right (Nat.le_refl _)] at h
  simp only [Nat.sub_self, List.getElem?_cons_zero, Option.some.injEq] at h
  exact h.symm

/-- What `entry_point_wrapper` does to the invariant: it adds the wrapper, a
function with the name and the attributes of the old function, to the
destination arena and to the new declarations. -/
theorem leaves_entry_point_wrapper (infer : Typing) (d : Nat) (old_fn : Function) (fun_ : Node)
    (fun_fn : Function) (registered : List Node) (ctx ctx1 : Context)
    (hl : ctx.leaves d registered)
    (h : entry_point_wrapper infer old_fn fun_ fun_fn ctx = .ok ((), ctx1)) :
    ctx1.leaves d registered ∧ ctx.headers_kept ctx1 ∧
      ctx1.rewriter.processed = ctx.rewriter.processed ∧
      ∃ k wrapper, .fn .dst k ∈ ctx1.new_decls ∧
        ctx1.rewriter.dst_arena.fns.get? k = some wrapper ∧
        wrapper.name = old_fn.name ∧ wrapper.atttributes = old_fn.atttributes := by
  unfold entry_point_wrapper at h
  obtain ⟨new_entry_pt, c1, hfn, h⟩ := Pass.bind_inv _ _ _ _ _ h
  obtain ⟨rfl, hf1, hs1, hp1, hn1, hg1⟩ := fn_inv _ _ _ _ _ _ _ hfn
  obtain ⟨hl1, hk1⟩ := leaves_append d registered ctx c1 _ hl hf1 hs1 hp1 hn1 hg1
  have hd := dispatcher_lt d registered ctx hl
  obtain ⟨c, c1b, hget, h⟩ := Pass.bind_inv _ _ _ _ _ h
  cases hget
  obtain ⟨u, c2, hset, h⟩ := Pass.bind_inv _ _ _ _ _ h
  cases hset
  have hl2 := leaves_new_decl d registered c1 ctx.rewriter.dst_arena.fns.length hl1 hd
  have hk12 : c1.headers_kept
      { c1 with new_decls := c1.new_decls ++ [.fn .dst ctx.rewriter.dst_arena.fns.length] } :=
    ⟨rfl, fun _ f hf => ⟨f, hf, rfl⟩⟩
  obtain ⟨b, c3, hpush, h⟩ := Pass.bind_inv _ _ _ _ _ h
  have hu3 := untouching_push_params infer _ _ _ _ _ hpush
  obtain ⟨p, c4, hptr, h⟩ := Pass.bind_inv _ _ _ _ _ h
  have hu4 := untouching_lower_fn_addr _ _ _ _ hptr
  obtain ⟨cc, c4b, hget, h⟩ := Pass.bind_inv _ _ _ _ _ h
  cases hget
  obtain ⟨b1, c5, hst, h⟩ := Pass.bind_inv _ _ _ _ _ h
  have hu5 := untouching_gen_store infer _ _ _ _ _ _ hst
  obtain ⟨r, c6, hpr, h⟩ := Pass.bind_inv _ _ _ _ _ h
  have hu6 := untouching_gen_primop infer _ _ _ _ _ _ hpr
  cases hv : r.2 with
  | nil =>
    rw [hv] at h
    cases h
  | cons entry_mask rest =>
    rw [hv] at h
    simp only [] at h
    obtain ⟨cc2, c6b, hget, h⟩ := Pass.bind_inv _ _ _ _ _ h
    cases hget
    obtain ⟨b2, c7, hst2, h⟩ := Pass.bind_inv _ _ _ _ _ h
    have hu7 := untouching_gen_store infer _ _ _ _ _ _ hst2
    have hu := untouched_trans _ _ _ (untouched_trans _ _ _ (untouched_trans _ _ _ hu3 hu4) hu5)
      (untouched_trans _ _ _ hu6 hu7)
    have hl7 := leaves_of_untouched d registered _ _ hl2 hu
    obtain ⟨hl8, hk8, _⟩ := steps_set_fn_block d _ _ registered _ _ _ hl7 h
    obtain ⟨i, f, hi, hg, rfl⟩ := set_fn_block_effect _ _ _ _ h
    cases hi
    have hk7 : ctx.headers_kept c7 :=
      headers_kept_trans _ _ _ hk1
        (headers_kept_trans _ _ _ hk12 (headers_kept_of_untouched _ _ hu))
    have hfns : c7.rewriter.dst_arena.fns = c1.rewriter.dst_arena.fns := hu.2.1
    obtain ⟨w, hw, ew⟩ := dst_of_headers_kept c7 _ hk8 _ f hg
    rw [hfns, hf1] at hg
    have hfg := get_last _ _ _ hg
    obtain ⟨ea, en, _, _⟩ := header_fields _ _ ew
    refine ⟨hl8, headers_kept_trans _ _ _ hk7 hk8, ?_, ctx.rewriter.dst_arena.fns.length, w,
      ?_, hw, ?_, ?_⟩
    · show c7.rewriter.processed = _
      rw [hu.2.2.1]
      exact hp1
    · show Node.fn .dst ctx.rewriter.dst_arena.fns.length ∈ c7.new_decls
      rw [hu.2.2.2.1]
      exact List.mem_append_right _ (List.mem_singleton.mpr rfl)
    · rw [en, hfg]
    · rw [ea, hfg]

/-- What the case `Function_TAG` of `lower_callf_process` does to the invariant:
the old function is registered with a leaf for it. -/
theorem leaves_lower_function (infer : Typing) (d : Nat) (rw : Node → Pass Node)
    (hrw : Rewrites_leaves d rw) (old : Node) (registered : List Node) (ctx ctx1 : Context)
    (r : Node) (hl : ctx.leaves d registered)
    (h : lower_function infer rw old ctx = .ok (r, ctx1)) :
    ctx1.leaves d (old :: registered) ∧ ctx.headers_kept ctx1 ∧ r.above d := by
  unfold lower_function at h
  obtain ⟨old_fn, c0, hget, h1⟩ := Pass.bind_inv _ _ _ _ _ h
  clear h
  obtain ⟨rfl, hold⟩ := get_fn_inv _ _ _ _ hget
  dsimp only at h1
  obtain ⟨fun_, c1, hfn, h2⟩ := Pass.bind_inv _ _ _ _ _ h1
  clear h1
  obtain ⟨rfl, hf1, hs1, hp1, hn1, hg1⟩ := fn_inv _ _ _ _ _ _ _ hfn
  obtain ⟨hl1, hk1⟩ := leaves_append d registered c0 c1 _ hl hf1 hs1 hp1 hn1 hg1
  have hd := dispatcher_lt d registered c0 hl
  obtain ⟨fun_fn, c1b, hget2, h3⟩ := Pass.bind_inv _ _ _ _ _ h2
  clear h2
  obtain ⟨rfl, hleaf0⟩ := get_fn_inv _ _ _ _ hget2
  have hleaf1 : c1b.rewriter.dst_arena.fns.get? c0.rewriter.dst_arena.fns.length = some fun_fn :=
    hleaf0
  have hff : fun_fn = _ := get_last _ _ _ (by rw [hf1] at hleaf1; exact hleaf1)
  obtain ⟨u, c2, hwrap, h4⟩ := Pass.bind_inv _ _ _ _ _ h3
  clear h3
  have h2 : c2.leaves d registered ∧ c1b.headers_kept c2 ∧
      c2.rewriter.processed = c1b.rewriter.processed ∧
      (old_fn.atttributes.entry_point_type ≠ .NotAnEntryPoint →
        ∃ k wrapper, .fn .dst k ∈ c2.new_decls ∧
          c2.rewriter.dst_arena.fns.get? k = some wrapper ∧
          wrapper.name = old_fn.name ∧ wrapper.atttributes = old_fn.atttributes) := by
    by_cases hep : old_fn.atttributes.entry_point_type ≠ .NotAnEntryPoint
    · rw [if_pos hep] at hwrap
      obtain ⟨a, b, c, e⟩ := leaves_entry_point_wrapper infer d old_fn _ fun_fn registered c1b c2
        hl1 hwrap
      exact ⟨a, b, c, fun _ => e⟩
    · rw [if_neg hep] at hwrap
      cases hwrap
      exact ⟨hl1, headers_kept_refl _, rfl, fun hc => absurd hc hep⟩
  obtain ⟨hl2, hk2, hp2, hw2⟩ := h2
  obtain ⟨u2, c3, hreg, h5⟩ := Pass.bind_inv _ _ _ _ _ h4
  clear h4
  cases hreg
  obtain ⟨old2, hold2, eold⟩ := (headers_kept_trans _ _ _ hk1 hk2).2 old old_fn hold
  obtain ⟨leaf2, hleaf2, eleaf⟩ := dst_of_headers_kept c1b c2 hk2 _ fun_fn hleaf1
  have habove : (Node.fn .dst c0.rewriter.dst_arena.fns.length).above d := by
    intro j hj
    cases hj
    exact hd
  have hl3 := leaves_register d registered c2 old (.fn .dst c0.rewriter.dst_arena.fns.length)
    hl2 habove (fun _ => by
      refine ⟨old2, leaf2, _, hold2, rfl, hleaf2, ?_, ?_⟩
      · obtain ⟨a1, _, p1, r1⟩ := header_fields _ _ eleaf
        obtain ⟨a2, _, _, _⟩ := header_fields _ _ eold
        unfold Function.is_leaf_of
        rw [a1, p1, r1, a2, hff]
        exact ⟨rfl, rfl, rfl, rfl⟩
      · intro hep
        obtain ⟨a2, n2, _, _⟩ := header_fields _ _ eold
        rw [a2] at hep
        obtain ⟨k, wrapper, hk, hg, hname, hattr⟩ := hw2 hep
        exact ⟨k, wrapper, hk, hg, by rw [n2]; exact hname, by rw [a2]; exact hattr⟩)
  have hk23 : c2.headers_kept
      { c2 with rewriter := { c2.rewriter with
        processed := c2.rewriter.processed ++
          [(old, .fn .dst c0.rewriter.dst_arena.fns.length)] } } :=
    ⟨rfl, fun _ f hf => ⟨f, hf, rfl⟩⟩
  obtain ⟨b, c3b, hpop, h6⟩ := Pass.bind_inv _ _ _ _ _ h5
  clear h5
  rw [hff] at hpop
  cases hpop
  obtain ⟨blk, c4, hblk, h7⟩ := Pass.bind_inv _ _ _ _ _ h6
  clear h6
  obtain ⟨hl4, hk4, _⟩ := steps_rewrite_block d rw hrw _ _ _ _ _ _ hl3 hblk
  obtain ⟨u3, c5, hset, h8⟩ := Pass.bind_inv _ _ _ _ _ h7
  clear h7
  obtain ⟨hl5, hk5, _⟩ := steps_set_fn_block d _ _ _ _ _ _ hl4 hset
  cases h8
  exact ⟨hl5,
    headers_kept_trans _ _ _ hk1 (headers_kept_trans _ _ _ hk2
      (headers_kept_trans _ _ _ hk23 (headers_kept_trans _ _ _ hk4 hk5))),
    habove⟩

theorem untouched_leaves (d : Nat) (registered : List Node) (node : Node) {α : Type}
    (m : Pass α) (hm : Pass.untouching m) (ctx ctx1 : Context) (r : α)
    (hl : ctx.leaves d registered) (hnf : node.is_fn = false) (h : m ctx = .ok (r, ctx1)) :
    ctx1.leaves d (if node.is_fn then node :: registered else registered) ∧
      ctx.headers_kept ctx1 := by
  rw [hnf]
  have hu := hm ctx r ctx1 h
  exact ⟨leaves_of_untouched d registered ctx ctx1 hl hu, headers_kept_of_untouched _ _ hu⟩

theorem lower_fn_addr_above (d : Nat) (f : Node) (ctx ctx1 : Context) (r : Node)
    (h : lower_fn_addr f ctx = .ok (r, ctx1)) : r.above d := by
  unfold lower_fn_addr at h
  cases f <;> try (simp only [] at h; cases h)
  simp only [] at h
  split at h <;> cases h <;> exact above_of_not_fn d _ rfl

/-- The callback of the pass keeps the invariant, given that the rewriting of
the subnodes does. -/
theorem leaves_lower_callf_process (infer : Typing) (d : Nat) (rw : Node → Pass Node)
    (hrw : Rewrites_leaves d rw) : Rewrites_leaves d (lower_callf_process infer rw) := by
  intro old registered ctx r ctx1 hl h
  have hrec : ∀ node, node.is_fn = false →
      recreate_node_identity rw node ctx = .ok (r, ctx1) →
      ctx1.leaves d (if node.is_fn then node :: registered else registered) ∧
        ctx.headers_kept ctx1 ∧ r.above d := by
    intro node hnf hr
    rw [hnf]
    exact steps_recreate_node_identity d rw hrw node registered ctx r ctx1 hl hr
  cases old
  case fn a i => exact leaves_lower_function infer d rw hrw _ registered ctx ctx1 r hl h
  case fn_addr f =>
    obtain ⟨h1, h2⟩ := untouched_leaves d registered (.fn_addr f) _ (untouching_lower_fn_addr f)
      ctx ctx1 r hl rfl h
    exact ⟨h1, h2, lower_fn_addr_above d f ctx ctx1 r h⟩
  case block i t =>
    exact steps_rewrite_block d rw hrw (.block i t) begin_block registered ctx r ctx1 hl h
  case ptr_type a pointee =>
    unfold lower_callf_process at h
    cases pointee <;> first
      | (cases h; done)
      | (cases h; exact ⟨hl, headers_kept_refl _, above_of_not_fn d _ rfl⟩)
      | exact hrec _ rfl h
  all_goals
    unfold lower_callf_process at h
    exact hrec _ rfl h

theorem compare_node_fn (n : Node) (a : ArenaId) (i : Nat)
    (h : compare_node n (.fn a i) = true) : n = .fn a i := by
  unfold compare_node at h
  have hc := of_decide_eq_true h
  cases n <;> simp [Node.content] at hc
  obtain ⟨rfl, rfl⟩ := hc
  rfl

theorem find?_holds {α : Type} (p : α → Bool) (l : List α) (a : α)
    (h : l.find? p = some a) : p a = true := by
  induction l with
  | nil => cases h
  | cons x xs ih =>
    rw [List.find?_cons] at h
    cases hx : p x with
    | true =>
      rw [hx] at h
      cases h
      exact hx
    | false =>
      rw [hx] at h
      exact ih h

theorem find_processed_entry (ctx : Context) (node new : Node)
    (h : find_processed ctx node = some new) :
    ∃ e, e ∈ ctx.rewriter.processed ∧ e.2 = new ∧ compare_node e.1 node = true := by
  unfold find_processed at h
  cases hf : List.find? (fun e => compare_node e.1 node) ctx.rewriter.processed with
  | none =>
    rw [hf] at h
    cases h
  | some e =>
    rw [hf] at h
    cases h
    have hp := find?_holds (fun x : Node × Node => compare_node x.1 node) _ e hf
    exact ⟨e, List.mem_of_find?_eq_some hf, rfl, hp⟩

/-- The rewriting of a node keeps the invariant about the leaves, with every
amount of fuel. -/
theorem leaves_rewrite_node (infer : Typing) (d : Nat) (fuel : Nat) :
    Rewrites_leaves d (rewrite_node infer fuel) := by
  induction fuel with
  | zero =>
    intro node registered ctx r ctx1 _ h
    cases h
  | succ fuel ih =>
    intro node registered ctx r ctx1 hl h
    unfold rewrite_node at h
    by_cases hn : node.is_null = true
    · rw [if_pos hn] at h
      cases h
      have hnf : node.is_fn = false := by
        cases node <;> first | rfl | cases hn
      rw [hnf]
      exact ⟨hl, headers_kept_refl _, above_of_not_fn d _ rfl⟩
    · rw [if_neg hn] at h
      cases hf : find_processed ctx node with
      | some new =>
        rw [hf] at h
        cases h
        obtain ⟨e, he, he2, hcmp⟩ := find_processed_entry ctx node r hf
        refine ⟨?_, headers_kept_refl _, ?_⟩
        · by_cases hfn : node.is_fn = true
          · rw [if_pos hfn]
            refine ⟨hl.1, hl.2.1, hl.2.2.1, hl.2.2.2.1, hl.2.2.2.2.1, ?_⟩
            intro n hn2
            rcases List.mem_cons.mp hn2 with hn2 | hn2
            · cases node <;> try (cases hfn)
              rename_i a i
              have := compare_node_fn _ _ _ hcmp
              refine ⟨e.2, ?_⟩
              rw [hn2, ← this]
              exact he
            · exact hl.2.2.2.2.2 n hn2
          · rw [if_neg hfn]
            exact hl
        · intro j hj
          rw [← he2] at hj
          exact hl.2.2.2.1 e he j hj
      | none =>
        rw [hf] at h
        exact leaves_lower_callf_process infer d _ ih node registered ctx r ctx1 hl h

/-- The rewriting of a list of nodes registers the functions of the list. -/
theorem leaves_rewrite_nodes (d : Nat) (rw : Node → Pass Node) (hrw : Rewrites_leaves d rw)
    (xs : List Node) (registered : List Node) (ctx ctx1 : Context) (rs : List Node)
    (hl : ctx.leaves d registered) (h : rewrite_nodes rw xs ctx = .ok (rs, ctx1)) :
    ctx1.leaves d (xs.filter Node.is_fn ++ registered) ∧ ctx.headers_kept ctx1 ∧
      ∀ r, r ∈ rs → r.above d := by
  induction xs generalizing registered ctx rs with
  | nil =>
    cases h
    exact ⟨hl, headers_kept_refl _, fun r hr => absurd hr (List.not_mem_nil r)⟩
  | cons x xs ih =>
    unfold rewrite_nodes at h
    obtain ⟨y, c1, hy, h1⟩ := Pass.bind_inv _ _ _ _ _ h
    obtain ⟨ys, c2, hys, h2⟩ := Pass.bind_inv _ _ _ _ _ h1
    cases h2
    obtain ⟨hl1, hk1, ha1⟩ := hrw x registered ctx y c1 hl hy
    obtain ⟨hl2, hk2, ha2⟩ := ih _ c1 ys hl1 hys
    refine ⟨leaves_congr d _ _ _ hl2 ?_, headers_kept_trans _ _ _ hk1 hk2, ?_⟩
    · intro n hn
      rcases List.mem_append.mp hn with hn | hn
      · rw [List.filter_cons] at hn
        by_cases hx : x.is_fn = true
        · rw [if_pos hx] at hn ⊢
          rcases List.mem_cons.mp hn with hn | hn
          · exact List.mem_append_right _ (by rw [hn]; exact List.mem_cons_self _ _)
          · exact List.mem_append_left _ hn
        · rw [if_neg hx] at hn ⊢
          exact List.mem_append_left _ hn
      · refine List.mem_append_right _ ?_
        split
        · exact List.mem_cons_of_mem _ hn
        · exact hn
    · intro r hr
      rcases List.mem_cons.mp hr with hr | hr
      · rw [hr]
        exact ha1
      · exact ha2 r hr

theorem initial_context_leaves (src dst : NodeArena) :
    (initial_context src
      (dst.fn { entry_point_type := .NotAnEntryPoint, is_continuation := false }
        "top_dispatcher" [] []).2
      (dst.fn { entry_point_type := .NotAnEntryPoint, is_continuation := false }
        "top_dispatcher" [] []).1).leaves dst.fns.length [] := by
  refine ⟨rfl,
    ⟨{ atttributes := { entry_point_type := .NotAnEntryPoint, is_continuation := false },
       name := "top_dispatcher", params := [], return_types := [], block := .null }, ?_, rfl⟩,
    ⟨[], rfl, fun w hw => absurd hw (List.not_mem_nil w)⟩,
    fun e he => absurd he (List.not_mem_nil e), fun e he => absurd he (List.not_mem_nil e),
    fun n hn => absurd hn (List.not_mem_nil n)⟩
  show (dst.fns ++ [_]).get? dst.fns.length = some _
  rw [List.get?_eq_getElem?, List.getElem?_append_right (Nat.le_refl _)]
  simp

theorem find_processed_of_mem (ctx : Context) (a : ArenaId) (i : Nat) (r : Node)
    (h : (Node.fn a i, r) ∈ ctx.rewriter.processed) :
    ∃ new, find_processed ctx (.fn a i) = some new ∧
      (Node.fn a i, new) ∈ ctx.rewriter.processed := by
  unfold find_processed
  cases hf : List.find? (fun e => compare_node e.1 (.fn a i)) ctx.rewriter.processed with
  | none =>
    have := List.find?_eq_none.mp hf _ h
    simp [compare_node_self] at this
  | some e =>
    have hp := find?_holds (fun x : Node × Node => compare_node x.1 (.fn a i)) _ e hf
    have he := compare_node_fn _ _ _ hp
    refine ⟨e.2, rfl, ?_⟩
    rw [← he]
    exact List.mem_of_find?_eq_some hf

/-! ## Theorems: the pass stops at the load of the dispatcher -/

theorem checked_typing_checks_load : checked_typing.checks_load := by
  intro ptr h
  simp only [checked_typing, h]

theorem gen_primop_rejects (infer : Typing) (b : BlockBuilder) (op : Op) (operands : List Node)
    (ctx : Context) (h : infer op operands = none) :
    gen_primop infer b op operands ctx = .error .error := by
  unfold gen_primop
  rw [h]
  rfl

theorem gen_load_rejects (infer : Typing) (b : BlockBuilder) (ptr : Node) (ctx : Context)
    (h : infer .load_op [ptr] = none) : gen_load infer b ptr ctx = .error .error := by
  unfold gen_load
  exact Pass.bind_error _ _ ctx _ (gen_primop_rejects infer b .load_op [ptr] ctx h)

/-- The generation of the dispatcher stops at its first statement when
`ctx->next_fn_var` is no pointer. -/
theorem generate_rejects (infer : Typing) (hload : infer.checks_load)
    (old_root dispatcher_fn : Node) (ctx : Context) (hptr : ctx.next_fn_var.pointee = none) :
    generate_top_level_dispatch_fn infer old_root dispatcher_fn ctx = .error .error := by
  unfold generate_top_level_dispatch_fn
  rw [Pass.bind_ok _ _ ctx ctx ctx rfl]
  exact Pass.bind_error _ _ ctx _
    (gen_load_rejects infer begin_block ctx.next_fn_var ctx (hload _ hptr))

/-! ### The rewriting leaves `next_fn_var` as it is -/

theorem frame_pure {α : Type} (a : α) : Pass.keeps_next_fn_var (pure a : Pass α) := by
  intro ctx r ctx1 h
  cases h
  rfl

theorem frame_fault {α : Type} (e : Fault) : Pass.keeps_next_fn_var (Pass.fault e : Pass α) := by
  intro ctx r ctx1 h
  cases h

theorem frame_bind {α β : Type} (m : Pass α) (f : α → Pass β) (hm : Pass.keeps_next_fn_var m)
    (hf : ∀ a, Pass.keeps_next_fn_var (f a)) : Pass.keeps_next_fn_var (m >>= f) := by
  intro ctx r ctx2 h
  obtain ⟨a, ctx1, h1, h2⟩ := Pass.bind_inv _ _ _ _ _ h
  rw [hf a ctx1 r ctx2 h2, hm ctx a ctx1 h1]

theorem frame_get : Pass.keeps_next_fn_var Pass.get := by
  intro ctx r ctx1 h
  cases h
  rfl

theorem frame_fn (a : FnAttributes) (name : String) (params return_types : List Node) :
    Pass.keeps_next_fn_var (fn a name params return_types) := by
  intro ctx r ctx1 h
  cases h
  rfl

theorem frame_get_fn (node : Node) : Pass.keeps_next_fn_var (get_fn node) := by
  intro ctx r ctx1 h
  unfold get_fn at h
  split at h
  · split at h
    · cases h
      rfl
    · cases h
  · split at h
    · cases h
      rfl
    · cases h
  · cases h

theorem frame_set_fn_block (node blk : Node) :
    Pass.keeps_next_fn_var (set_fn_block node blk) := by
  intro ctx r ctx1 h
  obtain ⟨i, f, _, _, hc⟩ := set_fn_block_effect node blk ctx ctx1 h
  rw [hc]

theorem frame_register_processed (old new : Node) :
    Pass.keeps_next_fn_var (register_processed old new) := by
  intro ctx r ctx1 h
  cases h
  rfl

theorem frame_fresh_var (name : String) (type : Node) :
    Pass.keeps_next_fn_var (fresh_var name type) := by
  intro ctx r ctx1 h
  cases h
  rfl

theorem frame_fresh_vars (outs : List (String × Node)) :
    Pass.keeps_next_fn_var (fresh_vars outs) :=
  fun ctx r ctx1 h => (fresh_vars_frame outs ctx r ctx1 h).2

theorem frame_gen_primop (infer : Typing) (b : BlockBuilder) (op : Op) (operands : List Node) :
    Pass.keeps_next_fn_var (gen_primop infer b op operands) := by
  unfold gen_primop
  cases infer op operands with
  | none => exact frame_fault _
  | some outs => exact frame_bind _ _ (frame_fresh_vars _) (fun _ => frame_pure _)

theorem frame_gen_store (infer : Typing) (b : BlockBuilder) (ptr value : Node) :
    Pass.keeps_next_fn_var (gen_store infer b ptr value) :=
  frame_bind _ _ (frame_gen_primop _ _ _ _) (fun _ => frame_pure _)

theorem frame_gen_push_value_stack (infer : Typing) (b : BlockBuilder) (value : Node) :
    Pass.keeps_next_fn_var (gen_push_value_stack infer b value) :=
  frame_bind _ _ (frame_gen_primop _ _ _ _) (fun _ => frame_pure _)

theorem frame_push_params (infer : Typing) (b : BlockBuilder) (ps : List Node) :
    Pass.keeps_next_fn_var (push_params infer b ps) := by
  induction ps with
  | nil => exact frame_pure _
  | cons p ps ih => exact frame_bind _ _ ih (fun _ => frame_gen_push_value_stack _ _ _)

theorem frame_gen_pop_value_stack (b : BlockBuilder) (name : String) (type : Node) :
    Pass.keeps_next_fn_var (gen_pop_value_stack b name type) :=
  frame_bind _ _ (frame_fresh_var _ _) (fun _ => frame_pure _)

theorem frame_lower_fn_addr (node : Node) : Pass.keeps_next_fn_var (lower_fn_addr node) :=
  fun ctx r ctx1 h => lower_fn_addr_next_fn_var node ctx r ctx1 h

theorem frame_nodes_of (count : Nat) (array : List Node) :
    Pass.keeps_next_fn_var (nodes_of count array) := by
  unfold nodes_of
  split
  · exact frame_pure _
  · exact frame_fault _

theorem frame_without_qualifier (type : Node) :
    Pass.keeps_next_fn_var (without_qualifier type) := by
  unfold without_qualifier
  split
  · exact frame_fault _
  · exact frame_pure _
  · exact frame_pure _

theorem frame_rewrite_nodes (rw : Node → Pass Node)
    (hrw : ∀ node, Pass.keeps_next_fn_var (rw node)) (xs : List Node) :
    Pass.keeps_next_fn_var (rewrite_nodes rw xs) := by
  induction xs with
  | nil => exact frame_pure _
  | cons x xs ih =>
    unfold rewrite_nodes
    exact frame_bind _ _ (hrw x) (fun _ => frame_bind _ _ ih (fun _ => frame_pure _))

theorem frame_recreate_node_identity (rw : Node → Pass Node)
    (hrw : ∀ node, Pass.keeps_next_fn_var (rw node)) (node : Node) :
    Pass.keeps_next_fn_var (recreate_node_identity rw node) := by
  cases node <;> unfold recreate_node_identity <;>
    first
    | exact frame_fault _
    | exact frame_pure _
    | (repeat (first
        | refine frame_bind _ _ (hrw _) (fun _ => ?_)
        | refine frame_bind _ _ (frame_rewrite_nodes rw hrw _) (fun _ => ?_))
       exact frame_pure _)

theorem frame_rewrite_instructions (rw : Node → Pass Node)
    (hrw : ∀ node, Pass.keeps_next_fn_var (rw node)) (olds : List Node) (b : BlockBuilder) :
    Pass.keeps_next_fn_var (rewrite_instructions rw b olds) := by
  induction olds generalizing b with
  | nil => exact frame_pure _
  | cons x xs ih =>
    unfold rewrite_instructions
    exact frame_bind _ _ (hrw x) (fun _ => ih _)

theorem frame_rewrite_block (rw : Node → Pass Node)
    (hrw : ∀ node, Pass.keeps_next_fn_var (rw node)) (old_block : Node) (b : BlockBuilder) :
    Pass.keeps_next_fn_var (rewrite_block rw old_block b) := by
  unfold rewrite_block
  cases old_block <;> try exact frame_fault _
  rename_i old_instructions old_terminator
  simp only []
  refine frame_bind _ _ (frame_rewrite_instructions rw hrw old_instructions b) (fun bb => ?_)
  cases old_terminator <;> try exact frame_fault _
  · rename_i mode y target c tt ft s dd cv ct args
    simp only []
    split
    · exact frame_fault _
    · refine frame_bind _ _ (frame_rewrite_nodes rw hrw args) (fun new_args => ?_)
      refine frame_bind _ _ (frame_pure _) (fun bb1 => ?_)
      refine frame_bind _ _ (hrw target) (fun t1 => ?_)
      refine frame_bind _ _ frame_get (fun c1 => ?_)
      refine frame_bind _ _ (frame_nodes_of _ _) (fun ca => ?_)
      exact frame_pure _
  · rename_i is_indirect join_at desired_mask args
    simp only []
    split
    · exact frame_fault _
    · refine frame_bind _ _ (frame_rewrite_nodes rw hrw args) (fun new_args => ?_)
      refine frame_bind _ _ (frame_pure _) (fun bb1 => ?_)
      refine frame_bind _ _ (hrw join_at) (fun t1 => ?_)
      refine frame_bind _ _ (hrw desired_mask) (fun m1 => ?_)
      refine frame_bind _ _ frame_get (fun c1 => ?_)
      refine frame_bind _ _ (frame_nodes_of _ _) (fun ca => ?_)
      exact frame_pure _
  · rename_i c a
    simp only []
    refine frame_bind _ _ (hrw (.merge_construct c a)) (fun t1 => ?_)
    split
    · exact frame_fault _
    · exact frame_pure _
  · simp only []
    refine frame_bind _ _ (hrw .unreachable) (fun t1 => ?_)
    split
    · exact frame_fault _
    · exact frame_pure _

theorem frame_pop_params (rw : Node → Pass Node)
    (hrw : ∀ node, Pass.keeps_next_fn_var (rw node)) (old_params : List Node)
    (fun_params : List Node) (b : BlockBuilder) (i : Nat) :
    Pass.keeps_next_fn_var (pop_params rw old_params b i fun_params) := by
  induction fun_params generalizing b i with
  | nil => exact frame_pure _
  | cons p ps ih =>
    unfold pop_params
    split
    · exact frame_fault _
    · refine frame_bind _ _ (frame_without_qualifier _) (fun t => ?_)
      refine frame_bind _ _ (hrw t) (fun nt => ?_)
      refine frame_bind _ _ (frame_gen_pop_value_stack _ _ _) (fun r => ?_)
      refine frame_bind _ _ (frame_register_processed _ _) (fun _ => ?_)
      exact ih _ _

theorem frame_entry_point_wrapper (infer : Typing) (old_fn : Function) (fun_ : Node)
    (fun_fn : Function) :
    Pass.keeps_next_fn_var (entry_point_wrapper infer old_fn fun_ fun_fn) := by
  intro ctx r ctx1 h
  unfold entry_point_wrapper at h
  obtain ⟨new_entry_pt, c1, hfn, h⟩ := Pass.bind_inv _ _ _ _ _ h
  have e1 := frame_fn _ _ _ _ _ _ _ hfn
  obtain ⟨c, c1b, hget, h⟩ := Pass.bind_inv _ _ _ _ _ h
  cases hget
  obtain ⟨u, c2, hset, h⟩ := Pass.bind_inv _ _ _ _ _ h
  cases hset
  obtain ⟨b, c3, hpush, h⟩ := Pass.bind_inv _ _ _ _ _ h
  have e3 := frame_push_params infer _ _ _ _ _ hpush
  obtain ⟨p, c4, hptr, h⟩ := Pass.bind_inv _ _ _ _ _ h
  have e4 := frame_lower_fn_addr _ _ _ _ hptr
  obtain ⟨cc, c4b, hget, h⟩ := Pass.bind_inv _ _ _ _ _ h
  cases hget
  obtain ⟨b1, c5, hst, h⟩ := Pass.bind_inv _ _ _ _ _ h
  have e5 := frame_gen_store infer _ _ _ _ _ _ hst
  obtain ⟨r1, c6, hpr, h⟩ := Pass.bind_inv _ _ _ _ _ h
  have e6 := frame_gen_primop infer _ _ _ _ _ _ hpr
  cases hv : r1.2 with
  | nil =>
    rw [hv] at h
    cases h
  | cons entry_mask rest =>
    rw [hv] at h
    simp only [] at h
    obtain ⟨cc2, c6b, hget, h⟩ := Pass.bind_inv _ _ _ _ _ h
    cases hget
    obtain ⟨b2, c7, hst2, h⟩ := Pass.bind_inv _ _ _ _ _ h
    have e7 := frame_gen_store infer _ _ _ _ _ _ hst2
    have e8 := frame_set_fn_block _ _ _ _ _ h
    rw [e8, e7, e6, e5, e4, e3]
    exact e1

theorem frame_lower_function (infer : Typing) (rw : Node → Pass Node)
    (hrw : ∀ node, Pass.keeps_next_fn_var (rw node)) (old : Node) :
    Pass.keeps_next_fn_var (lower_function infer rw old) := by
  unfold lower_function
  refine frame_bind _ _ (frame_get_fn _) (fun old_fn => ?_)
  refine frame_bind _ _ (frame_fn _ _ _ _) (fun fun_ => ?_)
  refine frame_bind _ _ (frame_get_fn _) (fun fun_fn => ?_)
  refine frame_bind _ _ ?_ (fun _ => ?_)
  · split
    · exact frame_entry_point_wrapper _ _ _ _
    · exact frame_pure _
  refine frame_bind _ _ (frame_register_processed _ _) (fun _ => ?_)
  refine frame_bind _ _ (frame_pop_params rw hrw _ _ _ _) (fun b => ?_)
  refine frame_bind _ _ (frame_rewrite_block rw hrw _ _) (fun blk => ?_)
  refine frame_bind _ _ (frame_set_fn_block _ _) (fun _ => ?_)
  exact frame_pure _

theorem frame_lower_callf_process (infer : Typing) (rw : Node → Pass Node)
    (hrw : ∀ node, Pass.keeps_next_fn_var (rw node)) (old : Node) :
    Pass.keeps_next_fn_var (lower_callf_process infer rw old) := by
  cases old
  case fn a i => exact frame_lower_function infer rw hrw _
  case fn_addr f => exact frame_lower_fn_addr f
  case block i t => exact frame_rewrite_block rw hrw (.block i t) begin_block
  case ptr_type a pointee =>
    unfold lower_callf_process
    cases pointee <;> first
      | exact frame_fault _
      | exact frame_pure _
      | exact frame_recreate_node_identity rw hrw _
  all_goals
    unfold lower_callf_process
    exact frame_recreate_node_identity rw hrw _

theorem frame_rewrite_node (infer : Typing) (fuel : Nat) (node : Node) :
    Pass.keeps_next_fn_var (rewrite_node infer fuel node) := by
  induction fuel generalizing node with
  | zero =>
    intro ctx r ctx1 h
    cases h
  | succ fuel ih =>
    intro ctx r ctx1 h
    unfold rewrite_node at h
    by_cases hn : node.is_null = true
    · rw [if_pos hn] at h
      cases h
      rfl
    · rw [if_neg hn] at h
      cases hf : find_processed ctx node with
      | some new =>
        rw [hf] at h
        cases h
        rfl
      | none =>
        rw [hf] at h
        exact frame_lower_callf_process infer _ ih node ctx r ctx1 h

/-- The context in which the dispatcher is generated has no `next_fn_var`. -/
theorem rewritten_next_fn_var (infer : Typing) (fuel : Nat) (src dst : NodeArena) (root : Node)
    (rewritten : Node) (ctx : Context)
    (h : lower_callf_rewritten infer fuel src dst root = .ok (rewritten, ctx)) :
    ctx.next_fn_var = .null := by
  unfold lower_callf_rewritten at h
  exact frame_recreate_node_identity _ (frame_rewrite_node infer fuel) root _ _ _ h

/-- A run of `lower_callf` is the rewriting followed by the generation of the
dispatcher and the collection of the declarations. -/
theorem lower_callf_after_rewriting (infer : Typing) (fuel : Nat) (src dst : NodeArena)
    (root : Node) :
    lower_callf infer fuel src dst root =
      match lower_callf_rewritten infer fuel src dst root with
      | .error e => .error e
      | .ok r =>
        match generate_top_level_dispatch_fn infer root (.fn .dst dst.fns.length) r.2 with
        | .error e => .error e
        | .ok u =>
          match r.1 with
          | .root declarations => .ok (.root (declarations ++ u.2.new_decls), u.2)
          | _ => .error .out_of_bounds := by
  unfold lower_callf lower_callf_run lower_callf_rewritten
  simp only []
  cases hr : recreate_node_identity (rewrite_node infer fuel) root
      (initial_context src
        (dst.fn { entry_point_type := .NotAnEntryPoint, is_continuation := false }
          "top_dispatcher" [] []).2
        (dst.fn { entry_point_type := .NotAnEntryPoint, is_continuation := false }
          "top_dispatcher" [] []).1) with
  | error e => rw [Pass.bind_error _ _ _ e hr]
  | ok r =>
    obtain ⟨rewritten, c1⟩ := r
    rw [Pass.bind_ok _ _ _ rewritten c1 hr]
    simp only []
    cases hg : generate_top_level_dispatch_fn infer root
        (dst.fn { entry_point_type := .NotAnEntryPoint, is_continuation := false }
          "top_dispatcher" [] []).1 c1 with
    | error e =>
      rw [Pass.bind_error _ _ _ e hg]
      have hg2 : generate_top_level_dispatch_fn infer root (.fn .dst dst.fns.length) c1 =
          .error e := hg
      rw [hg2]
    | ok u =>
      obtain ⟨u1, c2⟩ := u
      rw [Pass.bind_ok _ _ _ u1 c2 hg]
      have hg2 : generate_top_level_dispatch_fn infer root (.fn .dst dst.fns.length) c1 =
          .ok (u1, c2) := hg
      rw [hg2]
      simp only []
      cases rewritten <;> rfl

/-- With a constructor of `load` that checks its operand, no run of the pass
returns: a run in which the rewriting succeeds stops at the load of the
dispatcher. -/
theorem lower_callf_rejects (infer : Typing) (hload : infer.checks_load) (fuel : Nat)
    (src dst : NodeArena) (root : Node) :
    ∃ e, lower_callf infer fuel src dst root = .error e := by
  rw [lower_callf_after_rewriting]
  cases hr : lower_callf_rewritten infer fuel src dst root with
  | error e => exact ⟨e, rfl⟩
  | ok r =>
    obtain ⟨rewritten, c1⟩ := r
    have hn := rewritten_next_fn_var infer fuel src dst root rewritten c1 hr
    have hg := generate_rejects infer hload root (.fn .dst dst.fns.length) c1
      (by rw [hn]; rfl)
    simp only [hg]
    exact ⟨_, rfl⟩

/-! ## Theorems: what the pass does not get to -/

theorem error_of_fault_of {α : Type} (r : Except Fault α) (e : Fault)
    (h : fault_of r = some e) : r = .error e := by
  cases r with
  | ok a => cases h
  | error e1 =>
    cases h
    rfl

/-- C8 (the code against the claim): the dispatcher never gets its block.
With a constructor of `load` that checks its operand,
`generate_top_level_dispatch_fn` ends in the error of this constructor at its
first statement whenever `ctx->next_fn_var` is no pointer; and in every run of
`lower_callf` in which the rewriting of the program succeeds, `next_fn_var` is
still null when the dispatcher is to be generated, the generation ends in that
error, and so does the run. -/
theorem dispatcher_is_not_generated (infer : Typing) (hload : infer.checks_load) :
    (∀ old_root dispatcher_fn ctx, ctx.next_fn_var.pointee = none →
      generate_top_level_dispatch_fn infer old_root dispatcher_fn ctx = .error .error) ∧
    (∀ fuel src dst root rewritten ctx,
      lower_callf_rewritten infer fuel src dst root = .ok (rewritten, ctx) →
      ctx.next_fn_var = .null ∧
      generate_top_level_dispatch_fn infer root (.fn .dst dst.fns.length) ctx = .error .error ∧
      lower_callf infer fuel src dst root = .error .error) := by
  refine ⟨fun old_root dispatcher_fn ctx hptr =>
    generate_rejects infer hload old_root dispatcher_fn ctx hptr, ?_⟩
  intro fuel src dst root rewritten ctx hrun
  have hn := rewritten_next_fn_var infer fuel src dst root rewritten ctx hrun
  have hg := generate_rejects infer hload root (.fn .dst dst.fns.length) ctx (by rw [hn]; rfl)
  refine ⟨hn, hg, ?_⟩
  rw [lower_callf_after_rewriting, hrun]
  simp only [hg]

set_option maxRecDepth 100000 in
/-- Witness of C8: with the checked typing, the generation of the dispatcher
for the example program in the example context, in which the leaves of `main`
and `k` are registered, and the run of the pass on the program of `shade` and
`k`, whose rewriting succeeds. -/
theorem dispatcher_is_not_generated_witness :
    generate_top_level_dispatch_fn checked_typing example_root (.fn .dst 0) example_context =
      .error .error ∧
    ∃ rewritten ctx,
      lower_callf_rewritten checked_typing 5 example_plain_src empty_arena
        (.root [.fn .src 0, .fn .src 1]) = .ok (rewritten, ctx) ∧
      ctx.next_fn_var = .null ∧
      generate_top_level_dispatch_fn checked_typing (.root [.fn .src 0, .fn .src 1])
        (.fn .dst 0) ctx = .error .error ∧
      lower_callf checked_typing 5 example_plain_src empty_arena
        (.root [.fn .src 0, .fn .src 1]) = .error .error := by
  obtain ⟨rewritten, ctx, h⟩ :=
    ok_of_is_ok (lower_callf_rewritten checked_typing 5 example_plain_src empty_arena
      (.root [.fn .src 0, .fn .src 1])) (by decide!)
  exact ⟨(dispatcher_is_not_generated checked_typing checked_typing_checks_load).1
      example_root (.fn .dst 0) example_context rfl,
    rewritten, ctx, h,
    (dispatcher_is_not_generated checked_typing checked_typing_checks_load).2
      5 example_plain_src empty_arena _ rewritten ctx h⟩

/-- The invariant about the leaves holds in the context in which the rewriting
of the program ends; the rewritten declarations are no pointers to the
dispatcher. -/
theorem rewritten_leaves (infer : Typing) (fuel : Nat) (src dst : NodeArena)
    (declarations : List Node) (rewritten : Node) (ctx : Context)
    (hrun : lower_callf_rewritten infer fuel src dst (.root declarations) =
      .ok (rewritten, ctx)) :
    ctx.leaves dst.fns.length (fn_decls declarations) ∧ ctx.rewriter.src_arena = src ∧
      ∃ ds, rewritten = .root ds ∧ ∀ r, r ∈ ds → r.above dst.fns.length := by
  unfold lower_callf_rewritten at hrun
  simp only [] at hrun
  have hrw1 : (rewrite_nodes (rewrite_node infer fuel) declarations >>= fun d1 =>
      pure (Node.root d1)) _ = .ok (rewritten, ctx) := hrun
  obtain ⟨d1, c1b, hd1, hpure⟩ := Pass.bind_inv _ _ _ _ _ hrw1
  cases hpure
  obtain ⟨hl1, hk1, ha1⟩ := leaves_rewrite_nodes dst.fns.length _
    (leaves_rewrite_node infer dst.fns.length fuel) declarations [] _ _ _
    (initial_context_leaves src dst) hd1
  rw [List.append_nil] at hl1
  refine ⟨hl1, ?_, d1, rfl, ha1⟩
  rw [hk1.1]
  rfl

/-- C11: whenever the rewriting of the program by `lower_tailcalls` returns
(line 298), every function of the source arena among the declarations of the
root is registered as rewritten to a function of the destination arena that
has no parameters, no return types and the entry-point type `NotAnEntryPoint`
and keeps the `is_continuation` attribute of the input function; the same
holds for every function that the pass has registered as rewritten, also one
that is only referred to from a body.  The rewriting applies no `load`, so it
returns also where the constructor of `load` checks its operand. -/
theorem leaves_have_leaf_signature (infer : Typing) (fuel : Nat) (src dst : NodeArena)
    (declarations : List Node) (rewritten : Node) (ctx : Context)
    (hrun : lower_callf_rewritten infer fuel src dst (.root declarations) =
      .ok (rewritten, ctx)) :
    (∀ i, Node.fn .src i ∈ declarations →
      ∃ f j leaf, src.fns.get? i = some f ∧
        find_processed ctx (.fn .src i) = some (.fn .dst j) ∧
        ctx.rewriter.dst_arena.fns.get? j = some leaf ∧
        leaf.params = [] ∧ leaf.return_types = [] ∧
        leaf.atttributes.entry_point_type = .NotAnEntryPoint ∧
        leaf.atttributes.is_continuation = f.atttributes.is_continuation) ∧
    (∀ old new, find_processed ctx old = some new → old.is_fn = true →
      ∃ f j leaf, fn_payload ctx old = some f ∧ new = .fn .dst j ∧
        ctx.rewriter.dst_arena.fns.get? j = some leaf ∧
        leaf.params = [] ∧ leaf.return_types = [] ∧
        leaf.atttributes.entry_point_type = .NotAnEntryPoint ∧
        leaf.atttributes.is_continuation = f.atttributes.is_continuation) := by
  obtain ⟨hl, hsrc, _⟩ := rewritten_leaves infer fuel src dst declarations rewritten ctx hrun
  have hall : ∀ old new, find_processed ctx old = some new → old.is_fn = true →
      ∃ f j leaf, fn_payload ctx old = some f ∧ new = .fn .dst j ∧
        ctx.rewriter.dst_arena.fns.get? j = some leaf ∧
        leaf.params = [] ∧ leaf.return_types = [] ∧
        leaf.atttributes.entry_point_type = .NotAnEntryPoint ∧
        leaf.atttributes.is_continuation = f.atttributes.is_continuation := by
    intro old new hfind hfn
    obtain ⟨e, he, he2, hcmp⟩ := find_processed_entry ctx old new hfind
    cases old <;> try (cases hfn)
    rename_i a i
    have hkey := compare_node_fn _ _ _ hcmp
    obtain ⟨f, leaf, j, hf, hj, hleaf, hsig, _⟩ := hl.2.2.2.2.1 e he (by rw [hkey]; rfl)
    rw [hkey] at hf
    rw [he2] at hj
    exact ⟨f, j, leaf, hf, hj, hleaf, hsig.1, hsig.2.1, hsig.2.2.1, hsig.2.2.2⟩
  refine ⟨?_, hall⟩
  intro i hi
  obtain ⟨r, hr⟩ := hl.2.2.2.2.2 (.fn .src i) (List.mem_filter.mpr ⟨hi, rfl⟩)
  obtain ⟨new, hnew, _⟩ := find_processed_of_mem ctx .src i r hr
  obtain ⟨f, j, leaf, hf, hj, hleaf, h1, h2, h3, h4⟩ := hall _ _ hnew rfl
  have hf2 : ctx.rewriter.src_arena.fns.get? i = some f := hf
  rw [hsrc] at hf2
  rw [hj] at hnew
  exact ⟨f, j, leaf, hf2, hnew, hleaf, h1, h2, h3, h4⟩

set_option maxRecDepth 100000 in
/-- Witness of C11: with the checked typing, the rewriting of the program of
the function `shade` and the continuation `k` returns, and both functions are
registered with leaves. -/
theorem leaves_have_leaf_signature_witness :
    ∃ rewritten ctx,
      lower_callf_rewritten checked_typing 5 example_plain_src empty_arena
        (.root [.fn .src 0, .fn .src 1]) = .ok (rewritten, ctx) ∧
      ∀ i, Node.fn .src i ∈ [Node.fn .src 0, Node.fn .src 1] →
        ∃ f j leaf, example_plain_src.fns.get? i = some f ∧
          find_processed ctx (.fn .src i) = some (.fn .dst j) ∧
          ctx.rewriter.dst_arena.fns.get? j = some leaf ∧
          leaf.params = [] ∧ leaf.return_types = [] ∧
          leaf.atttributes.entry_point_type = .NotAnEntryPoint ∧
          leaf.atttributes.is_continuation = f.atttributes.is_continuation := by
  obtain ⟨rewritten, ctx, h⟩ :=
    ok_of_is_ok (lower_callf_rewritten checked_typing 5 example_plain_src empty_arena
      (.root [.fn .src 0, .fn .src 1])) (by decide!)
  exact ⟨rewritten, ctx, h,
    (leaves_have_leaf_signature checked_typing 5 example_plain_src empty_arena
      [.fn .src 0, .fn .src 1] rewritten ctx h).1⟩

/-- C14 (the code against the claim): `lower_tailcalls` returns no root, so
there are no declarations of a returned root that could hold the entry points
and the dispatcher.  With a constructor of `load` that checks its operand,
every run of `lower_callf`, on any program and with any recursion budget, ends
in a fault: a run in which the rewriting succeeds ends in the error of
`load(ctx->next_fn_var)` (line 196), before the new declarations are appended
to the root (lines 302 to 308). -/
theorem entry_points_are_not_returned (infer : Typing) (hload : infer.checks_load)
    (fuel : Nat) (src dst : NodeArena) (root : Node) :
    ∃ e, lower_callf infer fuel src dst root = .error e :=
  lower_callf_rejects infer hload fuel src dst root

set_option maxRecDepth 100000 in
/-- Witness of C14: with the checked typing, the run of the pass on the
example program, whose entry point `main` is a compute entry point, ends in an
error. -/
theorem entry_points_are_not_returned_witness :
    lower_callf checked_typing 5 example_src empty_arena example_root = .error .error ∧
    ∃ e, lower_callf checked_typing 5 example_src empty_arena example_root = .error e :=
  ⟨error_of_fault_of _ _ (by decide!),
    entry_points_are_not_returned checked_typing checked_typing_checks_load 5 example_src
      empty_arena example_root⟩

/-! ## Theorems: `rewrite_block` -/

/-- C12 (the code at the failing input): on the program with the one function
`shade(x, y)`, whose body binds `x + y`, the pass succeeds; the block of the
leaf registered for `shade` holds no stack pop: it is the old body with the
old parameters `x` and `y` as operands of the sum; neither parameter is
registered as rewritten. -/
theorem leaf_pops_no_parameter :
    (match lower_callf example_typing 8 example_params_src empty_arena (.root [.fn .src 0]) with
      | .ok (_, ctx) =>
        (match find_processed ctx (.fn .src 0) with
          | some leaf =>
            (match dst_block ctx leaf with
              | some b =>
                !(b.block_instructions.any (Node.is_primop .pop_stack_op)) &&
                compare_node b
                  (.block
                    [.let_ [.var (.qualified_type false (.int_type .IntTy32)) 2 "s"]
                      (.prim_op .add_op
                        [.var (.qualified_type false (.int_type .IntTy32)) 0 "x",
                         .var (.qualified_type false (.int_type .IntTy32)) 1 "y"])
                      false]
                    .unreachable)
              | none => false)
          | none => false) &&
        (find_processed ctx (.var (.qualified_type false (.int_type .IntTy32)) 0 "x")).isNone &&
        (find_processed ctx (.var (.qualified_type false (.int_type .IntTy32)) 1 "y")).isNone
      | .error _ => false) = true := by
  decide!

/-- C13 (the code at the failing input): on the program with the one entry
point `shade(x, y)` the pass succeeds and adds the wrapper `shade` with the two
parameters of the entry point; the block of the wrapper holds no stack push: it
is the store of the token 1 through `ctx->next_fn_var` (null), the
`subgroup_active_mask` primop, the store of its result through
`ctx->next_mask_var` (null) and the call of the dispatcher, and it ends in
`Return`. -/
theorem wrapper_pushes_no_parameter :
    (match lower_callf example_typing 8 example_params_src empty_arena (.root [.fn .src 0]) with
      | .ok (out, ctx) =>
        compare_node out (.root [.fn .dst 1, .fn .dst 0, .fn .dst 2]) &&
        (match ctx.rewriter.dst_arena.fns.get? 2 with
          | some wrapper =>
            (wrapper.name == "shade") &&
            decide (wrapper.atttributes.entry_point_type = .Fragment) &&
            (wrapper.params.length == 2) &&
            !(wrapper.block.block_instructions.any (Node.is_primop .push_stack_op)) &&
            compare_node wrapper.block
              (.block
                [.let_ [] (.prim_op .store_op [.null, .int_literal .IntTy32 1]) false,
                 .let_ [.var .null 0 "out"] (.prim_op .subgroup_active_mask_op []) false,
                 .let_ [] (.prim_op .store_op [.null, .var .null 0 "out"]) false,
                 .call_instr (.fn .dst 0) []]
                (.fn_ret .null []))
          | none => false)
      | .error _ => false) = true := by
  decide!

/-! ## Theorems: the emitter -/

theorem Emit.then_ok {α β : Type} (m : Emit α) (f : α → Emit β) (e : Emitter) (a : α)
    (e1 : Emitter) (h : m e = .ok (a, e1)) : (m >>= f) e = f a e1 := by
  show (match m e with
    | .error err => Except.error err
    | .ok r => f r.1 r.2) = _
  rw [h]

theorem Emit.then_error {α β : Type} (m : Emit α) (f : α → Emit β) (e : Emitter) (err : Fault)
    (h : m e = .error err) : (m >>= f) e = .error err := by
  show (match m e with
    | .error err => Except.error err
    | .ok r => f r.1 r.2) = _
  rw [h]

theorem Emit.then_inv {α β : Type} (m : Emit α) (f : α → Emit β) (e : Emitter) (b : β)
    (e2 : Emitter) (h : (m >>= f) e = .ok (b, e2)) :
    ∃ a e1, m e = .ok (a, e1) ∧ f a e1 = .ok (b, e2) := by
  have h1 : (match m e with
    | .error err => Except.error err
    | .ok r => f r.1 r.2) = Except.ok (b, e2) := h
  cases hm : m e with
  | error err =>
    rw [hm] at h1
    cases h1
  | ok r =>
    rw [hm] at h1
    exact ⟨r.1, r.2, rfl, h1⟩

/-- C20: `emit_addr_space` returns `StorageBuffer` for `GlobalLogical` and
`External`, `CrossWorkgroup` for `SharedLogical`, `Private` for
`PrivateLogical`, `Function` for `FunctionLogical`, `PhysicalStorageBuffer`
for `GlobalPhysical`, `Input` for `Input` and `Output` for `Output`; it fails
exactly for `Generic`, `SharedPhysical`, `SubgroupPhysical`, `PrivatePhysical`
and `ProgramCode`. -/
theorem emit_addr_space_table :
    emit_addr_space .AsGlobalLogical = .ok .SpvStorageClassStorageBuffer ∧
    emit_addr_space .AsExternal = .ok .SpvStorageClassStorageBuffer ∧
    emit_addr_space .AsSharedLogical = .ok .SpvStorageClassCrossWorkgroup ∧
    emit_addr_space .AsPrivateLogical = .ok .SpvStorageClassPrivate ∧
    emit_addr_space .AsFunctionLogical = .ok .SpvStorageClassFunction ∧
    emit_addr_space .AsGlobalPhysical = .ok .SpvStorageClassPhysicalStorageBuffer ∧
    emit_addr_space .AsInput = .ok .SpvStorageClassInput ∧
    emit_addr_space .AsOutput = .ok .SpvStorageClassOutput ∧
    ∀ a, is_ok (emit_addr_space a) = false ↔ a ∈ unlowered_address_spaces := by
  refine ⟨rfl, rfl, rfl, rfl, rfl, rfl, rfl, rfl, ?_⟩
  intro a
  cases a <;> simp [emit_addr_space, is_ok, unlowered_address_spaces]

/-! ### What the emission of types and values leaves alone -/

theorem frames_pure {α : Type} (a : α) : Emit.frames (pure a : Emit α) := by
  intro e r e1 h
  cases h
  exact ⟨rfl, rfl, fun _ _ hx => hx⟩

theorem frames_fault {α : Type} (err : Fault) : Emit.frames (Emit.fault err : Emit α) := by
  intro e r e1 h
  cases h

theorem frames_bind {α β : Type} (m : Emit α) (f : α → Emit β) (hm : Emit.frames m)
    (hf : ∀ a, Emit.frames (f a)) : Emit.frames (m >>= f) := by
  intro e r e2 h
  obtain ⟨a, e1, h1, h2⟩ := Emit.then_inv _ _ _ _ _ h
  have ha := hm e a e1 h1
  have hb := hf a e1 r e2 h2
  exact ⟨by rw [hb.1, ha.1], by rw [hb.2.1, ha.2.1],
    fun node id hx => hb.2.2 node id (ha.2.2 node id hx)⟩

theorem frames_of_except {α : Type} (r : Except Fault α) : Emit.frames (Emit.of_except r) := by
  intro e a e1 h
  cases r with
  | error err => cases h
  | ok x =>
    cases h
    exact ⟨rfl, rfl, fun _ _ hx => hx⟩

theorem frames_get : Emit.frames Emit.get := by
  intro e r e1 h
  cases h
  exact ⟨rfl, rfl, fun _ _ hx => hx⟩

theorem frames_fresh_id : Emit.frames spvb_fresh_id := by
  intro e r e1 h
  cases h
  exact ⟨rfl, rfl, fun _ _ hx => hx⟩

theorem frames_declare (d : SpvDecl) : Emit.frames (spvb_declare d) := by
  intro e r e1 h
  cases h
  exact ⟨rfl, rfl, fun _ _ hx => hx⟩

theorem frames_declare_fresh (d : SpvId → SpvDecl) :
    Emit.frames (spvb_fresh_id >>= fun id => spvb_declare (d id) >>= fun _ => pure id) :=
  frames_bind _ _ frames_fresh_id
    (fun _ => frames_bind _ _ (frames_declare _) (fun _ => frames_pure _))

theorem find_node_id_append (e : Emitter) (entry : Node × SpvId) (node : Node) (id : SpvId)
    (h : find_node_id e node = some id) :
    find_node_id { e with node_ids := e.node_ids ++ [entry] } node = some id := by
  unfold find_node_id at h ⊢
  cases hf : e.node_ids.find? (fun x => compare_node x.1 node) with
  | none =>
    rw [hf] at h
    cases h
  | some x =>
    rw [hf] at h
    show (match (e.node_ids ++ [entry]).find? (fun x => compare_node x.1 node) with
      | some x => some x.2
      | none => none) = some id
    rw [List.find?_append, hf]
    exact h

theorem frames_insert_node_id (node : Node) (id : SpvId) :
    Emit.frames (insert_node_id node id) := by
  intro e r e1 h
  unfold insert_node_id at h
  split at h
  · cases h
    exact ⟨rfl, rfl, fun _ _ hx => hx⟩
  · cases h
    exact ⟨rfl, rfl, fun n x hx => find_node_id_append e _ n x hx⟩

theorem frames_emit_types (emit_type : Node → Emit SpvId) (h : ∀ t, Emit.frames (emit_type t))
    (ts : List Node) : Emit.frames (emit_types emit_type ts) := by
  induction ts with
  | nil => exact frames_pure _
  | cons t ts ih =>
    exact frames_bind _ _ (h t) (fun _ => frames_bind _ _ ih (fun _ => frames_pure _))

theorem frames_nodes_to_codom (emit_type : Node → Emit SpvId)
    (h : ∀ t, Emit.frames (emit_type t)) (ts : List Node) :
    Emit.frames (nodes_to_codom emit_type ts) := by
  unfold nodes_to_codom
  split
  · exact frames_bind _ _ frames_get (fun _ => frames_pure _)
  · exact h _
  · exact h _

theorem frames_emit_new_type (emit_type : Node → Emit SpvId)
    (emit_value : Node → Option SpvId → Emit SpvId) (h1 : ∀ t, Emit.frames (emit_type t))
    (h2 : ∀ n u, Emit.frames (emit_value n u)) (type : Node) :
    Emit.frames (emit_new_type emit_type emit_value type) := by
  unfold emit_new_type
  split
  · exact frames_declare_fresh _
  · exact frames_declare_fresh _
  · exact frames_bind _ _ (h1 _)
      (fun _ => frames_bind _ _ (frames_of_except _) (fun _ => frames_declare_fresh _))
  · exact frames_bind _ _ (frames_emit_types _ h1 _) (fun _ => frames_declare_fresh _)
  · split
    · exact frames_fault _
    · exact frames_bind _ _ (frames_emit_types _ h1 _)
        (fun _ => frames_bind _ _ (frames_nodes_to_codom _ h1 _) (fun _ => frames_declare_fresh _))
  · exact h1 _
  · refine frames_bind _ _ (h1 _) (fun _ => ?_)
    split
    · exact frames_declare_fresh _
    · exact frames_bind _ _ (h2 _ _) (fun _ => frames_declare_fresh _)
  · exact frames_fault _

theorem frames_emit_type_body (emit_type : Node → Emit SpvId)
    (emit_value : Node → Option SpvId → Emit SpvId) (h1 : ∀ t, Emit.frames (emit_type t))
    (h2 : ∀ n u, Emit.frames (emit_value n u)) (type : Node) :
    Emit.frames (emit_type_body emit_type emit_value type) := by
  intro e r e1 h
  unfold emit_type_body at h
  split at h
  · cases h
  · split at h
    · cases h
      exact ⟨rfl, rfl, fun _ _ hx => hx⟩
    · exact frames_bind _ _ (frames_emit_new_type _ _ h1 h2 type)
        (fun _ => frames_bind _ _ (frames_insert_node_id _ _) (fun _ => frames_pure _)) e r e1 h

theorem frames_emit_constant (type_of : TypeOf) (emit_type : Node → Emit SpvId)
    (h1 : ∀ t, Emit.frames (emit_type t)) (node : Node) (new : SpvId) :
    Emit.frames (emit_constant type_of emit_type node new) := by
  unfold emit_constant
  split
  · exact frames_fault _
  · refine frames_bind _ _ (h1 _) (fun _ => ?_)
    split
    · exact frames_declare _
    · exact frames_declare _
  · exact frames_bind _ _ (h1 _) (fun _ => frames_declare _)
  · exact frames_bind _ _ (h1 _) (fun _ => frames_declare _)
  · exact frames_fault _

theorem frames_emit_value_body (type_of : TypeOf) (emit_type : Node → Emit SpvId)
    (h1 : ∀ t, Emit.frames (emit_type t)) (node : Node) (use_id : Option SpvId) :
    Emit.frames (emit_value_body type_of emit_type node use_id) := by
  intro e r e1 h
  unfold emit_value_body at h
  split at h
  · cases h
  · split at h
    · cases h
      exact ⟨rfl, rfl, fun _ _ hx => hx⟩
    · refine frames_bind _ _ ?_
        (fun _ => frames_bind _ _ (frames_insert_node_id _ _)
          (fun _ => frames_bind _ _ (frames_emit_constant type_of _ h1 _ _)
            (fun _ => frames_pure _))) e r e1 h
      cases use_id with
      | none => exact frames_fresh_id
      | some _ => exact frames_pure _

theorem frames_emit_type_value (type_of : TypeOf) (fuel : Nat) :
    (∀ t, Emit.frames ((emit_type_value type_of fuel).1 t)) ∧
    (∀ n u, Emit.frames ((emit_type_value type_of fuel).2 n u)) := by
  induction fuel with
  | zero => exact ⟨fun _ => frames_fault _, fun _ _ => frames_fault _⟩
  | succ fuel ih =>
    exact ⟨fun t => frames_emit_type_body _ _ ih.1 ih.2 t,
      fun n u => frames_emit_value_body type_of _ ih.1 n u⟩

/-- The emission of a type appends no instruction and no local variable. -/
theorem frames_emit_type (type_of : TypeOf) (fuel : Nat) (type : Node) :
    Emit.frames (emit_type type_of fuel type) :=
  (frames_emit_type_value type_of fuel).1 type

/-- The emission of a value appends no instruction and no local variable. -/
theorem frames_emit_value (type_of : TypeOf) (fuel : Nat) (node : Node) (use_id : Option SpvId) :
    Emit.frames (emit_value type_of fuel node use_id) :=
  (frames_emit_type_value type_of fuel).2 node use_id

/-! ### `emit_primop` -/

theorem find_node_id_append_self (e : Emitter) (node : Node) (id : SpvId)
    (h : find_node_id e node = none) :
    find_node_id { e with node_ids := e.node_ids ++ [(node, id)] } node = some id := by
  unfold find_node_id at h ⊢
  cases hf : e.node_ids.find? (fun entry => compare_node entry.1 node) with
  | some x =>
    rw [hf] at h
    cases h
  | none =>
    show (match (e.node_ids ++ [(node, id)]).find? (fun entry => compare_node entry.1 node) with
      | some entry => some entry.2
      | none => none) = some id
    rw [List.find?_append, hf]
    simp [compare_node_self]

theorem register_result_var (t : Node) (i : Nat) (name : String) (id : SpvId) (e : Emitter) :
    register_result (.var t i name) id e = .ok ((), e.registered (.var t i name) name id) := by
  show (spvb_name id name >>= fun _ => insert_node_id (.var t i name) id) e = _
  rw [Emit.then_ok _ _ e () { e with declarations := e.declarations ++ [.name id name] } rfl]
  unfold insert_node_id Emitter.registered
  show (match find_node_id e (.var t i name) with
    | some _ => Except.ok ((), _)
    | none => Except.ok ((), _)) = _
  cases find_node_id e (.var t i name) <;> rfl

theorem find_node_id_registered (e : Emitter) (v : Node) (name : String) (id : SpvId)
    (h : find_node_id e v = none) : find_node_id (e.registered v name id) v = some id := by
  have := find_node_id_append_self e v id h
  unfold Emitter.registered
  rw [h]
  exact this

theorem emit_operands_two_values (type_of : TypeOf) (fuel : Nat) (a b : Node)
    (hna : a.is_null = false) (hta : is_type a = false) (hnb : b.is_null = false)
    (htb : is_type b = false) (e e1 e2 : Emitter) (ida idb : SpvId)
    (ha : emit_value type_of fuel a none e = .ok (ida, e1))
    (hb : emit_value type_of fuel b none e1 = .ok (idb, e2)) :
    emit_operands type_of fuel [a, b] e = .ok ([some ida, some idb], e2) := by
  simp only [emit_operands, hna, hta, hnb, htb, Bool.false_eq_true, if_false]
  rw [Emit.then_ok _ _ e (some ida) e1 (by rw [Emit.then_ok _ _ e ida e1 ha]; rfl)]
  rw [Emit.then_ok _ _ e1 [some idb] e2
    (by
      rw [Emit.then_ok _ _ e1 (some idb) e2 (by rw [Emit.then_ok _ _ e1 idb e2 hb]; rfl)]
      rfl)]
  rfl

theorem classify_operand_int (type_of : TypeOf) (a : Node) (w : IntSizes)
    (hna : a.is_null = false) (hta : is_type a = false)
    (hint : Emit.without_qualifier (type_of a) = .ok (.int_type w)) :
    classify_operand type_of a = .ok .Signed := by
  unfold classify_operand
  simp only [hna, hta, Bool.false_eq_true, if_false, not_false_eq_true, if_true, hint]

/-- The rows of the table for the primops on integers: mechanism, kind of
result and the cell of the column `Signed`. -/
theorem isel_table_int (op : Op) (opcode : SpvOp) (kind : ResultKind)
    (hop : claimed_int_opcode op = some (opcode, kind)) :
    (isel_table op).i_sel_mechanism = .FirstOp ∧ (isel_table op).result_kind = kind ∧
      (isel_table op).fo_at .Signed = opcode ∧ opcode ≠ .SpvOpNop ∧ kind ≠ .TyOperand := by
  cases op <;> first
    | (cases hop; done)
    | (simp only [claimed_int_opcode, Option.some.injEq, Prod.mk.injEq] at hop
       obtain ⟨rfl, rfl⟩ := hop
       decide)

theorem emit_type_cached (type_of : TypeOf) (fuel : Nat) (t : Node) (e : Emitter) (x : SpvId)
    (hn : t.is_null = false) (hf : find_node_id e t = some x) :
    emit_type type_of (fuel + 1) t e = .ok (x, e) := by
  show emit_type_body _ _ t e = _
  unfold emit_type_body
  simp only [hn, Bool.false_eq_true, if_false, hf]

theorem emit_type_body_new (emit_type : Node → Emit SpvId)
    (emit_value : Node → Option SpvId → Emit SpvId) (t : Node) (e e1 : Emitter) (id : SpvId)
    (hn : t.is_null = false) (hf : find_node_id e t = none)
    (hnew : emit_new_type emit_type emit_value t e = .ok (id, e1))
    (hids : e1.node_ids = e.node_ids) :
    emit_type_body emit_type emit_value t e =
      .ok (id, { e1 with node_ids := e1.node_ids ++ [(t, id)] }) := by
  have hf1 : find_node_id e1 t = none := by
    unfold find_node_id at hf ⊢
    rw [hids]
    exact hf
  unfold emit_type_body
  simp only [hn, Bool.false_eq_true, if_false, hf]
  rw [Emit.then_ok _ _ e id e1 hnew]
  have hins : insert_node_id t id e1 =
      .ok ((), { e1 with node_ids := e1.node_ids ++ [(t, id)] }) := by
    unfold insert_node_id
    rw [hf1]
  rw [Emit.then_ok _ _ e1 () _ hins]
  rfl

/-- With fuel, the emission of an integer type or of the boolean type succeeds. -/
theorem emit_type_scalar (type_of : TypeOf) (fuel : Nat) (t : Node) (e : Emitter)
    (ht : (∃ w, t = .int_type w) ∨ t = .bool_type) :
    ∃ id e1, emit_type type_of (fuel + 1) t e = .ok (id, e1) := by
  cases hf : find_node_id e t with
  | some x =>
    refine ⟨x, e, emit_type_cached type_of fuel t e x ?_ hf⟩
    rcases ht with ⟨w, rfl⟩ | rfl <;> rfl
  | none =>
    rcases ht with ⟨w, rfl⟩ | rfl
    · exact ⟨_, _, emit_type_body_new (emit_type type_of fuel) (emit_value type_of fuel)
        (.int_type w) e _ _ rfl hf rfl rfl⟩
    · exact ⟨_, _, emit_type_body_new (emit_type type_of fuel) (emit_value type_of fuel)
        .bool_type e _ _ rfl hf rfl rfl⟩

theorem fuel_of_emit_value (type_of : TypeOf) (fuel : Nat) (n : Node) (u : Option SpvId)
    (e e1 : Emitter) (id : SpvId) (h : emit_value type_of fuel n u e = .ok (id, e1)) :
    ∃ f, fuel = f + 1 := by
  cases fuel with
  | zero => cases h
  | succ f => exact ⟨f, rfl⟩

/-- What `emit_primop` does for a primop that the table selects through its
first operand, with the opcode `opcode` (not 0) and the result type
`result_t`, when it has two operands, both values. -/
theorem emit_primop_first_op_binop (type_of : TypeOf) (fuel : Nat) (fn_builder : FnBuilder)
    (bb_builder : BBBuilder) (op : Op) (opcode : SpvOp) (a b : Node) (result_t : Node)
    (vt : Node) (vi : Nat) (vn : String) (vs : List Node)
    (e e1 e2 e3 : Emitter) (ida idb idt : SpvId)
    (hmech : (isel_table op).i_sel_mechanism = .FirstOp)
    (hsel : select_opcode type_of (isel_table op) [a, b] e2 = .ok (opcode, e2))
    (hnop : opcode ≠ .SpvOpNop)
    (hres : result_type type_of (isel_table op) [a, b] e2 = .ok (result_t, e2))
    (hna : a.is_null = false) (hta : is_type a = false)
    (hnb : b.is_null = false) (htb : is_type b = false)
    (ha : emit_value type_of fuel a none e = .ok (ida, e1))
    (hb : emit_value type_of fuel b none e1 = .ok (idb, e2))
    (hty : emit_type type_of fuel result_t e2 = .ok (idt, e3)) :
    emit_primop type_of fuel fn_builder bb_builder (.prim_op op [a, b]) (.var vt vi vn :: vs) e =
      .ok ((), Emitter.registered
        { e3 with
          bound := e3.bound + 1
          instructions := e3.instructions ++ [(bb_builder, .binop opcode idt e3.bound ida idb)] }
        (.var vt vi vn) vn e3.bound) := by
  have hops := emit_operands_two_values type_of fuel a b hna hta hnb htb e e1 e2 ida idb ha hb
  unfold emit_primop
  simp only [hmech, ne_eq, reduceCtorEq, not_false_eq_true, if_true]
  rw [Emit.then_ok _ _ e _ e2 hops, Emit.then_ok _ _ e2 _ e2 hsel]
  rw [if_neg hnop, Emit.then_ok _ _ e2 _ e2 hres]
  simp only [List.length_cons, List.length_nil, Nat.reduceAdd, OfNat.ofNat_ne_one, if_false,
    if_true]
  rw [Emit.then_ok _ _ e2 _ e3 hty]
  rw [Emit.then_ok _ _ e3 ida e3 rfl, Emit.then_ok _ _ e3 idb e3 rfl]
  rw [Emit.then_ok _ _ e3 e3.bound
    { e3 with
      bound := e3.bound + 1
      instructions := e3.instructions ++ [(bb_builder, .binop opcode idt e3.bound ida idb)] } rfl]
  rw [Emit.then_ok _ _ _ (Node.var vt vi vn) _ rfl]
  exact register_result_var vt vi vn e3.bound _

/-- C17: for a primop `add`, `sub`, `mul`, `div`, `mod`, `eq`, `neq`, `lt`,
`lte`, `gt` or `gte` with two operands, both values, of which the first has an
`Int` type, when the operands are emitted (to the ids `ida` and `idb`),
`emit_primop` succeeds and appends exactly one instruction to the basic block:
the binary instruction with the opcode that the claim names (`OpIAdd`,
`OpISub`, `OpIMul`, `OpSDiv`, `OpSMod`, `OpIEqual`, `OpINotEqual`,
`OpSLessThan`, `OpSLessThanEqual`, `OpSGreaterThan`, `OpSGreaterThanEqual`),
with the operand ids in order and, as result type, the id `idt` that
`emit_type` returns for the unqualified type of the first operand (arithmetic
primops) or for `bool` (comparisons); the result id is fresh, it is named after
the bound variable and stored for this variable in the dictionary (unless the
variable has an id already). -/
theorem emit_primop_selects_integer_opcodes (type_of : TypeOf) (fuel : Nat)
    (fn_builder : FnBuilder) (bb_builder : BBBuilder) (op : Op) (opcode : SpvOp)
    (kind : ResultKind) (a b : Node) (w : IntSizes) (vt : Node) (vi : Nat) (vn : String)
    (vs : List Node) (e e1 e2 : Emitter) (ida idb : SpvId)
    (hop : claimed_int_opcode op = some (opcode, kind))
    (hna : a.is_null = false) (hta : is_type a = false)
    (hnb : b.is_null = false) (htb : is_type b = false)
    (hint : Emit.without_qualifier (type_of a) = .ok (.int_type w))
    (ha : emit_value type_of fuel a none e = .ok (ida, e1))
    (hb : emit_value type_of fuel b none e1 = .ok (idb, e2)) :
    ∃ idt e3 e4,
      emit_type type_of fuel (if kind = .Same then .int_type w else .bool_type) e2 =
        .ok (idt, e3) ∧
      emit_primop type_of fuel fn_builder bb_builder (.prim_op op [a, b])
        (.var vt vi vn :: vs) e = .ok ((), e4) ∧
      e4.instructions = e.instructions ++ [(bb_builder, .binop opcode idt e3.bound ida idb)] ∧
      e4.variables_ = e.variables_ ∧
      e4.bound = e3.bound + 1 ∧
      e4.declarations = e3.declarations ++ [.name e3.bound vn] ∧
      (find_node_id e3 (.var vt vi vn) = none →
        find_node_id e4 (.var vt vi vn) = some e3.bound) := by
  obtain ⟨hmech, hkind, hcell, hnop, hnty⟩ := isel_table_int op opcode kind hop
  have hclass := classify_operand_int type_of a w hna hta hint
  obtain ⟨f, rfl⟩ := fuel_of_emit_value type_of fuel a none e e1 ida ha
  obtain ⟨idt, e3, hty⟩ := emit_type_scalar type_of f
    (if kind = .Same then .int_type w else .bool_type) e2 (by
      split
      · exact Or.inl ⟨w, rfl⟩
      · exact Or.inr rfl)
  have hsel : select_opcode type_of (isel_table op) [a, b] e2 = .ok (opcode, e2) := by
    unfold select_opcode
    rw [hmech]
    show (node_at [a, b] 0 >>= fun a0 =>
      Emit.of_except (classify_operand type_of a0) >>= fun op_class =>
        pure ((isel_table op).fo_at op_class)) e2 = _
    rw [Emit.then_ok _ _ e2 a e2 rfl, Emit.then_ok _ _ e2 OperandKind.Signed e2
      (by unfold Emit.of_except; rw [hclass]), hcell]
    rfl
  have hres : result_type type_of (isel_table op) [a, b] e2 =
      .ok (if kind = .Same then .int_type w else .bool_type, e2) := by
    unfold result_type
    rw [hkind]
    cases kind with
    | Same =>
      show (node_at [a, b] 0 >>= fun a0 =>
        Emit.of_except (Emit.without_qualifier (type_of a0))) e2 = _
      rw [Emit.then_ok _ _ e2 a e2 rfl]
      unfold Emit.of_except
      rw [hint]
      rfl
    | Bool => rfl
    | TyOperand => exact absurd rfl hnty
  have hrun := emit_primop_first_op_binop type_of (f + 1) fn_builder bb_builder op opcode a b _
    vt vi vn vs e e1 e2 e3 ida idb idt hmech hsel hnop hres hna hta hnb htb ha hb hty
  have hf1 := frames_emit_value type_of (f + 1) a none e ida e1 ha
  have hf2 := frames_emit_value type_of (f + 1) b none e1 idb e2 hb
  have hf3 := frames_emit_type type_of (f + 1) _ e2 idt e3 hty
  refine ⟨idt, e3, _, hty, hrun, ?_, ?_, rfl, rfl, ?_⟩
  · show e3.instructions ++ _ = _
    rw [hf3.1, hf2.1, hf1.1]
  · show e3.variables_ = _
    rw [hf3.2.1, hf2.2.1, hf1.2.1]
  · intro hnone
    exact find_node_id_registered _ _ _ _ hnone

/-- Witness of C17: `x + 1` for the variable `x` with the id 1: the constant 1
gets the id 4, the integer type the id 5, and the sum is `OpIAdd` with the
result type 5, the fresh result id 6 and the operands 1 and 4. -/
theorem emit_primop_selects_integer_opcodes_witness :
    ∃ e4, emit_primop example_type_of 3 0 10
        (.prim_op .add_op [example_x, .int_literal .IntTy32 1])
        [.var (.qualified_type false (.int_type .IntTy32)) 9 "sum"] example_emitter =
          .ok ((), e4) ∧
      e4.instructions = [(10, .binop .SpvOpIAdd 5 6 1 4)] := by
  obtain ⟨idt, e3, e4, h0, h1, h2, _⟩ :=
    emit_primop_selects_integer_opcodes example_type_of 3 0 10 .add_op .SpvOpIAdd .Same
      example_x (.int_literal .IntTy32 1) .IntTy32 (.qualified_type false (.int_type .IntTy32)) 9
      "sum" [] example_emitter example_emitter example_emitter_one 1 4
      rfl rfl rfl rfl rfl rfl rfl rfl
  have h3 : emit_type example_type_of 3 (.int_type .IntTy32) example_emitter_one =
      .ok (5, example_emitter_one) := rfl
  have h4 : emit_type example_type_of 3
      (if ResultKind.Same = ResultKind.Same then Node.int_type .IntTy32 else Node.bool_type)
      example_emitter_one = .ok (5, example_emitter_one) := h3
  rw [h4] at h0
  cases h0
  exact ⟨e4, h1, h2⟩

theorem Emit.not_ok_bind {α β : Type} (m : Emit α) (f : α → Emit β) (e : Emitter)
    (h : ∀ a e1, m e = .ok (a, e1) → is_ok (f a e1) = false) : is_ok ((m >>= f) e) = false := by
  cases hm : m e with
  | error err =>
    rw [Emit.then_error _ _ _ _ hm]
    rfl
  | ok r =>
    rw [Emit.then_ok _ _ e r.1 r.2 hm]
    exact h r.1 r.2 hm

/-- The rows of the table for the primops on booleans: the cell of the column
`Logical` is 0 and the logical opcode is in the column `Float`. -/
theorem isel_table_logical (op : Op) (opcode : SpvOp)
    (hop : claimed_logical_opcode op = some opcode) :
    (isel_table op).i_sel_mechanism = .FirstOp ∧ (isel_table op).fo_at .Logical = .SpvOpNop ∧
      (isel_table op).fo_at .Float = opcode ∧
      ∀ type_of fuel fn_builder bb_builder instr args variables_ e,
        emit_primop_custom type_of fuel fn_builder bb_builder instr op args variables_ e =
          .error .error := by
  cases op <;> first
    | (cases hop; done)
    | (simp only [claimed_logical_opcode, Option.some.injEq] at hop
       subst hop
       exact ⟨rfl, rfl, rfl, fun _ _ _ _ _ _ _ _ => rfl⟩)

/-- C16 (the code): for a primop `not`, `and`, `or` or `xor` whose first
operand is classified as `Logical`, the cell `table[op][Logical]` that
`emit_primop` selects is 0, not the logical opcode that the claim names, which
the table holds in the column `Float`; `emit_primop` then takes the custom
path, which has no case for these primops, and ends in `error`: it never
returns, whatever the other operands, the bound variables and the state of the
emitter are. -/
theorem emit_primop_misses_logical_opcodes (type_of : TypeOf) (fuel : Nat)
    (fn_builder : FnBuilder) (bb_builder : BBBuilder) (op : Op) (opcode : SpvOp) (a : Node)
    (rest : List Node) (variables_ : List Node) (e : Emitter)
    (hop : claimed_logical_opcode op = some opcode)
    (hkind : classify_operand type_of a = .ok .Logical) :
    (isel_table op).fo_at .Logical = .SpvOpNop ∧ (isel_table op).fo_at .Float = opcode ∧
      select_opcode type_of (isel_table op) (a :: rest) e = .ok (.SpvOpNop, e) ∧
      is_ok (emit_primop type_of fuel fn_builder bb_builder (.prim_op op (a :: rest)) variables_
        e) = false := by
  obtain ⟨hmech, hcell, hfloat, hcustom⟩ := isel_table_logical op opcode hop
  have hsel : ∀ e2, select_opcode type_of (isel_table op) (a :: rest) e2 =
      .ok (.SpvOpNop, e2) := by
    intro e2
    unfold select_opcode
    rw [hmech]
    show (node_at (a :: rest) 0 >>= fun a0 =>
      Emit.of_except (classify_operand type_of a0) >>= fun op_class =>
        pure ((isel_table op).fo_at op_class)) e2 = _
    rw [Emit.then_ok _ _ e2 a e2 rfl, Emit.then_ok _ _ e2 OperandKind.Logical e2
      (by unfold Emit.of_except; rw [hkind]), hcell]
    rfl
  refine ⟨hcell, hfloat, hsel e, ?_⟩
  unfold emit_primop
  simp only [hmech, ne_eq, reduceCtorEq, not_false_eq_true, if_true]
  apply Emit.not_ok_bind
  intro arr e2 _
  rw [Emit.then_ok _ _ e2 _ e2 (hsel e2), if_pos rfl, hcustom]
  rfl

/-- Witness of C16: `not b` for the boolean variable `b`: `emit_primop` ends in
`error`. -/
theorem emit_primop_misses_logical_opcodes_witness :
    is_ok (emit_primop example_type_of 3 0 10 (.prim_op .not_op [example_b])
      [.var (.qualified_type false .bool_type) 9 "r"] example_emitter) = false ∧
    emit_primop example_type_of 3 0 10 (.prim_op .not_op [example_b])
      [.var (.qualified_type false .bool_type) 9 "r"] example_emitter = .error .error :=
  ⟨(emit_primop_misses_logical_opcodes example_type_of 3 0 10 .not_op .SpvOpLogicalNot example_b
    [] [.var (.qualified_type false .bool_type) 9 "r"] example_emitter rfl rfl).2.2.2, rfl⟩

theorem frames_emit_indices (type_of : TypeOf) (fuel : Nat) (args : List Node) :
    Emit.frames (emit_indices type_of fuel args) := by
  induction args with
  | nil => exact frames_pure _
  | cons a args ih =>
    unfold emit_indices
    refine frames_bind _ _ ?_ (fun _ => frames_bind _ _ ih (fun _ => frames_pure _))
    split
    · exact frames_pure _
    · exact frames_emit_value type_of fuel a none

/-- The rows of the table for `lea`: it has none, `lea` takes the custom path. -/
theorem emit_primop_lea (type_of : TypeOf) (fuel : Nat) (fn_builder : FnBuilder)
    (bb_builder : BBBuilder) (args variables_ : List Node) :
    emit_primop type_of fuel fn_builder bb_builder (.prim_op .lea_op args) variables_ =
      emit_primop_custom type_of fuel fn_builder bb_builder (.prim_op .lea_op args) .lea_op args
        variables_ := by
  rfl

/-- C19 (amended): for a `lea` primop with the operands base, offset and
indices: when no offset is given (operand 1 is null) and the base, the indices
(operands 2, 3, …, in this order) and the type of the instruction are emitted,
`emit_primop` succeeds and appends exactly one instruction, the `OpAccessChain`
with the id of the type as result type, the id of the base and the ids of the
indices in order (0 for a null index); its result id is fresh, named after the
bound variable and stored for it (unless the variable has an id already).  When
an offset is given, `emit_primop` never returns: it emits the base and the
indices and ends in `error`; no `OpPtrAccessChain` is emitted. -/
theorem emit_primop_lea_access_chain (type_of : TypeOf) (fuel : Nat) (fn_builder : FnBuilder)
    (bb_builder : BBBuilder) (base offset : Node) (indices : List Node) (vt : Node) (vi : Nat)
    (vn : String) (vs : List Node) (e : Emitter) :
    (offset.is_null = true → ∀ e1 e2 e3 idb ids idt,
      emit_value type_of fuel base none e = .ok (idb, e1) →
      emit_indices type_of fuel indices e1 = .ok (ids, e2) →
      emit_type type_of fuel (type_of (.prim_op .lea_op (base :: offset :: indices))) e2 =
        .ok (idt, e3) →
      ∃ e4, emit_primop type_of fuel fn_builder bb_builder
          (.prim_op .lea_op (base :: offset :: indices)) (.var vt vi vn :: vs) e = .ok ((), e4) ∧
        e4.instructions = e.instructions ++
          [(bb_builder, .access_chain idt e3.bound idb ids)] ∧
        e4.variables_ = e.variables_ ∧
        e4.bound = e3.bound + 1 ∧
        e4.declarations = e3.declarations ++ [.name e3.bound vn] ∧
        (find_node_id e3 (.var vt vi vn) = none →
          find_node_id e4 (.var vt vi vn) = some e3.bound)) ∧
    (offset.is_null = false →
      is_ok (emit_primop type_of fuel fn_builder bb_builder
        (.prim_op .lea_op (base :: offset :: indices)) (.var vt vi vn :: vs) e) = false ∧
      ∀ e1 e2 idb ids,
        emit_value type_of fuel base none e = .ok (idb, e1) →
        emit_indices type_of fuel indices e1 = .ok (ids, e2) →
        emit_primop type_of fuel fn_builder bb_builder
          (.prim_op .lea_op (base :: offset :: indices)) (.var vt vi vn :: vs) e =
            .error .error) := by
  rw [emit_primop_lea]
  have hlen : ¬ (base :: offset :: indices).length < 2 := by
    simp only [List.length_cons]
    omega
  constructor
  · intro hoff e1 e2 e3 idb ids idt hb hi hty
    have hrun : emit_primop_custom type_of fuel fn_builder bb_builder
        (.prim_op .lea_op (base :: offset :: indices)) .lea_op (base :: offset :: indices)
        (.var vt vi vn :: vs) e =
        .ok ((), Emitter.registered
          { e3 with
            bound := e3.bound + 1
            instructions := e3.instructions ++
              [(bb_builder, .access_chain idt e3.bound idb ids)] }
          (.var vt vi vn) vn e3.bound) := by
      unfold emit_primop_custom
      simp only []
      rw [Emit.then_ok _ _ e base e rfl, Emit.then_ok _ _ e idb e1 hb, if_neg hlen]
      rw [Emit.then_ok _ _ e1 ids e2 (by exact hi), Emit.then_ok _ _ e2 offset e2 rfl]
      simp only [hoff, not_true_eq_false, if_false]
      rw [Emit.then_ok _ _ e2 _ e3 hty]
      rw [Emit.then_ok _ _ e3 e3.bound
        { e3 with
          bound := e3.bound + 1
          instructions := e3.instructions ++
            [(bb_builder, .access_chain idt e3.bound idb ids)] } rfl]
      rw [Emit.then_ok _ _ _ (Node.var vt vi vn) _ rfl]
      exact register_result_var vt vi vn e3.bound _
    have hf1 := frames_emit_value type_of fuel base none e idb e1 hb
    have hf2 := frames_emit_indices type_of fuel indices e1 ids e2 hi
    have hf3 := frames_emit_type type_of fuel _ e2 idt e3 hty
    refine ⟨_, hrun, ?_, ?_, rfl, rfl, ?_⟩
    · show e3.instructions ++ _ = _
      rw [hf3.1, hf2.1, hf1.1]
    · show e3.variables_ = _
      rw [hf3.2.1, hf2.2.1, hf1.2.1]
    · intro hnone
      exact find_node_id_registered _ _ _ _ hnone
  · intro hoff
    constructor
    · unfold emit_primop_custom
      simp only []
      rw [Emit.then_ok _ _ e base e rfl]
      apply Emit.not_ok_bind
      intro idb e1 _
      rw [if_neg hlen]
      apply Emit.not_ok_bind
      intro ids e2 _
      rw [Emit.then_ok _ _ e2 offset e2 rfl]
      simp only [hoff, Bool.false_eq_true, not_false_eq_true, if_true]
      rfl
    · intro e1 e2 idb ids hb hi
      unfold emit_primop_custom
      simp only []
      rw [Emit.then_ok _ _ e base e rfl, Emit.then_ok _ _ e idb e1 hb, if_neg hlen]
      rw [Emit.then_ok _ _ e1 ids e2 (by exact hi), Emit.then_ok _ _ e2 offset e2 rfl]
      simp only [hoff, Bool.false_eq_true, not_false_eq_true, if_true]
      rfl

/-- Witness of C19: `lea(p, null, 1)` for the pointer variable `p` with the id
3: the constant 1 gets the id 4 and the pointer type the id 6; the instruction
is `OpAccessChain` with the result type 6, the fresh result id 7, the base 3
and the index 4. -/
theorem emit_primop_lea_access_chain_witness :
    ∃ e4, emit_primop example_type_of 3 0 10
        (.prim_op .lea_op [example_p, .null, .int_literal .IntTy32 1])
        [.var (.qualified_type false (.ptr_type .AsFunctionLogical (.int_type .IntTy32))) 9 "q"]
        example_emitter = .ok ((), e4) ∧
      e4.instructions = [(10, .access_chain 6 7 3 [4])] := by
  obtain ⟨e4, h1, h2, _⟩ :=
    (emit_primop_lea_access_chain example_type_of 3 0 10 example_p .null
      [.int_literal .IntTy32 1]
      (.qualified_type false (.ptr_type .AsFunctionLogical (.int_type .IntTy32))) 9 "q" []
      example_emitter).1 rfl example_emitter example_emitter_one example_emitter_ptr 3 [4] 6
      rfl rfl rfl
  exact ⟨e4, h1, h2⟩

/-- C19 (counterexample): `lea(p, 1, 1)`, a `lea` with an offset: `emit_primop`
emits no `OpPtrAccessChain`, it ends in `error`. -/
theorem emit_primop_lea_offset_fails :
    emit_primop example_type_of 3 0 10
      (.prim_op .lea_op [example_p, .int_literal .IntTy32 1, .int_literal .IntTy32 1])
      [.var (.qualified_type false (.ptr_type .AsFunctionLogical (.int_type .IntTy32))) 9 "q"]
      example_emitter = .error .error := by
  rfl

/-! ### The id cache of `emit_value` -/

theorem emit_value_succ (type_of : TypeOf) (fuel : Nat) (node : Node) (use_id : Option SpvId) :
    emit_value type_of (fuel + 1) node use_id =
      emit_value_body type_of (emit_type type_of fuel) node use_id := rfl

theorem emit_type_succ (type_of : TypeOf) (fuel : Nat) (type : Node) :
    emit_type type_of (fuel + 1) type =
      emit_type_body (emit_type type_of fuel) (emit_value type_of fuel) type := rfl

/-- With fuel, the emission of a scalar type, qualified or not, succeeds. -/
theorem emit_type_scalar_total (type_of : TypeOf) (fuel : Nat) (t : Node) (e : Emitter)
    (ht : t.is_scalar_type = true) : ∃ id e1, emit_type type_of (fuel + 2) t e = .ok (id, e1) := by
  have hq : ∀ u s, ((∃ w, s = Node.int_type w) ∨ s = Node.bool_type) →
      ∃ id e1, emit_type type_of (fuel + 2) (.qualified_type u s) e = .ok (id, e1) := by
    intro u s hs
    cases hf : find_node_id e (.qualified_type u s) with
    | some x => exact ⟨x, e, emit_type_cached type_of (fuel + 1) _ e x rfl hf⟩
    | none =>
      obtain ⟨id, e1, h1⟩ := emit_type_scalar type_of fuel s e hs
      rw [emit_type_succ]
      unfold emit_type_body
      simp only [Node.is_null, Bool.false_eq_true, if_false, hf]
      have hnew : emit_new_type (emit_type type_of (fuel + 1)) (emit_value type_of (fuel + 1))
          (.qualified_type u s) e = .ok (id, e1) := h1
      rw [Emit.then_ok _ _ e id e1 hnew]
      cases hi : insert_node_id (.qualified_type u s) id e1 with
      | error err =>
        unfold insert_node_id at hi
        split at hi <;> cases hi
      | ok r =>
        rw [Emit.then_ok _ _ e1 r.1 r.2 hi]
        exact ⟨id, r.2, rfl⟩
  cases t with
  | int_type w => exact emit_type_scalar type_of (fuel + 1) _ e (Or.inl ⟨w, rfl⟩)
  | bool_type => exact emit_type_scalar type_of (fuel + 1) _ e (Or.inr rfl)
  | qualified_type u s =>
    cases s with
    | int_type w => exact hq u _ (Or.inl ⟨w, rfl⟩)
    | bool_type => exact hq u _ (Or.inr rfl)
    | _ => cases ht
  | _ => cases ht

theorem emit_constant_literal (type_of : TypeOf) (emit_type : Node → Emit SpvId) (v : Node)
    (new ty : SpvId) (d : SpvDecl) (e e2 : Emitter)
    (hty : emit_type (literal_type type_of v) e = .ok (ty, e2))
    (hd : constant_of v new ty = some d) :
    emit_constant type_of emit_type v new e =
      .ok ((), { e2 with declarations := e2.declarations ++ [d] }) := by
  cases v <;> try (cases hd; done)
  case int_literal width value =>
    unfold emit_constant
    simp only []
    have hty1 : emit_type (type_of (.int_literal width value)) e = .ok (ty, e2) := hty
    rw [Emit.then_ok _ _ e ty e2 hty1]
    simp only [constant_of, Option.some.injEq] at hd
    subst hd
    by_cases hw : width = IntSizes.IntTy64
    · simp only [hw, if_true]
      rfl
    · simp only [hw, if_false]
      rfl
  case true_lit =>
    unfold emit_constant
    simp only []
    have hty1 : emit_type .bool_type e = .ok (ty, e2) := hty
    rw [Emit.then_ok _ _ e ty e2 hty1]
    simp only [constant_of, Option.some.injEq] at hd
    subst hd
    rfl
  case false_lit =>
    unfold emit_constant
    simp only []
    have hty1 : emit_type .bool_type e = .ok (ty, e2) := hty
    rw [Emit.then_ok _ _ e ty e2 hty1]
    simp only [constant_of, Option.some.injEq] at hd
    subst hd
    rfl

theorem constant_of_not_null (v : Node) (id ty : SpvId) (d : SpvDecl)
    (hd : constant_of v id ty = some d) : v.is_null = false := by
  cases v <;> first | rfl | cases hd

theorem constant_of_some (v : Node) (id ty id2 ty2 : SpvId) (d : SpvDecl)
    (hd : constant_of v id ty = some d) : ∃ d2, constant_of v id2 ty2 = some d2 := by
  cases v <;> first | (cases hd; done) | exact ⟨_, rfl⟩

/-- C21: for a literal `v` (an `IntLiteral`, `True` or `False`) whose type is a
scalar type, and every emitter state `e`.  Without a supplied id: if `v` has
an id in the dictionary, `emit_value` returns it and leaves the state as it
is; if not, it allocates the fresh id `e.bound`, stores it for `v`, emits the
type of `v` (to `ty`) and appends the constant of `v` under the fresh id.  With
a supplied id `id`, whether `v` has an id in the dictionary or not, it emits
the type of `v` and appends the constant of `v` under `id`, and returns
`id`.  In all cases `emit_value` succeeds. -/
theorem emit_value_id_cache (type_of : TypeOf) (fuel : Nat) (v : Node) (e : Emitter)
    (hlit : (constant_of v 0 0).isSome = true)
    (hscalar : (literal_type type_of v).is_scalar_type = true) :
    (∀ cached, find_node_id e v = some cached →
      emit_value type_of (fuel + 3) v none e = .ok (cached, e)) ∧
    (find_node_id e v = none →
      ∃ ty e2 d,
        emit_type type_of (fuel + 2) (literal_type type_of v)
          { e with bound := e.bound + 1, node_ids := e.node_ids ++ [(v, e.bound)] } =
            .ok (ty, e2) ∧
        constant_of v e.bound ty = some d ∧
        emit_value type_of (fuel + 3) v none e =
          .ok (e.bound, { e2 with declarations := e2.declarations ++ [d] }) ∧
        find_node_id { e2 with declarations := e2.declarations ++ [d] } v = some e.bound) ∧
    (∀ id, ∃ e1 ty e2 d,
      insert_node_id v id e = .ok ((), e1) ∧
      emit_type type_of (fuel + 2) (literal_type type_of v) e1 = .ok (ty, e2) ∧
      constant_of v id ty = some d ∧
      emit_value type_of (fuel + 3) v (some id) e =
        .ok (id, { e2 with declarations := e2.declarations ++ [d] })) := by
  obtain ⟨d0, hd0⟩ := Option.isSome_iff_exists.mp hlit
  have hnn : v.is_null = false := constant_of_not_null v 0 0 d0 hd0
  refine ⟨?_, ?_, ?_⟩
  · intro cached hc
    rw [emit_value_succ]
    unfold emit_value_body
    simp only [hnn, Bool.false_eq_true, if_false, Option.isNone_none, if_true, hc]
  · intro hnone
    obtain ⟨ty, e2, hty⟩ := emit_type_scalar_total type_of fuel (literal_type type_of v)
      { e with bound := e.bound + 1, node_ids := e.node_ids ++ [(v, e.bound)] } hscalar
    obtain ⟨d, hd⟩ := constant_of_some v 0 0 e.bound ty d0 hd0
    have hrun : emit_value type_of (fuel + 3) v none e =
        .ok (e.bound, { e2 with declarations := e2.declarations ++ [d] }) := by
      rw [emit_value_succ]
      unfold emit_value_body
      simp only [hnn, Bool.false_eq_true, if_false, Option.isNone_none, if_true, hnone]
      rw [Emit.then_ok _ _ e e.bound { e with bound := e.bound + 1 } rfl]
      have hins : insert_node_id v e.bound { e with bound := e.bound + 1 } =
          .ok ((), { e with bound := e.bound + 1, node_ids := e.node_ids ++ [(v, e.bound)] }) := by
        unfold insert_node_id
        have : find_node_id { e with bound := e.bound + 1 } v = none := hnone
        rw [this]
      rw [Emit.then_ok _ _ _ () _ hins]
      rw [Emit.then_ok _ _ _ () _ (emit_constant_literal type_of _ v e.bound ty d _ e2 hty hd)]
      rfl
    refine ⟨ty, e2, d, hty, hd, hrun, ?_⟩
    have hstored : find_node_id
        { e with bound := e.bound + 1, node_ids := e.node_ids ++ [(v, e.bound)] } v =
        some e.bound := find_node_id_append_self e v e.bound hnone
    exact (frames_emit_type type_of (fuel + 2) _ _ ty e2 hty).2.2 v e.bound hstored
  · intro id
    cases hi : insert_node_id v id e with
    | error err =>
      unfold insert_node_id at hi
      split at hi <;> cases hi
    | ok r =>
      obtain ⟨u, e1⟩ := r
      obtain ⟨ty, e2, hty⟩ := emit_type_scalar_total type_of fuel (literal_type type_of v) e1
        hscalar
      obtain ⟨d, hd⟩ := constant_of_some v 0 0 id ty d0 hd0
      refine ⟨e1, ty, e2, d, rfl, hty, hd, ?_⟩
      rw [emit_value_succ]
      unfold emit_value_body
      simp only [hnn, Bool.false_eq_true, if_false, Option.isNone_some]
      rw [Emit.then_ok _ _ e id e rfl]
      rw [Emit.then_ok _ _ e () e1 hi]
      rw [Emit.then_ok _ _ _ () _ (emit_constant_literal type_of _ v id ty d _ e2 hty hd)]
      rfl

/-- Witness of C21: the literal `1` in the example emitter, where it has no id:
`emit_value` without id allocates the id 4, declares the integer type under
the id 5 and the constant 1 under the id 4; asked again, it returns 4 and
changes nothing; with the supplied id 9 it appends the constant once more,
under the id 9. -/
theorem emit_value_id_cache_witness :
    emit_value example_type_of 3 (.int_literal .IntTy32 1) none example_emitter =
      .ok (4, example_emitter_one) ∧
    emit_value example_type_of 3 (.int_literal .IntTy32 1) none example_emitter_one =
      .ok (4, example_emitter_one) ∧
    emit_value example_type_of 3 (.int_literal .IntTy32 1) (some 9) example_emitter_one =
      .ok (9, { example_emitter_one with
        declarations := example_emitter_one.declarations ++ [.constant 9 5 [1]] }) := by
  have h := emit_value_id_cache example_type_of 0 (.int_literal .IntTy32 1) example_emitter_one
    rfl rfl
  exact ⟨rfl, h.1 4 rfl, rfl⟩

/-! ### The emitter only appends -/

theorem Emitter.le_refl (e : Emitter) : e.le e :=
  ⟨Nat.le_refl _, List.prefix_refl _, List.prefix_refl _, List.prefix_refl _,
    List.prefix_refl _⟩

theorem Emitter.le_trans {a b c : Emitter} (h1 : a.le b) (h2 : b.le c) : a.le c :=
  ⟨Nat.le_trans h1.1 h2.1, h1.2.1.trans h2.2.1, h1.2.2.1.trans h2.2.2.1,
    h1.2.2.2.1.trans h2.2.2.2.1, h1.2.2.2.2.trans h2.2.2.2.2⟩

theorem find_node_id_of_prefix (e e1 : Emitter) (h : e.node_ids <+: e1.node_ids) (node : Node)
    (id : SpvId) (hf : find_node_id e node = some id) : find_node_id e1 node = some id := by
  obtain ⟨rest, hrest⟩ := h
  unfold find_node_id at hf ⊢
  cases hx : e.node_ids.find? (fun x => compare_node x.1 node) with
  | none =>
    rw [hx] at hf
    cases hf
  | some x =>
    rw [hx] at hf
    rw [← hrest, List.find?_append, hx]
    exact hf

/-- A node that has an id in the dictionary keeps it in every extension. -/
theorem find_node_id_of_le (e e1 : Emitter) (h : e.le e1) (node : Node) (id : SpvId)
    (hf : find_node_id e node = some id) : find_node_id e1 node = some id :=
  find_node_id_of_prefix e e1 h.2.2.2.2 node id hf

theorem grows_pure {α : Type} (a : α) : Emit.grows (pure a : Emit α) := by
  intro e r e1 h
  cases h
  exact Emitter.le_refl _

theorem grows_fault {α : Type} (err : Fault) : Emit.grows (Emit.fault err : Emit α) := by
  intro e r e1 h
  cases h

theorem grows_bind {α β : Type} (m : Emit α) (f : α → Emit β) (hm : Emit.grows m)
    (hf : ∀ a, Emit.grows (f a)) : Emit.grows (m >>= f) := by
  intro e r e2 h
  obtain ⟨a, e1, h1, h2⟩ := Emit.then_inv _ _ _ _ _ h
  exact Emitter.le_trans (hm e a e1 h1) (hf a e1 r e2 h2)

theorem grows_of_except {α : Type} (r : Except Fault α) : Emit.grows (Emit.of_except r) := by
  intro e a e1 h
  cases r with
  | error err => cases h
  | ok x =>
    cases h
    exact Emitter.le_refl _

theorem grows_get : Emit.grows Emit.get := by
  intro e r e1 h
  cases h
  exact Emitter.le_refl _

theorem grows_fresh_id : Emit.grows spvb_fresh_id := by
  intro e r e1 h
  cases h
  exact ⟨Nat.le_succ _, List.prefix_refl _, List.prefix_refl _, List.prefix_refl _,
    List.prefix_refl _⟩

theorem grows_declare (d : SpvDecl) : Emit.grows (spvb_declare d) := by
  intro e r e1 h
  cases h
  exact ⟨Nat.le_refl _, List.prefix_append _ _, List.prefix_refl _, List.prefix_refl _,
    List.prefix_refl _⟩

theorem grows_instruction (bb_builder : BBBuilder) (i : SpvInstr) :
    Emit.grows (spvb_instruction bb_builder i) := by
  intro e r e1 h
  cases h
  exact ⟨Nat.le_refl _, List.prefix_refl _, List.prefix_append _ _, List.prefix_refl _,
    List.prefix_refl _⟩

theorem grows_insert_node_id (node : Node) (id : SpvId) : Emit.grows (insert_node_id node id) := by
  intro e r e1 h
  unfold insert_node_id at h
  split at h
  · cases h
    exact Emitter.le_refl _
  · cases h
    exact ⟨Nat.le_refl _, List.prefix_refl _, List.prefix_refl _, List.prefix_refl _,
      List.prefix_append _ _⟩

theorem grows_local_variable (fn_builder : FnBuilder) (type : SpvId) (sc : SpvStorageClass) :
    Emit.grows (spvb_local_variable fn_builder type sc) := by
  intro e r e1 h
  cases h
  exact ⟨Nat.le_succ _, List.prefix_refl _, List.prefix_refl _, List.prefix_append _ _,
    List.prefix_refl _⟩

theorem grows_find_reserved_id (node : Node) : Emit.grows (find_reserved_id node) := by
  intro e r e1 h
  unfold find_reserved_id at h
  split at h
  · cases h
    exact Emitter.le_refl _
  · cases h

theorem grows_fn_ret_type_id (fn_builder : FnBuilder) : Emit.grows (fn_ret_type_id fn_builder) := by
  intro e r e1 h
  unfold fn_ret_type_id at h
  split at h
  · cases h
    exact Emitter.le_refl _
  · cases h

theorem grows_node_at (nodes : List Node) (i : Nat) : Emit.grows (node_at nodes i) := by
  unfold node_at
  split
  · exact grows_pure _
  · exact grows_fault _

theorem grows_id_at (arr : List (Option SpvId)) (i : Nat) : Emit.grows (id_at arr i) := by
  unfold id_at
  split
  · exact grows_pure _
  · exact grows_fault _

/-- The builder calls that allocate an id and append one record with it. -/
theorem grows_fresh_declare (d : SpvId → SpvDecl) :
    Emit.grows (spvb_fresh_id >>= fun id => spvb_declare (d id) >>= fun _ => pure id) :=
  grows_bind _ _ grows_fresh_id
    (fun _ => grows_bind _ _ (grows_declare _) (fun _ => grows_pure _))

theorem grows_fresh_instruction (bb_builder : BBBuilder) (i : SpvId → SpvInstr) :
    Emit.grows (spvb_fresh_id >>= fun id =>
      spvb_instruction bb_builder (i id) >>= fun _ => pure id) :=
  grows_bind _ _ grows_fresh_id
    (fun _ => grows_bind _ _ (grows_instruction _ _) (fun _ => grows_pure _))

theorem grows_register_result (variable_ : Node) (id : SpvId) :
    Emit.grows (register_result variable_ id) := by
  unfold register_result
  split
  · exact grows_bind _ _ (grows_declare _) (fun _ => grows_insert_node_id _ _)
  · exact grows_fault _

theorem grows_emit_types (emit_type : Node → Emit SpvId) (h : ∀ t, Emit.grows (emit_type t))
    (ts : List Node) : Emit.grows (emit_types emit_type ts) := by
  induction ts with
  | nil => exact grows_pure _
  | cons t ts ih =>
    exact grows_bind _ _ (h t) (fun _ => grows_bind _ _ ih (fun _ => grows_pure _))

theorem grows_nodes_to_codom (emit_type : Node → Emit SpvId)
    (h : ∀ t, Emit.grows (emit_type t)) (ts : List Node) :
    Emit.grows (nodes_to_codom emit_type ts) := by
  unfold nodes_to_codom
  split
  · exact grows_bind _ _ grows_get (fun _ => grows_pure _)
  · exact h _
  · exact h _

theorem grows_emit_new_type (emit_type : Node → Emit SpvId)
    (emit_value : Node → Option SpvId → Emit SpvId) (h1 : ∀ t, Emit.grows (emit_type t))
    (h2 : ∀ n u, Emit.grows (emit_value n u)) (type : Node) :
    Emit.grows (emit_new_type emit_type emit_value type) := by
  unfold emit_new_type
  split
  · exact grows_fresh_declare _
  · exact grows_fresh_declare _
  · exact grows_bind _ _ (h1 _)
      (fun _ => grows_bind _ _ (grows_of_except _) (fun _ => grows_fresh_declare _))
  · exact grows_bind _ _ (grows_emit_types _ h1 _) (fun _ => grows_fresh_declare _)
  · split
    · exact grows_fault _
    · exact grows_bind _ _ (grows_emit_types _ h1 _)
        (fun _ => grows_bind _ _ (grows_nodes_to_codom _ h1 _) (fun _ => grows_fresh_declare _))
  · exact h1 _
  · refine grows_bind _ _ (h1 _) (fun _ => ?_)
    split
    · exact grows_fresh_declare _
    · exact grows_bind _ _ (h2 _ _) (fun _ => grows_fresh_declare _)
  · exact grows_fault _

theorem grows_emit_type_body (emit_type : Node → Emit SpvId)
    (emit_value : Node → Option SpvId → Emit SpvId) (h1 : ∀ t, Emit.grows (emit_type t))
    (h2 : ∀ n u, Emit.grows (emit_value n u)) (type : Node) :
    Emit.grows (emit_type_body emit_type emit_value type) := by
  intro e r e1 h
  unfold emit_type_body at h
  split at h
  · cases h
  · split at h
    · cases h
      exact Emitter.le_refl _
    · exact grows_bind _ _ (grows_emit_new_type _ _ h1 h2 type)
        (fun _ => grows_bind _ _ (grows_insert_node_id _ _) (fun _ => grows_pure _)) e r e1 h

theorem grows_emit_constant (type_of : TypeOf) (emit_type : Node → Emit SpvId)
    (h1 : ∀ t, Emit.grows (emit_type t)) (node : Node) (new : SpvId) :
    Emit.grows (emit_constant type_of emit_type node new) := by
  unfold emit_constant
  split
  · exact grows_fault _
  · refine grows_bind _ _ (h1 _) (fun _ => ?_)
    split
    · exact grows_declare _
    · exact grows_declare _
  · exact grows_bind _ _ (h1 _) (fun _ => grows_declare _)
  · exact grows_bind _ _ (h1 _) (fun _ => grows_declare _)
  · exact grows_fault _

theorem grows_emit_value_body (type_of : TypeOf) (emit_type : Node → Emit SpvId)
    (h1 : ∀ t, Emit.grows (emit_type t)) (node : Node) (use_id : Option SpvId) :
    Emit.grows (emit_value_body type_of emit_type node use_id) := by
  intro e r e1 h
  unfold emit_value_body at h
  split at h
  · cases h
  · split at h
    · cases h
      exact Emitter.le_refl _
    · refine grows_bind _ _ ?_
        (fun _ => grows_bind _ _ (grows_insert_node_id _ _)
          (fun _ => grows_bind _ _ (grows_emit_constant type_of _ h1 _ _)
            (fun _ => grows_pure _))) e r e1 h
      cases use_id with
      | none => exact grows_fresh_id
      | some _ => exact grows_pure _

theorem grows_emit_type_value (type_of : TypeOf) (fuel : Nat) :
    (∀ t, Emit.grows ((emit_type_value type_of fuel).1 t)) ∧
    (∀ n u, Emit.grows ((emit_type_value type_of fuel).2 n u)) := by
  induction fuel with
  | zero => exact ⟨fun _ => grows_fault _, fun _ _ => grows_fault _⟩
  | succ fuel ih =>
    exact ⟨fun t => grows_emit_type_body _ _ ih.1 ih.2 t,
      fun n u => grows_emit_value_body type_of _ ih.1 n u⟩

theorem grows_emit_type (type_of : TypeOf) (fuel : Nat) (type : Node) :
    Emit.grows (emit_type type_of fuel type) :=
  (grows_emit_type_value type_of fuel).1 type

theorem grows_emit_value (type_of : TypeOf) (fuel : Nat) (node : Node) (use_id : Option SpvId) :
    Emit.grows (emit_value type_of fuel node use_id) :=
  (grows_emit_type_value type_of fuel).2 node use_id

theorem grows_emit_values (type_of : TypeOf) (fuel : Nat) (nodes : List Node) :
    Emit.grows (emit_values type_of fuel nodes) := by
  induction nodes with
  | nil => exact grows_pure _
  | cons n ns ih =>
    exact grows_bind _ _ (grows_emit_value _ _ _ _)
      (fun _ => grows_bind _ _ ih (fun _ => grows_pure _))

theorem grows_emit_operands (type_of : TypeOf) (fuel : Nat) (args : List Node) :
    Emit.grows (emit_operands type_of fuel args) := by
  induction args with
  | nil => exact grows_pure _
  | cons a as ih =>
    unfold emit_operands
    refine grows_bind _ _ ?_ (fun _ => grows_bind _ _ ih (fun _ => grows_pure _))
    split
    · exact grows_pure _
    · split
      · exact grows_bind _ _ (grows_emit_type _ _ _) (fun _ => grows_pure _)
      · exact grows_bind _ _ (grows_emit_value _ _ _ _) (fun _ => grows_pure _)

theorem grows_emit_indices (type_of : TypeOf) (fuel : Nat) (args : List Node) :
    Emit.grows (emit_indices type_of fuel args) := by
  induction args with
  | nil => exact grows_pure _
  | cons a as ih =>
    unfold emit_indices
    refine grows_bind _ _ ?_ (fun _ => grows_bind _ _ ih (fun _ => grows_pure _))
    split
    · exact grows_pure _
    · exact grows_emit_value _ _ _ _

theorem grows_pointee_of (type_of : TypeOf) (line : Nat) (node : Node) :
    Emit.grows (pointee_of type_of line node) := by
  unfold pointee_of
  split
  · exact grows_fault _
  · split
    · exact grows_fault _
    · exact grows_pure _
    · exact grows_fault _
    · exact grows_fault _

theorem grows_unop (bb : BBBuilder) (op : SpvOp) (t a : SpvId) :
    Emit.grows (spvb_unop bb op t a) := grows_fresh_instruction bb (fun id => .unop op t id a)

theorem grows_binop (bb : BBBuilder) (op : SpvOp) (t a b : SpvId) :
    Emit.grows (spvb_binop bb op t a b) :=
  grows_fresh_instruction bb (fun id => .binop op t id a b)

theorem grows_load (bb : BBBuilder) (t p : SpvId) : Emit.grows (spvb_load bb t p) :=
  grows_fresh_instruction bb (fun id => .load t id p)

theorem grows_access_chain (bb : BBBuilder) (t b : SpvId) (is : List SpvId) :
    Emit.grows (spvb_access_chain bb t b is) :=
  grows_fresh_instruction bb (fun id => .access_chain t id b is)

theorem grows_select (bb : BBBuilder) (t c a b : SpvId) : Emit.grows (spvb_select bb t c a b) :=
  grows_fresh_instruction bb (fun id => .select t id c a b)

theorem grows_call (bb : BBBuilder) (t c : SpvId) (args : List SpvId) :
    Emit.grows (spvb_call bb t c args) := grows_fresh_instruction bb (fun id => .call t id c args)

theorem grows_extract (bb : BBBuilder) (t c : SpvId) (is : List Nat) :
    Emit.grows (spvb_extract bb t c is) := grows_fresh_instruction bb (fun id => .extract t id c is)

theorem grows_composite (bb : BBBuilder) (t : SpvId) (xs : List SpvId) :
    Emit.grows (spvb_composite bb t xs) := grows_fresh_instruction bb (fun id => .composite t id xs)

theorem grows_parameter (fn_builder : FnBuilder) (t : SpvId) :
    Emit.grows (spvb_parameter fn_builder t) :=
  grows_fresh_declare (fun id => .fn_parameter fn_builder id t)

theorem grows_begin_fn (a b c : SpvId) : Emit.grows (spvb_begin_fn a b c) :=
  grows_bind _ _ (grows_declare _) (fun _ => grows_pure _)

theorem grows_store (bb : BBBuilder) (v p : SpvId) : Emit.grows (spvb_store bb v p) :=
  grows_instruction _ _

theorem grows_selection_merge (bb : BBBuilder) (m : SpvId) :
    Emit.grows (spvb_selection_merge bb m) := grows_instruction _ _

theorem grows_loop_merge (bb : BBBuilder) (m c : SpvId) : Emit.grows (spvb_loop_merge bb m c) :=
  grows_instruction _ _

theorem grows_branch (bb : BBBuilder) (t : SpvId) : Emit.grows (spvb_branch bb t) :=
  grows_instruction _ _

theorem grows_branch_conditional (bb : BBBuilder) (c t f : SpvId) :
    Emit.grows (spvb_branch_conditional bb c t f) := grows_instruction _ _

theorem grows_switch (bb : BBBuilder) (s d : SpvId) (ts : List SpvId) :
    Emit.grows (spvb_switch bb s d ts) := grows_instruction _ _

theorem grows_return_void (bb : BBBuilder) : Emit.grows (spvb_return_void bb) :=
  grows_instruction _ _

theorem grows_return_value (bb : BBBuilder) (v : SpvId) : Emit.grows (spvb_return_value bb v) :=
  grows_instruction _ _

theorem grows_unreachable (bb : BBBuilder) : Emit.grows (spvb_unreachable bb) :=
  grows_instruction _ _

theorem grows_name (id : SpvId) (name : String) : Emit.grows (spvb_name id name) :=
  grows_declare _

theorem grows_define_function (fn_builder : FnBuilder) :
    Emit.grows (spvb_define_function fn_builder) := grows_declare _

theorem grows_global_variable (id t : SpvId) (sc : SpvStorageClass) (init : SpvId) :
    Emit.grows (spvb_global_variable id t sc init) := grows_declare _

theorem grows_emit_primop_custom (type_of : TypeOf) (fuel : Nat) (fn_builder : FnBuilder)
    (bb_builder : BBBuilder) (instr : Node) (op : Op) (args variables_ : List Node) :
    Emit.grows (emit_primop_custom type_of fuel fn_builder bb_builder instr op args variables_) := by
  unfold emit_primop_custom
  repeat' first
    | with_reducible exact grows_pure _
    | with_reducible exact grows_fault _
    | with_reducible exact grows_node_at _ _
    | with_reducible exact grows_pointee_of _ _ _
    | with_reducible exact grows_emit_value _ _ _ _
    | with_reducible exact grows_emit_type _ _ _
    | with_reducible exact grows_emit_indices _ _ _
    | with_reducible exact grows_load _ _ _
    | with_reducible exact grows_store _ _ _
    | with_reducible exact grows_local_variable _ _ _
    | with_reducible exact grows_access_chain _ _ _ _
    | with_reducible exact grows_select _ _ _ _ _
    | with_reducible exact grows_register_result _ _
    | with_reducible apply grows_bind
    | with_reducible intro _
    | split

theorem grows_select_opcode (type_of : TypeOf) (entry : IselTableEntry) (args : List Node) :
    Emit.grows (select_opcode type_of entry args) := by
  unfold select_opcode
  repeat' first
    | with_reducible exact grows_pure _
    | with_reducible exact grows_fault _
    | with_reducible exact grows_node_at _ _
    | with_reducible exact grows_of_except _
    | with_reducible apply grows_bind
    | with_reducible intro _
    | split

theorem grows_result_type (type_of : TypeOf) (entry : IselTableEntry) (args : List Node) :
    Emit.grows (result_type type_of entry args) := by
  unfold result_type
  repeat' first
    | with_reducible exact grows_pure _
    | with_reducible exact grows_fault _
    | with_reducible exact grows_node_at _ _
    | with_reducible exact grows_of_except _
    | with_reducible apply grows_bind
    | with_reducible intro _
    | split

theorem grows_emit_primop (type_of : TypeOf) (fuel : Nat) (fn_builder : FnBuilder)
    (bb_builder : BBBuilder) (instr : Node) (variables_ : List Node) :
    Emit.grows (emit_primop type_of fuel fn_builder bb_builder instr variables_) := by
  unfold emit_primop
  split
  · dsimp only
    repeat' first
      | with_reducible exact grows_pure _
      | with_reducible exact grows_fault _
      | with_reducible exact grows_node_at _ _
      | with_reducible exact grows_id_at _ _
      | with_reducible exact grows_emit_operands _ _ _
      | with_reducible exact grows_select_opcode _ _ _
      | with_reducible exact grows_result_type _ _ _
      | with_reducible exact grows_emit_primop_custom _ _ _ _ _ _ _ _
      | with_reducible exact grows_emit_type _ _ _
      | with_reducible exact grows_unop _ _ _ _
      | with_reducible exact grows_binop _ _ _ _ _
      | with_reducible exact grows_register_result _ _
      | with_reducible apply grows_bind
      | with_reducible intro _
      | split
  · exact grows_fault _

theorem grows_emit_extracts (type_of : TypeOf) (fuel : Nat) (bb_builder : BBBuilder)
    (result : SpvId) (variables_ : List Node) (i : Nat) :
    Emit.grows (emit_extracts type_of fuel bb_builder result variables_ i) := by
  induction variables_ generalizing i with
  | nil => exact grows_pure _
  | cons v vs ih =>
    unfold emit_extracts
    repeat' first
      | with_reducible exact grows_pure _
      | with_reducible exact grows_fault _
      | with_reducible exact ih _
      | with_reducible exact grows_emit_type _ _ _
      | with_reducible exact grows_extract _ _ _ _
      | with_reducible exact grows_register_result _ _
      | with_reducible apply grows_bind
      | with_reducible intro _
      | split

theorem grows_emit_call (type_of : TypeOf) (fuel : Nat) (bb_builder : BBBuilder) (callee : Node)
    (args variables_ : List Node) :
    Emit.grows (emit_call type_of fuel bb_builder callee args variables_) := by
  unfold emit_call
  repeat' first
    | with_reducible exact grows_pure _
    | with_reducible exact grows_fault _
    | with_reducible exact grows_of_except _
    | with_reducible exact grows_nodes_to_codom _ (grows_emit_type _ _) _
    | with_reducible exact grows_emit_value _ _ _ _
    | with_reducible exact grows_emit_values _ _ _
    | with_reducible exact grows_call _ _ _ _
    | with_reducible exact grows_register_result _ _
    | with_reducible exact grows_emit_extracts _ _ _ _ _ _
    | with_reducible apply grows_bind
    | with_reducible intro _
    | split

theorem grows_emit_if (type_of : TypeOf) (fuel : Nat)
    (emit_block : FnBuilder → BBBuilder → MergeTargets → Node → Emit Unit)
    (hb : ∀ f b m n, Emit.grows (emit_block f b m n))
    (fn_builder : FnBuilder) (bb_builder : BBBuilder) (merge_targets : MergeTargets)
    (yield_types : List Node) (condition if_true if_false : Node) :
    Emit.grows (emit_if type_of fuel emit_block fn_builder bb_builder merge_targets yield_types
      condition if_true if_false) := by
  unfold emit_if
  repeat' first
    | with_reducible exact grows_pure _
    | with_reducible exact grows_fault _
    | with_reducible exact grows_fresh_id
    | with_reducible exact hb _ _ _ _
    | with_reducible exact grows_emit_value _ _ _ _
    | with_reducible exact grows_selection_merge _ _
    | with_reducible exact grows_branch_conditional _ _ _ _
    | with_reducible apply grows_bind
    | with_reducible intro _
    | split

theorem grows_emit_match_literals (type_of : TypeOf) (fuel : Nat) (cases literals : List Node) :
    Emit.grows (emit_match_literals type_of fuel cases literals) := by
  induction cases generalizing literals with
  | nil => exact grows_pure _
  | cons c cs ih =>
    unfold emit_match_literals
    repeat' first
      | with_reducible exact grows_pure _
      | with_reducible exact grows_fault _
      | with_reducible exact grows_fresh_id
      | with_reducible exact ih _
      | with_reducible exact grows_emit_value _ _ _ _
      | with_reducible apply grows_bind
      | with_reducible intro _
      | split

theorem grows_emit_match_cases
    (emit_block : FnBuilder → BBBuilder → MergeTargets → Node → Emit Unit)
    (hb : ∀ f b m n, Emit.grows (emit_block f b m n))
    (fn_builder : FnBuilder) (mt : MergeTargets) (cases : List Node)
    (pairs : List (SpvId × SpvId)) :
    Emit.grows (emit_match_cases emit_block fn_builder mt cases pairs) := by
  induction cases generalizing pairs with
  | nil =>
    unfold emit_match_cases
    exact grows_pure _
  | cons c cs ih =>
    cases pairs with
    | nil => exact grows_fault _
    | cons p ps =>
      unfold emit_match_cases
      exact grows_bind _ _ (hb _ _ _ _) (fun _ => ih _)

theorem grows_emit_match (type_of : TypeOf) (fuel : Nat)
    (emit_block : FnBuilder → BBBuilder → MergeTargets → Node → Emit Unit)
    (hb : ∀ f b m n, Emit.grows (emit_block f b m n))
    (fn_builder : FnBuilder) (bb_builder : BBBuilder) (merge_targets : MergeTargets)
    (yield_types : List Node) (inspect : Node) (literals cases : List Node)
    (default_case : Node) :
    Emit.grows (emit_match type_of fuel emit_block fn_builder bb_builder merge_targets
      yield_types inspect literals cases default_case) := by
  unfold emit_match
  repeat' first
    | with_reducible exact grows_pure _
    | with_reducible exact grows_fault _
    | with_reducible exact grows_fresh_id
    | with_reducible exact hb _ _ _ _
    | with_reducible exact grows_emit_match_literals _ _ _ _
    | with_reducible exact grows_emit_match_cases _ hb _ _ _ _
    | with_reducible exact grows_emit_value _ _ _ _
    | with_reducible exact grows_selection_merge _ _
    | with_reducible exact grows_switch _ _ _ _
    | with_reducible apply grows_bind
    | with_reducible intro _
    | split

theorem grows_emit_loop
    (emit_block : FnBuilder → BBBuilder → MergeTargets → Node → Emit Unit)
    (hb : ∀ f b m n, Emit.grows (emit_block f b m n))
    (fn_builder : FnBuilder) (bb_builder : BBBuilder) (merge_targets : MergeTargets)
    (params yield_types : List Node) (body : Node) :
    Emit.grows (emit_loop emit_block fn_builder bb_builder merge_targets params yield_types
      body) := by
  unfold emit_loop
  repeat' first
    | with_reducible exact grows_pure _
    | with_reducible exact grows_fault _
    | with_reducible exact grows_fresh_id
    | with_reducible exact hb _ _ _ _
    | with_reducible exact grows_branch _ _
    | with_reducible exact grows_loop_merge _ _ _
    | with_reducible exact grows_name _ _
    | with_reducible apply grows_bind
    | with_reducible intro _
    | split

theorem grows_emit_instruction_switch (type_of : TypeOf) (fuel : Nat)
    (emit_block : FnBuilder → BBBuilder → MergeTargets → Node → Emit Unit)
    (hb : ∀ f b m n, Emit.grows (emit_block f b m n))
    (fn_builder : FnBuilder) (bb_builder : BBBuilder) (merge_targets : MergeTargets)
    (instruction : Node) (variables_ : List Node) :
    Emit.grows (emit_instruction_switch type_of fuel emit_block fn_builder bb_builder
      merge_targets instruction variables_) := by
  unfold emit_instruction_switch
  split
  · exact grows_bind _ _ (grows_emit_primop _ _ _ _ _ _) (fun _ => grows_pure _)
  · exact grows_bind _ _ (grows_emit_call _ _ _ _ _ _) (fun _ => grows_pure _)
  · exact grows_emit_if _ _ _ hb _ _ _ _ _ _ _
  · exact grows_emit_match _ _ _ hb _ _ _ _ _ _ _ _
  · exact grows_emit_loop _ hb _ _ _ _ _ _
  · exact grows_fault _

theorem grows_emit_instruction (type_of : TypeOf) (fuel : Nat)
    (emit_block : FnBuilder → BBBuilder → MergeTargets → Node → Emit Unit)
    (hb : ∀ f b m n, Emit.grows (emit_block f b m n))
    (fn_builder : FnBuilder) (bb_builder : BBBuilder) (merge_targets : MergeTargets)
    (instruction : Node) :
    Emit.grows (emit_instruction type_of fuel emit_block fn_builder bb_builder merge_targets
      instruction) := by
  unfold emit_instruction
  repeat' first
    | with_reducible exact grows_fault _
    | with_reducible exact grows_emit_instruction_switch _ _ _ hb _ _ _ _ _
    | split

theorem grows_emit_terminator (type_of : TypeOf) (fuel : Nat) (fn_builder : FnBuilder)
    (bb : BBBuilder) (merge_targets : MergeTargets) (terminator : Node) :
    Emit.grows (emit_terminator type_of fuel fn_builder bb merge_targets terminator) := by
  unfold emit_terminator
  repeat' first
    | with_reducible exact grows_pure _
    | with_reducible exact grows_fault _
    | with_reducible exact grows_return_void _
    | with_reducible exact grows_return_value _ _
    | with_reducible exact grows_branch _ _
    | with_reducible exact grows_branch_conditional _ _ _ _
    | with_reducible exact grows_unreachable _
    | with_reducible exact grows_emit_value _ _ _ _
    | with_reducible exact grows_emit_values _ _ _
    | with_reducible exact grows_fn_ret_type_id _
    | with_reducible exact grows_composite _ _ _
    | with_reducible exact grows_find_reserved_id _
    | with_reducible apply grows_bind
    | with_reducible intro _
    | split

theorem grows_emit_instructions (type_of : TypeOf) (fuel : Nat)
    (emit_block : FnBuilder → BBBuilder → MergeTargets → Node → Emit Unit)
    (hb : ∀ f b m n, Emit.grows (emit_block f b m n))
    (fn_builder : FnBuilder) (merge_targets : MergeTargets) (bb : BBBuilder)
    (instructions : List Node) :
    Emit.grows (emit_instructions type_of fuel emit_block fn_builder merge_targets bb
      instructions) := by
  induction instructions generalizing bb with
  | nil => exact grows_pure _
  | cons i is ih =>
    unfold emit_instructions
    exact grows_bind _ _ (grows_emit_instruction _ _ _ hb _ _ _ _) (fun _ => ih _)

theorem grows_emit_block_body (type_of : TypeOf) (fuel : Nat)
    (emit_block : FnBuilder → BBBuilder → MergeTargets → Node → Emit Unit)
    (hb : ∀ f b m n, Emit.grows (emit_block f b m n))
    (fn_builder : FnBuilder) (bb : BBBuilder) (merge_targets : MergeTargets) (node : Node) :
    Emit.grows (emit_block_body type_of fuel emit_block fn_builder bb merge_targets node) := by
  unfold emit_block_body
  split
  · exact grows_fault _
  · exact grows_bind _ _ (grows_emit_instructions _ _ _ hb _ _ _ _)
      (fun _ => grows_emit_terminator _ _ _ _ _ _)
  · exact grows_fault _

theorem grows_emit_block (type_of : TypeOf) (fuel : Nat) (fn_builder : FnBuilder)
    (bb : BBBuilder) (merge_targets : MergeTargets) (node : Node) :
    Emit.grows (emit_block type_of fuel fn_builder bb merge_targets node) := by
  induction fuel generalizing fn_builder bb merge_targets node with
  | zero => exact grows_fault _
  | succ fuel ih => exact grows_emit_block_body _ _ _ ih _ _ _ _

theorem grows_emit_dominated (emit_basic_block : CFNode → Emit Unit)
    (h : ∀ c, Emit.grows (emit_basic_block c)) (children : List CFNode) :
    Emit.grows (emit_dominated emit_basic_block children) := by
  induction children with
  | nil => exact grows_pure _
  | cons c cs ih =>
    unfold emit_dominated
    exact grows_bind _ _ (h c) (fun _ => ih)

theorem grows_emit_basic_block (type_of : TypeOf) (deref : Deref) (fuel : Nat)
    (fn_builder : FnBuilder) (node : CFNode) (is_entry : Bool) :
    Emit.grows (emit_basic_block type_of deref fuel fn_builder node is_entry) := by
  induction fuel generalizing fn_builder node is_entry with
  | zero => exact grows_fault _
  | succ fuel ih =>
    cases node with
    | mk n dominates =>
      unfold emit_basic_block
      split
      · exact grows_fault _
      · refine grows_bind _ _ ?_ (fun _ => grows_bind _ _ (grows_declare _)
          (fun _ => grows_bind _ _ (grows_emit_block _ _ _ _ _ _)
            (fun _ => grows_emit_dominated _ (fun c => ih _ c _) _)))
        split
        · exact grows_fresh_id
        · exact grows_find_reserved_id _

theorem grows_emit_parameters (type_of : TypeOf) (fuel : Nat) (fn_builder : FnBuilder)
    (params : List Node) : Emit.grows (emit_parameters type_of fuel fn_builder params) := by
  induction params with
  | nil => exact grows_pure _
  | cons p ps ih =>
    unfold emit_parameters
    split
    · exact grows_bind _ _ (grows_emit_type _ _ _)
        (fun _ => grows_bind _ _ (grows_parameter _ _)
          (fun _ => grows_bind _ _ (grows_insert_node_id _ _) (fun _ => ih)))
    · exact grows_fault _

theorem grows_emit_function (type_of : TypeOf) (deref : Deref) (build_scope : Node → Scope)
    (fuel : Nat) (node : Node) :
    Emit.grows (emit_function type_of deref build_scope fuel node) := by
  unfold emit_function
  split
  · exact grows_fault _
  · exact grows_bind _ _ (grows_find_reserved_id _)
      (fun _ => grows_bind _ _ (grows_emit_type _ _ _)
        (fun _ => grows_bind _ _ (grows_nodes_to_codom _ (grows_emit_type _ _) _)
          (fun _ => grows_bind _ _ (grows_begin_fn _ _ _)
            (fun _ => grows_bind _ _ (grows_emit_parameters _ _ _ _)
              (fun _ => grows_bind _ _ (grows_emit_basic_block _ _ _ _ _ _)
                (fun _ => grows_declare _))))))

theorem grows_reserve_ids (decls : List Node) : Emit.grows (reserve_ids decls) := by
  induction decls with
  | nil => exact grows_pure _
  | cons d ds ih =>
    unfold reserve_ids
    exact grows_bind _ _ grows_fresh_id
      (fun _ => grows_bind _ _ (grows_insert_node_id _ _)
        (fun _ => grows_bind _ _ ih (fun _ => grows_pure _)))

theorem grows_emit_declaration (type_of : TypeOf) (deref : Deref) (build_scope : Node → Scope)
    (fuel : Nat) (decl : Node) (id : SpvId) :
    Emit.grows (emit_declaration type_of deref build_scope fuel decl id) := by
  unfold emit_declaration
  repeat' first
    | with_reducible exact grows_pure _
    | with_reducible exact grows_fault _
    | with_reducible exact grows_emit_value _ _ _ _
    | with_reducible exact grows_emit_type _ _ _
    | with_reducible exact grows_of_except _
    | with_reducible exact grows_global_variable _ _ _ _
    | with_reducible exact grows_name _ _
    | with_reducible exact grows_emit_function _ _ _ _ _
    | with_reducible apply grows_bind
    | with_reducible intro _
    | split

theorem grows_emit_declarations (type_of : TypeOf) (deref : Deref) (build_scope : Node → Scope)
    (fuel : Nat) (decls : List Node) (ids : List SpvId) :
    Emit.grows (emit_declarations type_of deref build_scope fuel decls ids) := by
  induction decls generalizing ids with
  | nil =>
    unfold emit_declarations
    exact grows_pure _
  | cons d ds ih =>
    cases ids with
    | nil => exact grows_fault _
    | cons i is =>
      unfold emit_declarations
      exact grows_bind _ _ (grows_emit_declaration _ _ _ _ _ _) (fun _ => ih _)

/-! ### Structured control flow -/

/-- C23: for an `If` without yield types, in the emitter `e`, with the current
block `bb_builder` and the merge targets `merge_targets`: `emit_if` allocates
the fresh ids `next = e.bound` and `true_id = e.bound + 1`, and
`false_id = e.bound + 2` when there is an else block; these ids are pairwise
different.  When the condition is emitted (to the id `cond`), the current
block gets `OpSelectionMerge next` and then
`OpBranchConditional cond true_id F`, where `F` is `false_id` with an else
block and `next` without; these are the only instructions appended before the
blocks.  Then the true block is emitted in the block `true_id`, and after it
the else block in the block `false_id`, both with the merge targets received
except for `join_target = next`; when these emissions return, `emit_if`
returns the block `next` as the current block. -/
theorem emit_if_selection (type_of : TypeOf) (fuel : Nat)
    (emit_block : FnBuilder → BBBuilder → MergeTargets → Node → Emit Unit)
    (fn_builder : FnBuilder) (bb_builder : BBBuilder) (merge_targets : MergeTargets)
    (condition if_true if_false : Node) (e e3 : Emitter) (cond : SpvId)
    (hcond : emit_value type_of fuel condition none
      { e with
        bound := if if_false.is_null then e.bound + 2 else e.bound + 3
        instructions := e.instructions ++ [(bb_builder, .selection_merge e.bound)] } =
      .ok (cond, e3)) :
    e.bound ≠ e.bound + 1 ∧ e.bound ≠ e.bound + 2 ∧ e.bound + 1 ≠ e.bound + 2 ∧
    e3.instructions ++
        [(bb_builder, .branch_conditional cond (e.bound + 1)
          (if if_false.is_null then e.bound else e.bound + 2))] =
      e.instructions ++
        [(bb_builder, .selection_merge e.bound),
         (bb_builder, .branch_conditional cond (e.bound + 1)
          (if if_false.is_null then e.bound else e.bound + 2))] ∧
    (∀ e5,
      emit_block fn_builder (e.bound + 1) { merge_targets with join_target := e.bound } if_true
        { e3 with instructions := e3.instructions ++
          [(bb_builder, .branch_conditional cond (e.bound + 1)
            (if if_false.is_null then e.bound else e.bound + 2))] } = .ok ((), e5) →
      (if_false.is_null = true →
        emit_if type_of fuel emit_block fn_builder bb_builder merge_targets [] condition if_true
          if_false e = .ok (e.bound, e5)) ∧
      (if_false.is_null = false → ∀ e6,
        emit_block fn_builder (e.bound + 2) { merge_targets with join_target := e.bound }
          if_false e5 = .ok ((), e6) →
        emit_if type_of fuel emit_block fn_builder bb_builder merge_targets [] condition if_true
          if_false e = .ok (e.bound, e6))) := by
  have hinstr := (frames_emit_value type_of fuel condition none _ cond e3 hcond).1
  refine ⟨Nat.ne_of_lt (by simp), Nat.ne_of_lt (by simp), Nat.ne_of_lt (by simp), ?_, ?_⟩
  · rw [hinstr]
    simp
  · intro e5 htrue
    constructor
    · intro hnull
      rw [hnull] at hcond htrue
      simp only [↓reduceIte] at hcond htrue
      unfold emit_if
      simp only [List.length_nil, ne_eq, not_true_eq_false, ↓reduceIte, hnull, spvb_begin_bb]
      rw [Emit.then_ok _ _ e e.bound { e with bound := e.bound + 1 } rfl]
      rw [Emit.then_ok _ _ _ (e.bound + 1) { e with bound := e.bound + 2 } rfl]
      rw [Emit.then_ok _ _ _ e.bound { e with bound := e.bound + 2 } rfl]
      rw [Emit.then_ok _ _ _ () { e with
        bound := e.bound + 2
        instructions := e.instructions ++ [(bb_builder, .selection_merge e.bound)] } rfl]
      rw [Emit.then_ok _ _ _ cond e3 hcond]
      rw [Emit.then_ok _ _ e3 () { e3 with instructions := e3.instructions ++
          [(bb_builder, .branch_conditional cond (e.bound + 1) e.bound)] } rfl]
      rw [Emit.then_ok _ _ _ () e5 htrue]
      rfl
    · intro hnull e6 hfalse
      rw [hnull] at hcond htrue
      simp only [Bool.false_eq_true, ↓reduceIte] at hcond htrue
      unfold emit_if
      simp only [List.length_nil, ne_eq, not_true_eq_false, ↓reduceIte, hnull,
        Bool.false_eq_true, spvb_begin_bb]
      rw [Emit.then_ok _ _ e e.bound { e with bound := e.bound + 1 } rfl]
      rw [Emit.then_ok _ _ _ (e.bound + 1) { e with bound := e.bound + 2 } rfl]
      rw [Emit.then_ok _ _ _ (e.bound + 2) { e with bound := e.bound + 3 } rfl]
      rw [Emit.then_ok _ _ _ () { e with
        bound := e.bound + 3
        instructions := e.instructions ++ [(bb_builder, .selection_merge e.bound)] } rfl]
      rw [Emit.then_ok _ _ _ cond e3 hcond]
      rw [Emit.then_ok _ _ e3 () { e3 with instructions := e3.instructions ++
          [(bb_builder, .branch_conditional cond (e.bound + 1) (e.bound + 2))] } rfl]
      rw [Emit.then_ok _ _ _ () e5 htrue]
      rw [Emit.then_ok _ _ _ () e6 hfalse]
      rfl

/-- Witness of C23: `if (b) { }` without else block in the example emitter, with
the current block 10: `next` is 4 and `true_id` is 5; the current block gets
`OpSelectionMerge 4` and `OpBranchConditional 2 5 4` (2 is the id of `b`), the
true block 5 gets the `OpBranch 4` of its `Selection` merge, and the block 4
is the current block afterwards. -/
theorem emit_if_selection_witness :
    emit_if example_type_of 3 (emit_block example_type_of 2) 0 10
        { continue_target := 0, break_target := 0, join_target := 0 } [] example_b
        (.block [] (.merge_construct .Selection [])) .null example_emitter =
      .ok (4, { example_emitter with
        bound := 6
        instructions :=
          [(10, .selection_merge 4), (10, .branch_conditional 2 5 4), (5, .branch 4)] }) :=
  ((emit_if_selection example_type_of 3 (emit_block example_type_of 2) 0 10
    { continue_target := 0, break_target := 0, join_target := 0 } example_b
    (.block [] (.merge_construct .Selection [])) .null example_emitter
    { example_emitter with bound := 6, instructions := [(10, .selection_merge 4)] } 2
    rfl).2.2.2.2 _ rfl).1 rfl

/-- C24: for a `Loop` without parameters and yield types, in the emitter `e`,
with the current block `bb_builder`: `emit_loop` allocates the four fresh,
pairwise different ids `header = e.bound`, `body = e.bound + 1`,
`continue = e.bound + 2` and `next = e.bound + 3`; it appends `OpBranch header`
to the current block and `OpLoopMerge next continue`, `OpBranch body` to the
header block, and names the header; then the body is emitted in the block
`body` with the merge targets received except for
`continue_target = continue` and `break_target = next`; when this emission
returns, `emit_loop` appends the one instruction `OpBranch header` to the
continue block (and the names of the other three blocks), and returns the
block `next` as the current block. -/
theorem emit_loop_blocks
    (emit_block : FnBuilder → BBBuilder → MergeTargets → Node → Emit Unit)
    (fn_builder : FnBuilder) (bb_builder : BBBuilder) (merge_targets : MergeTargets)
    (body : Node) (e e5 : Emitter)
    (hbody : emit_block fn_builder (e.bound + 1)
      { merge_targets with continue_target := e.bound + 2, break_target := e.bound + 3 } body
      { e with
        bound := e.bound + 4
        instructions := e.instructions ++
          [(bb_builder, .branch e.bound), (e.bound, .loop_merge (e.bound + 3) (e.bound + 2)),
           (e.bound, .branch (e.bound + 1))]
        declarations := e.declarations ++ [.name e.bound "loop_header"] } = .ok ((), e5)) :
    [e.bound, e.bound + 1, e.bound + 2, e.bound + 3].Nodup ∧
    emit_loop emit_block fn_builder bb_builder merge_targets [] [] body e =
      .ok (e.bound + 3, { e5 with
        instructions := e5.instructions ++ [(e.bound + 2, .branch e.bound)]
        declarations := e5.declarations ++
          [.name (e.bound + 1) "loop_body", .name (e.bound + 2) "loop_continue",
           .name (e.bound + 3) "loop_next"] }) := by
  constructor
  · simp
  · unfold emit_loop
    simp only [List.length_nil, ne_eq, not_true_eq_false, ↓reduceIte, spvb_begin_bb]
    rw [Emit.then_ok _ _ e e.bound { e with bound := e.bound + 1 } rfl]
    rw [Emit.then_ok _ _ _ (e.bound + 1) { e with bound := e.bound + 2 } rfl]
    rw [Emit.then_ok _ _ _ (e.bound + 2) { e with bound := e.bound + 3 } rfl]
    rw [Emit.then_ok _ _ _ (e.bound + 3) { e with bound := e.bound + 4 } rfl]
    rw [Emit.then_ok _ _ _ () { e with
      bound := e.bound + 4
      instructions := e.instructions ++ [(bb_builder, .branch e.bound)] } rfl]
    rw [Emit.then_ok _ _ _ () { e with
      bound := e.bound + 4
      instructions := e.instructions ++ [(bb_builder, .branch e.bound)] ++
        [(e.bound, .loop_merge (e.bound + 3) (e.bound + 2))] } rfl]
    rw [Emit.then_ok _ _ _ () { e with
      bound := e.bound + 4
      instructions := e.instructions ++ [(bb_builder, .branch e.bound)] ++
        [(e.bound, .loop_merge (e.bound + 3) (e.bound + 2))] ++
        [(e.bound, .branch (e.bound + 1))] } rfl]
    rw [Emit.then_ok _ _ _ () { e with
      bound := e.bound + 4
      instructions := e.instructions ++ [(bb_builder, .branch e.bound)] ++
        [(e.bound, .loop_merge (e.bound + 3) (e.bound + 2))] ++
        [(e.bound, .branch (e.bound + 1))]
      declarations := e.declarations ++ [.name e.bound "loop_header"] } rfl]
    have hbody1 : emit_block fn_builder (e.bound + 1)
        { merge_targets with continue_target := e.bound + 2, break_target := e.bound + 3 } body
        { e with
          bound := e.bound + 4
          instructions := e.instructions ++ [(bb_builder, .branch e.bound)] ++
            [(e.bound, .loop_merge (e.bound + 3) (e.bound + 2))] ++
            [(e.bound, .branch (e.bound + 1))]
          declarations := e.declarations ++ [.name e.bound "loop_header"] } = .ok ((), e5) := by
      rw [← hbody]
      simp only [List.append_assoc, List.singleton_append, List.cons_append, List.nil_append]
    rw [Emit.then_ok _ _ _ () e5 hbody1]
    show Except.ok _ = Except.ok _
    simp only [List.append_assoc, List.singleton_append, List.cons_append, List.nil_append]

/-- Witness of C24: `loop { break }` in the example emitter, with the current
block 10: header 4, body 5, continue 6, next 7; the `Break` of the body is the
`OpBranch 7` of the block 5. -/
theorem emit_loop_blocks_witness :
    emit_loop (emit_block example_type_of 2) 0 10
        { continue_target := 0, break_target := 0, join_target := 0 } [] []
        (.block [] (.merge_construct .Break [])) example_emitter =
      .ok (7, { example_emitter with
        bound := 8
        instructions :=
          [(10, .branch 4), (4, .loop_merge 7 6), (4, .branch 5), (5, .branch 7),
           (6, .branch 4)]
        declarations :=
          [.name 4 "loop_header", .name 5 "loop_body", .name 6 "loop_continue",
           .name 7 "loop_next"] }) :=
  (emit_loop_blocks (emit_block example_type_of 2) 0 10
    { continue_target := 0, break_target := 0, join_target := 0 }
    (.block [] (.merge_construct .Break [])) example_emitter _ rfl).2

/-! ### `emit_match` -/

theorem frames_emit_match_literals (type_of : TypeOf) (fuel : Nat) (cases literals : List Node) :
    Emit.frames (emit_match_literals type_of fuel cases literals) := by
  induction cases generalizing literals with
  | nil => exact frames_pure _
  | cons c cs ih =>
    unfold emit_match_literals
    refine frames_bind _ _ frames_fresh_id (fun _ => frames_bind _ _ frames_fresh_id (fun _ => ?_))
    split
    · exact frames_fault _
    · exact frames_bind _ _ (frames_emit_value _ _ _ _)
        (fun _ => frames_bind _ _ (ih _) (fun _ => frames_pure _))

/-- What `emit_value` has done when it returns from a call with a supplied id:
the node is a literal, and its constant under this id is the last declaration. -/
theorem emit_value_use_id (type_of : TypeOf) (fuel : Nat) (v : Node) (id r : SpvId)
    (e e1 : Emitter) (h : emit_value type_of fuel v (some id) e = .ok (r, e1)) :
    r = id ∧ ∃ (ty : SpvId) (d : SpvDecl) (e0 : Emitter), constant_of v id ty = some d ∧
      e1.declarations = e0.declarations ++ [d] := by
  obtain ⟨f, rfl⟩ := fuel_of_emit_value type_of fuel v (some id) e e1 r h
  rw [emit_value_succ] at h
  unfold emit_value_body at h
  split at h
  · cases h
  · simp only [Option.isNone_some, Bool.false_eq_true, ↓reduceIte] at h
    obtain ⟨new, e2, h1, h2⟩ := Emit.then_inv _ _ _ _ _ h
    cases h1
    obtain ⟨u, e3, _, h4⟩ := Emit.then_inv _ _ _ _ _ h2
    obtain ⟨u2, e4, h5, h6⟩ := Emit.then_inv _ _ _ _ _ h4
    cases h6
    refine ⟨rfl, ?_⟩
    cases v with
    | int_literal width value =>
      unfold emit_constant at h5
      obtain ⟨ty, e5, _, h8⟩ := Emit.then_inv _ _ _ _ _ h5
      by_cases hw : width = IntSizes.IntTy64
      · simp only [hw, ↓reduceIte] at h8
        cases h8
        exact ⟨ty, _, e5, rfl, by simp [constant_of, hw]⟩
      · simp only [hw, ↓reduceIte] at h8
        cases h8
        exact ⟨ty, _, e5, rfl, by simp [constant_of, hw]⟩
    | true_lit =>
      unfold emit_constant at h5
      obtain ⟨ty, e5, _, h8⟩ := Emit.then_inv _ _ _ _ _ h5
      cases h8
      exact ⟨ty, _, e5, rfl, rfl⟩
    | false_lit =>
      unfold emit_constant at h5
      obtain ⟨ty, e5, _, h8⟩ := Emit.then_inv _ _ _ _ _ h5
      cases h8
      exact ⟨ty, _, e5, rfl, rfl⟩
    | _ => cases h5

/-- The ids that the first loop of `emit_match` allocates: for case `i` the id
of the literal and the id of the label, which is the next id; all of them are
fresh, and the ids of a later case are above those of an earlier case. -/
theorem emit_match_literals_ids (type_of : TypeOf) (fuel : Nat) (cases literals : List Node)
    (e e1 : Emitter) (pairs : List (SpvId × SpvId))
    (h : emit_match_literals type_of fuel cases literals e = .ok (pairs, e1)) :
    pairs.length = cases.length ∧ (e.bound : Nat) ≤ e1.bound ∧
    (∀ p, p ∈ pairs → (e.bound : Nat) ≤ p.1 ∧ (p.2 : Nat) = p.1 + 1 ∧ (p.2 : Nat) < e1.bound) ∧
    pairs.Pairwise (fun p q => (p.2 : Nat) < q.1) := by
  induction cases generalizing literals e e1 pairs with
  | nil =>
    cases h
    exact ⟨rfl, Nat.le_refl _, fun _ hp => absurd hp (List.not_mem_nil _), List.Pairwise.nil⟩
  | cons c cs ih =>
    unfold emit_match_literals at h
    obtain ⟨lit, e2, h1, h2⟩ := Emit.then_inv _ _ _ _ _ h
    cases h1
    obtain ⟨lab, e3, h3, h4⟩ := Emit.then_inv _ _ _ _ _ h2
    cases h3
    cases literals with
    | nil => cases h4
    | cons l ls =>
      obtain ⟨r, e4, h5, h6⟩ := Emit.then_inv _ _ _ _ _ h4
      obtain ⟨rest, e5, h7, h8⟩ := Emit.then_inv _ _ _ _ _ h6
      cases h8
      have hg1 : (e.bound : Nat) + 1 + 1 ≤ e4.bound :=
        (grows_emit_value type_of fuel l (some e.bound) _ r e4 h5).1
      obtain ⟨hlen, hle, hmem, hpw⟩ := ih ls e4 e1 rest h7
      refine ⟨by simp [hlen], by unfold SpvId at *; omega, ?_, ?_⟩
      · intro p hp
        rcases List.mem_cons.mp hp with rfl | hp
        · refine ⟨Nat.le_refl _, rfl, ?_⟩
          show (e.bound : Nat) + 1 < e1.bound
          unfold SpvId at *
          omega
        · obtain ⟨a, b, c⟩ := hmem p hp
          exact ⟨by unfold SpvId at *; omega, b, c⟩
      · refine List.Pairwise.cons ?_ hpw
        intro q hq
        obtain ⟨a, _, _⟩ := hmem q hq
        show (e.bound : Nat) + 1 < q.1
        unfold SpvId at *
        omega

/-- Every literal of a `Match` is emitted as a constant under the id that was
allocated for it. -/
theorem emit_match_literals_constants (type_of : TypeOf) (fuel : Nat)
    (cases literals : List Node) (e e1 : Emitter) (pairs : List (SpvId × SpvId))
    (h : emit_match_literals type_of fuel cases literals e = .ok (pairs, e1)) :
    ∀ i p, pairs.get? i = some p →
      ∃ l ty d, literals.get? i = some l ∧ constant_of l p.1 ty = some d ∧
        d ∈ e1.declarations := by
  induction cases generalizing literals e e1 pairs with
  | nil =>
    cases h
    intro i p hp
    cases hp
  | cons c cs ih =>
    unfold emit_match_literals at h
    obtain ⟨lit, e2, h1, h2⟩ := Emit.then_inv _ _ _ _ _ h
    cases h1
    obtain ⟨lab, e3, h3, h4⟩ := Emit.then_inv _ _ _ _ _ h2
    cases h3
    cases literals with
    | nil => cases h4
    | cons l ls =>
      obtain ⟨r, e4, h5, h6⟩ := Emit.then_inv _ _ _ _ _ h4
      obtain ⟨rest, e5, h7, h8⟩ := Emit.then_inv _ _ _ _ _ h6
      cases h8
      intro i p hp
      cases i with
      | zero =>
        cases hp
        obtain ⟨_, ty, d, e0, hd, hdecl⟩ := emit_value_use_id type_of fuel l e.bound r _ e4 h5
        refine ⟨l, ty, d, rfl, hd, ?_⟩
        have hpre := (grows_emit_match_literals type_of fuel cs ls e4 rest e1 h7).2.1
        apply hpre.subset
        rw [hdecl]
        simp
      | succ i => exact ih ls e4 e1 rest h7 i p hp

/-- C25: for a `Match` without yield types, in the emitter `e`, with the
current block `bb_builder`: `emit_match` allocates `next = e.bound` and the
default label `e.bound + 1`, and then for each case in order an id for the
literal and an id for the label, emitting the literal `i` as a constant under
the id allocated for it (the list `pairs` holds these ids, one pair per case).
When the inspected value is emitted (to `inspectee`), the current block gets
`OpSelectionMerge next` and one `OpSwitch` on `inspectee` with the default
label and the words `literal id, label` of the cases in order; `next`, the
default label and the labels are pairwise different.  Then case `i` is
emitted in the block of label `i` and the default case in the block of the
default label, all with the merge targets received except for
`join_target = next`; when these emissions return, `emit_match` returns the
block `next` as the current block. -/
theorem emit_match_switch (type_of : TypeOf) (fuel : Nat)
    (emit_block : FnBuilder → BBBuilder → MergeTargets → Node → Emit Unit)
    (fn_builder : FnBuilder) (bb_builder : BBBuilder) (merge_targets : MergeTargets)
    (inspect : Node) (literals cases : List Node) (default_case : Node) (e e3 e5 : Emitter)
    (pairs : List (SpvId × SpvId)) (inspectee : SpvId)
    (hlits : emit_match_literals type_of fuel cases literals { e with bound := e.bound + 2 } =
      .ok (pairs, e3))
    (hinspect : emit_value type_of fuel inspect none
      { e3 with instructions := e3.instructions ++ [(bb_builder, .selection_merge e.bound)] } =
      .ok (inspectee, e5)) :
    pairs.length = cases.length ∧
    (∀ i p, pairs.get? i = some p →
      ∃ l ty d, literals.get? i = some l ∧ constant_of l p.1 ty = some d ∧
        d ∈ e3.declarations) ∧
    (e.bound :: (e.bound + 1) :: pairs.map Prod.snd).Nodup ∧
    e5.instructions ++
        [(bb_builder, .switch inspectee (e.bound + 1) (flatten_pairs pairs))] =
      e.instructions ++
        [(bb_builder, .selection_merge e.bound),
         (bb_builder, .switch inspectee (e.bound + 1) (flatten_pairs pairs))] ∧
    (∀ c cs p ps,
      emit_match_cases emit_block fn_builder { merge_targets with join_target := e.bound }
          (c :: cs) (p :: ps) =
        (emit_block fn_builder p.2 { merge_targets with join_target := e.bound } c >>= fun _ =>
          emit_match_cases emit_block fn_builder { merge_targets with join_target := e.bound }
            cs ps)) ∧
    (∀ e7 e8,
      emit_match_cases emit_block fn_builder { merge_targets with join_target := e.bound } cases
        pairs
        { e5 with instructions := e5.instructions ++
          [(bb_builder, .switch inspectee (e.bound + 1) (flatten_pairs pairs))] } =
        .ok ((), e7) →
      emit_block fn_builder (e.bound + 1) { merge_targets with join_target := e.bound }
        default_case e7 = .ok ((), e8) →
      emit_match type_of fuel emit_block fn_builder bb_builder merge_targets [] inspect literals
        cases default_case e = .ok (e.bound, e8)) := by
  obtain ⟨hlen, _, hmem, hpw⟩ :=
    emit_match_literals_ids type_of fuel cases literals _ e3 pairs hlits
  have hf1 := (frames_emit_match_literals type_of fuel cases literals _ pairs e3 hlits).1
  have hf2 := (frames_emit_value type_of fuel inspect none _ inspectee e5 hinspect).1
  refine ⟨hlen, emit_match_literals_constants type_of fuel cases literals _ e3 pairs hlits,
    ?_, ?_, ?_, ?_⟩
  · have hlab : ∀ x, x ∈ pairs.map Prod.snd → (e.bound : Nat) + 2 < x := by
      intro x hx
      obtain ⟨p, hp, rfl⟩ := List.mem_map.mp hx
      obtain ⟨a, b, _⟩ := hmem p hp
      have a1 : (e.bound : Nat) + 2 ≤ p.1 := a
      unfold SpvId at *
      omega
    refine List.nodup_cons.mpr ⟨?_, List.nodup_cons.mpr ⟨?_, ?_⟩⟩
    · intro hin
      rcases List.mem_cons.mp hin with h | h
      · have h1 : (e.bound : Nat) = e.bound + 1 := h
        unfold SpvId at *
        omega
      · have h1 := hlab _ h
        unfold SpvId at *
        omega
    · intro hin
      have h1 := hlab _ hin
      unfold SpvId at *
      omega
    · rw [List.Nodup, List.pairwise_map]
      refine List.Pairwise.imp_of_mem ?_ hpw
      intro p q _ hq hpq
      obtain ⟨_, b, _⟩ := hmem q hq
      show (p.2 : Nat) ≠ q.2
      unfold SpvId at *
      omega
  · rw [hf2]
    show (e3.instructions ++ _) ++ _ = _
    rw [hf1]
    simp
  · intro c cs p ps
    rfl
  · intro e7 e8 hcases hdefault
    unfold emit_match
    simp only [List.length_nil, ne_eq, not_true_eq_false, ↓reduceIte, spvb_begin_bb]
    rw [Emit.then_ok _ _ e e.bound { e with bound := e.bound + 1 } rfl]
    rw [Emit.then_ok _ _ _ (e.bound + 1) { e with bound := e.bound + 2 } rfl]
    rw [Emit.then_ok _ _ _ pairs e3 hlits]
    rw [Emit.then_ok _ _ e3 () { e3 with instructions := e3.instructions ++
      [(bb_builder, .selection_merge e.bound)] } rfl]
    rw [Emit.then_ok _ _ _ inspectee e5 hinspect]
    rw [Emit.then_ok _ _ e5 () { e5 with instructions := e5.instructions ++
      [(bb_builder, .switch inspectee (e.bound + 1) (flatten_pairs pairs))] } rfl]
    rw [Emit.then_ok _ _ _ () e7 hcases]
    rw [Emit.then_ok _ _ _ () e8 hdefault]
    rfl


/-- Witness of C25: `match (x) { case 1: { } default: { } }` in the example
emitter, with the current block 10: `next` is 4, the default label 5, the
literal 1 is the constant 6 (of the integer type 8) and its case has the label
7; the current block gets `OpSelectionMerge 4` and `OpSwitch 1 5 [6, 7]` (1 is
the id of `x`); the blocks 7 and 5 get the `OpBranch 4` of their `Selection`
merges, and the block 4 is the current block afterwards. -/
theorem emit_match_switch_witness :
    emit_match example_type_of 3 (emit_block example_type_of 2) 0 10
        { continue_target := 0, break_target := 0, join_target := 0 } [] example_x
        [.int_literal .IntTy32 1] [.block [] (.merge_construct .Selection [])]
        (.block [] (.merge_construct .Selection [])) example_emitter =
      .ok (4, { example_emitter with
        bound := 9
        declarations := [.int_type 8 32 true, .constant 6 8 [1]]
        instructions :=
          [(10, .selection_merge 4), (10, .switch 1 5 [6, 7]), (7, .branch 4), (5, .branch 4)]
        node_ids := example_emitter.node_ids ++
          [(.int_literal .IntTy32 1, 6), (.int_type .IntTy32, 8),
           (.qualified_type true (.int_type .IntTy32), 8)] }) := by
  have hval : emit_value example_type_of 3 (.int_literal .IntTy32 1) (some 6)
      { example_emitter with bound := 8 } =
      .ok (6, { example_emitter with
        bound := 9
        declarations := [.int_type 8 32 true, .constant 6 8 [1]]
        node_ids := example_emitter.node_ids ++
          [(.int_literal .IntTy32 1, 6), (.int_type .IntTy32, 8),
           (.qualified_type true (.int_type .IntTy32), 8)] }) := rfl
  have hlits : emit_match_literals example_type_of 3 [.block [] (.merge_construct .Selection [])]
      [.int_literal .IntTy32 1] { example_emitter with bound := example_emitter.bound + 2 } =
      .ok ([(6, 7)], { example_emitter with
        bound := 9
        declarations := [.int_type 8 32 true, .constant 6 8 [1]]
        node_ids := example_emitter.node_ids ++
          [(.int_literal .IntTy32 1, 6), (.int_type .IntTy32, 8),
           (.qualified_type true (.int_type .IntTy32), 8)] }) := by
    unfold emit_match_literals
    rw [Emit.then_ok _ _ _ 6 { example_emitter with bound := 7 } rfl]
    rw [Emit.then_ok _ _ _ 7 { example_emitter with bound := 8 } rfl]
    simp only []
    rw [Emit.then_ok _ _ _ 6 _ hval]
    rfl
  exact (emit_match_switch example_type_of 3 (emit_block example_type_of 2) 0 10
    { continue_target := 0, break_target := 0, join_target := 0 } example_x
    [.int_literal .IntTy32 1] [.block [] (.merge_construct .Selection [])]
    (.block [] (.merge_construct .Selection [])) example_emitter _ 
    { example_emitter with
      bound := 9
      declarations := [.int_type 8 32 true, .constant 6 8 [1]]
      instructions := [(10, .selection_merge 4)]
      node_ids := example_emitter.node_ids ++
        [(.int_literal .IntTy32 1, 6), (.int_type .IntTy32, 8),
         (.qualified_type true (.int_type .IntTy32), 8)] }
    [(6, 7)] 1 hlits rfl).2.2.2.2.2
    { example_emitter with
      bound := 9
      declarations := [.int_type 8 32 true, .constant 6 8 [1]]
      instructions := [(10, .selection_merge 4), (10, .switch 1 5 [6, 7]), (7, .branch 4)]
      node_ids := example_emitter.node_ids ++
        [(.int_literal .IntTy32 1, 6), (.int_type .IntTy32, 8),
         (.qualified_type true (.int_type .IntTy32), 8)] }
    _ rfl rfl

/-! ### `emit_terminator` -/

/-- C27 (amended): `emit_terminator` ends in `error` for a `Branch` in `Switch`
or `Tailcall` mode, for a `Join` and for a `Callc`, and a `Branch` that yields
fails the assertion of line 418.  It succeeds and appends to the block: for a
`Return` without values `OpReturn`; for a `Return` of one value, when the
value is emitted, `OpReturnValue` of its id; for a `Return` of two or more
values, when the values are emitted and the function builder has a return
type, `OpCompositeConstruct` of the ids with a fresh result id and then
`OpReturnValue` of this id; for a `Branch` without arguments that does not
yield, in `Jump` mode, when the target has an id in the dictionary, `OpBranch`
to it, and in `IfElse` mode, when the condition is emitted and both targets
have an id in the dictionary, `OpBranchConditional`; for a `MergeConstruct`
without arguments `OpBranch` to the merge target of its construct; for
`Unreachable` `OpUnreachable`.  In each case the block-ending instruction is
the last one appended, and the only block-ending one. -/
theorem emit_terminator_instructions (type_of : TypeOf) (fuel : Nat) (fn_builder : FnBuilder)
    (bb : BBBuilder) (merge_targets : MergeTargets) (e : Emitter) :
    (∀ mode yield t c tt ft sv dt cv ct args, mode = .BrSwitch ∨ mode = .BrTailcall →
      is_ok (emit_terminator type_of fuel fn_builder bb merge_targets
        (.branch mode yield t c tt ft sv dt cv ct args) e) = false) ∧
    (∀ i j d args, emit_terminator type_of fuel fn_builder bb merge_targets (.join i j d args) e =
      .error .error) ∧
    (∀ i r c args, emit_terminator type_of fuel fn_builder bb merge_targets (.callc i r c args) e =
      .error .error) ∧
    (∀ mode t c tt ft sv dt cv ct,
      emit_terminator type_of fuel fn_builder bb merge_targets
        (.branch mode true t c tt ft sv dt cv ct []) e = .error (.assertion 418)) ∧
    (∀ f, emit_terminator type_of fuel fn_builder bb merge_targets (.fn_ret f []) e =
      .ok ((), { e with instructions := e.instructions ++ [(bb, .return_void)] })) ∧
    (∀ f value id e1, emit_value type_of fuel value none e = .ok (id, e1) →
      emit_terminator type_of fuel fn_builder bb merge_targets (.fn_ret f [value]) e =
        .ok ((), { e1 with instructions := e.instructions ++ [(bb, .return_value id)] })) ∧
    (∀ f v1 v2 vs arr e1 ret_type,
      emit_values type_of fuel (v1 :: v2 :: vs) e = .ok (arr, e1) →
      fn_ret_type_id fn_builder e1 = .ok (ret_type, e1) →
      emit_terminator type_of fuel fn_builder bb merge_targets (.fn_ret f (v1 :: v2 :: vs)) e =
        .ok ((), { e1 with
          bound := e1.bound + 1
          instructions := e.instructions ++
            [(bb, .composite ret_type e1.bound arr), (bb, .return_value e1.bound)] })) ∧
    (∀ t c tt ft sv dt cv ct id, find_node_id e t = some id →
      emit_terminator type_of fuel fn_builder bb merge_targets
        (.branch .BrJump false t c tt ft sv dt cv ct []) e =
        .ok ((), { e with instructions := e.instructions ++ [(bb, .branch id)] })) ∧
    (∀ t c tt ft sv dt cv ct cond e1 true_id false_id,
      emit_value type_of fuel c none e = .ok (cond, e1) →
      find_node_id e1 tt = some true_id → find_node_id e1 ft = some false_id →
      emit_terminator type_of fuel fn_builder bb merge_targets
        (.branch .BrIfElse false t c tt ft sv dt cv ct []) e =
        .ok ((), { e1 with instructions := e.instructions ++
          [(bb, .branch_conditional cond true_id false_id)] })) ∧
    emit_terminator type_of fuel fn_builder bb merge_targets (.merge_construct .Selection []) e =
      .ok ((), { e with instructions := e.instructions ++
        [(bb, .branch merge_targets.join_target)] }) ∧
    emit_terminator type_of fuel fn_builder bb merge_targets (.merge_construct .Continue []) e =
      .ok ((), { e with instructions := e.instructions ++
        [(bb, .branch merge_targets.continue_target)] }) ∧
    emit_terminator type_of fuel fn_builder bb merge_targets (.merge_construct .Break []) e =
      .ok ((), { e with instructions := e.instructions ++
        [(bb, .branch merge_targets.break_target)] }) ∧
    emit_terminator type_of fuel fn_builder bb merge_targets .unreachable e =
      .ok ((), { e with instructions := e.instructions ++ [(bb, .unreachable)] }) := by
  refine ⟨?_, fun _ _ _ _ => rfl, fun _ _ _ _ => rfl, ?_, fun _ => rfl, ?_, ?_, ?_, ?_, rfl, rfl,
    rfl, rfl⟩
  · intro mode yield t c tt ft sv dt cv ct args hmode
    unfold emit_terminator
    simp only []
    split
    · rfl
    · split
      · rfl
      · rcases hmode with rfl | rfl <;> rfl
  · intro mode t c tt ft sv dt cv ct
    rfl
  · intro f value id e1 hv
    have hi := (frames_emit_value type_of fuel value none e id e1 hv).1
    unfold emit_terminator
    simp only []
    rw [Emit.then_ok _ _ e id e1 hv]
    show Except.ok _ = Except.ok _
    rw [← hi]
  · intro f v1 v2 vs arr e1 ret_type hvs hret
    have hframes : ∀ (nodes : List Node), Emit.frames (emit_values type_of fuel nodes) := by
      intro nodes
      induction nodes with
      | nil => exact frames_pure _
      | cons n ns ih =>
        exact frames_bind _ _ (frames_emit_value _ _ _ _)
          (fun _ => frames_bind _ _ ih (fun _ => frames_pure _))
    have hi := (hframes _ e arr e1 hvs).1
    unfold emit_terminator
    simp only []
    rw [Emit.then_ok _ _ e arr e1 hvs, Emit.then_ok _ _ e1 ret_type e1 hret]
    show Except.ok _ = Except.ok _
    rw [← hi]
    simp only [List.append_assoc, List.singleton_append]
  · intro t c tt ft sv dt cv ct id hid
    unfold emit_terminator
    simp only [List.length_nil, ne_eq, not_true_eq_false, ↓reduceIte]
    have hr : find_reserved_id t e = .ok (id, e) := by
      unfold find_reserved_id
      rw [hid]
    rw [Emit.then_ok _ _ e id e hr]
    rfl
  · intro t c tt ft sv dt cv ct cond e1 true_id false_id hc ht hf
    have hi := (frames_emit_value type_of fuel c none e cond e1 hc).1
    unfold emit_terminator
    simp only [List.length_nil, ne_eq, not_true_eq_false, ↓reduceIte]
    have hrt : find_reserved_id tt e1 = .ok (true_id, e1) := by
      unfold find_reserved_id
      rw [ht]
    have hrf : find_reserved_id ft e1 = .ok (false_id, e1) := by
      unfold find_reserved_id
      rw [hf]
    rw [Emit.then_ok _ _ e cond e1 hc, Emit.then_ok _ _ e1 true_id e1 hrt,
      Emit.then_ok _ _ e1 false_id e1 hrf]
    show Except.ok _ = Except.ok _
    rw [← hi]

/-- Witness of C27: `return x` in the example emitter appends `OpReturnValue 1`
to the block 10 (1 is the id of `x`), and a `Return` of `x` and `b` in a
function that was begun with the return type 8 appends
`OpCompositeConstruct 8 [1, 2]` with the result id 4 and `OpReturnValue 4`. -/
theorem emit_terminator_instructions_witness :
    emit_terminator example_type_of 3 0 10
        { continue_target := 0, break_target := 0, join_target := 0 }
        (.fn_ret .null [example_x]) example_emitter =
      .ok ((), { example_emitter with instructions := [(10, .return_value 1)] }) ∧
    emit_terminator example_type_of 3 0 10
        { continue_target := 0, break_target := 0, join_target := 0 }
        (.fn_ret .null [example_x, example_b])
        { example_emitter with declarations := [.fn_begin 0 7 8] } =
      .ok ((), { example_emitter with
        bound := 5
        declarations := [.fn_begin 0 7 8]
        instructions := [(10, .composite 8 4 [1, 2]), (10, .return_value 4)] }) :=
  ⟨(emit_terminator_instructions example_type_of 3 0 10
      { continue_target := 0, break_target := 0, join_target := 0 }
      example_emitter).2.2.2.2.2.1 .null example_x 1 example_emitter rfl,
    (emit_terminator_instructions example_type_of 3 0 10
      { continue_target := 0, break_target := 0, join_target := 0 }
      { example_emitter with declarations := [.fn_begin 0 7 8] }).2.2.2.2.2.2.1 .null example_x
      example_b [] [1, 2] { example_emitter with declarations := [.fn_begin 0 7 8] } 8 rfl rfl⟩

/-- C27 (counterexample): a `Branch` in `Jump` mode without arguments whose
target has an id in the dictionary, but which yields: `emit_terminator` does
not succeed, the assertion of line 418 fails. -/
theorem emit_terminator_rejects_yield :
    emit_terminator example_type_of 3 0 10
        { continue_target := 0, break_target := 0, join_target := 0 }
        (.branch .BrJump true example_x .null .null .null .null .null [] [] [])
        example_emitter = .error (.assertion 418) ∧
    find_node_id example_emitter example_x = some 1 :=
  ⟨rfl, rfl⟩

/-! ### The merge targets -/

theorem emit_instructions_mem (type_of : TypeOf) (fuel : Nat)
    (emit_block : FnBuilder → BBBuilder → MergeTargets → Node → Emit Unit)
    (hb : ∀ f b m n, Emit.grows (emit_block f b m n))
    (fn_builder : FnBuilder) (mt : MergeTargets) (instructions : List Node) (bb last : BBBuilder)
    (e e1 : Emitter)
    (h : emit_instructions type_of fuel emit_block fn_builder mt bb instructions e =
      .ok (last, e1))
    (instruction : Node) (hmem : instruction ∈ instructions) :
    ∃ bb0 e0 next e2,
      emit_instruction type_of fuel emit_block fn_builder bb0 mt instruction e0 =
        .ok (next, e2) ∧ e.le e0 ∧ e2.le e1 := by
  induction instructions generalizing bb e with
  | nil => cases hmem
  | cons i is ih =>
    unfold emit_instructions at h
    obtain ⟨next, e2, h1, h2⟩ := Emit.then_inv _ _ _ _ _ h
    rcases List.mem_cons.mp hmem with rfl | hin
    · exact ⟨bb, e, next, e2, h1, Emitter.le_refl _,
        grows_emit_instructions type_of fuel emit_block hb fn_builder mt next is e2 last e1 h2⟩
    · obtain ⟨bb0, e0, n, e3, h3, h4, h5⟩ := ih next e2 h2 hin
      exact ⟨bb0, e0, n, e3, h3,
        Emitter.le_trans
          (grows_emit_instruction type_of fuel emit_block hb fn_builder bb mt i e next e2 h1) h4,
        h5⟩

theorem emit_match_cases_mem
    (emit_block : FnBuilder → BBBuilder → MergeTargets → Node → Emit Unit)
    (hb : ∀ f b m n, Emit.grows (emit_block f b m n))
    (fn_builder : FnBuilder) (mt : MergeTargets) (cases : List Node)
    (pairs : List (SpvId × SpvId)) (e e1 : Emitter)
    (h : emit_match_cases emit_block fn_builder mt cases pairs e = .ok ((), e1))
    (case : Node) (hmem : case ∈ cases) :
    ∃ bb0 e0 e2, emit_block fn_builder bb0 mt case e0 = .ok ((), e2) ∧ e.le e0 ∧ e2.le e1 := by
  induction cases generalizing pairs e with
  | nil => cases hmem
  | cons c cs ih =>
    cases pairs with
    | nil => cases h
    | cons p ps =>
      unfold emit_match_cases at h
      obtain ⟨u, e2, h1, h2⟩ := Emit.then_inv _ _ _ _ _ h
      rcases List.mem_cons.mp hmem with rfl | hin
      · exact ⟨_, e, e2, h1, Emitter.le_refl _,
          grows_emit_match_cases emit_block hb fn_builder mt cs ps e2 () e1 h2⟩
      · obtain ⟨bb0, e0, e3, h3, h4, h5⟩ := ih ps e2 h2 hin
        exact ⟨bb0, e0, e3, h3, Emitter.le_trans (hb _ _ _ _ e u e2 h1) h4, h5⟩

/-- A successful `emit_instruction` has run the `switch` on the instruction
without its `Let`. -/
theorem emit_instruction_let_body (type_of : TypeOf) (fuel : Nat)
    (emit_block : FnBuilder → BBBuilder → MergeTargets → Node → Emit Unit)
    (fn_builder : FnBuilder) (bb next : BBBuilder) (mt : MergeTargets) (instruction : Node)
    (e e1 : Emitter)
    (h : emit_instruction type_of fuel emit_block fn_builder bb mt instruction e =
      .ok (next, e1)) :
    ∃ variables_, emit_instruction_switch type_of fuel emit_block fn_builder bb mt
      instruction.let_body variables_ e = .ok (next, e1) := by
  unfold emit_instruction at h
  split at h
  · cases h
  · split at h
    · cases h
    · split at h
      · rename_i vars instr m
        split at h
        · cases h
        · split at h
          · cases h
          · split at h
            · cases h
            · exact ⟨_, h⟩
      · rename_i hnl
        refine ⟨[], ?_⟩
        have hbody : instruction.let_body = instruction := by
          cases instruction <;> first | rfl | exact absurd rfl (hnl _ _ _)
        rw [hbody]
        exact h

theorem emit_if_branch (type_of : TypeOf) (fuel : Nat)
    (emit_block : FnBuilder → BBBuilder → MergeTargets → Node → Emit Unit)
    (hb : ∀ f b m n, Emit.grows (emit_block f b m n))
    (fn_builder : FnBuilder) (bb next : BBBuilder) (mt : MergeTargets)
    (yield_types : List Node) (condition if_true if_false mid : Node) (e e1 : Emitter)
    (h : emit_if type_of fuel emit_block fn_builder bb mt yield_types condition if_true if_false
      e = .ok (next, e1))
    (hmid : mid = if_true ∨ (mid = if_false ∧ if_false.is_null = false)) :
    ∃ bb0 e0 e2, emit_block fn_builder bb0 { mt with join_target := next } mid e0 =
      .ok ((), e2) ∧ e.le e0 ∧ e2.le e1 := by
  unfold emit_if at h
  split at h
  · cases h
  · obtain ⟨next_id, s1, h1, h⟩ := Emit.then_inv _ _ _ _ _ h
    obtain ⟨true_id, s2, h2, h⟩ := Emit.then_inv _ _ _ _ _ h
    obtain ⟨false_id, s3, h3, h⟩ := Emit.then_inv _ _ _ _ _ h
    obtain ⟨u4, s4, h4, h⟩ := Emit.then_inv _ _ _ _ _ h
    obtain ⟨cond, s5, h5, h⟩ := Emit.then_inv _ _ _ _ _ h
    obtain ⟨u6, s6, h6, h⟩ := Emit.then_inv _ _ _ _ _ h
    obtain ⟨u7, s7, h7, h⟩ := Emit.then_inv _ _ _ _ _ h
    obtain ⟨u8, s8, h8, h⟩ := Emit.then_inv _ _ _ _ _ h
    cases h
    have l1 := grows_fresh_id e next_id s1 h1
    have l2 := grows_fresh_id s1 true_id s2 h2
    have l3 : s2.le s3 := by
      split at h3
      · cases h3
        exact Emitter.le_refl _
      · exact grows_fresh_id _ _ _ h3
    have l4 := grows_selection_merge _ _ s3 u4 s4 h4
    have l5 := grows_emit_value _ _ _ _ s4 cond s5 h5
    have l6 := grows_branch_conditional _ _ _ _ s5 u6 s6 h6
    have l7 := hb _ _ _ _ s6 u7 s7 h7
    have l8 : s7.le e1 := by
      split at h8
      · cases h8
        exact Emitter.le_refl _
      · exact hb _ _ _ _ _ _ _ h8
    have l06 : e.le s6 :=
      Emitter.le_trans l1 (Emitter.le_trans l2 (Emitter.le_trans l3
        (Emitter.le_trans l4 (Emitter.le_trans l5 l6))))
    rcases hmid with rfl | ⟨rfl, hnn⟩
    · exact ⟨_, s6, s7, h7, l06, l8⟩
    · rw [hnn] at h8
      simp only [Bool.false_eq_true, ↓reduceIte] at h8
      exact ⟨_, s7, e1, h8, Emitter.le_trans l06 l7, Emitter.le_refl _⟩

theorem emit_match_branch (type_of : TypeOf) (fuel : Nat)
    (emit_block : FnBuilder → BBBuilder → MergeTargets → Node → Emit Unit)
    (hb : ∀ f b m n, Emit.grows (emit_block f b m n))
    (fn_builder : FnBuilder) (bb next : BBBuilder) (mt : MergeTargets)
    (yield_types : List Node) (inspect : Node) (literals cases : List Node)
    (default_case mid : Node) (e e1 : Emitter)
    (h : emit_match type_of fuel emit_block fn_builder bb mt yield_types inspect literals cases
      default_case e = .ok (next, e1))
    (hmid : mid ∈ cases ∨ mid = default_case) :
    ∃ bb0 e0 e2, emit_block fn_builder bb0 { mt with join_target := next } mid e0 =
      .ok ((), e2) ∧ e.le e0 ∧ e2.le e1 := by
  unfold emit_match at h
  split at h
  · cases h
  · obtain ⟨next_id, s1, h1, h⟩ := Emit.then_inv _ _ _ _ _ h
    obtain ⟨default_id, s2, h2, h⟩ := Emit.then_inv _ _ _ _ _ h
    obtain ⟨pairs, s3, h3, h⟩ := Emit.then_inv _ _ _ _ _ h
    obtain ⟨u4, s4, h4, h⟩ := Emit.then_inv _ _ _ _ _ h
    obtain ⟨insp, s5, h5, h⟩ := Emit.then_inv _ _ _ _ _ h
    obtain ⟨u6, s6, h6, h⟩ := Emit.then_inv _ _ _ _ _ h
    obtain ⟨u7, s7, h7, h⟩ := Emit.then_inv _ _ _ _ _ h
    obtain ⟨u8, s8, h8, h⟩ := Emit.then_inv _ _ _ _ _ h
    cases h
    have l1 := grows_fresh_id e next_id s1 h1
    have l2 := grows_fresh_id s1 default_id s2 h2
    have l3 := grows_emit_match_literals _ _ _ _ s2 pairs s3 h3
    have l4 := grows_selection_merge _ _ s3 u4 s4 h4
    have l5 := grows_emit_value _ _ _ _ s4 insp s5 h5
    have l6 := grows_switch _ _ _ _ s5 u6 s6 h6
    have l7 := grows_emit_match_cases emit_block hb _ _ _ _ s6 u7 s7 h7
    have l8 := hb _ _ _ _ s7 u8 e1 h8
    have l06 : e.le s6 :=
      Emitter.le_trans l1 (Emitter.le_trans l2 (Emitter.le_trans l3
        (Emitter.le_trans l4 (Emitter.le_trans l5 l6))))
    rcases hmid with hin | rfl
    · obtain ⟨bb0, e0, e2, h9, l9, l10⟩ :=
        emit_match_cases_mem emit_block hb _ _ _ _ s6 s7 h7 mid hin
      exact ⟨bb0, e0, e2, h9, Emitter.le_trans l06 l9, Emitter.le_trans l10 l8⟩
    · exact ⟨_, s7, e1, h8, Emitter.le_trans l06 l7, Emitter.le_refl _⟩

theorem emit_loop_body
    (emit_block : FnBuilder → BBBuilder → MergeTargets → Node → Emit Unit)
    (fn_builder : FnBuilder) (bb next : BBBuilder) (mt : MergeTargets)
    (params yield_types : List Node) (body : Node) (e e1 : Emitter)
    (h : emit_loop emit_block fn_builder bb mt params yield_types body e = .ok (next, e1)) :
    ∃ e0 e2,
      emit_block fn_builder (e.bound + 1)
        { mt with continue_target := e.bound + 2, break_target := next } body e0 =
        .ok ((), e2) ∧
      next = e.bound + 3 ∧ e.le e0 ∧ e2.le e1 := by
  unfold emit_loop at h
  split at h
  · cases h
  · split at h
    · cases h
    · obtain ⟨header_id, s1, h1, h⟩ := Emit.then_inv _ _ _ _ _ h
      cases h1
      obtain ⟨body_id, s2, h2, h⟩ := Emit.then_inv _ _ _ _ _ h
      cases h2
      obtain ⟨continue_id, s3, h3, h⟩ := Emit.then_inv _ _ _ _ _ h
      cases h3
      obtain ⟨next_id, s4, h4, h⟩ := Emit.then_inv _ _ _ _ _ h
      cases h4
      obtain ⟨u5, s5, h5, h⟩ := Emit.then_inv _ _ _ _ _ h
      obtain ⟨u6, s6, h6, h⟩ := Emit.then_inv _ _ _ _ _ h
      obtain ⟨u7, s7, h7, h⟩ := Emit.then_inv _ _ _ _ _ h
      obtain ⟨u8, s8, h8, h⟩ := Emit.then_inv _ _ _ _ _ h
      obtain ⟨u9, s9, h9, h⟩ := Emit.then_inv _ _ _ _ _ h
      obtain ⟨u10, s10, h10, h⟩ := Emit.then_inv _ _ _ _ _ h
      obtain ⟨u11, s11, h11, h⟩ := Emit.then_inv _ _ _ _ _ h
      obtain ⟨u12, s12, h12, h⟩ := Emit.then_inv _ _ _ _ _ h
      obtain ⟨u13, s13, h13, h⟩ := Emit.then_inv _ _ _ _ _ h
      cases h
      have l5 := grows_branch _ _ _ u5 s5 h5
      have l6 := grows_loop_merge _ _ _ s5 u6 s6 h6
      have l7 := grows_branch _ _ s6 u7 s7 h7
      have l8 := grows_name _ _ s7 u8 s8 h8
      have l10 := grows_name _ _ s9 u10 s10 h10
      have l11 := grows_branch _ _ s10 u11 s11 h11
      have l12 := grows_name _ _ s11 u12 s12 h12
      have l13 := grows_name _ _ s12 u13 _ h13
      have l04 : e.le { e with bound := e.bound + 1 + 1 + 1 + 1 } :=
        ⟨by show e.bound ≤ e.bound + 1 + 1 + 1 + 1; unfold SpvId; omega, List.prefix_refl _,
          List.prefix_refl _, List.prefix_refl _, List.prefix_refl _⟩
      exact ⟨s8, s9, h9, rfl,
        Emitter.le_trans l04 (Emitter.le_trans l5 (Emitter.le_trans l6 (Emitter.le_trans l7 l8))),
        Emitter.le_trans l10 (Emitter.le_trans l11 (Emitter.le_trans l12 l13))⟩

theorem emit_instruction_branch (type_of : TypeOf) (fuel : Nat)
    (emit_block : FnBuilder → BBBuilder → MergeTargets → Node → Emit Unit)
    (hb : ∀ f b m n, Emit.grows (emit_block f b m n))
    (fn_builder : FnBuilder) (bb next : BBBuilder) (mt : MergeTargets) (instruction mid : Node)
    (e e1 : Emitter)
    (h : emit_instruction type_of fuel emit_block fn_builder bb mt instruction e =
      .ok (next, e1))
    (hmid : mid.branch_of instruction.let_body) :
    ∃ bb0 e0 e2, emit_block fn_builder bb0 { mt with join_target := next } mid e0 =
      .ok ((), e2) ∧ e.le e0 ∧ e2.le e1 := by
  obtain ⟨vars, hs⟩ := emit_instruction_let_body type_of fuel emit_block fn_builder bb next mt
    instruction e e1 h
  generalize instruction.let_body = body at hs hmid
  cases hmid with
  | if_true y c t f =>
    exact emit_if_branch type_of fuel emit_block hb fn_builder bb next mt y c mid f mid e e1 hs
      (Or.inl rfl)
  | if_false y c t f hf =>
    exact emit_if_branch type_of fuel emit_block hb fn_builder bb next mt y c t mid mid e e1 hs
      (Or.inr ⟨rfl, hf⟩)
  | case y i l cs d c hc =>
    exact emit_match_branch type_of fuel emit_block hb fn_builder bb next mt y i l cs d mid e e1
      hs (Or.inl hc)
  | default y i l cs d =>
    exact emit_match_branch type_of fuel emit_block hb fn_builder bb next mt y i l cs mid mid e
      e1 hs (Or.inr rfl)

theorem emit_instruction_loop (type_of : TypeOf) (fuel : Nat)
    (emit_block : FnBuilder → BBBuilder → MergeTargets → Node → Emit Unit)
    (fn_builder : FnBuilder) (bb next : BBBuilder) (mt : MergeTargets)
    (instruction : Node) (params yield_types initial_args : List Node) (body : Node)
    (e e1 : Emitter)
    (hloop : instruction.let_body = .loop_instr params yield_types initial_args body)
    (h : emit_instruction type_of fuel emit_block fn_builder bb mt instruction e =
      .ok (next, e1)) :
    ∃ e0 e2,
      emit_block fn_builder (e.bound + 1)
        { mt with continue_target := e.bound + 2, break_target := next } body e0 =
        .ok ((), e2) ∧
      next = e.bound + 3 ∧ e.le e0 ∧ e2.le e1 := by
  obtain ⟨vars, hs⟩ := emit_instruction_let_body type_of fuel emit_block fn_builder bb next mt
    instruction e e1 h
  rw [hloop] at hs
  exact emit_loop_body emit_block fn_builder bb next mt params yield_types body e e1 hs

/-- A block that is nested through `If` and `Match` instructions in a block
that is emitted, is emitted with the `continue` and `break` targets of the
outer block. -/
theorem emit_block_nested (type_of : TypeOf) (fn_builder : FnBuilder) (outer inner : Node)
    (hn : outer.selection_nested inner) (fuel : Nat) (bb : BBBuilder) (mt : MergeTargets)
    (e e1 : Emitter)
    (h : emit_block type_of fuel fn_builder bb mt outer e = .ok ((), e1)) :
    ∃ fuel0 bb0 mt0 e0 e2,
      emit_block type_of fuel0 fn_builder bb0 mt0 inner e0 = .ok ((), e2) ∧
      mt0.continue_target = mt.continue_target ∧ mt0.break_target = mt.break_target ∧
      e.le e0 ∧ e2.le e1 := by
  induction hn generalizing fuel bb mt e e1 with
  | refl b => exact ⟨fuel, bb, mt, e, e1, h, rfl, rfl, Emitter.le_refl _, Emitter.le_refl _⟩
  | step instructions terminator instruction mid inner hmem hbranch _ ih =>
    cases fuel with
    | zero => cases h
    | succ fuel =>
      have h1 : (emit_instructions type_of (fuel + 1) (emit_block type_of fuel) fn_builder mt bb
          instructions >>= fun last =>
            emit_terminator type_of (fuel + 1) fn_builder last mt terminator) e =
          .ok ((), e1) := h
      obtain ⟨last, s1, h2, h3⟩ := Emit.then_inv _ _ _ _ _ h1
      obtain ⟨bb0, e0, next, e2, h4, l1, l2⟩ :=
        emit_instructions_mem type_of (fuel + 1) (emit_block type_of fuel)
          (grows_emit_block type_of fuel) fn_builder mt instructions bb last e s1 h2 instruction
          hmem
      obtain ⟨bb1, e3, e4, h5, l3, l4⟩ :=
        emit_instruction_branch type_of (fuel + 1) (emit_block type_of fuel)
          (grows_emit_block type_of fuel) fn_builder bb0 next mt instruction mid e0 e2 h4
          hbranch
      obtain ⟨fuel0, bb2, mt0, e5, e6, h6, hc, hbr, l5, l6⟩ := ih fuel bb1 _ e3 e4 h5
      have l7 := grows_emit_terminator type_of (fuel + 1) fn_builder last mt terminator s1 () e1
        h3
      exact ⟨fuel0, bb2, mt0, e5, e6, h6, hc, hbr,
        Emitter.le_trans l1 (Emitter.le_trans l3 l5),
        Emitter.le_trans l6 (Emitter.le_trans l4 (Emitter.le_trans l2 l7))⟩

/-- The last instruction that the emission of a block with a `MergeConstruct`
terminator appends is the branch to the merge target of the construct. -/
theorem emit_block_merge_last (type_of : TypeOf) (fuel : Nat) (fn_builder : FnBuilder)
    (bb : BBBuilder) (mt : MergeTargets) (instructions : List Node) (construct : MergeWhat)
    (e e1 : Emitter)
    (h : emit_block type_of fuel fn_builder bb mt
      (.block instructions (.merge_construct construct [])) e = .ok ((), e1)) :
    ∃ last, e1.instructions.getLast? = some (last, .branch (mt.of construct)) := by
  cases fuel with
  | zero => cases h
  | succ fuel =>
    have h1 : (emit_instructions type_of (fuel + 1) (emit_block type_of fuel) fn_builder mt bb
        instructions >>= fun last =>
          emit_terminator type_of (fuel + 1) fn_builder last mt (.merge_construct construct []))
        e = .ok ((), e1) := h
    obtain ⟨last, s1, _, h3⟩ := Emit.then_inv _ _ _ _ _ h1
    refine ⟨last, ?_⟩
    cases construct <;>
    · cases h3
      simp [MergeTargets.of]

theorem mem_of_getLast? {α : Type} (xs : List α) (x : α) (h : xs.getLast? = some x) : x ∈ xs :=
  List.mem_of_getLast?_eq_some h

/-- C26: the merge targets are threaded through the emission as follows.
(1) A block passes the targets it has received to each of its instructions
and to its terminator, whatever constructs its instructions are.  (2) An
`If` or `Match` instruction emits each of its branches with the targets
received except for `join_target`, which is the block in which the emission
continues after the instruction.  (3) A `Loop` instruction emits its body with
the targets received except for `continue_target` and `break_target`, which
are the continue block `e.bound + 2` and the block `next = e.bound + 3` in
which the emission continues after the loop.  (4) Hence a block nested in an
emitted block through any number of `If` and `Match` instructions is emitted
with the `continue` and `break` targets of the outer block.  (5) The emission
of a block that ends in a `MergeConstruct` without arguments appends, as its
last instruction, the `OpBranch` to the merge target of the construct.
(6) Hence a block that ends in `Break` (resp. `Continue`) and is nested through
`If` and `Match` instructions in the body of a loop puts an `OpBranch` to the
`next` block (resp. the continue block) of this loop into the module, and
(7) a branch of an `If` or `Match` that ends in a `Selection` merge puts an
`OpBranch` to the block in which the emission continues after this `If` or
`Match`.  Here `e.le e0` says that the emitter `e0` extends `e`. -/
theorem merge_targets_threading (type_of : TypeOf) (fuel : Nat) (fn_builder : FnBuilder)
    (bb : BBBuilder) (mt : MergeTargets) (e e1 : Emitter) :
    (∀ instructions terminator,
      emit_block type_of (fuel + 1) fn_builder bb mt (.block instructions terminator) =
        (emit_instructions type_of (fuel + 1) (emit_block type_of fuel) fn_builder mt bb
          instructions >>= fun last =>
            emit_terminator type_of (fuel + 1) fn_builder last mt terminator)) ∧
    (∀ instruction instructions,
      emit_instructions type_of (fuel + 1) (emit_block type_of fuel) fn_builder mt bb
          (instruction :: instructions) =
        (emit_instruction type_of (fuel + 1) (emit_block type_of fuel) fn_builder bb mt
          instruction >>= fun next =>
            emit_instructions type_of (fuel + 1) (emit_block type_of fuel) fn_builder mt next
              instructions)) ∧
    (∀ instruction mid next,
      emit_instruction type_of (fuel + 1) (emit_block type_of fuel) fn_builder bb mt instruction
        e = .ok (next, e1) →
      mid.branch_of instruction.let_body →
      ∃ bb0 e0 e2,
        emit_block type_of fuel fn_builder bb0 { mt with join_target := next } mid e0 =
          .ok ((), e2) ∧ e.le e0 ∧ e2.le e1) ∧
    (∀ instruction params yield_types initial_args body next,
      instruction.let_body = .loop_instr params yield_types initial_args body →
      emit_instruction type_of (fuel + 1) (emit_block type_of fuel) fn_builder bb mt instruction
        e = .ok (next, e1) →
      ∃ e0 e2,
        emit_block type_of fuel fn_builder (e.bound + 1)
          { mt with continue_target := e.bound + 2, break_target := next } body e0 =
          .ok ((), e2) ∧
        next = e.bound + 3 ∧ e.le e0 ∧ e2.le e1) ∧
    (∀ outer inner, outer.selection_nested inner →
      emit_block type_of fuel fn_builder bb mt outer e = .ok ((), e1) →
      ∃ fuel0 bb0 mt0 e0 e2,
        emit_block type_of fuel0 fn_builder bb0 mt0 inner e0 = .ok ((), e2) ∧
        mt0.continue_target = mt.continue_target ∧ mt0.break_target = mt.break_target ∧
        e.le e0 ∧ e2.le e1) ∧
    (∀ instructions construct,
      emit_block type_of fuel fn_builder bb mt
        (.block instructions (.merge_construct construct [])) e = .ok ((), e1) →
      ∃ last, e1.instructions.getLast? = some (last, .branch (mt.of construct))) ∧
    (∀ body instructions next,
      body.selection_nested (.block instructions (.merge_construct .Break [])) →
      emit_loop (emit_block type_of fuel) fn_builder bb mt [] [] body e = .ok (next, e1) →
      ∃ last, (last, SpvInstr.branch next) ∈ e1.instructions) ∧
    (∀ body instructions next,
      body.selection_nested (.block instructions (.merge_construct .Continue [])) →
      emit_loop (emit_block type_of fuel) fn_builder bb mt [] [] body e = .ok (next, e1) →
      ∃ last, (last, SpvInstr.branch (e.bound + 2)) ∈ e1.instructions) ∧
    (∀ instruction instructions next,
      emit_instruction type_of (fuel + 1) (emit_block type_of fuel) fn_builder bb mt instruction
        e = .ok (next, e1) →
      Node.branch_of (.block instructions (.merge_construct .Selection []))
        instruction.let_body →
      ∃ last, (last, SpvInstr.branch next) ∈ e1.instructions) := by
  have hloop : ∀ body instructions next construct, construct ≠ MergeWhat.Selection →
      body.selection_nested (.block instructions (.merge_construct construct [])) →
      emit_loop (emit_block type_of fuel) fn_builder bb mt [] [] body e = .ok (next, e1) →
      ∃ last, (last, SpvInstr.branch
        (MergeTargets.of { mt with continue_target := e.bound + 2, break_target := next }
          construct)) ∈ e1.instructions := by
    intro body instructions next construct hsel hn hl
    obtain ⟨e0, e2, h1, _, _, l2⟩ :=
      emit_loop_body (emit_block type_of fuel) fn_builder bb next mt [] [] body e e1 hl
    obtain ⟨fuel0, bb0, mt0, e3, e4, h2, hc, hb, _, l4⟩ :=
      emit_block_nested type_of fn_builder body _ hn fuel _ _ e0 e2 h1
    obtain ⟨last, h3⟩ := emit_block_merge_last type_of fuel0 fn_builder bb0 mt0 instructions
      construct e3 e4 h2
    have hmem := mem_of_getLast? _ _ h3
    have hin := (l4.2.2.1.trans l2.2.2.1).subset hmem
    refine ⟨last, ?_⟩
    have htarget : mt0.of construct =
        MergeTargets.of { mt with continue_target := e.bound + 2, break_target := next }
          construct := by
      cases construct
      · exact absurd rfl hsel
      · exact hc
      · exact hb
    rw [← htarget]
    exact hin
  refine ⟨fun _ _ => rfl, fun _ _ => rfl, ?_, ?_, ?_, ?_, ?_, ?_, ?_⟩
  · intro instruction mid next h hmid
    exact emit_instruction_branch type_of (fuel + 1) (emit_block type_of fuel)
      (grows_emit_block type_of fuel) fn_builder bb next mt instruction mid e e1 h hmid
  · intro instruction params yield_types initial_args body next hl h
    exact emit_instruction_loop type_of (fuel + 1) (emit_block type_of fuel) fn_builder bb next
      mt instruction params yield_types initial_args body e e1 hl h
  · intro outer inner hn h
    exact emit_block_nested type_of fn_builder outer inner hn fuel bb mt e e1 h
  · intro instructions construct h
    exact emit_block_merge_last type_of fuel fn_builder bb mt instructions construct e e1 h
  · intro body instructions next hn hl
    exact hloop body instructions next .Break (by decide) hn hl
  · intro body instructions next hn hl
    exact hloop body instructions next .Continue (by decide) hn hl
  · intro instruction instructions next h hmid
    obtain ⟨bb0, e0, e2, h1, _, l2⟩ :=
      emit_instruction_branch type_of (fuel + 1) (emit_block type_of fuel)
        (grows_emit_block type_of fuel) fn_builder bb next mt instruction _ e e1 h hmid
    obtain ⟨last, h3⟩ := emit_block_merge_last type_of fuel fn_builder bb0 _ instructions
      .Selection e0 e2 h1
    exact ⟨last, l2.2.2.1.subset (mem_of_getLast? _ _ h3)⟩

/-- Witness of C26: `loop { if (b) { break }; continue }` in the example
emitter, with the current block 10: the loop is emitted, and the `Break` inside
the `If` is an `OpBranch` to the block `next` that `emit_loop` returns.  The
blocks are: header 4, body 5, continue 6, next 7; the `If` in the body has the
merge block 8 and the true block 9, whose `Break` is `OpBranch 7`; the
`Continue` that ends the body, in the block 8, is `OpBranch 6`. -/
theorem merge_targets_threading_witness :
    (∃ next e1 last,
      emit_loop (emit_block example_type_of 3) 0 10
        { continue_target := 0, break_target := 0, join_target := 0 } [] [] example_loop_body
        example_emitter = .ok (next, e1) ∧
      (last, SpvInstr.branch next) ∈ e1.instructions) ∧
    (match emit_loop (emit_block example_type_of 3) 0 10
        { continue_target := 0, break_target := 0, join_target := 0 } [] [] example_loop_body
        example_emitter with
      | .ok (next, e1) =>
        decide (next = 7 ∧ e1.instructions =
          [(10, .branch 4), (4, .loop_merge 7 6), (4, .branch 5), (5, .selection_merge 8),
           (5, .branch_conditional 2 9 8), (9, .branch 7), (8, .branch 6), (6, .branch 4)])
      | .error _ => false) = true := by
  obtain ⟨next, e1, hrun⟩ := ok_of_is_ok
    (emit_loop (emit_block example_type_of 3) 0 10
      { continue_target := 0, break_target := 0, join_target := 0 } [] [] example_loop_body
      example_emitter) (by decide!)
  obtain ⟨last, hlast⟩ :=
    (merge_targets_threading example_type_of 3 0 10
      { continue_target := 0, break_target := 0, join_target := 0 } example_emitter
      e1).2.2.2.2.2.2.1 example_loop_body [] next
      (Node.selection_nested.step _ _
        (.if_instr [] example_b (.block [] (.merge_construct .Break [])) .null) _ _
        (List.mem_singleton.mpr rfl) (Node.branch_of.if_true _ _ _ _)
        (Node.selection_nested.refl _)) hrun
  exact ⟨⟨next, e1, last, hrun, hlast⟩, by decide!⟩

/-! ### The reserved ids of the declarations -/

theorem find_node_id_append_other (e : Emitter) (key node : Node) (id : SpvId)
    (hnone : find_node_id e node = none) (hne : compare_node key node = false) :
    find_node_id { e with node_ids := e.node_ids ++ [(key, id)] } node = none := by
  unfold find_node_id at hnone ⊢
  cases hx : e.node_ids.find? (fun x => compare_node x.1 node) with
  | some x =>
    rw [hx] at hnone
    cases hnone
  | none =>
    show (match (e.node_ids ++ [(key, id)]).find? (fun x => compare_node x.1 node) with
      | some x => some x.2
      | none => none) = none
    rw [List.find?_append, hx]
    simp [List.find?, hne]

/-- The first loop of `emit_spirv`, started from an emitter in whose dictionary
no declaration has an id, on declarations that are pairwise different nodes:
declaration `i` gets the id `e.bound + i` and has it in the dictionary
afterwards. -/
theorem reserve_ids_spec (decls : List Node) (e : Emitter)
    (hdistinct : decls.Pairwise (fun a b => compare_node a b = false))
    (hnone : ∀ d, d ∈ decls → find_node_id e d = none) :
    ∃ e0, reserve_ids decls e = .ok (List.range' e.bound decls.length, e0) ∧
      ∀ i d, decls.get? i = some d → find_node_id e0 d = some (e.bound + i) := by
  induction decls generalizing e with
  | nil => exact ⟨e, rfl, fun i d h => by cases h⟩
  | cons d ds ih =>
    obtain ⟨hd, hds⟩ := List.pairwise_cons.mp hdistinct
    have hd0 : find_node_id e d = none := hnone d (List.mem_cons_self _ _)
    have hnone1 : ∀ x, x ∈ ds → find_node_id
        { e with bound := e.bound + 1, node_ids := e.node_ids ++ [(d, e.bound)] } x = none := by
      intro x hx
      exact find_node_id_append_other { e with bound := e.bound + 1 } d x e.bound
        (hnone x (List.mem_cons_of_mem _ hx)) (hd x hx)
    obtain ⟨e0, hrun, hfind⟩ := ih _ hds hnone1
    refine ⟨e0, ?_, ?_⟩
    · unfold reserve_ids
      rw [Emit.then_ok _ _ e e.bound { e with bound := e.bound + 1 } rfl]
      have hins : insert_node_id d e.bound { e with bound := e.bound + 1 } =
          .ok ((), { e with bound := e.bound + 1, node_ids := e.node_ids ++ [(d, e.bound)] }) := by
        unfold insert_node_id
        have : find_node_id { e with bound := e.bound + 1 } d = none := hd0
        rw [this]
      rw [Emit.then_ok _ _ _ () _ hins, Emit.then_ok _ _ _ _ e0 hrun]
      rfl
    · intro i x hx
      cases i with
      | zero =>
        cases hx
        have hstored : find_node_id
            { e with bound := e.bound + 1, node_ids := e.node_ids ++ [(d, e.bound)] } d =
            some e.bound := find_node_id_append_self { e with bound := e.bound + 1 } d e.bound hd0
        exact find_node_id_of_le _ e0 (grows_reserve_ids ds _ _ e0 hrun) d e.bound hstored
      | succ i =>
        have h1 := hfind i x hx
        rw [h1]
        show some (e.bound + 1 + i) = some (e.bound + (i + 1))
        congr 1
        unfold SpvId
        omega

theorem emit_declarations_mem (type_of : TypeOf) (deref : Deref) (build_scope : Node → Scope)
    (fuel : Nat) (decls : List Node) (ids : List SpvId) (e e1 : Emitter)
    (h : emit_declarations type_of deref build_scope fuel decls ids e = .ok ((), e1))
    (i : Nat) (d : Node) (id : SpvId) (hd : decls.get? i = some d) (hid : ids.get? i = some id) :
    ∃ ei ei', emit_declaration type_of deref build_scope fuel d id ei = .ok ((), ei') ∧
      e.le ei ∧ ei'.le e1 := by
  induction decls generalizing ids e i with
  | nil => cases hd
  | cons x xs ih =>
    cases ids with
    | nil => cases hid
    | cons y ys =>
      unfold emit_declarations at h
      obtain ⟨u, e2, h1, h2⟩ := Emit.then_inv _ _ _ _ _ h
      cases i with
      | zero =>
        cases hd
        cases hid
        exact ⟨e, e2, h1, Emitter.le_refl _,
          grows_emit_declarations type_of deref build_scope fuel xs ys e2 () e1 h2⟩
      | succ i =>
        obtain ⟨ei, ei', h3, l1, l2⟩ := ih ys e2 h2 i hd hid
        exact ⟨ei, ei', h3,
          Emitter.le_trans (grows_emit_declaration type_of deref build_scope fuel x y e u e2 h1)
            l1, l2⟩

/-- The emission of a declaration with the id `id`, in an emitter in which the
declaration has this id, appends the record that defines the declaration
under this id. -/
theorem emit_declaration_defines (type_of : TypeOf) (deref : Deref) (build_scope : Node → Scope)
    (fuel : Nat) (decl : Node) (id : SpvId) (e e1 : Emitter)
    (hid : find_node_id e decl = some id)
    (h : emit_declaration type_of deref build_scope fuel decl id e = .ok ((), e1)) :
    ∃ d, d ∈ e1.declarations ∧ defines decl id d := by
  cases decl with
  | global_variable name type address_space init =>
    unfold emit_declaration at h
    obtain ⟨init_id, s1, _, h⟩ := Emit.then_inv _ _ _ _ _ h
    obtain ⟨type_id, s2, _, h⟩ := Emit.then_inv _ _ _ _ _ h
    obtain ⟨sc, s3, _, h⟩ := Emit.then_inv _ _ _ _ _ h
    obtain ⟨u, s4, h4, h5⟩ := Emit.then_inv _ _ _ _ _ h
    cases h4
    cases h5
    exact ⟨.global_variable id type_id sc init_id, by simp, ⟨type_id, sc, init_id, rfl⟩⟩
  | fn arena index =>
    cases hf : deref (Node.fn arena index) with
    | none =>
      unfold emit_declaration at h
      simp only [hf] at h
      cases h
    | some f =>
      unfold emit_declaration at h
      simp only [hf] at h
      obtain ⟨u, s1, h1, h2⟩ := Emit.then_inv _ _ _ _ _ h
      have l2 := grows_name _ _ s1 () e1 h2
      unfold emit_function at h1
      simp only [hf] at h1
      obtain ⟨fn_id, t1, g1, h1⟩ := Emit.then_inv _ _ _ _ _ h1
      obtain ⟨fn_type_id, t2, _, h1⟩ := Emit.then_inv _ _ _ _ _ h1
      obtain ⟨codom, t3, _, h1⟩ := Emit.then_inv _ _ _ _ _ h1
      obtain ⟨fn_builder, t4, g4, h1⟩ := Emit.then_inv _ _ _ _ _ h1
      obtain ⟨u5, t5, g5, h1⟩ := Emit.then_inv _ _ _ _ _ h1
      obtain ⟨u6, t6, g6, g7⟩ := Emit.then_inv _ _ _ _ _ h1
      have hfn : fn_id = id := by
        unfold find_reserved_id at g1
        rw [hid] at g1
        cases g1
        rfl
      subst hfn
      cases g4
      have l5 := grows_emit_parameters _ _ _ _ _ u5 t5 g5
      have l6 := grows_emit_basic_block _ _ _ _ _ _ t5 u6 t6 g6
      have l7 := grows_define_function _ t6 () s1 g7
      have lall := Emitter.le_trans l5 (Emitter.le_trans l6 (Emitter.le_trans l7 l2))
      exact ⟨.fn_begin fn_id fn_type_id codom, lall.2.1.subset (by simp),
        ⟨fn_type_id, codom, rfl⟩⟩
  | constant name value type_hint =>
    unfold emit_declaration at h
    obtain ⟨r, s1, h1, h2⟩ := Emit.then_inv _ _ _ _ _ h
    obtain ⟨_, ty, d, e0, hd, hdecl⟩ := emit_value_use_id type_of fuel value id r e s1 h1
    have l2 := grows_name _ _ s1 () e1 h2
    refine ⟨d, l2.2.1.subset ?_, ⟨ty, hd⟩⟩
    rw [hdecl]
    simp
  | _ => cases h

theorem emit_spirv_reserve_eq (declarations : List Node) :
    emit_spirv_reserve declarations new_emitter =
      reserve_ids declarations emitter_before_reserve := rfl

theorem emitter_before_reserve_none (d : Node) : find_node_id emitter_before_reserve d = none :=
  rfl

/-- C28: for a root whose declarations are pairwise different nodes.  The
first loop of `emit_spirv` reserves the id `2 + i` for declaration `i` (the id
1 is the `void` type) and stores it for the declaration: before any
declaration is emitted, every declaration has its reserved id in the
dictionary, and these ids are pairwise different.  Whenever `emit_spirv`
returns, each declaration `i` has been emitted: the body of the second loop
has run for it with the id `2 + i`, from an emitter `ei` in which every
declaration of the root, earlier or later in the list, still has its reserved
id, and it has appended the record that defines the declaration under the id
`2 + i` (`defines`: the global variable, the begun function or the constant
with this id), which is part of the module `out`.  And wherever a declaration
has an id in the dictionary, a reference to it, `emit_value` without supplied
id, returns this id and emits nothing. -/
theorem reserved_declaration_ids (type_of : TypeOf) (deref : Deref)
    (build_scope : Node → Scope) (fuel : Nat) (declarations : List Node)
    (hdistinct : declarations.Pairwise (fun a b => compare_node a b = false)) :
    ∃ e0,
      emit_spirv_reserve declarations new_emitter =
        .ok (List.range' 2 declarations.length, e0) ∧
      (List.range' 2 declarations.length).Nodup ∧
      (∀ i d, declarations.get? i = some d → find_node_id e0 d = some (2 + i)) ∧
      (∀ out, emit_spirv type_of deref build_scope fuel (.root declarations) = .ok out →
        ∀ i d, declarations.get? i = some d →
          ∃ ei ei',
            emit_declaration type_of deref build_scope fuel d (2 + i) ei = .ok ((), ei') ∧
            e0.le ei ∧ ei'.le out ∧
            (∀ j dj, declarations.get? j = some dj → find_node_id ei dj = some (2 + j)) ∧
            ∃ record, record ∈ out.declarations ∧ defines d (2 + i) record) ∧
      (∀ e d id, d.is_null = false → find_node_id e d = some id →
        emit_value type_of (fuel + 1) d none e = .ok (id, e)) := by
  obtain ⟨e0, hres, hfind⟩ := reserve_ids_spec declarations emitter_before_reserve hdistinct
    (fun d _ => emitter_before_reserve_none d)
  have hres1 : emit_spirv_reserve declarations new_emitter =
      .ok (List.range' 2 declarations.length, e0) := by
    rw [emit_spirv_reserve_eq]
    exact hres
  refine ⟨e0, hres1, List.nodup_range' _ _, hfind, ?_, ?_⟩
  · intro out hout i d hd
    have hrun : emit_declarations type_of deref build_scope fuel declarations
        (List.range' 2 declarations.length) e0 = .ok ((), out) := by
      unfold emit_spirv at hout
      simp only [] at hout
      rw [Emit.then_ok _ _ new_emitter _ e0 hres1] at hout
      cases hx : emit_declarations type_of deref build_scope fuel declarations
          (List.range' 2 declarations.length) e0 with
      | error err =>
        rw [hx] at hout
        cases hout
      | ok r =>
        rw [hx] at hout
        cases hout
        rfl
    have hi : i < declarations.length := by
      by_contra hlt
      rw [List.get?_eq_none.mpr (Nat.le_of_not_lt hlt)] at hd
      cases hd
    have hid : (List.range' 2 declarations.length).get? i = some (2 + i) := by
      rw [List.get?_eq_getElem?, List.getElem?_range' _ _ hi]
      simp
    obtain ⟨ei, ei', h1, l1, l2⟩ := emit_declarations_mem type_of deref build_scope fuel
      declarations _ e0 out hrun i d (2 + i) hd hid
    have hall : ∀ j dj, declarations.get? j = some dj → find_node_id ei dj = some (2 + j) :=
      fun j dj hj => find_node_id_of_le e0 ei l1 dj _ (hfind j dj hj)
    obtain ⟨record, hrec, hdef⟩ := emit_declaration_defines type_of deref build_scope fuel d
      (2 + i) ei ei' (hall i d hd) h1
    exact ⟨ei, ei', h1, l1, l2, hall, record, l2.2.1.subset hrec, hdef⟩
  · intro e d id hnn hid
    rw [emit_value_succ]
    unfold emit_value_body
    simp only [hnn, Bool.false_eq_true, ↓reduceIte, Option.isNone_none, hid]

theorem result_of_is_ok {α : Type} (r : Except Fault α) (h : is_ok r = true) :
    ∃ a, r = .ok a := by
  cases r with
  | error e => cases h
  | ok x => exact ⟨x, rfl⟩

/-- Witness of C28: the module with the function `main`, which returns the
constant `answer`, and after it the constant `answer = 42`.  `main` gets the
id 2 and `answer` the id 3; the module holds the function begun under the id
2 and the constant 42 under the id 3, and the `return` of `main`, a reference
to the declaration that comes later, is `OpReturnValue 3`. -/
theorem reserved_declaration_ids_witness :
    (∃ out record,
      emit_spirv example_module_type_of example_deref example_build_scope 4 example_module =
        .ok out ∧
      record ∈ out.declarations ∧ defines (.fn .dst 0) 2 record) ∧
    (match emit_spirv example_module_type_of example_deref example_build_scope 4
        example_module with
      | .ok out =>
        decide (out.declarations =
          [.void_type 1, .capability .SpvCapabilityShader, .capability .SpvCapabilityLinkage,
           .capability .SpvCapabilityPhysicalStorageBufferAddresses,
           .capability .SpvCapabilitySubgroupBallotKHR,
           .int_type 4 32 true, .fn_type 5 [] 4, .fn_begin 2 5 4, .name 6 "main", .fn_define 2,
           .name 2 "main", .constant 3 4 [42], .name 3 "answer"] ∧
          out.instructions = [(6, .return_value 3)])
      | .error _ => false) = true := by
  obtain ⟨out, hout⟩ := result_of_is_ok
    (emit_spirv example_module_type_of example_deref example_build_scope 4 example_module)
    (by decide!)
  obtain ⟨e0, _, _, _, hdecls, _⟩ := reserved_declaration_ids example_module_type_of
    example_deref example_build_scope 4
    [.fn .dst 0, .constant "answer" (.int_literal .IntTy32 42) .null] (by decide)
  obtain ⟨_, _, _, _, _, _, record, hrec, hdef⟩ := hdecls out hout 0 (.fn .dst 0) rfl
  exact ⟨⟨out, record, hout, hrec, hdef⟩, by decide!⟩

/-! ### One id per type -/

theorem new_keys_below_refl (e : Emitter) (n : Nat) : e.new_keys_below e n :=
  fun _ h => Or.inl h

theorem new_keys_below_trans {a b c : Emitter} {n : Nat} (h1 : a.new_keys_below b n)
    (h2 : b.new_keys_below c n) : a.new_keys_below c n := by
  intro k hk
  rcases h2 k hk with h | h
  · exact h1 k h
  · exact Or.inr h

theorem new_keys_below_mono {a b : Emitter} {n m : Nat} (h : a.new_keys_below b n)
    (hnm : n ≤ m) : a.new_keys_below b m := by
  intro k hk
  rcases h k hk with h1 | h1
  · exact Or.inl h1
  · exact Or.inr (Nat.le_trans h1 hnm)

theorem new_keys_below_of_ids {a b : Emitter} (h : b.node_ids = a.node_ids) (n : Nat) :
    a.new_keys_below b n := by
  intro k hk
  left
  obtain ⟨id, hid⟩ := hk
  refine ⟨id, ?_⟩
  unfold find_node_id at hid ⊢
  rw [← h]
  exact hid

theorem inserts_pure {α : Type} (a : α) (n : Nat) : Emit.inserts_below (pure a : Emit α) n := by
  intro e r e1 h
  cases h
  exact ⟨new_keys_below_refl _ _, fun h => h⟩

theorem inserts_fault {α : Type} (err : Fault) (n : Nat) :
    Emit.inserts_below (Emit.fault err : Emit α) n := by
  intro e r e1 h
  cases h

theorem inserts_bind {α β : Type} (m : Emit α) (f : α → Emit β) (n : Nat)
    (hm : Emit.inserts_below m n) (hf : ∀ a, Emit.inserts_below (f a) n) :
    Emit.inserts_below (m >>= f) n := by
  intro e r e2 h
  obtain ⟨a, e1, h1, h2⟩ := Emit.then_inv _ _ _ _ _ h
  have ha := hm e a e1 h1
  have hb := hf a e1 r e2 h2
  exact ⟨new_keys_below_trans ha.1 hb.1, fun hw => hb.2 (ha.2 hw)⟩

theorem inserts_mono {α : Type} (m : Emit α) (n k : Nat) (h : Emit.inserts_below m n)
    (hnk : n ≤ k) : Emit.inserts_below m k := by
  intro e r e1 hr
  have h1 := h e r e1 hr
  exact ⟨new_keys_below_mono h1.1 hnk, h1.2⟩

theorem inserts_of_except {α : Type} (r : Except Fault α) (n : Nat) :
    Emit.inserts_below (Emit.of_except r) n := by
  intro e a e1 h
  cases r with
  | error err => cases h
  | ok x =>
    cases h
    exact ⟨new_keys_below_refl _ _, fun h => h⟩

theorem inserts_get (n : Nat) : Emit.inserts_below Emit.get n := by
  intro e r e1 h
  cases h
  exact ⟨new_keys_below_refl _ _, fun h => h⟩

/-- The builder calls that allocate an id and append the record that defines
it. -/
theorem inserts_fresh_declare (d : SpvId → SpvDecl) (hd : ∀ id, (d id).result = some id)
    (n : Nat) :
    Emit.inserts_below
      (spvb_fresh_id >>= fun id => spvb_declare (d id) >>= fun _ => pure id) n := by
  intro e r e1 h
  cases h
  refine ⟨new_keys_below_of_ids rfl _, ?_⟩
  intro hw x hx id hid
  rcases List.mem_append.mp hx with h1 | h1
  · exact Nat.lt_succ_of_lt (hw x h1 id hid)
  · rw [List.mem_singleton.mp h1, hd] at hid
    cases hid
    exact Nat.lt_succ_self _

theorem has_insert (e : Emitter) (key : Node) (id : SpvId) (k : Node)
    (h : Emitter.has { e with node_ids := e.node_ids ++ [(key, id)] } k) :
    e.has k ∨ compare_node key k = true := by
  obtain ⟨x, hx⟩ := h
  unfold find_node_id at hx
  have hx1 : (match (e.node_ids ++ [(key, id)]).find? (fun en => compare_node en.1 k) with
      | some en => some en.2
      | none => none) = some x := hx
  rw [List.find?_append] at hx1
  cases hf : e.node_ids.find? (fun en => compare_node en.1 k) with
  | some en =>
    left
    refine ⟨en.2, ?_⟩
    unfold find_node_id
    rw [hf]
  | none =>
    right
    rw [hf] at hx1
    by_cases hc : compare_node key k = true
    · exact hc
    · simp [List.find?, hc] at hx1

theorem size_of_compare (a b : Node) (h : compare_node a b = true) : a.size = b.size := by
  unfold compare_node at h
  unfold Node.size
  rw [of_decide_eq_true h]

theorem inserts_insert_node_id (node : Node) (id : SpvId) (n : Nat) (hn : node.size ≤ n) :
    Emit.inserts_below (insert_node_id node id) n := by
  intro e r e1 h
  unfold insert_node_id at h
  split at h
  · cases h
    exact ⟨new_keys_below_refl _ _, fun h => h⟩
  · cases h
    refine ⟨?_, fun h => h⟩
    intro k hk
    rcases has_insert e node id k hk with h1 | h1
    · exact Or.inl h1
    · right
      rw [← size_of_compare node k h1]
      exact hn

theorem content_pos (n : Node) : 0 < n.size := by
  unfold Node.size
  cases n <;> simp [Node.content]

theorem size_mem_contents (x : Node) (xs : List Node) (h : x ∈ xs) :
    x.size ≤ (Node.contents xs).length := by
  induction xs with
  | nil => cases h
  | cons y ys ih =>
    rw [Node.contents, List.length_append]
    rcases List.mem_cons.mp h with rfl | h1
    · exact Nat.le_add_right _ _
    · exact Nat.le_trans (ih h1) (Nat.le_add_left _ _)

theorem inserts_emit_types (emit_type : Node → Emit SpvId) (n : Nat) (ts : List Node)
    (h : ∀ t, t ∈ ts → Emit.inserts_below (emit_type t) n) :
    Emit.inserts_below (emit_types emit_type ts) n := by
  induction ts with
  | nil => exact inserts_pure _ _
  | cons t ts ih =>
    exact inserts_bind _ _ _ (h t (List.mem_cons_self _ _))
      (fun _ => inserts_bind _ _ _ (ih (fun x hx => h x (List.mem_cons_of_mem _ hx)))
        (fun _ => inserts_pure _ _))

theorem size_int_literal (w : IntSizes) (v : Int) : (Node.int_literal w v).size = 3 := rfl

theorem size_qualified (u : Bool) (t : Node) : (Node.qualified_type u t).size = t.size + 2 := by
  unfold Node.size
  simp [Node.content]

theorem size_ptr (a : AddressSpace) (t : Node) : (Node.ptr_type a t).size = t.size + 2 := by
  unfold Node.size
  simp [Node.content]

theorem size_arr (t s : Node) : (Node.arr_type t s).size = t.size + s.size + 1 := by
  unfold Node.size
  simp [Node.content]

theorem size_record (ms : List Node) :
    (Node.record_type ms).size = (Node.contents ms).length + 2 := by
  unfold Node.size
  simp [Node.content]

theorem size_fn_type (c : Bool) (ps rs : List Node) :
    (Node.fn_type c ps rs).size = (Node.contents ps).length + (Node.contents rs).length + 4 := by
  unfold Node.size
  simp [Node.content]
  omega

theorem size_scalar (t : Node) (h : t.is_scalar_type = true) : t.size ≤ 4 := by
  unfold Node.is_scalar_type at h
  split at h
  · exact Nat.le_of_lt_succ (by simp [Node.size, Node.content])
  · decide
  · exact Nat.le_of_lt_succ (by simp [Node.size, Node.content])
  · exact Nat.le_of_lt_succ (by simp [Node.size, Node.content])
  · cases h

theorem inserts_nodes_to_codom (emit_type : Node → Emit SpvId) (n : Nat) (rs : List Node)
    (h : ∀ t, t ∈ rs → Emit.inserts_below (emit_type t) n)
    (hrec : Emit.inserts_below (emit_type (.record_type rs)) n) :
    Emit.inserts_below (nodes_to_codom emit_type rs) n := by
  unfold nodes_to_codom
  split
  · exact inserts_bind _ _ _ (inserts_get _) (fun _ => inserts_pure _ _)
  · exact h _ (List.mem_singleton_self _)
  · exact hrec

/-- The keys that the emission of a new type stores are smaller than the type. -/
theorem inserts_emit_new_type (emit_type : Node → Emit SpvId)
    (emit_value : Node → Option SpvId → Emit SpvId)
    (h1 : ∀ t, Emit.inserts_below (emit_type t) t.size)
    (h2 : ∀ v, Emit.inserts_below (emit_value v none) (v.size + 1)) (type : Node) :
    Emit.inserts_below (emit_new_type emit_type emit_value type) (type.size - 1) := by
  have h1m : ∀ t, t.size ≤ type.size - 1 → Emit.inserts_below (emit_type t) (type.size - 1) :=
    fun t ht => inserts_mono _ _ _ (h1 t) ht
  unfold emit_new_type
  split
  · exact inserts_fresh_declare (fun id => .int_type id _ _) (fun _ => rfl) _
  · exact inserts_fresh_declare (fun id => .bool_type id) (fun _ => rfl) _
  · rename_i a p
    refine inserts_bind _ _ _ (h1m _ ?_) (fun pointee => inserts_bind _ _ _ (inserts_of_except _ _)
      (fun sc => inserts_fresh_declare (fun id => .ptr_type id sc pointee) (fun _ => rfl) _))
    rw [size_ptr]
    omega
  · rename_i ms
    refine inserts_bind _ _ _ (inserts_emit_types _ _ _ (fun t ht => h1m t ?_))
      (fun members => inserts_fresh_declare (fun id => .struct_type id members) (fun _ => rfl) _)
    rw [size_record]
    have := size_mem_contents t ms ht
    omega
  · rename_i c ps rs
    split
    · exact inserts_fault _ _
    · refine inserts_bind _ _ _ (inserts_emit_types _ _ _ (fun t ht => h1m t ?_))
        (fun params => inserts_bind _ _ _
          (inserts_nodes_to_codom _ _ _ (fun t ht => h1m t ?_) (h1m _ ?_))
          (fun codom => inserts_fresh_declare (fun id => .fn_type id params codom)
            (fun _ => rfl) _))
      · rw [size_fn_type]
        have := size_mem_contents t ps ht
        omega
      · rw [size_fn_type]
        have := size_mem_contents t rs ht
        omega
      · rw [size_fn_type, size_record]
        omega
  · rename_i u t
    refine h1m _ ?_
    rw [size_qualified]
    omega
  · rename_i el sz
    have hel := content_pos el
    have hsz := content_pos sz
    refine inserts_bind _ _ _ (h1m _ ?_) (fun element_type => ?_)
    · rw [size_arr]
      omega
    · split
      · exact inserts_fresh_declare (fun id => .runtime_array_type id element_type)
          (fun _ => rfl) _
      · refine inserts_bind _ _ _ (inserts_mono _ _ _ (h2 sz) ?_)
          (fun size => inserts_fresh_declare (fun id => .array_type id element_type size)
            (fun _ => rfl) _)
        rw [size_arr]
        omega
  · exact inserts_fault _ _

theorem inserts_emit_type_body (emit_type : Node → Emit SpvId)
    (emit_value : Node → Option SpvId → Emit SpvId)
    (h1 : ∀ t, Emit.inserts_below (emit_type t) t.size)
    (h2 : ∀ v, Emit.inserts_below (emit_value v none) (v.size + 1)) (type : Node) :
    Emit.inserts_below (emit_type_body emit_type emit_value type) type.size := by
  intro e r e1 h
  unfold emit_type_body at h
  split at h
  · cases h
  · split at h
    · cases h
      exact ⟨new_keys_below_refl _ _, fun h => h⟩
    · exact inserts_bind _ _ _
        (inserts_mono _ _ _ (inserts_emit_new_type _ _ h1 h2 type) (Nat.sub_le _ _))
        (fun _ => inserts_bind _ _ _ (inserts_insert_node_id _ _ _ (Nat.le_refl _))
          (fun _ => inserts_pure _ _)) e r e1 h

theorem wf_declare (e : Emitter) (d : SpvDecl) (hw : e.wf)
    (hd : ∀ id, d.result = some id → id < e.bound) :
    Emitter.wf { e with declarations := e.declarations ++ [d] } := by
  intro x hx id hid
  rcases List.mem_append.mp hx with h1 | h1
  · exact hw x h1 id hid
  · rw [List.mem_singleton.mp h1] at hid
    exact hd id hid

/-- The constant of a literal: the keys it stores are those of the type of the
literal, and the id of the constant has to be an allocated one. -/
theorem inserts_emit_constant (type_of : TypeOf) (hlit : TypeOf.scalar_literals type_of)
    (emit_type : Node → Emit SpvId) (h1 : ∀ t, Emit.inserts_below (emit_type t) t.size)
    (hg : ∀ t, Emit.grows (emit_type t)) (node : Node) (new : SpvId) (e : Emitter) (r : Unit)
    (e1 : Emitter) (h : emit_constant type_of emit_type node new e = .ok (r, e1)) :
    e.new_keys_below e1 (node.size + 1) ∧ (e.wf → new < e.bound → e1.wf) := by
  have key : ∀ (t : Node) (d : SpvId → SpvDecl), t.size ≤ node.size + 1 →
      (∀ ty id, (d ty).result = some id → id = new) →
      ((emit_type t >>= fun ty => spvb_declare (d ty)) e = .ok (r, e1)) →
      e.new_keys_below e1 (node.size + 1) ∧ (e.wf → new < e.bound → e1.wf) := by
    intro t d ht hd hrun
    obtain ⟨ty, e0, h3, h4⟩ := Emit.then_inv _ _ _ _ _ hrun
    have h5 := h1 t e ty e0 h3
    have h6 := hg t e ty e0 h3
    cases h4
    refine ⟨new_keys_below_trans (new_keys_below_mono h5.1 ht)
      (new_keys_below_of_ids rfl _), ?_⟩
    intro hw hnew
    refine wf_declare e0 _ (h5.2 hw) ?_
    intro id hid
    rw [hd ty id hid]
    exact Nat.lt_of_lt_of_le hnew h6.1
  cases node with
  | int_literal width value =>
    unfold emit_constant at h
    by_cases hw : width = IntSizes.IntTy64
    · simp only [hw, if_true] at h
      refine key _ (fun ty => .constant new ty _) ?_ ?_ h
      · rw [size_int_literal]
        exact size_scalar _ (hlit _ _)
      · intro ty id hid
        cases hid
        rfl
    · simp only [hw, if_false] at h
      refine key _ (fun ty => .constant new ty _) ?_ ?_ h
      · rw [size_int_literal]
        exact size_scalar _ (hlit _ _)
      · intro ty id hid
        cases hid
        rfl
  | true_lit =>
    refine key .bool_type (fun ty => .bool_constant new ty true) (by decide) ?_ h
    intro ty id hid
    cases hid
    rfl
  | false_lit =>
    refine key .bool_type (fun ty => .bool_constant new ty false) (by decide) ?_ h
    intro ty id hid
    cases hid
    rfl
  | _ => cases h

theorem inserts_emit_value_body (type_of : TypeOf) (hlit : TypeOf.scalar_literals type_of)
    (emit_type : Node → Emit SpvId) (h1 : ∀ t, Emit.inserts_below (emit_type t) t.size)
    (hg : ∀ t, Emit.grows (emit_type t)) (node : Node) :
    Emit.inserts_below (emit_value_body type_of emit_type node none) (node.size + 1) := by
  intro e r e1 h
  unfold emit_value_body at h
  split at h
  · cases h
  · split at h
    · cases h
      exact ⟨new_keys_below_refl _ _, fun h => h⟩
    · obtain ⟨new, s1, h3, h4⟩ := Emit.then_inv _ _ _ _ _ h
      obtain ⟨u, s2, h5, h6⟩ := Emit.then_inv _ _ _ _ _ h4
      obtain ⟨u2, s3, h7, h8⟩ := Emit.then_inv _ _ _ _ _ h6
      cases h8
      cases h3
      have hi := inserts_insert_node_id node e.bound (node.size + 1) (Nat.le_succ _) _ _ _ h5
      have hgi := grows_insert_node_id node e.bound _ _ _ h5
      have hc := inserts_emit_constant type_of hlit emit_type h1 hg node e.bound s2 u2 _ h7
      refine ⟨new_keys_below_trans (new_keys_below_of_ids rfl _)
        (new_keys_below_trans hi.1 hc.1), ?_⟩
      intro hw
      refine hc.2 (hi.2 ?_) (Nat.lt_of_lt_of_le (Nat.lt_succ_self _) hgi.1)
      intro d hd id hid
      exact Nat.lt_succ_of_lt (hw d hd id hid)

theorem inserts_emit_type_value (type_of : TypeOf) (hlit : TypeOf.scalar_literals type_of)
    (fuel : Nat) :
    (∀ t, Emit.inserts_below ((emit_type_value type_of fuel).1 t) t.size) ∧
    (∀ v, Emit.inserts_below ((emit_type_value type_of fuel).2 v none) (v.size + 1)) := by
  induction fuel with
  | zero => exact ⟨fun _ => inserts_fault _ _, fun _ => inserts_fault _ _⟩
  | succ fuel ih =>
    exact ⟨fun t => inserts_emit_type_body _ _ ih.1 ih.2 t,
      fun v => inserts_emit_value_body type_of hlit _ ih.1
        (fun t => grows_emit_type type_of fuel t) v⟩

theorem inserts_emit_type (type_of : TypeOf) (hlit : TypeOf.scalar_literals type_of)
    (fuel : Nat) (type : Node) :
    Emit.inserts_below (emit_type type_of fuel type) type.size :=
  (inserts_emit_type_value type_of hlit fuel).1 type

theorem declares_last_fault (err : Fault) : Emit.declares_last (Emit.fault err) := by
  intro e r e1 h
  cases h

theorem declares_last_fresh_declare (d : SpvId → SpvDecl)
    (hd : ∀ id, (d id).result = some id) :
    Emit.declares_last
      (spvb_fresh_id >>= fun id => spvb_declare (d id) >>= fun _ => pure id) := by
  intro e r e1 h hw
  cases h
  exact ⟨e, d e.bound, hw, rfl, hd _, rfl, rfl⟩

theorem declares_last_bind {α : Type} (m : Emit α) (f : α → Emit SpvId) (n : Nat)
    (hm : Emit.inserts_below m n) (hf : ∀ a, Emit.declares_last (f a)) :
    Emit.declares_last (m >>= f) := by
  intro e r e2 h hw
  obtain ⟨a, e1, h1, h2⟩ := Emit.then_inv _ _ _ _ _ h
  exact hf a e1 r e2 h2 ((hm e a e1 h1).2 hw)

/-- The emission of a new type that is not a qualified type ends with the
record that defines the type, under a fresh id. -/
theorem declares_last_emit_new_type (emit_type : Node → Emit SpvId)
    (emit_value : Node → Option SpvId → Emit SpvId)
    (h1 : ∀ t, Emit.inserts_below (emit_type t) t.size)
    (h2 : ∀ v, Emit.inserts_below (emit_value v none) (v.size + 1)) (type : Node)
    (hq : type.is_qualified = false) :
    Emit.declares_last (emit_new_type emit_type emit_value type) := by
  unfold emit_new_type
  split
  · exact declares_last_fresh_declare (fun id => .int_type id _ _) (fun _ => rfl)
  · exact declares_last_fresh_declare (fun id => .bool_type id) (fun _ => rfl)
  · exact declares_last_bind _ _ _ (h1 _) (fun pointee =>
      declares_last_bind _ _ 0 (inserts_of_except _ _)
        (fun sc => declares_last_fresh_declare (fun id => .ptr_type id sc pointee)
          (fun _ => rfl)))
  · rename_i ms
    exact declares_last_bind _ _ (Node.contents ms).length
      (inserts_emit_types _ _ _
        (fun t ht => inserts_mono _ _ _ (h1 t) (size_mem_contents t ms ht)))
      (fun members => declares_last_fresh_declare (fun id => .struct_type id members)
        (fun _ => rfl))
  · rename_i c ps rs
    split
    · exact declares_last_fault _
    · exact declares_last_bind _ _ (Node.contents ps).length
        (inserts_emit_types _ _ _
          (fun t ht => inserts_mono _ _ _ (h1 t) (size_mem_contents t ps ht)))
        (fun params => declares_last_bind _ _ (Node.record_type rs).size
          (inserts_nodes_to_codom _ _ _
            (fun t ht => inserts_mono _ _ _ (h1 t)
              (Nat.le_trans (size_mem_contents t rs ht)
                (by rw [size_record]; exact Nat.le_add_right _ _)))
            (h1 _))
          (fun codom => declares_last_fresh_declare (fun id => .fn_type id params codom)
            (fun _ => rfl)))
  · cases hq
  · refine declares_last_bind _ _ _ (h1 _) (fun element_type => ?_)
    split
    · exact declares_last_fresh_declare (fun id => .runtime_array_type id element_type)
        (fun _ => rfl)
    · exact declares_last_bind _ _ _ (h2 _)
        (fun size => declares_last_fresh_declare (fun id => .array_type id element_type size)
          (fun _ => rfl))
  · exact declares_last_fault _

theorem declares_once_of_last (e0 e1 : Emitter) (d : SpvDecl) (id : SpvId) (hw : e0.wf)
    (hid : id = e0.bound) (hd : d.result = some id)
    (hdecl : e1.declarations = e0.declarations ++ [d]) (hb : e1.bound = e0.bound + 1) :
    e1.declares_once id ∧ e1.wf := by
  constructor
  · unfold Emitter.declares_once
    rw [hdecl, List.filter_append]
    have h0 : e0.declarations.filter (fun d => decide (d.result = some id)) = [] := by
      rw [List.filter_eq_nil_iff]
      intro x hx hdx
      have := hw x hx id (of_decide_eq_true hdx)
      rw [hid] at this
      exact Nat.lt_irrefl _ this
    rw [h0]
    simp [List.filter, hd]
  · intro x hx y hy
    rw [hdecl] at hx
    rw [hb]
    rcases List.mem_append.mp hx with h | h
    · exact Nat.lt_succ_of_lt (hw x h y hy)
    · rw [List.mem_singleton.mp h, hd] at hy
      cases hy
      rw [hid]
      exact Nat.lt_succ_self _

theorem find_node_id_none_of_not_has (e : Emitter) (k : Node) (h : ¬ e.has k) :
    find_node_id e k = none := by
  cases hf : find_node_id e k with
  | none => rfl
  | some x => exact absurd ⟨x, hf⟩ h

theorem not_has_of_none (e : Emitter) (k : Node) (h : find_node_id e k = none) : ¬ e.has k := by
  rintro ⟨x, hx⟩
  rw [h] at hx
  cases hx

/-- What the dictionary holds for a node after an insertion. -/
theorem insert_node_id_find (key : Node) (id : SpvId) (e e1 : Emitter) (r : Unit)
    (h : insert_node_id key id e = .ok (r, e1)) (k : Node) (x : SpvId)
    (hk : find_node_id e1 k = some x) :
    find_node_id e k = some x ∨ (find_node_id e k = none ∧ x = id) := by
  unfold insert_node_id at h
  split at h
  · cases h
    exact Or.inl hk
  · cases h
    cases hf : find_node_id e k with
    | some y =>
      left
      rw [find_node_id_append e (key, id) k y hf] at hk
      exact hk
    | none =>
      right
      refine ⟨rfl, ?_⟩
      unfold find_node_id at hk hf
      have hk1 : (match (e.node_ids ++ [(key, id)]).find? (fun en => compare_node en.1 k) with
        | some en => some en.2
        | none => none) = some x := hk
      rw [List.find?_append] at hk1
      cases hx : e.node_ids.find? (fun en => compare_node en.1 k) with
      | some en =>
        rw [hx] at hf
        cases hf
      | none =>
        rw [hx] at hk1
        by_cases hc : compare_node key k = true
        · simp [List.find?, hc] at hk1
          exact hk1.symm
        · simp [List.find?, hc] at hk1

/-- The first emission of a type stores the id it returns for the type, and
stores nothing for the qualified forms of the type. -/
theorem emit_type_first (type_of : TypeOf) (hlit : TypeOf.scalar_literals type_of) (fuel : Nat)
    (type : Node) (e e1 : Emitter) (id : SpvId) (hnone : find_node_id e type = none)
    (h : emit_type type_of fuel type e = .ok (id, e1)) :
    find_node_id e1 type = some id ∧
    (∀ u, find_node_id e (.qualified_type u type) = none →
      find_node_id e1 (.qualified_type u type) = none) ∧
    (type.is_qualified = false → e.wf → e1.declares_once id ∧ e1.wf) := by
  have hq : ∀ u, find_node_id e (.qualified_type u type) = none →
      find_node_id e1 (.qualified_type u type) = none := by
    intro u hu
    apply find_node_id_none_of_not_has
    intro hhas
    rcases (inserts_emit_type type_of hlit fuel type e id e1 h).1 _ hhas with h1 | h1
    · exact not_has_of_none _ _ hu h1
    · rw [size_qualified] at h1
      omega
  refine ⟨?_, hq, ?_⟩
  · cases fuel with
    | zero => cases h
    | succ fuel =>
      rw [emit_type_succ] at h
      unfold emit_type_body at h
      split at h
      · cases h
      · rw [hnone] at h
        obtain ⟨new, e2, h3, h4⟩ := Emit.then_inv _ _ _ _ _ h
        obtain ⟨u, e3, h5, h6⟩ := Emit.then_inv _ _ _ _ _ h4
        cases h6
        have hkeys := (inserts_emit_new_type _ _ (inserts_emit_type_value type_of hlit fuel).1
          (inserts_emit_type_value type_of hlit fuel).2 type e id e2 h3).1
        have hnone2 : find_node_id e2 type = none := by
          apply find_node_id_none_of_not_has
          intro hhas
          rcases hkeys _ hhas with h1 | h1
          · exact not_has_of_none _ _ hnone h1
          · have := content_pos type
            omega
        unfold insert_node_id at h5
        rw [hnone2] at h5
        cases h5
        exact find_node_id_append_self e2 type id hnone2
  · intro hnq hw
    cases fuel with
    | zero => cases h
    | succ fuel =>
      rw [emit_type_succ] at h
      unfold emit_type_body at h
      split at h
      · cases h
      · rw [hnone] at h
        obtain ⟨new, e2, h3, h4⟩ := Emit.then_inv _ _ _ _ _ h
        obtain ⟨u, e3, h5, h6⟩ := Emit.then_inv _ _ _ _ _ h4
        cases h6
        obtain ⟨e0, d, hw0, hid, hd, hdecl, hb⟩ :=
          declares_last_emit_new_type _ _ (inserts_emit_type_value type_of hlit fuel).1
            (inserts_emit_type_value type_of hlit fuel).2 type hnq e id e2 h3 hw
        have hsame : e1.declarations = e2.declarations ∧ e1.bound = e2.bound := by
          unfold insert_node_id at h5
          split at h5
          · cases h5
            exact ⟨rfl, rfl⟩
          · cases h5
            exact ⟨rfl, rfl⟩
        exact declares_once_of_last e0 e1 d id hw0 hid hd (by rw [hsame.1, hdecl])
          (by rw [hsame.2, hb])

/-- After the emission of a type, the dictionary holds the returned id for the
type, and the qualified forms of the type still agree with it. -/
theorem emit_type_keeps_agreement (type_of : TypeOf) (hlit : TypeOf.scalar_literals type_of) (fuel : Nat)
    (type : Node) (e e1 : Emitter) (id : SpvId) (hagree : e.agrees type)
    (h : emit_type type_of fuel type e = .ok (id, e1)) :
    find_node_id e1 type = some id ∧ e1.agrees type := by
  cases hf : find_node_id e type with
  | some y =>
    cases fuel with
    | zero => cases h
    | succ fuel =>
      rw [emit_type_succ] at h
      unfold emit_type_body at h
      split at h
      · cases h
      · rw [hf] at h
        cases h
        exact ⟨hf, hagree⟩
  | none =>
    have h1 := emit_type_first type_of hlit fuel type e e1 id hf h
    refine ⟨h1.1, ?_⟩
    intro u x hx
    have hu : find_node_id e (.qualified_type u type) = none := by
      cases hq : find_node_id e (.qualified_type u type) with
      | none => rfl
      | some z =>
        rw [hagree u z hq] at hf
        cases hf
    rw [h1.2.1 u hu] at hx
    cases hx

/-- After the emission of a qualified form of a type, the dictionary holds the
returned id for the type itself. -/
theorem emit_type_qualified_keeps_agreement (type_of : TypeOf) (hlit : TypeOf.scalar_literals type_of)
    (fuel : Nat) (type : Node) (u : Bool) (e e1 : Emitter) (id : SpvId) (hagree : e.agrees type)
    (h : emit_type type_of fuel (.qualified_type u type) e = .ok (id, e1)) :
    find_node_id e1 type = some id ∧ e1.agrees type := by
  cases fuel with
  | zero => cases h
  | succ fuel =>
    rw [emit_type_succ] at h
    unfold emit_type_body at h
    split at h
    · cases h
    · split at h
      · rename_i x hx
        cases h
        exact ⟨hagree u _ hx, hagree⟩
      · obtain ⟨new, e2, h3, h4⟩ := Emit.then_inv _ _ _ _ _ h
        obtain ⟨r, e3, h5, h6⟩ := Emit.then_inv _ _ _ _ _ h4
        cases h6
        have h7 : emit_type type_of fuel type e = .ok (id, e2) := h3
        have h8 := emit_type_keeps_agreement type_of hlit fuel type e e2 id hagree h7
        have hle := grows_insert_node_id _ _ _ _ _ h5
        refine ⟨find_node_id_of_le _ _ hle _ _ h8.1, ?_⟩
        intro u1 x hx
        rcases insert_node_id_find _ _ _ _ _ h5 _ _ hx with h9 | h9
        · exact find_node_id_of_le _ _ hle _ _ (h8.2 u1 x h9)
        · rw [h9.2]
          exact find_node_id_of_le _ _ hle _ _ h8.1

/-- Once a type has an id, the emission of the type or of a qualified form of
it returns that id and declares nothing. -/
theorem emit_type_form_cached (type_of : TypeOf) (fuel : Nat) (type : Node)
    (hnull : type.is_null = false) (e : Emitter) (id : SpvId) (hagree : e.agrees type)
    (hf : find_node_id e type = some id) (form : Node) (hform : form ∈ type.forms) :
    ∃ e1, emit_type type_of (fuel + 2) form e = .ok (id, e1) ∧
      e1.declarations = e.declarations ∧ e1.bound = e.bound ∧
      e1.instructions = e.instructions ∧ e1.agrees type ∧ find_node_id e1 type = some id := by
  have hq : ∀ u, ∃ e1, emit_type type_of (fuel + 2) (.qualified_type u type) e = .ok (id, e1) ∧
      e1.declarations = e.declarations ∧ e1.bound = e.bound ∧
      e1.instructions = e.instructions ∧ e1.agrees type ∧ find_node_id e1 type = some id := by
    intro u
    cases hc : find_node_id e (.qualified_type u type) with
    | some x =>
      have hx := hagree u x hc
      rw [hf] at hx
      cases hx
      exact ⟨e, emit_type_cached type_of (fuel + 1) _ e id rfl hc, rfl, rfl, rfl, hagree, hf⟩
    | none =>
      have hrun := emit_type_body_new (emit_type type_of (fuel + 1))
        (emit_value type_of (fuel + 1)) (.qualified_type u type) e e id rfl hc
        (emit_type_cached type_of fuel type e id hnull hf) rfl
      refine ⟨_, hrun, rfl, rfl, rfl, ?_, find_node_id_append e _ type id hf⟩
      intro u1 x hx
      have hins : insert_node_id (.qualified_type u type) id e =
          .ok ((), { e with node_ids := e.node_ids ++ [(.qualified_type u type, id)] }) := by
        unfold insert_node_id
        rw [hc]
      rcases insert_node_id_find _ _ _ _ _ hins _ _ hx with h9 | h9
      · exact find_node_id_append e _ type x (hagree u1 x h9)
      · rw [h9.2]
        exact find_node_id_append e _ type id hf
  unfold Node.forms at hform
  simp only [List.mem_cons, List.mem_singleton, List.mem_nil_iff, or_false] at hform
  rcases hform with rfl | rfl | rfl
  · exact ⟨e, emit_type_cached type_of (fuel + 1) _ e id hnull hf, rfl, rfl, rfl, hagree, hf⟩
  · exact hq true
  · exact hq false

/-- Once a type has an id, a sequence of emissions of the type and of its
qualified forms returns that id every time and declares nothing. -/
theorem emit_types_forms_cached (type_of : TypeOf) (fuel : Nat) (type : Node)
    (hnull : type.is_null = false) (id : SpvId) (forms : List Node)
    (hforms : ∀ f, f ∈ forms → f ∈ type.forms) (e : Emitter) (hagree : e.agrees type)
    (hf : find_node_id e type = some id) :
    ∃ e1, emit_types (emit_type type_of (fuel + 2)) forms e =
        .ok (List.replicate forms.length id, e1) ∧
      e1.declarations = e.declarations ∧ e1.bound = e.bound ∧
      e1.instructions = e.instructions := by
  induction forms generalizing e with
  | nil => exact ⟨e, rfl, rfl, rfl, rfl⟩
  | cons f fs ih =>
    obtain ⟨e1, h1, h2, h3, h4, h5, h6⟩ := emit_type_form_cached type_of fuel type hnull e id
      hagree hf f (hforms f (List.mem_cons_self _ _))
    obtain ⟨e2, h7, h8, h9, h10⟩ := ih (fun x hx => hforms x (List.mem_cons_of_mem _ hx)) e1 h5 h6
    refine ⟨e2, ?_, by rw [h8, h2], by rw [h9, h3], by rw [h10, h4]⟩
    unfold emit_types
    rw [Emit.then_ok _ _ _ _ _ h1, Emit.then_ok _ _ _ _ _ h7]
    rfl

/-! ### The emission of a type returns -/

theorem mem_all_emittable (ts : List Node) (h : Node.all_emittable ts = true) (t : Node)
    (ht : t ∈ ts) : t.emittable = true := by
  induction ts with
  | nil => cases ht
  | cons x xs ih =>
    rw [Node.all_emittable, Bool.and_eq_true] at h
    rcases List.mem_cons.mp ht with rfl | h1
    · exact h.1
    · exact ih h.2 h1

theorem emit_types_total (emit_type : Node → Emit SpvId) (ts : List Node)
    (h : ∀ t, t ∈ ts → ∀ e, ∃ id e1, emit_type t e = .ok (id, e1)) (e : Emitter) :
    ∃ ids e1, emit_types emit_type ts e = .ok (ids, e1) := by
  induction ts generalizing e with
  | nil => exact ⟨[], e, rfl⟩
  | cons t ts ih =>
    obtain ⟨id, e1, h1⟩ := h t (List.mem_cons_self _ _) e
    obtain ⟨ids, e2, h2⟩ := ih (fun x hx => h x (List.mem_cons_of_mem _ hx)) e1
    refine ⟨id :: ids, e2, ?_⟩
    unfold emit_types
    rw [Emit.then_ok _ _ _ _ _ h1, Emit.then_ok _ _ _ _ _ h2]
    rfl

theorem insert_node_id_total (node : Node) (id : SpvId) (e : Emitter) :
    ∃ e1, insert_node_id node id e = .ok ((), e1) := by
  unfold insert_node_id
  split
  · exact ⟨_, rfl⟩
  · exact ⟨_, rfl⟩

theorem emit_type_body_total (emit_type : Node → Emit SpvId)
    (emit_value : Node → Option SpvId → Emit SpvId) (type : Node)
    (hnull : type.is_null = false) (e : Emitter)
    (h : ∃ id e1, emit_new_type emit_type emit_value type e = .ok (id, e1)) :
    ∃ id e1, emit_type_body emit_type emit_value type e = .ok (id, e1) := by
  unfold emit_type_body
  simp only [hnull, Bool.false_eq_true, if_false]
  split
  · exact ⟨_, _, rfl⟩
  · obtain ⟨id, e1, h1⟩ := h
    obtain ⟨e2, h2⟩ := insert_node_id_total type id e1
    refine ⟨id, e2, ?_⟩
    rw [Emit.then_ok _ _ _ _ _ h1, Emit.then_ok _ _ _ _ _ h2]
    rfl

/-- With fuel, the emission of a literal whose type is a scalar type returns. -/
theorem emit_value_literal_total (type_of : TypeOf) (hlit : TypeOf.scalar_literals type_of)
    (fuel : Nat) (v : Node) (hv : (constant_of v 0 0).isSome = true) (e : Emitter) :
    ∃ id e1, emit_value type_of (fuel + 3) v none e = .ok (id, e1) := by
  obtain ⟨d0, hd0⟩ := Option.isSome_iff_exists.mp hv
  have hnn : v.is_null = false := constant_of_not_null v 0 0 d0 hd0
  have hscalar : (literal_type type_of v).is_scalar_type = true := by
    cases v <;> first | (cases hd0; done) | exact hlit _ _ | rfl
  rw [emit_value_succ]
  unfold emit_value_body
  simp only [hnn, Bool.false_eq_true, if_false, Option.isNone_none, if_true]
  split
  · exact ⟨_, _, rfl⟩
  · rw [Emit.then_ok _ _ e e.bound { e with bound := e.bound + 1 } rfl]
    obtain ⟨e1, h1⟩ := insert_node_id_total v e.bound { e with bound := e.bound + 1 }
    obtain ⟨ty, e2, hty⟩ := emit_type_scalar_total type_of fuel (literal_type type_of v) e1 hscalar
    obtain ⟨d, hd⟩ := constant_of_some v 0 0 e.bound ty d0 hd0
    rw [Emit.then_ok _ _ _ _ _ h1,
      Emit.then_ok _ _ _ () _ (emit_constant_literal type_of _ v e.bound ty d _ e2 hty hd)]
    exact ⟨_, _, rfl⟩

/-- With fuel, the emission of a type that the emitter has a case for all the
way down returns. -/
theorem emit_type_total (type_of : TypeOf) (hlit : TypeOf.scalar_literals type_of) (n : Nat) :
    ∀ type : Node, type.size ≤ n → type.emittable = true →
      ∀ k e, ∃ id e1, emit_type type_of (n + 1 + k) type e = .ok (id, e1) := by
  induction n with
  | zero =>
    intro type hs
    have := content_pos type
    omega
  | succ n ih =>
    intro type hs hem k e
    have hfuel : n + 1 + 1 + k = (n + 1 + k) + 1 := by omega
    rw [hfuel, emit_type_succ]
    have hnull : type.is_null = false := by
      cases type <;> first | rfl | cases hem
    apply emit_type_body_total _ _ type hnull
    cases type with
    | int_type w => exact ⟨_, _, rfl⟩
    | bool_type => exact ⟨_, _, rfl⟩
    | ptr_type a p =>
      rw [Node.emittable, Bool.and_eq_true] at hem
      rw [size_ptr] at hs
      obtain ⟨x, e1, h1⟩ := ih p (by omega) hem.2 k e
      cases ha : emit_addr_space a with
      | error err =>
        rw [ha] at hem
        cases hem.1
      | ok sc =>
        unfold emit_new_type
        simp only []
        rw [Emit.then_ok _ _ _ _ _ h1, ha]
        exact ⟨_, _, rfl⟩
    | record_type ms =>
      rw [Node.emittable] at hem
      rw [size_record] at hs
      obtain ⟨ids, e1, h1⟩ := emit_types_total (emit_type type_of (n + 1 + k)) ms
        (fun t ht e => ih t (by have := size_mem_contents t ms ht; omega)
          (mem_all_emittable ms hem t ht) k e) e
      unfold emit_new_type
      simp only []
      rw [Emit.then_ok _ _ _ _ _ h1]
      exact ⟨_, _, rfl⟩
    | fn_type c ps rs =>
      rw [Node.emittable, Bool.and_eq_true, Bool.and_eq_true] at hem
      rw [size_fn_type] at hs
      have hc : c = false := by
        cases c
        · rfl
        · cases hem.1
      subst hc
      obtain ⟨ids, e1, h1⟩ := emit_types_total (emit_type type_of (n + 1 + k)) ps
        (fun t ht e => ih t (by have := size_mem_contents t ps ht; omega)
          (mem_all_emittable ps hem.2.1 t ht) k e) e
      have hcod : ∃ codom e2, nodes_to_codom (emit_type type_of (n + 1 + k)) rs e1 =
          .ok (codom, e2) := by
        unfold nodes_to_codom
        split
        · exact ⟨_, _, rfl⟩
        · rename_i t
          exact ih t (by have := size_mem_contents t [t] (List.mem_singleton_self _); omega)
            (mem_all_emittable _ hem.2.2 t (List.mem_singleton_self _)) k e1
        · exact ih _ (by rw [size_record]; omega) (by rw [Node.emittable]; exact hem.2.2) k e1
      obtain ⟨codom, e2, h2⟩ := hcod
      unfold emit_new_type
      simp only [Bool.false_eq_true, if_false]
      rw [Emit.then_ok _ _ _ _ _ h1, Emit.then_ok _ _ _ _ _ h2]
      exact ⟨_, _, rfl⟩
    | qualified_type u t =>
      rw [Node.emittable] at hem
      rw [size_qualified] at hs
      exact ih t (by omega) hem k e
    | arr_type el sz =>
      rw [Node.emittable, Bool.and_eq_true, Bool.or_eq_true] at hem
      rw [size_arr] at hs
      have hel := content_pos el
      have hsz := content_pos sz
      obtain ⟨x, e1, h1⟩ := ih el (by omega) hem.1 k e
      unfold emit_new_type
      simp only []
      rw [Emit.then_ok _ _ _ _ _ h1]
      by_cases hz : sz.is_null = true
      · simp only [hz, if_true]
        exact ⟨_, _, rfl⟩
      · simp only [hz, Bool.false_eq_true, if_false]
        have hv : (constant_of sz 0 0).isSome = true := by
          rcases hem.2 with h | h
          · exact absurd h hz
          · exact h
        have hfuel2 : n + 1 + k = (n - 2 + k) + 3 := by omega
        rw [hfuel2]
        obtain ⟨y, e2, h2⟩ := emit_value_literal_total type_of hlit (n - 2 + k) sz hv e1
        rw [Emit.then_ok _ _ _ _ _ h2]
        exact ⟨_, _, rfl⟩
    | _ => cases hem

/-! ### The agreement of the dictionary on qualified types -/

theorem find_node_id_congr (e : Emitter) (a b : Node) (h : compare_node a b = true) :
    find_node_id e a = find_node_id e b := by
  unfold compare_node at h
  have hab := of_decide_eq_true h
  unfold find_node_id compare_node
  rw [hab]

theorem compare_qualified (u1 u2 : Bool) (a b : Node)
    (h : compare_node (.qualified_type u1 a) (.qualified_type u2 b) = true) :
    compare_node a b = true := by
  unfold compare_node at h ⊢
  have h1 := of_decide_eq_true h
  simp only [Node.content, List.cons.injEq] at h1
  exact decide_eq_true h1.2.2

theorem is_qualified_of_compare (key : Node) (u : Bool) (t : Node)
    (h : compare_node key (.qualified_type u t) = true) : key.is_qualified = true := by
  unfold compare_node at h
  have h1 := of_decide_eq_true h
  cases key <;> first | rfl | simp [Node.content] at h1

/-- What the dictionary holds for a node after an insertion, with the key that
has been found. -/
theorem insert_node_id_found (key : Node) (id : SpvId) (e e1 : Emitter) (r : Unit)
    (h : insert_node_id key id e = .ok (r, e1)) (k : Node) (x : SpvId)
    (hk : find_node_id e1 k = some x) :
    find_node_id e k = some x ∨ (x = id ∧ compare_node key k = true) := by
  unfold insert_node_id at h
  split at h
  · cases h
    exact Or.inl hk
  · cases h
    cases hf : find_node_id e k with
    | some y =>
      left
      rw [find_node_id_append e (key, id) k y hf] at hk
      exact hk
    | none =>
      right
      unfold find_node_id at hk hf
      have hk1 : (match (e.node_ids ++ [(key, id)]).find? (fun en => compare_node en.1 k) with
        | some en => some en.2
        | none => none) = some x := hk
      rw [List.find?_append] at hk1
      cases hx : e.node_ids.find? (fun en => compare_node en.1 k) with
      | some en =>
        rw [hx] at hf
        cases hf
      | none =>
        rw [hx] at hk1
        by_cases hc : compare_node key k = true
        · simp [List.find?, hc] at hk1
          exact ⟨hk1.symm, hc⟩
        · simp [List.find?, hc] at hk1

/-- Storing an id for a node that is not a qualified type keeps the
agreement. -/
theorem agrees_insert_unqualified (key : Node) (id : SpvId) (hkey : key.is_qualified = false)
    (e e1 : Emitter) (r : Unit) (h : insert_node_id key id e = .ok (r, e1)) (type : Node)
    (hagree : e.agrees type) : e1.agrees type := by
  intro u x hx
  have hle := grows_insert_node_id _ _ _ _ _ h
  rcases insert_node_id_found _ _ _ _ _ h _ _ hx with h1 | h1
  · exact find_node_id_of_le _ _ hle _ _ (hagree u x h1)
  · rw [is_qualified_of_compare key u type h1.2] at hkey
    cases hkey

theorem consistent_of_ids (e e1 : Emitter) (h : e1.node_ids = e.node_ids) (hc : e.consistent) :
    e1.consistent := by
  intro type u x hx
  have h1 : ∀ k, find_node_id e1 k = find_node_id e k := by
    intro k
    unfold find_node_id
    rw [h]
  rw [h1] at hx ⊢
  exact hc type u x hx

theorem agreeing_pure {α : Type} (a : α) : Emit.keeps_consistent (pure a : Emit α) := by
  intro e r e1 h hc
  cases h
  exact hc

theorem agreeing_fault {α : Type} (err : Fault) :
    Emit.keeps_consistent (Emit.fault err : Emit α) := by
  intro e r e1 h
  cases h

theorem agreeing_bind {α β : Type} (m : Emit α) (f : α → Emit β) (hm : Emit.keeps_consistent m)
    (hf : ∀ a, Emit.keeps_consistent (f a)) : Emit.keeps_consistent (m >>= f) := by
  intro e r e2 h hc
  obtain ⟨a, e1, h1, h2⟩ := Emit.then_inv _ _ _ _ _ h
  exact hf a e1 r e2 h2 (hm e a e1 h1 hc)

theorem agreeing_of_except {α : Type} (r : Except Fault α) :
    Emit.keeps_consistent (Emit.of_except r) := by
  intro e a e1 h hc
  cases r with
  | error err => cases h
  | ok x =>
    cases h
    exact hc

theorem agreeing_get : Emit.keeps_consistent Emit.get := by
  intro e r e1 h hc
  cases h
  exact hc

theorem agreeing_fresh_id : Emit.keeps_consistent spvb_fresh_id := by
  intro e r e1 h hc
  cases h
  exact consistent_of_ids e _ rfl hc

theorem agreeing_declare (d : SpvDecl) : Emit.keeps_consistent (spvb_declare d) := by
  intro e r e1 h hc
  cases h
  exact consistent_of_ids e _ rfl hc

theorem agreeing_fresh_declare (d : SpvId → SpvDecl) :
    Emit.keeps_consistent
      (spvb_fresh_id >>= fun id => spvb_declare (d id) >>= fun _ => pure id) :=
  agreeing_bind _ _ agreeing_fresh_id
    (fun _ => agreeing_bind _ _ (agreeing_declare _) (fun _ => agreeing_pure _))

theorem agreeing_insert_unqualified (key : Node) (id : SpvId) (hkey : key.is_qualified = false) :
    Emit.keeps_consistent (insert_node_id key id) := by
  intro e r e1 h hc type
  exact agrees_insert_unqualified key id hkey e e1 r h type (hc type)

theorem agreeing_emit_types (emit_type : Node → Emit SpvId)
    (h : ∀ t, Emit.keeps_consistent (emit_type t)) (ts : List Node) :
    Emit.keeps_consistent (emit_types emit_type ts) := by
  induction ts with
  | nil => exact agreeing_pure _
  | cons t ts ih => exact agreeing_bind _ _ (h t) (fun _ => agreeing_bind _ _ ih (fun _ => agreeing_pure _))

theorem agreeing_nodes_to_codom (emit_type : Node → Emit SpvId)
    (h : ∀ t, Emit.keeps_consistent (emit_type t)) (ts : List Node) :
    Emit.keeps_consistent (nodes_to_codom emit_type ts) := by
  unfold nodes_to_codom
  split
  · exact agreeing_bind _ _ agreeing_get (fun _ => agreeing_pure _)
  · exact h _
  · exact h _

theorem agreeing_emit_new_type (emit_type : Node → Emit SpvId)
    (emit_value : Node → Option SpvId → Emit SpvId)
    (h1 : ∀ t, Emit.keeps_consistent (emit_type t))
    (h2 : ∀ n u, Emit.keeps_consistent (emit_value n u)) (type : Node) :
    Emit.keeps_consistent (emit_new_type emit_type emit_value type) := by
  unfold emit_new_type
  split
  · exact agreeing_fresh_declare _
  · exact agreeing_fresh_declare _
  · exact agreeing_bind _ _ (h1 _)
      (fun _ => agreeing_bind _ _ (agreeing_of_except _) (fun _ => agreeing_fresh_declare _))
  · exact agreeing_bind _ _ (agreeing_emit_types _ h1 _) (fun _ => agreeing_fresh_declare _)
  · split
    · exact agreeing_fault _
    · exact agreeing_bind _ _ (agreeing_emit_types _ h1 _)
        (fun _ => agreeing_bind _ _ (agreeing_nodes_to_codom _ h1 _) (fun _ => agreeing_fresh_declare _))
  · exact h1 _
  · refine agreeing_bind _ _ (h1 _) (fun _ => ?_)
    split
    · exact agreeing_fresh_declare _
    · exact agreeing_bind _ _ (h2 _ _) (fun _ => agreeing_fresh_declare _)
  · exact agreeing_fault _

theorem agreeing_emit_constant (type_of : TypeOf) (emit_type : Node → Emit SpvId)
    (h1 : ∀ t, Emit.keeps_consistent (emit_type t)) (node : Node) (new : SpvId) :
    Emit.keeps_consistent (emit_constant type_of emit_type node new) := by
  unfold emit_constant
  split
  · exact agreeing_fault _
  · refine agreeing_bind _ _ (h1 _) (fun _ => ?_)
    split
    · exact agreeing_declare _
    · exact agreeing_declare _
  · exact agreeing_bind _ _ (h1 _) (fun _ => agreeing_declare _)
  · exact agreeing_bind _ _ (h1 _) (fun _ => agreeing_declare _)
  · exact agreeing_fault _

theorem emit_constant_unqualified (type_of : TypeOf) (emit_type : Node → Emit SpvId)
    (node : Node) (new : SpvId) (e e1 : Emitter) (r : Unit)
    (h : emit_constant type_of emit_type node new e = .ok (r, e1)) :
    node.is_qualified = false := by
  cases node <;> first | rfl | cases h

theorem agreeing_emit_value_body (type_of : TypeOf) (emit_type : Node → Emit SpvId)
    (h1 : ∀ t, Emit.keeps_consistent (emit_type t)) (node : Node) (use_id : Option SpvId) :
    Emit.keeps_consistent (emit_value_body type_of emit_type node use_id) := by
  intro e r e1 h hc
  unfold emit_value_body at h
  split at h
  · cases h
  · split at h
    · cases h
      exact hc
    · obtain ⟨new, s1, h3, h4⟩ := Emit.then_inv _ _ _ _ _ h
      obtain ⟨u, s2, h5, h6⟩ := Emit.then_inv _ _ _ _ _ h4
      obtain ⟨u2, s3, h7, h8⟩ := Emit.then_inv _ _ _ _ _ h6
      cases h8
      have hq := emit_constant_unqualified type_of emit_type node r s2 _ u2 h7
      have hs1 : s1.consistent := by
        cases use_id with
        | none => exact agreeing_fresh_id e r s1 h3 hc
        | some id => exact agreeing_pure id e r s1 h3 hc
      exact agreeing_emit_constant type_of emit_type h1 node r s2 u2 _ h7
        (agreeing_insert_unqualified node r hq s1 u s2 h5 hs1)

/-- The emission of a type or of a value keeps the agreement of the dictionary
on the qualified forms of every type. -/
theorem agreeing_emit_type_value (type_of : TypeOf) (hlit : TypeOf.scalar_literals type_of)
    (fuel : Nat) :
    (∀ t, Emit.keeps_consistent (emit_type type_of fuel t)) ∧
    (∀ n u, Emit.keeps_consistent (emit_value type_of fuel n u)) := by
  induction fuel with
  | zero => exact ⟨fun _ => agreeing_fault _, fun _ _ => agreeing_fault _⟩
  | succ fuel ih =>
    refine ⟨?_, fun n u => agreeing_emit_value_body type_of _ ih.1 n u⟩
    intro t e r e1 h hc
    rw [emit_type_succ] at h
    unfold emit_type_body at h
    split at h
    · cases h
    · split at h
      · cases h
        exact hc
      · obtain ⟨new, e2, h3, h4⟩ := Emit.then_inv _ _ _ _ _ h
        obtain ⟨u, e3, h5, h6⟩ := Emit.then_inv _ _ _ _ _ h4
        cases h6
        have hc2 := agreeing_emit_new_type _ _ ih.1 ih.2 t e r e2 h3 hc
        cases hq : t.is_qualified with
        | false => exact agreeing_insert_unqualified t r hq e2 u _ h5 hc2
        | true =>
          cases t with
          | qualified_type u0 t0 =>
            have h7 : emit_type type_of fuel t0 e = .ok (r, e2) := h3
            have h8 := emit_type_keeps_agreement type_of hlit fuel t0 e e2 r (hc t0) h7
            have hle := grows_insert_node_id _ _ _ _ _ h5
            intro type u1 x hx
            rcases insert_node_id_found _ _ _ _ _ h5 _ _ hx with h9 | h9
            · exact find_node_id_of_le _ _ hle _ _ (hc2 type u1 x h9)
            · rw [h9.1]
              apply find_node_id_of_le _ _ hle
              rw [← find_node_id_congr e2 t0 type (compare_qualified _ _ _ _ h9.2)]
              exact h8.1
          | _ => cases hq

/-- C22: one SPIR-V type per IR type, qualifiers transparent.  For a typing
that gives integer literals a scalar type, a type `type` that is not null and
an emitter state `e` whose dictionary agrees on `type` (a qualified form of
`type` has no other id than `type`; this holds for the empty dictionary and
every emission of a type or value keeps it, for all types at once):
(1) if `emit_type` has a case for `type` all the way down, the emission of
`type`, of the uniform and of the varying `type` returns;
(2) whichever of the three forms is emitted, the id it returns is stored for
`type`, the agreement is kept, every later sequence of emissions of the three
forms, in any order and of any length, returns that id every time and appends
no declaration, allocates no id and emits no instruction; and if `type` had no
id before and is not itself a qualified type, then exactly one declaration of
the file builder defines the returned id, after the first emission and after
every such sequence;
(3) if `type` has an id already, each of the three forms returns it and
nothing is declared;
(4) from a state where `type` has no id, the emission of a qualified form
returns the id that the emission of `type` returns from the same state, with
the same declarations;
(5) the emission of any type keeps the agreement for all types. -/
theorem one_id_per_type (type_of : TypeOf) (hlit : TypeOf.scalar_literals type_of) (fuel : Nat)
    (type : Node) (hnull : type.is_null = false) (e : Emitter) (hagree : e.agrees type) :
    (type.emittable = true → ∀ form, form ∈ type.forms →
      ∃ id e1, emit_type type_of (type.size + 3 + fuel) form e = .ok (id, e1)) ∧
    (∀ form, form ∈ type.forms → ∀ id e1, emit_type type_of fuel form e = .ok (id, e1) →
      find_node_id e1 type = some id ∧ e1.agrees type ∧
      (∀ forms, (∀ f, f ∈ forms → f ∈ type.forms) → ∀ fuel2,
        ∃ e2, emit_types (emit_type type_of (fuel2 + 2)) forms e1 =
            .ok (List.replicate forms.length id, e2) ∧
          e2.declarations = e1.declarations ∧ e2.bound = e1.bound ∧
          e2.instructions = e1.instructions) ∧
      (find_node_id e type = none → type.is_qualified = false → e.wf →
        e1.declares_once id ∧ e1.wf ∧
        ∀ forms, (∀ f, f ∈ forms → f ∈ type.forms) → ∀ fuel2 ids e2,
          emit_types (emit_type type_of (fuel2 + 2)) forms e1 = .ok (ids, e2) →
          e2.declares_once id)) ∧
    (∀ id, find_node_id e type = some id → ∀ form, form ∈ type.forms →
      ∃ e1, emit_type type_of (fuel + 2) form e = .ok (id, e1) ∧
        e1.declarations = e.declarations ∧ e1.bound = e.bound) ∧
    (∀ u id e1, find_node_id e type = none →
      emit_type type_of (fuel + 1) (.qualified_type u type) e = .ok (id, e1) →
      ∃ e2, emit_type type_of fuel type e = .ok (id, e2) ∧
        e1.declarations = e2.declarations) ∧
    (e.consistent → ∀ fuel2 other id e1, emit_type type_of fuel2 other e = .ok (id, e1) →
      e1.consistent) := by
  have hqnone : find_node_id e type = none →
      ∀ u, find_node_id e (.qualified_type u type) = none := by
    intro hnone u
    cases hq : find_node_id e (.qualified_type u type) with
    | none => rfl
    | some z =>
      rw [hagree u z hq] at hnone
      cases hnone
  have hstores : ∀ form, form ∈ type.forms → ∀ id e1,
      emit_type type_of fuel form e = .ok (id, e1) →
      find_node_id e1 type = some id ∧ e1.agrees type := by
    intro form hform id e1 h
    unfold Node.forms at hform
    simp only [List.mem_cons, List.mem_singleton, List.mem_nil_iff, or_false] at hform
    rcases hform with rfl | rfl | rfl
    · exact emit_type_keeps_agreement type_of hlit fuel _ e e1 id hagree h
    · exact emit_type_qualified_keeps_agreement type_of hlit fuel type true e e1 id hagree h
    · exact emit_type_qualified_keeps_agreement type_of hlit fuel type false e e1 id hagree h
  have hqual : ∀ u id e1, find_node_id e type = none →
      ∀ fuel1, emit_type type_of (fuel1 + 1) (.qualified_type u type) e = .ok (id, e1) →
      ∃ e2, emit_type type_of fuel1 type e = .ok (id, e2) ∧
        e1.declarations = e2.declarations ∧ e1.bound = e2.bound := by
    intro u id e1 hnone fuel1 h
    rw [emit_type_succ] at h
    unfold emit_type_body at h
    simp only [Node.is_null, Bool.false_eq_true, if_false, hqnone hnone u] at h
    obtain ⟨new, e2, h3, h4⟩ := Emit.then_inv _ _ _ _ _ h
    obtain ⟨r, e3, h5, h6⟩ := Emit.then_inv _ _ _ _ _ h4
    cases h6
    refine ⟨e2, h3, ?_⟩
    unfold insert_node_id at h5
    split at h5
    · cases h5
      exact ⟨rfl, rfl⟩
    · cases h5
      exact ⟨rfl, rfl⟩
  refine ⟨?_, ?_, ?_, ?_, ?_⟩
  · intro hem form hform
    unfold Node.forms at hform
    simp only [List.mem_cons, List.mem_singleton, List.mem_nil_iff, or_false] at hform
    have hq : ∀ u, ∃ id e1,
        emit_type type_of (type.size + 3 + fuel) (.qualified_type u type) e = .ok (id, e1) := by
      intro u
      have h := emit_type_total type_of hlit (type.size + 2) (.qualified_type u type)
        (by rw [size_qualified]) (by rw [Node.emittable]; exact hem) fuel e
      exact h
    rcases hform with rfl | rfl | rfl
    · have h := emit_type_total type_of hlit form.size form (Nat.le_refl _) hem (fuel + 2) e
      have hf : form.size + 1 + (fuel + 2) = form.size + 3 + fuel := by omega
      rw [hf] at h
      exact h
    · exact hq true
    · exact hq false
  · intro form hform id e1 h
    have hs := hstores form hform id e1 h
    refine ⟨hs.1, hs.2, ?_, ?_⟩
    · intro forms hforms fuel2
      exact emit_types_forms_cached type_of fuel2 type hnull id forms hforms e1 hs.2 hs.1
    · intro hnone hnq hw
      have honce : e1.declares_once id ∧ e1.wf := by
        unfold Node.forms at hform
        simp only [List.mem_cons, List.mem_singleton, List.mem_nil_iff, or_false] at hform
        have hq : ∀ u, emit_type type_of fuel (.qualified_type u type) e = .ok (id, e1) →
            e1.declares_once id ∧ e1.wf := by
          intro u hu
          cases fuel with
          | zero => cases hu
          | succ fuel1 =>
            obtain ⟨e2, h2, h3, h4⟩ := hqual u id e1 hnone fuel1 hu
            have h5 := (emit_type_first type_of hlit fuel1 type e e2 id hnone h2).2.2 hnq hw
            constructor
            · unfold Emitter.declares_once
              rw [h3]
              exact h5.1
            · intro d hd x hx
              rw [h4]
              rw [h3] at hd
              exact h5.2 d hd x hx
        rcases hform with rfl | rfl | rfl
        · exact (emit_type_first type_of hlit fuel _ e e1 id hnone h).2.2 hnq hw
        · exact hq true h
        · exact hq false h
      refine ⟨honce.1, honce.2, ?_⟩
      intro forms hforms fuel2 ids e2 hrun
      obtain ⟨e3, h3, h4, _, _⟩ :=
        emit_types_forms_cached type_of fuel2 type hnull id forms hforms e1 hs.2 hs.1
      rw [h3] at hrun
      cases hrun
      unfold Emitter.declares_once
      rw [h4]
      exact honce.1
  · intro id hf form hform
    obtain ⟨e1, h1, h2, h3, _⟩ :=
      emit_type_form_cached type_of fuel type hnull e id hagree hf form hform
    exact ⟨e1, h1, h2, h3⟩
  · intro u id e1 hnone h
    obtain ⟨e2, h2, h3, _⟩ := hqual u id e1 hnone fuel h
    exact ⟨e2, h2, h3⟩
  · intro hc fuel2 other id e1 h
    exact (agreeing_emit_type_value type_of hlit fuel2).1 other e id e1 h hc

/-- C22, on an example: from the empty dictionary, the emission of the uniform
`i32` declares `OpTypeInt 32 1` under the id 1; the `i32` and the varying `i32`
emitted after it return the id 1 and declare nothing, and so does every later
sequence of the three forms. -/
theorem one_id_per_type_witness :
    TypeOf.scalar_literals example_type_of ∧
    new_emitter.agrees (.int_type .IntTy32) ∧
    emit_types (emit_type example_type_of 2)
        [.qualified_type true (.int_type .IntTy32), .int_type .IntTy32,
          .qualified_type false (.int_type .IntTy32)] new_emitter =
      .ok ([1, 1, 1],
        { bound := 2, declarations := [.int_type 1 32 true], variables_ := [],
          instructions := [], void_t := 0,
          node_ids := [(.int_type .IntTy32, 1), (.qualified_type true (.int_type .IntTy32), 1),
            (.qualified_type false (.int_type .IntTy32), 1)] }) ∧
    (∀ forms, (∀ f, f ∈ forms → f ∈ Node.forms (.int_type .IntTy32)) → ∀ fuel2,
      ∃ e2, emit_types (emit_type example_type_of (fuel2 + 2)) forms
          { bound := 2, declarations := [.int_type 1 32 true], variables_ := [],
            instructions := [], void_t := 0,
            node_ids := [(.int_type .IntTy32, 1),
              (.qualified_type true (.int_type .IntTy32), 1)] } =
          .ok (List.replicate forms.length 1, e2) ∧
        e2.declarations = [.int_type 1 32 true] ∧ e2.bound = 2 ∧ e2.instructions = []) :=
  ⟨fun _ _ => rfl, (fun _ _ h => by cases h), rfl,
    ((one_id_per_type example_type_of (fun _ _ => rfl) 2 (.int_type .IntTy32) rfl new_emitter
      (fun _ _ h => by cases h)).2.1 (.qualified_type true (.int_type .IntTy32))
      (by simp [Node.forms]) 1 _ rfl).2.2.1⟩

/-! ## Theorems: the binder -/

theorem BindM.seq_ok {α β : Type} (m : BindM α) (f : α → BindM β) (ctx : BindRewriter) (a : α)
    (c1 : BindRewriter) (h : m ctx = .ok (a, c1)) : (m >>= f) ctx = f a c1 := by
  show (match m ctx with
    | .error err => Except.error err
    | .ok r => f r.1 r.2) = _
  rw [h]

theorem resolve_from_first (id : String) (before after : List BindEntry) (entry : BindEntry)
    (hbefore : ∀ b, b ∈ before → b.id ≠ id) (hentry : entry.id = id) :
    resolve_from id (before ++ entry :: after) = .ok entry.new_node := by
  induction before with
  | nil => simp [resolve_from, hentry]
  | cons b bs ih =>
    have hb : b.id ≠ id := hbefore b (List.mem_cons_self _ _)
    simp only [List.cons_append, resolve_from, hb, if_false]
    exact ih (fun c hc => hbefore c (List.mem_cons_of_mem _ hc))

/-- C29 (the code): `resolve` returns the variable of the entry named `id` that
was pushed FIRST: if no entry before `entry` has the name `id` and `entry` has
it, the result is the variable of `entry`, whatever has been pushed after it,
entries of the same name included; an outer binding hides every inner binding
of its name. -/
theorem resolve_returns_first_pushed (id : String) (before after : List BindEntry)
    (entry : BindEntry) (next_free_id : Nat)
    (hbefore : ∀ b, b ∈ before → b.id ≠ id) (hentry : entry.id = id) :
    resolve { bound_variables := before ++ entry :: after, next_free_id := next_free_id } id =
      .ok entry.new_node :=
  resolve_from_first id before after entry hbefore hentry

/-- Witness of C29: with the two entries for `x` pushed by a parameter (the
variable with the id 10) and then by a `let` (the variable with the id 11),
`resolve` returns the variable of the parameter; and in
`f(x) { let x = c; use(x) }` the binder makes the `x` of `use(x)` the
parameter, not the variable of the `let`. -/
theorem resolve_returns_first_pushed_witness :
    resolve
      { bound_variables := [⟨"x", .var "x" 10 .null⟩, ⟨"x", .var "x" 11 .null⟩]
        next_free_id := 12 }
      "x" = .ok (.var "x" 10 .null) ∧
    bind_node 3 example_shadowing_fn { bound_variables := [], next_free_id := 10 } =
      .ok (.fn .null
          [.let_ [.var "x" 11 .null] (.other 1 []), .other 2 [.var "x" 10 .null]]
          [.var "x" 10 .null],
        { bound_variables := [], next_free_id := 12 }) :=
  ⟨resolve_returns_first_pushed "x" [] [⟨"x", .var "x" 11 .null⟩] ⟨"x", .var "x" 10 .null⟩ 12
    (fun _ h => absurd h (List.not_mem_nil _)) rfl, rfl⟩

theorem resolve_from_append_new (id : String) (entries : List BindEntry) (entry : BindEntry)
    (hnone : ∀ b, b ∈ entries → b.id ≠ id) (hentry : entry.id = id) :
    resolve_from id (entries ++ [entry]) = .ok entry.new_node :=
  resolve_from_first id entries [] entry hnone hentry

/-- C30 (the code): for a `Let` that binds `x` and whose target is an
occurrence of `x` (directly, or as an operand of a node of another tag), in a
context in which no entry has the name `x`: `bind_node` does not end in
`error`; it returns the `Let` whose target is (or holds) the variable that
this very `Let` introduces, because the entry is appended before the target is
rewritten. -/
theorem let_target_resolves_to_own_variable (fuel : Nat) (x : String) (i j tag : Nat)
    (type : Bind.Node) (ctx : BindRewriter)
    (hnone : ∀ b, b ∈ ctx.bound_variables → b.id ≠ x) :
    bind_node (fuel + 2) (.let_ [.var x i type] (.var x j .null)) ctx =
      .ok (.let_ [.var x ctx.next_free_id type] (.var x ctx.next_free_id type),
        { bound_variables :=
            ctx.bound_variables ++ [⟨x, .var x ctx.next_free_id type⟩]
          next_free_id := ctx.next_free_id + 1 }) ∧
    bind_node (fuel + 3) (.let_ [.var x i type] (.other tag [.var x j .null])) ctx =
      .ok (.let_ [.var x ctx.next_free_id type]
          (.other tag [.var x ctx.next_free_id type]),
        { bound_variables :=
            ctx.bound_variables ++ [⟨x, .var x ctx.next_free_id type⟩]
          next_free_id := ctx.next_free_id + 1 }) := by
  have hres : resolve
      { bound_variables := ctx.bound_variables ++ [⟨x, .var x ctx.next_free_id type⟩]
        next_free_id := ctx.next_free_id + 1 } x = .ok (.var x ctx.next_free_id type) :=
    resolve_from_append_new x ctx.bound_variables ⟨x, .var x ctx.next_free_id type⟩ hnone rfl
  have hvars : bind_variables [.var x i type] ctx =
      .ok ([.var x ctx.next_free_id type],
        { bound_variables := ctx.bound_variables ++ [⟨x, .var x ctx.next_free_id type⟩]
          next_free_id := ctx.next_free_id + 1 }) := rfl
  have hocc : ∀ f, bind_node (f + 1) (.var x j .null)
      { bound_variables := ctx.bound_variables ++ [⟨x, .var x ctx.next_free_id type⟩]
        next_free_id := ctx.next_free_id + 1 } =
      .ok (.var x ctx.next_free_id type,
        { bound_variables := ctx.bound_variables ++ [⟨x, .var x ctx.next_free_id type⟩]
          next_free_id := ctx.next_free_id + 1 }) := by
    intro f
    show (match resolve _ x with
      | .ok found => Except.ok (found, _)
      | .error err => Except.error err) = _
    rw [hres]
  constructor
  · show (bind_variables [.var x i type] >>= fun noutputs =>
      bind_node (fuel + 1) (.var x j .null) >>= fun target =>
        pure (Bind.Node.let_ noutputs target)) ctx = _
    rw [BindM.seq_ok _ _ ctx _ _ hvars, BindM.seq_ok _ _ _ _ _ (hocc fuel)]
    rfl
  · show (bind_variables [.var x i type] >>= fun noutputs =>
      bind_node (fuel + 2) (.other tag [.var x j .null]) >>= fun target =>
        pure (Bind.Node.let_ noutputs target)) ctx = _
    have hother : bind_node (fuel + 2) (.other tag [.var x j .null])
        { bound_variables := ctx.bound_variables ++ [⟨x, .var x ctx.next_free_id type⟩]
          next_free_id := ctx.next_free_id + 1 } =
        .ok (.other tag [.var x ctx.next_free_id type],
          { bound_variables := ctx.bound_variables ++ [⟨x, .var x ctx.next_free_id type⟩]
            next_free_id := ctx.next_free_id + 1 }) := by
      show (Bind.rewrite_nodes (bind_node (fuel + 1)) [.var x j .null] >>= fun operands =>
        pure (Bind.Node.other tag operands)) _ = _
      have hnodes : Bind.rewrite_nodes (bind_node (fuel + 1)) [.var x j .null]
          { bound_variables := ctx.bound_variables ++ [⟨x, .var x ctx.next_free_id type⟩]
            next_free_id := ctx.next_free_id + 1 } =
          .ok ([.var x ctx.next_free_id type],
            { bound_variables := ctx.bound_variables ++ [⟨x, .var x ctx.next_free_id type⟩]
              next_free_id := ctx.next_free_id + 1 }) := by
        show (bind_node (fuel + 1) (.var x j .null) >>= fun new =>
          Bind.rewrite_nodes (bind_node (fuel + 1)) [] >>= fun news => pure (new :: news)) _ = _
        rw [BindM.seq_ok _ _ _ _ _ (hocc fuel)]
        rfl
      rw [BindM.seq_ok _ _ _ _ _ hnodes]
      rfl
    rw [BindM.seq_ok _ _ ctx _ _ hvars, BindM.seq_ok _ _ _ _ _ hother]
    rfl

/-- Witness of C30: `let x = x` and `let x = g(x)` with nothing bound before
and 10 as the next free id: the binder returns the `Let` whose target is the
new variable `x` with the id 10. -/
theorem let_target_resolves_to_own_variable_witness :
    bind_node 2 (.let_ [.var "x" 0 .null] (Bind.occurrence "x"))
        { bound_variables := [], next_free_id := 10 } =
      .ok (.let_ [.var "x" 10 .null] (.var "x" 10 .null),
        { bound_variables := [⟨"x", .var "x" 10 .null⟩], next_free_id := 11 }) ∧
    bind_node 3 (.let_ [.var "x" 0 .null] (.other 7 [Bind.occurrence "x"]))
        { bound_variables := [], next_free_id := 10 } =
      .ok (.let_ [.var "x" 10 .null] (.other 7 [.var "x" 10 .null]),
        { bound_variables := [⟨"x", .var "x" 10 .null⟩], next_free_id := 11 }) :=
  let_target_resolves_to_own_variable 0 "x" 0 0 7 .null
    { bound_variables := [], next_free_id := 10 } (fun _ h => absurd h (List.not_mem_nil _))

/-! ## Theorems: bump allocation -/

theorem round_up_dvd (n A : Nat) : A ∣ round_up n A := by
  unfold round_up
  have h1 : (n + A - 1) % size_mod / A * A ≤ (n + A - 1) % size_mod := Nat.div_mul_le_self _ _
  have h2 : (n + A - 1) % size_mod < size_mod := Nat.mod_lt _ (by decide)
  rw [Nat.mod_eq_of_lt (Nat.lt_of_le_of_lt h1 h2)]
  exact Nat.dvd_mul_left _ _

/-- A rounded size that is not 0 is the least multiple of the alignment that is
at least the size. -/
theorem round_up_least (n A : Nat) (hA : 0 < A) (hdvd : A ∣ alloc_size) (hn : n < size_mod)
    (hne : round_up n A ≠ 0) :
    n ≤ round_up n A ∧ round_up n A < n + A ∧ round_up n A = (n + A - 1) / A * A := by
  have hAle : A ≤ alloc_size := Nat.le_of_dvd (by decide) hdvd
  have hsz : alloc_size = 1048576 := rfl
  have hsm : size_mod = 18446744073709551616 := rfl
  have hlt : n + A - 1 < size_mod := by
    by_contra hge
    apply hne
    unfold round_up
    have h1 : (n + A - 1) % size_mod = n + A - 1 - size_mod := by
      rw [Nat.mod_eq_sub_mod (by omega)]
      apply Nat.mod_eq_of_lt
      omega
    rw [h1, Nat.div_eq_of_lt (by omega), Nat.zero_mul]
    rfl
  have h1 : (n + A - 1) % size_mod = n + A - 1 := Nat.mod_eq_of_lt hlt
  have h2 : (n + A - 1) / A * A ≤ n + A - 1 := Nat.div_mul_le_self _ _
  have e : round_up n A = (n + A - 1) / A * A := by
    unfold round_up
    rw [h1, Nat.mod_eq_of_lt (by omega)]
  have hdm := Nat.div_add_mod (n + A - 1) A
  have hml := Nat.mod_lt (n + A - 1) hA
  have hmul : A * ((n + A - 1) / A) = (n + A - 1) / A * A := Nat.mul_comm _ _
  refine ⟨?_, ?_, e⟩ <;> rw [e] <;> omega

/-- One call of `arena_alloc` in a state that satisfies the invariant, for a
request whose rounded size is at most a block and for which the current block
or a free slot of the block-pointer array has room. -/
theorem arena_alloc_step (abi : Abi) (a : IrArena) (n : Nat)
    (hdvd : abi.max_align ∣ alloc_size) (hinv : a.bump_inv abi)
    (hle : round_up n abi.max_align ≤ alloc_size)
    (hroom : round_up n abi.max_align ≤ a.available ∨ a.nblocks < a.maxblocks) :
    ∃ p a1, arena_alloc abi a n = .ok (p, a1) ∧ a1.bump_inv abi ∧
      (p = none ↔ round_up n abi.max_align = 0) ∧
      (∀ q, p = some q →
        abi.max_align ∣ q.off ∧ q.off + round_up n abi.max_align ≤ alloc_size ∧
        q.block < a1.nblocks ∧
        ∀ o, q.off ≤ o → o < q.off + round_up n abi.max_align →
          a1.used q.block o ∧ ¬ a.used q.block o) ∧
      (∀ b o, a.used b o → a1.used b o) ∧
      (a.available < round_up n abi.max_align → a1.nblocks = a.nblocks + 1) ∧
      (round_up n abi.max_align ≤ a.available → a1.nblocks = a.nblocks) ∧
      a1.maxblocks = a.maxblocks := by
  obtain ⟨hwf, hav⟩ := hinv
  have hrd := round_up_dvd n abi.max_align
  by_cases h0 : round_up n abi.max_align = 0
  · have e : arena_alloc abi a n = .ok (none, a) := by
      unfold arena_alloc
      simp only []
      rw [if_pos h0]
    refine ⟨none, a, e, ⟨hwf, hav⟩, ⟨fun _ => h0, fun _ => rfl⟩, fun q hq => Option.noConfusion hq,
      fun b o h => h, fun h => ?_, fun _ => rfl, rfl⟩
    omega
  · cases hrun : arena_alloc abi a n with
    | error err =>
      exfalso
      by_cases hfit : round_up n abi.max_align ≤ a.available
      · rw [arena_alloc_same_block abi a n hwf (by omega) hfit] at hrun
        cases hrun
      · have hslot : a.nblocks < a.maxblocks := by
          rcases hroom with h | h
          · exact absurd h hfit
          · exact h
        rw [arena_alloc_new_block abi a n hwf hle (by omega) hslot] at hrun
        cases hrun
    | ok r =>
      obtain ⟨p, a1⟩ := r
      have hwf1 := arena_alloc_wf abi a n p a1 hwf hle hroom hrun
      have hframe := arena_alloc_frame abi a n p a1 hwf hle hroom hrun
      obtain ⟨q, hq⟩ := hframe.2.2.2.2 h0
      have hshape : (a.available < round_up n abi.max_align →
            a1.nblocks = a.nblocks + 1 ∧ q.off = 0 ∧
              a1.available = alloc_size - round_up n abi.max_align) ∧
          (round_up n abi.max_align ≤ a.available →
            a1.nblocks = a.nblocks ∧ q.off = alloc_size - a.available ∧
              a1.available = a.available - round_up n abi.max_align) ∧
          a1.maxblocks = a.maxblocks ∧ q.block < a1.nblocks := by
        by_cases hfit : round_up n abi.max_align ≤ a.available
        · rw [arena_alloc_same_block abi a n hwf (by omega) hfit, hq] at hrun
          cases hrun
          have hnb : a.nblocks ≠ 0 := by
            intro hz
            have := hwf.2.2.2.1 hz
            omega
          refine ⟨fun h => absurd hfit (by omega), fun _ => ⟨rfl, rfl, rfl⟩, rfl, ?_⟩
          show a.nblocks - 1 < a.nblocks
          omega
        · have hslot : a.nblocks < a.maxblocks := by
            rcases hroom with h | h
            · exact absurd h hfit
            · exact h
          rw [arena_alloc_new_block abi a n hwf hle (by omega) hslot, hq] at hrun
          cases hrun
          exact ⟨fun _ => ⟨rfl, rfl, rfl⟩, fun h => absurd h hfit, rfl, Nat.lt_succ_self _⟩
      have hav3 := hwf.2.2.1
      refine ⟨p, a1, rfl, ⟨hwf1, ?_⟩, ⟨fun h => ?_, fun h => absurd h h0⟩, ?_,
        fun b o h => (hframe.2.2.1 b o h).1, fun h => (hshape.1 h).1, fun h => (hshape.2.1 h).1,
        hshape.2.2.1⟩
      · by_cases hfit : round_up n abi.max_align ≤ a.available
        · rw [(hshape.2.1 hfit).2.2]
          exact (Nat.dvd_sub hfit hav hrd)
        · rw [(hshape.1 (by omega)).2.2]
          exact (Nat.dvd_sub hle hdvd hrd)
      · rw [h] at hq
        cases hq
      · intro q1 hq1
        rw [hq] at hq1
        cases hq1
        have hregion := hframe.2.2.2.1 q hq
        refine ⟨?_, ?_, hshape.2.2.2, fun o h1 h2 => ⟨(hregion o h1 h2).1, (hregion o h1 h2).2.1⟩⟩
        · by_cases hfit : round_up n abi.max_align ≤ a.available
          · rw [(hshape.2.1 hfit).2.1]
            exact (Nat.dvd_sub hav3 hdvd hav)
          · rw [(hshape.1 (by omega)).2.1]
            exact Nat.dvd_zero _
        · by_cases hfit : round_up n abi.max_align ≤ a.available
          · rw [(hshape.2.1 hfit).2.1]
            omega
          · rw [(hshape.1 (by omega)).2.1]
            omega

theorem arena_alloc_regions_null (abi : Abi) (a : IrArena) (n : Nat) (ns : List Nat)
    (a1 a2 : IrArena) (rs : List Region) (h1 : arena_alloc abi a n = .ok (none, a1))
    (h2 : arena_alloc_regions abi a1 ns = .ok (rs, a2)) :
    arena_alloc_regions abi a (n :: ns) = .ok (rs, a2) := by
  unfold arena_alloc_regions
  rw [h1]
  simp only [h2]

theorem arena_alloc_regions_region (abi : Abi) (a : IrArena) (n : Nat) (ns : List Nat)
    (q : Ptr) (a1 a2 : IrArena) (rs : List Region)
    (h1 : arena_alloc abi a n = .ok (some q, a1))
    (h2 : arena_alloc_regions abi a1 ns = .ok (rs, a2)) :
    arena_alloc_regions abi a (n :: ns) =
      .ok ({ block := q.block, off := q.off, len := round_up n abi.max_align, size := n } :: rs,
        a2) := by
  unfold arena_alloc_regions
  rw [h1]
  simp only [h2]

theorem arena_alloc_regions_error (abi : Abi) (a : IrArena) (ns ms : List Nat)
    (rs : List Region) (a1 : IrArena) (err : Fault)
    (h1 : arena_alloc_regions abi a ns = .ok (rs, a1))
    (h2 : arena_alloc_regions abi a1 ms = .error err) :
    arena_alloc_regions abi a (ns ++ ms) = .error err := by
  induction ns generalizing a rs with
  | nil =>
    cases h1
    exact h2
  | cons n ns ih =>
    unfold arena_alloc_regions at h1
    cases hrun : arena_alloc abi a n with
    | error e =>
      rw [hrun] at h1
      cases h1
    | ok r =>
      rw [hrun] at h1
      simp only [] at h1
      cases hrest : arena_alloc_regions abi r.2 ns with
      | error e =>
        rw [hrest] at h1
        cases h1
      | ok rest =>
        rw [hrest] at h1
        have hrest1 : arena_alloc_regions abi r.2 ns = .ok (rest.1, rest.2) := hrest
        have ha1 : rest.2 = a1 := by
          cases hp : r.1 with
          | none =>
            rw [hp] at h1
            cases h1
            rfl
          | some q =>
            rw [hp] at h1
            cases h1
            rfl
        rw [ha1] at hrest1
        have := ih r.2 rest.1 hrest1
        show arena_alloc_regions abi a (n :: (ns ++ ms)) = _
        unfold arena_alloc_regions
        rw [hrun]
        simp only [this]

/-- The regions of a sequence of requests that needs no more blocks than the
block-pointer array has free slots. -/
theorem arena_alloc_regions_spec (abi : Abi) (hA : 0 < abi.max_align)
    (hdvd : abi.max_align ∣ alloc_size) (sizes : List Nat) :
    ∀ a : IrArena, a.bump_inv abi → a.nblocks + sizes.length ≤ a.maxblocks →
      (∀ n, n ∈ sizes → n < size_mod ∧ round_up n abi.max_align ≤ alloc_size) →
      ∃ regions a1, arena_alloc_regions abi a sizes = .ok (regions, a1) ∧
        a1.bump_inv abi ∧ a1.nblocks ≤ a.nblocks + sizes.length ∧ a1.maxblocks = a.maxblocks ∧
        (∀ b o, a.used b o → a1.used b o) ∧
        (∀ r, r ∈ regions →
          r.size ∈ sizes ∧ r.len = round_up r.size abi.max_align ∧ 0 < r.len ∧
          r.size ≤ r.len ∧ r.len < r.size + abi.max_align ∧ abi.max_align ∣ r.len ∧
          abi.max_align ∣ r.off ∧ r.off + r.len ≤ alloc_size ∧ r.block < a1.nblocks ∧
          ∀ o, r.off ≤ o → o < r.off + r.len → a1.used r.block o ∧ ¬ a.used r.block o) ∧
        regions.Pairwise Region.disjoint := by
  induction sizes with
  | nil =>
    intro a hinv _ _
    exact ⟨[], a, rfl, hinv, Nat.le_refl _, rfl, fun _ _ h => h,
      fun r hr => absurd hr (List.not_mem_nil _), List.Pairwise.nil⟩
  | cons n ns ih =>
    intro a hinv hblocks hsizes
    have hn := hsizes n (List.mem_cons_self _ _)
    have hlen : (n :: ns).length = ns.length + 1 := rfl
    obtain ⟨p, a1, h1, hinv1, hnone, hsome, hused, hnew, hsame, hmax⟩ :=
      arena_alloc_step abi a n hdvd hinv hn.2 (Or.inr (by omega))
    have hnb1 : a1.nblocks ≤ a.nblocks + 1 := by
      by_cases hfit : round_up n abi.max_align ≤ a.available
      · rw [hsame hfit]
        omega
      · rw [hnew (by omega)]
    obtain ⟨rs, a2, h2, hinv2, hnb2, hmax2, hused2, hregions, hpair⟩ := ih a1 hinv1
      (by rw [hmax]; omega) (fun m hm => hsizes m (List.mem_cons_of_mem _ hm))
    have hrest : ∀ r, r ∈ rs →
        r.size ∈ n :: ns ∧ r.len = round_up r.size abi.max_align ∧ 0 < r.len ∧
        r.size ≤ r.len ∧ r.len < r.size + abi.max_align ∧ abi.max_align ∣ r.len ∧
        abi.max_align ∣ r.off ∧ r.off + r.len ≤ alloc_size ∧ r.block < a2.nblocks ∧
        ∀ o, r.off ≤ o → o < r.off + r.len → a2.used r.block o ∧ ¬ a.used r.block o := by
      intro r hr
      obtain ⟨g1, g2, g3, g4, g5, g6, g7, g8, g9, g10⟩ := hregions r hr
      exact ⟨List.mem_cons_of_mem _ g1, g2, g3, g4, g5, g6, g7, g8, g9,
        fun o ho1 ho2 => ⟨(g10 o ho1 ho2).1, fun hu => (g10 o ho1 ho2).2 (hused _ _ hu)⟩⟩
    cases p with
    | none =>
      exact ⟨rs, a2, arena_alloc_regions_null abi a n ns a1 a2 rs h1 h2, hinv2, by omega,
        by rw [hmax2, hmax], fun b o h => hused2 b o (hused b o h), hrest, hpair⟩
    | some q =>
      have hne : round_up n abi.max_align ≠ 0 := fun h0 => by
        have := hnone.mpr h0
        cases this
      refine ⟨_, a2, arena_alloc_regions_region abi a n ns q a1 a2 rs h1 h2, hinv2, by omega,
        by rw [hmax2, hmax], fun b o h => hused2 b o (hused b o h), ?_, ?_⟩
      · intro r hr
        rcases List.mem_cons.mp hr with rfl | hr1
        · obtain ⟨l1, l2, _⟩ := round_up_least n abi.max_align hA hdvd hn.1 hne
          obtain ⟨q1, q2, q3, q4⟩ := hsome q rfl
          have hu := (q4 q.off (Nat.le_refl _)
            (Nat.lt_add_of_pos_right (Nat.pos_of_ne_zero hne))).1
          exact ⟨List.mem_cons_self _ _, rfl, Nat.pos_of_ne_zero hne, l1, l2,
            round_up_dvd n abi.max_align, q1, q2, (hused2 _ _ hu).1,
            fun o ho1 ho2 => ⟨hused2 _ _ (q4 o ho1 ho2).1, (q4 o ho1 ho2).2⟩⟩
        · exact hrest r hr1
      · refine List.Pairwise.cons ?_ hpair
        intro r hr
        have hpos := Nat.pos_of_ne_zero hne
        obtain ⟨_, _, g3, _, _, _, _, _, _, g10⟩ := hregions r hr
        obtain ⟨_, _, _, q4⟩ := hsome q rfl
        show q.block ≠ r.block ∨ q.off + round_up n abi.max_align ≤ r.off ∨
          r.off + r.len ≤ q.off
        by_cases hb : q.block = r.block
        · right
          by_contra hov
          have hov1 : ¬ q.off + round_up n abi.max_align ≤ r.off := fun h => hov (Or.inl h)
          have hov2 : ¬ r.off + r.len ≤ q.off := fun h => hov (Or.inr h)
          by_cases hqr : q.off ≤ r.off
          · have hu := (q4 r.off hqr (by omega)).1
            rw [hb] at hu
            exact (g10 r.off (Nat.le_refl _) (by omega)).2 hu
          · have hu := (q4 q.off (Nat.le_refl _) (by omega)).1
            rw [hb] at hu
            exact (g10 q.off (by omega) (by omega)).2 hu
        · exact Or.inl hb

/-- A request that needs a new block when all 256 slots of the block-pointer
array are taken: the array is resized to 512 bytes, room for 64 pointers, and
the slot written next lies outside of it. -/
theorem arena_alloc_full_fails (a : IrArena) (n : Nat) (hwf : a.wf) (hnb : a.nblocks = 256)
    (hmb : a.maxblocks = 256) (hne : round_up n abi64.max_align ≠ 0)
    (hfull : a.available < round_up n abi64.max_align) :
    arena_alloc abi64 a n = .error .out_of_bounds := by
  obtain ⟨w1, w2, w3, w4, w5⟩ := hwf
  have hlen : (realloc_blocks abi64 a.blocks (a.maxblocks * 2)).length = 64 := by
    unfold realloc_blocks
    simp only [List.length_append, List.length_take, List.length_replicate, w2, hmb]
    decide
  have hnew : arena_new_block abi64 a = .error .out_of_bounds := by
    unfold arena_new_block
    rw [if_neg (show ¬ ¬ a.nblocks ≤ a.maxblocks by omega)]
    simp only []
    rw [if_pos (show a.nblocks = a.maxblocks by omega)]
    simp only []
    rw [if_neg (by rw [hlen, hnb]; decide)]
  unfold arena_alloc
  simp only []
  rw [if_neg hne, if_pos hfull, hnew]

theorem arena_alloc_regions_of_allocs (abi : Abi) (ns : List Nat) :
    ∀ a a1 : IrArena, arena_allocs abi a ns = .ok a1 →
      ∃ rs, arena_alloc_regions abi a ns = .ok (rs, a1) := by
  induction ns with
  | nil =>
    intro a a1 h
    cases h
    exact ⟨[], rfl⟩
  | cons n ns ih =>
    intro a a1 h
    unfold arena_allocs at h
    cases hrun : arena_alloc abi a n with
    | error e =>
      rw [hrun] at h
      cases h
    | ok r =>
      rw [hrun] at h
      obtain ⟨rs, hrs⟩ := ih r.2 a1 h
      obtain ⟨p, a0⟩ := r
      cases p with
      | none => exact ⟨rs, arena_alloc_regions_null abi a n ns a0 a1 rs hrun hrs⟩
      | some q => exact ⟨_, arena_alloc_regions_region abi a n ns q a0 a1 rs hrun hrs⟩

/-- C37 (the code).  Let `A` be the maximum alignment, positive and a divisor
of the block size.  (1) For every sequence of at most 256 requests on a new
arena whose rounded sizes are at most 1 MiB, every call of `arena_alloc`
returns; every region returned starts at an in-block offset that is a multiple
of `A`, has as length the rounded size, which is the least multiple of `A`
that is at least the requested size, lies inside its block, and has no byte in
common with any other region returned; `available` is at most 1 MiB.  (2) In
every state that these calls reach, a call appends a new block when the
rounded size exceeds `available` and no block otherwise.  (3) But the sequence
of 257 requests of 1 MiB each does not return: the 257th call needs a slot of
the block-pointer array that the resized array does not have. -/
theorem bump_allocation_regions (abi : Abi) (hA : 0 < abi.max_align)
    (hdvd : abi.max_align ∣ alloc_size) (sizes : List Nat)
    (hsizes : ∀ n, n ∈ sizes → n < size_mod ∧ round_up n abi.max_align ≤ alloc_size)
    (hcount : sizes.length ≤ 256) :
    (∃ regions a1, arena_alloc_regions abi new_arena sizes = .ok (regions, a1) ∧
      a1.available ≤ alloc_size ∧ a1.bump_inv abi ∧
      (∀ r, r ∈ regions →
        r.size ∈ sizes ∧ r.len = round_up r.size abi.max_align ∧ 0 < r.len ∧
        r.size ≤ r.len ∧ r.len < r.size + abi.max_align ∧ abi.max_align ∣ r.len ∧
        abi.max_align ∣ r.off ∧ r.off + r.len ≤ alloc_size ∧ r.block < a1.nblocks) ∧
      regions.Pairwise Region.disjoint) ∧
    (∀ a n, a.bump_inv abi → round_up n abi.max_align ≤ alloc_size →
      round_up n abi.max_align ≤ a.available ∨ a.nblocks < a.maxblocks →
      ∃ p a1, arena_alloc abi a n = .ok (p, a1) ∧ a1.bump_inv abi ∧
        (a.available < round_up n abi.max_align → a1.nblocks = a.nblocks + 1) ∧
        (round_up n abi.max_align ≤ a.available → a1.nblocks = a.nblocks)) ∧
    arena_alloc_regions abi64 new_arena (List.replicate 257 alloc_size) =
      .error .out_of_bounds := by
  refine ⟨?_, ?_, ?_⟩
  · obtain ⟨regions, a1, h1, h2, _, _, _, h6, h7⟩ :=
      arena_alloc_regions_spec abi hA hdvd sizes new_arena ⟨new_arena_wf, Nat.dvd_zero _⟩
        (by show 0 + sizes.length ≤ 256; omega) hsizes
    exact ⟨regions, a1, h1, h2.1.2.2.1, h2, fun r hr => by
      obtain ⟨g1, g2, g3, g4, g5, g6, g7, g8, g9, _⟩ := h6 r hr
      exact ⟨g1, g2, g3, g4, g5, g6, g7, g8, g9⟩, h7⟩
  · intro a n hinv hle hroom
    obtain ⟨p, a1, h1, h2, _, _, _, h6, h7, _⟩ := arena_alloc_step abi a n hdvd hinv hle hroom
    exact ⟨p, a1, h1, h2, h6, h7⟩
  · obtain ⟨a, h1, h2, h3, h4, h5⟩ :=
      arena_allocs_whole_blocks 256 new_arena new_arena_wf rfl (by decide)
    obtain ⟨rs, hrs⟩ := arena_alloc_regions_of_allocs abi64 _ new_arena a h1
    have hr : round_up alloc_size abi64.max_align = alloc_size := by decide
    have hfail : arena_alloc abi64 a alloc_size = .error .out_of_bounds :=
      arena_alloc_full_fails a alloc_size h2 h4 h5 (by rw [hr]; decide) (by rw [hr, h3]; decide)
    have hlast : arena_alloc_regions abi64 a [alloc_size] = .error .out_of_bounds := by
      unfold arena_alloc_regions
      rw [hfail]
    have hsplit : List.replicate 257 alloc_size = List.replicate 256 alloc_size ++ [alloc_size] := by
      rw [← List.replicate_succ']
    rw [hsplit]
    exact arena_alloc_regions_error abi64 new_arena _ _ rs a _ hrs hlast

set_option maxRecDepth 100000 in
/-- C37, on an example: the requests of 5 bytes, of a whole block, of 0 bytes
and of 17 bytes on a new arena of the 64-bit target return the regions
(block 0, offset 0, 16 bytes), (block 1, offset 0, 1 MiB) and (block 2,
offset 0, 32 bytes); the request of 0 bytes returns `NULL`. -/
theorem bump_allocation_regions_witness :
    (∀ n, n ∈ [5, alloc_size, 0, 17] → n < size_mod ∧ round_up n abi64.max_align ≤ alloc_size) ∧
    (match arena_alloc_regions abi64 new_arena [5, alloc_size, 0, 17] with
      | .ok r => r.1
      | .error _ => []) =
      [⟨0, 0, 16, 5⟩, ⟨1, 0, alloc_size, alloc_size⟩, ⟨2, 0, 32, 17⟩] ∧
    arena_alloc_regions abi64 new_arena (List.replicate 257 alloc_size) =
      .error .out_of_bounds :=
  ⟨by decide, by decide,
    (bump_allocation_regions abi64 (by decide) (by decide) [5, alloc_size, 0, 17] (by decide)
      (by decide)).2.2⟩

/-! ## Theorems: the tokens of address-takers and of the dispatcher -/

/-- What `lower_fn_addr` answers in a context whose dictionary holds the tokens
of the functions `seen`: a token of at most `seen.length + 1`, with which the
dictionary holds the tokens of a list `seen1` that contains the function. -/
theorem lower_fn_addr_token (ctx : Context) (seen : List (ArenaId × Nat)) (f : ArenaId × Nat)
    (hinv : tokens_assigned ctx seen) (hlen : seen.length + 1 < 2 ^ 32) (lit : Node)
    (c1 : Context) (h : lower_fn_addr (fn_node f) ctx = .ok (lit, c1)) :
    ∃ seen1, tokens_assigned c1 seen1 ∧ f ∈ seen1 ∧ seen1.length ≤ seen.length + 1 ∧
      lit = fn_ptr_as_value (position f seen1 + 1) := by
  by_cases hf : f ∈ seen
  · rw [lower_fn_addr_known ctx seen f hinv hf] at h
    cases h
    exact ⟨seen, hinv, hf, Nat.le_succ _, rfl⟩
  · obtain ⟨ctx1, hrun, hinv1⟩ := lower_fn_addr_fresh ctx seen f hinv hf hlen
    rw [hrun] at h
    cases h
    refine ⟨seen ++ [f], hinv1, List.mem_append_right _ (List.mem_singleton_self _), by simp, ?_⟩
    rw [position_append_of_not_mem f seen [f] hf]
    simp [position]

/-- Two requests to `lower_fn_addr`, for a function of the source arena and
then for a function of the destination arena, are answered with different
literals. -/
theorem lower_fn_addr_src_dst (ctx : Context) (seen : List (ArenaId × Nat)) (i j : Nat)
    (hinv : tokens_assigned ctx seen) (hlen : seen.length + 2 < 2 ^ 32) (lit1 lit2 : Node)
    (c1 c2 : Context) (h1 : lower_fn_addr (.fn .src i) ctx = .ok (lit1, c1))
    (h2 : lower_fn_addr (.fn .dst j) c1 = .ok (lit2, c2)) : lit1 ≠ lit2 := by
  obtain ⟨seen1, hinv1, hmem1, hlen1, hlit1⟩ :=
    lower_fn_addr_token ctx seen (.src, i) hinv (by omega) lit1 c1 h1
  have hknown := lower_fn_addr_known c1 seen1 (.src, i) hinv1 hmem1
  obtain ⟨seen2, hinv2, hmem2, hlen2, hlit2⟩ :=
    lower_fn_addr_token c1 seen1 (.dst, j) hinv1 (by omega) lit2 c2 h2
  have hsrc : (ArenaId.src, i) ∈ seen2 := by
    have h := hinv2.2 (.src, i)
    by_cases hm : (ArenaId.src, i) ∈ seen2
    · exact hm
    · exfalso
      rw [if_neg hm] at h
      have h3 : find_fn_ptr c2 (fn_node (.src, i)) = find_fn_ptr c1 (fn_node (.src, i)) ∨
          c2.assigned_fn_ptrs = c1.assigned_fn_ptrs ++ [(.fn .dst j, c1.next_fn_ptr)] := by
        have h2' : (match find_fn_ptr c1 (.fn .dst j) with
          | some found => Except.ok (fn_ptr_as_value found, c1)
          | none => Except.ok (fn_ptr_as_value c1.next_fn_ptr,
              { c1 with
                next_fn_ptr := (c1.next_fn_ptr + 1) % 2 ^ 32
                assigned_fn_ptrs := c1.assigned_fn_ptrs ++ [(.fn .dst j, c1.next_fn_ptr)] })) =
            Except.ok (lit2, c2) := h2
        cases hfd : find_fn_ptr c1 (.fn .dst j) with
        | some found =>
          rw [hfd] at h2'
          cases h2'
          exact Or.inl rfl
        | none =>
          rw [hfd] at h2'
          cases h2'
          exact Or.inr rfl
      have h4 := hinv1.2 (.src, i)
      rw [if_pos hmem1] at h4
      rcases h3 with h3 | h3
      · rw [h3, h4] at h
        cases h
      · unfold find_fn_ptr at h h4
        rw [h3, List.find?_append] at h
        cases hx : c1.assigned_fn_ptrs.find? (fun e => compare_node e.1 (fn_node (.src, i))) with
        | none =>
          rw [hx] at h4
          cases h4
        | some e =>
          rw [hx] at h
          cases h
  intro heq
  have hp1 := position_lt _ _ hsrc
  have hp2 := position_lt _ _ hmem2
  have hl1 : lit1 = fn_ptr_as_value (position (ArenaId.src, i) seen2 + 1) := by
    have h5 := lower_fn_addr_known c2 seen2 (.src, i) hinv2 hsrc
    have h6 := hinv2.2 (.src, i)
    rw [if_pos hsrc] at h6
    have h7 := hinv1.2 (.src, i)
    rw [if_pos hmem1] at h7
    have h8 : find_fn_ptr c2 (fn_node (.src, i)) = find_fn_ptr c1 (fn_node (.src, i)) := by
      have h2' : (match find_fn_ptr c1 (.fn .dst j) with
        | some found => Except.ok (fn_ptr_as_value found, c1)
        | none => Except.ok (fn_ptr_as_value c1.next_fn_ptr,
            { c1 with
              next_fn_ptr := (c1.next_fn_ptr + 1) % 2 ^ 32
              assigned_fn_ptrs := c1.assigned_fn_ptrs ++ [(.fn .dst j, c1.next_fn_ptr)] })) =
          Except.ok (lit2, c2) := h2
      cases hfd : find_fn_ptr c1 (.fn .dst j) with
      | some found =>
        rw [hfd] at h2'
        cases h2'
        rfl
      | none =>
        rw [hfd] at h2'
        cases h2'
        unfold find_fn_ptr at h7 ⊢
        show (match (c1.assigned_fn_ptrs ++ [(Node.fn .dst j, c1.next_fn_ptr)]).find?
          (fun e => compare_node e.1 (fn_node (.src, i))) with
          | some e => some e.2
          | none => none) = _
        rw [List.find?_append]
        cases hx : c1.assigned_fn_ptrs.find? (fun e => compare_node e.1 (fn_node (.src, i))) with
        | none =>
          rw [hx] at h7
          cases h7
        | some e => rfl
    rw [h6, h7] at h8
    injection h8 with h9
    rw [hlit1, h9]
  rw [hl1, hlit2] at heq
  have := fn_ptr_as_value_inj _ _ (by omega) (by omega) heq
  have hpos := position_inj _ _ _ hsrc hmem2 (by omega)
  cases hpos

/-- C36 (the code): the token of an address-taker is looked up under another
key than the token of the dispatcher and of the wrapper.  (1) The rewriting of
`FnAddr{f}` is `lower_fn_addr(ctx, f)`, with the old function `f` itself as
key.  (2) The case literals of the dispatcher are the answers of
`lower_fn_addr` to the leaves registered for the function declarations, in
order.  (3) A request for a function of the source arena and a request for a
function of the destination arena never get the same literal, so the literal of
`FnAddr{f}` is not the case literal of the leaf of `f`.  (4) On the example
program (the entry point `main`, whose body joins at the continuation `k`):
the wrapper of `main` stores the token 1, and the case that calls the leaf of
`main` has the literal 1; but `FnAddr{k}` in the leaf of `main` has become the
literal 2, while the case that calls the leaf of `k` has the literal 3, and no
case has the literal 2. -/
theorem fn_addr_token_misses_dispatcher_case :
    (∀ infer rw f, lower_callf_process infer rw (.fn_addr f) = lower_fn_addr f) ∧
    (∀ infer fuel src dst declarations out ctx,
      lower_callf infer fuel src dst (.root declarations) = .ok (out, ctx) →
      ∃ v vars toks ctxl ctx2 body,
        lower_fn_addrs ((fn_decls declarations).map (leaf_of ctx)) ctxl = .ok (toks, ctx2) ∧
        dst_block ctx (.fn .dst dst.fns.length) = some body ∧
        body = .block
          [.loop_instr [] [] []
            (.block
              [.let_ (v :: vars) (.prim_op .load_op [ctx.next_fn_var]) false,
               .match_instr [] v (.int_literal .IntTy32 0 :: toks)
                 (.block [] (.merge_construct .Break []) ::
                   ((fn_decls declarations).map (leaf_of ctx)).map leaf_case)
                 (.block [] .unreachable)]
              .unreachable)]
          (.fn_ret .null [])) ∧
    (∀ ctx seen i j lit1 lit2 c1 c2, tokens_assigned ctx seen → seen.length + 2 < 2 ^ 32 →
      lower_fn_addr (.fn .src i) ctx = .ok (lit1, c1) →
      lower_fn_addr (.fn .dst j) c1 = .ok (lit2, c2) → lit1 ≠ lit2) ∧
    (match lower_callf example_typing 5 example_src empty_arena example_root with
      | .ok (_, ctx) =>
        (match dst_block ctx (.fn .dst 1) with
          | some b => compare_node b
            (.block
              [.let_ []
                (.if_instr [] .true_lit (.block [] (.merge_construct .Selection [])) .null) false,
               .call_instr .null
                 [.int_literal .IntTy32 2, .var (.qualified_type true .mask_type) 7 "m"]]
              (.fn_ret .null []))
          | none => false) &&
        (match dst_block ctx (.fn .dst 2) with
          | some b => compare_node b
            (.block
              [.let_ [] (.prim_op .store_op [.null, .int_literal .IntTy32 1]) false,
               .let_ [.var .null 0 "out"] (.prim_op .subgroup_active_mask_op []) false,
               .let_ [] (.prim_op .store_op [.null, .var .null 0 "out"]) false,
               .call_instr (.fn .dst 0) []]
              (.fn_ret .null []))
          | none => false) &&
        (match dst_block ctx (.fn .dst 0) with
          | some b => compare_node b
            (.block
              [.loop_instr [] [] []
                (.block
                  [.let_ [.var .null 1 "loaded"] (.prim_op .load_op [.null]) false,
                   .match_instr [] (.var .null 1 "loaded")
                     [.int_literal .IntTy32 0, .int_literal .IntTy32 1, .int_literal .IntTy32 3]
                     [.block [] (.merge_construct .Break []),
                      .block [.call_instr (.fn .dst 1) []] (.merge_construct .Continue []),
                      .block [.call_instr (.fn .dst 3) []] (.merge_construct .Continue [])]
                     (.block [] .unreachable)]
                  .unreachable)]
              (.fn_ret .null []))
          | none => false) &&
        (ctx.rewriter.processed.map (fun p => (p.1.content, p.2.content)) ==
          [((Node.fn .src 0).content, (Node.fn .dst 1).content),
           ((Node.fn .src 1).content, (Node.fn .dst 3).content)])
      | .error _ => false) = true := by
  refine ⟨fun _ _ _ => rfl, ?_, ?_, by decide!⟩
  · intro infer fuel src dst declarations out ctx hrun
    obtain ⟨v, vars, toks, ctxl, ctx2, h1, _, h3⟩ :=
      lower_callf_dispatcher infer fuel src dst declarations out ctx hrun
    exact ⟨v, vars, toks, ctxl, ctx2, _, h1, h3, rfl⟩
  · intro ctx seen i j lit1 lit2 c1 c2 hinv hlen h1 h2
    exact lower_fn_addr_src_dst ctx seen i j hinv hlen lit1 lit2 c1 c2 h1 h2

/-! ### The words of an integer constant -/

/-- The run of `emit_value` on a literal, with the constant that it appends. -/
theorem emit_value_literal_run (type_of : TypeOf) (fuel : Nat) (v : Node) (e : Emitter)
    (use_id : Option SpvId) (d0 : SpvDecl) (hd0 : constant_of v 0 0 = some d0)
    (hscalar : (literal_type type_of v).is_scalar_type = true)
    (hnone : use_id = none → find_node_id e v = none) :
    ∃ (new ty : SpvId) (e2 : Emitter) (d : SpvDecl), constant_of v new ty = some d ∧
      new = (match use_id with
        | some id => id
        | none => e.bound) ∧
      emit_value type_of (fuel + 3) v use_id e =
        .ok (new, { e2 with declarations := e2.declarations ++ [d] }) := by
  have hnn : v.is_null = false := constant_of_not_null v 0 0 d0 hd0
  rw [emit_value_succ]
  unfold emit_value_body
  cases use_id with
  | none =>
    simp only [hnn, Bool.false_eq_true, if_false, Option.isNone_none, if_true, hnone rfl]
    rw [Emit.then_ok _ _ e e.bound { e with bound := e.bound + 1 } rfl]
    obtain ⟨e1, h1⟩ := insert_node_id_total v e.bound { e with bound := e.bound + 1 }
    obtain ⟨ty, e2, hty⟩ := emit_type_scalar_total type_of fuel (literal_type type_of v) e1 hscalar
    obtain ⟨d, hd⟩ := constant_of_some v 0 0 e.bound ty d0 hd0
    rw [Emit.then_ok _ _ _ _ _ h1,
      Emit.then_ok _ _ _ () _ (emit_constant_literal type_of _ v e.bound ty d _ e2 hty hd)]
    exact ⟨e.bound, ty, e2, d, hd, rfl, rfl⟩
  | some id =>
    simp only [hnn, Bool.false_eq_true, if_false, Option.isNone_some]
    rw [Emit.then_ok _ _ e id e rfl]
    obtain ⟨e1, h1⟩ := insert_node_id_total v id e
    obtain ⟨ty, e2, hty⟩ := emit_type_scalar_total type_of fuel (literal_type type_of v) e1 hscalar
    obtain ⟨d, hd⟩ := constant_of_some v 0 0 id ty d0 hd0
    rw [Emit.then_ok _ _ _ _ _ h1,
      Emit.then_ok _ _ _ () _ (emit_constant_literal type_of _ v id ty d _ e2 hty hd)]
    exact ⟨id, ty, e2, d, hd, rfl, rfl⟩

/-- C40 (the code): for an `IntLiteral` of value `v` whose type is a scalar
type, emitted without a supplied id when it has no id yet, or with a supplied
id: `emit_value` returns and the last declaration it appends is the constant
of the literal.  For a 64-bit literal the constant has exactly two words, the
HIGH-order word (`v >> 32`) first and the low-order word (`v & 0xFFFFFFFF`)
second; for a literal of a narrower width it has exactly one word, the low 32
bits of `v`.  So the words of the 64-bit literal 1 are `0, 1`, not `1, 0`. -/
theorem emit_value_int64_high_word_first (type_of : TypeOf) (fuel : Nat) (width : IntSizes)
    (value : Int) (e : Emitter) (use_id : Option SpvId)
    (hscalar : (type_of (.int_literal width value)).is_scalar_type = true)
    (hnone : use_id = none → find_node_id e (.int_literal width value) = none) :
    (∃ (new ty : SpvId) (e2 : Emitter) (words : List Nat),
      emit_value type_of (fuel + 3) (.int_literal width value) use_id e =
        .ok (new, { e2 with declarations := e2.declarations ++ [.constant new ty words] }) ∧
      (width = IntSizes.IntTy64 →
        words = [((value / 2 ^ 32) % 2 ^ 32).toNat, (value % 2 ^ 32).toNat]) ∧
      (width ≠ IntSizes.IntTy64 → words = [(value % 2 ^ 32).toNat])) ∧
    [((1 : Int) / 2 ^ 32 % 2 ^ 32).toNat, ((1 : Int) % 2 ^ 32).toNat] = [0, 1] := by
  refine ⟨?_, by decide⟩
  obtain ⟨new, ty, e2, d, hd, _, hrun⟩ := emit_value_literal_run type_of fuel
    (.int_literal width value) e use_id _ rfl hscalar hnone
  simp only [constant_of, Option.some.injEq] at hd
  subst hd
  refine ⟨new, ty, e2, _, hrun, ?_, ?_⟩
  · intro hw
    simp only [hw, if_true, word32]
    rw [Int.fdiv_eq_ediv value (by decide : (0 : Int) ≤ 2 ^ 32)]
  · intro hw
    simp only [hw, if_false, word32]

/-- C40, on an example: the 64-bit literal 1 and the 64-bit literal `2^32`,
emitted from the example emitter: the constants declared are
`OpConstant %5 %4 0 1` and `OpConstant %5 %4 1 0`: the word that holds the
value 1 comes second, the word that holds the high half comes first. -/
theorem emit_value_int64_high_word_first_witness :
    (example_type_of (.int_literal .IntTy64 1)).is_scalar_type = true ∧
    find_node_id example_emitter (.int_literal .IntTy64 1) = none ∧
    (match emit_value example_type_of 3 (.int_literal .IntTy64 1) none example_emitter with
      | .ok r => r.2.declarations
      | .error _ => []) = [.int_type 5 64 true, .constant 4 5 [0, 1]] ∧
    (match emit_value example_type_of 3 (.int_literal .IntTy64 (2 ^ 32)) none example_emitter with
      | .ok r => r.2.declarations
      | .error _ => []) = [.int_type 5 64 true, .constant 4 5 [1, 0]] ∧
    [((1 : Int) / 2 ^ 32 % 2 ^ 32).toNat, ((1 : Int) % 2 ^ 32).toNat] = [0, 1] :=
  ⟨rfl, rfl, by decide, by decide,
    (emit_value_int64_high_word_first example_type_of 0 .IntTy64 1 example_emitter none rfl
      (fun _ => rfl)).2⟩

/-! ### The scope of a function, and names without binding -/

theorem BindM.seq_inv {α β : Type} (m : BindM α) (f : α → BindM β) (ctx : BindRewriter) (b : β)
    (c2 : BindRewriter) (h : (m >>= f) ctx = .ok (b, c2)) :
    ∃ a c1, m ctx = .ok (a, c1) ∧ f a c1 = .ok (b, c2) := by
  have h1 : (match m ctx with
    | .error err => Except.error err
    | .ok r => f r.1 r.2) = Except.ok (b, c2) := h
  cases hm : m ctx with
  | error err =>
    rw [hm] at h1
    cases h1
  | ok r =>
    rw [hm] at h1
    exact ⟨r.1, r.2, rfl, h1⟩

theorem bind_variables_appends (olds : List Bind.Node) (ctx : BindRewriter)
    (news : List Bind.Node) (ctx1 : BindRewriter)
    (h : bind_variables olds ctx = .ok (news, ctx1)) :
    ctx1.bound_variables = ctx.bound_variables ++ entries_of news ∧
      news.length = olds.length := by
  induction olds generalizing ctx news with
  | nil =>
    cases h
    exact ⟨(List.append_nil _).symm, rfl⟩
  | cons old olds ih =>
    cases old with
    | var name id type =>
      unfold bind_variables at h
      obtain ⟨t, c1, h1, h2⟩ := BindM.seq_inv _ _ _ _ _ h
      cases h1
      obtain ⟨nb, c2, h3, h4⟩ := BindM.seq_inv _ _ _ _ _ h2
      cases h3
      obtain ⟨u, c3, h5, h6⟩ := BindM.seq_inv _ _ _ _ _ h4
      cases h5
      obtain ⟨rest, c4, h7, h8⟩ := BindM.seq_inv _ _ _ _ _ h6
      cases h8
      have h9 := ih _ _ h7
      refine ⟨?_, by simp [h9.2]⟩
      rw [h9.1]
      simp [entries_of, List.filterMap_cons]
    | _ => cases h

theorem extends_rewrite_nodes (rw : Bind.Node → BindM Bind.Node)
    (h : ∀ node, BindM.extends_stack (rw node)) (nodes : List Bind.Node) :
    BindM.extends_stack (Bind.rewrite_nodes rw nodes) := by
  induction nodes with
  | nil =>
    intro ctx r ctx1 hr
    cases hr
    exact List.prefix_refl _
  | cons node nodes ih =>
    intro ctx r ctx1 hr
    unfold Bind.rewrite_nodes at hr
    obtain ⟨new, c1, h1, h2⟩ := BindM.seq_inv _ _ _ _ _ hr
    obtain ⟨news, c2, h3, h4⟩ := BindM.seq_inv _ _ _ _ _ h2
    cases h4
    exact List.IsPrefix.trans (h node ctx new c1 h1) (ih c1 news _ h3)

theorem extends_recreate_node_identity (rw : Bind.Node → BindM Bind.Node)
    (h : ∀ node, BindM.extends_stack (rw node)) (node : Bind.Node) :
    BindM.extends_stack (Bind.recreate_node_identity rw node) := by
  intro ctx r ctx1 hr
  cases node with
  | null => cases hr
  | var name id type =>
    cases hr
    exact List.prefix_refl _
  | let_ variables_ target =>
    unfold Bind.recreate_node_identity at hr
    obtain ⟨vs, c1, h1, h2⟩ := BindM.seq_inv _ _ _ _ _ hr
    obtain ⟨t, c2, h3, h4⟩ := BindM.seq_inv _ _ _ _ _ h2
    cases h4
    exact List.IsPrefix.trans (extends_rewrite_nodes rw h _ ctx vs c1 h1) (h _ c1 t _ h3)
  | fn return_type instructions params =>
    unfold Bind.recreate_node_identity at hr
    obtain ⟨t, c0, h0, h1⟩ := BindM.seq_inv _ _ _ _ _ hr
    cases h0
    obtain ⟨ps, c1, h2, h3⟩ := BindM.seq_inv _ _ _ _ _ h1
    obtain ⟨is, c2, h4, h5⟩ := BindM.seq_inv _ _ _ _ _ h3
    cases h5
    exact List.IsPrefix.trans (extends_rewrite_nodes rw h _ ctx ps c1 h2)
      (extends_rewrite_nodes rw h _ c1 is _ h4)
  | other tag operands =>
    unfold Bind.recreate_node_identity at hr
    obtain ⟨os, c1, h1, h2⟩ := BindM.seq_inv _ _ _ _ _ hr
    cases h2
    exact extends_rewrite_nodes rw h _ ctx os _ h1

/-- What the `Function` case of `bind_node` does to the list of bound
variables, given that the rewriting of a node only extends the list. -/
theorem bind_node_fn_stack (fuel : Nat) (h : ∀ node, BindM.extends_stack (bind_node fuel node))
    (return_type : Bind.Node) (instructions params : List Bind.Node) (ctx : BindRewriter)
    (r : Bind.Node) (ctx3 : BindRewriter)
    (hr : bind_node (fuel + 1) (.fn return_type instructions params) ctx = .ok (r, ctx3)) :
    ∃ nparams ctx1 ninstructions ctx2,
      bind_variables params ctx = .ok (nparams, ctx1) ∧
      ctx1.bound_variables = ctx.bound_variables ++ entries_of nparams ∧
      Bind.rewrite_nodes (bind_node fuel) instructions ctx1 = .ok (ninstructions, ctx2) ∧
      ctx1.bound_variables <+: ctx2.bound_variables ∧
      r = .fn return_type ninstructions nparams ∧
      ctx3.bound_variables = ctx.bound_variables ∧ ctx3.next_free_id = ctx2.next_free_id := by
  have hr1 : (BindM.get >>= fun c0 =>
      bind_variables params >>= fun nparams =>
        recreate_type_identity return_type >>= fun return_type =>
          Bind.rewrite_nodes (bind_node fuel) instructions >>= fun instructions =>
            pop_entries c0.bound_variables.length >>= fun _ =>
              pure (Bind.Node.fn return_type instructions nparams)) ctx = .ok (r, ctx3) := hr
  obtain ⟨c0, c0s, h0, h1⟩ := BindM.seq_inv _ _ _ _ _ hr1
  cases h0
  obtain ⟨nparams, ctx1, h2, h3⟩ := BindM.seq_inv _ _ _ _ _ h1
  obtain ⟨t, c1, h4, h5⟩ := BindM.seq_inv _ _ _ _ _ h3
  cases h4
  obtain ⟨ninstructions, ctx2, h6, h7⟩ := BindM.seq_inv _ _ _ _ _ h5
  obtain ⟨u, c4, h8, h9⟩ := BindM.seq_inv _ _ _ _ _ h7
  cases h9
  cases h8
  have happ := (bind_variables_appends params ctx nparams ctx1 h2).1
  have hpre := extends_rewrite_nodes (bind_node fuel) h instructions ctx1 ninstructions ctx2 h6
  refine ⟨nparams, ctx1, ninstructions, ctx2, h2, happ, h6, hpre, rfl, ?_, rfl⟩
  obtain ⟨rest, hrest⟩ := hpre
  show ctx2.bound_variables.take ctx.bound_variables.length = ctx.bound_variables
  rw [← hrest, happ, List.append_assoc, List.take_left]

/-- The rewriting of a node only extends the list of bound variables. -/
theorem extends_bind_node (fuel : Nat) : ∀ node, BindM.extends_stack (bind_node fuel node) := by
  induction fuel with
  | zero =>
    intro node ctx r ctx1 hr
    cases hr
  | succ fuel ih =>
    intro node ctx r ctx1 hr
    cases node with
    | null =>
      cases hr
      exact List.prefix_refl _
    | var name id type =>
      cases type with
      | null =>
        have hr1 : (match resolve ctx name with
          | .ok found => Except.ok (found, ctx)
          | .error err => Except.error err) = Except.ok (r, ctx1) := hr
        cases hres : resolve ctx name with
        | error err =>
          rw [hres] at hr1
          cases hr1
        | ok found =>
          rw [hres] at hr1
          cases hr1
          exact List.prefix_refl _
      | _ => cases hr
    | let_ variables_ target =>
      have hr1 : (bind_variables variables_ >>= fun noutputs =>
        bind_node fuel target >>= fun target =>
          pure (Bind.Node.let_ noutputs target)) ctx = .ok (r, ctx1) := hr
      obtain ⟨vs, c1, h1, h2⟩ := BindM.seq_inv _ _ _ _ _ hr1
      obtain ⟨t, c2, h3, h4⟩ := BindM.seq_inv _ _ _ _ _ h2
      cases h4
      have happ := (bind_variables_appends variables_ ctx vs c1 h1).1
      exact List.IsPrefix.trans ⟨_, happ.symm⟩ (ih target c1 t _ h3)
    | fn return_type instructions params =>
      obtain ⟨_, _, _, _, _, _, _, _, _, h, _⟩ :=
        bind_node_fn_stack fuel ih return_type instructions params ctx r ctx1 hr
      rw [h]
    | other tag operands =>
      have hr1 : Bind.recreate_node_identity (bind_node fuel) (.other tag operands) ctx =
          .ok (r, ctx1) := hr
      exact extends_recreate_node_identity (bind_node fuel) ih _ ctx r ctx1 hr1

/-- C31: for every `Function` node and every list `s` of bound variables (the
context `ctx`): when `bind_node` returns from the function, the list is `s`
again.  In between, the entries of the new parameters have been appended to
`s` (the list of `ctx1`), and the rewriting of the instructions, with every
`Let` among them, has only appended to that (the list of `ctx2`); the loop
at the end of the case has removed all of these entries and none of `s`. -/
theorem function_scope_is_popped (fuel : Nat) (return_type : Bind.Node)
    (instructions params : List Bind.Node) (ctx : BindRewriter) (r : Bind.Node)
    (ctx3 : BindRewriter)
    (hr : bind_node (fuel + 1) (.fn return_type instructions params) ctx = .ok (r, ctx3)) :
    ctx3.bound_variables = ctx.bound_variables ∧
    ∃ nparams ctx1 ninstructions ctx2,
      bind_variables params ctx = .ok (nparams, ctx1) ∧
      ctx1.bound_variables = ctx.bound_variables ++ entries_of nparams ∧
      Bind.rewrite_nodes (bind_node fuel) instructions ctx1 = .ok (ninstructions, ctx2) ∧
      ctx1.bound_variables <+: ctx2.bound_variables ∧
      r = .fn return_type ninstructions nparams := by
  obtain ⟨nparams, ctx1, ninstructions, ctx2, h1, h2, h3, h4, h5, h6, _⟩ :=
    bind_node_fn_stack fuel (extends_bind_node fuel) return_type instructions params ctx r ctx3 hr
  exact ⟨h6, nparams, ctx1, ninstructions, ctx2, h1, h2, h3, h4, h5⟩

/-- C31, on an example: `f(x) { let y = c; use(x) }` bound with the one entry
`z` on the list: `bind_node` returns with the list `[z]`; the entries of `x`
and `y` are gone. -/
theorem function_scope_is_popped_witness :
    bind_node 3 example_scoped_fn
        { bound_variables := [⟨"z", .var "z" 5 .null⟩], next_free_id := 10 } =
      .ok (.fn .null
          [.let_ [.var "y" 11 .null] (.other 1 []), .other 2 [.var "x" 10 .null]]
          [.var "x" 10 .null],
        { bound_variables := [⟨"z", .var "z" 5 .null⟩], next_free_id := 12 }) ∧
    (BindRewriter.mk [⟨"z", .var "z" 5 .null⟩] 12).bound_variables =
      (BindRewriter.mk [⟨"z", .var "z" 5 .null⟩] 10).bound_variables :=
  ⟨rfl, (function_scope_is_popped 2 .null
    [.let_ [.var "y" 0 .null] (.other 1 []), .other 2 [Bind.occurrence "x"]]
    [.var "x" 0 .null] { bound_variables := [⟨"z", .var "z" 5 .null⟩], next_free_id := 10 }
    _ _ rfl).1⟩

theorem resolve_from_none (id : String) (entries : List BindEntry)
    (h : ∀ b, b ∈ entries → b.id ≠ id) :
    resolve_from id entries = .error (.error ("could not resolve variable " ++ id)) := by
  induction entries with
  | nil => rfl
  | cons b bs ih =>
    have hb : b.id ≠ id := h b (List.mem_cons_self _ _)
    simp only [resolve_from, hb, if_false]
    exact ih (fun c hc => h c (List.mem_cons_of_mem _ hc))

theorem resolve_from_some (id : String) (entries : List BindEntry)
    (h : ∃ b, b ∈ entries ∧ b.id = id) :
    ∃ entry, entry ∈ entries ∧ entry.id = id ∧ resolve_from id entries = .ok entry.new_node := by
  induction entries with
  | nil =>
    obtain ⟨b, hb, _⟩ := h
    cases hb
  | cons b bs ih =>
    by_cases hb : b.id = id
    · exact ⟨b, List.mem_cons_self _ _, hb, by simp [resolve_from, hb]⟩
    · obtain ⟨c, hc, hcid⟩ := h
      have hc1 : c ∈ bs := by
        rcases List.mem_cons.mp hc with rfl | h1
        · exact absurd hcid hb
        · exact h1
      obtain ⟨entry, he, heid, hres⟩ := ih ⟨c, hc1, hcid⟩
      exact ⟨entry, List.mem_cons_of_mem _ he, heid, by simp only [resolve_from, hb, if_false, hres]⟩

/-- C32: `resolve(ctx, id)` ends in `error` with the message
`could not resolve variable ` followed by `id` if and only if no entry of the
list of bound variables has a name equal to `id` (`strcmp`, the content of the
strings); if an entry has the name, `resolve` returns the variable of an entry
with that name; it has no other way to end.  `resolve` only reads the
context: the occurrence of a name is rewritten to what `resolve` returns, and
the context is left as it was. -/
theorem resolve_fails_iff_unbound (ctx : BindRewriter) (id : String) :
    (resolve ctx id = .error (.error ("could not resolve variable " ++ id)) ↔
      ∀ b, b ∈ ctx.bound_variables → b.id ≠ id) ∧
    ((∃ b, b ∈ ctx.bound_variables ∧ b.id = id) →
      ∃ entry, entry ∈ ctx.bound_variables ∧ entry.id = id ∧
        resolve ctx id = .ok entry.new_node) ∧
    (∀ err, resolve ctx id = .error err →
      err = .error ("could not resolve variable " ++ id)) ∧
    (∀ fuel i found ctx1, bind_node (fuel + 1) (.var id i .null) ctx = .ok (found, ctx1) →
      resolve ctx id = .ok found ∧ ctx1 = ctx) ∧
    (∀ fuel i err, resolve ctx id = .error err →
      bind_node (fuel + 1) (.var id i .null) ctx = .error err) := by
  have hcases : (∀ b, b ∈ ctx.bound_variables → b.id ≠ id) ∨
      ∃ b, b ∈ ctx.bound_variables ∧ b.id = id := by
    by_cases h : ∃ b, b ∈ ctx.bound_variables ∧ b.id = id
    · exact Or.inr h
    · left
      intro b hb hid
      exact h ⟨b, hb, hid⟩
  refine ⟨⟨?_, fun h => resolve_from_none id _ h⟩, fun h => resolve_from_some id _ h, ?_, ?_, ?_⟩
  · intro herr b hb hid
    obtain ⟨entry, _, _, hres⟩ := resolve_from_some id _ ⟨b, hb, hid⟩
    have hres1 : resolve ctx id = .ok entry.new_node := hres
    rw [hres1] at herr
    cases herr
  · intro err herr
    rcases hcases with h | h
    · have h1 : resolve ctx id = _ := resolve_from_none id _ h
      rw [h1] at herr
      cases herr
      rfl
    · obtain ⟨entry, _, _, hres⟩ := resolve_from_some id _ h
      have hres1 : resolve ctx id = .ok entry.new_node := hres
      rw [hres1] at herr
      cases herr
  · intro fuel i found ctx1 hrun
    have hr1 : (match resolve ctx id with
      | .ok found => Except.ok (found, ctx)
      | .error err => Except.error err) = Except.ok (found, ctx1) := hrun
    cases hres : resolve ctx id with
    | error err =>
      rw [hres] at hr1
      cases hr1
    | ok f =>
      rw [hres] at hr1
      cases hr1
      exact ⟨rfl, rfl⟩
  · intro fuel i err herr
    show (match resolve ctx id with
      | .ok found => Except.ok (found, ctx)
      | .error err => Except.error err) = _
    rw [herr]

/-! ## Theorems: the parser -/

theorem Parse.run_ok {α β : Type} (m : Parse α) (f : α → Parse β) (s : ParserState) (a : α)
    (s1 : ParserState) (h : m s = .ok (a, s1)) : (m >>= f) s = f a s1 := by
  show (match m s with
    | .error err => Except.error err
    | .ok r => f r.1 r.2) = _
  rw [h]

theorem Parse.run_error {α β : Type} (m : Parse α) (f : α → Parse β) (s : ParserState)
    (e : ParseFault) (h : m s = .error e) : (m >>= f) s = .error e := by
  show (match m s with
    | .error err => Except.error err
    | .ok r => f r.1 r.2) = _
  rw [h]

theorem Parse.run_inv {α β : Type} (m : Parse α) (f : α → Parse β) (s : ParserState) (b : β)
    (s2 : ParserState) (h : (m >>= f) s = .ok (b, s2)) :
    ∃ a s1, m s = .ok (a, s1) ∧ f a s1 = .ok (b, s2) := by
  cases hm : m s with
  | error e => rw [Parse.run_error m f s e hm] at h; cases h
  | ok r =>
    obtain ⟨a, s1⟩ := r
    rw [Parse.run_ok m f s a s1 hm] at h
    exact ⟨a, s1, rfl, h⟩

/-! ### Progress: tokens are consumed and the recursion budget suffices -/

theorem advances_pure {α : Type} (k b : Nat) (strict : α → Prop) (a : α) (h : ¬ strict a) :
    Parse.advances k b strict (pure a) := by
  intro s
  refine ⟨fun _ hc => (by cases hc), ?_⟩
  intro r s1 hr
  cases hr
  exact ⟨Nat.le_refl _, fun hs => absurd hs h⟩

theorem advances_ret {α : Type} (k b : Nat) (a : α) :
    Parse.advances k b (fun _ => False) (pure a) :=
  advances_pure k b _ a (fun h => h)

theorem advances_fault {α : Type} (k b : Nat) (strict : α → Prop) (e : ParseFault)
    (h : e ≠ .out_of_fuel) : Parse.advances k b strict (Parse.fault e : Parse α) := by
  intro s
  refine ⟨fun _ hc => ?_, ?_⟩
  · cases hc
    exact h rfl
  · intro r s1 hr
    cases hr

theorem advances_mono {α : Type} {k b b1 : Nat} {strict strict1 : α → Prop} {m : Parse α}
    (h : Parse.advances k b strict m) (hb : b ≤ b1) (hs : ∀ a, strict1 a → strict a) :
    Parse.advances k b1 strict1 m := by
  intro s
  obtain ⟨h1, h2⟩ := h s
  refine ⟨fun hk => h1 (by omega), ?_⟩
  intro r s1 hr
  obtain ⟨h3, h4⟩ := h2 r s1 hr
  exact ⟨h3, fun hst => h4 (hs r hst)⟩

theorem advances_weak {α : Type} {k b b1 : Nat} {strict : α → Prop} {m : Parse α}
    (h : Parse.advances k b strict m) (hb : b ≤ b1) :
    Parse.advances k b1 (fun _ => False) m :=
  advances_mono h hb (fun _ hf => absurd hf id)

theorem advances_succ {α : Type} {k b : Nat} {strict : α → Prop} {m : Parse α}
    (h : Parse.advances k b strict m) : Parse.advances (k + 1) (b + 1) strict m := by
  intro s
  obtain ⟨h1, h2⟩ := h s
  exact ⟨fun hk => h1 (by omega), h2⟩

theorem advances_at_seq {α β : Type} {k b : Nat} {strict : α → Prop} {q : β → Prop}
    {m : Parse α} {f : α → Parse β} {s : ParserState}
    (hm : Parse.advances_at k b strict m s)
    (hstrict : ∀ a, strict a → Parse.advances k (b + 8) (fun _ => False) (f a))
    (hweak : ∀ a, ¬ strict a → Parse.advances k b q (f a)) :
    Parse.advances_at k b q (m >>= f) s := by
  obtain ⟨h1, h2⟩ := hm
  constructor
  · intro hk
    cases hms : m s with
    | error e =>
      rw [Parse.run_error m f s e hms]
      rw [hms] at h1
      intro hc
      cases hc
      exact h1 hk rfl
    | ok r =>
      obtain ⟨a, s1⟩ := r
      rw [Parse.run_ok m f s a s1 hms]
      obtain ⟨h3, h4⟩ := h2 a s1 hms
      by_cases ha : strict a
      · exact (hstrict a ha s1).1 (by have := h4 ha; omega)
      · exact (hweak a ha s1).1 (by omega)
  · intro r s2 hr
    obtain ⟨a, s1, hms, hf⟩ := Parse.run_inv m f s r s2 hr
    obtain ⟨h3, h4⟩ := h2 a s1 hms
    by_cases ha : strict a
    · have h5 := ((hstrict a ha s1).2 r s2 hf).1
      have h6 := h4 ha
      exact ⟨by omega, fun _ => by omega⟩
    · obtain ⟨h5, h6⟩ := (hweak a ha s1).2 r s2 hf
      exact ⟨by omega, fun hq => by have := h6 hq; omega⟩

theorem advances_seq {α β : Type} {k b : Nat} {strict : α → Prop} {q : β → Prop}
    {m : Parse α} {f : α → Parse β}
    (hm : Parse.advances k b strict m)
    (hstrict : ∀ a, strict a → Parse.advances k (b + 8) (fun _ => False) (f a))
    (hweak : ∀ a, ¬ strict a → Parse.advances k b q (f a)) :
    Parse.advances k b q (m >>= f) :=
  fun s => advances_at_seq (hm s) hstrict hweak

theorem advances_seq_with {α β : Type} {k b : Nat} (strict : α → Prop) {q : β → Prop}
    {m : Parse α} {f : α → Parse β}
    (hm : Parse.advances k b strict m)
    (hstrict : ∀ a, strict a → Parse.advances k (b + 8) (fun _ => False) (f a))
    (hweak : ∀ a, ¬ strict a → Parse.advances k b q (f a)) :
    Parse.advances k b q (m >>= f) :=
  advances_seq hm hstrict hweak

theorem advances_then {α β : Type} {k b : Nat} {strict : α → Prop} {q : β → Prop}
    {m : Parse α} {f : α → Parse β}
    (hm : Parse.advances k b strict m)
    (hf : ∀ a, Parse.advances k b q (f a)) :
    Parse.advances k b q (m >>= f) :=
  advances_seq hm (fun a _ => advances_weak (hf a) (Nat.le_add_right b 8)) (fun a _ => hf a)

theorem advances_curr_token (k b : Nat) :
    Parse.advances k b (fun _ => False) curr_token := by
  intro s
  refine ⟨fun _ hc => (by cases hc), ?_⟩
  intro r s1 hr
  cases hr
  exact ⟨Nat.le_refl _, fun hs => absurd hs id⟩

theorem advances_on_token {β : Type} {k b : Nat} {q : β → Prop} {f : Token → Parse β}
    (h : ∀ s, Parse.advances_at k b q (f s.curr) s) :
    Parse.advances k b q (curr_token >>= f) := by
  intro s
  have h1 : (curr_token >>= f) s = f s.curr s := rfl
  unfold Parse.advances_at
  rw [h1]
  exact h s

theorem curr_tokens_ne_nil (s : ParserState) (h : s.curr.tag ≠ .EOF_tok) :
    s.tokens.tail.length < s.tokens.length := by
  cases hs : s.tokens with
  | nil => simp [ParserState.curr, hs] at h
  | cons t ts => simp

theorem advances_at_next_token {β : Type} {k b : Nat} {q : β → Prop} {f : Unit → Parse β}
    {s : ParserState} (hs : s.curr.tag ≠ .EOF_tok)
    (h : Parse.advances k (b + 8) (fun _ => False) (f ())) :
    Parse.advances_at k b q (next_token >>= f) s := by
  have hlen := curr_tokens_ne_nil s hs
  have h1 : (next_token >>= f) s = f () { s with tokens := s.tokens.tail } := rfl
  unfold Parse.advances_at
  rw [h1]
  obtain ⟨h2, h3⟩ := h { s with tokens := s.tokens.tail }
  refine ⟨fun hk => h2 (by simp only; omega), ?_⟩
  intro r s1 hr
  have h4 := (h3 r s1 hr).1
  simp only at h4
  exact ⟨by omega, fun _ => by omega⟩

theorem accept_token_eq (tag : TokenTag) (s : ParserState) :
    accept_token tag s =
      if s.curr.tag = tag then .ok (true, { s with tokens := s.tokens.tail })
      else .ok (false, s) := by
  show (if s.curr.tag = tag then
    (next_token >>= fun _ => (pure true : Parse Bool)) else pure false) s = _
  by_cases h : s.curr.tag = tag
  · rw [if_pos h, if_pos h]
    rfl
  · rw [if_neg h, if_neg h]
    rfl

theorem advances_accept_token (k b : Nat) (tag : TokenTag) (htag : tag ≠ .EOF_tok) :
    Parse.advances k b (fun r => r = true) (accept_token tag) := by
  intro s
  unfold Parse.advances_at
  rw [accept_token_eq]
  by_cases h : s.curr.tag = tag
  · rw [if_pos h]
    have hlen := curr_tokens_ne_nil s (by rw [h]; exact htag)
    refine ⟨fun _ hc => (by cases hc), ?_⟩
    intro r s1 hr
    cases hr
    exact ⟨Nat.le_of_lt hlen, fun _ => hlen⟩
  · rw [if_neg h]
    refine ⟨fun _ hc => (by cases hc), ?_⟩
    intro r s1 hr
    cases hr
    exact ⟨Nat.le_refl _, fun hc => (by cases hc)⟩

theorem advances_accept_token_weak (k b : Nat) (tag : TokenTag) :
    Parse.advances k b (fun _ => False) (accept_token tag) := by
  intro s
  unfold Parse.advances_at
  rw [accept_token_eq]
  by_cases h : s.curr.tag = tag
  · rw [if_pos h]
    refine ⟨fun _ hc => (by cases hc), ?_⟩
    intro r s1 hr
    cases hr
    exact ⟨by simp [List.length_tail], fun hc => absurd hc id⟩
  · rw [if_neg h]
    refine ⟨fun _ hc => (by cases hc), ?_⟩
    intro r s1 hr
    cases hr
    exact ⟨Nat.le_refl _, fun hc => absurd hc id⟩

theorem advances_expect {β : Type} {k b : Nat} {q : β → Prop} (condition : Bool) (line : Nat)
    {f : Unit → Parse β} (h : condition = true → Parse.advances k b q (f ())) :
    Parse.advances k b q (expect condition line >>= f) := by
  cases condition with
  | true => exact h rfl
  | false => exact advances_fault k b q (.expected line) (by intro hc; cases hc)

theorem advances_assert {β : Type} {k b : Nat} {q : β → Prop} (condition : Bool) (line : Nat)
    {f : Unit → Parse β} (h : condition = true → Parse.advances k b q (f ())) :
    Parse.advances k b q (Parse.assert condition line >>= f) := by
  cases condition with
  | true => exact h rfl
  | false => exact advances_fault k b q (.assertion line) (by intro hc; cases hc)

theorem advances_of_same_tokens {α : Type} (k b : Nat) (m : Parse α)
    (hfuel : ∀ s, m s ≠ .error .out_of_fuel)
    (hsame : ∀ s r s1, m s = .ok (r, s1) → s1.tokens = s.tokens) :
    Parse.advances k b (fun _ => False) m := by
  intro s
  refine ⟨fun _ => hfuel s, ?_⟩
  intro r s1 hr
  rw [hsame s r s1 hr]
  exact ⟨Nat.le_refl _, fun hc => absurd hc id⟩

theorem advances_intern_token (k b : Nat) (env : ParserEnv) (tok : Token) :
    Parse.advances k b (fun _ => False) (intern_token env tok) := by
  apply advances_of_same_tokens
  · intro s
    unfold intern_token
    split
    · intro hc; cases hc
    · intro hc; cases hc
  · intro s r s1 hr
    unfold intern_token at hr
    split at hr
    · cases hr
    · cases hr
      rfl

theorem advances_var (k b : Nat) (type : Node) (name : String) :
    Parse.advances k b (fun _ => False) (Parse.var type name) := by
  apply advances_of_same_tokens
  · intro s hc
    cases hc
  · intro s r s1 hr
    cases hr
    rfl

theorem advances_fn (k b : Nat) (atttributes : FnAttributes) (name : String)
    (params return_types : List Node) :
    Parse.advances k b (fun _ => False) (Parse.fn atttributes name params return_types) := by
  apply advances_of_same_tokens
  · intro s hc
    cases hc
  · intro s r s1 hr
    cases hr
    rfl

theorem advances_set_fn_block (k b : Nat) (node block : Node) :
    Parse.advances k b (fun _ => False) (Parse.set_fn_block node block) := by
  apply advances_of_same_tokens
  · intro s
    unfold Parse.set_fn_block
    split
    · split
      · intro hc; cases hc
      · intro hc; cases hc
    · intro hc; cases hc
  · intro s r s1 hr
    unfold Parse.set_fn_block at hr
    split at hr
    · split at hr
      · cases hr
        rfl
      · cases hr
    · cases hr

theorem advances_vars (k b : Nat) (outs : List (Node × String)) :
    Parse.advances k b (fun _ => False) (Parse.vars outs) := by
  induction outs with
  | nil => exact advances_ret k b _
  | cons out outs ih =>
    unfold Parse.vars
    apply advances_then (advances_var k b _ _)
    intro v
    apply advances_then ih
    intro vs
    exact advances_ret k b _

theorem advances_let (k b : Nat) (instruction : Node) (names : List String) :
    Parse.advances k b (fun _ => False) (Parse.let_ instruction names) := by
  unfold Parse.let_
  apply advances_then (advances_vars k b _)
  intro vars
  exact advances_ret k b _

theorem advances_let_mut (k b : Nat) (instruction : Node) (types : List Node)
    (names : List String) :
    Parse.advances k b (fun _ => False) (Parse.let_mut instruction types names) := by
  unfold Parse.let_mut
  apply advances_then (advances_vars k b _)
  intro vars
  exact advances_ret k b _

theorem advances_accept_identifier (k b : Nat) (env : ParserEnv) :
    Parse.advances k b (fun r => r ≠ none) (accept_identifier env) := by
  unfold accept_identifier
  apply advances_on_token
  intro s
  split
  next h =>
    apply advances_at_next_token (by rw [h]; decide)
    apply advances_then (advances_intern_token k _ env _)
    intro id
    exact advances_ret k _ _
  next h => exact advances_pure k b _ _ (fun hc => hc rfl) s

theorem advances_accept_literal (k b : Nat) (env : ParserEnv) :
    Parse.advances k b Node.nonnull (accept_literal env) := by
  unfold accept_literal
  apply advances_on_token
  intro s
  split
  next h =>
    apply advances_at_next_token (by rw [h]; decide)
    apply advances_then (advances_intern_token k _ env _)
    intro id
    exact advances_ret k _ _
  next h =>
    apply advances_at_next_token (by rw [h]; decide)
    apply advances_then (advances_intern_token k _ env _)
    intro id
    exact advances_ret k _ _
  next h =>
    apply advances_at_next_token (by rw [h]; decide)
    exact advances_ret k _ _
  next h =>
    apply advances_at_next_token (by rw [h]; decide)
    exact advances_ret k _ _
  next => exact advances_pure k b _ _ (by simp [Node.nonnull, Node.is_null]) s

theorem advances_accept_value (k b : Nat) (env : ParserEnv) :
    Parse.advances k b Node.nonnull (accept_value env) := by
  unfold accept_value
  apply advances_seq (advances_accept_identifier k b env)
  · intro id hid
    split
    · exact advances_ret k _ _
    · exact advances_weak (advances_accept_literal k b env) (Nat.le_add_right b 8)
  · intro id hid
    split
    · exact absurd (by simp) hid
    · exact advances_accept_literal k b env

theorem advances_expect_ptr_address_space (k b : Nat) :
    Parse.advances k b (fun _ => True) expect_ptr_address_space := by
  unfold expect_ptr_address_space
  apply advances_on_token
  intro s
  split
  next h =>
    apply advances_at_next_token (by rw [h]; decide)
    exact advances_ret k _ _
  next h =>
    apply advances_at_next_token (by rw [h]; decide)
    exact advances_ret k _ _
  next h =>
    apply advances_at_next_token (by rw [h]; decide)
    exact advances_ret k _ _
  next => exact advances_fault k b _ _ (by decide) s

theorem advances_accept_uniformity_qualifier (k b : Nat) :
    Parse.advances k b (fun r => r ≠ .Unknown) accept_uniformity_qualifier := by
  unfold accept_uniformity_qualifier
  apply advances_seq (advances_accept_token k b _ (by decide))
  · intro a ha
    subst ha
    exact advances_ret k _ _
  · intro a ha
    have ha1 : a = false := by cases a <;> simp_all
    subst ha1
    apply advances_seq (advances_accept_token k b _ (by decide))
    · intro a1 ha1
      subst ha1
      exact advances_ret k _ _
    · intro a1 ha1
      have ha2 : a1 = false := by cases a1 <;> simp_all
      subst ha2
      exact advances_pure k _ _ _ (by simp)

theorem advances_if_token {β : Type} {k b : Nat} {q : β → Prop} (tag : TokenTag)
    (htag : tag ≠ .EOF_tok) {x y : Parse β}
    (hx : Parse.advances k (b + 8) (fun _ => False) x) (hy : Parse.advances k b q y) :
    Parse.advances k b q (accept_token tag >>= fun a => if a = true then x else y) := by
  apply advances_seq (advances_accept_token k b tag htag)
  · intro a ha
    subst ha
    exact hx
  · intro a ha
    have ha1 : a = false := by cases a <;> simp_all
    subst ha1
    exact hy

theorem advances_expect_token {β : Type} {k b : Nat} {q : β → Prop} (tag : TokenTag)
    (htag : tag ≠ .EOF_tok) (line : Nat) {f : Unit → Parse β}
    (h : Parse.advances k (b + 8) (fun _ => False) (f ())) :
    Parse.advances k b q (accept_token tag >>= fun a => expect a line >>= f) := by
  apply advances_seq (advances_accept_token k b tag htag)
  · intro a ha
    subst ha
    exact h
  · intro a ha
    have ha1 : a = false := by cases a <;> simp_all
    subst ha1
    exact advances_fault k b q (.expected line) (by intro hc; cases hc)

theorem advances_accept_unqualified_type_body (env : ParserEnv) (p : Parsers) (k : Nat)
    (ih : p.advancing k) :
    Parse.advances k 0 Node.nonnull (accept_unqualified_type_body env p) := by
  unfold accept_unqualified_type_body
  apply advances_if_token _ (by decide) (advances_ret k _ _)
  apply advances_if_token _ (by decide) (advances_ret k _ _)
  apply advances_if_token _ (by decide) (advances_ret k _ _)
  apply advances_if_token _ (by decide) (advances_ret k _ _)
  apply advances_if_token _ (by decide) (advances_ret k _ _)
  apply advances_if_token _ (by decide) (advances_ret k _ _)
  apply advances_if_token _ (by decide) (advances_ret k _ _)
  apply advances_if_token _ (by decide)
  · apply advances_then (advances_expect_ptr_address_space k _)
    intro as
    apply advances_then (advances_weak ih.accept_unqualified_type (by omega))
    intro elem_type
    apply advances_expect
    intro _
    exact advances_ret k _ _
  · split
    · apply advances_if_token _ (by decide)
      · apply advances_then (advances_weak ih.accept_unqualified_type (by omega))
        intro elem_type
        apply advances_assert
        intro _
        apply advances_expect_token _ (by decide)
        apply advances_then (advances_accept_value k _ env)
        intro expr
        apply advances_expect
        intro _
        apply advances_expect_token _ (by decide)
        exact advances_ret k _ _
      · exact advances_pure k _ _ _ (by simp [Node.nonnull, Node.is_null])
    · exact advances_pure k _ _ _ (by simp [Node.nonnull, Node.is_null])

theorem is_null_of_not_nonnull {node : Node} (h : ¬ node.nonnull) : node.is_null = true := by
  unfold Node.nonnull at h
  cases hn : node.is_null
  · exact absurd hn h
  · rfl

theorem not_nonnull_null : ¬ Node.nonnull .null := by
  simp [Node.nonnull, Node.is_null]

theorem advances_expect_alone (k b : Nat) (condition : Bool) (line : Nat) :
    Parse.advances k b (fun _ => False) (expect condition line) := by
  cases condition with
  | true => exact advances_ret k b ()
  | false => exact advances_fault k b _ (.expected line) (by intro hc; cases hc)

theorem advances_when (k b : Nat) (c : Prop) [Decidable c] (m : Parse Unit)
    (hm : Parse.advances k b (fun _ => False) m) :
    Parse.advances k b (fun _ => False) (if c then m else pure ()) := by
  by_cases h : c
  · rw [if_pos h]
    exact hm
  · rw [if_neg h]
    exact advances_ret k b ()

theorem advances_accept_maybe_qualified_type_body (p : Parsers) (k : Nat)
    (ih : p.advancing k) :
    Parse.advances k 1 Node.nonnull (accept_maybe_qualified_type_body p) := by
  unfold accept_maybe_qualified_type_body
  apply advances_seq (advances_accept_uniformity_qualifier k 1)
  · intro qualifier hq
    apply advances_then (advances_weak ih.accept_unqualified_type (by omega))
    intro unqualified
    apply advances_then (advances_when k _ _ _ (advances_expect_alone k _ _ _))
    intro _
    split
    · exact advances_ret k _ _
    · exact advances_ret k _ _
  · intro qualifier hq
    have hq1 : qualifier = .Unknown := by
      cases qualifier
      · rfl
      · exact absurd (by simp) hq
      · exact absurd (by simp) hq
    subst hq1
    apply advances_seq ih.accept_unqualified_type
    · intro unqualified hu
      apply advances_then (advances_when k _ _ _ (advances_expect_alone k _ _ _))
      intro _
      split
      · exact advances_ret k _ _
      · exact advances_ret k _ _
    · intro unqualified hu
      apply advances_then (advances_when k _ _ _ (advances_expect_alone k _ _ _))
      intro _
      rw [if_pos rfl]
      exact advances_pure k _ _ _ hu

theorem advances_accept_qualified_type_body (p : Parsers) (k : Nat) (ih : p.advancing k) :
    Parse.advances k 1 Node.nonnull (accept_qualified_type_body p) := by
  unfold accept_qualified_type_body
  apply advances_seq (advances_accept_uniformity_qualifier k 1)
  · intro qualifier hq
    split
    · exact advances_ret k _ _
    · apply advances_then (advances_weak ih.accept_unqualified_type (by omega))
      intro unqualified
      apply advances_expect
      intro _
      exact advances_ret k _ _
  · intro qualifier hq
    have hq1 : qualifier = .Unknown := by
      cases qualifier
      · rfl
      · exact absurd (by simp) hq
      · exact absurd (by simp) hq
    subst hq1
    rw [if_pos rfl]
    exact advances_pure k _ _ _ not_nonnull_null

theorem advances_accept_operand_body (env : ParserEnv) (p : Parsers) (k : Nat)
    (ih : p.advancing k) :
    Parse.advances k 4 Node.nonnull (accept_operand_body env p) := by
  unfold accept_operand_body
  split
  · exact ih.accept_expr _
  · exact advances_accept_value k _ env

theorem advances_expect_parameters_body (p : Parsers) (k : Nat) (ih : p.advancing k)
    (d : Bool) :
    Parse.advances k 0 (fun _ => False) (expect_parameters_body p d) := by
  unfold expect_parameters_body
  apply advances_expect_token _ (by decide)
  exact advances_weak (ih.expect_parameters_loop _ _ _) (by omega)

theorem advances_expect_parameters_loop_body (p : Parsers) (k : Nat) (ih : p.advancing k)
    (d : Bool) (ps ds : List Node) :
    Parse.advances k 3 (fun _ => False) (expect_parameters_loop_body p d ps ds) := by
  unfold expect_parameters_loop_body
  apply advances_if_token _ (by decide) (advances_ret k _ _)
  exact ih.expect_parameters_next _ _ _

theorem advances_expect_parameters_next_body (env : ParserEnv) (p : Parsers) (k : Nat)
    (ih : p.advancing k) (d : Bool) (ps ds : List Node) :
    Parse.advances k 2 (fun _ => False) (expect_parameters_next_body env p d ps ds) := by
  unfold expect_parameters_next_body
  apply advances_seq ih.accept_qualified_type
  · intro qtype hq
    apply advances_expect
    intro _
    apply advances_then (advances_accept_identifier k _ env)
    intro id
    split
    · exact advances_fault k _ _ _ (by decide)
    · apply advances_then (advances_var k _ _ _)
      intro node
      apply advances_then
      · show Parse.advances _ _ (fun _ => False) _
        split
        · apply advances_expect_token _ (by decide)
          apply advances_then (advances_weak ih.accept_operand (by omega))
          intro default_val
          exact advances_ret k _ _
        · exact advances_ret k _ _
      · intro default_vals
        apply advances_if_token _ (by decide)
        · exact advances_weak (ih.expect_parameters_next _ _ _) (by omega)
        · exact advances_weak (ih.expect_parameters_loop _ _ _) (by omega)
  · intro qtype hq
    apply advances_expect
    intro hc
    rw [is_null_of_not_nonnull hq] at hc
    cases hc

theorem advances_accept_types_body (p : Parsers) (k : Nat) (ih : p.advancing k)
    (separator : Option TokenTag) (expect_qualified : Bool) (types : List Node) :
    Parse.advances k 2 (fun _ => False)
      (accept_types_body p separator expect_qualified types) := by
  unfold accept_types_body
  have hm : Parse.advances k 2 Node.nonnull
      (if expect_qualified = true then p.accept_qualified_type
        else p.accept_maybe_qualified_type) := by
    split
    · exact ih.accept_qualified_type
    · exact ih.accept_maybe_qualified_type
  apply advances_seq hm
  · intro type ht
    split
    · exact advances_ret k _ _
    · split
      · apply advances_then (advances_accept_token_weak k _ _)
        intro _
        exact advances_weak (ih.accept_types _ _ _) (by omega)
      · exact advances_weak (ih.accept_types _ _ _) (by omega)
  · intro type ht
    rw [if_pos (is_null_of_not_nonnull ht)]
    exact advances_ret k _ _

theorem advances_expect_parenthised_expr_body (env : ParserEnv) (p : Parsers) (k : Nat)
    (ih : p.advancing k) :
    Parse.advances k 0 (fun _ => True) (expect_parenthised_expr_body env p) := by
  unfold expect_parenthised_expr_body
  apply advances_expect_token _ (by decide)
  apply advances_then (advances_weak (ih.accept_expr _) (by omega))
  intro expr
  split
  · apply advances_expect_token _ (by decide)
    exact advances_ret k _ _
  · apply advances_on_token
    intro s
    split
    · apply advances_then (advances_weak (ih.expect_parenthised_expr_loop _) (by omega))
      intro elements
      exact advances_ret k _ _
    · next h =>
      have h1 : s.curr.tag = .rpar_tok := by
        by_contra hc
        exact h hc
      apply advances_at_next_token (by rw [h1]; decide)
      exact advances_ret k _ _

theorem advances_expect_parenthised_expr_loop_body (p : Parsers) (k : Nat)
    (ih : p.advancing k) (elements : List Node) :
    Parse.advances k 0 (fun _ => False) (expect_parenthised_expr_loop_body p elements) := by
  unfold expect_parenthised_expr_loop_body
  apply advances_if_token _ (by decide) (advances_ret k _ _)
  apply advances_expect_token _ (by decide)
  apply advances_then (advances_weak (ih.accept_expr _) (by omega))
  intro element
  exact advances_weak (ih.expect_parenthised_expr_loop _) (by omega)

theorem advances_accept_primary_expr_body (env : ParserEnv) (p : Parsers) (k : Nat)
    (ih : p.advancing k) :
    Parse.advances k 2 Node.nonnull (accept_primary_expr_body env p) := by
  unfold accept_primary_expr_body
  apply advances_on_token
  intro s
  split
  next h =>
    apply advances_at_next_token (by rw [h]; decide)
    apply advances_then (advances_weak ih.accept_primary_expr (by omega))
    intro expr
    apply advances_assert
    intro _
    split
    · exact advances_ret k _ _
    · exact advances_ret k _ _
  next h => exact advances_mono ih.expect_parenthised_expr (by omega) (fun _ _ => trivial) s
  next =>
    refine advances_seq (advances_accept_value k 2 env) ?_ ?_ s
    · intro expr he
      apply advances_then
      · show Parse.advances _ _ (fun _ => False) _
        split
        · exact advances_weak ih.accept_primop (by omega)
        · exact advances_ret k _ _
      · intro expr1
        exact advances_weak (ih.accept_primary_expr_loop _) (by omega)
    · intro expr he
      rw [if_pos (is_null_of_not_nonnull he)]
      apply advances_seq (advances_mono ih.accept_primop (by omega) (fun _ h => h))
      · intro expr1 he1
        exact advances_weak (ih.accept_primary_expr_loop _) (by omega)
      · intro expr1 he1
        exact advances_mono (ih.accept_primary_expr_loop _) (by omega)
          (fun r hr => ⟨is_null_of_not_nonnull he1, hr⟩)

theorem advances_accept_primary_expr_loop_body (p : Parsers) (k : Nat) (ih : p.advancing k)
    (expr : Node) :
    Parse.advances k 1 (fun r => expr.is_null = true ∧ r.nonnull)
      (accept_primary_expr_loop_body p expr) := by
  unfold accept_primary_expr_loop_body
  split
  next h =>
    apply advances_pure
    intro hc
    have h1 := hc.2
    unfold Node.nonnull at h1
    rw [h] at h1
    cases h1
  next h =>
    apply advances_mono _ (Nat.le_refl 1) (fun r hr => absurd hr.1 h)
    · exact fun _ => False
    · apply advances_on_token
      intro s
      split
      · refine advances_seq ih.expect_operands ?_ ?_ s
        · intro args _
          exact advances_weak (ih.accept_primary_expr_loop _) (by omega)
        · intro args hc
          exact absurd trivial hc
      · exact advances_ret k _ _ s

theorem advances_accept_expr_body (p : Parsers) (k : Nat) (ih : p.advancing k)
    (outer_precedence : Int) :
    Parse.advances k 3 Node.nonnull (accept_expr_body p outer_precedence) := by
  unfold accept_expr_body
  apply advances_seq ih.accept_primary_expr
  · intro expr he
    exact advances_weak (ih.accept_expr_loop _ _) (by omega)
  · intro expr he
    exact advances_mono (ih.accept_expr_loop _ _) (by omega)
      (fun r hr => ⟨is_null_of_not_nonnull he, hr⟩)

theorem advances_accept_expr_loop_body (env : ParserEnv) (hwf : env.tables.wf) (p : Parsers)
    (k : Nat) (ih : p.advancing k) (outer_precedence : Int) (expr : Node) :
    Parse.advances k 0 (fun r => expr.is_null = true ∧ r.nonnull)
      (accept_expr_loop_body env p outer_precedence expr) := by
  unfold accept_expr_loop_body
  split
  next h =>
    apply advances_pure
    intro hc
    have h1 := hc.2
    unfold Node.nonnull at h1
    rw [h] at h1
    cases h1
  next h =>
    apply advances_mono _ (Nat.le_refl 0) (fun r hr => absurd hr.1 h)
    · exact fun _ => False
    · apply advances_on_token
      intro s
      split
      next infix_op hop =>
        split
        · exact advances_ret k _ _ s
        · apply advances_at_next_token
          · intro hc
            rw [hc, hwf.1] at hop
            cases hop
          · apply advances_then (advances_weak (ih.accept_expr _) (by omega))
            intro rhs
            apply advances_assert
            intro _
            split
            · exact advances_weak (ih.accept_expr_loop _ _) (by omega)
            · exact advances_fault k _ _ _ (by decide)
      next hop =>
        refine advances_if_token _ (by decide) ?_ (advances_ret k _ _) s
        apply advances_then (advances_weak (ih.accept_expr _) (by omega))
        intro index
        apply advances_assert
        intro _
        apply advances_expect_token _ (by decide)
        exact advances_weak (ih.accept_expr_loop _ _) (by omega)

theorem advances_expect_operands_body (p : Parsers) (k : Nat) (ih : p.advancing k) :
    Parse.advances k 0 (fun _ => True) (expect_operands_body p) := by
  unfold expect_operands_body
  apply advances_if_token _ (by decide)
  · exact advances_weak (ih.expect_operands_loop _ _) (by omega)
  · exact advances_fault k _ _ _ (by decide)

theorem advances_expect_operands_loop_body (p : Parsers) (k : Nat) (ih : p.advancing k)
    (expect_value : Bool) (list : List Node) :
    Parse.advances k 5 (fun _ => False) (expect_operands_loop_body p expect_value list) := by
  unfold expect_operands_loop_body
  apply advances_then ih.accept_operand
  intro val
  split
  · split
    · exact advances_fault k _ _ _ (by decide)
    · apply advances_if_token _ (by decide) (advances_ret k _ _)
      exact advances_fault k _ _ _ (by decide)
  · apply advances_if_token _ (by decide)
    · exact advances_weak (ih.expect_operands_loop _ _) (by omega)
    · apply advances_if_token _ (by decide) (advances_ret k _ _)
      exact advances_fault k _ _ _ (by decide)

theorem advances_accept_control_flow_instruction_body (env : ParserEnv) (p : Parsers)
    (k : Nat) (ih : p.advancing k) :
    Parse.advances k 0 Node.nonnull (accept_control_flow_instruction_body env p) := by
  unfold accept_control_flow_instruction_body
  apply advances_on_token
  intro s
  split
  next h =>
    apply advances_at_next_token (by rw [h]; decide)
    apply advances_then (advances_weak (ih.accept_types _ _ _) (by omega))
    intro yield_types
    apply advances_expect_token _ (by decide)
    apply advances_then (advances_weak ih.accept_operand (by omega))
    intro condition
    apply advances_expect
    intro _
    apply advances_expect_token _ (by decide)
    apply advances_then (advances_weak (ih.expect_block _) (by omega))
    intro if_true
    apply advances_then (advances_accept_token_weak k _ _)
    intro has_else
    apply advances_then
    · show Parse.advances _ _ (fun _ => False) _
      split
      · exact advances_weak (ih.expect_block _) (by omega)
      · exact advances_ret k _ _
    · intro if_false
      exact advances_ret k _ _
  next h =>
    apply advances_at_next_token (by rw [h]; decide)
    apply advances_then (advances_weak (ih.accept_types _ _ _) (by omega))
    intro yield_types
    apply advances_then (advances_weak (ih.expect_parameters _) (by omega))
    intro parameters
    apply advances_then (advances_weak (ih.expect_block _) (by omega))
    intro body
    exact advances_ret k _ _
  next => exact advances_pure k _ _ _ not_nonnull_null s

theorem advances_accept_primop_body (env : ParserEnv) (hwf : env.tables.wf) (p : Parsers)
    (k : Nat) (ih : p.advancing k) :
    Parse.advances k 0 Node.nonnull (accept_primop_body env p) := by
  unfold accept_primop_body
  apply advances_on_token
  intro s
  split
  next h =>
    apply advances_at_next_token (by rw [h]; decide)
    apply advances_expect_token _ (by decide)
    apply advances_then (advances_weak ih.accept_unqualified_type (by omega))
    intro element_type
    apply advances_assert
    intro _
    apply advances_then
    · show Parse.advances _ _ (fun _ => False) _
      split
      · exact advances_ret k _ _
      · exact advances_ret k _ _
    · intro _
      apply advances_then (advances_weak ih.accept_operand (by omega))
      intro ptr
      apply advances_expect
      intro _
      apply advances_expect_token _ (by decide)
      exact advances_ret k _ _
  next h =>
    apply advances_at_next_token (by rw [h]; decide)
    apply advances_expect_token _ (by decide)
    apply advances_then (advances_weak ih.accept_operand (by omega))
    intro ptr
    apply advances_expect
    intro _
    apply advances_expect_token _ (by decide)
    apply advances_then (advances_weak ih.accept_operand (by omega))
    intro data
    apply advances_expect
    intro _
    apply advances_expect_token _ (by decide)
    exact advances_ret k _ _
  next h =>
    apply advances_at_next_token (by rw [h]; decide)
    apply advances_expect_token _ (by decide)
    apply advances_then (advances_weak ih.accept_unqualified_type (by omega))
    intro element_type
    apply advances_expect
    intro _
    apply advances_expect_token _ (by decide)
    exact advances_ret k _ _
  next h =>
    apply advances_at_next_token (by rw [h]; decide)
    apply advances_expect_token _ (by decide)
    apply advances_then (advances_weak ih.accept_operand (by omega))
    intro callee
    apply advances_assert
    intro _
    apply advances_expect_token _ (by decide)
    apply advances_then (advances_weak ih.expect_operands (by omega))
    intro args
    exact advances_ret k _ _
  next =>
    split
    next op hop =>
      apply advances_at_next_token
      · intro hc
        rw [hc, hwf.2] at hop
        cases hop
      · apply advances_then (advances_weak ih.expect_operands (by omega))
        intro operands
        exact advances_ret k _ _
    next => exact advances_pure k _ _ _ not_nonnull_null s

theorem advances_accept_instruction_body (env : ParserEnv) (p : Parsers) (k : Nat)
    (ih : p.advancing k) :
    Parse.advances k 4 Node.nonnull (accept_instruction_body env p) := by
  unfold accept_instruction_body
  have hm : Parse.advances k 4 Node.nonnull
      (if env.config.front_end = true then p.accept_expr max_precedence
        else p.accept_primop) := by
    split
    · exact ih.accept_expr _
    · exact advances_mono ih.accept_primop (by omega) (fun _ h => h)
  apply advances_then hm
  intro instr
  split
  · exact advances_mono ih.accept_control_flow_instruction (by omega) (fun _ h => h)
  · apply advances_expect_token _ (by decide)
    exact advances_ret k _ _

theorem advances_expect_identifiers_body (env : ParserEnv) (p : Parsers) (k : Nat)
    (ih : p.advancing k) (list : List String) :
    Parse.advances k 0 (fun _ => False) (expect_identifiers_body env p list) := by
  unfold expect_identifiers_body
  apply advances_then (advances_accept_identifier k _ env)
  intro id
  split
  · exact advances_fault k _ _ _ (by decide)
  · apply advances_if_token _ (by decide)
    · exact advances_weak (ih.expect_identifiers _) (by omega)
    · exact advances_ret k _ _

theorem advances_expect_types_and_identifiers_body (env : ParserEnv) (p : Parsers) (k : Nat)
    (ih : p.advancing k) (slist : List String) (tlist : List Node) :
    Parse.advances k 1 (fun _ => False)
      (expect_types_and_identifiers_body env p slist tlist) := by
  unfold expect_types_and_identifiers_body
  apply advances_then ih.accept_unqualified_type
  intro type
  apply advances_expect
  intro _
  apply advances_then (advances_accept_identifier k _ env)
  intro id
  split
  · exact advances_fault k _ _ _ (by decide)
  · apply advances_if_token _ (by decide)
    · exact advances_weak (ih.expect_types_and_identifiers _ _) (by omega)
    · exact advances_ret k _ _

theorem advances_accept_instruction_maybe_with_let_too_body (p : Parsers) (k : Nat)
    (ih : p.advancing k) :
    Parse.advances k 5 Node.nonnull (accept_instruction_maybe_with_let_too_body p) := by
  unfold accept_instruction_maybe_with_let_too_body
  apply advances_if_token _ (by decide)
  · apply advances_then (advances_weak (ih.expect_identifiers _) (by omega))
    intro ids
    apply advances_expect_token _ (by decide)
    apply advances_then (advances_weak ih.accept_instruction (by omega))
    intro instruction
    exact advances_let k _ _ _
  · apply advances_if_token _ (by decide)
    · apply advances_then (advances_weak (ih.expect_types_and_identifiers _ _) (by omega))
      intro ids
      apply advances_expect_token _ (by decide)
      apply advances_then (advances_weak ih.accept_instruction (by omega))
      intro instruction
      exact advances_let_mut k _ _ _ _
    · exact ih.accept_instruction

theorem advances_terminator_args_body (p : Parsers) (k : Nat) (ih : p.advancing k) :
    Parse.advances k 1 (fun _ => False) (terminator_args_body p) := by
  unfold terminator_args_body
  apply advances_then (advances_curr_token k _)
  intro tok
  split
  · exact advances_weak ih.expect_operands (by omega)
  · exact advances_ret k _ _

theorem advances_accept_terminator_body (env : ParserEnv) (p : Parsers) (k : Nat)
    (ih : p.advancing k) :
    Parse.advances k 0 (fun _ => False) (accept_terminator_body env p) := by
  unfold accept_terminator_body
  apply advances_on_token
  intro s
  split
  next h =>
    apply advances_at_next_token (by rw [h]; decide)
    apply advances_expect_token _ (by decide)
    apply advances_then (advances_weak ih.accept_operand (by omega))
    intro target
    apply advances_expect_token _ (by decide)
    apply advances_expect
    intro _
    apply advances_then (advances_weak ih.terminator_args (by omega))
    intro args
    exact advances_ret k _ _
  next h =>
    apply advances_at_next_token (by rw [h]; decide)
    apply advances_expect_token _ (by decide)
    apply advances_then (advances_accept_value k _ env)
    intro condition
    apply advances_expect
    intro _
    apply advances_expect_token _ (by decide)
    apply advances_then (advances_accept_value k _ env)
    intro true_target
    apply advances_expect
    intro _
    apply advances_expect_token _ (by decide)
    apply advances_then (advances_accept_value k _ env)
    intro false_target
    apply advances_expect
    intro _
    apply advances_expect_token _ (by decide)
    apply advances_then (advances_weak ih.terminator_args (by omega))
    intro args
    exact advances_ret k _ _
  next h =>
    apply advances_at_next_token (by rw [h]; decide)
    apply advances_then (advances_weak ih.terminator_args (by omega))
    intro args
    exact advances_ret k _ _
  next h =>
    apply advances_at_next_token (by rw [h]; decide)
    apply advances_then (advances_weak ih.terminator_args (by omega))
    intro args
    exact advances_ret k _ _
  next h =>
    apply advances_at_next_token (by rw [h]; decide)
    apply advances_then (advances_weak ih.terminator_args (by omega))
    intro args
    exact advances_ret k _ _
  next h =>
    apply advances_at_next_token (by rw [h]; decide)
    apply advances_then (advances_weak ih.terminator_args (by omega))
    intro args
    exact advances_ret k _ _
  next h =>
    apply advances_at_next_token (by rw [h]; decide)
    exact advances_ret k _ _
  next => exact advances_ret k _ _ s

theorem advances_expect_block_body (p : Parsers) (k : Nat) (ih : p.advancing k)
    (implicit_join : Node) :
    Parse.advances k 0 (fun _ => False) (expect_block_body p implicit_join) := by
  unfold expect_block_body
  apply advances_expect_token _ (by decide)
  apply advances_then (advances_weak (ih.expect_block_instructions _) (by omega))
  intro instrs
  apply advances_then (advances_weak ih.accept_terminator (by omega))
  intro terminator
  apply advances_then
  · show Parse.advances _ _ (fun _ => False) _
    split
    · split
      · exact advances_fault k _ _ _ (by decide)
      · exact advances_ret k _ _
    · apply advances_expect_token _ (by decide)
      exact advances_ret k _ _
  · intro terminator1
    apply advances_then (advances_curr_token k _)
    intro tok
    apply advances_then
    · show Parse.advances _ _ (fun _ => False) _
      split
      · exact advances_weak (ih.expect_block_continuations _ _) (by omega)
      · exact advances_ret k _ _
    · intro conts
      apply advances_expect_token _ (by decide)
      exact advances_ret k _ _

theorem advances_expect_block_instructions_body (p : Parsers) (k : Nat) (ih : p.advancing k)
    (instructions : List Node) :
    Parse.advances k 6 (fun _ => False) (expect_block_instructions_body p instructions) := by
  unfold expect_block_instructions_body
  apply advances_seq ih.accept_instruction_maybe_with_let_too
  · intro instruction hi
    split
    · exact advances_ret k _ _
    · exact advances_weak (ih.expect_block_instructions _) (by omega)
  · intro instruction hi
    rw [if_pos (is_null_of_not_nonnull hi)]
    exact advances_ret k _ _

theorem advances_expect_block_continuations_body (env : ParserEnv) (p : Parsers) (k : Nat)
    (ih : p.advancing k) (conts names : List Node) :
    Parse.advances k 0 (fun _ => False)
      (expect_block_continuations_body env p conts names) := by
  unfold expect_block_continuations_body
  apply advances_seq (advances_accept_identifier k _ env)
  · intro identifier hid
    split
    · exact advances_ret k _ _
    · apply advances_expect_token _ (by decide)
      apply advances_then (advances_weak (ih.expect_parameters _) (by omega))
      intro parameters
      apply advances_then (advances_weak (ih.expect_block _) (by omega))
      intro block
      apply advances_then (advances_fn k _ _ _ _ _)
      intro continuation
      apply advances_then (advances_set_fn_block k _ _ _)
      intro _
      apply advances_then (advances_var k _ _ _)
      intro contvar
      exact advances_weak (ih.expect_block_continuations _ _) (by omega)
  · intro identifier hid
    split
    · exact advances_ret k _ _
    · exact absurd (by simp) hid

theorem advances_accept_const_body (env : ParserEnv) (p : Parsers) (k : Nat)
    (ih : p.advancing k) :
    Parse.advances k 0 Node.nonnull (accept_const_body env p) := by
  unfold accept_const_body
  apply advances_if_token _ (by decide)
  · apply advances_then (advances_weak ih.accept_unqualified_type (by omega))
    intro type
    apply advances_then (advances_accept_identifier k _ env)
    intro id
    split
    · exact advances_fault k _ _ _ (by decide)
    · apply advances_expect_token _ (by decide)
      apply advances_then (advances_accept_value k _ env)
      intro definition
      apply advances_assert
      intro _
      apply advances_expect_token _ (by decide)
      exact advances_ret k _ _
  · exact advances_pure k _ _ _ not_nonnull_null

theorem advances_accept_fn_annotations_body (p : Parsers) (k : Nat) (ih : p.advancing k)
    (annotations : FnAttributes) :
    Parse.advances k 0 (fun _ => False) (accept_fn_annotations_body p annotations) := by
  unfold accept_fn_annotations_body
  apply advances_if_token _ (by decide)
  · exact advances_weak (ih.accept_fn_annotations _) (by omega)
  · exact advances_ret k _ _

theorem advances_accept_fn_decl_body (env : ParserEnv) (p : Parsers) (k : Nat)
    (ih : p.advancing k) :
    Parse.advances k 0 Node.nonnull (accept_fn_decl_body env p) := by
  unfold accept_fn_decl_body
  apply advances_if_token _ (by decide)
  · apply advances_then (advances_weak (ih.accept_fn_annotations _) (by omega))
    intro atttributes
    apply advances_then (advances_accept_identifier k _ env)
    intro id
    split
    · exact advances_fault k _ _ _ (by decide)
    · apply advances_then (advances_weak (ih.accept_types _ _ _) (by omega))
      intro types
      apply advances_then (advances_curr_token k _)
      intro tok
      apply advances_expect
      intro _
      apply advances_then (advances_weak (ih.expect_parameters _) (by omega))
      intro parameters
      apply advances_then (advances_weak (ih.expect_block _) (by omega))
      intro block
      apply advances_then (advances_fn k _ _ _ _ _)
      intro function
      apply advances_then (advances_set_fn_block k _ _ _)
      intro _
      apply advances_assert
      intro _
      exact advances_ret k _ _
  · exact advances_pure k _ _ _ not_nonnull_null

theorem advances_accept_global_var_decl_body (env : ParserEnv) (p : Parsers) (k : Nat)
    (ih : p.advancing k) :
    Parse.advances k 0 Node.nonnull (accept_global_var_decl_body env p) := by
  unfold accept_global_var_decl_body
  apply advances_seq_with (fun r => r ≠ none)
  · apply advances_if_token _ (by decide) (advances_ret k _ _)
    apply advances_if_token _ (by decide) (advances_ret k _ _)
    apply advances_if_token _ (by decide) (advances_ret k _ _)
    apply advances_if_token _ (by decide) (advances_ret k _ _)
    apply advances_if_token _ (by decide) (advances_ret k _ _)
    apply advances_if_token _ (by decide) (advances_ret k _ _)
    exact advances_pure k _ _ _ (fun hc => hc rfl)
  · intro as has
    split
    · exact advances_ret k _ _
    · apply advances_then (advances_weak ih.accept_unqualified_type (by omega))
      intro type
      apply advances_expect
      intro _
      apply advances_then (advances_accept_identifier k _ env)
      intro id
      split
      · exact advances_fault k _ _ _ (by decide)
      · apply advances_then
        · show Parse.advances _ _ (fun _ => False) _
          apply advances_if_token _ (by decide)
          · apply advances_then (advances_accept_value k _ env)
            intro initial_value
            apply advances_assert
            intro _
            exact advances_ret k _ _
          · exact advances_ret k _ _
        · intro initial_value
          apply advances_expect_token _ (by decide)
          exact advances_ret k _ _
  · intro as has
    split
    · exact advances_pure k _ _ _ not_nonnull_null
    · exact absurd (by simp) has

theorem advances_parse_body (p : Parsers) (k : Nat) (ih : p.advancing k)
    (declarations : List Node) :
    Parse.advances k 1 (fun _ => False) (parse_body p declarations) := by
  unfold parse_body
  apply advances_then (advances_curr_token k _)
  intro token
  split
  · exact advances_ret k _ _
  · apply advances_seq ih.accept_const
    · intro decl hd
      apply advances_then
      · show Parse.advances _ _ (fun _ => False) _
        split
        · exact advances_weak ih.accept_fn_decl (by omega)
        · exact advances_ret k _ _
      · intro decl1
        apply advances_then
        · show Parse.advances _ _ (fun _ => False) _
          split
          · exact advances_weak ih.accept_global_var_decl (by omega)
          · exact advances_ret k _ _
        · intro decl2
          split
          · exact advances_fault k _ _ _ (by decide)
          · exact advances_weak (ih.parse _) (by omega)
    · intro decl hd
      rw [if_pos (is_null_of_not_nonnull hd)]
      apply advances_seq ih.accept_fn_decl
      · intro decl1 hd1
        apply advances_then
        · show Parse.advances _ _ (fun _ => False) _
          split
          · exact advances_weak ih.accept_global_var_decl (by omega)
          · exact advances_ret k _ _
        · intro decl2
          split
          · exact advances_fault k _ _ _ (by decide)
          · exact advances_weak (ih.parse _) (by omega)
      · intro decl1 hd1
        rw [if_pos (is_null_of_not_nonnull hd1)]
        apply advances_seq ih.accept_global_var_decl
        · intro decl2 hd2
          split
          · exact advances_fault k _ _ _ (by decide)
          · exact advances_weak (ih.parse _) (by omega)
        · intro decl2 hd2
          rw [if_pos (is_null_of_not_nonnull hd2)]
          exact advances_fault k _ _ _ (by decide)

theorem advancing_out_of_fuel : Parsers.out_of_fuel.advancing 0 := by
  have h : ∀ (α : Type) (b : Nat) (strict : α → Prop),
      Parse.advances 0 (b + 1) strict (Parse.fault .out_of_fuel : Parse α) := by
    intro α b strict s
    refine ⟨fun hk => absurd hk (by omega), ?_⟩
    intro r s1 hr
    cases hr
  constructor <;> intros <;> exact h _ _ _

theorem advancing_step (env : ParserEnv) (hwf : env.tables.wf) (p : Parsers) (k : Nat)
    (ih : p.advancing k) : (Parsers.step env p).advancing (k + 1) where
  accept_unqualified_type := advances_succ (advances_accept_unqualified_type_body env p k ih)
  accept_maybe_qualified_type := advances_succ (advances_accept_maybe_qualified_type_body p k ih)
  accept_qualified_type := advances_succ (advances_accept_qualified_type_body p k ih)
  accept_operand := advances_succ (advances_accept_operand_body env p k ih)
  expect_parameters := fun d => advances_succ (advances_expect_parameters_body p k ih d)
  expect_parameters_loop := fun d ps ds =>
    advances_succ (advances_expect_parameters_loop_body p k ih d ps ds)
  expect_parameters_next := fun d ps ds =>
    advances_succ (advances_expect_parameters_next_body env p k ih d ps ds)
  accept_types := fun sep q ts => advances_succ (advances_accept_types_body p k ih sep q ts)
  expect_parenthised_expr := advances_succ (advances_expect_parenthised_expr_body env p k ih)
  expect_parenthised_expr_loop := fun es =>
    advances_succ (advances_expect_parenthised_expr_loop_body p k ih es)
  accept_primary_expr := advances_succ (advances_accept_primary_expr_body env p k ih)
  accept_primary_expr_loop := fun e =>
    advances_succ (advances_accept_primary_expr_loop_body p k ih e)
  accept_expr := fun o => advances_succ (advances_accept_expr_body p k ih o)
  accept_expr_loop := fun o e =>
    advances_succ (advances_accept_expr_loop_body env hwf p k ih o e)
  expect_operands := advances_succ (advances_expect_operands_body p k ih)
  expect_operands_loop := fun e l =>
    advances_succ (advances_expect_operands_loop_body p k ih e l)
  accept_control_flow_instruction :=
    advances_succ (advances_accept_control_flow_instruction_body env p k ih)
  accept_primop := advances_succ (advances_accept_primop_body env hwf p k ih)
  accept_instruction := advances_succ (advances_accept_instruction_body env p k ih)
  expect_identifiers := fun l => advances_succ (advances_expect_identifiers_body env p k ih l)
  expect_types_and_identifiers := fun sl tl =>
    advances_succ (advances_expect_types_and_identifiers_body env p k ih sl tl)
  accept_instruction_maybe_with_let_too :=
    advances_succ (advances_accept_instruction_maybe_with_let_too_body p k ih)
  terminator_args := advances_succ (advances_terminator_args_body p k ih)
  accept_terminator := advances_succ (advances_accept_terminator_body env p k ih)
  expect_block := fun j => advances_succ (advances_expect_block_body p k ih j)
  expect_block_instructions := fun l =>
    advances_succ (advances_expect_block_instructions_body p k ih l)
  expect_block_continuations := fun c n =>
    advances_succ (advances_expect_block_continuations_body env p k ih c n)
  accept_const := advances_succ (advances_accept_const_body env p k ih)
  accept_fn_annotations := fun a => advances_succ (advances_accept_fn_annotations_body p k ih a)
  accept_fn_decl := advances_succ (advances_accept_fn_decl_body env p k ih)
  accept_global_var_decl := advances_succ (advances_accept_global_var_decl_body env p k ih)
  parse := fun d => advances_succ (advances_parse_body p k ih d)

theorem parsers_advancing (env : ParserEnv) (hwf : env.tables.wf) (fuel : Nat) :
    (parsers env fuel).advancing fuel := by
  induction fuel with
  | zero => exact advancing_out_of_fuel
  | succ k ih => exact advancing_step env hwf (parsers env k) k ih

theorem parse_returns_root (env : ParserEnv) (fuel : Nat) (declarations : List Node)
    (s : ParserState) (r : Node) (s1 : ParserState)
    (h : (parsers env fuel).parse declarations s = .ok (r, s1)) :
    ∃ ds, r = .root (declarations ++ ds) := by
  induction fuel generalizing declarations s with
  | zero => cases h
  | succ k ih =>
    have h1 : parse_body (parsers env k) declarations s = .ok (r, s1) := h
    unfold parse_body at h1
    obtain ⟨token, s2, h2, h3⟩ := Parse.run_inv _ _ _ _ _ h1
    split at h3
    · cases h3
      exact ⟨[], by simp⟩
    · obtain ⟨decl, s3, _, h5⟩ := Parse.run_inv _ _ _ _ _ h3
      obtain ⟨decl1, s4, _, h7⟩ := Parse.run_inv _ _ _ _ _ h5
      obtain ⟨decl2, s5, _, h9⟩ := Parse.run_inv _ _ _ _ _ h7
      split at h9
      · cases h9
      · obtain ⟨ds, hds⟩ := ih _ _ h9
        exact ⟨decl2 :: ds, by rw [hds]; simp⟩

/-! ### What the parser builds: every block ends in a terminator -/

theorem builds_pure {α : Type} (post : α → Prop) (a : α) (h : post a) :
    Parse.builds post (pure a) := by
  intro s r s1 hr hs
  cases hr
  exact ⟨h, hs⟩

theorem builds_fault {α : Type} (post : α → Prop) (e : ParseFault) :
    Parse.builds post (Parse.fault e : Parse α) := by
  intro s r s1 hr
  cases hr

theorem builds_seq {α β : Type} {post1 : α → Prop} {post2 : β → Prop} {m : Parse α}
    {f : α → Parse β} (hm : Parse.builds post1 m)
    (hf : ∀ a, post1 a → Parse.builds post2 (f a)) : Parse.builds post2 (m >>= f) := by
  intro s r s2 hr hs
  obtain ⟨a, s1, h1, h2⟩ := Parse.run_inv m f s r s2 hr
  obtain ⟨h3, h4⟩ := hm s a s1 h1 hs
  exact hf a h3 s1 r s2 h2 h4

theorem builds_then {α β : Type} {post1 : α → Prop} {post2 : β → Prop} {m : Parse α}
    {f : α → Parse β} (hm : Parse.builds post1 m)
    (hf : ∀ a, Parse.builds post2 (f a)) : Parse.builds post2 (m >>= f) :=
  builds_seq hm (fun a _ => hf a)

theorem builds_seq_with {α β : Type} (post1 : α → Prop) {post2 : β → Prop} {m : Parse α}
    {f : α → Parse β} (hm : Parse.builds post1 m)
    (hf : ∀ a, post1 a → Parse.builds post2 (f a)) : Parse.builds post2 (m >>= f) :=
  builds_seq hm hf

theorem builds_then_with {α β : Type} (post1 : α → Prop) {post2 : β → Prop} {m : Parse α}
    {f : α → Parse β} (hm : Parse.builds post1 m)
    (hf : ∀ a, Parse.builds post2 (f a)) : Parse.builds post2 (m >>= f) :=
  builds_seq hm (fun a _ => hf a)

theorem builds_any {α : Type} {post : α → Prop} {m : Parse α} (h : Parse.builds post m) :
    Parse.builds (fun _ => True) m := by
  intro s r s1 hr hs
  exact ⟨trivial, (h s r s1 hr hs).2⟩

theorem builds_of_same_fns {α : Type} (m : Parse α)
    (hsame : ∀ s r s1, m s = .ok (r, s1) → s1.fns = s.fns) :
    Parse.builds (fun _ => True) m := by
  intro s r s1 hr hs
  refine ⟨trivial, ?_⟩
  intro f hf
  rw [hsame s r s1 hr] at hf
  exact hs f hf

theorem builds_curr_token : Parse.builds (fun _ => True) curr_token :=
  builds_of_same_fns _ (fun s r s1 hr => by cases hr; rfl)

theorem builds_next_token : Parse.builds (fun _ => True) next_token :=
  builds_of_same_fns _ (fun s r s1 hr => by cases hr; rfl)

theorem builds_accept_token (tag : TokenTag) :
    Parse.builds (fun _ => True) (accept_token tag) := by
  apply builds_of_same_fns
  intro s r s1 hr
  rw [accept_token_eq] at hr
  split at hr
  · cases hr
    rfl
  · cases hr
    rfl

theorem builds_expect {β : Type} {post : β → Prop} (condition : Bool) (line : Nat)
    {f : Unit → Parse β} (h : condition = true → Parse.builds post (f ())) :
    Parse.builds post (expect condition line >>= f) := by
  cases condition with
  | true => exact h rfl
  | false => exact builds_fault post (.expected line)

theorem builds_assert {β : Type} {post : β → Prop} (condition : Bool) (line : Nat)
    {f : Unit → Parse β} (h : condition = true → Parse.builds post (f ())) :
    Parse.builds post (Parse.assert condition line >>= f) := by
  cases condition with
  | true => exact h rfl
  | false => exact builds_fault post (.assertion line)

theorem builds_expect_alone (condition : Bool) (line : Nat) :
    Parse.builds (fun _ => True) (expect condition line) := by
  cases condition with
  | true => exact builds_pure _ _ trivial
  | false => exact builds_fault _ (.expected line)

theorem builds_when (c : Prop) [Decidable c] (m : Parse Unit)
    (hm : Parse.builds (fun _ => True) m) :
    Parse.builds (fun _ => True) (if c then m else pure ()) := by
  by_cases h : c
  · rw [if_pos h]
    exact hm
  · rw [if_neg h]
    exact builds_pure _ _ trivial

theorem builds_if_token {β : Type} {post : β → Prop} (tag : TokenTag) {x y : Parse β}
    (hx : Parse.builds post x) (hy : Parse.builds post y) :
    Parse.builds post (accept_token tag >>= fun a => if a = true then x else y) := by
  apply builds_then (builds_accept_token tag)
  intro a
  cases a
  · exact hy
  · exact hx

theorem builds_expect_token {β : Type} {post : β → Prop} (tag : TokenTag) (line : Nat)
    {f : Unit → Parse β} (h : Parse.builds post (f ())) :
    Parse.builds post (accept_token tag >>= fun a => expect a line >>= f) := by
  apply builds_then (builds_accept_token tag)
  intro a
  exact builds_expect a line (fun _ => h)

theorem builds_intern_token (env : ParserEnv) (tok : Token) :
    Parse.builds (fun _ => True) (intern_token env tok) := by
  apply builds_of_same_fns
  intro s r s1 hr
  unfold intern_token at hr
  split at hr
  · cases hr
  · cases hr
    rfl

theorem builds_var (type : Node) (name : String) :
    Parse.builds (fun _ => True) (Parse.var type name) :=
  builds_of_same_fns _ (fun s r s1 hr => by cases hr; rfl)

theorem builds_vars (outs : List (Node × String)) :
    Parse.builds (fun _ => True) (Parse.vars outs) := by
  induction outs with
  | nil => exact builds_pure _ _ trivial
  | cons out outs ih =>
    unfold Parse.vars
    apply builds_then (builds_var _ _)
    intro v
    apply builds_then ih
    intro vs
    exact builds_pure _ _ trivial

theorem builds_accept_identifier (env : ParserEnv) :
    Parse.builds (fun _ => True) (accept_identifier env) := by
  unfold accept_identifier
  apply builds_then builds_curr_token
  intro tok
  split
  · apply builds_then builds_next_token
    intro _
    apply builds_then (builds_intern_token env tok)
    intro id
    exact builds_pure _ _ trivial
  · exact builds_pure _ _ trivial

theorem builds_accept_literal (env : ParserEnv) :
    Parse.builds (fun r => r.is_expression = true) (accept_literal env) := by
  unfold accept_literal
  apply builds_then builds_curr_token
  intro tok
  split
  · apply builds_then builds_next_token
    intro _
    apply builds_then (builds_intern_token env tok)
    intro id
    exact builds_pure _ _ rfl
  · apply builds_then builds_next_token
    intro _
    apply builds_then (builds_intern_token env tok)
    intro id
    exact builds_pure _ _ rfl
  · apply builds_then builds_next_token
    intro _
    exact builds_pure _ _ rfl
  · apply builds_then builds_next_token
    intro _
    exact builds_pure _ _ rfl
  · exact builds_pure _ _ rfl

theorem builds_accept_value (env : ParserEnv) :
    Parse.builds (fun r => r.is_expression = true) (accept_value env) := by
  unfold accept_value
  apply builds_then (builds_accept_identifier env)
  intro id
  split
  · exact builds_pure _ _ rfl
  · exact builds_accept_literal env

theorem builds_expect_ptr_address_space :
    Parse.builds (fun _ => True) expect_ptr_address_space := by
  unfold expect_ptr_address_space
  apply builds_then builds_curr_token
  intro tok
  split
  · apply builds_then builds_next_token
    intro _
    exact builds_pure _ _ trivial
  · apply builds_then builds_next_token
    intro _
    exact builds_pure _ _ trivial
  · apply builds_then builds_next_token
    intro _
    exact builds_pure _ _ trivial
  · exact builds_fault _ _

theorem builds_accept_uniformity_qualifier :
    Parse.builds (fun _ => True) accept_uniformity_qualifier := by
  unfold accept_uniformity_qualifier
  apply builds_if_token _ (builds_pure _ _ trivial)
  apply builds_if_token _ (builds_pure _ _ trivial)
  exact builds_pure _ _ trivial

theorem is_instruction_of_expression {node : Node} (h : node.is_expression = true) :
    node.is_instruction = true := by
  cases node <;> simp_all [Node.is_expression, Node.is_instruction, Node.is_terminator,
    Node.blocks_terminated]

theorem is_instruction_let (vars : List Node) (instruction : Node) (is_mutable : Bool)
    (h : instruction.is_instruction = true) :
    (Node.let_ vars instruction is_mutable).is_instruction = true := by
  simp only [Node.is_instruction, Bool.and_eq_true, Bool.not_eq_true'] at h
  simp [Node.is_instruction, Node.is_terminator, Node.blocks_terminated, h.2]

theorem builds_let (instruction : Node) (names : List String)
    (h : instruction.is_instruction = true) :
    Parse.builds (fun r => r.is_instruction = true) (Parse.let_ instruction names) := by
  unfold Parse.let_
  apply builds_then (builds_vars _)
  intro vars
  exact builds_pure _ _ (is_instruction_let _ _ _ h)

theorem builds_let_mut (instruction : Node) (types : List Node) (names : List String)
    (h : instruction.is_instruction = true) :
    Parse.builds (fun r => r.is_instruction = true)
      (Parse.let_mut instruction types names) := by
  unfold Parse.let_mut
  apply builds_then (builds_vars _)
  intro vars
  exact builds_pure _ _ (is_instruction_let _ _ _ h)

theorem builds_fn_block {β : Type} {post : β → Prop} (atttributes : FnAttributes)
    (name : String) (params return_types : List Node) (block : Node)
    (hb : block.is_terminated_block = true) {f : Node → Parse β}
    (h : ∀ function, Parse.builds post (f function)) :
    Parse.builds post (Parse.fn atttributes name params return_types >>= fun function =>
      Parse.set_fn_block function block >>= fun _ => f function) := by
  intro s r s2 hr hs
  have h1 : (Parse.fn atttributes name params return_types >>= fun function =>
      Parse.set_fn_block function block >>= fun _ => f function) s
      = f (.fn .src s.fns.length)
          { s with fns := s.fns ++ [{ atttributes := atttributes, name := name,
                                      params := params, return_types := return_types,
                                      block := block }] } := by
    rw [Parse.run_ok _ _ s (.fn .src s.fns.length)
      { s with fns := s.fns ++ [{ atttributes := atttributes, name := name, params := params,
                                  return_types := return_types, block := .null }] } rfl]
    rw [Parse.run_ok _ _ _ ()
      { s with fns := s.fns ++ [{ atttributes := atttributes, name := name, params := params,
                                  return_types := return_types, block := block }] }]
    show Parse.set_fn_block _ _ _ = _
    simp [Parse.set_fn_block]
  rw [h1] at hr
  refine h _ _ r s2 hr ?_
  intro g hg
  simp only [List.mem_append, List.mem_singleton] at hg
  rcases hg with hg | hg
  · exact hs g hg
  · rw [hg]
    exact hb

theorem builds_accept_unqualified_type_body (env : ParserEnv) (p : Parsers)
    (ih : p.building) :
    Parse.builds (fun _ => True) (accept_unqualified_type_body env p) := by
  unfold accept_unqualified_type_body
  apply builds_if_token _ (builds_pure _ _ trivial)
  apply builds_if_token _ (builds_pure _ _ trivial)
  apply builds_if_token _ (builds_pure _ _ trivial)
  apply builds_if_token _ (builds_pure _ _ trivial)
  apply builds_if_token _ (builds_pure _ _ trivial)
  apply builds_if_token _ (builds_pure _ _ trivial)
  apply builds_if_token _ (builds_pure _ _ trivial)
  apply builds_if_token
  · apply builds_then builds_expect_ptr_address_space
    intro as
    apply builds_then ih.accept_unqualified_type
    intro elem_type
    apply builds_expect
    intro _
    exact builds_pure _ _ trivial
  · split
    · apply builds_if_token
      · apply builds_then ih.accept_unqualified_type
        intro elem_type
        apply builds_assert
        intro _
        apply builds_expect_token
        apply builds_then (builds_accept_value env)
        intro expr
        apply builds_expect
        intro _
        apply builds_expect_token
        exact builds_pure _ _ trivial
      · exact builds_pure _ _ trivial
    · exact builds_pure _ _ trivial

theorem builds_accept_maybe_qualified_type_body (p : Parsers) (ih : p.building) :
    Parse.builds (fun _ => True) (accept_maybe_qualified_type_body p) := by
  unfold accept_maybe_qualified_type_body
  apply builds_then builds_accept_uniformity_qualifier
  intro qualifier
  apply builds_then ih.accept_unqualified_type
  intro unqualified
  apply builds_then (builds_when _ _ (builds_expect_alone _ _))
  intro _
  by_cases hq : qualifier = .Unknown
  · rw [if_pos hq]
    exact builds_pure _ _ trivial
  · rw [if_neg hq]
    exact builds_pure _ _ trivial

theorem builds_accept_qualified_type_body (p : Parsers) (ih : p.building) :
    Parse.builds (fun _ => True) (accept_qualified_type_body p) := by
  unfold accept_qualified_type_body
  apply builds_then builds_accept_uniformity_qualifier
  intro qualifier
  by_cases hq : qualifier = .Unknown
  · rw [if_pos hq]
    exact builds_pure _ _ trivial
  · rw [if_neg hq]
    apply builds_then ih.accept_unqualified_type
    intro unqualified
    apply builds_expect
    intro _
    exact builds_pure _ _ trivial

theorem builds_accept_operand_body (env : ParserEnv) (p : Parsers) (ih : p.building) :
    Parse.builds (fun _ => True) (accept_operand_body env p) := by
  unfold accept_operand_body
  by_cases h : env.config.front_end = true
  · rw [if_pos h]
    exact builds_any (ih.accept_expr _)
  · rw [if_neg h]
    exact builds_any (builds_accept_value env)

theorem builds_expect_parameters_body (p : Parsers) (ih : p.building) (d : Bool) :
    Parse.builds (fun _ => True) (expect_parameters_body p d) := by
  unfold expect_parameters_body
  apply builds_expect_token
  exact ih.expect_parameters_loop _ _ _

theorem builds_expect_parameters_loop_body (p : Parsers) (ih : p.building) (d : Bool)
    (ps ds : List Node) :
    Parse.builds (fun _ => True) (expect_parameters_loop_body p d ps ds) := by
  unfold expect_parameters_loop_body
  apply builds_if_token _ (builds_pure _ _ trivial)
  exact ih.expect_parameters_next _ _ _

theorem builds_expect_parameters_next_body (env : ParserEnv) (p : Parsers) (ih : p.building)
    (d : Bool) (ps ds : List Node) :
    Parse.builds (fun _ => True) (expect_parameters_next_body env p d ps ds) := by
  unfold expect_parameters_next_body
  apply builds_then ih.accept_qualified_type
  intro qtype
  apply builds_expect
  intro _
  apply builds_then (builds_accept_identifier env)
  intro id
  cases id with
  | none => exact builds_fault _ _
  | some id =>
    apply builds_then (builds_var _ _)
    intro node
    apply builds_then_with (fun _ => True)
    · cases d
      · exact builds_pure _ _ trivial
      · apply builds_expect_token
        apply builds_then ih.accept_operand
        intro default_val
        exact builds_pure _ _ trivial
    · intro default_vals
      apply builds_if_token
      · exact ih.expect_parameters_next _ _ _
      · exact ih.expect_parameters_loop _ _ _

theorem builds_accept_types_body (p : Parsers) (ih : p.building)
    (separator : Option TokenTag) (expect_qualified : Bool) (types : List Node) :
    Parse.builds (fun _ => True) (accept_types_body p separator expect_qualified types) := by
  unfold accept_types_body
  apply builds_then_with (fun _ => True)
  · cases expect_qualified
    · exact ih.accept_maybe_qualified_type
    · exact ih.accept_qualified_type
  · intro type
    cases type.is_null
    · cases separator with
      | none => exact ih.accept_types _ _ _
      | some tag =>
        apply builds_then (builds_accept_token tag)
        intro _
        exact ih.accept_types _ _ _
    · exact builds_pure _ _ trivial

theorem builds_expect_parenthised_expr_body (env : ParserEnv)
    (htuple : env.tables.tuple_is_value) (p : Parsers) (ih : p.building) :
    Parse.builds (fun r => r.is_expression = true) (expect_parenthised_expr_body env p) := by
  unfold expect_parenthised_expr_body
  apply builds_expect_token
  apply builds_seq (ih.accept_expr _)
  intro expr he
  cases hn : expr.is_null
  · simp only [Bool.false_eq_true, ↓reduceIte]
    apply builds_then builds_curr_token
    intro tok
    by_cases ht : tok.tag ≠ .rpar_tok
    · rw [if_pos ht]
      apply builds_then (ih.expect_parenthised_expr_loop _)
      intro elements
      exact builds_pure _ _ (htuple elements)
    · rw [if_neg ht]
      apply builds_then builds_next_token
      intro _
      exact builds_pure _ _ he
  · simp only [↓reduceIte]
    apply builds_expect_token
    exact builds_pure _ _ rfl

theorem builds_expect_parenthised_expr_loop_body (p : Parsers) (ih : p.building)
    (elements : List Node) :
    Parse.builds (fun _ => True) (expect_parenthised_expr_loop_body p elements) := by
  unfold expect_parenthised_expr_loop_body
  apply builds_if_token _ (builds_pure _ _ trivial)
  apply builds_expect_token
  apply builds_then (ih.accept_expr _)
  intro element
  exact ih.expect_parenthised_expr_loop _

theorem builds_accept_primary_expr_body (env : ParserEnv) (p : Parsers) (ih : p.building) :
    Parse.builds (fun r => r.is_expression = true) (accept_primary_expr_body env p) := by
  unfold accept_primary_expr_body
  apply builds_then builds_curr_token
  intro tok
  split
  · apply builds_then builds_next_token
    intro _
    apply builds_then ih.accept_primary_expr
    intro expr
    apply builds_assert
    intro _
    split
    · exact builds_pure _ _ rfl
    · exact builds_pure _ _ rfl
  · exact ih.expect_parenthised_expr
  · apply builds_seq (builds_accept_value env)
    intro expr he
    apply builds_seq_with (fun r => r.is_expression = true)
    · cases expr.is_null
      · exact builds_pure _ _ he
      · exact ih.accept_primop
    · intro expr1 he1
      exact ih.accept_primary_expr_loop _ he1

theorem builds_accept_primary_expr_loop_body (p : Parsers) (ih : p.building) (expr : Node)
    (he : expr.is_expression = true) :
    Parse.builds (fun r => r.is_expression = true) (accept_primary_expr_loop_body p expr) := by
  unfold accept_primary_expr_loop_body
  cases expr.is_null
  · simp only [Bool.false_eq_true, ↓reduceIte]
    apply builds_then builds_curr_token
    intro tok
    split
    · apply builds_then ih.expect_operands
      intro args
      exact ih.accept_primary_expr_loop _ rfl
    · exact builds_pure _ _ he
  · exact builds_pure _ _ he

theorem builds_accept_expr_body (p : Parsers) (ih : p.building) (outer_precedence : Int) :
    Parse.builds (fun r => r.is_expression = true) (accept_expr_body p outer_precedence) := by
  unfold accept_expr_body
  apply builds_seq ih.accept_primary_expr
  intro expr he
  exact ih.accept_expr_loop _ _ he

theorem builds_accept_expr_loop_body (env : ParserEnv) (p : Parsers) (ih : p.building)
    (outer_precedence : Int) (expr : Node) (he : expr.is_expression = true) :
    Parse.builds (fun r => r.is_expression = true)
      (accept_expr_loop_body env p outer_precedence expr) := by
  unfold accept_expr_loop_body
  cases expr.is_null
  · simp only [Bool.false_eq_true, ↓reduceIte]
    apply builds_then builds_curr_token
    intro tok
    split
    · split
      · exact builds_pure _ _ he
      · apply builds_then builds_next_token
        intro _
        apply builds_then (ih.accept_expr _)
        intro rhs
        apply builds_assert
        intro _
        split
        · exact ih.accept_expr_loop _ _ rfl
        · exact builds_fault _ _
    · apply builds_if_token
      · apply builds_then (ih.accept_expr _)
        intro index
        apply builds_assert
        intro _
        apply builds_expect_token
        exact ih.accept_expr_loop _ _ rfl
      · exact builds_pure _ _ he
  · exact builds_pure _ _ he

theorem builds_expect_operands_body (p : Parsers) (ih : p.building) :
    Parse.builds (fun _ => True) (expect_operands_body p) := by
  unfold expect_operands_body
  apply builds_if_token
  · exact ih.expect_operands_loop _ _
  · exact builds_fault _ _

theorem builds_expect_operands_loop_body (p : Parsers) (ih : p.building)
    (expect_value : Bool) (list : List Node) :
    Parse.builds (fun _ => True) (expect_operands_loop_body p expect_value list) := by
  unfold expect_operands_loop_body
  apply builds_then ih.accept_operand
  intro val
  cases val.is_null
  · simp only [Bool.false_eq_true, ↓reduceIte]
    apply builds_if_token
    · exact ih.expect_operands_loop _ _
    · apply builds_if_token _ (builds_pure _ _ trivial)
      exact builds_fault _ _
  · simp only [↓reduceIte]
    cases expect_value
    · simp only [Bool.false_eq_true, ↓reduceIte]
      apply builds_if_token _ (builds_pure _ _ trivial)
      exact builds_fault _ _
    · exact builds_fault _ _

theorem is_instruction_if (yield_types : List Node) (condition if_true if_false : Node)
    (ht : if_true.is_terminated_block = true)
    (hf : if_false.is_null = true ∨ if_false.is_terminated_block = true) :
    (Node.if_instr yield_types condition if_true if_false).is_instruction = true := by
  have h1 : if_true.blocks_terminated = true := by
    cases if_true <;> simp_all [Node.is_terminated_block]
  have h2 : if_false.blocks_terminated = true := by
    rcases hf with hf | hf
    · cases if_false <;> simp_all [Node.is_null, Node.blocks_terminated]
    · cases if_false <;> simp_all [Node.is_terminated_block]
  simp [Node.is_instruction, Node.is_terminator, Node.blocks_terminated, h1, h2]

theorem is_instruction_loop (params yield_types initial_args : List Node) (body : Node)
    (hb : body.is_terminated_block = true) :
    (Node.loop_instr params yield_types initial_args body).is_instruction = true := by
  have h1 : body.blocks_terminated = true := by
    cases body <;> simp_all [Node.is_terminated_block]
  simp [Node.is_instruction, Node.is_terminator, Node.blocks_terminated, h1]

theorem builds_accept_control_flow_instruction_body (env : ParserEnv) (p : Parsers)
    (ih : p.building) :
    Parse.builds (fun r => r.is_instruction = true)
      (accept_control_flow_instruction_body env p) := by
  unfold accept_control_flow_instruction_body
  have hmerge : ∀ construct,
      (if env.config.front_end = true then Node.merge_construct construct []
        else Node.null).is_null = true ∨
      (if env.config.front_end = true then Node.merge_construct construct []
        else Node.null).is_parsed_terminator = true := by
    intro construct
    cases env.config.front_end
    · exact Or.inl rfl
    · exact Or.inr rfl
  apply builds_then builds_curr_token
  intro tok
  split
  · apply builds_then builds_next_token
    intro _
    apply builds_then (ih.accept_types _ _ _)
    intro yield_types
    apply builds_expect_token
    apply builds_then ih.accept_operand
    intro condition
    apply builds_expect
    intro _
    apply builds_expect_token
    apply builds_seq (ih.expect_block _ (hmerge _))
    intro if_true ht
    apply builds_then (builds_accept_token _)
    intro has_else
    apply builds_seq_with (fun r => r.is_null = true ∨ r.is_terminated_block = true)
    · cases has_else
      · exact builds_pure _ _ (Or.inl rfl)
      · intro s r s1 hr hs
        obtain ⟨h1, h2⟩ := ih.expect_block _ (hmerge _) s r s1 hr hs
        exact ⟨Or.inr h1, h2⟩
    · intro if_false hf
      exact builds_pure _ _ (is_instruction_if _ _ _ _ ht hf)
  · apply builds_then builds_next_token
    intro _
    apply builds_then (ih.accept_types _ _ _)
    intro yield_types
    apply builds_then (ih.expect_parameters _)
    intro parameters
    apply builds_seq (ih.expect_block _ (hmerge _))
    intro body hb
    exact builds_pure _ _ (is_instruction_loop _ _ _ _ hb)
  · exact builds_pure _ _ rfl

theorem builds_accept_primop_body (env : ParserEnv) (p : Parsers) (ih : p.building) :
    Parse.builds (fun r => r.is_expression = true) (accept_primop_body env p) := by
  unfold accept_primop_body
  apply builds_then builds_curr_token
  intro tok
  split
  · apply builds_then builds_next_token
    intro _
    apply builds_expect_token
    apply builds_then ih.accept_unqualified_type
    intro element_type
    apply builds_assert
    intro _
    apply builds_then_with (fun _ => True)
    · by_cases hn : element_type.is_null = true
      · rw [if_pos hn]
        exact builds_pure _ _ trivial
      · rw [if_neg hn]
        apply builds_then (builds_accept_token _)
        intro comma
        exact builds_expect_alone _ _
    · intro _
      apply builds_then ih.accept_operand
      intro ptr
      apply builds_expect
      intro _
      apply builds_expect_token
      exact builds_pure _ _ rfl
  · apply builds_then builds_next_token
    intro _
    apply builds_expect_token
    apply builds_then ih.accept_operand
    intro ptr
    apply builds_expect
    intro _
    apply builds_expect_token
    apply builds_then ih.accept_operand
    intro data
    apply builds_expect
    intro _
    apply builds_expect_token
    exact builds_pure _ _ rfl
  · apply builds_then builds_next_token
    intro _
    apply builds_expect_token
    apply builds_then ih.accept_unqualified_type
    intro element_type
    apply builds_expect
    intro _
    apply builds_expect_token
    exact builds_pure _ _ rfl
  · apply builds_then builds_next_token
    intro _
    apply builds_expect_token
    apply builds_then ih.accept_operand
    intro callee
    apply builds_assert
    intro _
    apply builds_expect_token
    apply builds_then ih.expect_operands
    intro args
    exact builds_pure _ _ rfl
  · split
    · apply builds_then builds_next_token
      intro _
      apply builds_then ih.expect_operands
      intro operands
      exact builds_pure _ _ rfl
    · exact builds_pure _ _ rfl

theorem builds_accept_instruction_body (env : ParserEnv) (p : Parsers) (ih : p.building) :
    Parse.builds (fun r => r.is_instruction = true) (accept_instruction_body env p) := by
  unfold accept_instruction_body
  apply builds_seq_with (fun r => r.is_expression = true)
  · cases env.config.front_end
    · exact ih.accept_primop
    · exact ih.accept_expr _
  · intro instr hi
    cases instr.is_null
    · simp only [Bool.false_eq_true, ↓reduceIte]
      apply builds_expect_token
      exact builds_pure _ _ (is_instruction_of_expression hi)
    · exact ih.accept_control_flow_instruction

theorem builds_expect_identifiers_body (env : ParserEnv) (p : Parsers) (ih : p.building)
    (list : List String) :
    Parse.builds (fun _ => True) (expect_identifiers_body env p list) := by
  unfold expect_identifiers_body
  apply builds_then (builds_accept_identifier env)
  intro id
  cases id with
  | none => exact builds_fault _ _
  | some id =>
    apply builds_if_token
    · exact ih.expect_identifiers _
    · exact builds_pure _ _ trivial

theorem builds_expect_types_and_identifiers_body (env : ParserEnv) (p : Parsers)
    (ih : p.building) (slist : List String) (tlist : List Node) :
    Parse.builds (fun _ => True) (expect_types_and_identifiers_body env p slist tlist) := by
  unfold expect_types_and_identifiers_body
  apply builds_then ih.accept_unqualified_type
  intro type
  apply builds_expect
  intro _
  apply builds_then (builds_accept_identifier env)
  intro id
  cases id with
  | none => exact builds_fault _ _
  | some id =>
    apply builds_if_token
    · exact ih.expect_types_and_identifiers _ _
    · exact builds_pure _ _ trivial

theorem builds_accept_instruction_maybe_with_let_too_body (p : Parsers) (ih : p.building) :
    Parse.builds (fun r => r.is_instruction = true)
      (accept_instruction_maybe_with_let_too_body p) := by
  unfold accept_instruction_maybe_with_let_too_body
  apply builds_if_token
  · apply builds_then (ih.expect_identifiers _)
    intro ids
    apply builds_expect_token
    apply builds_seq ih.accept_instruction
    intro instruction hi
    exact builds_let _ _ hi
  · apply builds_if_token
    · apply builds_then (ih.expect_types_and_identifiers _ _)
      intro ids
      apply builds_expect_token
      apply builds_seq ih.accept_instruction
      intro instruction hi
      exact builds_let_mut _ _ _ hi
    · exact ih.accept_instruction

theorem builds_terminator_args_body (p : Parsers) (ih : p.building) :
    Parse.builds (fun _ => True) (terminator_args_body p) := by
  unfold terminator_args_body
  apply builds_then builds_curr_token
  intro tok
  by_cases h : tok.tag = .lpar_tok
  · rw [if_pos h]
    exact ih.expect_operands
  · rw [if_neg h]
    exact builds_pure _ _ trivial

theorem builds_accept_terminator_body (env : ParserEnv) (p : Parsers) (ih : p.building) :
    Parse.builds (fun r => r.is_null = true ∨ r.is_parsed_terminator = true)
      (accept_terminator_body env p) := by
  unfold accept_terminator_body
  apply builds_then builds_curr_token
  intro tok
  split
  · apply builds_then builds_next_token
    intro _
    apply builds_expect_token
    apply builds_then ih.accept_operand
    intro target
    apply builds_expect_token
    apply builds_expect
    intro _
    apply builds_then ih.terminator_args
    intro args
    exact builds_pure _ _ (Or.inr rfl)
  · apply builds_then builds_next_token
    intro _
    apply builds_expect_token
    apply builds_then (builds_accept_value env)
    intro condition
    apply builds_expect
    intro _
    apply builds_expect_token
    apply builds_then (builds_accept_value env)
    intro true_target
    apply builds_expect
    intro _
    apply builds_expect_token
    apply builds_then (builds_accept_value env)
    intro false_target
    apply builds_expect
    intro _
    apply builds_expect_token
    apply builds_then ih.terminator_args
    intro args
    exact builds_pure _ _ (Or.inr rfl)
  · apply builds_then builds_next_token
    intro _
    apply builds_then ih.terminator_args
    intro args
    exact builds_pure _ _ (Or.inr rfl)
  · apply builds_then builds_next_token
    intro _
    apply builds_then ih.terminator_args
    intro args
    exact builds_pure _ _ (Or.inr rfl)
  · apply builds_then builds_next_token
    intro _
    apply builds_then ih.terminator_args
    intro args
    exact builds_pure _ _ (Or.inr rfl)
  · apply builds_then builds_next_token
    intro _
    apply builds_then ih.terminator_args
    intro args
    exact builds_pure _ _ (Or.inr rfl)
  · apply builds_then builds_next_token
    intro _
    exact builds_pure _ _ (Or.inr rfl)
  · exact builds_pure _ _ (Or.inl rfl)

theorem no_terminator_of_instructions (instructions : List Node)
    (h : ∀ x, x ∈ instructions → x.is_instruction = true) :
    Node.no_terminator instructions = true ∧
      Node.all_blocks_terminated instructions = true := by
  induction instructions with
  | nil => simp [Node.no_terminator, Node.all_blocks_terminated]
  | cons x xs ih =>
    have hx := h x (List.mem_cons_self x xs)
    have hxs := ih (fun y hy => h y (List.mem_cons_of_mem x hy))
    simp only [Node.is_instruction, Bool.and_eq_true, Bool.not_eq_true'] at hx
    simp [Node.no_terminator, Node.all_blocks_terminated, hx.1, hx.2, hxs.1, hxs.2]

theorem is_terminated_block_parsed (instructions : List Node) (terminator : Node)
    (vars conts : List Node) (hi : ∀ x, x ∈ instructions → x.is_instruction = true)
    (ht : terminator.is_parsed_terminator = true) :
    (Node.parsed_block instructions terminator vars conts).is_terminated_block = true := by
  have h := no_terminator_of_instructions instructions hi
  simp [Node.is_terminated_block, Node.blocks_terminated, ht, h.1, h.2]

theorem builds_expect_block_body (p : Parsers) (ih : p.building) (implicit_join : Node)
    (hj : implicit_join.is_null = true ∨ implicit_join.is_parsed_terminator = true) :
    Parse.builds (fun r => r.is_terminated_block = true)
      (expect_block_body p implicit_join) := by
  unfold expect_block_body
  apply builds_expect_token
  apply builds_seq (ih.expect_block_instructions [] (fun x hx => by cases hx))
  intro instrs hi
  apply builds_seq ih.accept_terminator
  intro terminator ht
  apply builds_seq_with (fun r => r.is_parsed_terminator = true)
  · cases hn : terminator.is_null
    · simp only [Bool.false_eq_true, ↓reduceIte]
      apply builds_expect_token
      apply builds_pure
      rcases ht with ht | ht
      · rw [hn] at ht
        cases ht
      · exact ht
    · simp only [↓reduceIte]
      cases hjn : implicit_join.is_null
      · simp only [Bool.false_eq_true, ↓reduceIte]
        apply builds_pure
        rcases hj with hj | hj
        · rw [hjn] at hj
          cases hj
        · exact hj
      · exact builds_fault _ _
  · intro terminator1 ht1
    apply builds_then builds_curr_token
    intro tok
    apply builds_then_with (fun _ => True)
    · by_cases h : tok.tag = .identifier_tok
      · rw [if_pos h]
        exact ih.expect_block_continuations _ _
      · rw [if_neg h]
        exact builds_pure _ _ trivial
    · intro conts
      apply builds_expect_token
      exact builds_pure _ _ (is_terminated_block_parsed _ _ _ _ hi ht1)

theorem builds_expect_block_instructions_body (p : Parsers) (ih : p.building)
    (instructions : List Node) (hl : ∀ x, x ∈ instructions → x.is_instruction = true) :
    Parse.builds (fun r => ∀ x, x ∈ r → x.is_instruction = true)
      (expect_block_instructions_body p instructions) := by
  unfold expect_block_instructions_body
  apply builds_seq ih.accept_instruction_maybe_with_let_too
  intro instruction hi
  cases instruction.is_null
  · simp only [Bool.false_eq_true, ↓reduceIte]
    apply ih.expect_block_instructions
    intro x hx
    rcases List.mem_append.mp hx with h | h
    · exact hl x h
    · rw [List.mem_singleton.mp h]
      exact hi
  · exact builds_pure _ _ hl

theorem builds_expect_block_continuations_body (env : ParserEnv) (p : Parsers)
    (ih : p.building) (conts names : List Node) :
    Parse.builds (fun _ => True) (expect_block_continuations_body env p conts names) := by
  unfold expect_block_continuations_body
  apply builds_then (builds_accept_identifier env)
  intro identifier
  cases identifier with
  | none => exact builds_pure _ _ trivial
  | some identifier =>
    apply builds_expect_token
    apply builds_then (ih.expect_parameters _)
    intro parameters
    apply builds_seq (ih.expect_block .null (Or.inl rfl))
    intro block hb
    apply builds_fn_block _ _ _ _ _ hb
    intro continuation
    apply builds_then (builds_var _ _)
    intro contvar
    exact ih.expect_block_continuations _ _

theorem builds_accept_const_body (env : ParserEnv) (p : Parsers) (ih : p.building) :
    Parse.builds (fun _ => True) (accept_const_body env p) := by
  unfold accept_const_body
  apply builds_if_token
  · apply builds_then ih.accept_unqualified_type
    intro type
    apply builds_then (builds_accept_identifier env)
    intro id
    cases id with
    | none => exact builds_fault _ _
    | some id =>
      apply builds_expect_token
      apply builds_then (builds_accept_value env)
      intro definition
      apply builds_assert
      intro _
      apply builds_expect_token
      exact builds_pure _ _ trivial
  · exact builds_pure _ _ trivial

theorem builds_accept_fn_annotations_body (p : Parsers) (ih : p.building)
    (annotations : FnAttributes) :
    Parse.builds (fun _ => True) (accept_fn_annotations_body p annotations) := by
  unfold accept_fn_annotations_body
  apply builds_if_token
  · exact ih.accept_fn_annotations _
  · exact builds_pure _ _ trivial

theorem builds_accept_fn_decl_body (env : ParserEnv) (p : Parsers) (ih : p.building) :
    Parse.builds (fun _ => True) (accept_fn_decl_body env p) := by
  unfold accept_fn_decl_body
  apply builds_if_token
  · apply builds_then (ih.accept_fn_annotations _)
    intro atttributes
    apply builds_then (builds_accept_identifier env)
    intro id
    cases id with
    | none => exact builds_fault _ _
    | some id =>
      apply builds_then (ih.accept_types _ _ _)
      intro types
      apply builds_then builds_curr_token
      intro tok
      apply builds_expect
      intro _
      apply builds_then (ih.expect_parameters _)
      intro parameters
      have hj : (if types.length = 0 then Node.fn_ret .null types else Node.null).is_null = true
          ∨ (if types.length = 0 then Node.fn_ret .null types
              else Node.null).is_parsed_terminator = true := by
        by_cases h : types.length = 0
        · rw [if_pos h]
          exact Or.inr rfl
        · rw [if_neg h]
          exact Or.inl rfl
      apply builds_seq (ih.expect_block _ hj)
      intro block hb
      apply builds_fn_block _ _ _ _ _ hb
      intro function
      apply builds_assert
      intro _
      exact builds_pure _ _ trivial
  · exact builds_pure _ _ trivial

theorem builds_accept_global_var_decl_body (env : ParserEnv) (p : Parsers) (ih : p.building) :
    Parse.builds (fun _ => True) (accept_global_var_decl_body env p) := by
  unfold accept_global_var_decl_body
  apply builds_then_with (fun _ => True)
  · apply builds_if_token _ (builds_pure _ _ trivial)
    apply builds_if_token _ (builds_pure _ _ trivial)
    apply builds_if_token _ (builds_pure _ _ trivial)
    apply builds_if_token _ (builds_pure _ _ trivial)
    apply builds_if_token _ (builds_pure _ _ trivial)
    apply builds_if_token _ (builds_pure _ _ trivial)
    exact builds_pure _ _ trivial
  · intro as
    cases as with
    | none => exact builds_pure _ _ trivial
    | some as =>
      apply builds_then ih.accept_unqualified_type
      intro type
      apply builds_expect
      intro _
      apply builds_then (builds_accept_identifier env)
      intro id
      cases id with
      | none => exact builds_fault _ _
      | some id =>
        apply builds_then_with (fun _ => True)
        · apply builds_if_token
          · apply builds_then (builds_accept_value env)
            intro initial_value
            apply builds_assert
            intro _
            exact builds_pure _ _ trivial
          · exact builds_pure _ _ trivial
        · intro initial_value
          apply builds_expect_token
          exact builds_pure _ _ trivial

theorem builds_parse_body (p : Parsers) (ih : p.building) (declarations : List Node) :
    Parse.builds (fun _ => True) (parse_body p declarations) := by
  unfold parse_body
  apply builds_then builds_curr_token
  intro token
  by_cases ht : token.tag = .EOF_tok
  · rw [if_pos ht]
    exact builds_pure _ _ trivial
  · rw [if_neg ht]
    apply builds_then ih.accept_const
    intro decl
    apply builds_then_with (fun _ => True)
    · cases decl.is_null
      · exact builds_pure _ _ trivial
      · exact ih.accept_fn_decl
    · intro decl1
      apply builds_then_with (fun _ => True)
      · cases decl1.is_null
        · exact builds_pure _ _ trivial
        · exact ih.accept_global_var_decl
      · intro decl2
        cases decl2.is_null
        · exact ih.parse _
        · exact builds_fault _ _

theorem building_out_of_fuel : Parsers.out_of_fuel.building := by
  constructor <;> intros <;> exact builds_fault _ _

theorem building_step (env : ParserEnv) (htuple : env.tables.tuple_is_value) (p : Parsers)
    (ih : p.building) : (Parsers.step env p).building where
  accept_unqualified_type := builds_accept_unqualified_type_body env p ih
  accept_maybe_qualified_type := builds_accept_maybe_qualified_type_body p ih
  accept_qualified_type := builds_accept_qualified_type_body p ih
  accept_operand := builds_accept_operand_body env p ih
  expect_parameters := builds_expect_parameters_body p ih
  expect_parameters_loop := builds_expect_parameters_loop_body p ih
  expect_parameters_next := builds_expect_parameters_next_body env p ih
  accept_types := builds_accept_types_body p ih
  expect_parenthised_expr := builds_expect_parenthised_expr_body env htuple p ih
  expect_parenthised_expr_loop := builds_expect_parenthised_expr_loop_body p ih
  accept_primary_expr := builds_accept_primary_expr_body env p ih
  accept_primary_expr_loop := builds_accept_primary_expr_loop_body p ih
  accept_expr := builds_accept_expr_body p ih
  accept_expr_loop := builds_accept_expr_loop_body env p ih
  expect_operands := builds_expect_operands_body p ih
  expect_operands_loop := builds_expect_operands_loop_body p ih
  accept_control_flow_instruction := builds_accept_control_flow_instruction_body env p ih
  accept_primop := builds_accept_primop_body env p ih
  accept_instruction := builds_accept_instruction_body env p ih
  expect_identifiers := builds_expect_identifiers_body env p ih
  expect_types_and_identifiers := builds_expect_types_and_identifiers_body env p ih
  accept_instruction_maybe_with_let_too :=
    builds_accept_instruction_maybe_with_let_too_body p ih
  terminator_args := builds_terminator_args_body p ih
  accept_terminator := builds_accept_terminator_body env p ih
  expect_block := builds_expect_block_body p ih
  expect_block_instructions := builds_expect_block_instructions_body p ih
  expect_block_continuations := builds_expect_block_continuations_body env p ih
  accept_const := builds_accept_const_body env p ih
  accept_fn_annotations := builds_accept_fn_annotations_body p ih
  accept_fn_decl := builds_accept_fn_decl_body env p ih
  accept_global_var_decl := builds_accept_global_var_decl_body env p ih
  parse := builds_parse_body p ih

theorem parsers_building (env : ParserEnv) (htuple : env.tables.tuple_is_value) (fuel : Nat) :
    (parsers env fuel).building := by
  induction fuel with
  | zero => exact building_out_of_fuel
  | succ k ih => exact building_step env htuple (parsers env k) ih

theorem example_tables_wf : example_tables.wf := ⟨rfl, rfl⟩

theorem example_tables_tuple : example_tables.tuple_is_value := fun _ => rfl

theorem parse_not_out_of_fuel (env : ParserEnv) (hwf : env.tables.wf) (tokens : List Token)
    (arena : IrArena) (fuel : Nat) (hfuel : 8 * tokens.length + 2 ≤ fuel) :
    parse env fuel tokens arena ≠ .error .out_of_fuel :=
  ((parsers_advancing env hwf fuel).parse []
    { tokens := tokens, arena := arena, fns := [] }).1 hfuel

/-- C39: for every token stream, both configurations and every arena, `parse`
terminates: with a recursion budget of `8 * n + 2` or more for `n` tokens it
never runs out of budget, so that it either returns a root node, having
consumed tokens only, or stops with a diagnostic, a failed assertion or a
fault of the arena; the tables are assumed not to take `EOF_tok` for an
operator or a primop. -/
theorem parse_terminates (env : ParserEnv) (hwf : env.tables.wf) (tokens : List Token)
    (arena : IrArena) (fuel : Nat) (hfuel : 8 * tokens.length + 2 ≤ fuel) :
    (∃ (declarations : List Node) (s : ParserState),
        parse env fuel tokens arena = .ok (.root declarations, s) ∧
        s.tokens.length ≤ tokens.length) ∨
    (∃ fault, parse env fuel tokens arena = .error fault ∧ fault ≠ .out_of_fuel) := by
  cases h : parse env fuel tokens arena with
  | error e =>
    refine Or.inr ⟨e, rfl, ?_⟩
    intro he
    rw [he] at h
    exact parse_not_out_of_fuel env hwf tokens arena fuel hfuel h
  | ok r =>
    obtain ⟨root, s⟩ := r
    obtain ⟨ds, hds⟩ := parse_returns_root env fuel [] _ root s h
    have hlen := (((parsers_advancing env hwf fuel).parse []
      { tokens := tokens, arena := arena, fns := [] }).2 root s h).1
    exact Or.inl ⟨[] ++ ds, s, by rw [hds], hlen⟩

theorem blocks_of_parse (env : ParserEnv) (htuple : env.tables.tuple_is_value) (fuel : Nat)
    (tokens : List Token) (arena : IrArena) (root : Node) (s : ParserState)
    (h : parse env fuel tokens arena = .ok (root, s)) : s.blocks_terminated :=
  ((parsers_building env htuple fuel).parse [] _ root s h
    (fun f hf => by cases hf)).2

theorem terminated_block_inv {block : Node} (h : block.is_terminated_block = true) :
    ∃ instructions terminator vars conts,
      block = .parsed_block instructions terminator vars conts ∧
      terminator.is_parsed_terminator = true ∧
      Node.no_terminator instructions = true ∧
      Node.all_blocks_terminated instructions = true := by
  cases block with
  | parsed_block i t v c =>
    simp only [Node.is_terminated_block, Node.blocks_terminated, Bool.and_eq_true] at h
    exact ⟨i, t, v, c, rfl, h.1.1, h.1.2, h.2⟩
  | _ => simp [Node.is_terminated_block] at h

theorem no_terminator_mem (instructions : List Node)
    (h : Node.no_terminator instructions = true) (x : Node) (hx : x ∈ instructions) :
    x.is_terminator = false := by
  induction instructions with
  | nil => cases hx
  | cons y ys ih =>
    simp only [Node.no_terminator, Bool.and_eq_true, Bool.not_eq_true'] at h
    rcases List.mem_cons.mp hx with hxy | hxy
    · rw [hxy]
      exact h.1
    · exact ih h.2 hxy

theorem expect_block_rejects (env : ParserEnv) (fuel : Nat) (s s2 s3 : ParserState)
    (instrs : List Node) (hopen : s.curr.tag = .lbracket_tok)
    (hinstrs : (parsers env fuel).expect_block_instructions []
      { s with tokens := s.tokens.tail } = .ok (instrs, s2))
    (hterm : (parsers env fuel).accept_terminator s2 = .ok (.null, s3)) :
    expect_block env (fuel + 1) .null s = .error (.error 688) := by
  show expect_block_body (parsers env fuel) .null s = _
  unfold expect_block_body
  rw [Parse.run_ok _ _ s true { s with tokens := s.tokens.tail }
    (by rw [accept_token_eq, if_pos hopen])]
  rw [Parse.run_ok _ _ _ () { s with tokens := s.tokens.tail } rfl]
  rw [Parse.run_ok _ _ _ _ _ hinstrs]
  rw [Parse.run_ok _ _ _ _ _ hterm]
  rfl

/-- C35: every block that the parser produces ends in exactly one terminator
node and has no terminator among its instructions.  After a successful
`parse` the block of every function and continuation is a parsed block whose
terminator is a `Return`, `Branch`, `MergeConstruct` or `Unreachable` node and
whose instructions are no terminators, and the same holds for the blocks
inside its instructions (`is_terminated_block`); every block that
`expect_block` returns is such a block when the implicit terminator it is
given is `NULL` or a terminator; and a block without terminator and without
implicit terminator is rejected with the error of line 688.  The constructor
`tuple` is assumed to build a value. -/
theorem parsed_blocks_end_in_a_terminator (env : ParserEnv)
    (htuple : env.tables.tuple_is_value) (fuel : Nat) :
    (∀ tokens arena root s, parse env fuel tokens arena = .ok (root, s) →
      ∀ f, f ∈ s.fns →
        f.block.is_terminated_block = true ∧
        ∃ instructions terminator vars conts,
          f.block = .parsed_block instructions terminator vars conts ∧
          terminator.is_parsed_terminator = true ∧
          ∀ x, x ∈ instructions → x.is_terminator = false) ∧
    (∀ implicit_join s block s1,
      implicit_join.is_null = true ∨ implicit_join.is_parsed_terminator = true →
      s.blocks_terminated →
      expect_block env fuel implicit_join s = .ok (block, s1) →
      s1.blocks_terminated ∧ block.is_terminated_block = true ∧
      ∃ instructions terminator vars conts,
        block = .parsed_block instructions terminator vars conts ∧
        terminator.is_parsed_terminator = true ∧
        ∀ x, x ∈ instructions → x.is_terminator = false) ∧
    (∀ s s2 s3 instrs, s.curr.tag = .lbracket_tok →
      (parsers env fuel).expect_block_instructions []
        { s with tokens := s.tokens.tail } = .ok (instrs, s2) →
      (parsers env fuel).accept_terminator s2 = .ok (.null, s3) →
      expect_block env (fuel + 1) .null s = .error (.error 688)) := by
  refine ⟨?_, ?_, ?_⟩
  · intro tokens arena root s h f hf
    have hb := blocks_of_parse env htuple fuel tokens arena root s h f hf
    obtain ⟨i, t, v, c, h1, h2, h3, _⟩ := terminated_block_inv hb
    exact ⟨hb, i, t, v, c, h1, h2, no_terminator_mem i h3⟩
  · intro j s block s1 hj hs h
    obtain ⟨hb, hs1⟩ := (parsers_building env htuple fuel).expect_block j hj s block s1 h hs
    obtain ⟨i, t, v, c, h1, h2, h3, _⟩ := terminated_block_inv hb
    exact ⟨hs1, hb, i, t, v, c, h1, h2, no_terminator_mem i h3⟩
  · intro s s2 s3 instrs hopen hinstrs hterm
    exact expect_block_rejects env fuel s s2 s3 instrs hopen hinstrs hterm

/-- Witness of C39: the example tables do not take `EOF_tok` for an operator,
and on the thirteen tokens of `fn main i32() { return (42); }` the budget 106
suffices. -/
theorem parse_terminates_witness :
    example_tables.wf ∧ 8 * example_source_tokens.length + 2 ≤ 106 ∧
    ((∃ (declarations : List Node) (s : ParserState),
        parse (example_env true example_source) 106 example_source_tokens new_arena
          = .ok (.root declarations, s) ∧
        s.tokens.length ≤ example_source_tokens.length) ∨
     (∃ fault, parse (example_env true example_source) 106 example_source_tokens new_arena
          = .error fault ∧ fault ≠ .out_of_fuel)) :=
  ⟨example_tables_wf, by decide,
    parse_terminates (example_env true example_source) example_tables_wf
      example_source_tokens new_arena 106 (by decide)⟩

/-- Witness of C35: the example tables build a record for a tuple, which is a
value; for them the blocks of all functions of a successful `parse` end in a
terminator. -/
theorem parsed_blocks_end_in_a_terminator_witness :
    example_tables.tuple_is_value ∧
    (∀ tokens arena root s,
      parse (example_env true example_source) 13 tokens arena = .ok (root, s) →
      ∀ f, f ∈ s.fns →
        f.block.is_terminated_block = true ∧
        ∃ instructions terminator vars conts,
          f.block = .parsed_block instructions terminator vars conts ∧
          terminator.is_parsed_terminator = true ∧
          ∀ x, x ∈ instructions → x.is_terminator = false) :=
  ⟨example_tables_tuple,
    (parsed_blocks_end_in_a_terminator (example_env true example_source)
      example_tables_tuple 13).1⟩

/-! ### The order in which infix operators bind -/

theorem accept_expr_unfold (env : ParserEnv) (k : Nat) (outer : Int) (s s1 : ParserState)
    (a : Node) (ha : (parsers env k).accept_primary_expr s = .ok (a, s1)) :
    (parsers env (k + 1)).accept_expr outer s = (parsers env k).accept_expr_loop outer a s1 := by
  show accept_expr_body (parsers env k) outer s = _
  unfold accept_expr_body
  exact Parse.run_ok _ _ s a s1 ha

theorem accept_expr_loop_stop (env : ParserEnv) (k : Nat) (outer : Int) (expr : Node)
    (s : ParserState) (he : expr.is_null = false)
    (hop : env.tables.is_infix_operator s.curr.tag = none)
    (hsub : s.curr.tag ≠ .lsbracket_tok) :
    (parsers env (k + 1)).accept_expr_loop outer expr s = .ok (expr, s) := by
  show accept_expr_loop_body env (parsers env k) outer expr s = _
  unfold accept_expr_loop_body
  rw [he]
  simp only [Bool.false_eq_true, ↓reduceIte]
  rw [Parse.run_ok _ _ s s.curr s rfl]
  simp only [hop]
  rw [Parse.run_ok _ _ s false s (by rw [accept_token_eq, if_neg hsub])]
  rfl

theorem accept_expr_loop_break (env : ParserEnv) (k : Nat) (outer : Int) (expr : Node)
    (s : ParserState) (he : expr.is_null = false) (infix_op : Nat)
    (hop : env.tables.is_infix_operator s.curr.tag = some infix_op)
    (hprec : env.tables.get_precedence infix_op > outer) :
    (parsers env (k + 1)).accept_expr_loop outer expr s = .ok (expr, s) := by
  show accept_expr_loop_body env (parsers env k) outer expr s = _
  unfold accept_expr_loop_body
  rw [he]
  simp only [Bool.false_eq_true, ↓reduceIte]
  rw [Parse.run_ok _ _ s s.curr s rfl]
  simp only [hop]
  rw [if_pos hprec]
  rfl

theorem accept_expr_loop_step (env : ParserEnv) (k : Nat) (outer : Int) (expr : Node)
    (s s2 : ParserState) (he : expr.is_null = false) (infix_op : Nat) (rhs : Node) (op : Op)
    (hop : env.tables.is_infix_operator s.curr.tag = some infix_op)
    (hprec : ¬ env.tables.get_precedence infix_op > outer)
    (hrhs : (parsers env k).accept_expr (env.tables.get_precedence infix_op - 1)
      { s with tokens := s.tokens.tail } = .ok (rhs, s2))
    (hr : rhs.is_null = false) (hprim : env.tables.is_primop_op infix_op = some op) :
    (parsers env (k + 1)).accept_expr_loop outer expr s =
      (parsers env k).accept_expr_loop outer (.prim_op op [expr, rhs]) s2 := by
  show accept_expr_loop_body env (parsers env k) outer expr s = _
  unfold accept_expr_loop_body
  rw [he]
  simp only [Bool.false_eq_true, ↓reduceIte]
  rw [Parse.run_ok _ _ s s.curr s rfl]
  simp only [hop]
  rw [if_neg hprec]
  rw [Parse.run_ok _ _ s () { s with tokens := s.tokens.tail } rfl]
  rw [Parse.run_ok _ _ _ rhs s2 hrhs]
  rw [hr]
  rw [Parse.run_ok _ _ s2 () s2 rfl]
  simp only [hprim]

theorem accept_expr_operand (env : ParserEnv) (k : Nat) (outer : Int) (s s1 : ParserState)
    (a : Node) (ha : (parsers env (k + 1)).accept_primary_expr s = .ok (a, s1))
    (hna : a.is_null = false)
    (hstop : env.tables.is_infix_operator s1.curr.tag = none ∧ s1.curr.tag ≠ .lsbracket_tok ∨
      ∃ infix_op, env.tables.is_infix_operator s1.curr.tag = some infix_op ∧
        env.tables.get_precedence infix_op > outer) :
    (parsers env (k + 2)).accept_expr outer s = .ok (a, s1) := by
  rw [accept_expr_unfold env (k + 1) outer s s1 a ha]
  rcases hstop with ⟨h1, h2⟩ | ⟨i, h1, h2⟩
  · exact accept_expr_loop_stop env k outer a s1 hna h1 h2
  · exact accept_expr_loop_break env k outer a s1 hna i h1 h2

/-- C38: infix operators bind by precedence, and operators of equal precedence
associate to the left.  For operands `a`, `b`, `c` that `accept_primary_expr`
parses (with any recursion budget from `n` on) and infix operators `o1`, `o2`
with primops `op1`, `op2` and precedences not above the outer precedence,
followed by a token that is neither an infix operator nor `[`, `accept_expr`
on `a o1 b o2 c` returns `op1(a, op2(b, c))` when the precedence value of `o2`
is smaller than that of `o1`, and `op2(op1(a, b), c)` when the two are equal
or that of `o1` is smaller. -/
theorem infix_operators_bind_by_precedence (env : ParserEnv) (n : Nat) (outer : Int)
    (s0 s1 s2 s3 : ParserState) (a b c : Node) (o1 o2 : Nat) (op1 op2 : Op)
    (ha : ∀ k, n ≤ k → accept_primary_expr env k s0 = .ok (a, s1))
    (hb : ∀ k, n ≤ k →
      accept_primary_expr env k { s1 with tokens := s1.tokens.tail } = .ok (b, s2))
    (hc : ∀ k, n ≤ k →
      accept_primary_expr env k { s2 with tokens := s2.tokens.tail } = .ok (c, s3))
    (hna : a.is_null = false) (hnb : b.is_null = false) (hnc : c.is_null = false)
    (h1 : env.tables.is_infix_operator s1.curr.tag = some o1)
    (h2 : env.tables.is_infix_operator s2.curr.tag = some o2)
    (hend : env.tables.is_infix_operator s3.curr.tag = none)
    (hsub : s3.curr.tag ≠ .lsbracket_tok)
    (hp1 : env.tables.is_primop_op o1 = some op1)
    (hp2 : env.tables.is_primop_op o2 = some op2)
    (ho1 : env.tables.get_precedence o1 ≤ outer)
    (ho2 : env.tables.get_precedence o2 ≤ outer)
    (fuel : Nat) (hfuel : n + 5 ≤ fuel) :
    accept_expr env fuel outer s0 =
      .ok (if env.tables.get_precedence o2 < env.tables.get_precedence o1
            then .prim_op op1 [a, .prim_op op2 [b, c]]
            else .prim_op op2 [.prim_op op1 [a, b], c], s3) := by
  have hn : n ≠ 0 := by
    intro h0
    have h := ha 0 (by omega)
    cases h
  obtain ⟨j, hj⟩ : ∃ j, fuel = j + 1 + 5 := ⟨fuel - 6, by omega⟩
  subst hj
  have hnj : n ≤ j + 1 := by omega
  show (parsers env (j + 1 + 5)).accept_expr outer s0 = _
  rw [accept_expr_unfold env (j + 1 + 4) outer s0 s1 a (ha _ (by omega))]
  by_cases hlt : env.tables.get_precedence o2 < env.tables.get_precedence o1
  · rw [if_pos hlt]
    have hinner : (parsers env (j + 1 + 1)).accept_expr (env.tables.get_precedence o2 - 1)
        { s2 with tokens := s2.tokens.tail } = .ok (c, s3) :=
      accept_expr_operand env j _ _ s3 c (hc _ (by omega)) hnc (Or.inl ⟨hend, hsub⟩)
    have hrhs : (parsers env (j + 1 + 3)).accept_expr (env.tables.get_precedence o1 - 1)
        { s1 with tokens := s1.tokens.tail } = .ok (.prim_op op2 [b, c], s3) := by
      rw [accept_expr_unfold env (j + 1 + 2) _ _ s2 b (hb _ (by omega))]
      rw [accept_expr_loop_step env (j + 1 + 1) _ b s2 s3 hnb o2 c op2 h2 (by omega) hinner
        hnc hp2]
      exact accept_expr_loop_stop env (j + 1) _ _ s3 rfl hend hsub
    rw [accept_expr_loop_step env (j + 1 + 3) outer a s1 s3 hna o1 _ op1 h1 (by omega) hrhs
      rfl hp1]
    exact accept_expr_loop_stop env (j + 1 + 2) _ _ s3 rfl hend hsub
  · rw [if_neg hlt]
    have hrhs : (parsers env (j + 1 + 3)).accept_expr (env.tables.get_precedence o1 - 1)
        { s1 with tokens := s1.tokens.tail } = .ok (b, s2) :=
      accept_expr_operand env (j + 1 + 1) _ _ s2 b (hb _ (by omega)) hnb
        (Or.inr ⟨o2, h2, by omega⟩)
    rw [accept_expr_loop_step env (j + 1 + 3) outer a s1 s2 hna o1 b op1 h1 (by omega) hrhs
      hnb hp1]
    have hinner : (parsers env (j + 1 + 2)).accept_expr (env.tables.get_precedence o2 - 1)
        { s2 with tokens := s2.tokens.tail } = .ok (c, s3) :=
      accept_expr_operand env (j + 1) _ _ s3 c (hc _ (by omega)) hnc (Or.inl ⟨hend, hsub⟩)
    rw [accept_expr_loop_step env (j + 1 + 2) outer (.prim_op op1 [a, b]) s2 s3 rfl o2 c op2 h2
      (by omega) hinner hnc hp2]
    exact accept_expr_loop_stop env (j + 1 + 1) _ _ s3 rfl hend hsub

theorem accept_primary_expr_true (env : ParserEnv) (k : Nat) (tok next : Token)
    (rest : List Token) (arena : IrArena) (fns : List Function) (htok : tok.tag = .true_tok)
    (hnext : next.tag ≠ .lpar_tok) :
    accept_primary_expr env (k + 2) { tokens := tok :: next :: rest, arena := arena, fns := fns }
      = .ok (.true_lit, { tokens := next :: rest, arena := arena, fns := fns }) := by
  show accept_primary_expr_body env (parsers env (k + 1)) _ = _
  unfold accept_primary_expr_body
  rw [Parse.run_ok _ _ _ tok _ rfl]
  simp only [htok]
  rw [Parse.run_ok _ _ _ Node.true_lit
    { tokens := next :: rest, arena := arena, fns := fns }
    (by simp [accept_value, accept_identifier, accept_literal, curr_token, next_token,
          ParserState.curr, htok, bind, pure])]
  rw [Parse.run_ok _ _ _ Node.true_lit
    { tokens := next :: rest, arena := arena, fns := fns } rfl]
  show accept_primary_expr_loop_body (parsers env k) Node.true_lit
    { tokens := next :: rest, arena := arena, fns := fns } = _
  unfold accept_primary_expr_loop_body
  simp only [Node.is_null, Bool.false_eq_true, ↓reduceIte]
  rw [Parse.run_ok _ _ _ next _ rfl]
  have hm : ∀ (x y : Parse Node),
      (match next.tag with
        | TokenTag.lpar_tok => x
        | _ => y) = y := by
    intro x y
    split
    · next h => exact absurd h hnext
    · rfl
  rw [hm]
  rfl

theorem accept_primary_expr_true_from (env : ParserEnv) (tok next : Token)
    (rest : List Token) (arena : IrArena) (fns : List Function) (htok : tok.tag = .true_tok)
    (hnext : next.tag ≠ .lpar_tok) (k : Nat) (hk : 2 ≤ k) :
    accept_primary_expr env k { tokens := tok :: next :: rest, arena := arena, fns := fns }
      = .ok (.true_lit, { tokens := next :: rest, arena := arena, fns := fns }) := by
  obtain ⟨j, rfl⟩ : ∃ j, k = j + 2 := ⟨k - 2, by omega⟩
  exact accept_primary_expr_true env j tok next rest arena fns htok hnext

/-- Witness of C38: with the example tables, in which `*` has the precedence 3
and `+` and `-` have the precedence 4, `true + true * true` parses to
`add(true, mul(true, true))` and `true - true + true` to
`add(sub(true, true), true)`. -/
theorem infix_operators_bind_by_precedence_witness :
    accept_expr (example_env true "true + true * true") 7 max_precedence
        (example_state example_sum_tokens)
      = .ok (.prim_op .add_op [.true_lit, .prim_op .mul_op [.true_lit, .true_lit]],
          example_state [⟨.EOF_tok, 18, 18⟩]) ∧
    accept_expr (example_env true "true - true + true") 7 max_precedence
        (example_state example_difference_tokens)
      = .ok (.prim_op .add_op [.prim_op .sub_op [.true_lit, .true_lit], .true_lit],
          example_state [⟨.EOF_tok, 18, 18⟩]) :=
  ⟨infix_operators_bind_by_precedence (example_env true "true + true * true") 2 max_precedence
      (example_state example_sum_tokens)
      (example_state (example_sum_tokens.drop 1))
      (example_state (example_sum_tokens.drop 3))
      (example_state [⟨.EOF_tok, 18, 18⟩])
      .true_lit .true_lit .true_lit 0 2 .add_op .mul_op
      (accept_primary_expr_true_from _ _ _ _ _ _ rfl (by decide))
      (accept_primary_expr_true_from _ _ _ _ _ _ rfl (by decide))
      (accept_primary_expr_true_from _ _ _ _ _ _ rfl (by decide))
      rfl rfl rfl rfl rfl rfl (by decide) rfl rfl (by decide) (by decide) 7 (by decide),
   infix_operators_bind_by_precedence (example_env true "true - true + true") 2 max_precedence
      (example_state example_difference_tokens)
      (example_state (example_difference_tokens.drop 1))
      (example_state (example_difference_tokens.drop 3))
      (example_state [⟨.EOF_tok, 18, 18⟩])
      .true_lit .true_lit .true_lit 1 0 .sub_op .add_op
      (accept_primary_expr_true_from _ _ _ _ _ _ rfl (by decide))
      (accept_primary_expr_true_from _ _ _ _ _ _ rfl (by decide))
      (accept_primary_expr_true_from _ _ _ _ _ _ rfl (by decide))
      rfl rfl rfl rfl rfl rfl (by decide) rfl rfl (by decide) (by decide) 7 (by decide)⟩

/-! ### Values, and the text of a function that returns 42 -/

theorem accept_value_identifier (env : ParserEnv) (s : ParserState)
    (h : s.curr.tag = .identifier_tok) :
    accept_value env s =
      match intern_token env s.curr { s with tokens := s.tokens.tail } with
      | .ok r => .ok (.unbound r.1, r.2)
      | .error e => .error e := by
  have h1 : accept_value env s =
      ((intern_token env s.curr >>= fun id => (pure (some id) : Parse (Option String))) >>=
        fun id => match id with
          | some id => (pure (Node.unbound id) : Parse Node)
          | none => accept_literal env) { s with tokens := s.tokens.tail } := by
    simp [accept_value, accept_identifier, curr_token, next_token, bind, pure, h]
  rw [h1]
  cases hi : intern_token env s.curr { s with tokens := s.tokens.tail } with
  | error e => simp [bind, hi]
  | ok r => simp [bind, pure, hi]

theorem accept_value_literal (env : ParserEnv) (s : ParserState)
    (h : s.curr.tag = .hex_lit_tok ∨ s.curr.tag = .dec_lit_tok) :
    accept_value env s =
      match intern_token env s.curr { s with tokens := s.tokens.tail } with
      | .ok r => .ok (.untyped_number r.1, r.2)
      | .error e => .error e := by
  have h1 : accept_value env s =
      (intern_token env s.curr >>= fun plaintext =>
        (pure (Node.untyped_number plaintext) : Parse Node))
        { s with tokens := s.tokens.tail } := by
    rcases h with h | h <;>
      simp [accept_value, accept_identifier, accept_literal, curr_token, next_token, bind, pure, h]
  rw [h1]
  cases hi : intern_token env s.curr { s with tokens := s.tokens.tail } with
  | error e => simp [bind, hi]
  | ok r => simp [bind, pure, hi]

theorem accept_value_true (env : ParserEnv) (s : ParserState) (h : s.curr.tag = .true_tok) :
    accept_value env s = .ok (.true_lit, { s with tokens := s.tokens.tail }) := by
  simp [accept_value, accept_identifier, accept_literal, curr_token, next_token, bind, pure, h]

theorem accept_value_false (env : ParserEnv) (s : ParserState) (h : s.curr.tag = .false_tok) :
    accept_value env s = .ok (.false_lit, { s with tokens := s.tokens.tail }) := by
  simp [accept_value, accept_identifier, accept_literal, curr_token, next_token, bind, pure, h]

theorem accept_value_other (env : ParserEnv) (s : ParserState)
    (h1 : s.curr.tag ≠ .identifier_tok) (h2 : s.curr.tag ≠ .hex_lit_tok)
    (h3 : s.curr.tag ≠ .dec_lit_tok) (h4 : s.curr.tag ≠ .true_tok)
    (h5 : s.curr.tag ≠ .false_tok) :
    accept_value env s = .ok (.null, s) := by
  have h : accept_value env s = accept_literal env s := by
    simp [accept_value, accept_identifier, curr_token, bind, pure, h1]
  rw [h]
  have hm : ∀ (a b c d e : Parse Node),
      (match s.curr.tag with
        | .hex_lit_tok => a
        | .dec_lit_tok => b
        | .true_tok => c
        | .false_tok => d
        | _ => e) = e := by
    intro a b c d e
    split
    · next h => exact absurd h h2
    · next h => exact absurd h h3
    · next h => exact absurd h h4
    · next h => exact absurd h h5
    · rfl
  show (match s.curr.tag with
    | .hex_lit_tok => _
    | .dec_lit_tok => _
    | .true_tok => _
    | .false_tok => _
    | _ => (pure Node.null : Parse Node)) s = _
  rw [hm]
  rfl

theorem accept_value_placeholder (env : ParserEnv) (s : ParserState) (r : Node)
    (s1 : ParserState) (h : accept_value env s = .ok (r, s1)) :
    (∃ name, r = .unbound name) ∨ (∃ plaintext, r = .untyped_number plaintext) ∨
      r = .true_lit ∨ r = .false_lit ∨ r = .null := by
  by_cases h1 : s.curr.tag = .identifier_tok
  · rw [accept_value_identifier env s h1] at h
    split at h
    · cases h
      exact Or.inl ⟨_, rfl⟩
    · cases h
  by_cases h2 : s.curr.tag = .hex_lit_tok
  · rw [accept_value_literal env s (Or.inl h2)] at h
    split at h
    · cases h
      exact Or.inr (Or.inl ⟨_, rfl⟩)
    · cases h
  by_cases h3 : s.curr.tag = .dec_lit_tok
  · rw [accept_value_literal env s (Or.inr h3)] at h
    split at h
    · cases h
      exact Or.inr (Or.inl ⟨_, rfl⟩)
    · cases h
  by_cases h4 : s.curr.tag = .true_tok
  · rw [accept_value_true env s h4] at h
    cases h
    exact Or.inr (Or.inr (Or.inl rfl))
  by_cases h5 : s.curr.tag = .false_tok
  · rw [accept_value_false env s h5] at h
    cases h
    exact Or.inr (Or.inr (Or.inr (Or.inl rfl)))
  rw [accept_value_other env s h1 h2 h3 h4 h5] at h
  cases h
  exact Or.inr (Or.inr (Or.inr (Or.inr rfl)))

set_option maxRecDepth 100000 in
/-- C34: the placeholders of `accept_value`.  An identifier token gives an
`Unbound` node and a decimal or hexadecimal literal token an `UntypedNumber`
node, whose text is the string that `string_sized` returns for the bytes of
the token (`intern_token`); `true` and `false` give the literal nodes; every
other token gives `NULL` and leaves the tokens as they are; a `Variable` or
an `IntLiteral` is never produced.  The text is not always that of the token:
`string_sized` looks up and measures the rest of the source text from the
token on, so that for the text `x;` the identifier `x` gets the name `x` in a
new arena, but the name `x;` in an arena that holds the string `x;`. -/
theorem accept_value_placeholders :
    (∀ env s, s.curr.tag = .identifier_tok →
      accept_value env s =
        match intern_token env s.curr { s with tokens := s.tokens.tail } with
        | .ok r => .ok (.unbound r.1, r.2)
        | .error e => .error e) ∧
    (∀ env s, s.curr.tag = .hex_lit_tok ∨ s.curr.tag = .dec_lit_tok →
      accept_value env s =
        match intern_token env s.curr { s with tokens := s.tokens.tail } with
        | .ok r => .ok (.untyped_number r.1, r.2)
        | .error e => .error e) ∧
    (∀ env s, s.curr.tag = .true_tok →
      accept_value env s = .ok (.true_lit, { s with tokens := s.tokens.tail })) ∧
    (∀ env s, s.curr.tag = .false_tok →
      accept_value env s = .ok (.false_lit, { s with tokens := s.tokens.tail })) ∧
    (∀ env s, s.curr.tag ≠ .identifier_tok → s.curr.tag ≠ .hex_lit_tok →
      s.curr.tag ≠ .dec_lit_tok → s.curr.tag ≠ .true_tok → s.curr.tag ≠ .false_tok →
      accept_value env s = .ok (.null, s)) ∧
    (∀ env s r s1, accept_value env s = .ok (r, s1) →
      (∀ type id name, r ≠ .var type id name) ∧ (∀ width value, r ≠ .int_literal width value)) ∧
    (match accept_value (example_env false "x;") (example_state example_identifier_tokens) with
      | .ok r => compare_node r.1 (.unbound "x") &&
          decide (r.2.tokens = example_identifier_tokens.tail)
      | .error _ => false) = true ∧
    (match accept_value (example_env false "x;")
        { tokens := example_identifier_tokens, arena := example_arena_with_text, fns := [] } with
      | .ok r => compare_node r.1 (.unbound "x;") &&
          decide (r.2.tokens = example_identifier_tokens.tail)
      | .error _ => false) = true := by
  refine ⟨accept_value_identifier, accept_value_literal, accept_value_true, accept_value_false,
    accept_value_other, ?_, by decide!, by decide!⟩
  intro env s r s1 h
  rcases accept_value_placeholder env s r s1 h with ⟨n, hn⟩ | ⟨n, hn⟩ | hn | hn | hn <;>
    rw [hn] <;> exact ⟨fun _ _ _ hc => (by cases hc), fun _ _ hc => (by cases hc)⟩

/-- On the tokens of `fn i32 main() { return 42; };` the parser stops at the
second token, whatever the configuration, the tables and the arena are: after
`fn`, `accept_fn_decl` asks for the name of the function and finds the type
`i32` (`expect(id)`, line 777). -/
theorem parse_expects_name_after_fn (env : ParserEnv) (arena : IrArena) (fuel : Nat) :
    parse env (fuel + 3) claimed_source_tokens arena = .error (.expected 777) := rfl

/-- Counterexample of C33: on the tokens of `fn i32 main() { return 42; };`, as
front end and on a new arena, `parse` does not succeed: it stops with the
failed `expect(id)` of line 777. -/
theorem parse_rejects_type_before_name :
    parse (example_env true claimed_source) 13 claimed_source_tokens new_arena
      = .error (.expected 777) :=
  parse_expects_name_after_fn (example_env true claimed_source) new_arena 10

set_option maxRecDepth 100000 in
/-- C33, amended: on the tokens of `fn main i32() { return (42); }`, in which
the name comes before the return types and the returned value stands in
parentheses, `parse` succeeds in both configurations (with the example
tables, from a new arena): the root has the one declaration `main`, a
function with the return types `[i32]` and no parameters, whose block has no
instructions and the terminator `Return` with the single value
`UntypedNumber 42`; all tokens up to `EOF` are consumed. -/
theorem parse_trivial_return :
    ∀ front_end : Bool,
      (match parse (example_env front_end example_source) 13 example_source_tokens new_arena with
        | .ok r => compare_node r.1 (.root [.fn .src 0]) &&
            decide (r.2.tokens = [⟨.EOF_tok, 30, 30⟩]) &&
            (match r.2.fns with
              | [f] => f.same example_main
              | _ => false)
        | .error _ => false) = true := by
  decide!

end Shady
